import Mathlib

/-!
# CDCL core of `sat::solver` (src/sat/sat_solver.cpp)

A shallow embedding of the propagation engine, the trail and the clause
creation path of the SAT solver, followed by theorems about them.

Conventions of the embedding

* `svector<T>` / `vector<T>` become `List T`; `v[i]` is `List.getD` with the
  default written at the use site and `v[i] = x` is `List.set` (an index out
  of range is undefined behaviour in the source and a no-op here).
* `unsigned` counters are `Nat`; the one unsigned subtraction on the
  assignment path (`m_stats.m_conflict - m_canceled[v]`) is taken modulo 2^32.
* The declarations of `sat_types.h`, `sat_watched.h`, `sat_justification.h`,
  `sat_clause.h` and `sat_solver.h` are not part of the sources at hand; the
  types below follow the data model of the specification (section 3).
* DRAT emission, the parallel portfolio, the cleaner / probing / asymmetric
  branching counters and the resource-limit checkpoint are collaborators
  outside the core and carry no state here.
-/

namespace sat

/-! ## Basic types -/

/-- Three valued truth value of a literal. -/
inductive lbool where
  | l_false
  | l_undef
  | l_true
  deriving DecidableEq, Repr, Inhabited

/-- Modelled from the spec: `bool_var`, declared in sat_types.h, is a dense
non-negative integer. -/
abbrev bool_var := Nat

/-- Modelled from the spec: `literal`, declared in sat_types.h, is encoded as
`2 * var + sign_bit`. -/
structure literal where
  m_val : Nat
  deriving DecidableEq, Repr, Inhabited

/-- Modelled from the spec: `literal(v, sign)` of sat_types.h. -/
def mk_literal (v : bool_var) (sign : Bool) : literal :=
  ⟨2 * v + (if sign then 1 else 0)⟩

namespace literal

/-- Modelled from the spec: `literal::index`, the literal indexes arrays
directly. -/
def index (l : literal) : Nat := l.m_val

/-- Modelled from the spec: `literal::var`. -/
def var (l : literal) : bool_var := l.m_val / 2

/-- Modelled from the spec: `literal::sign`, the low bit of the encoding. -/
def sign (l : literal) : Bool := l.m_val % 2 == 1

/-- Modelled from the spec: `operator~` on literals, negation is XOR with 1. -/
def neg (l : literal) : literal := ⟨l.m_val ^^^ 1⟩

end literal

/-- Modelled from the spec: `null_bool_var` of sat_types.h, the largest 31 bit
value. -/
def null_bool_var : bool_var := 2147483647

/-- Modelled from the spec: `null_literal` of sat_types.h denotes absence; it
is the positive literal of `null_bool_var`. -/
def null_literal : literal := ⟨2 * null_bool_var⟩

/-- `UINT_MAX`, the level recorded for an unassigned variable. -/
def UINT_MAX : Nat := 4294967295

/-- Modelled from the spec: clause handle (arena offset) of sat_clause.h. -/
abbrev clause_offset := Nat

/-- Modelled from the spec: `justification` of sat_justification.h, a tagged
union. -/
inductive justification where
  | none
  | binary (l : literal)
  | ternary (l1 l2 : literal)
  | clause (off : clause_offset)
  | ext_justification (idx : Nat)
  deriving DecidableEq, Repr, Inhabited

/-- `justification::is_none`. -/
def justification.is_none : justification → Bool
  | .none => true
  | _ => false

/-- Modelled from the spec: watch entry of sat_watched.h, discriminated by
kind. -/
inductive watched where
  | binary (l : literal) (learned : Bool)
  | ternary (l1 l2 : literal)
  | clause (blocked : literal) (off : clause_offset)
  | ext_constraint (idx : Nat)
  deriving DecidableEq, Repr, Inhabited

/-- Modelled from the spec: `clause` of sat_clause.h, the ordered literals and
the flags and scores listed in the data model. -/
structure clause where
  lits : List literal
  m_learned : Bool := false
  m_used : Bool := false
  m_removed : Bool := false
  m_frozen : Bool := false
  m_reinit_stack : Bool := false
  m_glue : Nat := 0
  m_psm : Nat := 0
  m_inact_rounds : Nat := 0
  deriving DecidableEq, Repr, Inhabited

/-- `clause::size`. -/
def clause.size (c : clause) : Nat := c.lits.length

/-- `c[i]`. -/
def clause.get (c : clause) (i : Nat) : literal := c.lits.getD i null_literal

/-- `c[i] = l`. -/
def clause.set (c : clause) (i : Nat) (l : literal) : clause :=
  { c with lits := c.lits.set i l }

/-- `std::swap(c[i], c[j])`. -/
def clause.swap (c : clause) (i j : Nat) : clause :=
  (c.set i (c.get j)).set j (c.get i)

/-- The statement `if (c[0] == not_l) std::swap(c[0], c[1]);` of the clause
case of `propagate_core`. -/
def clause.swap_watch (c : clause) (not_l : literal) : clause :=
  if c.get 0 == not_l then c.swap 0 1 else c

/-- Cached phase of a variable. -/
inductive phase where
  | POS_PHASE
  | NEG_PHASE
  | PHASE_NOT_AVAILABLE
  deriving DecidableEq, Repr, Inhabited

/-- `static_cast<phase>(sign)`: `POS_PHASE = 0`, `NEG_PHASE = 1`. -/
def phase.of_sign (sign : Bool) : phase :=
  if sign then .NEG_PHASE else .POS_PHASE

/-- Branching heuristic option. -/
inductive branching_heuristic where
  | BH_VSIDS
  | BH_CHB
  | BH_LRB
  deriving DecidableEq, Repr, Inhabited

/-- Modelled from the spec: the phase selection policies `always_true`,
`always_false`, `caching` and `random` of sat_config.h. -/
inductive phase_selection where
  | PS_ALWAYS_TRUE
  | PS_ALWAYS_FALSE
  | PS_CACHING
  | PS_RANDOM
  deriving DecidableEq, Repr, Inhabited

/-- The part of `config` read by the modelled functions.  `m_decay act age`
stands for `static_cast<unsigned>(act * pow(0.95, age))` and
`m_chb_activity is_sat d act` for the activity `update_chb_activity` computes
from the divisor `d` and the old activity, `m_lrb_activity n interval act`
for the activity `unassign_vars` computes under `BH_LRB` from
`n = m_participated[v] + m_reasoned[v]`; these are floating point
computations and are kept abstract.  `m_step_size_min` and `m_step_size_dec`
are doubles in the source and fixed-point numbers here; `m_random_freq` holds
the integer `static_cast<int>(m_random_freq * random_gen::max_value())` that
`next_var` compares the number drawn with. -/
structure config where
  m_drat : Bool := false
  m_branching_heuristic : branching_heuristic := .BH_VSIDS
  m_anti_exploration : Bool := false
  m_decay : Nat → Nat → Nat := fun act _ => act
  m_chb_activity : Bool → Nat → Nat → Nat := fun _ _ act => act
  m_lrb_activity : Nat → Nat → Nat → Nat := fun _ _ act => act
  m_minimize_lemmas : Bool := true
  m_dyn_sub_res : Bool := true
  m_core_minimize : Bool := false
  m_dimacs_display : Bool := false
  m_lookahead_search : Bool := false
  m_lookahead_cube : Bool := false
  m_local_search : Bool := false
  m_num_threads : Nat := 1
  m_local_search_threads : Nat := 0
  m_step_size_min : Nat := 0
  m_step_size_dec : Nat := 0
  m_restart_initial : Nat := 100
  m_gc_initial : Nat := 20000
  m_phase_caching_on : Nat := 400
  m_phase_caching_off : Nat := 100
  m_random_freq : Int := 0
  m_phase : phase_selection := .PS_CACHING

/-- The counters of `stats` touched by the modelled functions. -/
structure stats where
  m_mk_var : Nat := 0
  m_mk_bin_clause : Nat := 0
  m_mk_ter_clause : Nat := 0
  m_mk_clause : Nat := 0
  m_conflict : Nat := 0
  m_propagate : Nat := 0
  m_bin_propagate : Nat := 0
  m_ter_propagate : Nat := 0
  m_non_learned_generation : Nat := 0
  m_minimized_lits : Nat := 0
  m_dyn_sub_res : Nat := 0
  m_decision : Nat := 0
  m_gc_clause : Nat := 0
  m_del_clause : Nat := 0
  deriving DecidableEq, Repr, Inhabited

/-- One entry of the scope stack. -/
structure scope where
  m_trail_lim : Nat
  m_clauses_to_reinit_lim : Nat
  m_inconsistent : Bool
  deriving DecidableEq, Repr, Inhabited

/-- Modelled from the spec: `clause_wrapper` of sat_clause.h, either a binary
clause given by its two literals or a handle of an arena clause. -/
inductive clause_wrapper where
  | bin (l1 l2 : literal)
  | cls (off : clause_offset)
  deriving DecidableEq, Repr, Inhabited

/-- Modelled from the spec: the part of `model_converter` the solver reads,
`max_var(w)`, the largest variable among `w` and the variables the converter
refers to. -/
structure model_converter where
  max_var : bool_var → bool_var := fun w => w

/-- The solver state: the members of `sat::solver` used by the modelled
functions.  The clause arena `m_cls_allocator` is a list indexed by clause
offset; `m_clauses` and `m_learned` hold offsets in place of pointers. -/
structure solver where
  m_config : config := {}
  m_stats : stats := {}
  m_inconsistent : Bool := false
  m_searching : Bool := false
  m_conflict : justification := .none
  m_not_l : literal := null_literal
  m_cls_allocator : List clause := []
  m_clauses : List clause_offset := []
  m_learned : List clause_offset := []
  m_watches : List (List watched) := []
  m_assignment : List lbool := []
  m_justification : List justification := []
  m_decision : List Bool := []
  m_eliminated : List Bool := []
  m_external : List Bool := []
  m_level : List Nat := []
  m_activity : List Nat := []
  m_mark : List Bool := []
  m_lit_mark : List Bool := []
  m_phase : List phase := []
  m_prev_phase : List phase := []
  m_assigned_since_gc : List Bool := []
  m_last_conflict : List Nat := []
  m_last_propagation : List Nat := []
  m_participated : List Nat := []
  m_canceled : List Nat := []
  m_reasoned : List Nat := []
  m_case_split_queue : List bool_var := []
  m_elim_todo : List bool_var := []
  m_trail : List literal := []
  m_qhead : Nat := 0
  m_scope_lvl : Nat := 0
  m_search_lvl : Nat := 0
  m_scopes : List scope := []
  m_clauses_to_reinit : List clause_wrapper := []
  m_user_scope_literals : List literal := []
  m_aux_literals : List literal := []
  m_diff_levels : List Bool := []
  m_model_is_current : Bool := false
  m_lemma : List literal := []
  m_conflict_lvl : Nat := 0
  m_conflicts_since_init : Nat := 0
  m_conflicts_since_restart : Nat := 0
  m_conflicts_since_gc : Nat := 0
  m_step_size : Nat := 0
  m_unmark : List bool_var := []
  m_lemma_min_stack : List bool_var := []
  m_lvl_set : Nat := 0
  m_ext_antecedents : List literal := []
  m_core : List literal := []
  m_assumptions : List literal := []
  m_assumption_set : List literal := []
  m_min_core : List literal := []
  m_min_core_valid : Bool := false
  m_phase_counter : Nat := 0
  m_phase_cache_on : Bool := false
  m_activity_inc : Nat := 128
  m_restart_threshold : Nat := 0
  m_luby_idx : Nat := 1
  m_gc_threshold : Nat := 0
  m_restarts : Nat := 0
  m_reason_unknown : String := ""
  m_rand : Nat := 0
  m_mc : model_converter := {}
  m_user_bin_clauses : List (literal × literal) := []

namespace solver

/-! ## Accessors declared inline in sat_solver.h -/

/-- Modelled from the spec: `num_vars`, the number of variables created. -/
def num_vars (s : solver) : Nat := s.m_level.length

/-- Modelled from the spec: `value(literal)`, the entry of the assignment
array at the literal's index. -/
def value (s : solver) (l : literal) : lbool := s.m_assignment.getD l.index lbool.l_undef

/-- Modelled from the spec: `lvl(bool_var)`. -/
def lvl_var (s : solver) (v : bool_var) : Nat := s.m_level.getD v UINT_MAX

/-- Modelled from the spec: `lvl(literal)`. -/
def lvl (s : solver) (l : literal) : Nat := s.lvl_var l.var

/-- Modelled from the spec: `scope_lvl`, the current scope level. -/
def scope_lvl (s : solver) : Nat := s.m_scope_lvl

/-- Modelled from the spec: `search_lvl`. -/
def search_lvl (s : solver) : Nat := s.m_search_lvl

/-- Modelled from the spec: `at_base_lvl`, scope level 0. -/
def at_base_lvl (s : solver) : Bool := s.m_scope_lvl == 0

/-- Modelled from the spec: `at_search_lvl`. -/
def at_search_lvl (s : solver) : Bool := s.m_scope_lvl == s.search_lvl

/-- Modelled from the spec: `inconsistent`. -/
def inconsistent (s : solver) : Bool := s.m_inconsistent

/-- `m_cls_allocator.get_clause(off)`. -/
def get_clause (s : solver) (off : clause_offset) : clause :=
  s.m_cls_allocator.getD off default

/-- Write back a clause of the arena that was modified in place. -/
def set_clause (s : solver) (off : clause_offset) (c : clause) : solver :=
  { s with m_cls_allocator := s.m_cls_allocator.set off c }

/-- `m_watches[idx]`. -/
def get_wlist (s : solver) (idx : Nat) : List watched := s.m_watches.getD idx []

/-- `m_watches[idx].push_back(w)`. -/
def push_watch (s : solver) (idx : Nat) (w : watched) : solver :=
  { s with m_watches := s.m_watches.set idx (s.get_wlist idx ++ [w]) }

/-! ## Basic -/

/-- `solver::set_conflict(justification c, literal not_l)`. -/
def set_conflict (s : solver) (c : justification) (not_l : literal := null_literal) : solver :=
  if s.m_inconsistent then s
  else { s with m_inconsistent := true, m_conflict := c, m_not_l := not_l }

/-- The unsigned subtraction `m_stats.m_conflict - m_canceled[v]`. -/
def age (s : solver) (v : bool_var) : Nat :=
  (s.m_stats.m_conflict + 4294967296 - s.m_canceled.getD v 0 % 4294967296) % 4294967296

/-- The unconditional writes of `assign_core`: value of both literals,
level, justification, phase, assigned-since-gc flag and the trail. -/
def assign_core_record (s : solver) (l : literal) (j : justification) : solver :=
  { s with
    m_assignment := (s.m_assignment.set l.index .l_true).set l.neg.index .l_false,
    m_level := s.m_level.set l.var s.scope_lvl,
    m_justification := s.m_justification.set l.var j,
    m_phase := s.m_phase.set l.var (phase.of_sign l.sign),
    m_assigned_since_gc := s.m_assigned_since_gc.set l.var true,
    m_trail := s.m_trail ++ [l] }

/-- The `switch (m_config.m_branching_heuristic)` of `assign_core`. -/
def assign_core_branching (s : solver) (v : bool_var) : solver :=
  match s.m_config.m_branching_heuristic with
  | .BH_VSIDS => s
  | .BH_CHB => { s with m_last_propagation := s.m_last_propagation.set v s.m_stats.m_conflict }
  | .BH_LRB => { s with m_participated := s.m_participated.set v 0,
                        m_reasoned := s.m_reasoned.set v 0 }

/-- The `if (m_config.m_anti_exploration)` block of `assign_core`;
`activity_changed_eh` only reorders the decision heap. -/
def assign_core_anti_exploration (s : solver) (v : bool_var) : solver :=
  if s.m_config.m_anti_exploration then
    if s.age v > 0 then
      { s with m_activity := s.m_activity.set v (s.m_config.m_decay (s.m_activity.getD v 0) (s.age v)),
               m_canceled := s.m_canceled.set v s.m_stats.m_conflict }
    else s
  else s

/-- `solver::assign_core(literal l, justification j)`.  The call
`m_ext->asserted(l)` only changes the state of the extension. -/
def assign_core (s : solver) (l : literal) (j : justification) : solver :=
  let j := if s.at_base_lvl then justification.none else j
  let s := s.assign_core_record l j
  let s := s.assign_core_branching l.var
  s.assign_core_anti_exploration l.var

/-- Modelled from the spec: `assign(literal, justification)` of sat_solver.h,
which dispatches on the current value of the literal: a false literal raises
a conflict, an unassigned one is recorded by `assign_core`, a true one is
left alone. -/
def assign (s : solver) (l : literal) (j : justification) : solver :=
  match s.value l with
  | .l_false => s.set_conflict j l.neg
  | lbool.l_undef => s.assign_core l j
  | .l_true => s

/-! ## Glue -/

/-- `m_diff_levels.reserve(sz, false)`: grow the vector to `sz` entries. -/
def reserve (d : List Bool) (sz : Nat) : List Bool :=
  if sz > d.length then d ++ List.replicate (sz - d.length) false else d

/-- First loop of `num_diff_levels_below`: scan literals while
`glue < max_glue`, flagging each level met for the first time.  Returns the
flags, the glue and the number of literals scanned. -/
def num_diff_levels_below_scan (s : solver) (max_glue : Nat) :
    List literal → List Bool → Nat → Nat → List Bool × Nat × Nat
  | [], d, glue, i => (d, glue, i)
  | l :: ls, d, glue, i =>
    if glue < max_glue then
      if d.getD (s.lvl l) false == false then
        num_diff_levels_below_scan s max_glue ls (d.set (s.lvl l) true) (glue + 1) (i + 1)
      else
        num_diff_levels_below_scan s max_glue ls d glue (i + 1)
    else (d, glue, i)

/-- Second loop of `num_diff_levels_below`: reset the flags of the scanned
literals. -/
def reset_diff_levels (s : solver) : List literal → List Bool → List Bool
  | [], d => d
  | l :: ls, d => reset_diff_levels s ls (d.set (s.lvl l) false)

/-- `solver::num_diff_levels_below(num, lits, max_glue, glue)`; the result is
the returned flag, the out-parameter `glue` and the solver. -/
def num_diff_levels_below (s : solver) (lits : List literal) (max_glue : Nat) :
    Bool × Nat × solver :=
  let d := reserve s.m_diff_levels (s.scope_lvl + 1)
  let r := num_diff_levels_below_scan s max_glue lits d 0 0
  let d := reset_diff_levels s (lits.take r.2.2) r.1
  (decide (r.2.1 < max_glue), r.2.1, { s with m_diff_levels := d })

/-! ## Statistics -/

/-- `m_stats.m_bin_propagate++`. -/
def inc_bin_propagate (s : solver) : solver :=
  { s with m_stats := { s.m_stats with m_bin_propagate := s.m_stats.m_bin_propagate + 1 } }

/-- `m_stats.m_ter_propagate++`. -/
def inc_ter_propagate (s : solver) : solver :=
  { s with m_stats := { s.m_stats with m_ter_propagate := s.m_stats.m_ter_propagate + 1 } }

/-- `m_stats.m_propagate++`. -/
def inc_propagate (s : solver) : solver :=
  { s with m_stats := { s.m_stats with m_propagate := s.m_stats.m_propagate + 1 } }

/-! ## Propagation -/

/-- What the body of the watch-list loop of `propagate_core` does with the
entry at `it`: copy an entry to `*it2` and advance, leave it out, or run
`CONFLICT_CLEANUP` and return false.  For a conflict, `skip` tells whether
`it` was advanced past the entry before the clean-up and `c` holds the
arguments of the `set_conflict` call that follows the clean-up, if any. -/
inductive watch_outcome where
  | keep (w : watched)
  | drop
  | conflict (skip : Bool) (c : Option (justification × literal))
  deriving DecidableEq, Repr

/-- The scan `for (l_it = c.begin() + 2; l_it != l_end; ++l_it)` for a literal
that is not false: the index of the first one at or after `i`, where `ls` are
the literals from index `i` on. -/
def find_not_false (s : solver) : List literal → Nat → Option Nat
  | [], _ => none
  | x :: xs, i => if s.value x != .l_false then some i else find_not_false s xs (i + 1)

/-- Case `watched::BINARY` of the loop in `propagate_core`. -/
def propagate_binary (s : solver) (not_l : literal) (l1 : literal) (learned : Bool) :
    solver × watch_outcome :=
  match s.value l1 with
  | .l_false => (s, .conflict false (some (justification.binary not_l, l1.neg)))
  | lbool.l_undef =>
    (s.inc_bin_propagate.assign_core l1 (justification.binary not_l),
      .keep (watched.binary l1 learned))
  | .l_true => (s, .keep (watched.binary l1 learned))

/-- Case `watched::TERNARY` of the loop in `propagate_core`. -/
def propagate_ternary (s : solver) (not_l : literal) (l1 l2 : literal) :
    solver × watch_outcome :=
  let val1 := s.value l1
  let val2 := s.value l2
  if val1 == .l_false && val2 == lbool.l_undef then
    (s.inc_ter_propagate.assign_core l2 (justification.ternary l1 not_l),
      .keep (watched.ternary l1 l2))
  else if val1 == lbool.l_undef && val2 == .l_false then
    (s.inc_ter_propagate.assign_core l1 (justification.ternary l2 not_l),
      .keep (watched.ternary l1 l2))
  else if val1 == .l_false && val2 == .l_false then
    (s, .conflict false (some (justification.ternary l1 not_l, l2.neg)))
  else
    (s, .keep (watched.ternary l1 l2))

/-- The `UPDATE_GLUE` block of the clause case: a learned clause of glue above
2 that just propagated gets the smaller glue found by
`num_diff_levels_below`. -/
def update_glue (s : solver) (update : Bool) (cls_off : clause_offset) (c : clause) : solver :=
  if update && c.m_learned && decide (c.m_glue > 2) then
    let r := s.num_diff_levels_below c.lits (c.m_glue - 1)
    if r.1 then r.2.2.set_clause cls_off { c with m_glue := r.2.1 } else r.2.2
  else s

/-- Clause case, after the scan of `c[2..]` found no literal that is not
false: conflict when `c[0]` is false, unit propagation of `c[0]` otherwise. -/
def propagate_clause_unit (s : solver) (update : Bool) (blocked : literal)
    (cls_off : clause_offset) (c : clause) : solver × watch_outcome :=
  if s.value (c.get 0) == .l_false then
    let c := { c with m_used := true }
    (s.set_clause cls_off c, .conflict false (some (justification.clause cls_off, null_literal)))
  else
    let s := s.inc_propagate
    let c := { c with m_used := true }
    let s := s.set_clause cls_off c
    let s := s.assign_core (c.get 0) (justification.clause cls_off)
    (s.update_glue update cls_off c, .keep (watched.clause blocked cls_off))

/-- Clause case, the scan of `c[2..]` stopped at index `k`: `c[k]` becomes the
new `c[1]`, `not_l` takes its place, a watch is pushed on the list of the
negation of the new `c[1]` and the current entry is not copied. -/
def propagate_clause_replace (s : solver) (not_l : literal) (cls_off : clause_offset)
    (c : clause) (k : Nat) : solver × watch_outcome :=
  let c := (c.set 1 (c.get k)).set k not_l
  let s := s.set_clause cls_off c
  (s.push_watch (c.get 1).neg.index (watched.clause (c.get 0) cls_off), .drop)

/-- Clause case, once `c[1] == not_l` is established for a clause that was not
removed. -/
def propagate_clause_watched (s : solver) (update : Bool) (not_l : literal) (blocked : literal)
    (cls_off : clause_offset) (c : clause) : solver × watch_outcome :=
  if s.value (c.get 0) == .l_true then
    (s, .keep (watched.clause (c.get 0) cls_off))
  else
    match find_not_false s (c.lits.drop 2) 2 with
    | some k => propagate_clause_replace s not_l cls_off c k
    | none => propagate_clause_unit s update blocked cls_off c

/-- Case `watched::CLAUSE` of the loop in `propagate_core`. -/
def propagate_clause (s : solver) (update : Bool) (not_l : literal) (blocked : literal)
    (cls_off : clause_offset) : solver × watch_outcome :=
  if s.value blocked == .l_true then
    (s, .keep (watched.clause blocked cls_off))
  else
    let c := (s.get_clause cls_off).swap_watch not_l
    let s := s.set_clause cls_off c
    if c.m_removed || c.get 1 != not_l then
      (s, .keep (watched.clause blocked cls_off))
    else
      propagate_clause_watched s update not_l blocked cls_off c

/-- The call `m_ext->propagate(l, idx)` of the extension, a collaborator
outside the core: a function from the solver state to the `keep` flag and the
solver state it leaves behind. -/
abbrev ext_propagate := literal → Nat → solver → Bool × solver

/-- Case `watched::EXT_CONSTRAINT` of the loop in `propagate_core`. -/
def propagate_ext (ext : ext_propagate) (s : solver) (l : literal) (idx : Nat) :
    solver × watch_outcome :=
  let r := ext l idx s
  if r.2.m_inconsistent then (r.2, .conflict (!r.1) none)
  else if r.1 then (r.2, .keep (watched.ext_constraint idx))
  else (r.2, .drop)

/-- One iteration of the loop `for (; it != end; ++it)` in `propagate_core`
for the literal `l` taken from the trail, up to the copy into `*it2`. -/
def propagate_watch (ext : ext_propagate) (update : Bool) (s : solver) (l : literal) :
    watched → solver × watch_outcome
  | .binary l1 learned => propagate_binary s l.neg l1 learned
  | .ternary l1 l2 => propagate_ternary s l.neg l1 l2
  | .clause blocked cls_off => propagate_clause s update l.neg blocked cls_off
  | .ext_constraint idx => propagate_ext ext s l idx

/-- `wlist.set_end(it2)` after the copies: the watch list of `l` becomes
`ws`. -/
def set_wlist (s : solver) (l : literal) (ws : List watched) : solver :=
  { s with m_watches := s.m_watches.set l.index ws }

/-- The loop over the watch list of `l` in `propagate_core`.  `kept` are the
entries copied so far (the range before `it2`), the last argument the entries
from `it` to `end`.  Returns false when the loop left through a conflict. -/
def propagate_wlist (ext : ext_propagate) (update : Bool) (l : literal) :
    solver → List watched → List watched → Bool × solver
  | s, kept, [] => (true, s.set_wlist l kept)
  | s, kept, w :: rest =>
    match propagate_watch ext update s l w with
    | (s, .keep w1) => propagate_wlist ext update l s (kept ++ [w1]) rest
    | (s, .drop) => propagate_wlist ext update l s kept rest
    | (s, .conflict skip c) =>
      let s := s.set_wlist l (if skip then kept ++ rest else kept ++ w :: rest)
      match c with
      | some (j, not_l) => (false, s.set_conflict j not_l)
      | none => (false, s)

/-- `m_qhead++`. -/
def inc_qhead (s : solver) : solver := { s with m_qhead := s.m_qhead + 1 }

/-- Body of the loop `while (m_qhead < m_trail.size())` of `propagate_core`
for one trail literal. -/
def propagate_literal (ext : ext_propagate) (update : Bool) (s : solver) : Bool × solver :=
  let l := s.m_trail.getD s.m_qhead null_literal
  let s := s.inc_qhead
  propagate_wlist ext update l s [] (s.get_wlist l.index)

/-- The loop `while (m_qhead < m_trail.size())` of `propagate_core`; `fuel`
bounds the number of iterations and `none` means the bound was reached. -/
def propagate_loop (ext : ext_propagate) (update : Bool) : Nat → solver → Option (Bool × solver)
  | fuel, s =>
    if s.m_qhead < s.m_trail.length then
      match fuel with
      | 0 => none
      | fuel + 1 =>
        if s.m_inconsistent then some (false, s)
        else
          match propagate_literal ext update s with
          | (false, s) => some (false, s)
          | (true, s) => propagate_loop ext update fuel s
    else some (true, s)

/-- `solver::propagate_core(bool update)`. -/
def propagate_core (ext : ext_propagate) (update : Bool) (fuel : Nat) (s : solver) :
    Option (Bool × solver) :=
  if s.m_inconsistent then some (false, s)
  else propagate_loop ext update fuel s

/-! ## Clause normalisation -/

/-- Modelled from the spec: `operator<=` on literals of sat_types.h compares
the encodings. -/
def literal_le (a b : literal) : Prop := a.m_val ≤ b.m_val

instance literal_le_decidable : DecidableRel literal_le :=
  fun a b => inferInstanceAs (Decidable (a.m_val ≤ b.m_val))

instance literal_le_total : IsTotal literal literal_le :=
  ⟨fun a b => Nat.le_total a.m_val b.m_val⟩

instance literal_le_trans : IsTrans literal literal_le :=
  ⟨fun _ _ _ h1 h2 => Nat.le_trans h1 h2⟩

/-- `std::sort(lits, lits + num_lits)`: the literals in ascending order of
their encodings. -/
def sort_literals (lits : List literal) : List literal :=
  lits.insertionSort literal_le

/-- The value `simplify_clause_core` works with: for `lvl0 = false` a literal
assigned above level 0 counts as unassigned. -/
def simplify_value (s : solver) (lvl0 : Bool) (curr : literal) : lbool :=
  if !lvl0 && decide (s.m_level.getD curr.var UINT_MAX > 0) then lbool.l_undef
  else s.value curr

/-- The loop of `simplify_clause_core` over the sorted literals from index `i`
on; `out` holds `lits[0..j)`.  `none` is the early `return false`. -/
def simplify_clause_loop (s : solver) (lvl0 : Bool) :
    List literal → literal → List literal → Option (List literal)
  | [], _, out => some out
  | curr :: rest, prev, out =>
    match s.simplify_value lvl0 curr with
    | .l_false => simplify_clause_loop s lvl0 rest prev out
    | lbool.l_undef =>
      if curr == prev.neg then none
      else if curr != prev then simplify_clause_loop s lvl0 rest curr (out ++ [curr])
      else simplify_clause_loop s lvl0 rest prev out
    | .l_true => none

/-- `solver::simplify_clause_core<lvl0>(num_lits, lits)`: `none` when it
returns false (the caller then drops the array), otherwise the literals
`lits[0..num_lits)` it leaves. -/
def simplify_clause_core (s : solver) (lvl0 : Bool) (lits : List literal) :
    Option (List literal) :=
  simplify_clause_loop s lvl0 (sort_literals lits) null_literal []

/-- `solver::simplify_clause(num_lits, lits)`. -/
def simplify_clause (s : solver) (lits : List literal) : Option (List literal) :=
  if s.at_base_lvl then s.simplify_clause_core true lits
  else s.simplify_clause_core false lits

/-! ## Clause creation -/

/-- Modelled from the spec: `m_cls_allocator.mk_clause(num_lits, lits,
learned)` of sat_clause.cpp, which is not among the sources: a clause with
the given literals and learned flag is placed at a fresh offset of the arena
(its end), the other flags cleared. -/
def alloc_clause (s : solver) (lits : List literal) (learned : Bool) : clause_offset × solver :=
  (s.m_cls_allocator.length,
    { s with m_cls_allocator := s.m_cls_allocator ++ [{ lits := lits, m_learned := learned }] })

/-- `solver::propagate_bin_clause(l1, l2)`. -/
def propagate_bin_clause (s : solver) (l1 l2 : literal) : Bool × solver :=
  if s.value l2 == .l_false then
    (true, s.inc_bin_propagate.assign l1 (.binary l2))
  else if s.value l1 == .l_false then
    (true, s.inc_bin_propagate.assign l2 (.binary l1))
  else (false, s)

/-- `m_stats.m_mk_bin_clause++`. -/
def inc_mk_bin_clause (s : solver) : solver :=
  { s with m_stats := { s.m_stats with m_mk_bin_clause := s.m_stats.m_mk_bin_clause + 1 } }

/-- `m_stats.m_mk_ter_clause++`. -/
def inc_mk_ter_clause (s : solver) : solver :=
  { s with m_stats := { s.m_stats with m_mk_ter_clause := s.m_stats.m_mk_ter_clause + 1 } }

/-- `m_stats.m_mk_clause++`. -/
def inc_mk_clause (s : solver) : solver :=
  { s with m_stats := { s.m_stats with m_mk_clause := s.m_stats.m_mk_clause + 1 } }

/-- `++m_stats.m_non_learned_generation`. -/
def inc_non_learned_generation (s : solver) : solver :=
  { s with m_stats :=
    { s.m_stats with m_non_learned_generation := s.m_stats.m_non_learned_generation + 1 } }

/-- `m_clauses_to_reinit.push_back(cw)`. -/
def push_clauses_to_reinit (s : solver) (cw : clause_wrapper) : solver :=
  { s with m_clauses_to_reinit := s.m_clauses_to_reinit ++ [cw] }

/-- The two `push_back` calls that end `mk_bin_clause`. -/
def push_bin_watches (s : solver) (l1 l2 : literal) (learned : Bool) : solver :=
  (s.push_watch l1.neg.index (.binary l2 learned)).push_watch l2.neg.index (.binary l1 learned)

/-- `solver::mk_bin_clause(l1, l2, learned)`. -/
def mk_bin_clause (s : solver) (l1 l2 : literal) (learned : Bool) : solver :=
  let r := s.propagate_bin_clause l1 l2
  if r.1 && r.2.at_base_lvl then r.2
  else
    let s := if r.1 && !learned && !r.2.at_search_lvl then
        r.2.push_clauses_to_reinit (.bin l1 l2) else r.2
    s.inc_mk_bin_clause.push_bin_watches l1 l2 learned

/-- `solver::push_reinit_stack(c)`. -/
def push_reinit_stack (s : solver) (off : clause_offset) : solver :=
  (s.push_clauses_to_reinit (.cls off)).set_clause off
    { s.get_clause off with m_reinit_stack := true }

/-- The three `push_back` calls that open `attach_ter_clause`. -/
def push_ter_watches (s : solver) (c : clause) : solver :=
  ((s.push_watch (c.get 0).neg.index (.ternary (c.get 1) (c.get 2))).push_watch
      (c.get 1).neg.index (.ternary (c.get 0) (c.get 2))).push_watch
    (c.get 2).neg.index (.ternary (c.get 0) (c.get 1))

/-- `solver::attach_ter_clause(c)`; returns the `reinit` flag. -/
def attach_ter_clause (s : solver) (off : clause_offset) : Bool × solver :=
  let c := s.get_clause off
  let s := s.push_ter_watches c
  if !s.at_base_lvl then
    if s.value (c.get 1) == .l_false && s.value (c.get 2) == .l_false then
      (true, s.inc_ter_propagate.assign (c.get 0) (.ternary (c.get 1) (c.get 2)))
    else if s.value (c.get 0) == .l_false && s.value (c.get 2) == .l_false then
      (true, s.inc_ter_propagate.assign (c.get 1) (.ternary (c.get 0) (c.get 2)))
    else if s.value (c.get 0) == .l_false && s.value (c.get 1) == .l_false then
      (true, s.inc_ter_propagate.assign (c.get 2) (.ternary (c.get 0) (c.get 1)))
    else (false, s)
  else (false, s)

/-- The tail of `mk_ter_clause` and `mk_nary_clause`: the new clause goes to
`m_learned` or to `m_clauses`. -/
def push_clause_vector (s : solver) (off : clause_offset) (learned : Bool) : solver :=
  if learned then { s with m_learned := s.m_learned ++ [off] }
  else { s with m_clauses := s.m_clauses ++ [off] }

/-- `solver::mk_ter_clause(lits, learned)`. -/
def mk_ter_clause (s : solver) (lits : List literal) (learned : Bool) : clause_offset × solver :=
  let r := s.inc_mk_ter_clause.alloc_clause lits learned
  let a := r.2.attach_ter_clause r.1
  let s := if a.1 && !learned then a.2.push_reinit_stack r.1 else a.2
  (r.1, s.push_clause_vector r.1 learned)

/-- The three indices kept by the loop of `select_watch_lit`; `UINT_MAX`
stands for "none yet". -/
structure watch_candidates where
  min_true_idx : Nat := UINT_MAX
  max_false_idx : Nat := UINT_MAX
  unknown_idx : Nat := UINT_MAX
  deriving DecidableEq, Repr

/-- Body of the loop of `select_watch_lit` for index `i`. -/
def select_watch_lit_step (s : solver) (cls : clause) (st : watch_candidates) (i : Nat) :
    watch_candidates :=
  match s.value (cls.get i) with
  | .l_false =>
    if st.max_false_idx = UINT_MAX ∨ s.lvl (cls.get i) > s.lvl (cls.get st.max_false_idx) then
      { st with max_false_idx := i } else st
  | lbool.l_undef => { st with unknown_idx := i }
  | .l_true =>
    if st.min_true_idx = UINT_MAX ∨ s.lvl (cls.get i) < s.lvl (cls.get st.min_true_idx) then
      { st with min_true_idx := i } else st

/-- `solver::select_watch_lit(cls, starting_at)`. -/
def select_watch_lit (s : solver) (cls : clause) (starting_at : Nat) : Nat :=
  let st := (List.range' starting_at (cls.size - starting_at)).foldl
    (select_watch_lit_step s cls) {}
  if st.min_true_idx ≠ UINT_MAX then st.min_true_idx
  else if st.unknown_idx ≠ UINT_MAX then st.unknown_idx
  else st.max_false_idx

/-- Body of the loop of `select_learned_watch_lit` for index `i`. -/
def select_learned_watch_lit_step (s : solver) (cls : clause) (max_false_idx : Nat) (i : Nat) :
    Nat :=
  if max_false_idx = UINT_MAX ∨ s.lvl (cls.get i) > s.lvl (cls.get max_false_idx) then i
  else max_false_idx

/-- `solver::select_learned_watch_lit(cls)`. -/
def select_learned_watch_lit (s : solver) (cls : clause) : Nat :=
  (List.range' 1 (cls.size - 1)).foldl (select_learned_watch_lit_step s cls) UINT_MAX

/-- The watch selection of `attach_nary_clause` above the base level. -/
def select_watches (s : solver) (c : clause) : clause :=
  if c.m_learned then
    c.swap 1 (s.select_learned_watch_lit c)
  else
    let c := c.swap 0 (s.select_watch_lit c 0)
    c.swap 1 (s.select_watch_lit c 1)

/-- The two `push_back` calls that end `attach_nary_clause`; the blocked
literal is `c[c.size() >> 1]`. -/
def push_nary_watches (s : solver) (off : clause_offset) : solver :=
  let c := s.get_clause off
  let block_lit := c.get (c.size / 2)
  (s.push_watch (c.get 0).neg.index (.clause block_lit off)).push_watch
    (c.get 1).neg.index (.clause block_lit off)

/-- `solver::attach_nary_clause(c)`; returns the `reinit` flag. -/
def attach_nary_clause (s : solver) (off : clause_offset) : Bool × solver :=
  let r :=
    if !s.at_base_lvl then
      let c := s.select_watches (s.get_clause off)
      let s := s.set_clause off c
      if s.value (c.get 0) == .l_false then
        (true, s.inc_propagate.assign (c.get 1) (.clause off))
      else if s.value (c.get 1) == .l_false then
        (true, s.inc_propagate.assign (c.get 0) (.clause off))
      else (false, s)
    else (false, s)
  (r.1, r.2.push_nary_watches off)

/-- The check `VERIFY (lits[i] != ~lits[i + 1])` over all adjacent positions
at the head of `mk_nary_clause`. -/
def verify_adjacent : List literal → Bool
  | a :: b :: rest => a != b.neg && verify_adjacent (b :: rest)
  | _ => true

/-- `solver::mk_nary_clause(num_lits, lits, learned)`; `none` when a `VERIFY`
fails, which aborts the program. -/
def mk_nary_clause (s : solver) (lits : List literal) (learned : Bool) :
    Option (clause_offset × solver) :=
  if verify_adjacent lits then
    let r := s.inc_mk_clause.alloc_clause lits learned
    let a := r.2.attach_nary_clause r.1
    let s := if a.1 && !learned then a.2.push_reinit_stack r.1 else a.2
    some (r.1, s.push_clause_vector r.1 learned)
  else none

/-- The `switch (num_lits)` of `mk_clause_core`.  The result is the returned
clause handle (`none` for the null pointer) and the solver; the outer `none`
is the abort of a failed `VERIFY`. -/
def mk_clause_dispatch (s : solver) (lits : List literal) (learned : Bool) :
    Option (Option clause_offset × solver) :=
  match lits.length with
  | 0 => some (none, s.set_conflict .none)
  | 1 => some (none, s.assign (lits.getD 0 null_literal) .none)
  | 2 => some (none, s.mk_bin_clause (lits.getD 0 null_literal) (lits.getD 1 null_literal) learned)
  | 3 =>
    let r := s.mk_ter_clause lits learned
    some (some r.1, r.2)
  | _ =>
    match s.mk_nary_clause lits learned with
    | some r => some (some r.1, r.2)
    | none => none

/-- `solver::mk_clause_core(num_lits, lits, learned)`. -/
def mk_clause_core (s : solver) (lits : List literal) (learned : Bool) :
    Option (Option clause_offset × solver) :=
  if !learned then
    match s.simplify_clause lits with
    | none => some (none, s)
    | some lits => s.inc_non_learned_generation.mk_clause_dispatch lits learned
  else s.mk_clause_dispatch lits learned

/-- An extension that acts on the solver through its interface only (it
assigns literals and raises conflicts): its `propagate` leaves the number of
watch lists and the queue head alone and removes nothing from the trail. -/
structure ext_ok (ext : ext_propagate) : Prop where
  watches_length : ∀ l idx s, (ext l idx s).2.m_watches.length = s.m_watches.length
  qhead : ∀ l idx s, (ext l idx s).2.m_qhead = s.m_qhead
  trail_length : ∀ l idx s, s.m_trail.length ≤ (ext l idx s).2.m_trail.length

/-- The extension without constraints: it keeps every watch and changes
nothing. -/
def no_ext : ext_propagate := fun _ _ s => (true, s)

/-! ## `propagate` and the missed-propagation check -/

/-- Body of the loop of `update_chb_activity` for one trail literal. -/
def update_chb_activity_step (is_sat : Bool) (s : solver) (l : literal) : solver :=
  let v := l.var
  let d := (s.m_stats.m_conflict + 4294967296 - s.m_last_conflict.getD v 0 % 4294967296 + 1)
    % 4294967296
  { s with m_activity :=
      s.m_activity.set v (s.m_config.m_chb_activity is_sat d (s.m_activity.getD v 0)) }

/-- `solver::update_chb_activity(is_sat, qhead)`; `activity_changed_eh` only
reorders the decision heap. -/
def update_chb_activity (s : solver) (is_sat : Bool) (qhead : Nat) : solver :=
  (s.m_trail.drop qhead).foldl (update_chb_activity_step is_sat) s

/-- `solver::propagate(bool update)`; the two `CASSERT`s are debug checks. -/
def propagate (ext : ext_propagate) (update : Bool) (fuel : Nat) (s : solver) :
    Option (Bool × solver) :=
  match propagate_core ext update fuel s with
  | none => none
  | some r =>
    if r.2.m_config.m_branching_heuristic = .BH_CHB then
      some (r.1, r.2.update_chb_activity r.1 s.m_qhead)
    else some r

/-- `solver::is_empty(c)`: all literals of `c` are false. -/
def is_empty (s : solver) (c : clause) : Bool :=
  c.lits.all fun l => s.value l == .l_false

/-- The loop of `is_unit`. -/
def is_unit_loop (s : solver) : List literal → Bool → Bool
  | [], found_undef => found_undef
  | l :: ls, found_undef =>
    match s.value l with
    | lbool.l_undef => if found_undef then false else is_unit_loop s ls true
    | .l_true => false
    | .l_false => is_unit_loop s ls found_undef

/-- `solver::is_unit(c)`: one unassigned literal and no true one. -/
def is_unit (s : solver) (c : clause) : Bool := is_unit_loop s c.lits false

/-- `solver::check_missed_propagation(cs)`; false stands for reaching
`UNREACHABLE()`. -/
def check_missed_propagation_vector (s : solver) (cs : List clause_offset) : Bool :=
  cs.all fun off =>
    (s.get_clause off).m_frozen || !(s.is_empty (s.get_clause off) || s.is_unit (s.get_clause off))

/-- `solver::check_missed_propagation()`. -/
def check_missed_propagation (s : solver) : Bool :=
  if s.inconsistent then true
  else s.check_missed_propagation_vector s.m_clauses
    && s.check_missed_propagation_vector s.m_learned

/-! ## Well-formedness for propagation -/

/-- A watch entry the loop of `propagate_core` can handle on its own: its
literals index the assignment array (of length `n`), its clause handle lies
in the arena (of length `m`), and it is no extension constraint. -/
def watch_ok (n m : Nat) : watched → Bool
  | .binary l _ => decide (l.index < n)
  | .ternary a b => decide (a.index < n) && decide (b.index < n)
  | .clause _ off => decide (off < m)
  | .ext_constraint _ => false

/-- An arena clause with at least two literals, all of them indexing the
assignment array (of length `n`). -/
def clause_ok (n : Nat) (c : clause) : Prop :=
  2 ≤ c.size ∧ ∀ l ∈ c.lits, l.index < n

/-- The solver state is well formed for propagation: every watch entry and
every arena clause is. -/
def propagate_wf (s : solver) : Prop :=
  (∀ ws ∈ s.m_watches, ∀ w ∈ ws,
    watch_ok s.m_assignment.length s.m_cls_allocator.length w = true) ∧
  (∀ c ∈ s.m_cls_allocator, clause_ok s.m_assignment.length c)

instance propagate_wf_decidable (s : solver) : Decidable (propagate_wf s) := by
  unfold propagate_wf clause_ok
  infer_instance

/-- Number of unassigned entries of the assignment array. -/
def undef_count (s : solver) : Nat := s.m_assignment.count lbool.l_undef

/-! ## The invariant of propagation -/

/-- Negation of a truth value. -/
def lbool_neg : lbool → lbool
  | .l_true => .l_false
  | .l_false => .l_true
  | lbool.l_undef => lbool.l_undef

/-- The assignment array holds two entries per variable, and the entries of a
literal and of its negation are complementary. -/
def assignment_consistent (s : solver) : Prop :=
  s.m_assignment.length % 2 = 0 ∧
  ∀ i, i < s.m_assignment.length →
    s.m_assignment.getD (i ^^^ 1) lbool.l_undef
      = lbool_neg (s.m_assignment.getD i lbool.l_undef)

/-- The propagation queue: the trail entries from `qhead` on. -/
def pending (s : solver) : List literal := s.m_trail.drop s.m_qhead

/-- What the invariant of a clause looks at: the value of the literals, the
propagation queue, the watch list of every literal index, and, inside the
loop over the watch list of the literal `cur`, the entries not yet
processed. -/
structure pview where
  val : literal → lbool
  pend : List literal
  wl : Nat → List watched
  cur : literal
  rest : List watched

/-- The clause has a true literal. -/
def pview.true_exists (V : pview) (c : clause) : Prop :=
  ∃ x ∈ c.lits, V.val x = .l_true

/-- The list holds a generic watch for the clause at `off` whose blocked
literal is a literal of the clause. -/
def nary_good (c : clause) (off : clause_offset) (ws : List watched) : Prop :=
  ∃ b ∈ c.lits, watched.clause b off ∈ ws

/-- Invariant of a clause with generic watches: its literals are distinct,
`c[0]` and `c[1]` are watched, and when one of them is false the clause has a
true literal, or the trail entry that falsified it is still in the queue, or
it is the entry being propagated and a watch for the clause is still ahead
in the list. -/
def pview.nary_inv (V : pview) (off : clause_offset) (c : clause) : Prop :=
  c.lits.Nodup ∧ 2 ≤ c.size ∧ c.size ≠ 3 ∧
  ∀ i, i < 2 →
    nary_good c off (V.wl (c.get i).neg.index) ∧
    (V.val (c.get i) = .l_false →
      V.true_exists c ∨ (c.get i).neg ∈ V.pend
        ∨ ((c.get i).neg = V.cur ∧ nary_good c off V.rest))

/-- The list holds the ternary watch of position `i` of the clause: an entry
with the two other literals, in either order. -/
def tern_good (c : clause) (i : Nat) (ws : List watched) : Prop :=
  ∃ j, j < 3 ∧ ∃ k, k < 3 ∧ j ≠ i ∧ k ≠ i ∧ j ≠ k ∧
    watched.ternary (c.get j) (c.get k) ∈ ws

/-- The literal at position `j` is unassigned, or the trail entry that
falsified it is still in the queue or is the one being propagated with the
ternary watch of position `j` still ahead in the list. -/
def pview.waiting (V : pview) (c : clause) (j : Nat) : Prop :=
  V.val (c.get j) = lbool.l_undef ∨ (c.get j).neg ∈ V.pend
    ∨ ((c.get j).neg = V.cur ∧ tern_good c j V.rest)

/-- Invariant of a clause with ternary watches: every position is watched,
and when a literal is false the clause has a true literal, or the trail entry
that falsified it is still to be propagated, or both other literals are
unassigned or falsified by trail entries still to be propagated. -/
def pview.tern_inv (V : pview) (c : clause) : Prop :=
  c.size = 3 ∧
  ∀ i, i < 3 →
    tern_good c i (V.wl (c.get i).neg.index) ∧
    (V.val (c.get i) = .l_false →
      V.true_exists c ∨ (c.get i).neg ∈ V.pend
        ∨ ((c.get i).neg = V.cur ∧ tern_good c i V.rest)
        ∨ (∀ j, j < 3 → j ≠ i → V.waiting c j))

/-- The view `V'` continues the view `V`: true literals stay true, a literal
that is false now was false before or was falsified by an entry now in the
queue, the queue has lost no entry, and the literal being propagated is the
same. -/
structure view_le (V V' : pview) : Prop where
  val_true : ∀ x, V.val x = .l_true → V'.val x = .l_true
  val_false : ∀ x, V'.val x = .l_false → V.val x = .l_false ∨ x.neg ∈ V'.pend
  pend : ∀ x ∈ V.pend, x ∈ V'.pend
  cur : V'.cur = V.cur

/-- Invariant of the binary watches: when the literal whose list holds the
entry is true, the literal of the entry is true, or the trail entry of the
former is still in the queue, or it is the entry being propagated and the
watch is still ahead in the list. -/
def pview.bin_inv (V : pview) : Prop :=
  ∀ x b lrn, watched.binary b lrn ∈ V.wl x.index → V.val x = .l_true →
    V.val b = .l_true ∨ x ∈ V.pend ∨ (x = V.cur ∧ watched.binary b lrn ∈ V.rest)

/-- The watch list of index `x` while the list of `l` is being compacted:
for `l` itself the entries copied so far followed by those still to be
processed. -/
def vlist (s : solver) (l : literal) (kept rest : List watched) (x : Nat) : List watched :=
  if x = l.index then kept ++ rest else s.get_wlist x

/-- The view of the solver inside the loop over the watch list of `l`. -/
def view (s : solver) (l : literal) (kept rest : List watched) : pview :=
  { val := s.value, pend := s.pending, wl := vlist s l kept rest, cur := l, rest := rest }

/-- No generic watch of the list refers to a clause of size 3. -/
def no_ternary_ref (s : solver) (ws : List watched) : Prop :=
  ∀ w ∈ ws, ∀ b off, w = watched.clause b off → (s.get_clause off).size ≠ 3

/-- The part of the invariant that is not about a single clause: the state is
well formed for propagation, the watch and assignment arrays have the same
length, the assignment is consistent, the queue head is within the trail,
every queue entry is true, and generic watches refer to no clause of
size 3. -/
def common_inv (s : solver) : Prop :=
  propagate_wf s ∧ s.m_watches.length = s.m_assignment.length ∧ assignment_consistent s ∧
  s.m_qhead ≤ s.m_trail.length ∧ (∀ x ∈ s.pending, s.value x = .l_true) ∧
  (∀ ws ∈ s.m_watches, no_ternary_ref s ws)

/-- The invariant of the clause at `off` as seen in the view `V`: a live
arena clause watched with ternary or with generic watches. -/
def clause_inv (s : solver) (V : pview) (off : clause_offset) : Prop :=
  off < s.m_cls_allocator.length ∧ (s.get_clause off).m_removed = false ∧
  (V.tern_inv (s.get_clause off) ∨ V.nary_inv off (s.get_clause off))

/-- The invariant inside the loop over the watch list of `l`, with `kept` the
entries copied so far and `rest` the entries still to be processed. -/
def wlist_inv (s : solver) (l : literal) (kept rest : List watched) : Prop :=
  common_inv s ∧ s.value l = .l_true ∧
  (∀ w ∈ kept ++ rest,
    watch_ok s.m_assignment.length s.m_cls_allocator.length w = true) ∧
  no_ternary_ref s (kept ++ rest) ∧
  (∀ off ∈ s.m_clauses ++ s.m_learned, (s.get_clause off).m_frozen = false →
    clause_inv s (view s l kept rest) off) ∧
  (view s l kept rest).bin_inv

/-- What every step of the watch loop guarantees about the solver `s1` it
leaves, relative to the solver `s` it started from. -/
structure step_frame (s s1 : solver) : Prop where
  common : common_inv s1
  val_true : ∀ x, s.value x = .l_true → s1.value x = .l_true
  val_false : ∀ x, s1.value x = .l_false → s.value x = .l_false ∨ x.neg ∈ s1.pending
  pend : ∀ x ∈ s.pending, x ∈ s1.pending
  clauses_eq : s1.m_clauses = s.m_clauses
  learned_eq : s1.m_learned = s.m_learned
  arena_len : s1.m_cls_allocator.length = s.m_cls_allocator.length
  asg_len : s1.m_assignment.length = s.m_assignment.length
  size_eq : ∀ off, (s1.get_clause off).size = (s.get_clause off).size
  frozen_eq : ∀ off, (s1.get_clause off).m_frozen = (s.get_clause off).m_frozen
  removed_eq : ∀ off, (s1.get_clause off).m_removed = (s.get_clause off).m_removed
  wl_mono : ∀ x w, w ∈ s.get_wlist x → w ∈ s1.get_wlist x
  bin_back : ∀ x b lrn, watched.binary b lrn ∈ s1.get_wlist x →
    watched.binary b lrn ∈ s.get_wlist x

/-- The loop invariant after one iteration that left the solver `s1` with
the outcome `o`: the entry was copied, left out, or the loop ends in a
conflict. -/
def wlist_inv_after (s1 : solver) (o : watch_outcome) (l : literal)
    (kept rest : List watched) : Prop :=
  match o with
  | .keep w1 => wlist_inv s1 l (kept ++ [w1]) rest
  | .drop => wlist_inv s1 l kept rest
  | .conflict _ _ => True

/-- The invariant of propagation between two trail literals: every clause of
the clause and learned vectors that is not frozen is watched as its size
requires, and each of its watched literals that is false is either
accompanied by a true literal or still to be propagated; a binary watch in
the list of a true literal has a true literal, or the true literal is still
to be propagated. -/
def propagation_inv (s : solver) : Prop :=
  common_inv s ∧
  (∀ off ∈ s.m_clauses ++ s.m_learned, (s.get_clause off).m_frozen = false →
    clause_inv s (view s null_literal (s.get_wlist null_literal.index) []) off) ∧
  (view s null_literal (s.get_wlist null_literal.index) []).bin_inv

/-- A small solver state used to exercise the theorems: two variables, the
binary clause `x0 ∨ x1` in the watch lists, at scope level 1 with the decision
`¬x0` on the trail and not yet propagated. -/
def example_bin : solver :=
  { m_watches := [[], [.binary ⟨2⟩ false], [], [.binary ⟨0⟩ false]],
    m_assignment := [.l_false, .l_true, lbool.l_undef, lbool.l_undef],
    m_justification := [.none, .none],
    m_decision := [true, true], m_eliminated := [false, false], m_external := [false, false],
    m_level := [1, UINT_MAX], m_activity := [0, 0], m_mark := [false, false],
    m_lit_mark := [false, false, false, false],
    m_phase := [.NEG_PHASE, .PHASE_NOT_AVAILABLE],
    m_prev_phase := [.PHASE_NOT_AVAILABLE, .PHASE_NOT_AVAILABLE],
    m_assigned_since_gc := [true, false], m_last_conflict := [0, 0],
    m_last_propagation := [0, 0], m_participated := [0, 0], m_canceled := [0, 0],
    m_reasoned := [0, 0], m_case_split_queue := [1],
    m_trail := [⟨1⟩], m_qhead := 0, m_scope_lvl := 1,
    m_scopes := [⟨0, 0, false⟩] }

/-- A solver state over four variables at scope level `lvl` with the given
arena, watch lists, assignment, levels and trail; nothing is propagated yet. -/
def example_state (lvl : Nat) (arena : List clause) (ws : List (List watched))
    (asg : List lbool) (levels : List Nat) (trail : List literal) : solver :=
  { m_cls_allocator := arena, m_clauses := List.range arena.length,
    m_watches := ws, m_assignment := asg,
    m_justification := [.none, .none, .none, .none],
    m_decision := [true, true, true, true], m_eliminated := [false, false, false, false],
    m_external := [false, false, false, false],
    m_level := levels, m_activity := [0, 0, 0, 0], m_mark := [false, false, false, false],
    m_lit_mark := List.replicate 8 false,
    m_phase := List.replicate 4 .PHASE_NOT_AVAILABLE,
    m_prev_phase := List.replicate 4 .PHASE_NOT_AVAILABLE,
    m_assigned_since_gc := [false, false, false, false], m_last_conflict := [0, 0, 0, 0],
    m_last_propagation := [0, 0, 0, 0], m_participated := [0, 0, 0, 0],
    m_canceled := [0, 0, 0, 0], m_reasoned := [0, 0, 0, 0],
    m_trail := trail, m_qhead := 0, m_scope_lvl := lvl,
    m_scopes := (List.range lvl).map fun _ => ⟨0, 0, false⟩ }

/-- A base-level state over four variables with `x0` false at level 0 and
nothing else assigned. -/
def example_base : solver :=
  example_state 0 [] [[], [], [], [], [], [], [], []]
    [.l_false, .l_true, lbool.l_undef, lbool.l_undef, lbool.l_undef, lbool.l_undef,
      lbool.l_undef, lbool.l_undef]
    [0, UINT_MAX, UINT_MAX, UINT_MAX] [⟨1⟩]

/-- A state at scope level 1 over four variables with nothing assigned. -/
def example_level1 : solver :=
  example_state 1 [] [[], [], [], [], [], [], [], []]
    [lbool.l_undef, lbool.l_undef, lbool.l_undef, lbool.l_undef, lbool.l_undef, lbool.l_undef,
      lbool.l_undef, lbool.l_undef]
    [UINT_MAX, UINT_MAX, UINT_MAX, UINT_MAX] []

/-- The ternary clause `x0 ∨ x1 ∨ x2` with `¬x0` and `¬x1` decided and `x2`
unassigned. -/
def example_ter : solver :=
  example_state 1 [{ lits := [⟨0⟩, ⟨2⟩, ⟨4⟩] }]
    [[], [.ternary ⟨2⟩ ⟨4⟩], [], [.ternary ⟨0⟩ ⟨4⟩], [], [.ternary ⟨0⟩ ⟨2⟩], [], []]
    [.l_false, .l_true, .l_false, .l_true, lbool.l_undef, lbool.l_undef, lbool.l_undef,
      lbool.l_undef]
    [1, 1, UINT_MAX, UINT_MAX] [⟨1⟩, ⟨3⟩]

/-- The clause `x0 ∨ x1 ∨ x2 ∨ x3`, watched on `x0` and `x1`, with a further
watch for it left over in the list of `¬x2`; `x2` is false. -/
def example_stale : solver :=
  example_state 1 [{ lits := [⟨0⟩, ⟨2⟩, ⟨4⟩, ⟨6⟩] }]
    [[], [.clause ⟨4⟩ 0], [], [.clause ⟨4⟩ 0], [], [.clause ⟨0⟩ 0], [], []]
    [lbool.l_undef, lbool.l_undef, lbool.l_undef, lbool.l_undef, .l_false, .l_true,
      lbool.l_undef, lbool.l_undef]
    [UINT_MAX, UINT_MAX, 1, UINT_MAX] [⟨5⟩]

/-- The clause `x0 ∨ x1 ∨ x2 ∨ x3`, watched on `x0` and `x1`, with `x1`, `x2`
and `x3` false and `x0` unassigned: the clause is unit. -/
def example_unit : solver :=
  example_state 1 [{ lits := [⟨0⟩, ⟨2⟩, ⟨4⟩, ⟨6⟩] }]
    [[], [.clause ⟨4⟩ 0], [], [.clause ⟨4⟩ 0], [], [], [], []]
    [lbool.l_undef, lbool.l_undef, .l_false, .l_true, .l_false, .l_true, .l_false, .l_true]
    [UINT_MAX, 1, 1, 1] [⟨5⟩, ⟨7⟩, ⟨3⟩]

/-- The clause `x0 ∨ x1 ∨ x2 ∨ x3`, watched on `x0` and `x1`, with `x1` and
`x2` false and `x0`, `x3` unassigned: the watch on `x1` can move to `x3`. -/
def example_move : solver :=
  example_state 1 [{ lits := [⟨0⟩, ⟨2⟩, ⟨4⟩, ⟨6⟩] }]
    [[], [.clause ⟨4⟩ 0], [], [.clause ⟨4⟩ 0], [], [], [], []]
    [lbool.l_undef, lbool.l_undef, .l_false, .l_true, .l_false, .l_true, lbool.l_undef,
      lbool.l_undef]
    [UINT_MAX, 1, 1, UINT_MAX] [⟨5⟩, ⟨3⟩]


/-! ## Variable creation -/

/-- Modelled from the spec: `m_case_split_queue.mk_var_eh(v)` of
sat_var_queue.h; the decision queue is a heap keyed by activity, kept here as
the list of its members, and the new variable enters it. -/
def mk_var_eh (q : List bool_var) (v : bool_var) : List bool_var := q ++ [v]

/-- Modelled from the spec: `m_case_split_queue.unassign_var_eh(v)` of
sat_var_queue.h: the variable is re-enqueued unless it is a member already. -/
def unassign_var_eh (q : List bool_var) (v : bool_var) : List bool_var :=
  if v ∈ q then q else q ++ [v]

/-- `solver::mk_var(ext, dvar)`; `m_simplifier.insert_elim_todo(v)` records the
variable in the to-do list of the simplifier. -/
def mk_var (s : solver) (ext dvar : Bool) : bool_var × solver :=
  (s.m_level.length,
    { s with
      m_model_is_current := false,
      m_stats := { s.m_stats with m_mk_var := s.m_stats.m_mk_var + 1 },
      m_watches := s.m_watches ++ [[], []],
      m_assignment := s.m_assignment ++ [lbool.l_undef, lbool.l_undef],
      m_justification := s.m_justification ++ [justification.none],
      m_decision := s.m_decision ++ [dvar],
      m_eliminated := s.m_eliminated ++ [false],
      m_external := s.m_external ++ [ext],
      m_activity := s.m_activity ++ [0],
      m_level := s.m_level ++ [UINT_MAX],
      m_mark := s.m_mark ++ [false],
      m_lit_mark := s.m_lit_mark ++ [false, false],
      m_phase := s.m_phase ++ [phase.PHASE_NOT_AVAILABLE],
      m_prev_phase := s.m_prev_phase ++ [phase.PHASE_NOT_AVAILABLE],
      m_assigned_since_gc := s.m_assigned_since_gc ++ [false],
      m_last_conflict := s.m_last_conflict ++ [0],
      m_last_propagation := s.m_last_propagation ++ [0],
      m_participated := s.m_participated ++ [0],
      m_canceled := s.m_canceled ++ [0],
      m_reasoned := s.m_reasoned ++ [0],
      m_case_split_queue := mk_var_eh s.m_case_split_queue s.m_level.length,
      m_elim_todo := s.m_elim_todo ++ [s.m_level.length] })

/-! ## Backtracking -/

/-- `solver::push()`; `m_ext->push()` only changes the state of the
extension. -/
def push (s : solver) : solver :=
  { s with
    m_scopes := s.m_scopes ++
      [⟨s.m_trail.length, s.m_clauses_to_reinit.length, s.m_inconsistent⟩],
    m_scope_lvl := s.m_scope_lvl + 1 }

/-- The writes of the loop of `unassign_vars` that do not depend on the
configuration: both literals of the variable become unassigned and the
variable is handed back to the decision queue. -/
def unassign_var_record (s : solver) (l : literal) : solver :=
  { s with
    m_assignment := (s.m_assignment.set l.index lbool.l_undef).set l.neg.index lbool.l_undef,
    m_case_split_queue := unassign_var_eh s.m_case_split_queue l.var }

/-- The 64 bit difference `m_stats.m_conflict - m_last_propagation[v]`. -/
def lrb_interval (s : solver) (v : bool_var) : Nat :=
  (s.m_stats.m_conflict + 2 ^ 64 - s.m_last_propagation.getD v 0 % 2 ^ 64) % 2 ^ 64

/-- The `if (m_config.m_branching_heuristic == BH_LRB)` block of
`unassign_vars`. -/
def unassign_var_lrb (s : solver) (v : bool_var) : solver :=
  if s.m_config.m_branching_heuristic = .BH_LRB then
    if s.lrb_interval v > 0 then
      { s with m_activity := (s.m_activity.set v
          (s.m_config.m_lrb_activity (s.m_participated.getD v 0 + s.m_reasoned.getD v 0)
            (s.lrb_interval v) (s.m_activity.getD v 0))) }
    else s
  else s

/-- The `if (m_config.m_anti_exploration)` block of `unassign_vars`. -/
def unassign_var_anti_exploration (s : solver) (v : bool_var) : solver :=
  if s.m_config.m_anti_exploration then
    { s with m_canceled := s.m_canceled.set v s.m_stats.m_conflict }
  else s

/-- Body of the loop of `unassign_vars` for the trail literal `l`. -/
def unassign_var (s : solver) (l : literal) : solver :=
  ((s.unassign_var_record l).unassign_var_lrb l.var).unassign_var_anti_exploration l.var

/-- `m_trail.shrink(old_sz); m_qhead = old_sz;`. -/
def shrink_trail (s : solver) (old_sz : Nat) : solver :=
  { s with m_trail := s.m_trail.take old_sz, m_qhead := old_sz }

/-- `solver::unassign_vars(old_sz)`: the trail entries from the last one down
to position `old_sz` are unassigned, then the trail is cut. -/
def unassign_vars (s : solver) (old_sz : Nat) : solver :=
  ((s.m_trail.drop old_sz).reverse.foldl unassign_var s).shrink_trail old_sz

/-- Modelled from the spec: `erase_clause_watch(wlist, off)` of
sat_watched.cpp, which scans for the generic watch with the matching offset
and removes it. -/
def erase_clause_watch : List watched → clause_offset → List watched
  | [], _ => []
  | .clause b o :: ws, off =>
    if o = off then ws else .clause b o :: erase_clause_watch ws off
  | w :: ws, off => w :: erase_clause_watch ws off

/-- Modelled from the spec: `erase_ternary_watch(wlist, l1, l2)` of
sat_watched.cpp, which removes the ternary watch with these literals. -/
def erase_ternary_watch (ws : List watched) (l1 l2 : literal) : List watched :=
  ws.erase (.ternary l1 l2)

/-- `m_watches[idx] = ws`. -/
def set_wlist_at (s : solver) (idx : Nat) (ws : List watched) : solver :=
  { s with m_watches := s.m_watches.set idx ws }

/-- `solver::detach_nary_clause(c)`. -/
def detach_nary_clause (s : solver) (off : clause_offset) : solver :=
  let c := s.get_clause off
  let s := s.set_wlist_at (c.get 0).neg.index
    (erase_clause_watch (s.get_wlist (c.get 0).neg.index) off)
  s.set_wlist_at (c.get 1).neg.index (erase_clause_watch (s.get_wlist (c.get 1).neg.index) off)

/-- `solver::detach_ter_clause(c)`. -/
def detach_ter_clause (s : solver) (off : clause_offset) : solver :=
  let c := s.get_clause off
  let s := s.set_wlist_at (c.get 0).neg.index
    (erase_ternary_watch (s.get_wlist (c.get 0).neg.index) (c.get 1) (c.get 2))
  let s := s.set_wlist_at (c.get 1).neg.index
    (erase_ternary_watch (s.get_wlist (c.get 1).neg.index) (c.get 0) (c.get 2))
  s.set_wlist_at (c.get 2).neg.index
    (erase_ternary_watch (s.get_wlist (c.get 2).neg.index) (c.get 0) (c.get 1))

/-- `solver::detach_clause(c)`. -/
def detach_clause (s : solver) (off : clause_offset) : solver :=
  if (s.get_clause off).size = 3 then s.detach_ter_clause off else s.detach_nary_clause off

/-- `solver::attach_clause(c, reinit)`; returns the `reinit` flag. -/
def attach_clause (s : solver) (off : clause_offset) : Bool × solver :=
  if (s.get_clause off).size = 3 then s.attach_ter_clause off else s.attach_nary_clause off

/-- `c.set_reinit_stack(false)`. -/
def clear_reinit_stack (s : solver) (off : clause_offset) : solver :=
  s.set_clause off { s.get_clause off with m_reinit_stack := false }

/-- Body of the loop of `reinit_clauses` for the entry `cw`; `kept` are the
entries written back to `m_clauses_to_reinit[old_sz..j)` so far. -/
def reinit_clause (st : solver × List clause_wrapper) (cw : clause_wrapper) :
    solver × List clause_wrapper :=
  match cw with
  | .bin l1 l2 =>
    let r := st.1.propagate_bin_clause l1 l2
    if r.1 && !r.2.at_base_lvl then (r.2, st.2 ++ [cw]) else (r.2, st.2)
  | .cls off =>
    let r := (st.1.detach_clause off).attach_clause off
    if !r.2.at_base_lvl && r.1 then (r.2, st.2 ++ [cw])
    else (r.2.clear_reinit_stack off, st.2)

/-- `m_clauses_to_reinit.shrink(j)` after the loop of `reinit_clauses`. -/
def set_clauses_to_reinit (s : solver) (cws : List clause_wrapper) : solver :=
  { s with m_clauses_to_reinit := cws }

/-- `solver::reinit_clauses(old_sz)`. -/
def reinit_clauses (s : solver) (old_sz : Nat) : solver :=
  let r := (s.m_clauses_to_reinit.drop old_sz).foldl reinit_clause (s, [])
  r.1.set_clauses_to_reinit (s.m_clauses_to_reinit.take old_sz ++ r.2)

/-- `m_inconsistent = false`. -/
def reset_inconsistent (s : solver) : solver := { s with m_inconsistent := false }

/-- `m_scope_lvl -= num_scopes; m_scopes.shrink(new_lvl);`. -/
def shrink_scopes (s : solver) (num_scopes new_lvl : Nat) : solver :=
  { s with m_scope_lvl := s.m_scope_lvl - num_scopes, m_scopes := s.m_scopes.take new_lvl }

/-- The scope entry `m_scopes[new_lvl]` that `pop(num_scopes)` reads, with
`new_lvl = scope_lvl() - num_scopes`. -/
def pop_scope (s : solver) (num_scopes : Nat) : scope :=
  s.m_scopes.getD (s.scope_lvl - num_scopes) ⟨0, 0, false⟩

/-- `solver::pop(num_scopes)`; the source asserts `num_scopes <= scope_lvl()`.
The calls `m_ext->pop` and `m_ext->pop_reinit` only change the state of the
extension. -/
def pop (s : solver) (num_scopes : Nat) : solver :=
  if num_scopes = 0 then s
  else
    ((s.reset_inconsistent.unassign_vars (s.pop_scope num_scopes).m_trail_lim).shrink_scopes
      num_scopes (s.scope_lvl - num_scopes)).reinit_clauses
        (s.pop_scope num_scopes).m_clauses_to_reinit_lim

/-- `solver::tracking_assumptions()`. -/
def tracking_assumptions (s : solver) : Bool :=
  !s.m_assumptions.isEmpty || !s.m_user_scope_literals.isEmpty

/-- The loops `for (i = 0; !inconsistent() && i < n; ++i) assign(lits[i],
justification())`. -/
def assign_each (s : solver) (lits : List literal) : solver :=
  lits.foldl (fun s l => if s.m_inconsistent then s else s.assign l .none) s

/-- `solver::reinit_assumptions()`. -/
def reinit_assumptions (s : solver) : solver :=
  if s.tracking_assumptions && s.at_base_lvl then
    (s.push.assign_each (s.m_user_scope_literals.map literal.neg)).assign_each s.m_assumptions
  else s

/-- `solver::pop_reinit(num_scopes)`; `exchange_par` does nothing without a
parallel portfolio. -/
def pop_reinit (s : solver) (num_scopes : Nat) : solver :=
  (s.pop num_scopes).reinit_assumptions

/-! ## States reached by creating variables, assigning and unassigning -/

/-- The states reached from a solver without variables by `mk_var`, by
`assign_core` on an unassigned literal of an existing variable, by
`unassign_vars`, and by steps that leave the assignment, the trail and the
number of variables alone. -/
inductive assign_reachable : solver → Prop
  | init (s : solver) : s.m_assignment = [] → s.m_level = [] → s.m_trail = [] →
      assign_reachable s
  | mk_var (s : solver) (ext dvar : Bool) : assign_reachable s →
      assign_reachable (s.mk_var ext dvar).2
  | assign_core (s : solver) (l : literal) (j : justification) : assign_reachable s →
      s.value l = lbool.l_undef → l.var < s.num_vars → assign_reachable (s.assign_core l j)
  | unassign_vars (s : solver) (old_sz : Nat) : assign_reachable s →
      old_sz ≤ s.m_trail.length → assign_reachable (s.unassign_vars old_sz)
  | frame (s s1 : solver) : assign_reachable s → s1.m_assignment = s.m_assignment →
      s1.m_level.length = s.m_level.length → s1.m_trail = s.m_trail → assign_reachable s1

/-- The invariant of the assignment and the trail: two complementary
assignment entries per variable, the trail holds exactly the true literals,
each of them once. -/
def assignment_inv (s : solver) : Prop :=
  assignment_consistent s ∧ s.m_assignment.length = 2 * s.num_vars ∧
  (∀ l : literal, l ∈ s.m_trail ↔ s.value l = .l_true) ∧ s.m_trail.Nodup

/-- The states reached from a solver without variables by `mk_var`, by
`assign_core` on an unassigned literal of an existing variable at a scope
level below `UINT_MAX`, by `unassign_vars`, and by steps that leave the
assignment and the levels alone (among them the changes of the scope level
by `push` and `pop`). -/
inductive level_reachable : solver → Prop
  | init (s : solver) : s.m_assignment = [] → s.m_level = [] → level_reachable s
  | mk_var (s : solver) (ext dvar : Bool) : level_reachable s →
      level_reachable (s.mk_var ext dvar).2
  | assign_core (s : solver) (l : literal) (j : justification) : level_reachable s →
      s.value l = lbool.l_undef → l.var < s.num_vars → s.scope_lvl < UINT_MAX →
      level_reachable (s.assign_core l j)
  | unassign_vars (s : solver) (old_sz : Nat) : level_reachable s →
      level_reachable (s.unassign_vars old_sz)
  | frame (s s1 : solver) : level_reachable s → s1.m_assignment = s.m_assignment →
      s1.m_level = s.m_level → level_reachable s1

/-- The solver `s1` continues `s` by assignments only: the trail is extended,
the queue head and the scope stack are as before, and what was assigned
keeps its value and its level. -/
structure assign_ext (s s1 : solver) : Prop where
  trail : ∃ extra, s1.m_trail = s.m_trail ++ extra
  qhead : s1.m_qhead = s.m_qhead
  scope_lvl : s1.m_scope_lvl = s.m_scope_lvl
  scopes : s1.m_scopes = s.m_scopes
  asg_len : s1.m_assignment.length = s.m_assignment.length
  level_len : s1.m_level.length = s.m_level.length
  consistent : assignment_consistent s → assignment_consistent s1
  value : assignment_consistent s → ∀ x, s.value x ≠ lbool.l_undef → s1.value x = s.value x
  level : assignment_consistent s → ∀ x, s.value x ≠ lbool.l_undef → s1.lvl x = s.lvl x

/-- A state built through the interface: two variables, `x0` assigned and
then `¬x1`, and the second assignment undone. -/
def example_undo : solver :=
  ((((({} : solver).mk_var false true).2.mk_var false true).2.assign_core ⟨0⟩ .none).assign_core
    ⟨3⟩ .none).unassign_vars 1

/-- A state built through the interface: two variables, one scope, the
decision `¬x1` and `x0` propagated from it with the justification of the
binary clause `x0 ∨ x1`. -/
def example_pop : solver :=
  ((((({} : solver).mk_var false true).2.mk_var false true).2.push.assign_core ⟨3⟩ .none).assign_core
    ⟨0⟩ (.binary ⟨2⟩))

/-- A state built through the interface: two variables, the decision `¬x1`
in a first scope, and the clause `x0 ∨ x1` added in a second scope, where it
propagates `x0` and goes on the reinit stack. -/
def example_reinit : solver :=
  (((((({} : solver).mk_var false true).2.mk_var false true).2.push.assign_core ⟨3⟩
    .none).inc_qhead.push.mk_clause_core [⟨0⟩, ⟨2⟩] false).map fun r => r.2).getD {}


/-! ## Variable and literal marks -/

/-- Modelled from the spec: `is_marked(v)` of sat_solver.h reads the transient
mark flag of the variable. -/
def is_marked (s : solver) (v : bool_var) : Bool := s.m_mark.getD v false

/-- Modelled from the spec: `mark(v)` of sat_solver.h sets the mark flag. -/
def mark (s : solver) (v : bool_var) : solver := { s with m_mark := s.m_mark.set v true }

/-- Modelled from the spec: `reset_mark(v)` of sat_solver.h clears the mark
flag. -/
def reset_mark (s : solver) (v : bool_var) : solver := { s with m_mark := s.m_mark.set v false }

/-- Modelled from the spec: `is_marked_lit(l)` of sat_solver.h reads the mark
flag of the literal. -/
def is_marked_lit (s : solver) (l : literal) : Bool := s.m_lit_mark.getD l.index false

/-- Modelled from the spec: `mark_lit(l)` of sat_solver.h. -/
def mark_lit (s : solver) (l : literal) : solver :=
  { s with m_lit_mark := s.m_lit_mark.set l.index true }

/-- Modelled from the spec: `unmark_lit(l)` of sat_solver.h. -/
def unmark_lit (s : solver) (l : literal) : solver :=
  { s with m_lit_mark := s.m_lit_mark.set l.index false }

/-- `m_unmark.push_back(v)`. -/
def push_unmark (s : solver) (v : bool_var) : solver := { s with m_unmark := s.m_unmark ++ [v] }

/-- `m_lemma.push_back(l)`. -/
def push_lemma (s : solver) (l : literal) : solver := { s with m_lemma := s.m_lemma ++ [l] }

/-- `m_core.push_back(l)`. -/
def push_core (s : solver) (l : literal) : solver := { s with m_core := s.m_core ++ [l] }

/-! ## Collaborators of the search -/

/-- The part of the interface of the extension `m_ext` that propagation and
conflict analysis call: `propagate` for a watch entry, `get_antecedents`
(the literals it writes to the vector handed in) and `resolve_conflict`,
which may rewrite the solver (it may build `m_lemma` or backjump on its
own); `get_phase` is the phase it proposes to `decide` for a variable. -/
structure extension where
  propagate : ext_propagate
  get_antecedents : literal → Nat → solver → List literal
  resolve_conflict : solver → lbool × solver
  get_phase : bool_var → lbool := fun _ => lbool.l_undef

/-- The collaborators of `check` and of conflict analysis that lie outside
the modelled core: the extension (absent when `m_ext` is null), the cache of
implied literals of the probing module, the minimal-unsatisfiable-subset
module with `set_model`, the alternative engines `check` may delegate to,
and `search`, the part of `check` that follows the first call of
`check_inconsistent` (clean-up, simplification, the restart loop around
`bounded_search`). -/
structure collaborators where
  m_ext : Option extension := none
  cached_implied_lits : literal → solver → Option (List literal) := fun _ _ => none
  mus : solver → solver := fun s => s
  lookahead_search : solver → lbool × solver := fun s => (lbool.l_undef, s)
  lookahead_cube : solver → lbool × solver := fun s => (lbool.l_undef, s)
  do_local_search : List literal → solver → lbool × solver := fun _ s => (lbool.l_undef, s)
  check_par : List literal → solver → lbool × solver := fun _ s => (lbool.l_undef, s)
  search : List literal → solver → lbool × solver := fun _ s => (lbool.l_undef, s)

/-- The `propagate` of the extension, when there is one. -/
def collaborators.ext_propagate (E : collaborators) : ext_propagate :=
  match E.m_ext with
  | some e => e.propagate
  | none => no_ext

/-! ## Activity -/

/-- `solver::rescale_activity()`. -/
def rescale_activity (s : solver) : solver :=
  { s with m_activity := s.m_activity.map (fun a => a / 16384),
           m_activity_inc := s.m_activity_inc / 16384 }

/-- `m_activity[v] += m_activity_inc` on 32 bit. -/
def bump_activity (s : solver) (v : bool_var) : solver :=
  { s with m_activity :=
      s.m_activity.set v ((s.m_activity.getD v 0 + s.m_activity_inc) % 4294967296) }

/-- Modelled from the spec: `inc_activity(v)` of sat_solver.h adds the global
increment to the activity of the variable and, when the activity passes
`1 << 24`, rescales all activities; `activity_increased_eh` only reorders the
decision heap. -/
def inc_activity (s : solver) (v : bool_var) : solver :=
  if (s.bump_activity v).m_activity.getD v 0 > 16777216 then (s.bump_activity v).rescale_activity
  else s.bump_activity v

/-- Modelled from the spec: `decay_activity()` of sat_solver.h lets the global
increment grow by one tenth after each conflict. -/
def decay_activity (s : solver) : solver :=
  { s with m_activity_inc := (s.m_activity_inc * 11 % 4294967296) / 10 }

/-- `solver::updt_phase_counters()`. -/
def updt_phase_counters (s : solver) : solver :=
  if s.m_phase_cache_on then
    if s.m_phase_counter + 1 ≥ s.m_config.m_phase_caching_on then
      { s with m_phase_counter := 0, m_phase_cache_on := false }
    else { s with m_phase_counter := s.m_phase_counter + 1 }
  else
    if s.m_phase_counter + 1 ≥ s.m_config.m_phase_caching_off then
      { s with m_phase_counter := 0, m_phase_cache_on := true }
    else { s with m_phase_counter := s.m_phase_counter + 1 }

/-- First loop of `num_diff_levels`: flag each level met for the first time
and count it. -/
def num_diff_levels_scan (s : solver) : List literal → List Bool → Nat → List Bool × Nat
  | [], d, r => (d, r)
  | l :: ls, d, r =>
    if d.getD (s.lvl l) false == false then
      num_diff_levels_scan s ls (d.set (s.lvl l) true) (r + 1)
    else num_diff_levels_scan s ls d r

/-- `solver::num_diff_levels(num, lits)`: the number of different levels in
`lits` and the solver (the scratch flags are reset). -/
def num_diff_levels (s : solver) (lits : List literal) : Nat × solver :=
  let r := num_diff_levels_scan s lits (reserve s.m_diff_levels (s.scope_lvl + 1)) 0
  (r.2, { s with m_diff_levels := reset_diff_levels s lits r.1 })

/-! ## Conflict analysis: first unique implication point -/

/-- `solver::fill_ext_antecedents(consequent, js)` for the external
justification with index `idx`; the source asserts that there is an
extension. -/
def fill_ext_antecedents (E : collaborators) (s : solver) (consequent : literal) (idx : Nat) :
    solver :=
  { s with m_ext_antecedents :=
      match E.m_ext with
      | some e => e.get_antecedents consequent idx s
      | none => [] }

/-- `solver::get_max_lvl(not_l, js)`: the level of the conflict and the solver
(the vector `m_ext_antecedents` is filled in the external case). -/
def get_max_lvl (E : collaborators) (s : solver) (not_l : literal) (js : justification) :
    Nat × solver :=
  if E.m_ext.isNone || s.at_base_lvl then (s.scope_lvl, s)
  else
    match js with
    | .ext_justification idx =>
      ((s.fill_ext_antecedents E not_l.neg idx).m_ext_antecedents.foldl
          (fun r l => max r (s.lvl l)) (s.lvl not_l),
        s.fill_ext_antecedents E not_l.neg idx)
    | _ => (s.scope_lvl, s)

/-- `solver::skip_literals_above_conflict_level()`.  The source returns the
largest index `idx` with `lvl(m_trail[idx]) <= m_conflict_lvl`; the callers
walk the trail from `idx` downwards, and the result here is the list of the
trail entries in that order: `m_trail[idx], m_trail[idx - 1], ..., m_trail[0]`
(empty when no entry qualifies, where the index of the source leaves the
trail). -/
def skip_literals_above_conflict_level (s : solver) : List literal :=
  s.m_trail.reverse.dropWhile (fun l => decide (s.lvl l > s.m_conflict_lvl))

/-- The `switch (m_config.m_branching_heuristic)` of `process_antecedent`. -/
def process_antecedent_bump (s : solver) (var : bool_var) : solver :=
  match s.m_config.m_branching_heuristic with
  | .BH_VSIDS => s.inc_activity var
  | .BH_CHB => { s with m_last_conflict := s.m_last_conflict.set var s.m_stats.m_conflict }
  | .BH_LRB => s

/-- `solver::process_antecedent(antecedent, num_marks)`; the counter
`num_marks` is passed by reference in the source and returned here. -/
def process_antecedent (s : solver) (antecedent : literal) (num_marks : Nat) : solver × Nat :=
  if !s.is_marked antecedent.var && decide (s.lvl_var antecedent.var > 0) then
    if s.lvl_var antecedent.var = s.m_conflict_lvl then
      (((s.mark antecedent.var).process_antecedent_bump antecedent.var), num_marks + 1)
    else
      (((s.mark antecedent.var).process_antecedent_bump antecedent.var).push_lemma antecedent.neg,
        num_marks)
  else (s, num_marks)

/-- The `switch (js.get_kind())` of `resolve_conflict_core` (the same switch
is in `process_consequent_for_unsat_core`): the literals handed to
`process_antecedent` for the consequent and its justification, in order.  For
an external justification they are the content of `m_ext_antecedents`, which
`fill_ext_antecedents` has written. -/
def conflict_antecedents (s : solver) (consequent : literal) : justification → List literal
  | .none => []
  | .binary l => [l.neg]
  | .ternary l1 l2 => [l1.neg, l2.neg]
  | .clause off =>
    if consequent ≠ null_literal then
      if (s.get_clause off).get 0 = consequent then
        ((s.get_clause off).lits.drop 1).map literal.neg
      else ((s.get_clause off).get 0).neg :: ((s.get_clause off).lits.drop 2).map literal.neg
    else (s.get_clause off).lits.map literal.neg
  | .ext_justification _ => s.m_ext_antecedents

/-- The call of `fill_ext_antecedents` in the external case of the switch. -/
def fill_antecedents (E : collaborators) (s : solver) (consequent : literal) :
    justification → solver
  | .ext_justification idx => s.fill_ext_antecedents E consequent idx
  | _ => s

/-- A run of calls `process_antecedent(a, num_marks)` over the literals
`lits`. -/
def process_antecedents (s : solver) (lits : List literal) (num_marks : Nat) : solver × Nat :=
  lits.foldl (fun st a => st.1.process_antecedent a st.2) (s, num_marks)

/-- The body of the `do` loop of `resolve_conflict_core` up to the scan of
the trail: all antecedents of the consequent are processed. -/
def process_justification (E : collaborators) (s : solver) (consequent : literal)
    (js : justification) (num_marks : Nat) : solver × Nat :=
  (s.fill_antecedents E consequent js).process_antecedents
    ((s.fill_antecedents E consequent js).conflict_antecedents consequent js) num_marks

/-- The `do ... while (num_marks > 0)` loop of `resolve_conflict_core`, entered
after the antecedents of the conflict have been processed.  The first
argument holds the trail entries from `m_trail[idx]` downwards.  An unmarked
entry is skipped; at a marked entry the loop takes it as the consequent,
decrements `num_marks` (an unsigned counter), clears the mark and either
stops with this literal or processes its justification and goes on.  The
result is `none` when the index leaves the trail. -/
def resolve_conflict_loop (E : collaborators) :
    List literal → solver → Nat → Option (solver × literal)
  | [], _, _ => none
  | l :: rest, s, num_marks =>
    if s.is_marked l.var then
      if (num_marks + 4294967295) % 4294967296 > 0 then
        resolve_conflict_loop E rest
          (process_justification E (s.reset_mark l.var) l (s.m_justification.getD l.var .none)
            ((num_marks + 4294967295) % 4294967296)).1
          (process_justification E (s.reset_mark l.var) l (s.m_justification.getD l.var .none)
            ((num_marks + 4294967295) % 4294967296)).2
      else some (s.reset_mark l.var, l)
    else resolve_conflict_loop E rest s num_marks

/-- `m_lemma.reset(); m_lemma.push_back(null_literal);`. -/
def init_lemma (s : solver) : solver := { s with m_lemma := [null_literal] }

/-- `m_lemma[0] = l`. -/
def set_lemma_head (s : solver) (l : literal) : solver := { s with m_lemma := s.m_lemma.set 0 l }

/-- The call `process_antecedent(m_not_l, num_marks)` under
`if (m_not_l != null_literal)` that opens the analysis. -/
def process_not_l (s : solver) : solver × Nat :=
  if s.m_not_l ≠ null_literal then s.process_antecedent s.m_not_l 0 else (s, 0)

/-- The first consequent of the analysis: `~m_not_l`, or the null literal
when the conflict carries no literal. -/
def first_consequent (s : solver) : literal :=
  if s.m_not_l ≠ null_literal then s.m_not_l.neg else null_literal

/-- The first round of antecedents in `resolve_conflict_core`: the literal
`m_not_l` of the conflict, when there is one, and the antecedents of the
conflict justification `m_conflict`. -/
def process_conflict (E : collaborators) (s : solver) : solver × Nat :=
  process_justification E s.process_not_l.1 s.first_consequent s.m_conflict s.process_not_l.2

/-- The built-in analysis of `resolve_conflict_core`, from `m_lemma.reset()`
to `m_lemma[0] = ~consequent`: the state handed to
`learn_lemma_and_backjump`. -/
def resolve_conflict_analysis (E : collaborators) (s : solver) : Option solver :=
  match resolve_conflict_loop E s.skip_literals_above_conflict_level
      (process_conflict E s.init_lemma).1 (process_conflict E s.init_lemma).2 with
  | none => none
  | some r => some (r.1.set_lemma_head r.2.neg)

/-- Body of the loop of `forget_phase_of_vars` for the trail literal `l`. -/
def forget_phase (s : solver) (l : literal) : solver :=
  { s with m_phase := s.m_phase.set l.var phase.PHASE_NOT_AVAILABLE }

/-- `solver::forget_phase_of_vars(from_lvl)`. -/
def forget_phase_of_vars (s : solver) (from_lvl : Nat) : solver :=
  (s.m_trail.drop
    (if from_lvl = 0 then 0
      else (s.m_scopes.getD (from_lvl - 1) ⟨0, 0, false⟩).m_trail_lim)).foldl forget_phase s

/-! ## Lemma minimisation -/

/-- Modelled from the spec: `m_lvl_set.insert(lvl)` of the 64 bit level set
(approx_set of the utility library): the bit `lvl mod 64` is set. -/
def lvl_set_insert (m : Nat) (lvl : Nat) : Nat := m ||| (1 <<< (lvl % 64))

/-- Modelled from the spec: `m_lvl_set.may_contain(lvl)`: the bit `lvl mod 64`
is set. -/
def lvl_set_may_contain (m : Nat) (lvl : Nat) : Bool := m.testBit (lvl % 64)

/-- `solver::updt_lemma_lvl_set()`. -/
def updt_lemma_lvl_set (s : solver) : solver :=
  { s with m_lvl_set := s.m_lemma.foldl (fun m l => lvl_set_insert m (s.lvl l)) 0 }

/-- `m_unmark.shrink(old_size)`. -/
def shrink_unmark (s : solver) (old_size : Nat) : solver :=
  { s with m_unmark := s.m_unmark.take old_size }

/-- `solver::reset_unmark(old_size)`. -/
def reset_unmark (s : solver) (old_size : Nat) : solver :=
  ((s.m_unmark.drop old_size).foldl reset_mark s).shrink_unmark old_size

/-- `m_lemma_min_stack.push_back(v)`; the stack is kept with its top at the
head of the list. -/
def push_lemma_min_stack (s : solver) (v : bool_var) : solver :=
  { s with m_lemma_min_stack := v :: s.m_lemma_min_stack }

/-- `m_lemma_min_stack.pop_back()`. -/
def pop_lemma_min_stack (s : solver) : solver :=
  { s with m_lemma_min_stack := s.m_lemma_min_stack.tail }

/-- `m_lemma_min_stack.reset(); m_lemma_min_stack.push_back(v);`. -/
def init_lemma_min_stack (s : solver) (v : bool_var) : solver :=
  { s with m_lemma_min_stack := [v] }

/-- `solver::process_antecedent_for_minimization(antecedent)`. -/
def process_antecedent_for_minimization (s : solver) (antecedent : literal) : Bool × solver :=
  if !s.is_marked antecedent.var && decide (s.lvl_var antecedent.var > 0) then
    if lvl_set_may_contain s.m_lvl_set (s.lvl_var antecedent.var) then
      (true, ((s.mark antecedent.var).push_unmark antecedent.var).push_lemma_min_stack
        antecedent.var)
    else (false, s)
  else (true, s)

/-- A run of calls of `process_antecedent_for_minimization` that stops at the
first one that returns false. -/
def process_antecedents_for_minimization (s : solver) : List literal → Bool × solver
  | [] => (true, s)
  | a :: rest =>
    if (s.process_antecedent_for_minimization a).1 then
      process_antecedents_for_minimization (s.process_antecedent_for_minimization a).2 rest
    else (false, (s.process_antecedent_for_minimization a).2)

/-- The `switch (js.get_kind())` of `implied_by_marked`: the literals handed to
`process_antecedent_for_minimization` for the variable `var` and its
justification, in order. -/
def minimization_antecedents (s : solver) (var : bool_var) : justification → List literal
  | .none => []
  | .binary l => [l.neg]
  | .ternary l1 l2 => [l1.neg, l2.neg]
  | .clause off =>
    if ((s.get_clause off).get 0).var = var then
      ((s.get_clause off).lits.drop 1).map literal.neg
    else ((s.get_clause off).get 0).neg :: ((s.get_clause off).lits.drop 2).map literal.neg
  | .ext_justification _ => s.m_ext_antecedents

/-- The call of `fill_ext_antecedents` in the external case of
`implied_by_marked`, for the literal of `var` that is true. -/
def fill_minimization_antecedents (E : collaborators) (s : solver) (var : bool_var) :
    justification → solver
  | .ext_justification idx =>
    s.fill_ext_antecedents E (mk_literal var (s.value (mk_literal var false) == .l_false)) idx
  | _ => s

/-- The `switch (js.get_kind())` of `implied_by_marked` for the variable
`var` taken from the stack: its antecedents are processed until one of them
fails. -/
def implied_by_marked_step (E : collaborators) (s : solver) (var : bool_var) : Bool × solver :=
  process_antecedents_for_minimization
    (fill_minimization_antecedents E s var (s.m_justification.getD var .none))
    (minimization_antecedents
      (fill_minimization_antecedents E s var (s.m_justification.getD var .none))
      var (s.m_justification.getD var .none))

/-- The `while (!m_lemma_min_stack.empty())` loop of `implied_by_marked`;
`fuel` bounds the number of iterations and `none` means the bound was
reached.  A variable without justification above level 0 is a decision and
ends the search with a failure. -/
def implied_by_marked_loop (E : collaborators) (old_size : Nat) :
    Nat → solver → Option (Bool × solver)
  | 0, _ => none
  | fuel + 1, s =>
    match s.m_lemma_min_stack with
    | [] => some (true, s)
    | var :: _ =>
      if s.m_justification.getD var .none = .none ∧ s.lvl_var var > 0 then
        some (false, s.pop_lemma_min_stack.reset_unmark old_size)
      else if (implied_by_marked_step E s.pop_lemma_min_stack var).1 then
        implied_by_marked_loop E old_size fuel (implied_by_marked_step E s.pop_lemma_min_stack var).2
      else
        some (false, (implied_by_marked_step E s.pop_lemma_min_stack var).2.reset_unmark old_size)

/-- `solver::implied_by_marked(lit)`. -/
def implied_by_marked (E : collaborators) (fuel : Nat) (s : solver) (lit : literal) :
    Option (Bool × solver) :=
  implied_by_marked_loop E s.m_unmark.length fuel (s.init_lemma_min_stack lit.var)

/-- The loop of `minimize_lemma` over `m_lemma[1..]`: a literal for which
`implied_by_marked` holds is left out and its variable recorded in
`m_unmark`, any other literal is kept.  `kept` are the literals written to
`m_lemma[1..j)` so far. -/
def minimize_lemma_loop (E : collaborators) (fuel : Nat) :
    List literal → solver → List literal → Option (solver × List literal)
  | [], s, kept => some (s, kept)
  | l :: rest, s, kept =>
    match s.implied_by_marked E fuel l with
    | none => none
    | some (true, s1) => minimize_lemma_loop E fuel rest (s1.push_unmark l.var) kept
    | some (false, s1) => minimize_lemma_loop E fuel rest s1 (kept ++ [l])

/-- `m_lemma.shrink(j); m_stats.m_minimized_lits += sz - j;` at the end of
`minimize_lemma`, with `lits` the literals `m_lemma[0..j)`. -/
def set_minimized_lemma (s : solver) (lits : List literal) : solver :=
  { s with
    m_lemma := lits,
    m_stats := { s.m_stats with m_minimized_lits :=
      s.m_stats.m_minimized_lits + (s.m_lemma.length - lits.length) } }

/-- `solver::minimize_lemma()`. -/
def minimize_lemma (E : collaborators) (fuel : Nat) (s : solver) : Option solver :=
  match minimize_lemma_loop E fuel (s.m_lemma.drop 1) s.updt_lemma_lvl_set [] with
  | none => none
  | some r => some ((r.1.reset_unmark 0).set_minimized_lemma (s.m_lemma.take 1 ++ r.2))

/-- `solver::update_lrb_reasoned(lit)`. -/
def update_lrb_reasoned_lit (s : solver) (lit : literal) : solver :=
  if !s.is_marked lit.var then
    { s.mark lit.var with
      m_reasoned := s.m_reasoned.set lit.var (s.m_reasoned.getD lit.var 0 + 1),
      m_lemma := s.m_lemma ++ [lit] }
  else s

/-- The `switch (js.get_kind())` of `update_lrb_reasoned()`: the literals
handed to `update_lrb_reasoned(lit)`. -/
def lrb_antecedents (s : solver) : justification → List literal
  | .none => []
  | .binary l => [l]
  | .ternary l1 l2 => [l1, l2]
  | .clause off => (s.get_clause off).lits
  | .ext_justification _ => s.m_ext_antecedents

/-- Body of the first loop of `update_lrb_reasoned()` for the lemma literal
`l`. -/
def update_lrb_reasoned_step (E : collaborators) (s : solver) (l : literal) : solver :=
  (lrb_antecedents (fill_antecedents E s l (s.m_justification.getD l.var .none))
      (s.m_justification.getD l.var .none)).foldl update_lrb_reasoned_lit
    (fill_antecedents E s l (s.m_justification.getD l.var .none))

/-- The end of `update_lrb_reasoned()`: the marks of the literals appended
behind position `sz` are cleared and the lemma is cut back to `sz`. -/
def update_lrb_reasoned_reset (s : solver) (sz : Nat) : solver :=
  { (s.m_lemma.drop sz).reverse.foldl (fun st l => st.reset_mark l.var) s with
    m_lemma := s.m_lemma.take sz }

/-- `solver::update_lrb_reasoned()`. -/
def update_lrb_reasoned (E : collaborators) (s : solver) : solver :=
  ((s.m_lemma.reverse.foldl (update_lrb_reasoned_step E)
      (s.mark (s.m_lemma.getD 0 null_literal).var)).reset_mark
        (s.m_lemma.getD 0 null_literal).var).update_lrb_reasoned_reset s.m_lemma.length

/-- `solver::reset_lemma_var_marks()`. -/
def reset_lemma_var_marks (E : collaborators) (s : solver) : solver :=
  ((if s.m_config.m_branching_heuristic = .BH_LRB then s.update_lrb_reasoned E else s).m_lemma.drop
      1).foldl (fun st l => st.reset_mark l.var)
    (if s.m_config.m_branching_heuristic = .BH_LRB then s.update_lrb_reasoned E else s)

/-- The test and the `unmark_lit` of `dyn_sub_res` for an implied binary
clause `l ∨ l2`. -/
def dyn_sub_res_bin (l0 : literal) (s : solver) (l2 : literal) : solver :=
  if s.is_marked_lit l2.neg && l0 != l2.neg then s.unmark_lit l2.neg else s

/-- The loop of `dyn_sub_res` over the watch list of `~l`; it stops at the
first entry that is neither binary nor ternary. -/
def dyn_sub_res_watch (l0 : literal) : solver → List watched → solver
  | s, [] => s
  | s, .binary l2 _ :: ws => dyn_sub_res_watch l0 (dyn_sub_res_bin l0 s l2) ws
  | s, .ternary l2 l3 :: ws =>
    dyn_sub_res_watch l0
      (if s.is_marked_lit l2 && s.is_marked_lit l3.neg && l0 != l3.neg then s.unmark_lit l3.neg
       else if s.is_marked_lit l2.neg && s.is_marked_lit l3 && l0 != l2.neg then
         s.unmark_lit l2.neg
       else s) ws
  | s, _ :: _ => s

/-- Body of the main loop of `dyn_sub_res` for the lemma literal `l`. -/
def dyn_sub_res_lit (E : collaborators) (l0 : literal) (s : solver) (l : literal) : solver :=
  if !s.is_marked_lit l then s
  else
    match E.cached_implied_lits l.neg (dyn_sub_res_watch l0 s (s.get_wlist l.neg.index)) with
    | some lits => lits.foldl (dyn_sub_res_bin l0) (dyn_sub_res_watch l0 s (s.get_wlist l.neg.index))
    | none => dyn_sub_res_watch l0 s (s.get_wlist l.neg.index)

/-- The last loop of `dyn_sub_res`: the literals that are still marked are
kept and their marks cleared. -/
def dyn_sub_res_collect : List literal → solver → List literal → solver × List literal
  | [], s, kept => (s, kept)
  | l :: rest, s, kept =>
    if s.is_marked_lit l then dyn_sub_res_collect rest (s.unmark_lit l) (kept ++ [l])
    else dyn_sub_res_collect rest s kept

/-- `m_stats.m_dyn_sub_res += sz - j; m_lemma.shrink(j);`. -/
def set_dyn_sub_res_lemma (s : solver) (lits : List literal) : solver :=
  { s with
    m_lemma := lits,
    m_stats := { s.m_stats with m_dyn_sub_res :=
      s.m_stats.m_dyn_sub_res + (s.m_lemma.length - lits.length) } }

/-- `solver::dyn_sub_res()`. -/
def dyn_sub_res (E : collaborators) (s : solver) : solver :=
  (dyn_sub_res_collect s.m_lemma
      (s.m_lemma.foldl (dyn_sub_res_lit E (s.m_lemma.getD 0 null_literal))
        (s.m_lemma.foldl mark_lit s)) []).1.set_dyn_sub_res_lemma
    (dyn_sub_res_collect s.m_lemma
      (s.m_lemma.foldl (dyn_sub_res_lit E (s.m_lemma.getD 0 null_literal))
        (s.m_lemma.foldl mark_lit s)) []).2

/-! ## Learning the lemma and backjumping -/

/-- The block `if (!m_lemma.empty()) ...` of `learn_lemma_and_backjump` up to
the loop that computes the new scope level: minimisation, reset of the marks
of the lemma variables and dynamic subsumption resolution, as configured. -/
def learn_lemma_prepare (E : collaborators) (fuel : Nat) (s : solver) : Option solver :=
  if s.m_lemma.isEmpty then some s
  else if s.m_config.m_minimize_lemmas then
    match s.minimize_lemma E fuel with
    | none => none
    | some s1 =>
      if s1.m_config.m_dyn_sub_res then some ((s1.reset_lemma_var_marks E).dyn_sub_res E)
      else some (s1.reset_lemma_var_marks E)
  else some (s.reset_lemma_var_marks E)

/-- The loop of `learn_lemma_and_backjump` that computes `new_scope_lvl`: the
largest level among the lemma literals behind the first one, 0 when there is
none. -/
def new_scope_lvl (s : solver) : Nat :=
  (s.m_lemma.drop 1).foldl (fun r l => max r (s.lvl_var l.var)) 0

/-- `lemma->set_glue(glue)` for the clause at `off`. -/
def set_glue (s : solver) (off : clause_offset) (glue : Nat) : solver :=
  s.set_clause off { s.get_clause off with m_glue := glue }

/-- The end of `learn_lemma_and_backjump` behind `mk_clause_core`: the glue
is recorded when a clause was allocated, then `decay_activity()` and
`updt_phase_counters()`. -/
def learn_lemma_finish (s : solver) (cls : Option clause_offset) (glue : Nat) : solver :=
  match cls with
  | some off => (s.set_glue off glue).decay_activity.updt_phase_counters
  | none => s.decay_activity.updt_phase_counters

/-- The unsigned subtraction `m_scope_lvl - new_scope_lvl`. -/
def backjump_scopes (s : solver) : Nat :=
  (s.m_scope_lvl + 4294967296 - s.new_scope_lvl % 4294967296) % 4294967296

/-- The state of `learn_lemma_and_backjump` after the call
`pop_reinit(m_scope_lvl - new_scope_lvl)`, for the state `s` with the final
lemma. -/
def backjump (s : solver) : solver :=
  (s.num_diff_levels s.m_lemma).2.pop_reinit s.backjump_scopes

/-- `solver::learn_lemma_and_backjump()`; `none` when the minimisation runs
out of fuel or a `VERIFY` of `mk_nary_clause` fails. -/
def learn_lemma_and_backjump (E : collaborators) (fuel : Nat) (s : solver) : Option solver :=
  match s.learn_lemma_prepare E fuel with
  | none => none
  | some s1 =>
    match s1.backjump.mk_clause_core s1.backjump.m_lemma true with
    | none => none
    | some r => some (r.2.learn_lemma_finish r.1 (s1.num_diff_levels s1.m_lemma).1)

/-! ## Unsatisfiable core -/

/-- `solver::is_assumption(literal l)`; the literal set `m_assumption_set` is
kept as the list of its members. -/
def is_assumption (s : solver) (l : literal) : Bool :=
  s.tracking_assumptions && decide (l ∈ s.m_assumption_set)

/-- `solver::process_antecedent_for_unsat_core(antecedent)`. -/
def process_antecedent_for_unsat_core (s : solver) (antecedent : literal) : solver :=
  if !s.is_marked antecedent.var then
    if s.is_assumption antecedent then
      ((s.mark antecedent.var).push_unmark antecedent.var).push_core antecedent
    else (s.mark antecedent.var).push_unmark antecedent.var
  else s

/-- `solver::process_consequent_for_unsat_core(consequent, js)`. -/
def process_consequent_for_unsat_core (E : collaborators) (s : solver) (consequent : literal)
    (js : justification) : solver :=
  ((s.fill_antecedents E consequent js).conflict_antecedents consequent js).foldl
    process_antecedent_for_unsat_core (s.fill_antecedents E consequent js)

/-- The `while (true)` loop of `resolve_conflict_for_unsat_core` behind its
first call of `process_consequent_for_unsat_core`.  The first argument holds
the trail entries from `m_trail[idx]` downwards: an unmarked entry is
skipped, a marked entry below the conflict level ends the loop, any other
marked entry is the next consequent. -/
def unsat_core_loop (E : collaborators) : List literal → solver → solver
  | [], s => s
  | l :: rest, s =>
    if s.is_marked l.var then
      if s.lvl l < s.m_conflict_lvl then s
      else
        unsat_core_loop E rest
          (s.process_consequent_for_unsat_core E l (s.m_justification.getD l.var .none))
    else unsat_core_loop E rest s

/-- `m_core.reset()`. -/
def reset_core (s : solver) : solver := { s with m_core := [] }

/-- The block `if (m_not_l != null_literal) ...` of
`resolve_conflict_for_unsat_core`. -/
def unsat_core_not_l (E : collaborators) (s : solver) : solver :=
  if s.m_not_l ≠ null_literal then
    if (s.process_antecedent_for_unsat_core s.m_not_l).is_assumption s.m_not_l.neg then
      (s.process_antecedent_for_unsat_core s.m_not_l).push_core s.m_not_l.neg
    else
      (s.process_antecedent_for_unsat_core s.m_not_l).process_consequent_for_unsat_core E
        s.m_not_l (s.m_justification.getD s.m_not_l.var .none)
  else s

/-- The block `if (m_config.m_core_minimize) ...` that ends
`resolve_conflict_for_unsat_core`: a smaller core found earlier replaces the
core, then the subset minimiser runs. -/
def core_minimize (E : collaborators) (s : solver) : solver :=
  if s.m_config.m_core_minimize then
    if s.m_min_core_valid && decide (s.m_min_core.length < s.m_core.length) then
      E.mus { s with m_core := s.m_min_core }
    else E.mus s
  else s

/-- `solver::resolve_conflict_for_unsat_core()`. -/
def resolve_conflict_for_unsat_core (E : collaborators) (s : solver) : solver :=
  if s.m_conflict_lvl = 0 then s.reset_core
  else
    core_minimize E
      ((unsat_core_loop E s.reset_core.skip_literals_above_conflict_level
        ((unsat_core_not_l E s.reset_core).process_consequent_for_unsat_core E
          s.reset_core.first_consequent s.m_conflict)).reset_unmark s.m_unmark.length)

/-! ## `resolve_conflict` -/

/-- The counters at the head of `resolve_conflict_core`; the step size is a
double in the source. -/
def count_conflict (s : solver) : solver :=
  { s with
    m_conflicts_since_init := s.m_conflicts_since_init + 1,
    m_conflicts_since_restart := s.m_conflicts_since_restart + 1,
    m_conflicts_since_gc := s.m_conflicts_since_gc + 1,
    m_stats := { s.m_stats with m_conflict := s.m_stats.m_conflict + 1 },
    m_step_size := if s.m_step_size > s.m_config.m_step_size_min then
        s.m_step_size - s.m_config.m_step_size_dec else s.m_step_size }

/-- `m_conflict_lvl = get_max_lvl(m_not_l, m_conflict)`. -/
def set_conflict_lvl (E : collaborators) (s : solver) : solver :=
  { (s.get_max_lvl E s.m_not_l s.m_conflict).2 with
    m_conflict_lvl := (s.get_max_lvl E s.m_not_l s.m_conflict).1 }

/-- The built-in analysis followed by `learn_lemma_and_backjump`, the end of
`resolve_conflict_core`. -/
def resolve_conflict_learn (E : collaborators) (fuel : Nat) (s : solver) :
    Option (Bool × solver) :=
  match resolve_conflict_analysis E s with
  | none => none
  | some s1 =>
    match s1.learn_lemma_and_backjump E fuel with
    | none => none
    | some s2 => some (true, s2)

/-- The part of `resolve_conflict_core` behind `forget_phase_of_vars`: the
extension, when there is one, may resolve the conflict itself. -/
def resolve_conflict_ext (E : collaborators) (fuel : Nat) (s : solver) : Option (Bool × solver) :=
  match E.m_ext with
  | some e =>
    match e.resolve_conflict s with
    | (.l_true, s1) =>
      match s1.learn_lemma_and_backjump E fuel with
      | none => none
      | some s2 => some (true, s2)
    | (lbool.l_undef, s1) => resolve_conflict_learn E fuel s1
    | (.l_false, s1) => some (true, s1)
  | none => resolve_conflict_learn E fuel s

/-- `solver::resolve_conflict_core()`. -/
def resolve_conflict_core (E : collaborators) (fuel : Nat) (s : solver) : Option (Bool × solver) :=
  if (s.count_conflict.set_conflict_lvl E).m_conflict_lvl ≤ 1 ∧
      (s.count_conflict.set_conflict_lvl E).tracking_assumptions then
    some (false, (s.count_conflict.set_conflict_lvl E).resolve_conflict_for_unsat_core E)
  else if (s.count_conflict.set_conflict_lvl E).m_conflict_lvl = 0 then
    some (false, s.count_conflict.set_conflict_lvl E)
  else
    resolve_conflict_ext E fuel
      ((s.count_conflict.set_conflict_lvl E).forget_phase_of_vars
        (s.count_conflict.set_conflict_lvl E).m_conflict_lvl)

/-- `solver::resolve_conflict()`; the first argument bounds the number of
rounds of the loop, `fuel` the loops of each round. -/
def resolve_conflict (E : collaborators) (fuel : Nat) : Nat → solver → Option (Bool × solver)
  | 0, _ => none
  | rounds + 1, s =>
    match resolve_conflict_core E fuel s with
    | none => none
    | some (false, s1) => some (false, s1)
    | some (true, s1) =>
      if !s1.inconsistent then some (true, s1) else resolve_conflict E fuel rounds s1

/-! ## `check` up to the search loop -/

/-- `solver::reset_assumptions()`. -/
def reset_assumptions (s : solver) : solver :=
  { s with m_assumptions := [], m_assumption_set := [] }

/-- `solver::add_assumption(lit)`. -/
def add_assumption (s : solver) (lit : literal) : solver :=
  { s with
    m_assumption_set := if lit ∈ s.m_assumption_set then s.m_assumption_set
      else s.m_assumption_set ++ [lit],
    m_assumptions := s.m_assumptions ++ [lit] }

/-- `solver::pop_to_base_level()`. -/
def pop_to_base_level (s : solver) : solver := s.reset_assumptions.pop s.scope_lvl

/-- Modelled from the spec: `init_reason_unknown()` of sat_solver.h resets the
text that explains an `unknown` answer. -/
def init_reason_unknown (s : solver) : solver := { s with m_reason_unknown := "no reason given" }

/-- `solver::init_search()`; the stopwatch and `m_min_d_tk` are not part of
the state here. -/
def init_search (s : solver) : solver :=
  { s with
    m_model_is_current := false,
    m_phase_counter := 0,
    m_phase_cache_on := false,
    m_conflicts_since_restart := 0,
    m_restart_threshold := s.m_config.m_restart_initial,
    m_luby_idx := 1,
    m_gc_threshold := s.m_config.m_gc_initial,
    m_restarts := 0,
    m_conflicts_since_init := 0,
    m_search_lvl := 0,
    m_core := [],
    m_min_core_valid := false,
    m_min_core := [] }

/-- Body of the loop of `init_assumptions` over the assumptions. -/
def init_assumption (s : solver) (lit : literal) : solver :=
  if s.m_inconsistent then s else (s.add_assumption lit).assign lit .none

/-- `m_search_lvl = scope_lvl()`. -/
def set_search_lvl (s : solver) : solver := { s with m_search_lvl := s.m_scope_lvl }

/-- `solver::init_assumptions(num_lits, lits)`. -/
def init_assumptions (E : collaborators) (fuel : Nat) (s : solver) (lits : List literal) :
    Option solver :=
  if lits.isEmpty && s.m_user_scope_literals.isEmpty then some s
  else
    match propagate E.ext_propagate false fuel s.reset_assumptions.push with
    | none => none
    | some r =>
      if r.2.inconsistent then some r.2
      else
        some (lits.foldl init_assumption
          (r.2.assign_each (r.2.m_user_scope_literals.map literal.neg))).set_search_lvl

/-- `solver::check_inconsistent()`. -/
def check_inconsistent (E : collaborators) (fuel : Nat) (s : solver) : Option (Bool × solver) :=
  if s.inconsistent then
    if s.tracking_assumptions then
      match resolve_conflict E fuel fuel s with
      | none => none
      | some r => some (true, r.2)
    else some (true, s)
  else some (false, s)

/-- `m_searching = b`. -/
def set_searching (s : solver) (b : Bool) : solver := { s with m_searching := b }

/-- The `try` block of `check` up to the first `check_inconsistent`; what
follows is the collaborator `search`. -/
def check_search (E : collaborators) (fuel : Nat) (s : solver) (lits : List literal) :
    Option (lbool × solver) :=
  if s.init_search.inconsistent then some (.l_false, s.init_search)
  else
    match propagate E.ext_propagate false fuel s.init_search with
    | none => none
    | some r1 =>
      if r1.2.inconsistent then some (.l_false, r1.2)
      else
        match init_assumptions E fuel r1.2 lits with
        | none => none
        | some s2 =>
          match propagate E.ext_propagate false fuel s2 with
          | none => none
          | some r3 =>
            match check_inconsistent E fuel r3.2 with
            | none => none
            | some (true, s4) => some (.l_false, s4)
            | some (false, s4) => some (E.search lits s4)

/-- The guards of `check` that hand the problem to another engine (there is
no parallel portfolio, `m_par` is null).  With `m_dimacs_display` the source
prints the problem and returns `l_undef`; its loop over the assumptions never
advances the index, so with assumptions it does not return. -/
def check_delegate (E : collaborators) (s : solver) (lits : List literal) :
    Option (Option (lbool × solver)) :=
  if s.m_config.m_dimacs_display then
    if lits.isEmpty then some (some (lbool.l_undef, s)) else some none
  else if s.m_config.m_lookahead_search && lits.isEmpty then some (some (E.lookahead_search s))
  else if s.m_config.m_lookahead_cube && lits.isEmpty then some (some (E.lookahead_cube s))
  else if s.m_config.m_local_search then some (some (E.do_local_search lits s))
  else if decide (s.m_config.m_num_threads > 1) || decide (s.m_config.m_local_search_threads > 0)
    then some (some (E.check_par lits s))
  else none

/-- `solver::check(num_lits, lits)`: the answer and the solver, `none` when a
loop does not return within `fuel` iterations.  `flet<bool>
_searching(m_searching, true)` sets the flag for the search and restores it
at the end. -/
def check (E : collaborators) (fuel : Nat) (s : solver) (lits : List literal) :
    Option (lbool × solver) :=
  match check_delegate E s.init_reason_unknown.pop_to_base_level lits with
  | some r => r
  | none =>
    match check_search E fuel (s.init_reason_unknown.pop_to_base_level.set_searching true) lits with
    | none => none
    | some r => some (r.1, r.2.set_searching s.m_searching)

/-- `solver::mk_clause(num_lits, lits, learned)`, the public entry that
appends the user scope literals before `mk_clause_core`. -/
def mk_clause (s : solver) (lits : List literal) (learned : Bool) :
    Option (Option clause_offset × solver) :=
  if s.m_user_scope_literals.isEmpty then
    { s with m_model_is_current := false }.mk_clause_core lits learned
  else
    { s with m_model_is_current := false, m_aux_literals := lits ++ s.m_user_scope_literals
      }.mk_clause_core (lits ++ s.m_user_scope_literals) learned

/-! ## What conflict analysis leaves alone -/

/-- The solver `s1` differs from `s` only in the scratch data of conflict
analysis (marks, lemma, core, activities, statistics): the assignment, the
levels, the justifications, the trail, the clauses, the watch lists, the
scopes, the conflict and the assumptions are the same. -/
structure analysis_frame (s s1 : solver) : Prop where
  config : s1.m_config = s.m_config
  assignment : s1.m_assignment = s.m_assignment
  level : s1.m_level = s.m_level
  justification : s1.m_justification = s.m_justification
  trail : s1.m_trail = s.m_trail
  arena : s1.m_cls_allocator = s.m_cls_allocator
  clauses : s1.m_clauses = s.m_clauses
  learned : s1.m_learned = s.m_learned
  watches : s1.m_watches = s.m_watches
  scope_lvl : s1.m_scope_lvl = s.m_scope_lvl
  scopes : s1.m_scopes = s.m_scopes
  qhead : s1.m_qhead = s.m_qhead
  reinit : s1.m_clauses_to_reinit = s.m_clauses_to_reinit
  conflict_lvl : s1.m_conflict_lvl = s.m_conflict_lvl
  conflict : s1.m_conflict = s.m_conflict
  not_l : s1.m_not_l = s.m_not_l
  inconsistent : s1.m_inconsistent = s.m_inconsistent
  assumptions : s1.m_assumptions = s.m_assumptions
  assumption_set : s1.m_assumption_set = s.m_assumption_set
  user_scope_literals : s1.m_user_scope_literals = s.m_user_scope_literals
  search_lvl : s1.m_search_lvl = s.m_search_lvl

/-- The invariant of `resolve_conflict_for_unsat_core` relative to the state
`s0` it started in: every core literal is a member of the assumption set,
and every variable marked since then is recorded behind the old end of
`m_unmark`. -/
structure unsat_core_inv (s0 s : solver) : Prop where
  frame : analysis_frame s0 s
  core : ∀ l ∈ s.m_core, l ∈ s0.m_assumption_set
  mark_len : s.m_mark.length = s0.m_mark.length
  unmark : ∃ extra, s.m_unmark = s0.m_unmark ++ extra ∧
    (∀ v, s.is_marked v = true → s0.is_marked v = true ∨ v ∈ extra) ∧
    (∀ v ∈ extra, s0.is_marked v = false)
  mono : ∀ v, s0.is_marked v = true → s.is_marked v = true

/-- A solver that holds only the unit clause `x0`: one variable and the
clause added through `mk_clause` at the base level. -/
def example_unit_clause : solver :=
  ((({} : solver).mk_var false true).2.mk_clause [⟨0⟩] false).elim {} fun r => r.2

/-- The solver of `example_unit_clause` after `init_assumptions` has opened
the assumption scope and asserted the assumption `¬x0`, which conflicts with
the unit, and `resolve_conflict_core` has counted the conflict and set its
level. -/
def example_core : solver :=
  ((example_unit_clause.reset_assumptions.push.init_assumption ⟨1⟩).count_conflict).set_conflict_lvl
    {}

/-! ## Lemma minimisation: what `implied_by_marked` establishes -/

/-- The antecedents `implied_by_marked` reads for the variable `v`: the ones
of its recorded justification. -/
def min_antecedents (E : collaborators) (s : solver) (v : bool_var) : List literal :=
  minimization_antecedents
    (fill_minimization_antecedents E s v (s.m_justification.getD v .none)) v
    (s.m_justification.getD v .none)

/-- The variable `v` is justified from the variables `X`, the variables
marked in `s` and level 0: it is not a decision above level 0 and each
antecedent of its justification is at level 0, marked, or in `X`. -/
def justified_from (E : collaborators) (s : solver) (X : List bool_var) (v : bool_var) : Prop :=
  (s.m_justification.getD v .none ≠ .none ∨ s.lvl_var v = 0) ∧
  ∀ a ∈ min_antecedents E s v, s.lvl_var a.var = 0 ∨ s.is_marked a.var = true ∨ a.var ∈ X

/-- The variables `X` are implied, through the recorded justifications, by the
variables marked in `s` together with the assignments of level 0: every
member of `X` is justified from `X`, the marked variables and level 0. -/
def implied_closed (E : collaborators) (s : solver) (X : List bool_var) : Prop :=
  ∀ v ∈ X, justified_from E s X v

/-- The number of variables that are not marked. -/
def unmarked_count (s : solver) : Nat := s.m_mark.count false

/-- Invariant of the loop of `implied_by_marked` relative to the state `s0`
in which the call started, for the variable `root` under test: the
variables marked since then are recorded at the end of `m_unmark`, and each
of them, and `root`, is still on the stack or justified. -/
structure implied_inv (E : collaborators) (s0 : solver) (root : bool_var) (s : solver) :
    Prop where
  frame : analysis_frame s0 s
  lemma_eq : s.m_lemma = s0.m_lemma
  lvl_set : s.m_lvl_set = s0.m_lvl_set
  lit_mark : s.m_lit_mark = s0.m_lit_mark
  mark_len : s.m_mark.length = s0.m_mark.length
  unmark : ∃ extra, s.m_unmark = s0.m_unmark ++ extra ∧
    (∀ w, s.is_marked w = true → s0.is_marked w = true ∨ w ∈ extra) ∧
    (∀ w ∈ extra, s0.is_marked w = false) ∧
    (∀ w, w ∈ extra ∨ w = root → w ∈ s.m_lemma_min_stack ∨ justified_from E s0 extra w)
  mono : ∀ w, s0.is_marked w = true → s.is_marked w = true

/-- Invariant of the loop of `minimize_lemma` relative to the state `s0` in
which the loop started: the variables recorded in `m_unmark` since then are
implied by the variables marked in `s0` and level 0, and every mark comes
from `s0` or from them. -/
structure minimize_inv (E : collaborators) (s0 s : solver) : Prop where
  frame : analysis_frame s0 s
  lvl_set : s.m_lvl_set = s0.m_lvl_set
  lit_mark : s.m_lit_mark = s0.m_lit_mark
  mark_len : s.m_mark.length = s0.m_mark.length
  unmark : ∃ X, s.m_unmark = s0.m_unmark ++ X ∧
    (∀ w, s.is_marked w = true → s0.is_marked w = true ∨ w ∈ X) ∧
    implied_closed E s0 X
  mono : ∀ w, s0.is_marked w = true → s.is_marked w = true

/-! ## A conflict to analyse -/

/-- Four variables `a, b, c, d` (x0 .. x3) with the clauses `¬a ∨ b`,
`¬a ∨ ¬c ∨ d` and `¬b ∨ ¬c ∨ ¬d`: `a` was decided at level 1 and implied
`b`, `c` was decided at level 2 and implied `d`, and the last clause is in
conflict.  The state is the one `resolve_conflict_core` analyses: the
conflict is recorded with its level. -/
def example_conflict : solver :=
  { example_state 2 [{ lits := [⟨1⟩, ⟨5⟩, ⟨6⟩] }, { lits := [⟨3⟩, ⟨5⟩, ⟨7⟩] }]
      [[.binary ⟨2⟩ false, .ternary ⟨5⟩ ⟨6⟩], [], [.ternary ⟨5⟩ ⟨7⟩], [.binary ⟨1⟩ false],
        [.ternary ⟨1⟩ ⟨6⟩, .ternary ⟨3⟩ ⟨7⟩], [], [.ternary ⟨3⟩ ⟨5⟩], [.ternary ⟨1⟩ ⟨5⟩]]
      [.l_true, .l_false, .l_true, .l_false, .l_true, .l_false, .l_true, .l_false]
      [1, 1, 2, 2] [⟨0⟩, ⟨2⟩, ⟨4⟩, ⟨6⟩] with
    m_justification := [.none, .binary ⟨1⟩, .none, .ternary ⟨1⟩ ⟨5⟩],
    m_scopes := [⟨0, 0, false⟩, ⟨2, 0, false⟩],
    m_qhead := 3,
    m_inconsistent := true,
    m_conflict := .ternary ⟨3⟩ ⟨5⟩,
    m_not_l := ⟨6⟩,
    m_conflict_lvl := 2 }

/-- The state `resolve_conflict_core` hands to `learn_lemma_and_backjump` for
`example_conflict`: the lemma is `¬c ∨ ¬b ∨ ¬a`. -/
def example_lemma : solver := (resolve_conflict_analysis {} example_conflict).getD {}

/-! ## The invariant conflict analysis relies on -/

/-- The antecedents of the trail literal `l`: the literals its recorded
justification hands to `process_antecedent`. -/
def reason_antecedents (E : collaborators) (s : solver) (l : literal) : List literal :=
  conflict_antecedents (fill_antecedents E s l (s.m_justification.getD l.var .none)) l
    (s.m_justification.getD l.var .none)

/-- The antecedents of the conflict: the literal `m_not_l`, when there is
one, and the literals the justification `m_conflict` hands to
`process_antecedent`. -/
def conflict_clause_antecedents (E : collaborators) (s : solver) : List literal :=
  (if s.m_not_l ≠ null_literal then [s.m_not_l] else []) ++
    conflict_antecedents (fill_antecedents E s s.first_consequent s.m_conflict)
      s.first_consequent s.m_conflict

/-- The trail and justification invariant of a state with a conflict at
level `d`: the assignment and the trail agree, the levels along the trail
do not decrease and stay below or at `d`, no variable is marked, the
antecedents of every trail literal stand before it on the trail, and the
antecedents of the conflict are on the trail, one of them at level `d`. -/
structure conflict_inv (E : collaborators) (s : solver) (d : Nat) : Prop where
  asg : assignment_inv s
  trail_len : s.m_trail.length < 4294967296
  level_le : ∀ l ∈ s.m_trail, s.lvl l ≤ d
  level_mono : s.m_trail.Pairwise (fun a b => s.lvl a ≤ s.lvl b)
  mark_len : s.m_mark.length = s.num_vars
  unmarked : ∀ b ∈ s.m_mark, b = false
  reasons : ∀ i < s.m_trail.length,
    ∀ a ∈ reason_antecedents E s (s.m_trail.getD i null_literal), a ∈ s.m_trail.take i
  conflict_true : ∀ a ∈ conflict_clause_antecedents E s, a ∈ s.m_trail
  conflict_level : ∃ a ∈ conflict_clause_antecedents E s, s.lvl a = d

/-- What a class `Γ` of valuations has to satisfy for the lemma to hold in
each of them: a valuation gives complementary literals complementary values,
makes the literals of level 0 true, satisfies the reason clause of every
trail literal that has a justification (the literal or the negation of an
antecedent is true) and satisfies the conflict clause (the negation of an
antecedent of the conflict is true).  Besides, a literal of level `d` without
justification, a decision, is the first of its level on the trail. -/
structure sound_inv (E : collaborators) (Γ : (literal → Bool) → Prop) (s : solver) (d : Nat) :
    Prop where
  compl : ∀ μ, Γ μ → ∀ l : literal, μ l.neg = !μ l
  level0 : ∀ μ, Γ μ → ∀ l ∈ s.m_trail, s.lvl l = 0 → μ l = true
  reason : ∀ μ, Γ μ → ∀ l ∈ s.m_trail, s.m_justification.getD l.var .none ≠ .none →
    μ l = true ∨ ∃ a ∈ reason_antecedents E s l, μ a = false
  conflict : ∀ μ, Γ μ → ∃ a ∈ conflict_clause_antecedents E s, μ a = false
  decision_first : (∃ μ, Γ μ) → ∀ pre l post, s.m_trail = pre ++ l :: post →
    s.m_justification.getD l.var .none = .none → s.lvl l = d → ∀ p ∈ pre, s.lvl p < d

/-- The invariant of the analysis loop of `resolve_conflict_core` relative to
the state `s0` it started in, for the trail prefix `P` still to be scanned,
the antecedents `pending` still to be processed and the counter `n`: the
marked literals of level `d` in `P` are the `n` members of `M`, the lemma is
the null literal followed by `tail`, whose literals are false, assigned
between level 0 and level `d` and marked, every marked variable belongs to
one of the two, and every valuation of `Γ` makes a literal of `tail` true or
a literal of `M` or of `pending` false. -/
structure uip_inv (Γ : (literal → Bool) → Prop) (s0 : solver) (d : Nat)
    (P pending : List literal) (s : solver) (n : Nat) : Prop where
  frame : analysis_frame s0 s
  mark_len : s.m_mark.length = s0.m_mark.length
  shape : ∃ M tail : List literal, M.Nodup ∧ M.length = n ∧
    (∀ l, l ∈ M ↔ (l ∈ P ∧ s.is_marked l.var = true ∧ s0.lvl l = d)) ∧
    s.m_lemma = null_literal :: tail ∧
    (∀ t ∈ tail, t.neg ∈ s0.m_trail ∧ 0 < s0.lvl t ∧ s0.lvl t < d ∧
      s.is_marked t.var = true) ∧
    (∀ v, s.is_marked v = true → ∃ l ∈ s0.m_trail, l.var = v ∧ (l ∈ M ∨ l.neg ∈ tail)) ∧
    (∀ μ, Γ μ → (∃ t ∈ tail, μ t = true) ∨ (∃ l ∈ M, μ l = false) ∨
      (∃ a ∈ pending, μ a = false))

/-- The state in which `resolve_conflict_core` starts its built-in analysis:
the conflict is counted, its level is set and the phases of the variables of
that level are forgotten. -/
def resolve_conflict_enter (E : collaborators) (s : solver) : solver :=
  (s.count_conflict.set_conflict_lvl E).forget_phase_of_vars
    (s.count_conflict.set_conflict_lvl E).m_conflict_lvl

/-! ## Backjumping: what stays -/

/-- The solver `s1` has the lemma, the assumptions and the configuration of
`s`. -/
structure lemma_frame (s s1 : solver) : Prop where
  config : s1.m_config = s.m_config
  lemma_eq : s1.m_lemma = s.m_lemma
  assumptions : s1.m_assumptions = s.m_assumptions
  assumption_set : s1.m_assumption_set = s.m_assumption_set
  user_scope_literals : s1.m_user_scope_literals = s.m_user_scope_literals

/-- The solver `s1` continues `s` by assignments and new scopes: what was
assigned keeps its value and its level, and the scope level does not go
down. -/
structure assign_grow (s s1 : solver) : Prop where
  asg_len : s1.m_assignment.length = s.m_assignment.length
  level_len : s1.m_level.length = s.m_level.length
  scope_le : s.m_scope_lvl ≤ s1.m_scope_lvl
  consistent : assignment_consistent s → assignment_consistent s1
  value : assignment_consistent s → ∀ x, s.value x ≠ lbool.l_undef → s1.value x = s.value x
  level : assignment_consistent s → ∀ x, s.value x ≠ lbool.l_undef → s1.lvl x = s.lvl x

/-- The scope stack matches the levels on the trail: there is one scope
record per level, and the record of level `k + 1` holds the number of trail
literals of level at most `k`. -/
def scope_inv (s : solver) : Prop :=
  s.m_scopes.length = s.m_scope_lvl ∧
  ∀ k < s.m_scopes.length, ∀ i < s.m_trail.length,
    (i < (s.m_scopes.getD k ⟨0, 0, false⟩).m_trail_lim ↔ s.lvl (s.m_trail.getD i null_literal) ≤ k)

/-- Four variables `x, y, u, w` (x0 .. x3): `¬x` was decided at level 1 and
`y` at level 2; the binary clause `u ∨ x` was added at level 2, where it
assigned `u` and went on the reinit stack; the clause `¬u ∨ w ∨ x` implied
`w`, and the clause `¬u ∨ ¬w ∨ x` is in conflict.  The state is the one
`resolve_conflict_core` analyses: the conflict is recorded with its level. -/
def example_reinit_conflict : solver :=
  { example_state 2 [{ lits := [⟨5⟩, ⟨6⟩, ⟨0⟩] }, { lits := [⟨5⟩, ⟨7⟩, ⟨0⟩] }]
      [[], [.binary ⟨4⟩ false, .ternary ⟨5⟩ ⟨6⟩, .ternary ⟨5⟩ ⟨7⟩], [], [],
        [.ternary ⟨6⟩ ⟨0⟩, .ternary ⟨7⟩ ⟨0⟩], [.binary ⟨0⟩ false], [.ternary ⟨5⟩ ⟨0⟩],
        [.ternary ⟨5⟩ ⟨0⟩]]
      [.l_false, .l_true, .l_true, .l_false, .l_true, .l_false, .l_true, .l_false]
      [1, 2, 2, 2] [⟨1⟩, ⟨2⟩, ⟨4⟩, ⟨6⟩] with
    m_justification := [.none, .none, .binary ⟨0⟩, .ternary ⟨5⟩ ⟨0⟩],
    m_scopes := [⟨0, 0, false⟩, ⟨1, 0, false⟩],
    m_clauses_to_reinit := [.bin ⟨4⟩ ⟨0⟩],
    m_qhead := 4,
    m_inconsistent := true,
    m_conflict := .ternary ⟨5⟩ ⟨7⟩,
    m_not_l := ⟨1⟩,
    m_conflict_lvl := 2 }

/-- The state `resolve_conflict_core` hands to `learn_lemma_and_backjump` for
`example_reinit_conflict`: the lemma is `¬u ∨ x`. -/
def example_reinit_lemma : solver :=
  (resolve_conflict_analysis {} example_reinit_conflict).getD {}

/-- The state of `learn_lemma_and_backjump` for `example_lemma` when the
lemma is final: it was minimised to `¬c ∨ ¬a`. -/
def example_prepared : solver := (example_lemma.learn_lemma_prepare {} 10).getD {}

/-- The state of `learn_lemma_and_backjump` for `example_reinit_lemma` when
the lemma is final: minimisation leaves `¬u ∨ x` as it is. -/
def example_reinit_prepared : solver := (example_reinit_lemma.learn_lemma_prepare {} 10).getD {}

/-! ## The clauses of the solver and the assignments that satisfy them -/

/-- The clauses currently in the solver, as lists of literals: a binary entry
`l2` in the watch list of the literal `w` stands for the clause `¬w ∨ l2`, a
ternary entry `l1, l2` for `¬w ∨ l1 ∨ l2`, and the vectors `m_clauses` and
`m_learned` hold the offsets of the clauses of the arena. -/
def in_db (s : solver) (c : List literal) : Prop :=
  (∃ (w l2 : literal) (b : Bool), watched.binary l2 b ∈ s.get_wlist w.index ∧ c = [w.neg, l2]) ∨
  (∃ w l1 l2 : literal, watched.ternary l1 l2 ∈ s.get_wlist w.index ∧ c = [w.neg, l1, l2]) ∨
  (∃ off ∈ s.m_clauses ++ s.m_learned, c = (s.get_clause off).lits)

/-- The total assignment `μ` satisfies the clauses of the solver: it gives
complementary literals complementary values, makes a literal of every clause
true, and makes the literals assigned at level 0, the units, true. -/
def is_model (s : solver) (μ : literal → Bool) : Prop :=
  (∀ l : literal, μ l.neg = !μ l) ∧
  (∀ c, in_db s c → ∃ l ∈ c, μ l = true) ∧
  (∀ l ∈ s.m_trail, s.lvl l = 0 → μ l = true)

/-- The justifications are clauses of the solver: for every trail literal
with a justification there is a clause of the solver that consists of the
literal and negated antecedents of its justification, and there is a clause
of the solver that consists of negated antecedents of the conflict. -/
def reasons_in_db (E : collaborators) (s : solver) : Prop :=
  (∀ l ∈ s.m_trail, s.m_justification.getD l.var .none ≠ .none →
    ∃ c, in_db s c ∧ ∀ x ∈ c, x = l ∨ x.neg ∈ reason_antecedents E s l) ∧
  (∃ c, in_db s c ∧ ∀ x ∈ c, x.neg ∈ conflict_clause_antecedents E s)

/-- A literal of the level `d` without justification, a decision, is the
first literal of its level on the trail. -/
def decision_first (s : solver) (d : Nat) : Prop :=
  ∀ i < s.m_trail.length,
    s.m_justification.getD (s.m_trail.getD i null_literal).var .none = .none →
    s.lvl (s.m_trail.getD i null_literal) = d →
    ∀ j < i, s.lvl (s.m_trail.getD j null_literal) < d

/-- The antecedents of the recorded justifications are variables of the
solver. -/
def antecedents_wf (E : collaborators) (s : solver) : Prop :=
  ∀ v < s.m_justification.length, ∀ a ∈ min_antecedents E s v, a.var < s.num_vars

/-! ## Garbage collection of learned clauses -/

/-- `glue_lt`, the order `gc_glue` sorts by. -/
def glue_lt (c1 c2 : clause) : Bool :=
  if c1.m_glue < c2.m_glue then true
  else c1.m_glue == c2.m_glue && decide (c1.size < c2.size)

/-- `psm_lt`, the order `gc_psm` sorts by. -/
def psm_lt (c1 c2 : clause) : Bool :=
  if c1.m_psm < c2.m_psm then true
  else c1.m_psm == c2.m_psm && decide (c1.size < c2.size)

/-- `glue_psm_lt`, the order `gc_glue_psm` sorts by. -/
def glue_psm_lt (c1 c2 : clause) : Bool :=
  if c1.m_glue < c2.m_glue then true
  else if c1.m_glue > c2.m_glue then false
  else if c1.m_psm < c2.m_psm then true
  else if c1.m_psm > c2.m_psm then false
  else decide (c1.size < c2.size)

/-- `psm_glue_lt`, the order `gc_psm_glue` sorts by. -/
def psm_glue_lt (c1 c2 : clause) : Bool :=
  if c1.m_psm < c2.m_psm then true
  else if c1.m_psm > c2.m_psm then false
  else if c1.m_glue < c2.m_glue then true
  else if c1.m_glue > c2.m_glue then false
  else decide (c1.size < c2.size)

/-- The strict lexicographic order on pairs of numbers, in the words of the
specification of the keys. -/
def lex2_lt (a b : Nat × Nat) : Prop := a.1 < b.1 ∨ (a.1 = b.1 ∧ a.2 < b.2)

/-- The strict lexicographic order on triples of numbers, in the words of the
specification of the keys. -/
def lex3_lt (a b : Nat × Nat × Nat) : Prop :=
  a.1 < b.1 ∨ (a.1 = b.1 ∧ (a.2.1 < b.2.1 ∨ (a.2.1 = b.2.1 ∧ a.2.2 < b.2.2)))

/-- A strict weak order: irreflexive, transitive, and with transitive
incomparability. -/
def strict_weak_order (lt : clause → clause → Bool) : Prop :=
  (∀ a, lt a a = false) ∧
  (∀ a b c, lt a b = true → lt b c = true → lt a c = true) ∧
  (∀ a b c, lt a b = false → lt b a = false → lt b c = false → lt c b = false →
    lt a c = false ∧ lt c a = false)

/-- Modelled from the spec: `can_delete(c)` of sat_solver.h, the removal of
the clause is safe: it is not on the reinit stack and it is not the reason
recorded for the assignment of its first literal (a clause of size 3 is never
recorded as a reason by its handle). -/
def can_delete (s : solver) (off : clause_offset) : Bool :=
  if (s.get_clause off).m_reinit_stack then false
  else if (s.get_clause off).size = 3 then true
  else if s.value ((s.get_clause off).get 0) != .l_true then true
  else
    match s.m_justification.getD ((s.get_clause off).get 0).var .none with
    | .clause off1 => off1 != off
    | _ => true

/-- `solver::del_clause(c)`.  The arena releases the memory of the clause;
the list that stands for the arena keeps the entry, so that the offsets of
the other clauses stay as they are. -/
def del_clause (s : solver) (off : clause_offset) : solver :=
  { s with m_stats := { s.m_stats with
      m_non_learned_generation :=
        if (s.get_clause off).m_learned then s.m_stats.m_non_learned_generation
        else s.m_stats.m_non_learned_generation + 1,
      m_del_clause := s.m_stats.m_del_clause + 1 } }

/-- Body of the loop of `gc_half` for the entry `off`; `kept` are the entries
written back to `m_learned[new_sz..j)` so far. -/
def gc_half_step (st : solver × List clause_offset) (off : clause_offset) :
    solver × List clause_offset :=
  if st.1.can_delete off then ((st.1.detach_clause off).del_clause off, st.2)
  else (st.1, st.2 ++ [off])

/-- `solver::gc_half(st_name)`; the counter `m_gc_clause` is unsigned. -/
def gc_half (s : solver) : solver :=
  { ((s.m_learned.drop (s.m_learned.length / 2)).foldl gc_half_step (s, [])).1 with
    m_learned := s.m_learned.take (s.m_learned.length / 2) ++
      ((s.m_learned.drop (s.m_learned.length / 2)).foldl gc_half_step (s, [])).2,
    m_stats :=
      { ((s.m_learned.drop (s.m_learned.length / 2)).foldl gc_half_step (s, [])).1.m_stats with
        m_gc_clause :=
          (((s.m_learned.drop (s.m_learned.length / 2)).foldl gc_half_step (s, [])).1.m_stats.m_gc_clause
            + (s.m_learned.length - (s.m_learned.length / 2 +
              ((s.m_learned.drop (s.m_learned.length / 2)).foldl gc_half_step (s, [])).2.length)))
          % 4294967296 } }

/-! ## The decision queue and `next_var` -/

/-- Modelled from the spec: the random generator `m_rand`, a collaborator
outside the sources: a function from the state of the generator to the
number drawn and the next state. -/
abbrev random_gen := Nat → Nat × Nat

/-- A call `m_rand()`: the number drawn and the solver with the next state of
the generator. -/
def draw (rng : random_gen) (s : solver) : Nat × solver :=
  ((rng s.m_rand).1, { s with m_rand := (rng s.m_rand).2 })

/-- Modelled from the spec: `value(bool_var)` of sat_solver.h, the value of
the positive literal of the variable. -/
def value_var (s : solver) (v : bool_var) : lbool := s.value (mk_literal v false)

/-- Modelled from the spec: `was_eliminated(v)` of sat_solver.h. -/
def was_eliminated (s : solver) (v : bool_var) : Bool := s.m_eliminated.getD v false

/-- Modelled from the spec: `m_case_split_queue.min_var()` of sat_var_queue.h,
the top of the heap: a member of the queue with the highest activity, here
the first one in the list of the members. -/
def min_var (s : solver) : bool_var :=
  (s.m_case_split_queue.drop 1).foldl
    (fun b v => if s.m_activity.getD v 0 > s.m_activity.getD b 0 then v else b)
    (s.m_case_split_queue.headD 0)

/-- Modelled from the spec: `m_case_split_queue.next_var()` of
sat_var_queue.h, which removes the top of the heap and returns it. -/
def queue_next_var (s : solver) : bool_var × solver :=
  (s.min_var, { s with m_case_split_queue := s.m_case_split_queue.erase s.min_var })

/-- Body of the loop `while (age > 0)` of `next_var` for the variable `next`:
the activity decays and the variable counts as cancelled now;
`activity_changed_eh` only reorders the heap. -/
def anti_exploration_step (s : solver) (next : bool_var) : solver :=
  { s with
    m_activity := s.m_activity.set next
      (s.m_config.m_decay (s.m_activity.getD next 0) (s.age next)),
    m_canceled := s.m_canceled.set next s.m_stats.m_conflict }

/-- The loop `while (age > 0)` of `next_var`; `none` when it does not end
within `fuel` iterations. -/
def anti_exploration_loop : Nat → solver → Option solver
  | fuel, s =>
    if s.age s.min_var > 0 then
      match fuel with
      | 0 => none
      | fuel + 1 => anti_exploration_loop fuel (s.anti_exploration_step s.min_var)
    else some s

/-- The test `value(next) == l_undef && !was_eliminated(next)`. -/
def is_candidate (s : solver) (next : bool_var) : Bool :=
  s.value_var next == lbool.l_undef && !s.was_eliminated next

/-- The loop `while (!m_case_split_queue.empty())` of `next_var` with the
`return null_bool_var` behind it; `inner` is the fuel of each run of the
anti-exploration loop. -/
def next_var_loop (inner : Nat) : Nat → solver → Option (bool_var × solver)
  | fuel, s =>
    if s.m_case_split_queue.isEmpty then some (null_bool_var, s)
    else
      match fuel with
      | 0 => none
      | fuel + 1 =>
        match (if s.m_config.m_anti_exploration then anti_exploration_loop inner s
          else some s) with
        | none => none
        | some s1 =>
          if s1.queue_next_var.2.is_candidate s1.queue_next_var.1 then some s1.queue_next_var
          else next_var_loop inner fuel s1.queue_next_var.2

/-- `solver::next_var()`: the variable returned and the solver. -/
def next_var (rng : random_gen) (fuel : Nat) (s : solver) : Option (bool_var × solver) :=
  if ((s.draw rng).1 : Int) < s.m_config.m_random_freq then
    if (s.draw rng).2.num_vars = 0 then some (null_bool_var, (s.draw rng).2)
    else if ((s.draw rng).2.draw rng).2.is_candidate
        (((s.draw rng).2.draw rng).1 % (s.draw rng).2.num_vars) then
      some (((s.draw rng).2.draw rng).1 % (s.draw rng).2.num_vars, ((s.draw rng).2.draw rng).2)
    else next_var_loop fuel fuel ((s.draw rng).2.draw rng).2
  else next_var_loop fuel fuel (s.draw rng).2

/-! ## User scopes -/

/-- `solver::user_push()`. -/
def user_push (s : solver) : solver :=
  { (s.mk_var true false).2 with
    m_user_scope_literals :=
      (s.mk_var true false).2.m_user_scope_literals ++ [mk_literal (s.mk_var true false).1 false] }

/-- Modelled from the spec: `clause::contains(l)` of sat_clause.h. -/
def clause_contains (c : clause) (l : literal) : Bool := decide (l ∈ c.lits)

/-- Body of the loop of `gc_lit` for the entry `off`; `kept` are the entries
written back to `clauses[0..j)` so far. -/
def gc_lit_step (lit : literal) (st : solver × List clause_offset) (off : clause_offset) :
    solver × List clause_offset :=
  if clause_contains (st.1.get_clause off) lit || clause_contains (st.1.get_clause off) lit.neg then
    ((st.1.detach_clause off).del_clause off, st.2)
  else (st.1, st.2 ++ [off])

/-- `gc_lit(m_learned, lit)`. -/
def gc_lit_learned (s : solver) (lit : literal) : solver :=
  { (s.m_learned.foldl (gc_lit_step lit) (s, [])).1 with
    m_learned := (s.m_learned.foldl (gc_lit_step lit) (s, [])).2 }

/-- `gc_lit(m_clauses, lit)`. -/
def gc_lit_clauses (s : solver) (lit : literal) : solver :=
  { (s.m_clauses.foldl (gc_lit_step lit) (s, [])).1 with
    m_clauses := (s.m_clauses.foldl (gc_lit_step lit) (s, [])).2 }

/-- Body of the inner loop of `collect_bin_clauses` for the watch list of the
literal whose negation is `l`: the binary clause the entry stands for, when
it is collected. -/
def collect_bin_entry (l : literal) (learned learned_only : Bool) :
    watched → Option (literal × literal)
  | .binary l2 lrn =>
    if !learned && lrn then none
    else if learned && learned_only && !lrn then none
    else if l.index > l2.index then none
    else some (l, l2)
  | _ => none

/-- `solver::collect_bin_clauses(r, learned, learned_only)`: the pairs pushed
on `r`. -/
def collect_bin_clauses (s : solver) (learned learned_only : Bool) : List (literal × literal) :=
  (List.range s.m_watches.length).flatMap fun l_idx =>
    (s.get_wlist l_idx).filterMap (collect_bin_entry (⟨l_idx⟩ : literal).neg learned learned_only)

/-- `solver::detach_bin_clause(l1, l2, learned)`; `erase` removes the first
entry equal to the watch. -/
def detach_bin_clause (s : solver) (l1 l2 : literal) (learned : Bool) : solver :=
  (s.set_wlist_at l1.neg.index ((s.get_wlist l1.neg.index).erase (.binary l2 learned))).set_wlist_at
    l2.neg.index
    (((s.set_wlist_at l1.neg.index ((s.get_wlist l1.neg.index).erase
      (.binary l2 learned))).get_wlist l2.neg.index).erase (.binary l1 learned))

/-- Body of the loop of `gc_bin` for the collected clause `p`. -/
def gc_bin_step (learned : Bool) (nlit : literal) (s : solver) (p : literal × literal) : solver :=
  if nlit == p.1 || nlit == p.2 then s.detach_bin_clause p.1 p.2 learned else s

/-- `solver::gc_bin(learned, nlit)`. -/
def gc_bin (s : solver) (learned : Bool) (nlit : literal) : solver :=
  (s.collect_bin_clauses learned false).foldl (gc_bin_step learned nlit)
    { s with m_user_bin_clauses := s.collect_bin_clauses learned false }

/-- The loop of `max_var(learned, v)` over the collected binary clauses. -/
def max_var_bins (bins : List (literal × literal)) (v : bool_var) : bool_var :=
  bins.foldl (fun v p =>
    if p.2.var > (if p.1.var > v then p.1.var else v) then p.2.var
    else if p.1.var > v then p.1.var else v) v

/-- `solver::max_var(clauses, v)`. -/
def max_var_clauses (s : solver) (cs : List clause_offset) (v : bool_var) : bool_var :=
  cs.foldl (fun v off => (s.get_clause off).lits.foldl
    (fun v l => if l.var > v then l.var else v) v) v

/-- The block `if (v > 0)` of `gc_var`: the index from which on no variable
occurs in the solver state; variables are unsigned numbers. -/
def gc_var_bound (s : solver) (v : bool_var) : bool_var :=
  if v > 0 then
    max (s.m_mc.max_var
        (max_var_bins (s.collect_bin_clauses false false)
          (max_var_bins (s.collect_bin_clauses true false)
            (s.max_var_clauses s.m_clauses (s.max_var_clauses s.m_learned (v - 1))))))
      ((s.m_trail.foldl (fun w l => if l.var > w then l.var else w)
        (max_var_bins (s.collect_bin_clauses false false)
          (max_var_bins (s.collect_bin_clauses true false)
            (s.max_var_clauses s.m_clauses (s.max_var_clauses s.m_learned (v - 1)))))
        + 1) % 4294967296)
  else v

/-- The block `if (v < m_level.size())` of `gc_var`: the per-variable vectors
are cut back to `v` variables.  Modelled from the spec:
`m_case_split_queue.del_var_eh(i)` removes the variable from the decision
queue and `m_simplifier.reset_todos()` empties the to-do list of the
simplifier. -/
def shrink_vars (s : solver) (v : bool_var) : solver :=
  if v < s.m_level.length then
    { s with
      m_case_split_queue := s.m_case_split_queue.filter (fun i => decide (i < v)),
      m_watches := s.m_watches.take (2 * v),
      m_assignment := s.m_assignment.take (2 * v),
      m_justification := s.m_justification.take v,
      m_decision := s.m_decision.take v,
      m_eliminated := s.m_eliminated.take v,
      m_external := s.m_external.take v,
      m_activity := s.m_activity.take v,
      m_level := s.m_level.take v,
      m_mark := s.m_mark.take v,
      m_lit_mark := s.m_lit_mark.take (2 * v),
      m_phase := s.m_phase.take v,
      m_prev_phase := s.m_prev_phase.take v,
      m_assigned_since_gc := s.m_assigned_since_gc.take v,
      m_elim_todo := [] }
  else s

/-- `solver::gc_var(v)`; the two calls of `max_var(learned, w)` leave the
binary clauses they collected in `m_user_bin_clauses`. -/
def gc_var (s : solver) (v : bool_var) : solver :=
  ({ s with m_user_bin_clauses :=
      if v > 0 then s.collect_bin_clauses false false else s.m_user_bin_clauses }).shrink_vars
    (s.gc_var_bound v)

/-- The loop of `user_pop` over the trail: at the first entry equal to `lit`
the trail is cut there. -/
def unassign_from (s : solver) (lit : literal) : solver :=
  if s.m_trail.indexOf lit < s.m_trail.length then s.unassign_vars (s.m_trail.indexOf lit) else s

/-- `m_user_scope_literals.pop_back()` and the two `reset()` calls on the
watch lists of the literal `lit` and of its negation. -/
def pop_user_scope_literal (s : solver) (lit : literal) : solver :=
  ({ s with m_user_scope_literals := s.m_user_scope_literals.dropLast }.set_wlist_at lit.index
    []).set_wlist_at lit.neg.index []

/-- Body of the loop `while (num_scopes > 0)` of `user_pop`; `back()` of the
empty vector is read as the null literal. -/
def user_pop_scope (s : solver) : solver :=
  (((((s.pop_user_scope_literal (s.m_user_scope_literals.getLastD null_literal)).gc_lit_learned
    (s.m_user_scope_literals.getLastD null_literal)).gc_lit_clauses
    (s.m_user_scope_literals.getLastD null_literal)).gc_bin true
    (s.m_user_scope_literals.getLastD null_literal)).gc_bin false
    (s.m_user_scope_literals.getLastD null_literal)).unassign_from
    (s.m_user_scope_literals.getLastD null_literal) |>.gc_var
    (s.m_user_scope_literals.getLastD null_literal).var

/-- The loop `while (num_scopes > 0)` of `user_pop`. -/
def user_pop_loop : Nat → solver → solver
  | 0, s => s
  | n + 1, s => user_pop_loop n s.user_pop_scope

/-- `solver::user_pop(num_scopes)`. -/
def user_pop (s : solver) (num_scopes : Nat) : solver :=
  user_pop_loop num_scopes s.pop_to_base_level

/-! ## `copy` -/

/-- Modelled from the spec: `init_trail_size()` of sat_solver.h, the number
of trail literals of level 0. -/
def init_trail_size (s : solver) : Nat :=
  if s.at_base_lvl then s.m_trail.length else (s.m_scopes.getD 0 ⟨0, 0, false⟩).m_trail_lim

/-- A loop whose body may abort: the body is run on the elements in order and
the first `none` ends the run. -/
def fold_opt {α : Type} (f : solver → α → Option solver) : List α → solver → Option solver
  | [], d => some d
  | a :: rest, d =>
    match f d a with
    | none => none
    | some d1 => fold_opt f rest d1

/-- Body of the loop of `copy` that creates the variables; `mk_var` returns
the index `v`, so the `VERIFY` holds. -/
def copy_var (src : solver) (dst : solver) (v : bool_var) : solver :=
  { (if src.was_eliminated v then
      { (dst.mk_var (src.m_external.getD v false) (src.m_decision.getD v false)).2 with
        m_eliminated :=
          (dst.mk_var (src.m_external.getD v false) (src.m_decision.getD v false)).2.m_eliminated.set
            v true }
     else (dst.mk_var (src.m_external.getD v false) (src.m_decision.getD v false)).2) with
    m_phase :=
      (dst.mk_var (src.m_external.getD v false) (src.m_decision.getD v false)).2.m_phase.set v
        (src.m_phase.getD v .PHASE_NOT_AVAILABLE),
    m_prev_phase :=
      (dst.mk_var (src.m_external.getD v false) (src.m_decision.getD v false)).2.m_prev_phase.set v
        (src.m_prev_phase.getD v .PHASE_NOT_AVAILABLE) }

/-- Body of the inner loop of `copy` over a watch list of the source, for the
literal `l` whose negation the list belongs to. -/
def copy_bin_entry (src : solver) (l : literal) (dst : solver) : watched → Option solver
  | .binary l2 learned =>
    if learned then some dst
    else if decide (l.index > l2.index) || src.was_eliminated l2.var then some dst
    else (dst.mk_clause_core [l, l2] false).map fun r => r.2
  | _ => some dst

/-- Body of the loop of `copy` over the watch lists of the source. -/
def copy_bin_wlist (src : solver) (dst : solver) (l_idx : Nat) : Option solver :=
  if src.was_eliminated (⟨l_idx⟩ : literal).neg.var then some dst
  else fold_opt (copy_bin_entry src (⟨l_idx⟩ : literal).neg) (src.get_wlist l_idx) dst

/-- Body of the loop of `copy` over the clauses of the source. -/
def copy_clause (src : solver) (dst : solver) (off : clause_offset) : Option solver :=
  (dst.mk_clause_core (src.get_clause off).lits false).map fun r => r.2

/-- The test of `copy` for a lemma of high quality. -/
def high_quality (c : clause) : Bool :=
  decide (c.m_glue ≤ 2) || (decide (c.size ≤ 40) && decide (c.m_glue ≤ 8))

/-- `c1->set_psm(psm)` for the clause at `off`. -/
def set_psm (s : solver) (off : clause_offset) (psm : Nat) : solver :=
  s.set_clause off { s.get_clause off with m_psm := psm }

/-- Body of the loop of `copy` over the learned clauses of the source. -/
def copy_lemma (src : solver) (dst : solver) (off : clause_offset) : Option solver :=
  if high_quality (src.get_clause off) then
    match dst.mk_clause_core (src.get_clause off).lits true with
    | none => none
    | some (some off1, d) =>
      some ((d.set_glue off1 (src.get_clause off).m_glue).set_psm off1 (src.get_clause off).m_psm)
    | some (none, d) => some d
  else some dst

/-- `solver::copy(src)` on the destination `dst`; the registration of a copy
of the extension only concerns the extension. -/
def copy (dst src : solver) : Option solver :=
  match fold_opt (copy_bin_wlist src) (List.range src.m_watches.length)
      ((src.m_trail.take src.init_trail_size).foldl (fun d l => d.assign l .none)
        ((List.range' dst.pop_to_base_level.num_vars
          (src.num_vars - dst.pop_to_base_level.num_vars)).foldl (copy_var src)
          dst.pop_to_base_level)) with
  | none => none
  | some d1 =>
    match fold_opt (copy_clause src) src.m_clauses d1 with
    | none => none
    | some d2 =>
      match fold_opt (copy_lemma src) src.m_learned d2 with
      | none => none
      | some d3 =>
        some { d3 with m_user_scope_literals := src.m_user_scope_literals, m_mc := src.m_mc }

/-! ## Example states for the clause store -/

/-- A clause whose literals behind the first are `¬a`, `¬c`, `¬b`, `¬d`,
which are false in `example_conflict` at the levels 1, 2, 1, 2. -/
def example_watch_clause : clause := { lits := [⟨8⟩, ⟨1⟩, ⟨5⟩, ⟨3⟩, ⟨7⟩], m_learned := true }

/-- Four variables with `x0` true and `x1`, `x2` false at level 1, nothing
propagated yet.  The watch list of `x0` holds a binary entry for `¬x0 ∨ x3`,
the ternary entry of the clause `¬x0 ∨ x1 ∨ x2`, which is in conflict, and a
binary entry for `¬x0 ∨ ¬x3`. -/
def example_compaction : solver :=
  example_state 1 [{ lits := [⟨1⟩, ⟨2⟩, ⟨4⟩] }]
    [[.binary ⟨6⟩ false, .ternary ⟨2⟩ ⟨4⟩, .binary ⟨7⟩ false], [], [],
      [.ternary ⟨1⟩ ⟨4⟩], [], [.ternary ⟨1⟩ ⟨2⟩], [.binary ⟨1⟩ false], [.binary ⟨1⟩ false]]
    [.l_true, .l_false, .l_false, .l_true, .l_false, .l_true, lbool.l_undef, lbool.l_undef]
    [1, 1, 1, UINT_MAX] [⟨0⟩, ⟨3⟩, ⟨5⟩]

/-- The state `example_level1` (scope level 1, no user scope) after the empty
clause was asserted through `mk_clause`. -/
def example_empty_clause : solver :=
  ((example_level1.mk_clause [] false).map fun r => r.2).getD {}

/-- Collaborators whose search answers `sat`. -/
def example_sat_search : collaborators := { search := fun _ s => (lbool.l_true, s) }

/-- The empty solver after two calls of `user_push`. -/
def example_user_scopes : solver := ({} : solver).user_push.user_push

/-- The base-level state `example_base` after a conflict was raised. -/
def example_inconsistent : solver := example_base.set_conflict .none

/-- The state `example_base` (where `x0` is assigned) with anti-exploration
on, three conflicts counted, and the decision queue `x0, x1, x2`, of which
`x0` has the highest activity and `x2` the next. -/
def example_queue : solver :=
  { example_base with
    m_config := { m_anti_exploration := true },
    m_stats := { m_conflict := 3 },
    m_case_split_queue := [0, 1, 2], m_activity := [7, 2, 5, 0] }

/-- A generator that counts: it returns its state and moves to the next. -/
def example_rng : random_gen := fun n => (n, n + 1)

/-! ## Well-formedness of the clause store, for incremental use -/

/-- The literals of the watch entry `w` belong to variables below `n` and a
clause offset in it lies below `k`. -/
def watched_below (n k : Nat) : watched → Bool
  | .binary l _ => decide (l.var < n)
  | .ternary l1 l2 => decide (l1.var < n) && decide (l2.var < n)
  | .clause _ off => decide (off < k)
  | .ext_constraint _ => true

/-- The clause store of `s` is well formed: there are two watch lists and two
assignment entries per variable, the variables are below `null_bool_var`, and
the watch lists, the clauses of the two clause vectors, the trail, the user
scope literals and the model converter mention only variables of the solver
and clauses of the arena. -/
structure store_wf (s : solver) : Prop where
  watches_length : s.m_watches.length = 2 * s.num_vars
  assignment_length : s.m_assignment.length = 2 * s.num_vars
  num_vars_lt : s.num_vars < null_bool_var
  watch_lits : ∀ ws ∈ s.m_watches, ∀ w ∈ ws,
    watched_below s.num_vars s.m_cls_allocator.length w = true
  clause_lits : ∀ off ∈ s.m_clauses ++ s.m_learned,
    off < s.m_cls_allocator.length ∧ ∀ l ∈ (s.get_clause off).lits, l.var < s.num_vars
  trail_lits : ∀ l ∈ s.m_trail, l.var < s.num_vars
  scope_lits : ∀ l ∈ s.m_user_scope_literals, l.var < s.num_vars
  mc_vars : s.m_mc.max_var (s.num_vars - 1) ≤ s.num_vars

/-- The solver `s1` has the clause vectors, the arena, the trail, the user
scope literals, the levels, the model converter and the number of watch lists
of `s`. -/
structure store_frame (s s1 : solver) : Prop where
  m_clauses : s1.m_clauses = s.m_clauses
  m_learned : s1.m_learned = s.m_learned
  m_cls_allocator : s1.m_cls_allocator = s.m_cls_allocator
  m_trail : s1.m_trail = s.m_trail
  m_user_scope_literals : s1.m_user_scope_literals = s.m_user_scope_literals
  m_level : s1.m_level = s.m_level
  m_mc : s1.m_mc = s.m_mc
  watches_length : s1.m_watches.length = s.m_watches.length

/-- The solver `t` is `s` with one more user scope: the variable
`s.num_vars` was added with its two watch lists, its positive literal is on
top of the user scope literals and is the only literal that may have been
added to the trail; the learned vector, the clauses of the arena of `s` and
the model converter are those of `s`, and the solver is at scope level 0. -/
structure scope_added (s t : solver) : Prop where
  m_user_scope_literals :
    t.m_user_scope_literals = s.m_user_scope_literals ++ [mk_literal s.num_vars false]
  level_length : t.m_level.length = s.num_vars + 1
  m_mc : t.m_mc = s.m_mc
  m_learned : t.m_learned = s.m_learned
  arena : ∀ off, off < s.m_cls_allocator.length → t.get_clause off = s.get_clause off
  watches_length : t.m_watches.length = 2 * s.num_vars + 2
  m_trail : t.m_trail = s.m_trail ∨ t.m_trail = s.m_trail ++ [mk_literal s.num_vars false]
  m_scope_lvl : t.m_scope_lvl = 0

/-- The solver `r` has the number of variables, the trail, the watch lists,
the clause vectors and the user scope literals of `s`. -/
def restored (s r : solver) : Prop :=
  r.num_vars = s.num_vars ∧ r.m_trail = s.m_trail ∧ r.m_watches = s.m_watches ∧
  r.m_clauses = s.m_clauses ∧ r.m_learned = s.m_learned ∧
  r.m_user_scope_literals = s.m_user_scope_literals

/-- The solver `q` is `s` right after `user_push`, up to statistics and
scratch data: one variable more, unassigned and with empty watch lists, and
its positive literal on top of the user scope literals; `s` is at scope
level 0. -/
structure scope_opened (s q : solver) : Prop where
  m_user_scope_literals :
    q.m_user_scope_literals = s.m_user_scope_literals ++ [mk_literal s.num_vars false]
  m_level : q.m_level = s.m_level ++ [UINT_MAX]
  m_mc : q.m_mc = s.m_mc
  m_learned : q.m_learned = s.m_learned
  m_clauses : q.m_clauses = s.m_clauses
  m_cls_allocator : q.m_cls_allocator = s.m_cls_allocator
  m_watches : q.m_watches = s.m_watches ++ [[], []]
  m_trail : q.m_trail = s.m_trail
  m_scope_lvl : q.m_scope_lvl = 0
  m_assignment : q.m_assignment = s.m_assignment ++ [lbool.l_undef, lbool.l_undef]

/-- A base-level state over four variables with `x0` false at level 0 and the
ternary clause `x1 ∨ x2 ∨ x3` with its three watches. -/
def example_store : solver :=
  example_state 0 [{ lits := [⟨2⟩, ⟨4⟩, ⟨6⟩] }]
    [[], [], [], [.ternary ⟨4⟩ ⟨6⟩], [], [.ternary ⟨2⟩ ⟨6⟩], [], [.ternary ⟨2⟩ ⟨4⟩]]
    [.l_false, .l_true, lbool.l_undef, lbool.l_undef, lbool.l_undef, lbool.l_undef,
      lbool.l_undef, lbool.l_undef]
    [0, UINT_MAX, UINT_MAX, UINT_MAX] [⟨1⟩]

/-! ## Watch selection, dynamic subsumption resolution and glue: specification helpers -/

/-- Invariant of the loop of `select_watch_lit` after the indices
`start, …, start + k - 1` have been visited. -/
structure swl_inv (s : solver) (cls : clause) (start k : Nat) (st : watch_candidates) : Prop where
  true_none : st.min_true_idx = UINT_MAX →
    ∀ i, start ≤ i → i < start + k → s.value (cls.get i) ≠ .l_true
  true_some : st.min_true_idx ≠ UINT_MAX →
    start ≤ st.min_true_idx ∧ st.min_true_idx < start + k ∧
    s.value (cls.get st.min_true_idx) = .l_true ∧
    ∀ i, start ≤ i → i < start + k → s.value (cls.get i) = .l_true →
      s.lvl (cls.get st.min_true_idx) ≤ s.lvl (cls.get i)
  false_none : st.max_false_idx = UINT_MAX →
    ∀ i, start ≤ i → i < start + k → s.value (cls.get i) ≠ .l_false
  false_some : st.max_false_idx ≠ UINT_MAX →
    start ≤ st.max_false_idx ∧ st.max_false_idx < start + k ∧
    s.value (cls.get st.max_false_idx) = .l_false ∧
    ∀ i, start ≤ i → i < start + k → s.value (cls.get i) = .l_false →
      s.lvl (cls.get i) ≤ s.lvl (cls.get st.max_false_idx)
  unknown_none : st.unknown_idx = UINT_MAX →
    ∀ i, start ≤ i → i < start + k → s.value (cls.get i) ≠ lbool.l_undef
  unknown_some : st.unknown_idx ≠ UINT_MAX →
    start ≤ st.unknown_idx ∧ st.unknown_idx < start + k ∧
    s.value (cls.get st.unknown_idx) = lbool.l_undef

/-- The state of `example_conflict` with the lemma `¬c ∨ ¬b ∨ ¬a` that
conflict analysis produces for it, as `dyn_sub_res` receives it. -/
def example_dyn_sub_res : solver := { example_conflict with m_lemma := [⟨5⟩, ⟨3⟩, ⟨1⟩] }

/-- The learned clause `x0 ∨ x1 ∨ x2 ∨ x3` with glue 4. -/
def example_glue_clause : clause :=
  { lits := [⟨0⟩, ⟨2⟩, ⟨4⟩, ⟨6⟩], m_learned := true, m_glue := 4 }

/-- The state of `example_unit` with the clause turned into the learned
clause `example_glue_clause`: `x1`, `x2` and `x3` are false at level 1 and
`x0` is unassigned, so the clause is unit. -/
def example_glue : solver :=
  example_state 1 [example_glue_clause]
    [[], [.clause ⟨4⟩ 0], [], [.clause ⟨4⟩ 0], [], [], [], []]
    [lbool.l_undef, lbool.l_undef, .l_false, .l_true, .l_false, .l_true, .l_false, .l_true]
    [UINT_MAX, 1, 1, 1] [⟨5⟩, ⟨7⟩, ⟨3⟩]

/-! ## DIMACS display -/

/-- Modelled from the spec: `to_literal(x)` of sat_types.h is the literal
with index `x`. -/
def to_literal (x : Nat) : literal := ⟨x⟩

/-- The test `w.is_binary_clause() && l.index() < w.get_literal().index()` of
`num_clauses` and `display_dimacs` for an entry of the watch list number
`l_idx`, where `l = ~to_literal(l_idx)`; the answer is the literal
`w.get_literal()` when the test holds. -/
def dimacs_binary (l_idx : Nat) : watched → Option literal
  | .binary l2 _ => if (to_literal l_idx).neg.index < l2.index then some l2 else none
  | _ => none

/-- The inner loop of `num_clauses` over one watch list; `num_cls++` is a 32
bit increment. -/
def num_clauses_wlist (l_idx : Nat) (num_cls : Nat) (wl : List watched) : Nat :=
  wl.foldl (fun n w => if (dimacs_binary l_idx w).isSome then (n + 1) % 4294967296 else n) num_cls

/-- The loop of `num_clauses` over `m_watches`, with `l_idx` the number of
the next list. -/
def num_clauses_watches : List (List watched) → Nat → Nat → Nat
  | [], _, num_cls => num_cls
  | wl :: rest, l_idx, num_cls =>
    num_clauses_watches rest (l_idx + 1) (num_clauses_wlist l_idx num_cls wl)

/-- `solver::num_clauses()`, with the 32 bit sum at the end. -/
def num_clauses (s : solver) : Nat :=
  (num_clauses_watches s.m_watches 0 s.m_trail.length + s.m_clauses.length +
    s.m_learned.length) % 4294967296

/-- What `display_dimacs` writes: the two numbers of the header line
`p cnf` and the clause lines, each kept as the literals printed in front of
the closing `0`. -/
structure dimacs_output where
  num_vars : Nat
  num_clauses : Nat
  lines : List (List literal)
  deriving DecidableEq, Repr

/-- The lines `display_dimacs` writes for one watch list. -/
def display_dimacs_wlist (l_idx : Nat) (wl : List watched) : List (List literal) :=
  wl.filterMap fun w => (dimacs_binary l_idx w).map fun l2 => [(to_literal l_idx).neg, l2]

/-- The loop of `display_dimacs` over `m_watches`, with `l_idx` the number of
the next list. -/
def display_dimacs_watches : List (List watched) → Nat → List (List literal)
  | [], _ => []
  | wl :: rest, l_idx => display_dimacs_wlist l_idx wl ++ display_dimacs_watches rest (l_idx + 1)

/-- `solver::display_dimacs(out)`: the header, a line per trail literal, a
line per binary watch entry that passes the index test, and a line per
clause of `m_clauses` and then of `m_learned`. -/
def display_dimacs (s : solver) : dimacs_output :=
  { num_vars := s.num_vars,
    num_clauses := s.num_clauses,
    lines := s.m_trail.map (fun l => [l]) ++ display_dimacs_watches s.m_watches 0 ++
      s.m_clauses.map (fun off => (s.get_clause off).lits) ++
      s.m_learned.map (fun off => (s.get_clause off).lits) }

/-- The loop `for (unsigned i = 0; i < num_lits; ++lits) std::cout <<
dimacs_lit(lits[i]) << " 0\n";` of `check`: the increment advances the
pointer `lits`, the index `i` stays as it is.  `p` is the distance the pointer
has moved in the array `lits` of the caller, `out` holds the lines written,
and `none` means that the loop is still running after `fuel` rounds. -/
def display_assumptions_loop (num_lits : Nat) (lits : List literal) :
    Nat → Nat → Nat → List (List literal) → Option (List (List literal))
  | 0, _, _, _ => none
  | fuel + 1, i, p, out =>
    if i < num_lits then
      display_assumptions_loop num_lits lits fuel i (p + 1)
        (out ++ [[lits.getD (p + i) null_literal]])
    else some out

/-- The state of `example_conflict` with the option `dimacs_display` set. -/
def example_dimacs : solver :=
  { example_conflict with m_config := { example_conflict.m_config with m_dimacs_display := true } }

/-! ## Sizes of the per-variable vectors -/

/-- The lengths of the per-variable vectors that `gc_var` cuts back (level,
justification, decision, eliminated, external, activity, mark, phase,
prev_phase, assigned_since_gc), followed by the lengths of the three
per-literal vectors (assignment, watches, literal marks). -/
def var_sizes (s : solver) : List Nat :=
  [s.m_level.length, s.m_justification.length, s.m_decision.length, s.m_eliminated.length,
    s.m_external.length, s.m_activity.length, s.m_mark.length, s.m_phase.length,
    s.m_prev_phase.length, s.m_assigned_since_gc.length,
    s.m_assignment.length, s.m_watches.length, s.m_lit_mark.length]

/-- The lengths of the per-variable vectors of the CHB and LRB heuristics
(last_conflict, last_propagation, participated, canceled, reasoned), which
`mk_var` extends and `gc_var` leaves alone. -/
def history_sizes (s : solver) : List Nat :=
  [s.m_last_conflict.length, s.m_last_propagation.length, s.m_participated.length,
    s.m_canceled.length, s.m_reasoned.length]

/-- The vectors of `var_sizes` have length `num_vars`, the per-literal ones
`2 * num_vars`. -/
def vars_aligned (s : solver) : Prop :=
  var_sizes s = List.replicate 10 s.num_vars ++ List.replicate 3 (2 * s.num_vars)

/-- The vectors of `history_sizes` have length `num_vars`. -/
def history_aligned (s : solver) : Prop :=
  history_sizes s = List.replicate 5 s.num_vars

/-- The vectors of `history_sizes` have an entry for every variable. -/
def history_covers (s : solver) : Prop :=
  ∀ n ∈ history_sizes s, s.num_vars ≤ n

instance (s : solver) : Decidable (vars_aligned s) := by
  unfold vars_aligned; exact inferInstance

instance (s : solver) : Decidable (history_aligned s) := by
  unfold history_aligned; exact inferInstance

instance (s : solver) : Decidable (history_covers s) := by
  unfold history_covers; exact inferInstance

/-- The solver `s1` has the vectors of `s` as far as their sizes go, and is
at the same scope level. -/
def sizes_frame (s s1 : solver) : Prop :=
  var_sizes s1 = var_sizes s ∧ history_sizes s1 = history_sizes s ∧
  s1.m_scope_lvl = s.m_scope_lvl

/-- A call of one of the three operations that create and remove
variables. -/
inductive var_op where
  | mk_var (ext dvar : Bool)
  | user_push
  | user_pop (num_scopes : Nat)
  deriving DecidableEq, Repr

/-- The solver after the call `op`. -/
def run_var_op (s : solver) : var_op → solver
  | .mk_var ext dvar => (s.mk_var ext dvar).2
  | .user_push => s.user_push
  | .user_pop num_scopes => s.user_pop num_scopes

/-- The solver after the calls `ops`, in order. -/
def run_var_ops (s : solver) (ops : List var_op) : solver := ops.foldl run_var_op s

/-! ## A conflict three levels up -/

/-- Four variables (x0 .. x3) with the clauses `¬x0 ∨ ¬x2 ∨ x3` and
`¬x0 ∨ ¬x2 ∨ ¬x3`: `x0` was decided at level 1, `x1` at level 2 and `x2` at
level 3, where the first clause implied `x3` and the second one is in
conflict.  Every variable has the phase of its assignment cached. -/
def example_deep_conflict : solver :=
  { example_state 3 [{ lits := [⟨1⟩, ⟨5⟩, ⟨6⟩] }, { lits := [⟨1⟩, ⟨5⟩, ⟨7⟩] }]
      [[.ternary ⟨5⟩ ⟨6⟩, .ternary ⟨5⟩ ⟨7⟩], [], [], [],
        [.ternary ⟨1⟩ ⟨6⟩, .ternary ⟨1⟩ ⟨7⟩], [], [.ternary ⟨1⟩ ⟨5⟩], [.ternary ⟨1⟩ ⟨5⟩]]
      [.l_true, .l_false, .l_true, .l_false, .l_true, .l_false, .l_true, .l_false]
      [1, 2, 3, 3] [⟨0⟩, ⟨2⟩, ⟨4⟩, ⟨6⟩] with
    m_justification := [.none, .none, .none, .ternary ⟨1⟩ ⟨5⟩],
    m_scopes := [⟨0, 0, false⟩, ⟨1, 0, false⟩, ⟨2, 0, false⟩],
    m_phase := [.POS_PHASE, .POS_PHASE, .POS_PHASE, .POS_PHASE],
    m_qhead := 4,
    m_inconsistent := true,
    m_conflict := .ternary ⟨1⟩ ⟨5⟩,
    m_not_l := ⟨6⟩ }

/-- The state in which `learn_lemma_and_backjump` backjumps for
`example_deep_conflict`: the analysis has run and the lemma `¬x2 ∨ ¬x0` is
prepared. -/
def example_deep_prepared : solver :=
  (((resolve_conflict_analysis {} (example_deep_conflict.resolve_conflict_enter {})).getD
    {}).learn_lemma_prepare {} 10).getD {}

/-! ## Marks: specification helpers -/

/-- The solver `s` continues `s0` inside a call of `implied_by_marked`: the
levels and the level set are those of `s0`, the variables marked since then
are recorded at the end of `m_unmark`, and each of them was unmarked in `s0`
and has a level above 0 that the level set may contain. -/
structure mark_ext (s0 s : solver) : Prop where
  level : s.m_level = s0.m_level
  lvl_set : s.m_lvl_set = s0.m_lvl_set
  mark_len : s.m_mark.length = s0.m_mark.length
  unmark : ∃ extra, s.m_unmark = s0.m_unmark ++ extra ∧
    (∀ v, s.is_marked v = true → s0.is_marked v = true ∨ v ∈ extra) ∧
    (∀ v ∈ extra, s0.is_marked v = false ∧ 0 < s0.lvl_var v ∧
      lvl_set_may_contain s0.m_lvl_set (s0.lvl_var v) = true)
  mono : ∀ v, s0.is_marked v = true → s.is_marked v = true

/-- `solver::check_marks()`: the result tells whether every `SASSERT` of its
loop holds, that is, whether no variable is marked. -/
def check_marks (s : solver) : Bool :=
  (List.range s.num_vars).all fun v => !s.is_marked v

/-- The state of `example_lemma` at the start of the loop of `minimize_lemma`
and the state `implied_by_marked` leaves for the lemma literal `¬a`, whose
variable is a decision. -/
def example_implied : solver × solver :=
  (example_lemma.updt_lemma_lvl_set,
    ((example_lemma.updt_lemma_lvl_set.implied_by_marked {} 10 ⟨1⟩).getD (true, {})).2)

/-! ## `decide` and the scope stack -/

/-- `m_stats.m_decision++`. -/
def inc_decision (s : solver) : solver :=
  { s with m_stats := { s.m_stats with m_decision := s.m_stats.m_decision + 1 } }

/-- `m_ext ? m_ext->get_phase(next) : l_undef`. -/
def collaborators.ext_phase (E : collaborators) (next : bool_var) : lbool :=
  match E.m_ext with
  | some e => e.get_phase next
  | none => lbool.l_undef

/-- The choice of the phase in `decide` for the variable `next`: the phase
and the solver (the random generator advances under `PS_RANDOM`). -/
def decide_phase (E : collaborators) (rng : random_gen) (s : solver) (next : bool_var) :
    lbool × solver :=
  match E.ext_phase next with
  | lbool.l_undef =>
    match s.m_config.m_phase with
    | .PS_ALWAYS_TRUE => (.l_true, s)
    | .PS_ALWAYS_FALSE => (.l_false, s)
    | .PS_CACHING =>
      if s.m_phase_cache_on &&
          s.m_phase.getD next .PHASE_NOT_AVAILABLE != .PHASE_NOT_AVAILABLE then
        (if s.m_phase.getD next .PHASE_NOT_AVAILABLE == .POS_PHASE then .l_true else .l_false, s)
      else (.l_false, s)
    | .PS_RANDOM => (if (s.draw rng).1 % 2 == 0 then .l_true else .l_false, (s.draw rng).2)
  | p => (p, s)

/-- `solver::decide()`: the answer and the solver, `none` when `next_var`
does not return within `fuel` rounds. -/
protected def decide (E : collaborators) (rng : random_gen) (fuel : Nat) (s : solver) :
    Option (Bool × solver) :=
  match next_var rng fuel s with
  | none => none
  | some (next, s1) =>
    if next = null_bool_var then some (false, s1)
    else
      some (true, (decide_phase E rng s1.push.inc_decision next).2.assign
        (mk_literal next ((decide_phase E rng s1.push.inc_decision next).1 == .l_false)) .none)

/-- The trail length snapshotted for the scope with index `k`,
`m_scopes[k].m_trail_lim`. -/
def trail_lim (s : solver) (k : Nat) : Nat := (s.m_scopes.getD k ⟨0, 0, false⟩).m_trail_lim

/-- The solver states reached from a state without open scope by `push`, by
`pop` of at most the open scopes, and by steps that leave the scope stack
alone and do not shorten the trail (assignments, propagation, new variables
and clauses, conflict analysis). -/
inductive scope_reachable : solver → Prop
  | init (s : solver) : s.m_scopes = [] → s.m_scope_lvl = 0 → scope_reachable s
  | push (s : solver) : scope_reachable s → scope_reachable s.push
  | pop (s : solver) (n : Nat) : scope_reachable s → n ≤ s.m_scope_lvl →
      scope_reachable (s.pop n)
  | step (s s1 : solver) : scope_reachable s → s1.m_scopes = s.m_scopes →
      s1.m_scope_lvl = s.m_scope_lvl → s.m_trail.length ≤ s1.m_trail.length →
      scope_reachable s1

/-- The state `example_base` (where `¬x0` is true at level 0) after
propagation, with the other variables in the decision queue. -/
def example_assume_base : solver :=
  { example_base with m_qhead := 1, m_case_split_queue := [1, 2, 3] }

/-- The state `init_assumptions` reaches from `example_assume_base` for the
assumption `¬x0`: the assumption scope is open and nothing was assigned in
it, as the assumption is true already. -/
def example_assumed : solver := (init_assumptions {} 10 example_assume_base [⟨1⟩]).getD {}

/-- The state after the first decision in `example_assumed`. -/
def example_decided : solver :=
  ((solver.decide {} example_rng 10 example_assumed).getD (false, {})).2

/-- The invariant of the scope stack: one scope record per level, snapshots
that do not decrease from the outer scopes to the inner ones, and none of
them beyond the end of the trail. -/
def scopes_sorted (s : solver) : Prop :=
  s.m_scopes.length = s.m_scope_lvl ∧
  (∀ i j, i ≤ j → j < s.m_scopes.length → s.trail_lim i ≤ s.trail_lim j) ∧
  (∀ k, k < s.m_scopes.length → s.trail_lim k ≤ s.m_trail.length)

/-- An extension whose `propagate` leaves the scope stack alone. -/
def ext_scopes (ext : ext_propagate) : Prop :=
  ∀ l idx s, (ext l idx s).2.m_scopes = s.m_scopes ∧
    (ext l idx s).2.m_scope_lvl = s.m_scope_lvl

/-- The solver `s1` has the variable marks of `s`. -/
structure marks_frame (s s1 : solver) : Prop where
  marks : s1.m_mark = s.m_mark

/-- The solver `s` continues `s0` in the marking loop of
`update_lrb_reasoned`: the lemma of `s0` has grown by some literals `e`, and
a variable marked in `s` is marked in `s0` or is the variable of a literal of
`e`. -/
def lrb_marks (s0 s : solver) : Prop :=
  ∃ e, s.m_lemma = s0.m_lemma ++ e ∧
    ∀ w, s.is_marked w = true → s0.is_marked w = true ∨ ∃ l ∈ e, l.var = w

/-- The state `resolve_conflict_core` returns for the conflict of
`example_conflict`. -/
def example_resolved : solver :=
  ((resolve_conflict_core {} 10 example_conflict).getD (false, {})).2

/-- The state of `example_conflict` with its second clause moved to the
learned vector: a trail of four literals, the binary clause `¬a ∨ b` watched
on both sides, one clause and one learned clause. -/
def example_dimacs_learned : solver :=
  { example_conflict with m_clauses := [0], m_learned := [1] }

/-- A source solver for `copy`: four variables at the base level, the clause
`x0 ∨ x1 ∨ x2`, and three learned clauses: `¬x0 ∨ x1 ∨ x3` of glue 2,
`x0 ∨ ¬x1 ∨ ¬x2 ∨ ¬x3` of glue 5 and `x1 ∨ x2 ∨ x3` of glue 9, with the psm
values 3, 1 and 4. -/
def example_copy_src : solver :=
  { example_state 0
      [{ lits := [⟨0⟩, ⟨2⟩, ⟨4⟩] },
        { lits := [⟨1⟩, ⟨2⟩, ⟨6⟩], m_learned := true, m_glue := 2, m_psm := 3 },
        { lits := [⟨0⟩, ⟨3⟩, ⟨5⟩, ⟨7⟩], m_learned := true, m_glue := 5, m_psm := 1 },
        { lits := [⟨2⟩, ⟨4⟩, ⟨6⟩], m_learned := true, m_glue := 9, m_psm := 4 }]
      [[], [], [], [], [], [], [], []]
      (List.replicate 8 lbool.l_undef) [UINT_MAX, UINT_MAX, UINT_MAX, UINT_MAX] [] with
    m_clauses := [0], m_learned := [1, 2, 3] }

/-! ## Frame lemmas: the members each helper leaves alone -/

@[simp] theorem assign_core_record_m_config (s : solver) (l : literal) (j : justification) :
    (s.assign_core_record l j).m_config = s.m_config := by
  rfl

@[simp] theorem assign_core_branching_m_config (s : solver) (v : bool_var) :
    (s.assign_core_branching v).m_config = s.m_config := by
  unfold assign_core_branching; split <;> rfl

@[simp] theorem assign_core_anti_exploration_m_config (s : solver) (v : bool_var) :
    (s.assign_core_anti_exploration v).m_config = s.m_config := by
  unfold assign_core_anti_exploration; split <;> (try split) <;> rfl

@[simp] theorem assign_core_m_config (s : solver) (l : literal) (j : justification) :
    (s.assign_core l j).m_config = s.m_config := by
  simp [assign_core]

@[simp] theorem set_clause_m_config (s : solver) (off : clause_offset) (c : clause) :
    (s.set_clause off c).m_config = s.m_config := by
  rfl

@[simp] theorem push_watch_m_config (s : solver) (idx : Nat) (w : watched) :
    (s.push_watch idx w).m_config = s.m_config := by
  rfl

@[simp] theorem set_wlist_m_config (s : solver) (l : literal) (ws : List watched) :
    (s.set_wlist l ws).m_config = s.m_config := by
  rfl

@[simp] theorem set_conflict_m_config (s : solver) (j : justification) (l : literal) :
    (s.set_conflict j l).m_config = s.m_config := by
  unfold set_conflict; split <;> rfl

@[simp] theorem inc_bin_propagate_m_config (s : solver) :
    s.inc_bin_propagate.m_config = s.m_config := by
  rfl

@[simp] theorem inc_ter_propagate_m_config (s : solver) :
    s.inc_ter_propagate.m_config = s.m_config := by
  rfl

@[simp] theorem inc_propagate_m_config (s : solver) :
    s.inc_propagate.m_config = s.m_config := by
  rfl

@[simp] theorem inc_qhead_m_config (s : solver) :
    s.inc_qhead.m_config = s.m_config := by
  rfl

@[simp] theorem update_glue_m_config (s : solver) (update : Bool) (off : clause_offset) (c : clause) :
    (s.update_glue update off c).m_config = s.m_config := by
  unfold update_glue
  split
  · dsimp only; split <;> rfl
  · rfl

@[simp] theorem num_diff_levels_below_m_config (s : solver) (lits : List literal) (g : Nat) :
    (s.num_diff_levels_below lits g).2.2.m_config = s.m_config := by
  rfl

@[simp] theorem assign_m_config (s : solver) (l : literal) (j : justification) :
    (s.assign l j).m_config = s.m_config := by
  unfold assign; split <;> simp

@[simp] theorem inc_mk_bin_clause_m_config (s : solver) :
    s.inc_mk_bin_clause.m_config = s.m_config := by
  rfl

@[simp] theorem inc_mk_ter_clause_m_config (s : solver) :
    s.inc_mk_ter_clause.m_config = s.m_config := by
  rfl

@[simp] theorem inc_mk_clause_m_config (s : solver) :
    s.inc_mk_clause.m_config = s.m_config := by
  rfl

@[simp] theorem inc_non_learned_generation_m_config (s : solver) :
    s.inc_non_learned_generation.m_config = s.m_config := by
  rfl

@[simp] theorem push_clauses_to_reinit_m_config (s : solver) (cw : clause_wrapper) :
    (s.push_clauses_to_reinit cw).m_config = s.m_config := by
  rfl

@[simp] theorem push_clause_vector_m_config (s : solver) (off : clause_offset) (learned : Bool) :
    (s.push_clause_vector off learned).m_config = s.m_config := by
  unfold push_clause_vector; split <;> rfl

@[simp] theorem alloc_clause_m_config (s : solver) (lits : List literal) (learned : Bool) :
    (s.alloc_clause lits learned).2.m_config = s.m_config := by
  rfl

@[simp] theorem push_reinit_stack_m_config (s : solver) (off : clause_offset) :
    (s.push_reinit_stack off).m_config = s.m_config := by
  rfl

@[simp] theorem push_bin_watches_m_config (s : solver) (l1 l2 : literal) (learned : Bool) :
    (s.push_bin_watches l1 l2 learned).m_config = s.m_config := by
  rfl

@[simp] theorem push_ter_watches_m_config (s : solver) (c : clause) :
    (s.push_ter_watches c).m_config = s.m_config := by
  rfl

@[simp] theorem push_nary_watches_m_config (s : solver) (off : clause_offset) :
    (s.push_nary_watches off).m_config = s.m_config := by
  rfl

@[simp] theorem assign_core_record_m_stats (s : solver) (l : literal) (j : justification) :
    (s.assign_core_record l j).m_stats = s.m_stats := by
  rfl

@[simp] theorem assign_core_branching_m_stats (s : solver) (v : bool_var) :
    (s.assign_core_branching v).m_stats = s.m_stats := by
  unfold assign_core_branching; split <;> rfl

@[simp] theorem assign_core_anti_exploration_m_stats (s : solver) (v : bool_var) :
    (s.assign_core_anti_exploration v).m_stats = s.m_stats := by
  unfold assign_core_anti_exploration; split <;> (try split) <;> rfl

@[simp] theorem assign_core_m_stats (s : solver) (l : literal) (j : justification) :
    (s.assign_core l j).m_stats = s.m_stats := by
  simp [assign_core]

@[simp] theorem set_clause_m_stats (s : solver) (off : clause_offset) (c : clause) :
    (s.set_clause off c).m_stats = s.m_stats := by
  rfl

@[simp] theorem push_watch_m_stats (s : solver) (idx : Nat) (w : watched) :
    (s.push_watch idx w).m_stats = s.m_stats := by
  rfl

@[simp] theorem set_wlist_m_stats (s : solver) (l : literal) (ws : List watched) :
    (s.set_wlist l ws).m_stats = s.m_stats := by
  rfl

@[simp] theorem set_conflict_m_stats (s : solver) (j : justification) (l : literal) :
    (s.set_conflict j l).m_stats = s.m_stats := by
  unfold set_conflict; split <;> rfl

@[simp] theorem inc_qhead_m_stats (s : solver) :
    s.inc_qhead.m_stats = s.m_stats := by
  rfl

@[simp] theorem update_glue_m_stats (s : solver) (update : Bool) (off : clause_offset) (c : clause) :
    (s.update_glue update off c).m_stats = s.m_stats := by
  unfold update_glue
  split
  · dsimp only; split <;> rfl
  · rfl

@[simp] theorem num_diff_levels_below_m_stats (s : solver) (lits : List literal) (g : Nat) :
    (s.num_diff_levels_below lits g).2.2.m_stats = s.m_stats := by
  rfl

@[simp] theorem assign_m_stats (s : solver) (l : literal) (j : justification) :
    (s.assign l j).m_stats = s.m_stats := by
  unfold assign; split <;> simp

@[simp] theorem push_clauses_to_reinit_m_stats (s : solver) (cw : clause_wrapper) :
    (s.push_clauses_to_reinit cw).m_stats = s.m_stats := by
  rfl

@[simp] theorem push_clause_vector_m_stats (s : solver) (off : clause_offset) (learned : Bool) :
    (s.push_clause_vector off learned).m_stats = s.m_stats := by
  unfold push_clause_vector; split <;> rfl

@[simp] theorem alloc_clause_m_stats (s : solver) (lits : List literal) (learned : Bool) :
    (s.alloc_clause lits learned).2.m_stats = s.m_stats := by
  rfl

@[simp] theorem push_reinit_stack_m_stats (s : solver) (off : clause_offset) :
    (s.push_reinit_stack off).m_stats = s.m_stats := by
  rfl

@[simp] theorem push_bin_watches_m_stats (s : solver) (l1 l2 : literal) (learned : Bool) :
    (s.push_bin_watches l1 l2 learned).m_stats = s.m_stats := by
  rfl

@[simp] theorem push_ter_watches_m_stats (s : solver) (c : clause) :
    (s.push_ter_watches c).m_stats = s.m_stats := by
  rfl

@[simp] theorem push_nary_watches_m_stats (s : solver) (off : clause_offset) :
    (s.push_nary_watches off).m_stats = s.m_stats := by
  rfl

@[simp] theorem assign_core_record_m_inconsistent (s : solver) (l : literal) (j : justification) :
    (s.assign_core_record l j).m_inconsistent = s.m_inconsistent := by
  rfl

@[simp] theorem assign_core_branching_m_inconsistent (s : solver) (v : bool_var) :
    (s.assign_core_branching v).m_inconsistent = s.m_inconsistent := by
  unfold assign_core_branching; split <;> rfl

@[simp] theorem assign_core_anti_exploration_m_inconsistent (s : solver) (v : bool_var) :
    (s.assign_core_anti_exploration v).m_inconsistent = s.m_inconsistent := by
  unfold assign_core_anti_exploration; split <;> (try split) <;> rfl

@[simp] theorem assign_core_m_inconsistent (s : solver) (l : literal) (j : justification) :
    (s.assign_core l j).m_inconsistent = s.m_inconsistent := by
  simp [assign_core]

@[simp] theorem set_clause_m_inconsistent (s : solver) (off : clause_offset) (c : clause) :
    (s.set_clause off c).m_inconsistent = s.m_inconsistent := by
  rfl

@[simp] theorem push_watch_m_inconsistent (s : solver) (idx : Nat) (w : watched) :
    (s.push_watch idx w).m_inconsistent = s.m_inconsistent := by
  rfl

@[simp] theorem set_wlist_m_inconsistent (s : solver) (l : literal) (ws : List watched) :
    (s.set_wlist l ws).m_inconsistent = s.m_inconsistent := by
  rfl

@[simp] theorem inc_bin_propagate_m_inconsistent (s : solver) :
    s.inc_bin_propagate.m_inconsistent = s.m_inconsistent := by
  rfl

@[simp] theorem inc_ter_propagate_m_inconsistent (s : solver) :
    s.inc_ter_propagate.m_inconsistent = s.m_inconsistent := by
  rfl

@[simp] theorem inc_propagate_m_inconsistent (s : solver) :
    s.inc_propagate.m_inconsistent = s.m_inconsistent := by
  rfl

@[simp] theorem inc_qhead_m_inconsistent (s : solver) :
    s.inc_qhead.m_inconsistent = s.m_inconsistent := by
  rfl

@[simp] theorem update_glue_m_inconsistent (s : solver) (update : Bool) (off : clause_offset) (c : clause) :
    (s.update_glue update off c).m_inconsistent = s.m_inconsistent := by
  unfold update_glue
  split
  · dsimp only; split <;> rfl
  · rfl

@[simp] theorem num_diff_levels_below_m_inconsistent (s : solver) (lits : List literal) (g : Nat) :
    (s.num_diff_levels_below lits g).2.2.m_inconsistent = s.m_inconsistent := by
  rfl

@[simp] theorem inc_mk_bin_clause_m_inconsistent (s : solver) :
    s.inc_mk_bin_clause.m_inconsistent = s.m_inconsistent := by
  rfl

@[simp] theorem inc_mk_ter_clause_m_inconsistent (s : solver) :
    s.inc_mk_ter_clause.m_inconsistent = s.m_inconsistent := by
  rfl

@[simp] theorem inc_mk_clause_m_inconsistent (s : solver) :
    s.inc_mk_clause.m_inconsistent = s.m_inconsistent := by
  rfl

@[simp] theorem inc_non_learned_generation_m_inconsistent (s : solver) :
    s.inc_non_learned_generation.m_inconsistent = s.m_inconsistent := by
  rfl

@[simp] theorem push_clauses_to_reinit_m_inconsistent (s : solver) (cw : clause_wrapper) :
    (s.push_clauses_to_reinit cw).m_inconsistent = s.m_inconsistent := by
  rfl

@[simp] theorem push_clause_vector_m_inconsistent (s : solver) (off : clause_offset) (learned : Bool) :
    (s.push_clause_vector off learned).m_inconsistent = s.m_inconsistent := by
  unfold push_clause_vector; split <;> rfl

@[simp] theorem alloc_clause_m_inconsistent (s : solver) (lits : List literal) (learned : Bool) :
    (s.alloc_clause lits learned).2.m_inconsistent = s.m_inconsistent := by
  rfl

@[simp] theorem push_reinit_stack_m_inconsistent (s : solver) (off : clause_offset) :
    (s.push_reinit_stack off).m_inconsistent = s.m_inconsistent := by
  rfl

@[simp] theorem push_bin_watches_m_inconsistent (s : solver) (l1 l2 : literal) (learned : Bool) :
    (s.push_bin_watches l1 l2 learned).m_inconsistent = s.m_inconsistent := by
  rfl

@[simp] theorem push_ter_watches_m_inconsistent (s : solver) (c : clause) :
    (s.push_ter_watches c).m_inconsistent = s.m_inconsistent := by
  rfl

@[simp] theorem push_nary_watches_m_inconsistent (s : solver) (off : clause_offset) :
    (s.push_nary_watches off).m_inconsistent = s.m_inconsistent := by
  rfl

@[simp] theorem assign_core_record_m_conflict (s : solver) (l : literal) (j : justification) :
    (s.assign_core_record l j).m_conflict = s.m_conflict := by
  rfl

@[simp] theorem assign_core_branching_m_conflict (s : solver) (v : bool_var) :
    (s.assign_core_branching v).m_conflict = s.m_conflict := by
  unfold assign_core_branching; split <;> rfl

@[simp] theorem assign_core_anti_exploration_m_conflict (s : solver) (v : bool_var) :
    (s.assign_core_anti_exploration v).m_conflict = s.m_conflict := by
  unfold assign_core_anti_exploration; split <;> (try split) <;> rfl

@[simp] theorem assign_core_m_conflict (s : solver) (l : literal) (j : justification) :
    (s.assign_core l j).m_conflict = s.m_conflict := by
  simp [assign_core]

@[simp] theorem set_clause_m_conflict (s : solver) (off : clause_offset) (c : clause) :
    (s.set_clause off c).m_conflict = s.m_conflict := by
  rfl

@[simp] theorem push_watch_m_conflict (s : solver) (idx : Nat) (w : watched) :
    (s.push_watch idx w).m_conflict = s.m_conflict := by
  rfl

@[simp] theorem set_wlist_m_conflict (s : solver) (l : literal) (ws : List watched) :
    (s.set_wlist l ws).m_conflict = s.m_conflict := by
  rfl

@[simp] theorem inc_bin_propagate_m_conflict (s : solver) :
    s.inc_bin_propagate.m_conflict = s.m_conflict := by
  rfl

@[simp] theorem inc_ter_propagate_m_conflict (s : solver) :
    s.inc_ter_propagate.m_conflict = s.m_conflict := by
  rfl

@[simp] theorem inc_propagate_m_conflict (s : solver) :
    s.inc_propagate.m_conflict = s.m_conflict := by
  rfl

@[simp] theorem inc_qhead_m_conflict (s : solver) :
    s.inc_qhead.m_conflict = s.m_conflict := by
  rfl

@[simp] theorem update_glue_m_conflict (s : solver) (update : Bool) (off : clause_offset) (c : clause) :
    (s.update_glue update off c).m_conflict = s.m_conflict := by
  unfold update_glue
  split
  · dsimp only; split <;> rfl
  · rfl

@[simp] theorem num_diff_levels_below_m_conflict (s : solver) (lits : List literal) (g : Nat) :
    (s.num_diff_levels_below lits g).2.2.m_conflict = s.m_conflict := by
  rfl

@[simp] theorem inc_mk_bin_clause_m_conflict (s : solver) :
    s.inc_mk_bin_clause.m_conflict = s.m_conflict := by
  rfl

@[simp] theorem inc_mk_ter_clause_m_conflict (s : solver) :
    s.inc_mk_ter_clause.m_conflict = s.m_conflict := by
  rfl

@[simp] theorem inc_mk_clause_m_conflict (s : solver) :
    s.inc_mk_clause.m_conflict = s.m_conflict := by
  rfl

@[simp] theorem inc_non_learned_generation_m_conflict (s : solver) :
    s.inc_non_learned_generation.m_conflict = s.m_conflict := by
  rfl

@[simp] theorem push_clauses_to_reinit_m_conflict (s : solver) (cw : clause_wrapper) :
    (s.push_clauses_to_reinit cw).m_conflict = s.m_conflict := by
  rfl

@[simp] theorem push_clause_vector_m_conflict (s : solver) (off : clause_offset) (learned : Bool) :
    (s.push_clause_vector off learned).m_conflict = s.m_conflict := by
  unfold push_clause_vector; split <;> rfl

@[simp] theorem alloc_clause_m_conflict (s : solver) (lits : List literal) (learned : Bool) :
    (s.alloc_clause lits learned).2.m_conflict = s.m_conflict := by
  rfl

@[simp] theorem push_reinit_stack_m_conflict (s : solver) (off : clause_offset) :
    (s.push_reinit_stack off).m_conflict = s.m_conflict := by
  rfl

@[simp] theorem push_bin_watches_m_conflict (s : solver) (l1 l2 : literal) (learned : Bool) :
    (s.push_bin_watches l1 l2 learned).m_conflict = s.m_conflict := by
  rfl

@[simp] theorem push_ter_watches_m_conflict (s : solver) (c : clause) :
    (s.push_ter_watches c).m_conflict = s.m_conflict := by
  rfl

@[simp] theorem push_nary_watches_m_conflict (s : solver) (off : clause_offset) :
    (s.push_nary_watches off).m_conflict = s.m_conflict := by
  rfl

@[simp] theorem assign_core_record_m_not_l (s : solver) (l : literal) (j : justification) :
    (s.assign_core_record l j).m_not_l = s.m_not_l := by
  rfl

@[simp] theorem assign_core_branching_m_not_l (s : solver) (v : bool_var) :
    (s.assign_core_branching v).m_not_l = s.m_not_l := by
  unfold assign_core_branching; split <;> rfl

@[simp] theorem assign_core_anti_exploration_m_not_l (s : solver) (v : bool_var) :
    (s.assign_core_anti_exploration v).m_not_l = s.m_not_l := by
  unfold assign_core_anti_exploration; split <;> (try split) <;> rfl

@[simp] theorem assign_core_m_not_l (s : solver) (l : literal) (j : justification) :
    (s.assign_core l j).m_not_l = s.m_not_l := by
  simp [assign_core]

@[simp] theorem set_clause_m_not_l (s : solver) (off : clause_offset) (c : clause) :
    (s.set_clause off c).m_not_l = s.m_not_l := by
  rfl

@[simp] theorem push_watch_m_not_l (s : solver) (idx : Nat) (w : watched) :
    (s.push_watch idx w).m_not_l = s.m_not_l := by
  rfl

@[simp] theorem set_wlist_m_not_l (s : solver) (l : literal) (ws : List watched) :
    (s.set_wlist l ws).m_not_l = s.m_not_l := by
  rfl

@[simp] theorem inc_bin_propagate_m_not_l (s : solver) :
    s.inc_bin_propagate.m_not_l = s.m_not_l := by
  rfl

@[simp] theorem inc_ter_propagate_m_not_l (s : solver) :
    s.inc_ter_propagate.m_not_l = s.m_not_l := by
  rfl

@[simp] theorem inc_propagate_m_not_l (s : solver) :
    s.inc_propagate.m_not_l = s.m_not_l := by
  rfl

@[simp] theorem inc_qhead_m_not_l (s : solver) :
    s.inc_qhead.m_not_l = s.m_not_l := by
  rfl

@[simp] theorem update_glue_m_not_l (s : solver) (update : Bool) (off : clause_offset) (c : clause) :
    (s.update_glue update off c).m_not_l = s.m_not_l := by
  unfold update_glue
  split
  · dsimp only; split <;> rfl
  · rfl

@[simp] theorem num_diff_levels_below_m_not_l (s : solver) (lits : List literal) (g : Nat) :
    (s.num_diff_levels_below lits g).2.2.m_not_l = s.m_not_l := by
  rfl

@[simp] theorem inc_mk_bin_clause_m_not_l (s : solver) :
    s.inc_mk_bin_clause.m_not_l = s.m_not_l := by
  rfl

@[simp] theorem inc_mk_ter_clause_m_not_l (s : solver) :
    s.inc_mk_ter_clause.m_not_l = s.m_not_l := by
  rfl

@[simp] theorem inc_mk_clause_m_not_l (s : solver) :
    s.inc_mk_clause.m_not_l = s.m_not_l := by
  rfl

@[simp] theorem inc_non_learned_generation_m_not_l (s : solver) :
    s.inc_non_learned_generation.m_not_l = s.m_not_l := by
  rfl

@[simp] theorem push_clauses_to_reinit_m_not_l (s : solver) (cw : clause_wrapper) :
    (s.push_clauses_to_reinit cw).m_not_l = s.m_not_l := by
  rfl

@[simp] theorem push_clause_vector_m_not_l (s : solver) (off : clause_offset) (learned : Bool) :
    (s.push_clause_vector off learned).m_not_l = s.m_not_l := by
  unfold push_clause_vector; split <;> rfl

@[simp] theorem alloc_clause_m_not_l (s : solver) (lits : List literal) (learned : Bool) :
    (s.alloc_clause lits learned).2.m_not_l = s.m_not_l := by
  rfl

@[simp] theorem push_reinit_stack_m_not_l (s : solver) (off : clause_offset) :
    (s.push_reinit_stack off).m_not_l = s.m_not_l := by
  rfl

@[simp] theorem push_bin_watches_m_not_l (s : solver) (l1 l2 : literal) (learned : Bool) :
    (s.push_bin_watches l1 l2 learned).m_not_l = s.m_not_l := by
  rfl

@[simp] theorem push_ter_watches_m_not_l (s : solver) (c : clause) :
    (s.push_ter_watches c).m_not_l = s.m_not_l := by
  rfl

@[simp] theorem push_nary_watches_m_not_l (s : solver) (off : clause_offset) :
    (s.push_nary_watches off).m_not_l = s.m_not_l := by
  rfl

@[simp] theorem assign_core_record_m_cls_allocator (s : solver) (l : literal) (j : justification) :
    (s.assign_core_record l j).m_cls_allocator = s.m_cls_allocator := by
  rfl

@[simp] theorem assign_core_branching_m_cls_allocator (s : solver) (v : bool_var) :
    (s.assign_core_branching v).m_cls_allocator = s.m_cls_allocator := by
  unfold assign_core_branching; split <;> rfl

@[simp] theorem assign_core_anti_exploration_m_cls_allocator (s : solver) (v : bool_var) :
    (s.assign_core_anti_exploration v).m_cls_allocator = s.m_cls_allocator := by
  unfold assign_core_anti_exploration; split <;> (try split) <;> rfl

@[simp] theorem assign_core_m_cls_allocator (s : solver) (l : literal) (j : justification) :
    (s.assign_core l j).m_cls_allocator = s.m_cls_allocator := by
  simp [assign_core]

@[simp] theorem push_watch_m_cls_allocator (s : solver) (idx : Nat) (w : watched) :
    (s.push_watch idx w).m_cls_allocator = s.m_cls_allocator := by
  rfl

@[simp] theorem set_wlist_m_cls_allocator (s : solver) (l : literal) (ws : List watched) :
    (s.set_wlist l ws).m_cls_allocator = s.m_cls_allocator := by
  rfl

@[simp] theorem set_conflict_m_cls_allocator (s : solver) (j : justification) (l : literal) :
    (s.set_conflict j l).m_cls_allocator = s.m_cls_allocator := by
  unfold set_conflict; split <;> rfl

@[simp] theorem inc_bin_propagate_m_cls_allocator (s : solver) :
    s.inc_bin_propagate.m_cls_allocator = s.m_cls_allocator := by
  rfl

@[simp] theorem inc_ter_propagate_m_cls_allocator (s : solver) :
    s.inc_ter_propagate.m_cls_allocator = s.m_cls_allocator := by
  rfl

@[simp] theorem inc_propagate_m_cls_allocator (s : solver) :
    s.inc_propagate.m_cls_allocator = s.m_cls_allocator := by
  rfl

@[simp] theorem inc_qhead_m_cls_allocator (s : solver) :
    s.inc_qhead.m_cls_allocator = s.m_cls_allocator := by
  rfl

@[simp] theorem num_diff_levels_below_m_cls_allocator (s : solver) (lits : List literal) (g : Nat) :
    (s.num_diff_levels_below lits g).2.2.m_cls_allocator = s.m_cls_allocator := by
  rfl

@[simp] theorem assign_m_cls_allocator (s : solver) (l : literal) (j : justification) :
    (s.assign l j).m_cls_allocator = s.m_cls_allocator := by
  unfold assign; split <;> simp

@[simp] theorem inc_mk_bin_clause_m_cls_allocator (s : solver) :
    s.inc_mk_bin_clause.m_cls_allocator = s.m_cls_allocator := by
  rfl

@[simp] theorem inc_mk_ter_clause_m_cls_allocator (s : solver) :
    s.inc_mk_ter_clause.m_cls_allocator = s.m_cls_allocator := by
  rfl

@[simp] theorem inc_mk_clause_m_cls_allocator (s : solver) :
    s.inc_mk_clause.m_cls_allocator = s.m_cls_allocator := by
  rfl

@[simp] theorem inc_non_learned_generation_m_cls_allocator (s : solver) :
    s.inc_non_learned_generation.m_cls_allocator = s.m_cls_allocator := by
  rfl

@[simp] theorem push_clauses_to_reinit_m_cls_allocator (s : solver) (cw : clause_wrapper) :
    (s.push_clauses_to_reinit cw).m_cls_allocator = s.m_cls_allocator := by
  rfl

@[simp] theorem push_clause_vector_m_cls_allocator (s : solver) (off : clause_offset) (learned : Bool) :
    (s.push_clause_vector off learned).m_cls_allocator = s.m_cls_allocator := by
  unfold push_clause_vector; split <;> rfl

@[simp] theorem push_bin_watches_m_cls_allocator (s : solver) (l1 l2 : literal) (learned : Bool) :
    (s.push_bin_watches l1 l2 learned).m_cls_allocator = s.m_cls_allocator := by
  rfl

@[simp] theorem push_ter_watches_m_cls_allocator (s : solver) (c : clause) :
    (s.push_ter_watches c).m_cls_allocator = s.m_cls_allocator := by
  rfl

@[simp] theorem push_nary_watches_m_cls_allocator (s : solver) (off : clause_offset) :
    (s.push_nary_watches off).m_cls_allocator = s.m_cls_allocator := by
  rfl

@[simp] theorem assign_core_record_m_clauses (s : solver) (l : literal) (j : justification) :
    (s.assign_core_record l j).m_clauses = s.m_clauses := by
  rfl

@[simp] theorem assign_core_branching_m_clauses (s : solver) (v : bool_var) :
    (s.assign_core_branching v).m_clauses = s.m_clauses := by
  unfold assign_core_branching; split <;> rfl

@[simp] theorem assign_core_anti_exploration_m_clauses (s : solver) (v : bool_var) :
    (s.assign_core_anti_exploration v).m_clauses = s.m_clauses := by
  unfold assign_core_anti_exploration; split <;> (try split) <;> rfl

@[simp] theorem assign_core_m_clauses (s : solver) (l : literal) (j : justification) :
    (s.assign_core l j).m_clauses = s.m_clauses := by
  simp [assign_core]

@[simp] theorem set_clause_m_clauses (s : solver) (off : clause_offset) (c : clause) :
    (s.set_clause off c).m_clauses = s.m_clauses := by
  rfl

@[simp] theorem push_watch_m_clauses (s : solver) (idx : Nat) (w : watched) :
    (s.push_watch idx w).m_clauses = s.m_clauses := by
  rfl

@[simp] theorem set_wlist_m_clauses (s : solver) (l : literal) (ws : List watched) :
    (s.set_wlist l ws).m_clauses = s.m_clauses := by
  rfl

@[simp] theorem set_conflict_m_clauses (s : solver) (j : justification) (l : literal) :
    (s.set_conflict j l).m_clauses = s.m_clauses := by
  unfold set_conflict; split <;> rfl

@[simp] theorem inc_bin_propagate_m_clauses (s : solver) :
    s.inc_bin_propagate.m_clauses = s.m_clauses := by
  rfl

@[simp] theorem inc_ter_propagate_m_clauses (s : solver) :
    s.inc_ter_propagate.m_clauses = s.m_clauses := by
  rfl

@[simp] theorem inc_propagate_m_clauses (s : solver) :
    s.inc_propagate.m_clauses = s.m_clauses := by
  rfl

@[simp] theorem inc_qhead_m_clauses (s : solver) :
    s.inc_qhead.m_clauses = s.m_clauses := by
  rfl

@[simp] theorem update_glue_m_clauses (s : solver) (update : Bool) (off : clause_offset) (c : clause) :
    (s.update_glue update off c).m_clauses = s.m_clauses := by
  unfold update_glue
  split
  · dsimp only; split <;> rfl
  · rfl

@[simp] theorem num_diff_levels_below_m_clauses (s : solver) (lits : List literal) (g : Nat) :
    (s.num_diff_levels_below lits g).2.2.m_clauses = s.m_clauses := by
  rfl

@[simp] theorem assign_m_clauses (s : solver) (l : literal) (j : justification) :
    (s.assign l j).m_clauses = s.m_clauses := by
  unfold assign; split <;> simp

@[simp] theorem inc_mk_bin_clause_m_clauses (s : solver) :
    s.inc_mk_bin_clause.m_clauses = s.m_clauses := by
  rfl

@[simp] theorem inc_mk_ter_clause_m_clauses (s : solver) :
    s.inc_mk_ter_clause.m_clauses = s.m_clauses := by
  rfl

@[simp] theorem inc_mk_clause_m_clauses (s : solver) :
    s.inc_mk_clause.m_clauses = s.m_clauses := by
  rfl

@[simp] theorem inc_non_learned_generation_m_clauses (s : solver) :
    s.inc_non_learned_generation.m_clauses = s.m_clauses := by
  rfl

@[simp] theorem push_clauses_to_reinit_m_clauses (s : solver) (cw : clause_wrapper) :
    (s.push_clauses_to_reinit cw).m_clauses = s.m_clauses := by
  rfl

@[simp] theorem alloc_clause_m_clauses (s : solver) (lits : List literal) (learned : Bool) :
    (s.alloc_clause lits learned).2.m_clauses = s.m_clauses := by
  rfl

@[simp] theorem push_reinit_stack_m_clauses (s : solver) (off : clause_offset) :
    (s.push_reinit_stack off).m_clauses = s.m_clauses := by
  rfl

@[simp] theorem push_bin_watches_m_clauses (s : solver) (l1 l2 : literal) (learned : Bool) :
    (s.push_bin_watches l1 l2 learned).m_clauses = s.m_clauses := by
  rfl

@[simp] theorem push_ter_watches_m_clauses (s : solver) (c : clause) :
    (s.push_ter_watches c).m_clauses = s.m_clauses := by
  rfl

@[simp] theorem push_nary_watches_m_clauses (s : solver) (off : clause_offset) :
    (s.push_nary_watches off).m_clauses = s.m_clauses := by
  rfl

@[simp] theorem assign_core_record_m_learned (s : solver) (l : literal) (j : justification) :
    (s.assign_core_record l j).m_learned = s.m_learned := by
  rfl

@[simp] theorem assign_core_branching_m_learned (s : solver) (v : bool_var) :
    (s.assign_core_branching v).m_learned = s.m_learned := by
  unfold assign_core_branching; split <;> rfl

@[simp] theorem assign_core_anti_exploration_m_learned (s : solver) (v : bool_var) :
    (s.assign_core_anti_exploration v).m_learned = s.m_learned := by
  unfold assign_core_anti_exploration; split <;> (try split) <;> rfl

@[simp] theorem assign_core_m_learned (s : solver) (l : literal) (j : justification) :
    (s.assign_core l j).m_learned = s.m_learned := by
  simp [assign_core]

@[simp] theorem set_clause_m_learned (s : solver) (off : clause_offset) (c : clause) :
    (s.set_clause off c).m_learned = s.m_learned := by
  rfl

@[simp] theorem push_watch_m_learned (s : solver) (idx : Nat) (w : watched) :
    (s.push_watch idx w).m_learned = s.m_learned := by
  rfl

@[simp] theorem set_wlist_m_learned (s : solver) (l : literal) (ws : List watched) :
    (s.set_wlist l ws).m_learned = s.m_learned := by
  rfl

@[simp] theorem set_conflict_m_learned (s : solver) (j : justification) (l : literal) :
    (s.set_conflict j l).m_learned = s.m_learned := by
  unfold set_conflict; split <;> rfl

@[simp] theorem inc_bin_propagate_m_learned (s : solver) :
    s.inc_bin_propagate.m_learned = s.m_learned := by
  rfl

@[simp] theorem inc_ter_propagate_m_learned (s : solver) :
    s.inc_ter_propagate.m_learned = s.m_learned := by
  rfl

@[simp] theorem inc_propagate_m_learned (s : solver) :
    s.inc_propagate.m_learned = s.m_learned := by
  rfl

@[simp] theorem inc_qhead_m_learned (s : solver) :
    s.inc_qhead.m_learned = s.m_learned := by
  rfl

@[simp] theorem update_glue_m_learned (s : solver) (update : Bool) (off : clause_offset) (c : clause) :
    (s.update_glue update off c).m_learned = s.m_learned := by
  unfold update_glue
  split
  · dsimp only; split <;> rfl
  · rfl

@[simp] theorem num_diff_levels_below_m_learned (s : solver) (lits : List literal) (g : Nat) :
    (s.num_diff_levels_below lits g).2.2.m_learned = s.m_learned := by
  rfl

@[simp] theorem assign_m_learned (s : solver) (l : literal) (j : justification) :
    (s.assign l j).m_learned = s.m_learned := by
  unfold assign; split <;> simp

@[simp] theorem inc_mk_bin_clause_m_learned (s : solver) :
    s.inc_mk_bin_clause.m_learned = s.m_learned := by
  rfl

@[simp] theorem inc_mk_ter_clause_m_learned (s : solver) :
    s.inc_mk_ter_clause.m_learned = s.m_learned := by
  rfl

@[simp] theorem inc_mk_clause_m_learned (s : solver) :
    s.inc_mk_clause.m_learned = s.m_learned := by
  rfl

@[simp] theorem inc_non_learned_generation_m_learned (s : solver) :
    s.inc_non_learned_generation.m_learned = s.m_learned := by
  rfl

@[simp] theorem push_clauses_to_reinit_m_learned (s : solver) (cw : clause_wrapper) :
    (s.push_clauses_to_reinit cw).m_learned = s.m_learned := by
  rfl

@[simp] theorem alloc_clause_m_learned (s : solver) (lits : List literal) (learned : Bool) :
    (s.alloc_clause lits learned).2.m_learned = s.m_learned := by
  rfl

@[simp] theorem push_reinit_stack_m_learned (s : solver) (off : clause_offset) :
    (s.push_reinit_stack off).m_learned = s.m_learned := by
  rfl

@[simp] theorem push_bin_watches_m_learned (s : solver) (l1 l2 : literal) (learned : Bool) :
    (s.push_bin_watches l1 l2 learned).m_learned = s.m_learned := by
  rfl

@[simp] theorem push_ter_watches_m_learned (s : solver) (c : clause) :
    (s.push_ter_watches c).m_learned = s.m_learned := by
  rfl

@[simp] theorem push_nary_watches_m_learned (s : solver) (off : clause_offset) :
    (s.push_nary_watches off).m_learned = s.m_learned := by
  rfl

@[simp] theorem assign_core_record_m_watches (s : solver) (l : literal) (j : justification) :
    (s.assign_core_record l j).m_watches = s.m_watches := by
  rfl

@[simp] theorem assign_core_branching_m_watches (s : solver) (v : bool_var) :
    (s.assign_core_branching v).m_watches = s.m_watches := by
  unfold assign_core_branching; split <;> rfl

@[simp] theorem assign_core_anti_exploration_m_watches (s : solver) (v : bool_var) :
    (s.assign_core_anti_exploration v).m_watches = s.m_watches := by
  unfold assign_core_anti_exploration; split <;> (try split) <;> rfl

@[simp] theorem assign_core_m_watches (s : solver) (l : literal) (j : justification) :
    (s.assign_core l j).m_watches = s.m_watches := by
  simp [assign_core]

@[simp] theorem set_clause_m_watches (s : solver) (off : clause_offset) (c : clause) :
    (s.set_clause off c).m_watches = s.m_watches := by
  rfl

@[simp] theorem set_conflict_m_watches (s : solver) (j : justification) (l : literal) :
    (s.set_conflict j l).m_watches = s.m_watches := by
  unfold set_conflict; split <;> rfl

@[simp] theorem inc_bin_propagate_m_watches (s : solver) :
    s.inc_bin_propagate.m_watches = s.m_watches := by
  rfl

@[simp] theorem inc_ter_propagate_m_watches (s : solver) :
    s.inc_ter_propagate.m_watches = s.m_watches := by
  rfl

@[simp] theorem inc_propagate_m_watches (s : solver) :
    s.inc_propagate.m_watches = s.m_watches := by
  rfl

@[simp] theorem inc_qhead_m_watches (s : solver) :
    s.inc_qhead.m_watches = s.m_watches := by
  rfl

@[simp] theorem update_glue_m_watches (s : solver) (update : Bool) (off : clause_offset) (c : clause) :
    (s.update_glue update off c).m_watches = s.m_watches := by
  unfold update_glue
  split
  · dsimp only; split <;> rfl
  · rfl

@[simp] theorem num_diff_levels_below_m_watches (s : solver) (lits : List literal) (g : Nat) :
    (s.num_diff_levels_below lits g).2.2.m_watches = s.m_watches := by
  rfl

@[simp] theorem assign_m_watches (s : solver) (l : literal) (j : justification) :
    (s.assign l j).m_watches = s.m_watches := by
  unfold assign; split <;> simp

@[simp] theorem inc_mk_bin_clause_m_watches (s : solver) :
    s.inc_mk_bin_clause.m_watches = s.m_watches := by
  rfl

@[simp] theorem inc_mk_ter_clause_m_watches (s : solver) :
    s.inc_mk_ter_clause.m_watches = s.m_watches := by
  rfl

@[simp] theorem inc_mk_clause_m_watches (s : solver) :
    s.inc_mk_clause.m_watches = s.m_watches := by
  rfl

@[simp] theorem inc_non_learned_generation_m_watches (s : solver) :
    s.inc_non_learned_generation.m_watches = s.m_watches := by
  rfl

@[simp] theorem push_clauses_to_reinit_m_watches (s : solver) (cw : clause_wrapper) :
    (s.push_clauses_to_reinit cw).m_watches = s.m_watches := by
  rfl

@[simp] theorem push_clause_vector_m_watches (s : solver) (off : clause_offset) (learned : Bool) :
    (s.push_clause_vector off learned).m_watches = s.m_watches := by
  unfold push_clause_vector; split <;> rfl

@[simp] theorem alloc_clause_m_watches (s : solver) (lits : List literal) (learned : Bool) :
    (s.alloc_clause lits learned).2.m_watches = s.m_watches := by
  rfl

@[simp] theorem push_reinit_stack_m_watches (s : solver) (off : clause_offset) :
    (s.push_reinit_stack off).m_watches = s.m_watches := by
  rfl

@[simp] theorem assign_core_branching_m_assignment (s : solver) (v : bool_var) :
    (s.assign_core_branching v).m_assignment = s.m_assignment := by
  unfold assign_core_branching; split <;> rfl

@[simp] theorem assign_core_anti_exploration_m_assignment (s : solver) (v : bool_var) :
    (s.assign_core_anti_exploration v).m_assignment = s.m_assignment := by
  unfold assign_core_anti_exploration; split <;> (try split) <;> rfl

@[simp] theorem set_clause_m_assignment (s : solver) (off : clause_offset) (c : clause) :
    (s.set_clause off c).m_assignment = s.m_assignment := by
  rfl

@[simp] theorem push_watch_m_assignment (s : solver) (idx : Nat) (w : watched) :
    (s.push_watch idx w).m_assignment = s.m_assignment := by
  rfl

@[simp] theorem set_wlist_m_assignment (s : solver) (l : literal) (ws : List watched) :
    (s.set_wlist l ws).m_assignment = s.m_assignment := by
  rfl

@[simp] theorem set_conflict_m_assignment (s : solver) (j : justification) (l : literal) :
    (s.set_conflict j l).m_assignment = s.m_assignment := by
  unfold set_conflict; split <;> rfl

@[simp] theorem inc_bin_propagate_m_assignment (s : solver) :
    s.inc_bin_propagate.m_assignment = s.m_assignment := by
  rfl

@[simp] theorem inc_ter_propagate_m_assignment (s : solver) :
    s.inc_ter_propagate.m_assignment = s.m_assignment := by
  rfl

@[simp] theorem inc_propagate_m_assignment (s : solver) :
    s.inc_propagate.m_assignment = s.m_assignment := by
  rfl

@[simp] theorem inc_qhead_m_assignment (s : solver) :
    s.inc_qhead.m_assignment = s.m_assignment := by
  rfl

@[simp] theorem update_glue_m_assignment (s : solver) (update : Bool) (off : clause_offset) (c : clause) :
    (s.update_glue update off c).m_assignment = s.m_assignment := by
  unfold update_glue
  split
  · dsimp only; split <;> rfl
  · rfl

@[simp] theorem num_diff_levels_below_m_assignment (s : solver) (lits : List literal) (g : Nat) :
    (s.num_diff_levels_below lits g).2.2.m_assignment = s.m_assignment := by
  rfl

@[simp] theorem inc_mk_bin_clause_m_assignment (s : solver) :
    s.inc_mk_bin_clause.m_assignment = s.m_assignment := by
  rfl

@[simp] theorem inc_mk_ter_clause_m_assignment (s : solver) :
    s.inc_mk_ter_clause.m_assignment = s.m_assignment := by
  rfl

@[simp] theorem inc_mk_clause_m_assignment (s : solver) :
    s.inc_mk_clause.m_assignment = s.m_assignment := by
  rfl

@[simp] theorem inc_non_learned_generation_m_assignment (s : solver) :
    s.inc_non_learned_generation.m_assignment = s.m_assignment := by
  rfl

@[simp] theorem push_clauses_to_reinit_m_assignment (s : solver) (cw : clause_wrapper) :
    (s.push_clauses_to_reinit cw).m_assignment = s.m_assignment := by
  rfl

@[simp] theorem push_clause_vector_m_assignment (s : solver) (off : clause_offset) (learned : Bool) :
    (s.push_clause_vector off learned).m_assignment = s.m_assignment := by
  unfold push_clause_vector; split <;> rfl

@[simp] theorem alloc_clause_m_assignment (s : solver) (lits : List literal) (learned : Bool) :
    (s.alloc_clause lits learned).2.m_assignment = s.m_assignment := by
  rfl

@[simp] theorem push_reinit_stack_m_assignment (s : solver) (off : clause_offset) :
    (s.push_reinit_stack off).m_assignment = s.m_assignment := by
  rfl

@[simp] theorem push_bin_watches_m_assignment (s : solver) (l1 l2 : literal) (learned : Bool) :
    (s.push_bin_watches l1 l2 learned).m_assignment = s.m_assignment := by
  rfl

@[simp] theorem push_ter_watches_m_assignment (s : solver) (c : clause) :
    (s.push_ter_watches c).m_assignment = s.m_assignment := by
  rfl

@[simp] theorem push_nary_watches_m_assignment (s : solver) (off : clause_offset) :
    (s.push_nary_watches off).m_assignment = s.m_assignment := by
  rfl

@[simp] theorem assign_core_branching_m_justification (s : solver) (v : bool_var) :
    (s.assign_core_branching v).m_justification = s.m_justification := by
  unfold assign_core_branching; split <;> rfl

@[simp] theorem assign_core_anti_exploration_m_justification (s : solver) (v : bool_var) :
    (s.assign_core_anti_exploration v).m_justification = s.m_justification := by
  unfold assign_core_anti_exploration; split <;> (try split) <;> rfl

@[simp] theorem set_clause_m_justification (s : solver) (off : clause_offset) (c : clause) :
    (s.set_clause off c).m_justification = s.m_justification := by
  rfl

@[simp] theorem push_watch_m_justification (s : solver) (idx : Nat) (w : watched) :
    (s.push_watch idx w).m_justification = s.m_justification := by
  rfl

@[simp] theorem set_wlist_m_justification (s : solver) (l : literal) (ws : List watched) :
    (s.set_wlist l ws).m_justification = s.m_justification := by
  rfl

@[simp] theorem set_conflict_m_justification (s : solver) (j : justification) (l : literal) :
    (s.set_conflict j l).m_justification = s.m_justification := by
  unfold set_conflict; split <;> rfl

@[simp] theorem inc_bin_propagate_m_justification (s : solver) :
    s.inc_bin_propagate.m_justification = s.m_justification := by
  rfl

@[simp] theorem inc_ter_propagate_m_justification (s : solver) :
    s.inc_ter_propagate.m_justification = s.m_justification := by
  rfl

@[simp] theorem inc_propagate_m_justification (s : solver) :
    s.inc_propagate.m_justification = s.m_justification := by
  rfl

@[simp] theorem inc_qhead_m_justification (s : solver) :
    s.inc_qhead.m_justification = s.m_justification := by
  rfl

@[simp] theorem update_glue_m_justification (s : solver) (update : Bool) (off : clause_offset) (c : clause) :
    (s.update_glue update off c).m_justification = s.m_justification := by
  unfold update_glue
  split
  · dsimp only; split <;> rfl
  · rfl

@[simp] theorem num_diff_levels_below_m_justification (s : solver) (lits : List literal) (g : Nat) :
    (s.num_diff_levels_below lits g).2.2.m_justification = s.m_justification := by
  rfl

@[simp] theorem inc_mk_bin_clause_m_justification (s : solver) :
    s.inc_mk_bin_clause.m_justification = s.m_justification := by
  rfl

@[simp] theorem inc_mk_ter_clause_m_justification (s : solver) :
    s.inc_mk_ter_clause.m_justification = s.m_justification := by
  rfl

@[simp] theorem inc_mk_clause_m_justification (s : solver) :
    s.inc_mk_clause.m_justification = s.m_justification := by
  rfl

@[simp] theorem inc_non_learned_generation_m_justification (s : solver) :
    s.inc_non_learned_generation.m_justification = s.m_justification := by
  rfl

@[simp] theorem push_clauses_to_reinit_m_justification (s : solver) (cw : clause_wrapper) :
    (s.push_clauses_to_reinit cw).m_justification = s.m_justification := by
  rfl

@[simp] theorem push_clause_vector_m_justification (s : solver) (off : clause_offset) (learned : Bool) :
    (s.push_clause_vector off learned).m_justification = s.m_justification := by
  unfold push_clause_vector; split <;> rfl

@[simp] theorem alloc_clause_m_justification (s : solver) (lits : List literal) (learned : Bool) :
    (s.alloc_clause lits learned).2.m_justification = s.m_justification := by
  rfl

@[simp] theorem push_reinit_stack_m_justification (s : solver) (off : clause_offset) :
    (s.push_reinit_stack off).m_justification = s.m_justification := by
  rfl

@[simp] theorem push_bin_watches_m_justification (s : solver) (l1 l2 : literal) (learned : Bool) :
    (s.push_bin_watches l1 l2 learned).m_justification = s.m_justification := by
  rfl

@[simp] theorem push_ter_watches_m_justification (s : solver) (c : clause) :
    (s.push_ter_watches c).m_justification = s.m_justification := by
  rfl

@[simp] theorem push_nary_watches_m_justification (s : solver) (off : clause_offset) :
    (s.push_nary_watches off).m_justification = s.m_justification := by
  rfl

@[simp] theorem assign_core_branching_m_level (s : solver) (v : bool_var) :
    (s.assign_core_branching v).m_level = s.m_level := by
  unfold assign_core_branching; split <;> rfl

@[simp] theorem assign_core_anti_exploration_m_level (s : solver) (v : bool_var) :
    (s.assign_core_anti_exploration v).m_level = s.m_level := by
  unfold assign_core_anti_exploration; split <;> (try split) <;> rfl

@[simp] theorem set_clause_m_level (s : solver) (off : clause_offset) (c : clause) :
    (s.set_clause off c).m_level = s.m_level := by
  rfl

@[simp] theorem push_watch_m_level (s : solver) (idx : Nat) (w : watched) :
    (s.push_watch idx w).m_level = s.m_level := by
  rfl

@[simp] theorem set_wlist_m_level (s : solver) (l : literal) (ws : List watched) :
    (s.set_wlist l ws).m_level = s.m_level := by
  rfl

@[simp] theorem set_conflict_m_level (s : solver) (j : justification) (l : literal) :
    (s.set_conflict j l).m_level = s.m_level := by
  unfold set_conflict; split <;> rfl

@[simp] theorem inc_bin_propagate_m_level (s : solver) :
    s.inc_bin_propagate.m_level = s.m_level := by
  rfl

@[simp] theorem inc_ter_propagate_m_level (s : solver) :
    s.inc_ter_propagate.m_level = s.m_level := by
  rfl

@[simp] theorem inc_propagate_m_level (s : solver) :
    s.inc_propagate.m_level = s.m_level := by
  rfl

@[simp] theorem inc_qhead_m_level (s : solver) :
    s.inc_qhead.m_level = s.m_level := by
  rfl

@[simp] theorem update_glue_m_level (s : solver) (update : Bool) (off : clause_offset) (c : clause) :
    (s.update_glue update off c).m_level = s.m_level := by
  unfold update_glue
  split
  · dsimp only; split <;> rfl
  · rfl

@[simp] theorem num_diff_levels_below_m_level (s : solver) (lits : List literal) (g : Nat) :
    (s.num_diff_levels_below lits g).2.2.m_level = s.m_level := by
  rfl

@[simp] theorem inc_mk_bin_clause_m_level (s : solver) :
    s.inc_mk_bin_clause.m_level = s.m_level := by
  rfl

@[simp] theorem inc_mk_ter_clause_m_level (s : solver) :
    s.inc_mk_ter_clause.m_level = s.m_level := by
  rfl

@[simp] theorem inc_mk_clause_m_level (s : solver) :
    s.inc_mk_clause.m_level = s.m_level := by
  rfl

@[simp] theorem inc_non_learned_generation_m_level (s : solver) :
    s.inc_non_learned_generation.m_level = s.m_level := by
  rfl

@[simp] theorem push_clauses_to_reinit_m_level (s : solver) (cw : clause_wrapper) :
    (s.push_clauses_to_reinit cw).m_level = s.m_level := by
  rfl

@[simp] theorem push_clause_vector_m_level (s : solver) (off : clause_offset) (learned : Bool) :
    (s.push_clause_vector off learned).m_level = s.m_level := by
  unfold push_clause_vector; split <;> rfl

@[simp] theorem alloc_clause_m_level (s : solver) (lits : List literal) (learned : Bool) :
    (s.alloc_clause lits learned).2.m_level = s.m_level := by
  rfl

@[simp] theorem push_reinit_stack_m_level (s : solver) (off : clause_offset) :
    (s.push_reinit_stack off).m_level = s.m_level := by
  rfl

@[simp] theorem push_bin_watches_m_level (s : solver) (l1 l2 : literal) (learned : Bool) :
    (s.push_bin_watches l1 l2 learned).m_level = s.m_level := by
  rfl

@[simp] theorem push_ter_watches_m_level (s : solver) (c : clause) :
    (s.push_ter_watches c).m_level = s.m_level := by
  rfl

@[simp] theorem push_nary_watches_m_level (s : solver) (off : clause_offset) :
    (s.push_nary_watches off).m_level = s.m_level := by
  rfl

@[simp] theorem assign_core_branching_m_phase (s : solver) (v : bool_var) :
    (s.assign_core_branching v).m_phase = s.m_phase := by
  unfold assign_core_branching; split <;> rfl

@[simp] theorem assign_core_anti_exploration_m_phase (s : solver) (v : bool_var) :
    (s.assign_core_anti_exploration v).m_phase = s.m_phase := by
  unfold assign_core_anti_exploration; split <;> (try split) <;> rfl

@[simp] theorem set_clause_m_phase (s : solver) (off : clause_offset) (c : clause) :
    (s.set_clause off c).m_phase = s.m_phase := by
  rfl

@[simp] theorem push_watch_m_phase (s : solver) (idx : Nat) (w : watched) :
    (s.push_watch idx w).m_phase = s.m_phase := by
  rfl

@[simp] theorem set_wlist_m_phase (s : solver) (l : literal) (ws : List watched) :
    (s.set_wlist l ws).m_phase = s.m_phase := by
  rfl

@[simp] theorem set_conflict_m_phase (s : solver) (j : justification) (l : literal) :
    (s.set_conflict j l).m_phase = s.m_phase := by
  unfold set_conflict; split <;> rfl

@[simp] theorem inc_bin_propagate_m_phase (s : solver) :
    s.inc_bin_propagate.m_phase = s.m_phase := by
  rfl

@[simp] theorem inc_ter_propagate_m_phase (s : solver) :
    s.inc_ter_propagate.m_phase = s.m_phase := by
  rfl

@[simp] theorem inc_propagate_m_phase (s : solver) :
    s.inc_propagate.m_phase = s.m_phase := by
  rfl

@[simp] theorem inc_qhead_m_phase (s : solver) :
    s.inc_qhead.m_phase = s.m_phase := by
  rfl

@[simp] theorem update_glue_m_phase (s : solver) (update : Bool) (off : clause_offset) (c : clause) :
    (s.update_glue update off c).m_phase = s.m_phase := by
  unfold update_glue
  split
  · dsimp only; split <;> rfl
  · rfl

@[simp] theorem num_diff_levels_below_m_phase (s : solver) (lits : List literal) (g : Nat) :
    (s.num_diff_levels_below lits g).2.2.m_phase = s.m_phase := by
  rfl

@[simp] theorem inc_mk_bin_clause_m_phase (s : solver) :
    s.inc_mk_bin_clause.m_phase = s.m_phase := by
  rfl

@[simp] theorem inc_mk_ter_clause_m_phase (s : solver) :
    s.inc_mk_ter_clause.m_phase = s.m_phase := by
  rfl

@[simp] theorem inc_mk_clause_m_phase (s : solver) :
    s.inc_mk_clause.m_phase = s.m_phase := by
  rfl

@[simp] theorem inc_non_learned_generation_m_phase (s : solver) :
    s.inc_non_learned_generation.m_phase = s.m_phase := by
  rfl

@[simp] theorem push_clauses_to_reinit_m_phase (s : solver) (cw : clause_wrapper) :
    (s.push_clauses_to_reinit cw).m_phase = s.m_phase := by
  rfl

@[simp] theorem push_clause_vector_m_phase (s : solver) (off : clause_offset) (learned : Bool) :
    (s.push_clause_vector off learned).m_phase = s.m_phase := by
  unfold push_clause_vector; split <;> rfl

@[simp] theorem alloc_clause_m_phase (s : solver) (lits : List literal) (learned : Bool) :
    (s.alloc_clause lits learned).2.m_phase = s.m_phase := by
  rfl

@[simp] theorem push_reinit_stack_m_phase (s : solver) (off : clause_offset) :
    (s.push_reinit_stack off).m_phase = s.m_phase := by
  rfl

@[simp] theorem push_bin_watches_m_phase (s : solver) (l1 l2 : literal) (learned : Bool) :
    (s.push_bin_watches l1 l2 learned).m_phase = s.m_phase := by
  rfl

@[simp] theorem push_ter_watches_m_phase (s : solver) (c : clause) :
    (s.push_ter_watches c).m_phase = s.m_phase := by
  rfl

@[simp] theorem push_nary_watches_m_phase (s : solver) (off : clause_offset) :
    (s.push_nary_watches off).m_phase = s.m_phase := by
  rfl

@[simp] theorem assign_core_branching_m_trail (s : solver) (v : bool_var) :
    (s.assign_core_branching v).m_trail = s.m_trail := by
  unfold assign_core_branching; split <;> rfl

@[simp] theorem assign_core_anti_exploration_m_trail (s : solver) (v : bool_var) :
    (s.assign_core_anti_exploration v).m_trail = s.m_trail := by
  unfold assign_core_anti_exploration; split <;> (try split) <;> rfl

@[simp] theorem set_clause_m_trail (s : solver) (off : clause_offset) (c : clause) :
    (s.set_clause off c).m_trail = s.m_trail := by
  rfl

@[simp] theorem push_watch_m_trail (s : solver) (idx : Nat) (w : watched) :
    (s.push_watch idx w).m_trail = s.m_trail := by
  rfl

@[simp] theorem set_wlist_m_trail (s : solver) (l : literal) (ws : List watched) :
    (s.set_wlist l ws).m_trail = s.m_trail := by
  rfl

@[simp] theorem set_conflict_m_trail (s : solver) (j : justification) (l : literal) :
    (s.set_conflict j l).m_trail = s.m_trail := by
  unfold set_conflict; split <;> rfl

@[simp] theorem inc_bin_propagate_m_trail (s : solver) :
    s.inc_bin_propagate.m_trail = s.m_trail := by
  rfl

@[simp] theorem inc_ter_propagate_m_trail (s : solver) :
    s.inc_ter_propagate.m_trail = s.m_trail := by
  rfl

@[simp] theorem inc_propagate_m_trail (s : solver) :
    s.inc_propagate.m_trail = s.m_trail := by
  rfl

@[simp] theorem inc_qhead_m_trail (s : solver) :
    s.inc_qhead.m_trail = s.m_trail := by
  rfl

@[simp] theorem update_glue_m_trail (s : solver) (update : Bool) (off : clause_offset) (c : clause) :
    (s.update_glue update off c).m_trail = s.m_trail := by
  unfold update_glue
  split
  · dsimp only; split <;> rfl
  · rfl

@[simp] theorem num_diff_levels_below_m_trail (s : solver) (lits : List literal) (g : Nat) :
    (s.num_diff_levels_below lits g).2.2.m_trail = s.m_trail := by
  rfl

@[simp] theorem inc_mk_bin_clause_m_trail (s : solver) :
    s.inc_mk_bin_clause.m_trail = s.m_trail := by
  rfl

@[simp] theorem inc_mk_ter_clause_m_trail (s : solver) :
    s.inc_mk_ter_clause.m_trail = s.m_trail := by
  rfl

@[simp] theorem inc_mk_clause_m_trail (s : solver) :
    s.inc_mk_clause.m_trail = s.m_trail := by
  rfl

@[simp] theorem inc_non_learned_generation_m_trail (s : solver) :
    s.inc_non_learned_generation.m_trail = s.m_trail := by
  rfl

@[simp] theorem push_clauses_to_reinit_m_trail (s : solver) (cw : clause_wrapper) :
    (s.push_clauses_to_reinit cw).m_trail = s.m_trail := by
  rfl

@[simp] theorem push_clause_vector_m_trail (s : solver) (off : clause_offset) (learned : Bool) :
    (s.push_clause_vector off learned).m_trail = s.m_trail := by
  unfold push_clause_vector; split <;> rfl

@[simp] theorem alloc_clause_m_trail (s : solver) (lits : List literal) (learned : Bool) :
    (s.alloc_clause lits learned).2.m_trail = s.m_trail := by
  rfl

@[simp] theorem push_reinit_stack_m_trail (s : solver) (off : clause_offset) :
    (s.push_reinit_stack off).m_trail = s.m_trail := by
  rfl

@[simp] theorem push_bin_watches_m_trail (s : solver) (l1 l2 : literal) (learned : Bool) :
    (s.push_bin_watches l1 l2 learned).m_trail = s.m_trail := by
  rfl

@[simp] theorem push_ter_watches_m_trail (s : solver) (c : clause) :
    (s.push_ter_watches c).m_trail = s.m_trail := by
  rfl

@[simp] theorem push_nary_watches_m_trail (s : solver) (off : clause_offset) :
    (s.push_nary_watches off).m_trail = s.m_trail := by
  rfl

@[simp] theorem assign_core_record_m_qhead (s : solver) (l : literal) (j : justification) :
    (s.assign_core_record l j).m_qhead = s.m_qhead := by
  rfl

@[simp] theorem assign_core_branching_m_qhead (s : solver) (v : bool_var) :
    (s.assign_core_branching v).m_qhead = s.m_qhead := by
  unfold assign_core_branching; split <;> rfl

@[simp] theorem assign_core_anti_exploration_m_qhead (s : solver) (v : bool_var) :
    (s.assign_core_anti_exploration v).m_qhead = s.m_qhead := by
  unfold assign_core_anti_exploration; split <;> (try split) <;> rfl

@[simp] theorem assign_core_m_qhead (s : solver) (l : literal) (j : justification) :
    (s.assign_core l j).m_qhead = s.m_qhead := by
  simp [assign_core]

@[simp] theorem set_clause_m_qhead (s : solver) (off : clause_offset) (c : clause) :
    (s.set_clause off c).m_qhead = s.m_qhead := by
  rfl

@[simp] theorem push_watch_m_qhead (s : solver) (idx : Nat) (w : watched) :
    (s.push_watch idx w).m_qhead = s.m_qhead := by
  rfl

@[simp] theorem set_wlist_m_qhead (s : solver) (l : literal) (ws : List watched) :
    (s.set_wlist l ws).m_qhead = s.m_qhead := by
  rfl

@[simp] theorem set_conflict_m_qhead (s : solver) (j : justification) (l : literal) :
    (s.set_conflict j l).m_qhead = s.m_qhead := by
  unfold set_conflict; split <;> rfl

@[simp] theorem inc_bin_propagate_m_qhead (s : solver) :
    s.inc_bin_propagate.m_qhead = s.m_qhead := by
  rfl

@[simp] theorem inc_ter_propagate_m_qhead (s : solver) :
    s.inc_ter_propagate.m_qhead = s.m_qhead := by
  rfl

@[simp] theorem inc_propagate_m_qhead (s : solver) :
    s.inc_propagate.m_qhead = s.m_qhead := by
  rfl

@[simp] theorem update_glue_m_qhead (s : solver) (update : Bool) (off : clause_offset) (c : clause) :
    (s.update_glue update off c).m_qhead = s.m_qhead := by
  unfold update_glue
  split
  · dsimp only; split <;> rfl
  · rfl

@[simp] theorem num_diff_levels_below_m_qhead (s : solver) (lits : List literal) (g : Nat) :
    (s.num_diff_levels_below lits g).2.2.m_qhead = s.m_qhead := by
  rfl

@[simp] theorem assign_m_qhead (s : solver) (l : literal) (j : justification) :
    (s.assign l j).m_qhead = s.m_qhead := by
  unfold assign; split <;> simp

@[simp] theorem inc_mk_bin_clause_m_qhead (s : solver) :
    s.inc_mk_bin_clause.m_qhead = s.m_qhead := by
  rfl

@[simp] theorem inc_mk_ter_clause_m_qhead (s : solver) :
    s.inc_mk_ter_clause.m_qhead = s.m_qhead := by
  rfl

@[simp] theorem inc_mk_clause_m_qhead (s : solver) :
    s.inc_mk_clause.m_qhead = s.m_qhead := by
  rfl

@[simp] theorem inc_non_learned_generation_m_qhead (s : solver) :
    s.inc_non_learned_generation.m_qhead = s.m_qhead := by
  rfl

@[simp] theorem push_clauses_to_reinit_m_qhead (s : solver) (cw : clause_wrapper) :
    (s.push_clauses_to_reinit cw).m_qhead = s.m_qhead := by
  rfl

@[simp] theorem push_clause_vector_m_qhead (s : solver) (off : clause_offset) (learned : Bool) :
    (s.push_clause_vector off learned).m_qhead = s.m_qhead := by
  unfold push_clause_vector; split <;> rfl

@[simp] theorem alloc_clause_m_qhead (s : solver) (lits : List literal) (learned : Bool) :
    (s.alloc_clause lits learned).2.m_qhead = s.m_qhead := by
  rfl

@[simp] theorem push_reinit_stack_m_qhead (s : solver) (off : clause_offset) :
    (s.push_reinit_stack off).m_qhead = s.m_qhead := by
  rfl

@[simp] theorem push_bin_watches_m_qhead (s : solver) (l1 l2 : literal) (learned : Bool) :
    (s.push_bin_watches l1 l2 learned).m_qhead = s.m_qhead := by
  rfl

@[simp] theorem push_ter_watches_m_qhead (s : solver) (c : clause) :
    (s.push_ter_watches c).m_qhead = s.m_qhead := by
  rfl

@[simp] theorem push_nary_watches_m_qhead (s : solver) (off : clause_offset) :
    (s.push_nary_watches off).m_qhead = s.m_qhead := by
  rfl

@[simp] theorem assign_core_record_m_scope_lvl (s : solver) (l : literal) (j : justification) :
    (s.assign_core_record l j).m_scope_lvl = s.m_scope_lvl := by
  rfl

@[simp] theorem assign_core_branching_m_scope_lvl (s : solver) (v : bool_var) :
    (s.assign_core_branching v).m_scope_lvl = s.m_scope_lvl := by
  unfold assign_core_branching; split <;> rfl

@[simp] theorem assign_core_anti_exploration_m_scope_lvl (s : solver) (v : bool_var) :
    (s.assign_core_anti_exploration v).m_scope_lvl = s.m_scope_lvl := by
  unfold assign_core_anti_exploration; split <;> (try split) <;> rfl

@[simp] theorem assign_core_m_scope_lvl (s : solver) (l : literal) (j : justification) :
    (s.assign_core l j).m_scope_lvl = s.m_scope_lvl := by
  simp [assign_core]

@[simp] theorem set_clause_m_scope_lvl (s : solver) (off : clause_offset) (c : clause) :
    (s.set_clause off c).m_scope_lvl = s.m_scope_lvl := by
  rfl

@[simp] theorem push_watch_m_scope_lvl (s : solver) (idx : Nat) (w : watched) :
    (s.push_watch idx w).m_scope_lvl = s.m_scope_lvl := by
  rfl

@[simp] theorem set_wlist_m_scope_lvl (s : solver) (l : literal) (ws : List watched) :
    (s.set_wlist l ws).m_scope_lvl = s.m_scope_lvl := by
  rfl

@[simp] theorem set_conflict_m_scope_lvl (s : solver) (j : justification) (l : literal) :
    (s.set_conflict j l).m_scope_lvl = s.m_scope_lvl := by
  unfold set_conflict; split <;> rfl

@[simp] theorem inc_bin_propagate_m_scope_lvl (s : solver) :
    s.inc_bin_propagate.m_scope_lvl = s.m_scope_lvl := by
  rfl

@[simp] theorem inc_ter_propagate_m_scope_lvl (s : solver) :
    s.inc_ter_propagate.m_scope_lvl = s.m_scope_lvl := by
  rfl

@[simp] theorem inc_propagate_m_scope_lvl (s : solver) :
    s.inc_propagate.m_scope_lvl = s.m_scope_lvl := by
  rfl

@[simp] theorem inc_qhead_m_scope_lvl (s : solver) :
    s.inc_qhead.m_scope_lvl = s.m_scope_lvl := by
  rfl

@[simp] theorem update_glue_m_scope_lvl (s : solver) (update : Bool) (off : clause_offset) (c : clause) :
    (s.update_glue update off c).m_scope_lvl = s.m_scope_lvl := by
  unfold update_glue
  split
  · dsimp only; split <;> rfl
  · rfl

@[simp] theorem num_diff_levels_below_m_scope_lvl (s : solver) (lits : List literal) (g : Nat) :
    (s.num_diff_levels_below lits g).2.2.m_scope_lvl = s.m_scope_lvl := by
  rfl

@[simp] theorem assign_m_scope_lvl (s : solver) (l : literal) (j : justification) :
    (s.assign l j).m_scope_lvl = s.m_scope_lvl := by
  unfold assign; split <;> simp

@[simp] theorem inc_mk_bin_clause_m_scope_lvl (s : solver) :
    s.inc_mk_bin_clause.m_scope_lvl = s.m_scope_lvl := by
  rfl

@[simp] theorem inc_mk_ter_clause_m_scope_lvl (s : solver) :
    s.inc_mk_ter_clause.m_scope_lvl = s.m_scope_lvl := by
  rfl

@[simp] theorem inc_mk_clause_m_scope_lvl (s : solver) :
    s.inc_mk_clause.m_scope_lvl = s.m_scope_lvl := by
  rfl

@[simp] theorem inc_non_learned_generation_m_scope_lvl (s : solver) :
    s.inc_non_learned_generation.m_scope_lvl = s.m_scope_lvl := by
  rfl

@[simp] theorem push_clauses_to_reinit_m_scope_lvl (s : solver) (cw : clause_wrapper) :
    (s.push_clauses_to_reinit cw).m_scope_lvl = s.m_scope_lvl := by
  rfl

@[simp] theorem push_clause_vector_m_scope_lvl (s : solver) (off : clause_offset) (learned : Bool) :
    (s.push_clause_vector off learned).m_scope_lvl = s.m_scope_lvl := by
  unfold push_clause_vector; split <;> rfl

@[simp] theorem alloc_clause_m_scope_lvl (s : solver) (lits : List literal) (learned : Bool) :
    (s.alloc_clause lits learned).2.m_scope_lvl = s.m_scope_lvl := by
  rfl

@[simp] theorem push_reinit_stack_m_scope_lvl (s : solver) (off : clause_offset) :
    (s.push_reinit_stack off).m_scope_lvl = s.m_scope_lvl := by
  rfl

@[simp] theorem push_bin_watches_m_scope_lvl (s : solver) (l1 l2 : literal) (learned : Bool) :
    (s.push_bin_watches l1 l2 learned).m_scope_lvl = s.m_scope_lvl := by
  rfl

@[simp] theorem push_ter_watches_m_scope_lvl (s : solver) (c : clause) :
    (s.push_ter_watches c).m_scope_lvl = s.m_scope_lvl := by
  rfl

@[simp] theorem push_nary_watches_m_scope_lvl (s : solver) (off : clause_offset) :
    (s.push_nary_watches off).m_scope_lvl = s.m_scope_lvl := by
  rfl

@[simp] theorem assign_core_record_m_search_lvl (s : solver) (l : literal) (j : justification) :
    (s.assign_core_record l j).m_search_lvl = s.m_search_lvl := by
  rfl

@[simp] theorem assign_core_branching_m_search_lvl (s : solver) (v : bool_var) :
    (s.assign_core_branching v).m_search_lvl = s.m_search_lvl := by
  unfold assign_core_branching; split <;> rfl

@[simp] theorem assign_core_anti_exploration_m_search_lvl (s : solver) (v : bool_var) :
    (s.assign_core_anti_exploration v).m_search_lvl = s.m_search_lvl := by
  unfold assign_core_anti_exploration; split <;> (try split) <;> rfl

@[simp] theorem assign_core_m_search_lvl (s : solver) (l : literal) (j : justification) :
    (s.assign_core l j).m_search_lvl = s.m_search_lvl := by
  simp [assign_core]

@[simp] theorem set_clause_m_search_lvl (s : solver) (off : clause_offset) (c : clause) :
    (s.set_clause off c).m_search_lvl = s.m_search_lvl := by
  rfl

@[simp] theorem push_watch_m_search_lvl (s : solver) (idx : Nat) (w : watched) :
    (s.push_watch idx w).m_search_lvl = s.m_search_lvl := by
  rfl

@[simp] theorem set_wlist_m_search_lvl (s : solver) (l : literal) (ws : List watched) :
    (s.set_wlist l ws).m_search_lvl = s.m_search_lvl := by
  rfl

@[simp] theorem set_conflict_m_search_lvl (s : solver) (j : justification) (l : literal) :
    (s.set_conflict j l).m_search_lvl = s.m_search_lvl := by
  unfold set_conflict; split <;> rfl

@[simp] theorem inc_bin_propagate_m_search_lvl (s : solver) :
    s.inc_bin_propagate.m_search_lvl = s.m_search_lvl := by
  rfl

@[simp] theorem inc_ter_propagate_m_search_lvl (s : solver) :
    s.inc_ter_propagate.m_search_lvl = s.m_search_lvl := by
  rfl

@[simp] theorem inc_propagate_m_search_lvl (s : solver) :
    s.inc_propagate.m_search_lvl = s.m_search_lvl := by
  rfl

@[simp] theorem inc_qhead_m_search_lvl (s : solver) :
    s.inc_qhead.m_search_lvl = s.m_search_lvl := by
  rfl

@[simp] theorem update_glue_m_search_lvl (s : solver) (update : Bool) (off : clause_offset) (c : clause) :
    (s.update_glue update off c).m_search_lvl = s.m_search_lvl := by
  unfold update_glue
  split
  · dsimp only; split <;> rfl
  · rfl

@[simp] theorem num_diff_levels_below_m_search_lvl (s : solver) (lits : List literal) (g : Nat) :
    (s.num_diff_levels_below lits g).2.2.m_search_lvl = s.m_search_lvl := by
  rfl

@[simp] theorem assign_m_search_lvl (s : solver) (l : literal) (j : justification) :
    (s.assign l j).m_search_lvl = s.m_search_lvl := by
  unfold assign; split <;> simp

@[simp] theorem inc_mk_bin_clause_m_search_lvl (s : solver) :
    s.inc_mk_bin_clause.m_search_lvl = s.m_search_lvl := by
  rfl

@[simp] theorem inc_mk_ter_clause_m_search_lvl (s : solver) :
    s.inc_mk_ter_clause.m_search_lvl = s.m_search_lvl := by
  rfl

@[simp] theorem inc_mk_clause_m_search_lvl (s : solver) :
    s.inc_mk_clause.m_search_lvl = s.m_search_lvl := by
  rfl

@[simp] theorem inc_non_learned_generation_m_search_lvl (s : solver) :
    s.inc_non_learned_generation.m_search_lvl = s.m_search_lvl := by
  rfl

@[simp] theorem push_clauses_to_reinit_m_search_lvl (s : solver) (cw : clause_wrapper) :
    (s.push_clauses_to_reinit cw).m_search_lvl = s.m_search_lvl := by
  rfl

@[simp] theorem push_clause_vector_m_search_lvl (s : solver) (off : clause_offset) (learned : Bool) :
    (s.push_clause_vector off learned).m_search_lvl = s.m_search_lvl := by
  unfold push_clause_vector; split <;> rfl

@[simp] theorem alloc_clause_m_search_lvl (s : solver) (lits : List literal) (learned : Bool) :
    (s.alloc_clause lits learned).2.m_search_lvl = s.m_search_lvl := by
  rfl

@[simp] theorem push_reinit_stack_m_search_lvl (s : solver) (off : clause_offset) :
    (s.push_reinit_stack off).m_search_lvl = s.m_search_lvl := by
  rfl

@[simp] theorem push_bin_watches_m_search_lvl (s : solver) (l1 l2 : literal) (learned : Bool) :
    (s.push_bin_watches l1 l2 learned).m_search_lvl = s.m_search_lvl := by
  rfl

@[simp] theorem push_ter_watches_m_search_lvl (s : solver) (c : clause) :
    (s.push_ter_watches c).m_search_lvl = s.m_search_lvl := by
  rfl

@[simp] theorem push_nary_watches_m_search_lvl (s : solver) (off : clause_offset) :
    (s.push_nary_watches off).m_search_lvl = s.m_search_lvl := by
  rfl

@[simp] theorem assign_core_record_m_scopes (s : solver) (l : literal) (j : justification) :
    (s.assign_core_record l j).m_scopes = s.m_scopes := by
  rfl

@[simp] theorem assign_core_branching_m_scopes (s : solver) (v : bool_var) :
    (s.assign_core_branching v).m_scopes = s.m_scopes := by
  unfold assign_core_branching; split <;> rfl

@[simp] theorem assign_core_anti_exploration_m_scopes (s : solver) (v : bool_var) :
    (s.assign_core_anti_exploration v).m_scopes = s.m_scopes := by
  unfold assign_core_anti_exploration; split <;> (try split) <;> rfl

@[simp] theorem assign_core_m_scopes (s : solver) (l : literal) (j : justification) :
    (s.assign_core l j).m_scopes = s.m_scopes := by
  simp [assign_core]

@[simp] theorem set_clause_m_scopes (s : solver) (off : clause_offset) (c : clause) :
    (s.set_clause off c).m_scopes = s.m_scopes := by
  rfl

@[simp] theorem push_watch_m_scopes (s : solver) (idx : Nat) (w : watched) :
    (s.push_watch idx w).m_scopes = s.m_scopes := by
  rfl

@[simp] theorem set_wlist_m_scopes (s : solver) (l : literal) (ws : List watched) :
    (s.set_wlist l ws).m_scopes = s.m_scopes := by
  rfl

@[simp] theorem set_conflict_m_scopes (s : solver) (j : justification) (l : literal) :
    (s.set_conflict j l).m_scopes = s.m_scopes := by
  unfold set_conflict; split <;> rfl

@[simp] theorem inc_bin_propagate_m_scopes (s : solver) :
    s.inc_bin_propagate.m_scopes = s.m_scopes := by
  rfl

@[simp] theorem inc_ter_propagate_m_scopes (s : solver) :
    s.inc_ter_propagate.m_scopes = s.m_scopes := by
  rfl

@[simp] theorem inc_propagate_m_scopes (s : solver) :
    s.inc_propagate.m_scopes = s.m_scopes := by
  rfl

@[simp] theorem inc_qhead_m_scopes (s : solver) :
    s.inc_qhead.m_scopes = s.m_scopes := by
  rfl

@[simp] theorem update_glue_m_scopes (s : solver) (update : Bool) (off : clause_offset) (c : clause) :
    (s.update_glue update off c).m_scopes = s.m_scopes := by
  unfold update_glue
  split
  · dsimp only; split <;> rfl
  · rfl

@[simp] theorem num_diff_levels_below_m_scopes (s : solver) (lits : List literal) (g : Nat) :
    (s.num_diff_levels_below lits g).2.2.m_scopes = s.m_scopes := by
  rfl

@[simp] theorem assign_m_scopes (s : solver) (l : literal) (j : justification) :
    (s.assign l j).m_scopes = s.m_scopes := by
  unfold assign; split <;> simp

@[simp] theorem inc_mk_bin_clause_m_scopes (s : solver) :
    s.inc_mk_bin_clause.m_scopes = s.m_scopes := by
  rfl

@[simp] theorem inc_mk_ter_clause_m_scopes (s : solver) :
    s.inc_mk_ter_clause.m_scopes = s.m_scopes := by
  rfl

@[simp] theorem inc_mk_clause_m_scopes (s : solver) :
    s.inc_mk_clause.m_scopes = s.m_scopes := by
  rfl

@[simp] theorem inc_non_learned_generation_m_scopes (s : solver) :
    s.inc_non_learned_generation.m_scopes = s.m_scopes := by
  rfl

@[simp] theorem push_clauses_to_reinit_m_scopes (s : solver) (cw : clause_wrapper) :
    (s.push_clauses_to_reinit cw).m_scopes = s.m_scopes := by
  rfl

@[simp] theorem push_clause_vector_m_scopes (s : solver) (off : clause_offset) (learned : Bool) :
    (s.push_clause_vector off learned).m_scopes = s.m_scopes := by
  unfold push_clause_vector; split <;> rfl

@[simp] theorem alloc_clause_m_scopes (s : solver) (lits : List literal) (learned : Bool) :
    (s.alloc_clause lits learned).2.m_scopes = s.m_scopes := by
  rfl

@[simp] theorem push_reinit_stack_m_scopes (s : solver) (off : clause_offset) :
    (s.push_reinit_stack off).m_scopes = s.m_scopes := by
  rfl

@[simp] theorem push_bin_watches_m_scopes (s : solver) (l1 l2 : literal) (learned : Bool) :
    (s.push_bin_watches l1 l2 learned).m_scopes = s.m_scopes := by
  rfl

@[simp] theorem push_ter_watches_m_scopes (s : solver) (c : clause) :
    (s.push_ter_watches c).m_scopes = s.m_scopes := by
  rfl

@[simp] theorem push_nary_watches_m_scopes (s : solver) (off : clause_offset) :
    (s.push_nary_watches off).m_scopes = s.m_scopes := by
  rfl

@[simp] theorem assign_core_record_m_diff_levels (s : solver) (l : literal) (j : justification) :
    (s.assign_core_record l j).m_diff_levels = s.m_diff_levels := by
  rfl

@[simp] theorem assign_core_branching_m_diff_levels (s : solver) (v : bool_var) :
    (s.assign_core_branching v).m_diff_levels = s.m_diff_levels := by
  unfold assign_core_branching; split <;> rfl

@[simp] theorem assign_core_anti_exploration_m_diff_levels (s : solver) (v : bool_var) :
    (s.assign_core_anti_exploration v).m_diff_levels = s.m_diff_levels := by
  unfold assign_core_anti_exploration; split <;> (try split) <;> rfl

@[simp] theorem assign_core_m_diff_levels (s : solver) (l : literal) (j : justification) :
    (s.assign_core l j).m_diff_levels = s.m_diff_levels := by
  simp [assign_core]

@[simp] theorem set_clause_m_diff_levels (s : solver) (off : clause_offset) (c : clause) :
    (s.set_clause off c).m_diff_levels = s.m_diff_levels := by
  rfl

@[simp] theorem push_watch_m_diff_levels (s : solver) (idx : Nat) (w : watched) :
    (s.push_watch idx w).m_diff_levels = s.m_diff_levels := by
  rfl

@[simp] theorem set_wlist_m_diff_levels (s : solver) (l : literal) (ws : List watched) :
    (s.set_wlist l ws).m_diff_levels = s.m_diff_levels := by
  rfl

@[simp] theorem set_conflict_m_diff_levels (s : solver) (j : justification) (l : literal) :
    (s.set_conflict j l).m_diff_levels = s.m_diff_levels := by
  unfold set_conflict; split <;> rfl

@[simp] theorem inc_bin_propagate_m_diff_levels (s : solver) :
    s.inc_bin_propagate.m_diff_levels = s.m_diff_levels := by
  rfl

@[simp] theorem inc_ter_propagate_m_diff_levels (s : solver) :
    s.inc_ter_propagate.m_diff_levels = s.m_diff_levels := by
  rfl

@[simp] theorem inc_propagate_m_diff_levels (s : solver) :
    s.inc_propagate.m_diff_levels = s.m_diff_levels := by
  rfl

@[simp] theorem inc_qhead_m_diff_levels (s : solver) :
    s.inc_qhead.m_diff_levels = s.m_diff_levels := by
  rfl

@[simp] theorem assign_m_diff_levels (s : solver) (l : literal) (j : justification) :
    (s.assign l j).m_diff_levels = s.m_diff_levels := by
  unfold assign; split <;> simp

@[simp] theorem inc_mk_bin_clause_m_diff_levels (s : solver) :
    s.inc_mk_bin_clause.m_diff_levels = s.m_diff_levels := by
  rfl

@[simp] theorem inc_mk_ter_clause_m_diff_levels (s : solver) :
    s.inc_mk_ter_clause.m_diff_levels = s.m_diff_levels := by
  rfl

@[simp] theorem inc_mk_clause_m_diff_levels (s : solver) :
    s.inc_mk_clause.m_diff_levels = s.m_diff_levels := by
  rfl

@[simp] theorem inc_non_learned_generation_m_diff_levels (s : solver) :
    s.inc_non_learned_generation.m_diff_levels = s.m_diff_levels := by
  rfl

@[simp] theorem push_clauses_to_reinit_m_diff_levels (s : solver) (cw : clause_wrapper) :
    (s.push_clauses_to_reinit cw).m_diff_levels = s.m_diff_levels := by
  rfl

@[simp] theorem push_clause_vector_m_diff_levels (s : solver) (off : clause_offset) (learned : Bool) :
    (s.push_clause_vector off learned).m_diff_levels = s.m_diff_levels := by
  unfold push_clause_vector; split <;> rfl

@[simp] theorem alloc_clause_m_diff_levels (s : solver) (lits : List literal) (learned : Bool) :
    (s.alloc_clause lits learned).2.m_diff_levels = s.m_diff_levels := by
  rfl

@[simp] theorem push_reinit_stack_m_diff_levels (s : solver) (off : clause_offset) :
    (s.push_reinit_stack off).m_diff_levels = s.m_diff_levels := by
  rfl

@[simp] theorem push_bin_watches_m_diff_levels (s : solver) (l1 l2 : literal) (learned : Bool) :
    (s.push_bin_watches l1 l2 learned).m_diff_levels = s.m_diff_levels := by
  rfl

@[simp] theorem push_ter_watches_m_diff_levels (s : solver) (c : clause) :
    (s.push_ter_watches c).m_diff_levels = s.m_diff_levels := by
  rfl

@[simp] theorem push_nary_watches_m_diff_levels (s : solver) (off : clause_offset) :
    (s.push_nary_watches off).m_diff_levels = s.m_diff_levels := by
  rfl

@[simp] theorem assign_core_record_m_clauses_to_reinit (s : solver) (l : literal) (j : justification) :
    (s.assign_core_record l j).m_clauses_to_reinit = s.m_clauses_to_reinit := by
  rfl

@[simp] theorem assign_core_branching_m_clauses_to_reinit (s : solver) (v : bool_var) :
    (s.assign_core_branching v).m_clauses_to_reinit = s.m_clauses_to_reinit := by
  unfold assign_core_branching; split <;> rfl

@[simp] theorem assign_core_anti_exploration_m_clauses_to_reinit (s : solver) (v : bool_var) :
    (s.assign_core_anti_exploration v).m_clauses_to_reinit = s.m_clauses_to_reinit := by
  unfold assign_core_anti_exploration; split <;> (try split) <;> rfl

@[simp] theorem assign_core_m_clauses_to_reinit (s : solver) (l : literal) (j : justification) :
    (s.assign_core l j).m_clauses_to_reinit = s.m_clauses_to_reinit := by
  simp [assign_core]

@[simp] theorem set_clause_m_clauses_to_reinit (s : solver) (off : clause_offset) (c : clause) :
    (s.set_clause off c).m_clauses_to_reinit = s.m_clauses_to_reinit := by
  rfl

@[simp] theorem push_watch_m_clauses_to_reinit (s : solver) (idx : Nat) (w : watched) :
    (s.push_watch idx w).m_clauses_to_reinit = s.m_clauses_to_reinit := by
  rfl

@[simp] theorem set_wlist_m_clauses_to_reinit (s : solver) (l : literal) (ws : List watched) :
    (s.set_wlist l ws).m_clauses_to_reinit = s.m_clauses_to_reinit := by
  rfl

@[simp] theorem set_conflict_m_clauses_to_reinit (s : solver) (j : justification) (l : literal) :
    (s.set_conflict j l).m_clauses_to_reinit = s.m_clauses_to_reinit := by
  unfold set_conflict; split <;> rfl

@[simp] theorem inc_bin_propagate_m_clauses_to_reinit (s : solver) :
    s.inc_bin_propagate.m_clauses_to_reinit = s.m_clauses_to_reinit := by
  rfl

@[simp] theorem inc_ter_propagate_m_clauses_to_reinit (s : solver) :
    s.inc_ter_propagate.m_clauses_to_reinit = s.m_clauses_to_reinit := by
  rfl

@[simp] theorem inc_propagate_m_clauses_to_reinit (s : solver) :
    s.inc_propagate.m_clauses_to_reinit = s.m_clauses_to_reinit := by
  rfl

@[simp] theorem inc_qhead_m_clauses_to_reinit (s : solver) :
    s.inc_qhead.m_clauses_to_reinit = s.m_clauses_to_reinit := by
  rfl

@[simp] theorem update_glue_m_clauses_to_reinit (s : solver) (update : Bool) (off : clause_offset) (c : clause) :
    (s.update_glue update off c).m_clauses_to_reinit = s.m_clauses_to_reinit := by
  unfold update_glue
  split
  · dsimp only; split <;> rfl
  · rfl

@[simp] theorem num_diff_levels_below_m_clauses_to_reinit (s : solver) (lits : List literal) (g : Nat) :
    (s.num_diff_levels_below lits g).2.2.m_clauses_to_reinit = s.m_clauses_to_reinit := by
  rfl

@[simp] theorem assign_m_clauses_to_reinit (s : solver) (l : literal) (j : justification) :
    (s.assign l j).m_clauses_to_reinit = s.m_clauses_to_reinit := by
  unfold assign; split <;> simp

@[simp] theorem inc_mk_bin_clause_m_clauses_to_reinit (s : solver) :
    s.inc_mk_bin_clause.m_clauses_to_reinit = s.m_clauses_to_reinit := by
  rfl

@[simp] theorem inc_mk_ter_clause_m_clauses_to_reinit (s : solver) :
    s.inc_mk_ter_clause.m_clauses_to_reinit = s.m_clauses_to_reinit := by
  rfl

@[simp] theorem inc_mk_clause_m_clauses_to_reinit (s : solver) :
    s.inc_mk_clause.m_clauses_to_reinit = s.m_clauses_to_reinit := by
  rfl

@[simp] theorem inc_non_learned_generation_m_clauses_to_reinit (s : solver) :
    s.inc_non_learned_generation.m_clauses_to_reinit = s.m_clauses_to_reinit := by
  rfl

@[simp] theorem push_clause_vector_m_clauses_to_reinit (s : solver) (off : clause_offset) (learned : Bool) :
    (s.push_clause_vector off learned).m_clauses_to_reinit = s.m_clauses_to_reinit := by
  unfold push_clause_vector; split <;> rfl

@[simp] theorem alloc_clause_m_clauses_to_reinit (s : solver) (lits : List literal) (learned : Bool) :
    (s.alloc_clause lits learned).2.m_clauses_to_reinit = s.m_clauses_to_reinit := by
  rfl

@[simp] theorem push_bin_watches_m_clauses_to_reinit (s : solver) (l1 l2 : literal) (learned : Bool) :
    (s.push_bin_watches l1 l2 learned).m_clauses_to_reinit = s.m_clauses_to_reinit := by
  rfl

@[simp] theorem push_ter_watches_m_clauses_to_reinit (s : solver) (c : clause) :
    (s.push_ter_watches c).m_clauses_to_reinit = s.m_clauses_to_reinit := by
  rfl

@[simp] theorem push_nary_watches_m_clauses_to_reinit (s : solver) (off : clause_offset) :
    (s.push_nary_watches off).m_clauses_to_reinit = s.m_clauses_to_reinit := by
  rfl

/-! ## Frame lemmas of the backtracking helpers -/

@[simp] theorem assign_core_record_m_mark (s : solver) (l : literal) (j : justification) :
    (s.assign_core_record l j).m_mark = s.m_mark := by
  rfl

@[simp] theorem assign_core_branching_m_mark (s : solver) (v : bool_var) :
    (s.assign_core_branching v).m_mark = s.m_mark := by
  unfold assign_core_branching; split <;> rfl

@[simp] theorem assign_core_anti_exploration_m_mark (s : solver) (v : bool_var) :
    (s.assign_core_anti_exploration v).m_mark = s.m_mark := by
  unfold assign_core_anti_exploration; split <;> (try split) <;> rfl

@[simp] theorem assign_core_m_mark (s : solver) (l : literal) (j : justification) :
    (s.assign_core l j).m_mark = s.m_mark := by
  simp [assign_core]

@[simp] theorem set_clause_m_mark (s : solver) (off : clause_offset) (c : clause) :
    (s.set_clause off c).m_mark = s.m_mark := by
  rfl

@[simp] theorem push_watch_m_mark (s : solver) (idx : Nat) (w : watched) :
    (s.push_watch idx w).m_mark = s.m_mark := by
  rfl

@[simp] theorem set_wlist_m_mark (s : solver) (l : literal) (ws : List watched) :
    (s.set_wlist l ws).m_mark = s.m_mark := by
  rfl

@[simp] theorem set_conflict_m_mark (s : solver) (j : justification) (l : literal) :
    (s.set_conflict j l).m_mark = s.m_mark := by
  unfold set_conflict; split <;> rfl

@[simp] theorem inc_bin_propagate_m_mark (s : solver) :
    s.inc_bin_propagate.m_mark = s.m_mark := by
  rfl

@[simp] theorem inc_ter_propagate_m_mark (s : solver) :
    s.inc_ter_propagate.m_mark = s.m_mark := by
  rfl

@[simp] theorem inc_propagate_m_mark (s : solver) :
    s.inc_propagate.m_mark = s.m_mark := by
  rfl

@[simp] theorem inc_qhead_m_mark (s : solver) :
    s.inc_qhead.m_mark = s.m_mark := by
  rfl

@[simp] theorem update_glue_m_mark (s : solver) (update : Bool) (off : clause_offset) (c : clause) :
    (s.update_glue update off c).m_mark = s.m_mark := by
  unfold update_glue
  split
  · dsimp only; split <;> rfl
  · rfl

@[simp] theorem num_diff_levels_below_m_mark (s : solver) (lits : List literal) (g : Nat) :
    (s.num_diff_levels_below lits g).2.2.m_mark = s.m_mark := by
  rfl

@[simp] theorem assign_m_mark (s : solver) (l : literal) (j : justification) :
    (s.assign l j).m_mark = s.m_mark := by
  unfold assign; split <;> simp

@[simp] theorem inc_mk_bin_clause_m_mark (s : solver) :
    s.inc_mk_bin_clause.m_mark = s.m_mark := by
  rfl

@[simp] theorem inc_mk_ter_clause_m_mark (s : solver) :
    s.inc_mk_ter_clause.m_mark = s.m_mark := by
  rfl

@[simp] theorem inc_mk_clause_m_mark (s : solver) :
    s.inc_mk_clause.m_mark = s.m_mark := by
  rfl

@[simp] theorem inc_non_learned_generation_m_mark (s : solver) :
    s.inc_non_learned_generation.m_mark = s.m_mark := by
  rfl

@[simp] theorem push_clauses_to_reinit_m_mark (s : solver) (cw : clause_wrapper) :
    (s.push_clauses_to_reinit cw).m_mark = s.m_mark := by
  rfl

@[simp] theorem push_clause_vector_m_mark (s : solver) (off : clause_offset) (learned : Bool) :
    (s.push_clause_vector off learned).m_mark = s.m_mark := by
  unfold push_clause_vector; split <;> rfl

@[simp] theorem alloc_clause_m_mark (s : solver) (lits : List literal) (learned : Bool) :
    (s.alloc_clause lits learned).2.m_mark = s.m_mark := by
  rfl

@[simp] theorem push_reinit_stack_m_mark (s : solver) (off : clause_offset) :
    (s.push_reinit_stack off).m_mark = s.m_mark := by
  rfl

@[simp] theorem push_bin_watches_m_mark (s : solver) (l1 l2 : literal) (learned : Bool) :
    (s.push_bin_watches l1 l2 learned).m_mark = s.m_mark := by
  rfl

@[simp] theorem push_ter_watches_m_mark (s : solver) (c : clause) :
    (s.push_ter_watches c).m_mark = s.m_mark := by
  rfl

@[simp] theorem push_nary_watches_m_mark (s : solver) (off : clause_offset) :
    (s.push_nary_watches off).m_mark = s.m_mark := by
  rfl

@[simp] theorem assign_core_record_m_lemma (s : solver) (l : literal) (j : justification) :
    (s.assign_core_record l j).m_lemma = s.m_lemma := by
  rfl

@[simp] theorem assign_core_branching_m_lemma (s : solver) (v : bool_var) :
    (s.assign_core_branching v).m_lemma = s.m_lemma := by
  unfold assign_core_branching; split <;> rfl

@[simp] theorem assign_core_anti_exploration_m_lemma (s : solver) (v : bool_var) :
    (s.assign_core_anti_exploration v).m_lemma = s.m_lemma := by
  unfold assign_core_anti_exploration; split <;> (try split) <;> rfl

@[simp] theorem assign_core_m_lemma (s : solver) (l : literal) (j : justification) :
    (s.assign_core l j).m_lemma = s.m_lemma := by
  simp [assign_core]

@[simp] theorem set_clause_m_lemma (s : solver) (off : clause_offset) (c : clause) :
    (s.set_clause off c).m_lemma = s.m_lemma := by
  rfl

@[simp] theorem push_watch_m_lemma (s : solver) (idx : Nat) (w : watched) :
    (s.push_watch idx w).m_lemma = s.m_lemma := by
  rfl

@[simp] theorem set_wlist_m_lemma (s : solver) (l : literal) (ws : List watched) :
    (s.set_wlist l ws).m_lemma = s.m_lemma := by
  rfl

@[simp] theorem set_conflict_m_lemma (s : solver) (j : justification) (l : literal) :
    (s.set_conflict j l).m_lemma = s.m_lemma := by
  unfold set_conflict; split <;> rfl

@[simp] theorem inc_bin_propagate_m_lemma (s : solver) :
    s.inc_bin_propagate.m_lemma = s.m_lemma := by
  rfl

@[simp] theorem inc_ter_propagate_m_lemma (s : solver) :
    s.inc_ter_propagate.m_lemma = s.m_lemma := by
  rfl

@[simp] theorem inc_propagate_m_lemma (s : solver) :
    s.inc_propagate.m_lemma = s.m_lemma := by
  rfl

@[simp] theorem inc_qhead_m_lemma (s : solver) :
    s.inc_qhead.m_lemma = s.m_lemma := by
  rfl

@[simp] theorem update_glue_m_lemma (s : solver) (update : Bool) (off : clause_offset) (c : clause) :
    (s.update_glue update off c).m_lemma = s.m_lemma := by
  unfold update_glue
  split
  · dsimp only; split <;> rfl
  · rfl

@[simp] theorem num_diff_levels_below_m_lemma (s : solver) (lits : List literal) (g : Nat) :
    (s.num_diff_levels_below lits g).2.2.m_lemma = s.m_lemma := by
  rfl

@[simp] theorem assign_m_lemma (s : solver) (l : literal) (j : justification) :
    (s.assign l j).m_lemma = s.m_lemma := by
  unfold assign; split <;> simp

@[simp] theorem inc_mk_bin_clause_m_lemma (s : solver) :
    s.inc_mk_bin_clause.m_lemma = s.m_lemma := by
  rfl

@[simp] theorem inc_mk_ter_clause_m_lemma (s : solver) :
    s.inc_mk_ter_clause.m_lemma = s.m_lemma := by
  rfl

@[simp] theorem inc_mk_clause_m_lemma (s : solver) :
    s.inc_mk_clause.m_lemma = s.m_lemma := by
  rfl

@[simp] theorem inc_non_learned_generation_m_lemma (s : solver) :
    s.inc_non_learned_generation.m_lemma = s.m_lemma := by
  rfl

@[simp] theorem push_clauses_to_reinit_m_lemma (s : solver) (cw : clause_wrapper) :
    (s.push_clauses_to_reinit cw).m_lemma = s.m_lemma := by
  rfl

@[simp] theorem push_clause_vector_m_lemma (s : solver) (off : clause_offset) (learned : Bool) :
    (s.push_clause_vector off learned).m_lemma = s.m_lemma := by
  unfold push_clause_vector; split <;> rfl

@[simp] theorem alloc_clause_m_lemma (s : solver) (lits : List literal) (learned : Bool) :
    (s.alloc_clause lits learned).2.m_lemma = s.m_lemma := by
  rfl

@[simp] theorem push_reinit_stack_m_lemma (s : solver) (off : clause_offset) :
    (s.push_reinit_stack off).m_lemma = s.m_lemma := by
  rfl

@[simp] theorem push_bin_watches_m_lemma (s : solver) (l1 l2 : literal) (learned : Bool) :
    (s.push_bin_watches l1 l2 learned).m_lemma = s.m_lemma := by
  rfl

@[simp] theorem push_ter_watches_m_lemma (s : solver) (c : clause) :
    (s.push_ter_watches c).m_lemma = s.m_lemma := by
  rfl

@[simp] theorem push_nary_watches_m_lemma (s : solver) (off : clause_offset) :
    (s.push_nary_watches off).m_lemma = s.m_lemma := by
  rfl

@[simp] theorem assign_core_record_m_core (s : solver) (l : literal) (j : justification) :
    (s.assign_core_record l j).m_core = s.m_core := by
  rfl

@[simp] theorem assign_core_branching_m_core (s : solver) (v : bool_var) :
    (s.assign_core_branching v).m_core = s.m_core := by
  unfold assign_core_branching; split <;> rfl

@[simp] theorem assign_core_anti_exploration_m_core (s : solver) (v : bool_var) :
    (s.assign_core_anti_exploration v).m_core = s.m_core := by
  unfold assign_core_anti_exploration; split <;> (try split) <;> rfl

@[simp] theorem assign_core_m_core (s : solver) (l : literal) (j : justification) :
    (s.assign_core l j).m_core = s.m_core := by
  simp [assign_core]

@[simp] theorem set_clause_m_core (s : solver) (off : clause_offset) (c : clause) :
    (s.set_clause off c).m_core = s.m_core := by
  rfl

@[simp] theorem push_watch_m_core (s : solver) (idx : Nat) (w : watched) :
    (s.push_watch idx w).m_core = s.m_core := by
  rfl

@[simp] theorem set_wlist_m_core (s : solver) (l : literal) (ws : List watched) :
    (s.set_wlist l ws).m_core = s.m_core := by
  rfl

@[simp] theorem set_conflict_m_core (s : solver) (j : justification) (l : literal) :
    (s.set_conflict j l).m_core = s.m_core := by
  unfold set_conflict; split <;> rfl

@[simp] theorem inc_bin_propagate_m_core (s : solver) :
    s.inc_bin_propagate.m_core = s.m_core := by
  rfl

@[simp] theorem inc_ter_propagate_m_core (s : solver) :
    s.inc_ter_propagate.m_core = s.m_core := by
  rfl

@[simp] theorem inc_propagate_m_core (s : solver) :
    s.inc_propagate.m_core = s.m_core := by
  rfl

@[simp] theorem inc_qhead_m_core (s : solver) :
    s.inc_qhead.m_core = s.m_core := by
  rfl

@[simp] theorem update_glue_m_core (s : solver) (update : Bool) (off : clause_offset) (c : clause) :
    (s.update_glue update off c).m_core = s.m_core := by
  unfold update_glue
  split
  · dsimp only; split <;> rfl
  · rfl

@[simp] theorem num_diff_levels_below_m_core (s : solver) (lits : List literal) (g : Nat) :
    (s.num_diff_levels_below lits g).2.2.m_core = s.m_core := by
  rfl

@[simp] theorem assign_m_core (s : solver) (l : literal) (j : justification) :
    (s.assign l j).m_core = s.m_core := by
  unfold assign; split <;> simp

@[simp] theorem inc_mk_bin_clause_m_core (s : solver) :
    s.inc_mk_bin_clause.m_core = s.m_core := by
  rfl

@[simp] theorem inc_mk_ter_clause_m_core (s : solver) :
    s.inc_mk_ter_clause.m_core = s.m_core := by
  rfl

@[simp] theorem inc_mk_clause_m_core (s : solver) :
    s.inc_mk_clause.m_core = s.m_core := by
  rfl

@[simp] theorem inc_non_learned_generation_m_core (s : solver) :
    s.inc_non_learned_generation.m_core = s.m_core := by
  rfl

@[simp] theorem push_clauses_to_reinit_m_core (s : solver) (cw : clause_wrapper) :
    (s.push_clauses_to_reinit cw).m_core = s.m_core := by
  rfl

@[simp] theorem push_clause_vector_m_core (s : solver) (off : clause_offset) (learned : Bool) :
    (s.push_clause_vector off learned).m_core = s.m_core := by
  unfold push_clause_vector; split <;> rfl

@[simp] theorem alloc_clause_m_core (s : solver) (lits : List literal) (learned : Bool) :
    (s.alloc_clause lits learned).2.m_core = s.m_core := by
  rfl

@[simp] theorem push_reinit_stack_m_core (s : solver) (off : clause_offset) :
    (s.push_reinit_stack off).m_core = s.m_core := by
  rfl

@[simp] theorem push_bin_watches_m_core (s : solver) (l1 l2 : literal) (learned : Bool) :
    (s.push_bin_watches l1 l2 learned).m_core = s.m_core := by
  rfl

@[simp] theorem push_ter_watches_m_core (s : solver) (c : clause) :
    (s.push_ter_watches c).m_core = s.m_core := by
  rfl

@[simp] theorem push_nary_watches_m_core (s : solver) (off : clause_offset) :
    (s.push_nary_watches off).m_core = s.m_core := by
  rfl

@[simp] theorem assign_core_record_m_assumptions (s : solver) (l : literal) (j : justification) :
    (s.assign_core_record l j).m_assumptions = s.m_assumptions := by
  rfl

@[simp] theorem assign_core_branching_m_assumptions (s : solver) (v : bool_var) :
    (s.assign_core_branching v).m_assumptions = s.m_assumptions := by
  unfold assign_core_branching; split <;> rfl

@[simp] theorem assign_core_anti_exploration_m_assumptions (s : solver) (v : bool_var) :
    (s.assign_core_anti_exploration v).m_assumptions = s.m_assumptions := by
  unfold assign_core_anti_exploration; split <;> (try split) <;> rfl

@[simp] theorem assign_core_m_assumptions (s : solver) (l : literal) (j : justification) :
    (s.assign_core l j).m_assumptions = s.m_assumptions := by
  simp [assign_core]

@[simp] theorem set_clause_m_assumptions (s : solver) (off : clause_offset) (c : clause) :
    (s.set_clause off c).m_assumptions = s.m_assumptions := by
  rfl

@[simp] theorem push_watch_m_assumptions (s : solver) (idx : Nat) (w : watched) :
    (s.push_watch idx w).m_assumptions = s.m_assumptions := by
  rfl

@[simp] theorem set_wlist_m_assumptions (s : solver) (l : literal) (ws : List watched) :
    (s.set_wlist l ws).m_assumptions = s.m_assumptions := by
  rfl

@[simp] theorem set_conflict_m_assumptions (s : solver) (j : justification) (l : literal) :
    (s.set_conflict j l).m_assumptions = s.m_assumptions := by
  unfold set_conflict; split <;> rfl

@[simp] theorem inc_bin_propagate_m_assumptions (s : solver) :
    s.inc_bin_propagate.m_assumptions = s.m_assumptions := by
  rfl

@[simp] theorem inc_ter_propagate_m_assumptions (s : solver) :
    s.inc_ter_propagate.m_assumptions = s.m_assumptions := by
  rfl

@[simp] theorem inc_propagate_m_assumptions (s : solver) :
    s.inc_propagate.m_assumptions = s.m_assumptions := by
  rfl

@[simp] theorem inc_qhead_m_assumptions (s : solver) :
    s.inc_qhead.m_assumptions = s.m_assumptions := by
  rfl

@[simp] theorem update_glue_m_assumptions (s : solver) (update : Bool) (off : clause_offset) (c : clause) :
    (s.update_glue update off c).m_assumptions = s.m_assumptions := by
  unfold update_glue
  split
  · dsimp only; split <;> rfl
  · rfl

@[simp] theorem num_diff_levels_below_m_assumptions (s : solver) (lits : List literal) (g : Nat) :
    (s.num_diff_levels_below lits g).2.2.m_assumptions = s.m_assumptions := by
  rfl

@[simp] theorem assign_m_assumptions (s : solver) (l : literal) (j : justification) :
    (s.assign l j).m_assumptions = s.m_assumptions := by
  unfold assign; split <;> simp

@[simp] theorem inc_mk_bin_clause_m_assumptions (s : solver) :
    s.inc_mk_bin_clause.m_assumptions = s.m_assumptions := by
  rfl

@[simp] theorem inc_mk_ter_clause_m_assumptions (s : solver) :
    s.inc_mk_ter_clause.m_assumptions = s.m_assumptions := by
  rfl

@[simp] theorem inc_mk_clause_m_assumptions (s : solver) :
    s.inc_mk_clause.m_assumptions = s.m_assumptions := by
  rfl

@[simp] theorem inc_non_learned_generation_m_assumptions (s : solver) :
    s.inc_non_learned_generation.m_assumptions = s.m_assumptions := by
  rfl

@[simp] theorem push_clauses_to_reinit_m_assumptions (s : solver) (cw : clause_wrapper) :
    (s.push_clauses_to_reinit cw).m_assumptions = s.m_assumptions := by
  rfl

@[simp] theorem push_clause_vector_m_assumptions (s : solver) (off : clause_offset) (learned : Bool) :
    (s.push_clause_vector off learned).m_assumptions = s.m_assumptions := by
  unfold push_clause_vector; split <;> rfl

@[simp] theorem alloc_clause_m_assumptions (s : solver) (lits : List literal) (learned : Bool) :
    (s.alloc_clause lits learned).2.m_assumptions = s.m_assumptions := by
  rfl

@[simp] theorem push_reinit_stack_m_assumptions (s : solver) (off : clause_offset) :
    (s.push_reinit_stack off).m_assumptions = s.m_assumptions := by
  rfl

@[simp] theorem push_bin_watches_m_assumptions (s : solver) (l1 l2 : literal) (learned : Bool) :
    (s.push_bin_watches l1 l2 learned).m_assumptions = s.m_assumptions := by
  rfl

@[simp] theorem push_ter_watches_m_assumptions (s : solver) (c : clause) :
    (s.push_ter_watches c).m_assumptions = s.m_assumptions := by
  rfl

@[simp] theorem push_nary_watches_m_assumptions (s : solver) (off : clause_offset) :
    (s.push_nary_watches off).m_assumptions = s.m_assumptions := by
  rfl

@[simp] theorem assign_core_record_m_assumption_set (s : solver) (l : literal) (j : justification) :
    (s.assign_core_record l j).m_assumption_set = s.m_assumption_set := by
  rfl

@[simp] theorem assign_core_branching_m_assumption_set (s : solver) (v : bool_var) :
    (s.assign_core_branching v).m_assumption_set = s.m_assumption_set := by
  unfold assign_core_branching; split <;> rfl

@[simp] theorem assign_core_anti_exploration_m_assumption_set (s : solver) (v : bool_var) :
    (s.assign_core_anti_exploration v).m_assumption_set = s.m_assumption_set := by
  unfold assign_core_anti_exploration; split <;> (try split) <;> rfl

@[simp] theorem assign_core_m_assumption_set (s : solver) (l : literal) (j : justification) :
    (s.assign_core l j).m_assumption_set = s.m_assumption_set := by
  simp [assign_core]

@[simp] theorem set_clause_m_assumption_set (s : solver) (off : clause_offset) (c : clause) :
    (s.set_clause off c).m_assumption_set = s.m_assumption_set := by
  rfl

@[simp] theorem push_watch_m_assumption_set (s : solver) (idx : Nat) (w : watched) :
    (s.push_watch idx w).m_assumption_set = s.m_assumption_set := by
  rfl

@[simp] theorem set_wlist_m_assumption_set (s : solver) (l : literal) (ws : List watched) :
    (s.set_wlist l ws).m_assumption_set = s.m_assumption_set := by
  rfl

@[simp] theorem set_conflict_m_assumption_set (s : solver) (j : justification) (l : literal) :
    (s.set_conflict j l).m_assumption_set = s.m_assumption_set := by
  unfold set_conflict; split <;> rfl

@[simp] theorem inc_bin_propagate_m_assumption_set (s : solver) :
    s.inc_bin_propagate.m_assumption_set = s.m_assumption_set := by
  rfl

@[simp] theorem inc_ter_propagate_m_assumption_set (s : solver) :
    s.inc_ter_propagate.m_assumption_set = s.m_assumption_set := by
  rfl

@[simp] theorem inc_propagate_m_assumption_set (s : solver) :
    s.inc_propagate.m_assumption_set = s.m_assumption_set := by
  rfl

@[simp] theorem inc_qhead_m_assumption_set (s : solver) :
    s.inc_qhead.m_assumption_set = s.m_assumption_set := by
  rfl

@[simp] theorem update_glue_m_assumption_set (s : solver) (update : Bool) (off : clause_offset) (c : clause) :
    (s.update_glue update off c).m_assumption_set = s.m_assumption_set := by
  unfold update_glue
  split
  · dsimp only; split <;> rfl
  · rfl

@[simp] theorem num_diff_levels_below_m_assumption_set (s : solver) (lits : List literal) (g : Nat) :
    (s.num_diff_levels_below lits g).2.2.m_assumption_set = s.m_assumption_set := by
  rfl

@[simp] theorem assign_m_assumption_set (s : solver) (l : literal) (j : justification) :
    (s.assign l j).m_assumption_set = s.m_assumption_set := by
  unfold assign; split <;> simp

@[simp] theorem inc_mk_bin_clause_m_assumption_set (s : solver) :
    s.inc_mk_bin_clause.m_assumption_set = s.m_assumption_set := by
  rfl

@[simp] theorem inc_mk_ter_clause_m_assumption_set (s : solver) :
    s.inc_mk_ter_clause.m_assumption_set = s.m_assumption_set := by
  rfl

@[simp] theorem inc_mk_clause_m_assumption_set (s : solver) :
    s.inc_mk_clause.m_assumption_set = s.m_assumption_set := by
  rfl

@[simp] theorem inc_non_learned_generation_m_assumption_set (s : solver) :
    s.inc_non_learned_generation.m_assumption_set = s.m_assumption_set := by
  rfl

@[simp] theorem push_clauses_to_reinit_m_assumption_set (s : solver) (cw : clause_wrapper) :
    (s.push_clauses_to_reinit cw).m_assumption_set = s.m_assumption_set := by
  rfl

@[simp] theorem push_clause_vector_m_assumption_set (s : solver) (off : clause_offset) (learned : Bool) :
    (s.push_clause_vector off learned).m_assumption_set = s.m_assumption_set := by
  unfold push_clause_vector; split <;> rfl

@[simp] theorem alloc_clause_m_assumption_set (s : solver) (lits : List literal) (learned : Bool) :
    (s.alloc_clause lits learned).2.m_assumption_set = s.m_assumption_set := by
  rfl

@[simp] theorem push_reinit_stack_m_assumption_set (s : solver) (off : clause_offset) :
    (s.push_reinit_stack off).m_assumption_set = s.m_assumption_set := by
  rfl

@[simp] theorem push_bin_watches_m_assumption_set (s : solver) (l1 l2 : literal) (learned : Bool) :
    (s.push_bin_watches l1 l2 learned).m_assumption_set = s.m_assumption_set := by
  rfl

@[simp] theorem push_ter_watches_m_assumption_set (s : solver) (c : clause) :
    (s.push_ter_watches c).m_assumption_set = s.m_assumption_set := by
  rfl

@[simp] theorem push_nary_watches_m_assumption_set (s : solver) (off : clause_offset) :
    (s.push_nary_watches off).m_assumption_set = s.m_assumption_set := by
  rfl

@[simp] theorem assign_core_record_m_unmark (s : solver) (l : literal) (j : justification) :
    (s.assign_core_record l j).m_unmark = s.m_unmark := by
  rfl

@[simp] theorem assign_core_branching_m_unmark (s : solver) (v : bool_var) :
    (s.assign_core_branching v).m_unmark = s.m_unmark := by
  unfold assign_core_branching; split <;> rfl

@[simp] theorem assign_core_anti_exploration_m_unmark (s : solver) (v : bool_var) :
    (s.assign_core_anti_exploration v).m_unmark = s.m_unmark := by
  unfold assign_core_anti_exploration; split <;> (try split) <;> rfl

@[simp] theorem assign_core_m_unmark (s : solver) (l : literal) (j : justification) :
    (s.assign_core l j).m_unmark = s.m_unmark := by
  simp [assign_core]

@[simp] theorem set_clause_m_unmark (s : solver) (off : clause_offset) (c : clause) :
    (s.set_clause off c).m_unmark = s.m_unmark := by
  rfl

@[simp] theorem push_watch_m_unmark (s : solver) (idx : Nat) (w : watched) :
    (s.push_watch idx w).m_unmark = s.m_unmark := by
  rfl

@[simp] theorem set_wlist_m_unmark (s : solver) (l : literal) (ws : List watched) :
    (s.set_wlist l ws).m_unmark = s.m_unmark := by
  rfl

@[simp] theorem set_conflict_m_unmark (s : solver) (j : justification) (l : literal) :
    (s.set_conflict j l).m_unmark = s.m_unmark := by
  unfold set_conflict; split <;> rfl

@[simp] theorem inc_bin_propagate_m_unmark (s : solver) :
    s.inc_bin_propagate.m_unmark = s.m_unmark := by
  rfl

@[simp] theorem inc_ter_propagate_m_unmark (s : solver) :
    s.inc_ter_propagate.m_unmark = s.m_unmark := by
  rfl

@[simp] theorem inc_propagate_m_unmark (s : solver) :
    s.inc_propagate.m_unmark = s.m_unmark := by
  rfl

@[simp] theorem inc_qhead_m_unmark (s : solver) :
    s.inc_qhead.m_unmark = s.m_unmark := by
  rfl

@[simp] theorem update_glue_m_unmark (s : solver) (update : Bool) (off : clause_offset) (c : clause) :
    (s.update_glue update off c).m_unmark = s.m_unmark := by
  unfold update_glue
  split
  · dsimp only; split <;> rfl
  · rfl

@[simp] theorem num_diff_levels_below_m_unmark (s : solver) (lits : List literal) (g : Nat) :
    (s.num_diff_levels_below lits g).2.2.m_unmark = s.m_unmark := by
  rfl

@[simp] theorem assign_m_unmark (s : solver) (l : literal) (j : justification) :
    (s.assign l j).m_unmark = s.m_unmark := by
  unfold assign; split <;> simp

@[simp] theorem inc_mk_bin_clause_m_unmark (s : solver) :
    s.inc_mk_bin_clause.m_unmark = s.m_unmark := by
  rfl

@[simp] theorem inc_mk_ter_clause_m_unmark (s : solver) :
    s.inc_mk_ter_clause.m_unmark = s.m_unmark := by
  rfl

@[simp] theorem inc_mk_clause_m_unmark (s : solver) :
    s.inc_mk_clause.m_unmark = s.m_unmark := by
  rfl

@[simp] theorem inc_non_learned_generation_m_unmark (s : solver) :
    s.inc_non_learned_generation.m_unmark = s.m_unmark := by
  rfl

@[simp] theorem push_clauses_to_reinit_m_unmark (s : solver) (cw : clause_wrapper) :
    (s.push_clauses_to_reinit cw).m_unmark = s.m_unmark := by
  rfl

@[simp] theorem push_clause_vector_m_unmark (s : solver) (off : clause_offset) (learned : Bool) :
    (s.push_clause_vector off learned).m_unmark = s.m_unmark := by
  unfold push_clause_vector; split <;> rfl

@[simp] theorem alloc_clause_m_unmark (s : solver) (lits : List literal) (learned : Bool) :
    (s.alloc_clause lits learned).2.m_unmark = s.m_unmark := by
  rfl

@[simp] theorem push_reinit_stack_m_unmark (s : solver) (off : clause_offset) :
    (s.push_reinit_stack off).m_unmark = s.m_unmark := by
  rfl

@[simp] theorem push_bin_watches_m_unmark (s : solver) (l1 l2 : literal) (learned : Bool) :
    (s.push_bin_watches l1 l2 learned).m_unmark = s.m_unmark := by
  rfl

@[simp] theorem push_ter_watches_m_unmark (s : solver) (c : clause) :
    (s.push_ter_watches c).m_unmark = s.m_unmark := by
  rfl

@[simp] theorem push_nary_watches_m_unmark (s : solver) (off : clause_offset) :
    (s.push_nary_watches off).m_unmark = s.m_unmark := by
  rfl

@[simp] theorem assign_core_record_m_user_scope_literals (s : solver) (l : literal) (j : justification) :
    (s.assign_core_record l j).m_user_scope_literals = s.m_user_scope_literals := by
  rfl

@[simp] theorem assign_core_branching_m_user_scope_literals (s : solver) (v : bool_var) :
    (s.assign_core_branching v).m_user_scope_literals = s.m_user_scope_literals := by
  unfold assign_core_branching; split <;> rfl

@[simp] theorem assign_core_anti_exploration_m_user_scope_literals (s : solver) (v : bool_var) :
    (s.assign_core_anti_exploration v).m_user_scope_literals = s.m_user_scope_literals := by
  unfold assign_core_anti_exploration; split <;> (try split) <;> rfl

@[simp] theorem assign_core_m_user_scope_literals (s : solver) (l : literal) (j : justification) :
    (s.assign_core l j).m_user_scope_literals = s.m_user_scope_literals := by
  simp [assign_core]

@[simp] theorem set_clause_m_user_scope_literals (s : solver) (off : clause_offset) (c : clause) :
    (s.set_clause off c).m_user_scope_literals = s.m_user_scope_literals := by
  rfl

@[simp] theorem push_watch_m_user_scope_literals (s : solver) (idx : Nat) (w : watched) :
    (s.push_watch idx w).m_user_scope_literals = s.m_user_scope_literals := by
  rfl

@[simp] theorem set_wlist_m_user_scope_literals (s : solver) (l : literal) (ws : List watched) :
    (s.set_wlist l ws).m_user_scope_literals = s.m_user_scope_literals := by
  rfl

@[simp] theorem set_conflict_m_user_scope_literals (s : solver) (j : justification) (l : literal) :
    (s.set_conflict j l).m_user_scope_literals = s.m_user_scope_literals := by
  unfold set_conflict; split <;> rfl

@[simp] theorem inc_bin_propagate_m_user_scope_literals (s : solver) :
    s.inc_bin_propagate.m_user_scope_literals = s.m_user_scope_literals := by
  rfl

@[simp] theorem inc_ter_propagate_m_user_scope_literals (s : solver) :
    s.inc_ter_propagate.m_user_scope_literals = s.m_user_scope_literals := by
  rfl

@[simp] theorem inc_propagate_m_user_scope_literals (s : solver) :
    s.inc_propagate.m_user_scope_literals = s.m_user_scope_literals := by
  rfl

@[simp] theorem inc_qhead_m_user_scope_literals (s : solver) :
    s.inc_qhead.m_user_scope_literals = s.m_user_scope_literals := by
  rfl

@[simp] theorem update_glue_m_user_scope_literals (s : solver) (update : Bool) (off : clause_offset) (c : clause) :
    (s.update_glue update off c).m_user_scope_literals = s.m_user_scope_literals := by
  unfold update_glue
  split
  · dsimp only; split <;> rfl
  · rfl

@[simp] theorem num_diff_levels_below_m_user_scope_literals (s : solver) (lits : List literal) (g : Nat) :
    (s.num_diff_levels_below lits g).2.2.m_user_scope_literals = s.m_user_scope_literals := by
  rfl

@[simp] theorem assign_m_user_scope_literals (s : solver) (l : literal) (j : justification) :
    (s.assign l j).m_user_scope_literals = s.m_user_scope_literals := by
  unfold assign; split <;> simp

@[simp] theorem inc_mk_bin_clause_m_user_scope_literals (s : solver) :
    s.inc_mk_bin_clause.m_user_scope_literals = s.m_user_scope_literals := by
  rfl

@[simp] theorem inc_mk_ter_clause_m_user_scope_literals (s : solver) :
    s.inc_mk_ter_clause.m_user_scope_literals = s.m_user_scope_literals := by
  rfl

@[simp] theorem inc_mk_clause_m_user_scope_literals (s : solver) :
    s.inc_mk_clause.m_user_scope_literals = s.m_user_scope_literals := by
  rfl

@[simp] theorem inc_non_learned_generation_m_user_scope_literals (s : solver) :
    s.inc_non_learned_generation.m_user_scope_literals = s.m_user_scope_literals := by
  rfl

@[simp] theorem push_clauses_to_reinit_m_user_scope_literals (s : solver) (cw : clause_wrapper) :
    (s.push_clauses_to_reinit cw).m_user_scope_literals = s.m_user_scope_literals := by
  rfl

@[simp] theorem push_clause_vector_m_user_scope_literals (s : solver) (off : clause_offset) (learned : Bool) :
    (s.push_clause_vector off learned).m_user_scope_literals = s.m_user_scope_literals := by
  unfold push_clause_vector; split <;> rfl

@[simp] theorem alloc_clause_m_user_scope_literals (s : solver) (lits : List literal) (learned : Bool) :
    (s.alloc_clause lits learned).2.m_user_scope_literals = s.m_user_scope_literals := by
  rfl

@[simp] theorem push_reinit_stack_m_user_scope_literals (s : solver) (off : clause_offset) :
    (s.push_reinit_stack off).m_user_scope_literals = s.m_user_scope_literals := by
  rfl

@[simp] theorem push_bin_watches_m_user_scope_literals (s : solver) (l1 l2 : literal) (learned : Bool) :
    (s.push_bin_watches l1 l2 learned).m_user_scope_literals = s.m_user_scope_literals := by
  rfl

@[simp] theorem push_ter_watches_m_user_scope_literals (s : solver) (c : clause) :
    (s.push_ter_watches c).m_user_scope_literals = s.m_user_scope_literals := by
  rfl

@[simp] theorem push_nary_watches_m_user_scope_literals (s : solver) (off : clause_offset) :
    (s.push_nary_watches off).m_user_scope_literals = s.m_user_scope_literals := by
  rfl

@[simp] theorem assign_core_record_m_conflict_lvl (s : solver) (l : literal) (j : justification) :
    (s.assign_core_record l j).m_conflict_lvl = s.m_conflict_lvl := by
  rfl

@[simp] theorem assign_core_branching_m_conflict_lvl (s : solver) (v : bool_var) :
    (s.assign_core_branching v).m_conflict_lvl = s.m_conflict_lvl := by
  unfold assign_core_branching; split <;> rfl

@[simp] theorem assign_core_anti_exploration_m_conflict_lvl (s : solver) (v : bool_var) :
    (s.assign_core_anti_exploration v).m_conflict_lvl = s.m_conflict_lvl := by
  unfold assign_core_anti_exploration; split <;> (try split) <;> rfl

@[simp] theorem assign_core_m_conflict_lvl (s : solver) (l : literal) (j : justification) :
    (s.assign_core l j).m_conflict_lvl = s.m_conflict_lvl := by
  simp [assign_core]

@[simp] theorem set_clause_m_conflict_lvl (s : solver) (off : clause_offset) (c : clause) :
    (s.set_clause off c).m_conflict_lvl = s.m_conflict_lvl := by
  rfl

@[simp] theorem push_watch_m_conflict_lvl (s : solver) (idx : Nat) (w : watched) :
    (s.push_watch idx w).m_conflict_lvl = s.m_conflict_lvl := by
  rfl

@[simp] theorem set_wlist_m_conflict_lvl (s : solver) (l : literal) (ws : List watched) :
    (s.set_wlist l ws).m_conflict_lvl = s.m_conflict_lvl := by
  rfl

@[simp] theorem set_conflict_m_conflict_lvl (s : solver) (j : justification) (l : literal) :
    (s.set_conflict j l).m_conflict_lvl = s.m_conflict_lvl := by
  unfold set_conflict; split <;> rfl

@[simp] theorem inc_bin_propagate_m_conflict_lvl (s : solver) :
    s.inc_bin_propagate.m_conflict_lvl = s.m_conflict_lvl := by
  rfl

@[simp] theorem inc_ter_propagate_m_conflict_lvl (s : solver) :
    s.inc_ter_propagate.m_conflict_lvl = s.m_conflict_lvl := by
  rfl

@[simp] theorem inc_propagate_m_conflict_lvl (s : solver) :
    s.inc_propagate.m_conflict_lvl = s.m_conflict_lvl := by
  rfl

@[simp] theorem inc_qhead_m_conflict_lvl (s : solver) :
    s.inc_qhead.m_conflict_lvl = s.m_conflict_lvl := by
  rfl

@[simp] theorem update_glue_m_conflict_lvl (s : solver) (update : Bool) (off : clause_offset) (c : clause) :
    (s.update_glue update off c).m_conflict_lvl = s.m_conflict_lvl := by
  unfold update_glue
  split
  · dsimp only; split <;> rfl
  · rfl

@[simp] theorem num_diff_levels_below_m_conflict_lvl (s : solver) (lits : List literal) (g : Nat) :
    (s.num_diff_levels_below lits g).2.2.m_conflict_lvl = s.m_conflict_lvl := by
  rfl

@[simp] theorem assign_m_conflict_lvl (s : solver) (l : literal) (j : justification) :
    (s.assign l j).m_conflict_lvl = s.m_conflict_lvl := by
  unfold assign; split <;> simp

@[simp] theorem inc_mk_bin_clause_m_conflict_lvl (s : solver) :
    s.inc_mk_bin_clause.m_conflict_lvl = s.m_conflict_lvl := by
  rfl

@[simp] theorem inc_mk_ter_clause_m_conflict_lvl (s : solver) :
    s.inc_mk_ter_clause.m_conflict_lvl = s.m_conflict_lvl := by
  rfl

@[simp] theorem inc_mk_clause_m_conflict_lvl (s : solver) :
    s.inc_mk_clause.m_conflict_lvl = s.m_conflict_lvl := by
  rfl

@[simp] theorem inc_non_learned_generation_m_conflict_lvl (s : solver) :
    s.inc_non_learned_generation.m_conflict_lvl = s.m_conflict_lvl := by
  rfl

@[simp] theorem push_clauses_to_reinit_m_conflict_lvl (s : solver) (cw : clause_wrapper) :
    (s.push_clauses_to_reinit cw).m_conflict_lvl = s.m_conflict_lvl := by
  rfl

@[simp] theorem push_clause_vector_m_conflict_lvl (s : solver) (off : clause_offset) (learned : Bool) :
    (s.push_clause_vector off learned).m_conflict_lvl = s.m_conflict_lvl := by
  unfold push_clause_vector; split <;> rfl

@[simp] theorem alloc_clause_m_conflict_lvl (s : solver) (lits : List literal) (learned : Bool) :
    (s.alloc_clause lits learned).2.m_conflict_lvl = s.m_conflict_lvl := by
  rfl

@[simp] theorem push_reinit_stack_m_conflict_lvl (s : solver) (off : clause_offset) :
    (s.push_reinit_stack off).m_conflict_lvl = s.m_conflict_lvl := by
  rfl

@[simp] theorem push_bin_watches_m_conflict_lvl (s : solver) (l1 l2 : literal) (learned : Bool) :
    (s.push_bin_watches l1 l2 learned).m_conflict_lvl = s.m_conflict_lvl := by
  rfl

@[simp] theorem push_ter_watches_m_conflict_lvl (s : solver) (c : clause) :
    (s.push_ter_watches c).m_conflict_lvl = s.m_conflict_lvl := by
  rfl

@[simp] theorem push_nary_watches_m_conflict_lvl (s : solver) (off : clause_offset) :
    (s.push_nary_watches off).m_conflict_lvl = s.m_conflict_lvl := by
  rfl

@[simp] theorem assign_core_record_m_lemma_min_stack (s : solver) (l : literal) (j : justification) :
    (s.assign_core_record l j).m_lemma_min_stack = s.m_lemma_min_stack := by
  rfl

@[simp] theorem assign_core_branching_m_lemma_min_stack (s : solver) (v : bool_var) :
    (s.assign_core_branching v).m_lemma_min_stack = s.m_lemma_min_stack := by
  unfold assign_core_branching; split <;> rfl

@[simp] theorem assign_core_anti_exploration_m_lemma_min_stack (s : solver) (v : bool_var) :
    (s.assign_core_anti_exploration v).m_lemma_min_stack = s.m_lemma_min_stack := by
  unfold assign_core_anti_exploration; split <;> (try split) <;> rfl

@[simp] theorem assign_core_m_lemma_min_stack (s : solver) (l : literal) (j : justification) :
    (s.assign_core l j).m_lemma_min_stack = s.m_lemma_min_stack := by
  simp [assign_core]

@[simp] theorem set_clause_m_lemma_min_stack (s : solver) (off : clause_offset) (c : clause) :
    (s.set_clause off c).m_lemma_min_stack = s.m_lemma_min_stack := by
  rfl

@[simp] theorem push_watch_m_lemma_min_stack (s : solver) (idx : Nat) (w : watched) :
    (s.push_watch idx w).m_lemma_min_stack = s.m_lemma_min_stack := by
  rfl

@[simp] theorem set_wlist_m_lemma_min_stack (s : solver) (l : literal) (ws : List watched) :
    (s.set_wlist l ws).m_lemma_min_stack = s.m_lemma_min_stack := by
  rfl

@[simp] theorem set_conflict_m_lemma_min_stack (s : solver) (j : justification) (l : literal) :
    (s.set_conflict j l).m_lemma_min_stack = s.m_lemma_min_stack := by
  unfold set_conflict; split <;> rfl

@[simp] theorem inc_bin_propagate_m_lemma_min_stack (s : solver) :
    s.inc_bin_propagate.m_lemma_min_stack = s.m_lemma_min_stack := by
  rfl

@[simp] theorem inc_ter_propagate_m_lemma_min_stack (s : solver) :
    s.inc_ter_propagate.m_lemma_min_stack = s.m_lemma_min_stack := by
  rfl

@[simp] theorem inc_propagate_m_lemma_min_stack (s : solver) :
    s.inc_propagate.m_lemma_min_stack = s.m_lemma_min_stack := by
  rfl

@[simp] theorem inc_qhead_m_lemma_min_stack (s : solver) :
    s.inc_qhead.m_lemma_min_stack = s.m_lemma_min_stack := by
  rfl

@[simp] theorem update_glue_m_lemma_min_stack (s : solver) (update : Bool) (off : clause_offset) (c : clause) :
    (s.update_glue update off c).m_lemma_min_stack = s.m_lemma_min_stack := by
  unfold update_glue
  split
  · dsimp only; split <;> rfl
  · rfl

@[simp] theorem num_diff_levels_below_m_lemma_min_stack (s : solver) (lits : List literal) (g : Nat) :
    (s.num_diff_levels_below lits g).2.2.m_lemma_min_stack = s.m_lemma_min_stack := by
  rfl

@[simp] theorem assign_m_lemma_min_stack (s : solver) (l : literal) (j : justification) :
    (s.assign l j).m_lemma_min_stack = s.m_lemma_min_stack := by
  unfold assign; split <;> simp

@[simp] theorem inc_mk_bin_clause_m_lemma_min_stack (s : solver) :
    s.inc_mk_bin_clause.m_lemma_min_stack = s.m_lemma_min_stack := by
  rfl

@[simp] theorem inc_mk_ter_clause_m_lemma_min_stack (s : solver) :
    s.inc_mk_ter_clause.m_lemma_min_stack = s.m_lemma_min_stack := by
  rfl

@[simp] theorem inc_mk_clause_m_lemma_min_stack (s : solver) :
    s.inc_mk_clause.m_lemma_min_stack = s.m_lemma_min_stack := by
  rfl

@[simp] theorem inc_non_learned_generation_m_lemma_min_stack (s : solver) :
    s.inc_non_learned_generation.m_lemma_min_stack = s.m_lemma_min_stack := by
  rfl

@[simp] theorem push_clauses_to_reinit_m_lemma_min_stack (s : solver) (cw : clause_wrapper) :
    (s.push_clauses_to_reinit cw).m_lemma_min_stack = s.m_lemma_min_stack := by
  rfl

@[simp] theorem push_clause_vector_m_lemma_min_stack (s : solver) (off : clause_offset) (learned : Bool) :
    (s.push_clause_vector off learned).m_lemma_min_stack = s.m_lemma_min_stack := by
  unfold push_clause_vector; split <;> rfl

@[simp] theorem alloc_clause_m_lemma_min_stack (s : solver) (lits : List literal) (learned : Bool) :
    (s.alloc_clause lits learned).2.m_lemma_min_stack = s.m_lemma_min_stack := by
  rfl

@[simp] theorem push_reinit_stack_m_lemma_min_stack (s : solver) (off : clause_offset) :
    (s.push_reinit_stack off).m_lemma_min_stack = s.m_lemma_min_stack := by
  rfl

@[simp] theorem push_bin_watches_m_lemma_min_stack (s : solver) (l1 l2 : literal) (learned : Bool) :
    (s.push_bin_watches l1 l2 learned).m_lemma_min_stack = s.m_lemma_min_stack := by
  rfl

@[simp] theorem push_ter_watches_m_lemma_min_stack (s : solver) (c : clause) :
    (s.push_ter_watches c).m_lemma_min_stack = s.m_lemma_min_stack := by
  rfl

@[simp] theorem push_nary_watches_m_lemma_min_stack (s : solver) (off : clause_offset) :
    (s.push_nary_watches off).m_lemma_min_stack = s.m_lemma_min_stack := by
  rfl

@[simp] theorem assign_core_record_m_lvl_set (s : solver) (l : literal) (j : justification) :
    (s.assign_core_record l j).m_lvl_set = s.m_lvl_set := by
  rfl

@[simp] theorem assign_core_branching_m_lvl_set (s : solver) (v : bool_var) :
    (s.assign_core_branching v).m_lvl_set = s.m_lvl_set := by
  unfold assign_core_branching; split <;> rfl

@[simp] theorem assign_core_anti_exploration_m_lvl_set (s : solver) (v : bool_var) :
    (s.assign_core_anti_exploration v).m_lvl_set = s.m_lvl_set := by
  unfold assign_core_anti_exploration; split <;> (try split) <;> rfl

@[simp] theorem assign_core_m_lvl_set (s : solver) (l : literal) (j : justification) :
    (s.assign_core l j).m_lvl_set = s.m_lvl_set := by
  simp [assign_core]

@[simp] theorem set_clause_m_lvl_set (s : solver) (off : clause_offset) (c : clause) :
    (s.set_clause off c).m_lvl_set = s.m_lvl_set := by
  rfl

@[simp] theorem push_watch_m_lvl_set (s : solver) (idx : Nat) (w : watched) :
    (s.push_watch idx w).m_lvl_set = s.m_lvl_set := by
  rfl

@[simp] theorem set_wlist_m_lvl_set (s : solver) (l : literal) (ws : List watched) :
    (s.set_wlist l ws).m_lvl_set = s.m_lvl_set := by
  rfl

@[simp] theorem set_conflict_m_lvl_set (s : solver) (j : justification) (l : literal) :
    (s.set_conflict j l).m_lvl_set = s.m_lvl_set := by
  unfold set_conflict; split <;> rfl

@[simp] theorem inc_bin_propagate_m_lvl_set (s : solver) :
    s.inc_bin_propagate.m_lvl_set = s.m_lvl_set := by
  rfl

@[simp] theorem inc_ter_propagate_m_lvl_set (s : solver) :
    s.inc_ter_propagate.m_lvl_set = s.m_lvl_set := by
  rfl

@[simp] theorem inc_propagate_m_lvl_set (s : solver) :
    s.inc_propagate.m_lvl_set = s.m_lvl_set := by
  rfl

@[simp] theorem inc_qhead_m_lvl_set (s : solver) :
    s.inc_qhead.m_lvl_set = s.m_lvl_set := by
  rfl

@[simp] theorem update_glue_m_lvl_set (s : solver) (update : Bool) (off : clause_offset) (c : clause) :
    (s.update_glue update off c).m_lvl_set = s.m_lvl_set := by
  unfold update_glue
  split
  · dsimp only; split <;> rfl
  · rfl

@[simp] theorem num_diff_levels_below_m_lvl_set (s : solver) (lits : List literal) (g : Nat) :
    (s.num_diff_levels_below lits g).2.2.m_lvl_set = s.m_lvl_set := by
  rfl

@[simp] theorem assign_m_lvl_set (s : solver) (l : literal) (j : justification) :
    (s.assign l j).m_lvl_set = s.m_lvl_set := by
  unfold assign; split <;> simp

@[simp] theorem inc_mk_bin_clause_m_lvl_set (s : solver) :
    s.inc_mk_bin_clause.m_lvl_set = s.m_lvl_set := by
  rfl

@[simp] theorem inc_mk_ter_clause_m_lvl_set (s : solver) :
    s.inc_mk_ter_clause.m_lvl_set = s.m_lvl_set := by
  rfl

@[simp] theorem inc_mk_clause_m_lvl_set (s : solver) :
    s.inc_mk_clause.m_lvl_set = s.m_lvl_set := by
  rfl

@[simp] theorem inc_non_learned_generation_m_lvl_set (s : solver) :
    s.inc_non_learned_generation.m_lvl_set = s.m_lvl_set := by
  rfl

@[simp] theorem push_clauses_to_reinit_m_lvl_set (s : solver) (cw : clause_wrapper) :
    (s.push_clauses_to_reinit cw).m_lvl_set = s.m_lvl_set := by
  rfl

@[simp] theorem push_clause_vector_m_lvl_set (s : solver) (off : clause_offset) (learned : Bool) :
    (s.push_clause_vector off learned).m_lvl_set = s.m_lvl_set := by
  unfold push_clause_vector; split <;> rfl

@[simp] theorem alloc_clause_m_lvl_set (s : solver) (lits : List literal) (learned : Bool) :
    (s.alloc_clause lits learned).2.m_lvl_set = s.m_lvl_set := by
  rfl

@[simp] theorem push_reinit_stack_m_lvl_set (s : solver) (off : clause_offset) :
    (s.push_reinit_stack off).m_lvl_set = s.m_lvl_set := by
  rfl

@[simp] theorem push_bin_watches_m_lvl_set (s : solver) (l1 l2 : literal) (learned : Bool) :
    (s.push_bin_watches l1 l2 learned).m_lvl_set = s.m_lvl_set := by
  rfl

@[simp] theorem push_ter_watches_m_lvl_set (s : solver) (c : clause) :
    (s.push_ter_watches c).m_lvl_set = s.m_lvl_set := by
  rfl

@[simp] theorem push_nary_watches_m_lvl_set (s : solver) (off : clause_offset) :
    (s.push_nary_watches off).m_lvl_set = s.m_lvl_set := by
  rfl

@[simp] theorem assign_core_record_m_ext_antecedents (s : solver) (l : literal) (j : justification) :
    (s.assign_core_record l j).m_ext_antecedents = s.m_ext_antecedents := by
  rfl

@[simp] theorem assign_core_branching_m_ext_antecedents (s : solver) (v : bool_var) :
    (s.assign_core_branching v).m_ext_antecedents = s.m_ext_antecedents := by
  unfold assign_core_branching; split <;> rfl

@[simp] theorem assign_core_anti_exploration_m_ext_antecedents (s : solver) (v : bool_var) :
    (s.assign_core_anti_exploration v).m_ext_antecedents = s.m_ext_antecedents := by
  unfold assign_core_anti_exploration; split <;> (try split) <;> rfl

@[simp] theorem assign_core_m_ext_antecedents (s : solver) (l : literal) (j : justification) :
    (s.assign_core l j).m_ext_antecedents = s.m_ext_antecedents := by
  simp [assign_core]

@[simp] theorem set_clause_m_ext_antecedents (s : solver) (off : clause_offset) (c : clause) :
    (s.set_clause off c).m_ext_antecedents = s.m_ext_antecedents := by
  rfl

@[simp] theorem push_watch_m_ext_antecedents (s : solver) (idx : Nat) (w : watched) :
    (s.push_watch idx w).m_ext_antecedents = s.m_ext_antecedents := by
  rfl

@[simp] theorem set_wlist_m_ext_antecedents (s : solver) (l : literal) (ws : List watched) :
    (s.set_wlist l ws).m_ext_antecedents = s.m_ext_antecedents := by
  rfl

@[simp] theorem set_conflict_m_ext_antecedents (s : solver) (j : justification) (l : literal) :
    (s.set_conflict j l).m_ext_antecedents = s.m_ext_antecedents := by
  unfold set_conflict; split <;> rfl

@[simp] theorem inc_bin_propagate_m_ext_antecedents (s : solver) :
    s.inc_bin_propagate.m_ext_antecedents = s.m_ext_antecedents := by
  rfl

@[simp] theorem inc_ter_propagate_m_ext_antecedents (s : solver) :
    s.inc_ter_propagate.m_ext_antecedents = s.m_ext_antecedents := by
  rfl

@[simp] theorem inc_propagate_m_ext_antecedents (s : solver) :
    s.inc_propagate.m_ext_antecedents = s.m_ext_antecedents := by
  rfl

@[simp] theorem inc_qhead_m_ext_antecedents (s : solver) :
    s.inc_qhead.m_ext_antecedents = s.m_ext_antecedents := by
  rfl

@[simp] theorem update_glue_m_ext_antecedents (s : solver) (update : Bool) (off : clause_offset) (c : clause) :
    (s.update_glue update off c).m_ext_antecedents = s.m_ext_antecedents := by
  unfold update_glue
  split
  · dsimp only; split <;> rfl
  · rfl

@[simp] theorem num_diff_levels_below_m_ext_antecedents (s : solver) (lits : List literal) (g : Nat) :
    (s.num_diff_levels_below lits g).2.2.m_ext_antecedents = s.m_ext_antecedents := by
  rfl

@[simp] theorem assign_m_ext_antecedents (s : solver) (l : literal) (j : justification) :
    (s.assign l j).m_ext_antecedents = s.m_ext_antecedents := by
  unfold assign; split <;> simp

@[simp] theorem inc_mk_bin_clause_m_ext_antecedents (s : solver) :
    s.inc_mk_bin_clause.m_ext_antecedents = s.m_ext_antecedents := by
  rfl

@[simp] theorem inc_mk_ter_clause_m_ext_antecedents (s : solver) :
    s.inc_mk_ter_clause.m_ext_antecedents = s.m_ext_antecedents := by
  rfl

@[simp] theorem inc_mk_clause_m_ext_antecedents (s : solver) :
    s.inc_mk_clause.m_ext_antecedents = s.m_ext_antecedents := by
  rfl

@[simp] theorem inc_non_learned_generation_m_ext_antecedents (s : solver) :
    s.inc_non_learned_generation.m_ext_antecedents = s.m_ext_antecedents := by
  rfl

@[simp] theorem push_clauses_to_reinit_m_ext_antecedents (s : solver) (cw : clause_wrapper) :
    (s.push_clauses_to_reinit cw).m_ext_antecedents = s.m_ext_antecedents := by
  rfl

@[simp] theorem push_clause_vector_m_ext_antecedents (s : solver) (off : clause_offset) (learned : Bool) :
    (s.push_clause_vector off learned).m_ext_antecedents = s.m_ext_antecedents := by
  unfold push_clause_vector; split <;> rfl

@[simp] theorem alloc_clause_m_ext_antecedents (s : solver) (lits : List literal) (learned : Bool) :
    (s.alloc_clause lits learned).2.m_ext_antecedents = s.m_ext_antecedents := by
  rfl

@[simp] theorem push_reinit_stack_m_ext_antecedents (s : solver) (off : clause_offset) :
    (s.push_reinit_stack off).m_ext_antecedents = s.m_ext_antecedents := by
  rfl

@[simp] theorem push_bin_watches_m_ext_antecedents (s : solver) (l1 l2 : literal) (learned : Bool) :
    (s.push_bin_watches l1 l2 learned).m_ext_antecedents = s.m_ext_antecedents := by
  rfl

@[simp] theorem push_ter_watches_m_ext_antecedents (s : solver) (c : clause) :
    (s.push_ter_watches c).m_ext_antecedents = s.m_ext_antecedents := by
  rfl

@[simp] theorem push_nary_watches_m_ext_antecedents (s : solver) (off : clause_offset) :
    (s.push_nary_watches off).m_ext_antecedents = s.m_ext_antecedents := by
  rfl

@[simp] theorem assign_core_record_m_activity (s : solver) (l : literal) (j : justification) :
    (s.assign_core_record l j).m_activity = s.m_activity := by
  rfl

@[simp] theorem assign_core_branching_m_activity (s : solver) (v : bool_var) :
    (s.assign_core_branching v).m_activity = s.m_activity := by
  unfold assign_core_branching; split <;> rfl

@[simp] theorem set_clause_m_activity (s : solver) (off : clause_offset) (c : clause) :
    (s.set_clause off c).m_activity = s.m_activity := by
  rfl

@[simp] theorem push_watch_m_activity (s : solver) (idx : Nat) (w : watched) :
    (s.push_watch idx w).m_activity = s.m_activity := by
  rfl

@[simp] theorem set_wlist_m_activity (s : solver) (l : literal) (ws : List watched) :
    (s.set_wlist l ws).m_activity = s.m_activity := by
  rfl

@[simp] theorem set_conflict_m_activity (s : solver) (j : justification) (l : literal) :
    (s.set_conflict j l).m_activity = s.m_activity := by
  unfold set_conflict; split <;> rfl

@[simp] theorem inc_bin_propagate_m_activity (s : solver) :
    s.inc_bin_propagate.m_activity = s.m_activity := by
  rfl

@[simp] theorem inc_ter_propagate_m_activity (s : solver) :
    s.inc_ter_propagate.m_activity = s.m_activity := by
  rfl

@[simp] theorem inc_propagate_m_activity (s : solver) :
    s.inc_propagate.m_activity = s.m_activity := by
  rfl

@[simp] theorem inc_qhead_m_activity (s : solver) :
    s.inc_qhead.m_activity = s.m_activity := by
  rfl

@[simp] theorem update_glue_m_activity (s : solver) (update : Bool) (off : clause_offset) (c : clause) :
    (s.update_glue update off c).m_activity = s.m_activity := by
  unfold update_glue
  split
  · dsimp only; split <;> rfl
  · rfl

@[simp] theorem num_diff_levels_below_m_activity (s : solver) (lits : List literal) (g : Nat) :
    (s.num_diff_levels_below lits g).2.2.m_activity = s.m_activity := by
  rfl

@[simp] theorem inc_mk_bin_clause_m_activity (s : solver) :
    s.inc_mk_bin_clause.m_activity = s.m_activity := by
  rfl

@[simp] theorem inc_mk_ter_clause_m_activity (s : solver) :
    s.inc_mk_ter_clause.m_activity = s.m_activity := by
  rfl

@[simp] theorem inc_mk_clause_m_activity (s : solver) :
    s.inc_mk_clause.m_activity = s.m_activity := by
  rfl

@[simp] theorem inc_non_learned_generation_m_activity (s : solver) :
    s.inc_non_learned_generation.m_activity = s.m_activity := by
  rfl

@[simp] theorem push_clauses_to_reinit_m_activity (s : solver) (cw : clause_wrapper) :
    (s.push_clauses_to_reinit cw).m_activity = s.m_activity := by
  rfl

@[simp] theorem push_clause_vector_m_activity (s : solver) (off : clause_offset) (learned : Bool) :
    (s.push_clause_vector off learned).m_activity = s.m_activity := by
  unfold push_clause_vector; split <;> rfl

@[simp] theorem alloc_clause_m_activity (s : solver) (lits : List literal) (learned : Bool) :
    (s.alloc_clause lits learned).2.m_activity = s.m_activity := by
  rfl

@[simp] theorem push_reinit_stack_m_activity (s : solver) (off : clause_offset) :
    (s.push_reinit_stack off).m_activity = s.m_activity := by
  rfl

@[simp] theorem push_bin_watches_m_activity (s : solver) (l1 l2 : literal) (learned : Bool) :
    (s.push_bin_watches l1 l2 learned).m_activity = s.m_activity := by
  rfl

@[simp] theorem push_ter_watches_m_activity (s : solver) (c : clause) :
    (s.push_ter_watches c).m_activity = s.m_activity := by
  rfl

@[simp] theorem push_nary_watches_m_activity (s : solver) (off : clause_offset) :
    (s.push_nary_watches off).m_activity = s.m_activity := by
  rfl

@[simp] theorem assign_core_record_m_case_split_queue (s : solver) (l : literal) (j : justification) :
    (s.assign_core_record l j).m_case_split_queue = s.m_case_split_queue := by
  rfl

@[simp] theorem assign_core_branching_m_case_split_queue (s : solver) (v : bool_var) :
    (s.assign_core_branching v).m_case_split_queue = s.m_case_split_queue := by
  unfold assign_core_branching; split <;> rfl

@[simp] theorem assign_core_anti_exploration_m_case_split_queue (s : solver) (v : bool_var) :
    (s.assign_core_anti_exploration v).m_case_split_queue = s.m_case_split_queue := by
  unfold assign_core_anti_exploration; split <;> (try split) <;> rfl

@[simp] theorem assign_core_m_case_split_queue (s : solver) (l : literal) (j : justification) :
    (s.assign_core l j).m_case_split_queue = s.m_case_split_queue := by
  simp [assign_core]

@[simp] theorem set_clause_m_case_split_queue (s : solver) (off : clause_offset) (c : clause) :
    (s.set_clause off c).m_case_split_queue = s.m_case_split_queue := by
  rfl

@[simp] theorem push_watch_m_case_split_queue (s : solver) (idx : Nat) (w : watched) :
    (s.push_watch idx w).m_case_split_queue = s.m_case_split_queue := by
  rfl

@[simp] theorem set_wlist_m_case_split_queue (s : solver) (l : literal) (ws : List watched) :
    (s.set_wlist l ws).m_case_split_queue = s.m_case_split_queue := by
  rfl

@[simp] theorem set_conflict_m_case_split_queue (s : solver) (j : justification) (l : literal) :
    (s.set_conflict j l).m_case_split_queue = s.m_case_split_queue := by
  unfold set_conflict; split <;> rfl

@[simp] theorem inc_bin_propagate_m_case_split_queue (s : solver) :
    s.inc_bin_propagate.m_case_split_queue = s.m_case_split_queue := by
  rfl

@[simp] theorem inc_ter_propagate_m_case_split_queue (s : solver) :
    s.inc_ter_propagate.m_case_split_queue = s.m_case_split_queue := by
  rfl

@[simp] theorem inc_propagate_m_case_split_queue (s : solver) :
    s.inc_propagate.m_case_split_queue = s.m_case_split_queue := by
  rfl

@[simp] theorem inc_qhead_m_case_split_queue (s : solver) :
    s.inc_qhead.m_case_split_queue = s.m_case_split_queue := by
  rfl

@[simp] theorem update_glue_m_case_split_queue (s : solver) (update : Bool) (off : clause_offset) (c : clause) :
    (s.update_glue update off c).m_case_split_queue = s.m_case_split_queue := by
  unfold update_glue
  split
  · dsimp only; split <;> rfl
  · rfl

@[simp] theorem num_diff_levels_below_m_case_split_queue (s : solver) (lits : List literal) (g : Nat) :
    (s.num_diff_levels_below lits g).2.2.m_case_split_queue = s.m_case_split_queue := by
  rfl

@[simp] theorem assign_m_case_split_queue (s : solver) (l : literal) (j : justification) :
    (s.assign l j).m_case_split_queue = s.m_case_split_queue := by
  unfold assign; split <;> simp

@[simp] theorem inc_mk_bin_clause_m_case_split_queue (s : solver) :
    s.inc_mk_bin_clause.m_case_split_queue = s.m_case_split_queue := by
  rfl

@[simp] theorem inc_mk_ter_clause_m_case_split_queue (s : solver) :
    s.inc_mk_ter_clause.m_case_split_queue = s.m_case_split_queue := by
  rfl

@[simp] theorem inc_mk_clause_m_case_split_queue (s : solver) :
    s.inc_mk_clause.m_case_split_queue = s.m_case_split_queue := by
  rfl

@[simp] theorem inc_non_learned_generation_m_case_split_queue (s : solver) :
    s.inc_non_learned_generation.m_case_split_queue = s.m_case_split_queue := by
  rfl

@[simp] theorem push_clauses_to_reinit_m_case_split_queue (s : solver) (cw : clause_wrapper) :
    (s.push_clauses_to_reinit cw).m_case_split_queue = s.m_case_split_queue := by
  rfl

@[simp] theorem push_clause_vector_m_case_split_queue (s : solver) (off : clause_offset) (learned : Bool) :
    (s.push_clause_vector off learned).m_case_split_queue = s.m_case_split_queue := by
  unfold push_clause_vector; split <;> rfl

@[simp] theorem alloc_clause_m_case_split_queue (s : solver) (lits : List literal) (learned : Bool) :
    (s.alloc_clause lits learned).2.m_case_split_queue = s.m_case_split_queue := by
  rfl

@[simp] theorem push_reinit_stack_m_case_split_queue (s : solver) (off : clause_offset) :
    (s.push_reinit_stack off).m_case_split_queue = s.m_case_split_queue := by
  rfl

@[simp] theorem push_bin_watches_m_case_split_queue (s : solver) (l1 l2 : literal) (learned : Bool) :
    (s.push_bin_watches l1 l2 learned).m_case_split_queue = s.m_case_split_queue := by
  rfl

@[simp] theorem push_ter_watches_m_case_split_queue (s : solver) (c : clause) :
    (s.push_ter_watches c).m_case_split_queue = s.m_case_split_queue := by
  rfl

@[simp] theorem push_nary_watches_m_case_split_queue (s : solver) (off : clause_offset) :
    (s.push_nary_watches off).m_case_split_queue = s.m_case_split_queue := by
  rfl

@[simp] theorem assign_core_record_m_last_conflict (s : solver) (l : literal) (j : justification) :
    (s.assign_core_record l j).m_last_conflict = s.m_last_conflict := by
  rfl

@[simp] theorem assign_core_branching_m_last_conflict (s : solver) (v : bool_var) :
    (s.assign_core_branching v).m_last_conflict = s.m_last_conflict := by
  unfold assign_core_branching; split <;> rfl

@[simp] theorem assign_core_anti_exploration_m_last_conflict (s : solver) (v : bool_var) :
    (s.assign_core_anti_exploration v).m_last_conflict = s.m_last_conflict := by
  unfold assign_core_anti_exploration; split <;> (try split) <;> rfl

@[simp] theorem assign_core_m_last_conflict (s : solver) (l : literal) (j : justification) :
    (s.assign_core l j).m_last_conflict = s.m_last_conflict := by
  simp [assign_core]

@[simp] theorem set_clause_m_last_conflict (s : solver) (off : clause_offset) (c : clause) :
    (s.set_clause off c).m_last_conflict = s.m_last_conflict := by
  rfl

@[simp] theorem push_watch_m_last_conflict (s : solver) (idx : Nat) (w : watched) :
    (s.push_watch idx w).m_last_conflict = s.m_last_conflict := by
  rfl

@[simp] theorem set_wlist_m_last_conflict (s : solver) (l : literal) (ws : List watched) :
    (s.set_wlist l ws).m_last_conflict = s.m_last_conflict := by
  rfl

@[simp] theorem set_conflict_m_last_conflict (s : solver) (j : justification) (l : literal) :
    (s.set_conflict j l).m_last_conflict = s.m_last_conflict := by
  unfold set_conflict; split <;> rfl

@[simp] theorem inc_bin_propagate_m_last_conflict (s : solver) :
    s.inc_bin_propagate.m_last_conflict = s.m_last_conflict := by
  rfl

@[simp] theorem inc_ter_propagate_m_last_conflict (s : solver) :
    s.inc_ter_propagate.m_last_conflict = s.m_last_conflict := by
  rfl

@[simp] theorem inc_propagate_m_last_conflict (s : solver) :
    s.inc_propagate.m_last_conflict = s.m_last_conflict := by
  rfl

@[simp] theorem inc_qhead_m_last_conflict (s : solver) :
    s.inc_qhead.m_last_conflict = s.m_last_conflict := by
  rfl

@[simp] theorem update_glue_m_last_conflict (s : solver) (update : Bool) (off : clause_offset) (c : clause) :
    (s.update_glue update off c).m_last_conflict = s.m_last_conflict := by
  unfold update_glue
  split
  · dsimp only; split <;> rfl
  · rfl

@[simp] theorem num_diff_levels_below_m_last_conflict (s : solver) (lits : List literal) (g : Nat) :
    (s.num_diff_levels_below lits g).2.2.m_last_conflict = s.m_last_conflict := by
  rfl

@[simp] theorem assign_m_last_conflict (s : solver) (l : literal) (j : justification) :
    (s.assign l j).m_last_conflict = s.m_last_conflict := by
  unfold assign; split <;> simp

@[simp] theorem inc_mk_bin_clause_m_last_conflict (s : solver) :
    s.inc_mk_bin_clause.m_last_conflict = s.m_last_conflict := by
  rfl

@[simp] theorem inc_mk_ter_clause_m_last_conflict (s : solver) :
    s.inc_mk_ter_clause.m_last_conflict = s.m_last_conflict := by
  rfl

@[simp] theorem inc_mk_clause_m_last_conflict (s : solver) :
    s.inc_mk_clause.m_last_conflict = s.m_last_conflict := by
  rfl

@[simp] theorem inc_non_learned_generation_m_last_conflict (s : solver) :
    s.inc_non_learned_generation.m_last_conflict = s.m_last_conflict := by
  rfl

@[simp] theorem push_clauses_to_reinit_m_last_conflict (s : solver) (cw : clause_wrapper) :
    (s.push_clauses_to_reinit cw).m_last_conflict = s.m_last_conflict := by
  rfl

@[simp] theorem push_clause_vector_m_last_conflict (s : solver) (off : clause_offset) (learned : Bool) :
    (s.push_clause_vector off learned).m_last_conflict = s.m_last_conflict := by
  unfold push_clause_vector; split <;> rfl

@[simp] theorem alloc_clause_m_last_conflict (s : solver) (lits : List literal) (learned : Bool) :
    (s.alloc_clause lits learned).2.m_last_conflict = s.m_last_conflict := by
  rfl

@[simp] theorem push_reinit_stack_m_last_conflict (s : solver) (off : clause_offset) :
    (s.push_reinit_stack off).m_last_conflict = s.m_last_conflict := by
  rfl

@[simp] theorem push_bin_watches_m_last_conflict (s : solver) (l1 l2 : literal) (learned : Bool) :
    (s.push_bin_watches l1 l2 learned).m_last_conflict = s.m_last_conflict := by
  rfl

@[simp] theorem push_ter_watches_m_last_conflict (s : solver) (c : clause) :
    (s.push_ter_watches c).m_last_conflict = s.m_last_conflict := by
  rfl

@[simp] theorem push_nary_watches_m_last_conflict (s : solver) (off : clause_offset) :
    (s.push_nary_watches off).m_last_conflict = s.m_last_conflict := by
  rfl

@[simp] theorem push_m_config (s : solver) :
    s.push.m_config = s.m_config := by
  rfl

@[simp] theorem unassign_var_record_m_config (s : solver) (l : literal) :
    (s.unassign_var_record l).m_config = s.m_config := by
  rfl

@[simp] theorem unassign_var_lrb_m_config (s : solver) (v : bool_var) :
    (s.unassign_var_lrb v).m_config = s.m_config := by
  unfold unassign_var_lrb; split <;> (try split) <;> rfl

@[simp] theorem unassign_var_anti_exploration_m_config (s : solver) (v : bool_var) :
    (s.unassign_var_anti_exploration v).m_config = s.m_config := by
  unfold unassign_var_anti_exploration; split <;> rfl

@[simp] theorem unassign_var_m_config (s : solver) (l : literal) :
    (s.unassign_var l).m_config = s.m_config := by
  simp [unassign_var]

@[simp] theorem shrink_trail_m_config (s : solver) (n : Nat) :
    (s.shrink_trail n).m_config = s.m_config := by
  rfl

@[simp] theorem set_wlist_at_m_config (s : solver) (idx : Nat) (ws : List watched) :
    (s.set_wlist_at idx ws).m_config = s.m_config := by
  rfl

@[simp] theorem set_clauses_to_reinit_m_config (s : solver) (cws : List clause_wrapper) :
    (s.set_clauses_to_reinit cws).m_config = s.m_config := by
  rfl

@[simp] theorem reset_inconsistent_m_config (s : solver) :
    s.reset_inconsistent.m_config = s.m_config := by
  rfl

@[simp] theorem shrink_scopes_m_config (s : solver) (n k : Nat) :
    (s.shrink_scopes n k).m_config = s.m_config := by
  rfl

@[simp] theorem clear_reinit_stack_m_config (s : solver) (off : clause_offset) :
    (s.clear_reinit_stack off).m_config = s.m_config := by
  rfl

@[simp] theorem push_m_stats (s : solver) :
    s.push.m_stats = s.m_stats := by
  rfl

@[simp] theorem unassign_var_record_m_stats (s : solver) (l : literal) :
    (s.unassign_var_record l).m_stats = s.m_stats := by
  rfl

@[simp] theorem unassign_var_lrb_m_stats (s : solver) (v : bool_var) :
    (s.unassign_var_lrb v).m_stats = s.m_stats := by
  unfold unassign_var_lrb; split <;> (try split) <;> rfl

@[simp] theorem unassign_var_anti_exploration_m_stats (s : solver) (v : bool_var) :
    (s.unassign_var_anti_exploration v).m_stats = s.m_stats := by
  unfold unassign_var_anti_exploration; split <;> rfl

@[simp] theorem unassign_var_m_stats (s : solver) (l : literal) :
    (s.unassign_var l).m_stats = s.m_stats := by
  simp [unassign_var]

@[simp] theorem shrink_trail_m_stats (s : solver) (n : Nat) :
    (s.shrink_trail n).m_stats = s.m_stats := by
  rfl

@[simp] theorem set_wlist_at_m_stats (s : solver) (idx : Nat) (ws : List watched) :
    (s.set_wlist_at idx ws).m_stats = s.m_stats := by
  rfl

@[simp] theorem set_clauses_to_reinit_m_stats (s : solver) (cws : List clause_wrapper) :
    (s.set_clauses_to_reinit cws).m_stats = s.m_stats := by
  rfl

@[simp] theorem reset_inconsistent_m_stats (s : solver) :
    s.reset_inconsistent.m_stats = s.m_stats := by
  rfl

@[simp] theorem shrink_scopes_m_stats (s : solver) (n k : Nat) :
    (s.shrink_scopes n k).m_stats = s.m_stats := by
  rfl

@[simp] theorem clear_reinit_stack_m_stats (s : solver) (off : clause_offset) :
    (s.clear_reinit_stack off).m_stats = s.m_stats := by
  rfl

@[simp] theorem push_m_inconsistent (s : solver) :
    s.push.m_inconsistent = s.m_inconsistent := by
  rfl

@[simp] theorem unassign_var_record_m_inconsistent (s : solver) (l : literal) :
    (s.unassign_var_record l).m_inconsistent = s.m_inconsistent := by
  rfl

@[simp] theorem unassign_var_lrb_m_inconsistent (s : solver) (v : bool_var) :
    (s.unassign_var_lrb v).m_inconsistent = s.m_inconsistent := by
  unfold unassign_var_lrb; split <;> (try split) <;> rfl

@[simp] theorem unassign_var_anti_exploration_m_inconsistent (s : solver) (v : bool_var) :
    (s.unassign_var_anti_exploration v).m_inconsistent = s.m_inconsistent := by
  unfold unassign_var_anti_exploration; split <;> rfl

@[simp] theorem unassign_var_m_inconsistent (s : solver) (l : literal) :
    (s.unassign_var l).m_inconsistent = s.m_inconsistent := by
  simp [unassign_var]

@[simp] theorem shrink_trail_m_inconsistent (s : solver) (n : Nat) :
    (s.shrink_trail n).m_inconsistent = s.m_inconsistent := by
  rfl

@[simp] theorem set_wlist_at_m_inconsistent (s : solver) (idx : Nat) (ws : List watched) :
    (s.set_wlist_at idx ws).m_inconsistent = s.m_inconsistent := by
  rfl

@[simp] theorem set_clauses_to_reinit_m_inconsistent (s : solver) (cws : List clause_wrapper) :
    (s.set_clauses_to_reinit cws).m_inconsistent = s.m_inconsistent := by
  rfl

@[simp] theorem shrink_scopes_m_inconsistent (s : solver) (n k : Nat) :
    (s.shrink_scopes n k).m_inconsistent = s.m_inconsistent := by
  rfl

@[simp] theorem clear_reinit_stack_m_inconsistent (s : solver) (off : clause_offset) :
    (s.clear_reinit_stack off).m_inconsistent = s.m_inconsistent := by
  rfl

@[simp] theorem push_m_conflict (s : solver) :
    s.push.m_conflict = s.m_conflict := by
  rfl

@[simp] theorem unassign_var_record_m_conflict (s : solver) (l : literal) :
    (s.unassign_var_record l).m_conflict = s.m_conflict := by
  rfl

@[simp] theorem unassign_var_lrb_m_conflict (s : solver) (v : bool_var) :
    (s.unassign_var_lrb v).m_conflict = s.m_conflict := by
  unfold unassign_var_lrb; split <;> (try split) <;> rfl

@[simp] theorem unassign_var_anti_exploration_m_conflict (s : solver) (v : bool_var) :
    (s.unassign_var_anti_exploration v).m_conflict = s.m_conflict := by
  unfold unassign_var_anti_exploration; split <;> rfl

@[simp] theorem unassign_var_m_conflict (s : solver) (l : literal) :
    (s.unassign_var l).m_conflict = s.m_conflict := by
  simp [unassign_var]

@[simp] theorem shrink_trail_m_conflict (s : solver) (n : Nat) :
    (s.shrink_trail n).m_conflict = s.m_conflict := by
  rfl

@[simp] theorem set_wlist_at_m_conflict (s : solver) (idx : Nat) (ws : List watched) :
    (s.set_wlist_at idx ws).m_conflict = s.m_conflict := by
  rfl

@[simp] theorem set_clauses_to_reinit_m_conflict (s : solver) (cws : List clause_wrapper) :
    (s.set_clauses_to_reinit cws).m_conflict = s.m_conflict := by
  rfl

@[simp] theorem reset_inconsistent_m_conflict (s : solver) :
    s.reset_inconsistent.m_conflict = s.m_conflict := by
  rfl

@[simp] theorem shrink_scopes_m_conflict (s : solver) (n k : Nat) :
    (s.shrink_scopes n k).m_conflict = s.m_conflict := by
  rfl

@[simp] theorem clear_reinit_stack_m_conflict (s : solver) (off : clause_offset) :
    (s.clear_reinit_stack off).m_conflict = s.m_conflict := by
  rfl

@[simp] theorem push_m_not_l (s : solver) :
    s.push.m_not_l = s.m_not_l := by
  rfl

@[simp] theorem unassign_var_record_m_not_l (s : solver) (l : literal) :
    (s.unassign_var_record l).m_not_l = s.m_not_l := by
  rfl

@[simp] theorem unassign_var_lrb_m_not_l (s : solver) (v : bool_var) :
    (s.unassign_var_lrb v).m_not_l = s.m_not_l := by
  unfold unassign_var_lrb; split <;> (try split) <;> rfl

@[simp] theorem unassign_var_anti_exploration_m_not_l (s : solver) (v : bool_var) :
    (s.unassign_var_anti_exploration v).m_not_l = s.m_not_l := by
  unfold unassign_var_anti_exploration; split <;> rfl

@[simp] theorem unassign_var_m_not_l (s : solver) (l : literal) :
    (s.unassign_var l).m_not_l = s.m_not_l := by
  simp [unassign_var]

@[simp] theorem shrink_trail_m_not_l (s : solver) (n : Nat) :
    (s.shrink_trail n).m_not_l = s.m_not_l := by
  rfl

@[simp] theorem set_wlist_at_m_not_l (s : solver) (idx : Nat) (ws : List watched) :
    (s.set_wlist_at idx ws).m_not_l = s.m_not_l := by
  rfl

@[simp] theorem set_clauses_to_reinit_m_not_l (s : solver) (cws : List clause_wrapper) :
    (s.set_clauses_to_reinit cws).m_not_l = s.m_not_l := by
  rfl

@[simp] theorem reset_inconsistent_m_not_l (s : solver) :
    s.reset_inconsistent.m_not_l = s.m_not_l := by
  rfl

@[simp] theorem shrink_scopes_m_not_l (s : solver) (n k : Nat) :
    (s.shrink_scopes n k).m_not_l = s.m_not_l := by
  rfl

@[simp] theorem clear_reinit_stack_m_not_l (s : solver) (off : clause_offset) :
    (s.clear_reinit_stack off).m_not_l = s.m_not_l := by
  rfl

@[simp] theorem push_m_cls_allocator (s : solver) :
    s.push.m_cls_allocator = s.m_cls_allocator := by
  rfl

@[simp] theorem unassign_var_record_m_cls_allocator (s : solver) (l : literal) :
    (s.unassign_var_record l).m_cls_allocator = s.m_cls_allocator := by
  rfl

@[simp] theorem unassign_var_lrb_m_cls_allocator (s : solver) (v : bool_var) :
    (s.unassign_var_lrb v).m_cls_allocator = s.m_cls_allocator := by
  unfold unassign_var_lrb; split <;> (try split) <;> rfl

@[simp] theorem unassign_var_anti_exploration_m_cls_allocator (s : solver) (v : bool_var) :
    (s.unassign_var_anti_exploration v).m_cls_allocator = s.m_cls_allocator := by
  unfold unassign_var_anti_exploration; split <;> rfl

@[simp] theorem unassign_var_m_cls_allocator (s : solver) (l : literal) :
    (s.unassign_var l).m_cls_allocator = s.m_cls_allocator := by
  simp [unassign_var]

@[simp] theorem shrink_trail_m_cls_allocator (s : solver) (n : Nat) :
    (s.shrink_trail n).m_cls_allocator = s.m_cls_allocator := by
  rfl

@[simp] theorem set_wlist_at_m_cls_allocator (s : solver) (idx : Nat) (ws : List watched) :
    (s.set_wlist_at idx ws).m_cls_allocator = s.m_cls_allocator := by
  rfl

@[simp] theorem set_clauses_to_reinit_m_cls_allocator (s : solver) (cws : List clause_wrapper) :
    (s.set_clauses_to_reinit cws).m_cls_allocator = s.m_cls_allocator := by
  rfl

@[simp] theorem reset_inconsistent_m_cls_allocator (s : solver) :
    s.reset_inconsistent.m_cls_allocator = s.m_cls_allocator := by
  rfl

@[simp] theorem shrink_scopes_m_cls_allocator (s : solver) (n k : Nat) :
    (s.shrink_scopes n k).m_cls_allocator = s.m_cls_allocator := by
  rfl

@[simp] theorem push_m_clauses (s : solver) :
    s.push.m_clauses = s.m_clauses := by
  rfl

@[simp] theorem unassign_var_record_m_clauses (s : solver) (l : literal) :
    (s.unassign_var_record l).m_clauses = s.m_clauses := by
  rfl

@[simp] theorem unassign_var_lrb_m_clauses (s : solver) (v : bool_var) :
    (s.unassign_var_lrb v).m_clauses = s.m_clauses := by
  unfold unassign_var_lrb; split <;> (try split) <;> rfl

@[simp] theorem unassign_var_anti_exploration_m_clauses (s : solver) (v : bool_var) :
    (s.unassign_var_anti_exploration v).m_clauses = s.m_clauses := by
  unfold unassign_var_anti_exploration; split <;> rfl

@[simp] theorem unassign_var_m_clauses (s : solver) (l : literal) :
    (s.unassign_var l).m_clauses = s.m_clauses := by
  simp [unassign_var]

@[simp] theorem shrink_trail_m_clauses (s : solver) (n : Nat) :
    (s.shrink_trail n).m_clauses = s.m_clauses := by
  rfl

@[simp] theorem set_wlist_at_m_clauses (s : solver) (idx : Nat) (ws : List watched) :
    (s.set_wlist_at idx ws).m_clauses = s.m_clauses := by
  rfl

@[simp] theorem set_clauses_to_reinit_m_clauses (s : solver) (cws : List clause_wrapper) :
    (s.set_clauses_to_reinit cws).m_clauses = s.m_clauses := by
  rfl

@[simp] theorem reset_inconsistent_m_clauses (s : solver) :
    s.reset_inconsistent.m_clauses = s.m_clauses := by
  rfl

@[simp] theorem shrink_scopes_m_clauses (s : solver) (n k : Nat) :
    (s.shrink_scopes n k).m_clauses = s.m_clauses := by
  rfl

@[simp] theorem clear_reinit_stack_m_clauses (s : solver) (off : clause_offset) :
    (s.clear_reinit_stack off).m_clauses = s.m_clauses := by
  rfl

@[simp] theorem push_m_learned (s : solver) :
    s.push.m_learned = s.m_learned := by
  rfl

@[simp] theorem unassign_var_record_m_learned (s : solver) (l : literal) :
    (s.unassign_var_record l).m_learned = s.m_learned := by
  rfl

@[simp] theorem unassign_var_lrb_m_learned (s : solver) (v : bool_var) :
    (s.unassign_var_lrb v).m_learned = s.m_learned := by
  unfold unassign_var_lrb; split <;> (try split) <;> rfl

@[simp] theorem unassign_var_anti_exploration_m_learned (s : solver) (v : bool_var) :
    (s.unassign_var_anti_exploration v).m_learned = s.m_learned := by
  unfold unassign_var_anti_exploration; split <;> rfl

@[simp] theorem unassign_var_m_learned (s : solver) (l : literal) :
    (s.unassign_var l).m_learned = s.m_learned := by
  simp [unassign_var]

@[simp] theorem shrink_trail_m_learned (s : solver) (n : Nat) :
    (s.shrink_trail n).m_learned = s.m_learned := by
  rfl

@[simp] theorem set_wlist_at_m_learned (s : solver) (idx : Nat) (ws : List watched) :
    (s.set_wlist_at idx ws).m_learned = s.m_learned := by
  rfl

@[simp] theorem set_clauses_to_reinit_m_learned (s : solver) (cws : List clause_wrapper) :
    (s.set_clauses_to_reinit cws).m_learned = s.m_learned := by
  rfl

@[simp] theorem reset_inconsistent_m_learned (s : solver) :
    s.reset_inconsistent.m_learned = s.m_learned := by
  rfl

@[simp] theorem shrink_scopes_m_learned (s : solver) (n k : Nat) :
    (s.shrink_scopes n k).m_learned = s.m_learned := by
  rfl

@[simp] theorem clear_reinit_stack_m_learned (s : solver) (off : clause_offset) :
    (s.clear_reinit_stack off).m_learned = s.m_learned := by
  rfl

@[simp] theorem push_m_watches (s : solver) :
    s.push.m_watches = s.m_watches := by
  rfl

@[simp] theorem unassign_var_record_m_watches (s : solver) (l : literal) :
    (s.unassign_var_record l).m_watches = s.m_watches := by
  rfl

@[simp] theorem unassign_var_lrb_m_watches (s : solver) (v : bool_var) :
    (s.unassign_var_lrb v).m_watches = s.m_watches := by
  unfold unassign_var_lrb; split <;> (try split) <;> rfl

@[simp] theorem unassign_var_anti_exploration_m_watches (s : solver) (v : bool_var) :
    (s.unassign_var_anti_exploration v).m_watches = s.m_watches := by
  unfold unassign_var_anti_exploration; split <;> rfl

@[simp] theorem unassign_var_m_watches (s : solver) (l : literal) :
    (s.unassign_var l).m_watches = s.m_watches := by
  simp [unassign_var]

@[simp] theorem shrink_trail_m_watches (s : solver) (n : Nat) :
    (s.shrink_trail n).m_watches = s.m_watches := by
  rfl

@[simp] theorem set_clauses_to_reinit_m_watches (s : solver) (cws : List clause_wrapper) :
    (s.set_clauses_to_reinit cws).m_watches = s.m_watches := by
  rfl

@[simp] theorem reset_inconsistent_m_watches (s : solver) :
    s.reset_inconsistent.m_watches = s.m_watches := by
  rfl

@[simp] theorem shrink_scopes_m_watches (s : solver) (n k : Nat) :
    (s.shrink_scopes n k).m_watches = s.m_watches := by
  rfl

@[simp] theorem clear_reinit_stack_m_watches (s : solver) (off : clause_offset) :
    (s.clear_reinit_stack off).m_watches = s.m_watches := by
  rfl

@[simp] theorem push_m_assignment (s : solver) :
    s.push.m_assignment = s.m_assignment := by
  rfl

@[simp] theorem unassign_var_lrb_m_assignment (s : solver) (v : bool_var) :
    (s.unassign_var_lrb v).m_assignment = s.m_assignment := by
  unfold unassign_var_lrb; split <;> (try split) <;> rfl

@[simp] theorem unassign_var_anti_exploration_m_assignment (s : solver) (v : bool_var) :
    (s.unassign_var_anti_exploration v).m_assignment = s.m_assignment := by
  unfold unassign_var_anti_exploration; split <;> rfl

@[simp] theorem shrink_trail_m_assignment (s : solver) (n : Nat) :
    (s.shrink_trail n).m_assignment = s.m_assignment := by
  rfl

@[simp] theorem set_wlist_at_m_assignment (s : solver) (idx : Nat) (ws : List watched) :
    (s.set_wlist_at idx ws).m_assignment = s.m_assignment := by
  rfl

@[simp] theorem set_clauses_to_reinit_m_assignment (s : solver) (cws : List clause_wrapper) :
    (s.set_clauses_to_reinit cws).m_assignment = s.m_assignment := by
  rfl

@[simp] theorem reset_inconsistent_m_assignment (s : solver) :
    s.reset_inconsistent.m_assignment = s.m_assignment := by
  rfl

@[simp] theorem shrink_scopes_m_assignment (s : solver) (n k : Nat) :
    (s.shrink_scopes n k).m_assignment = s.m_assignment := by
  rfl

@[simp] theorem clear_reinit_stack_m_assignment (s : solver) (off : clause_offset) :
    (s.clear_reinit_stack off).m_assignment = s.m_assignment := by
  rfl

@[simp] theorem push_m_justification (s : solver) :
    s.push.m_justification = s.m_justification := by
  rfl

@[simp] theorem unassign_var_record_m_justification (s : solver) (l : literal) :
    (s.unassign_var_record l).m_justification = s.m_justification := by
  rfl

@[simp] theorem unassign_var_lrb_m_justification (s : solver) (v : bool_var) :
    (s.unassign_var_lrb v).m_justification = s.m_justification := by
  unfold unassign_var_lrb; split <;> (try split) <;> rfl

@[simp] theorem unassign_var_anti_exploration_m_justification (s : solver) (v : bool_var) :
    (s.unassign_var_anti_exploration v).m_justification = s.m_justification := by
  unfold unassign_var_anti_exploration; split <;> rfl

@[simp] theorem unassign_var_m_justification (s : solver) (l : literal) :
    (s.unassign_var l).m_justification = s.m_justification := by
  simp [unassign_var]

@[simp] theorem shrink_trail_m_justification (s : solver) (n : Nat) :
    (s.shrink_trail n).m_justification = s.m_justification := by
  rfl

@[simp] theorem set_wlist_at_m_justification (s : solver) (idx : Nat) (ws : List watched) :
    (s.set_wlist_at idx ws).m_justification = s.m_justification := by
  rfl

@[simp] theorem set_clauses_to_reinit_m_justification (s : solver) (cws : List clause_wrapper) :
    (s.set_clauses_to_reinit cws).m_justification = s.m_justification := by
  rfl

@[simp] theorem reset_inconsistent_m_justification (s : solver) :
    s.reset_inconsistent.m_justification = s.m_justification := by
  rfl

@[simp] theorem shrink_scopes_m_justification (s : solver) (n k : Nat) :
    (s.shrink_scopes n k).m_justification = s.m_justification := by
  rfl

@[simp] theorem clear_reinit_stack_m_justification (s : solver) (off : clause_offset) :
    (s.clear_reinit_stack off).m_justification = s.m_justification := by
  rfl

@[simp] theorem push_m_level (s : solver) :
    s.push.m_level = s.m_level := by
  rfl

@[simp] theorem unassign_var_record_m_level (s : solver) (l : literal) :
    (s.unassign_var_record l).m_level = s.m_level := by
  rfl

@[simp] theorem unassign_var_lrb_m_level (s : solver) (v : bool_var) :
    (s.unassign_var_lrb v).m_level = s.m_level := by
  unfold unassign_var_lrb; split <;> (try split) <;> rfl

@[simp] theorem unassign_var_anti_exploration_m_level (s : solver) (v : bool_var) :
    (s.unassign_var_anti_exploration v).m_level = s.m_level := by
  unfold unassign_var_anti_exploration; split <;> rfl

@[simp] theorem unassign_var_m_level (s : solver) (l : literal) :
    (s.unassign_var l).m_level = s.m_level := by
  simp [unassign_var]

@[simp] theorem shrink_trail_m_level (s : solver) (n : Nat) :
    (s.shrink_trail n).m_level = s.m_level := by
  rfl

@[simp] theorem set_wlist_at_m_level (s : solver) (idx : Nat) (ws : List watched) :
    (s.set_wlist_at idx ws).m_level = s.m_level := by
  rfl

@[simp] theorem set_clauses_to_reinit_m_level (s : solver) (cws : List clause_wrapper) :
    (s.set_clauses_to_reinit cws).m_level = s.m_level := by
  rfl

@[simp] theorem reset_inconsistent_m_level (s : solver) :
    s.reset_inconsistent.m_level = s.m_level := by
  rfl

@[simp] theorem shrink_scopes_m_level (s : solver) (n k : Nat) :
    (s.shrink_scopes n k).m_level = s.m_level := by
  rfl

@[simp] theorem clear_reinit_stack_m_level (s : solver) (off : clause_offset) :
    (s.clear_reinit_stack off).m_level = s.m_level := by
  rfl

@[simp] theorem push_m_phase (s : solver) :
    s.push.m_phase = s.m_phase := by
  rfl

@[simp] theorem unassign_var_record_m_phase (s : solver) (l : literal) :
    (s.unassign_var_record l).m_phase = s.m_phase := by
  rfl

@[simp] theorem unassign_var_lrb_m_phase (s : solver) (v : bool_var) :
    (s.unassign_var_lrb v).m_phase = s.m_phase := by
  unfold unassign_var_lrb; split <;> (try split) <;> rfl

@[simp] theorem unassign_var_anti_exploration_m_phase (s : solver) (v : bool_var) :
    (s.unassign_var_anti_exploration v).m_phase = s.m_phase := by
  unfold unassign_var_anti_exploration; split <;> rfl

@[simp] theorem unassign_var_m_phase (s : solver) (l : literal) :
    (s.unassign_var l).m_phase = s.m_phase := by
  simp [unassign_var]

@[simp] theorem shrink_trail_m_phase (s : solver) (n : Nat) :
    (s.shrink_trail n).m_phase = s.m_phase := by
  rfl

@[simp] theorem set_wlist_at_m_phase (s : solver) (idx : Nat) (ws : List watched) :
    (s.set_wlist_at idx ws).m_phase = s.m_phase := by
  rfl

@[simp] theorem set_clauses_to_reinit_m_phase (s : solver) (cws : List clause_wrapper) :
    (s.set_clauses_to_reinit cws).m_phase = s.m_phase := by
  rfl

@[simp] theorem reset_inconsistent_m_phase (s : solver) :
    s.reset_inconsistent.m_phase = s.m_phase := by
  rfl

@[simp] theorem shrink_scopes_m_phase (s : solver) (n k : Nat) :
    (s.shrink_scopes n k).m_phase = s.m_phase := by
  rfl

@[simp] theorem clear_reinit_stack_m_phase (s : solver) (off : clause_offset) :
    (s.clear_reinit_stack off).m_phase = s.m_phase := by
  rfl

@[simp] theorem push_m_trail (s : solver) :
    s.push.m_trail = s.m_trail := by
  rfl

@[simp] theorem unassign_var_record_m_trail (s : solver) (l : literal) :
    (s.unassign_var_record l).m_trail = s.m_trail := by
  rfl

@[simp] theorem unassign_var_lrb_m_trail (s : solver) (v : bool_var) :
    (s.unassign_var_lrb v).m_trail = s.m_trail := by
  unfold unassign_var_lrb; split <;> (try split) <;> rfl

@[simp] theorem unassign_var_anti_exploration_m_trail (s : solver) (v : bool_var) :
    (s.unassign_var_anti_exploration v).m_trail = s.m_trail := by
  unfold unassign_var_anti_exploration; split <;> rfl

@[simp] theorem unassign_var_m_trail (s : solver) (l : literal) :
    (s.unassign_var l).m_trail = s.m_trail := by
  simp [unassign_var]

@[simp] theorem set_wlist_at_m_trail (s : solver) (idx : Nat) (ws : List watched) :
    (s.set_wlist_at idx ws).m_trail = s.m_trail := by
  rfl

@[simp] theorem set_clauses_to_reinit_m_trail (s : solver) (cws : List clause_wrapper) :
    (s.set_clauses_to_reinit cws).m_trail = s.m_trail := by
  rfl

@[simp] theorem reset_inconsistent_m_trail (s : solver) :
    s.reset_inconsistent.m_trail = s.m_trail := by
  rfl

@[simp] theorem shrink_scopes_m_trail (s : solver) (n k : Nat) :
    (s.shrink_scopes n k).m_trail = s.m_trail := by
  rfl

@[simp] theorem clear_reinit_stack_m_trail (s : solver) (off : clause_offset) :
    (s.clear_reinit_stack off).m_trail = s.m_trail := by
  rfl

@[simp] theorem push_m_qhead (s : solver) :
    s.push.m_qhead = s.m_qhead := by
  rfl

@[simp] theorem unassign_var_record_m_qhead (s : solver) (l : literal) :
    (s.unassign_var_record l).m_qhead = s.m_qhead := by
  rfl

@[simp] theorem unassign_var_lrb_m_qhead (s : solver) (v : bool_var) :
    (s.unassign_var_lrb v).m_qhead = s.m_qhead := by
  unfold unassign_var_lrb; split <;> (try split) <;> rfl

@[simp] theorem unassign_var_anti_exploration_m_qhead (s : solver) (v : bool_var) :
    (s.unassign_var_anti_exploration v).m_qhead = s.m_qhead := by
  unfold unassign_var_anti_exploration; split <;> rfl

@[simp] theorem unassign_var_m_qhead (s : solver) (l : literal) :
    (s.unassign_var l).m_qhead = s.m_qhead := by
  simp [unassign_var]

@[simp] theorem set_wlist_at_m_qhead (s : solver) (idx : Nat) (ws : List watched) :
    (s.set_wlist_at idx ws).m_qhead = s.m_qhead := by
  rfl

@[simp] theorem set_clauses_to_reinit_m_qhead (s : solver) (cws : List clause_wrapper) :
    (s.set_clauses_to_reinit cws).m_qhead = s.m_qhead := by
  rfl

@[simp] theorem reset_inconsistent_m_qhead (s : solver) :
    s.reset_inconsistent.m_qhead = s.m_qhead := by
  rfl

@[simp] theorem shrink_scopes_m_qhead (s : solver) (n k : Nat) :
    (s.shrink_scopes n k).m_qhead = s.m_qhead := by
  rfl

@[simp] theorem clear_reinit_stack_m_qhead (s : solver) (off : clause_offset) :
    (s.clear_reinit_stack off).m_qhead = s.m_qhead := by
  rfl

@[simp] theorem unassign_var_record_m_scope_lvl (s : solver) (l : literal) :
    (s.unassign_var_record l).m_scope_lvl = s.m_scope_lvl := by
  rfl

@[simp] theorem unassign_var_lrb_m_scope_lvl (s : solver) (v : bool_var) :
    (s.unassign_var_lrb v).m_scope_lvl = s.m_scope_lvl := by
  unfold unassign_var_lrb; split <;> (try split) <;> rfl

@[simp] theorem unassign_var_anti_exploration_m_scope_lvl (s : solver) (v : bool_var) :
    (s.unassign_var_anti_exploration v).m_scope_lvl = s.m_scope_lvl := by
  unfold unassign_var_anti_exploration; split <;> rfl

@[simp] theorem unassign_var_m_scope_lvl (s : solver) (l : literal) :
    (s.unassign_var l).m_scope_lvl = s.m_scope_lvl := by
  simp [unassign_var]

@[simp] theorem shrink_trail_m_scope_lvl (s : solver) (n : Nat) :
    (s.shrink_trail n).m_scope_lvl = s.m_scope_lvl := by
  rfl

@[simp] theorem set_wlist_at_m_scope_lvl (s : solver) (idx : Nat) (ws : List watched) :
    (s.set_wlist_at idx ws).m_scope_lvl = s.m_scope_lvl := by
  rfl

@[simp] theorem set_clauses_to_reinit_m_scope_lvl (s : solver) (cws : List clause_wrapper) :
    (s.set_clauses_to_reinit cws).m_scope_lvl = s.m_scope_lvl := by
  rfl

@[simp] theorem reset_inconsistent_m_scope_lvl (s : solver) :
    s.reset_inconsistent.m_scope_lvl = s.m_scope_lvl := by
  rfl

@[simp] theorem clear_reinit_stack_m_scope_lvl (s : solver) (off : clause_offset) :
    (s.clear_reinit_stack off).m_scope_lvl = s.m_scope_lvl := by
  rfl

@[simp] theorem push_m_search_lvl (s : solver) :
    s.push.m_search_lvl = s.m_search_lvl := by
  rfl

@[simp] theorem unassign_var_record_m_search_lvl (s : solver) (l : literal) :
    (s.unassign_var_record l).m_search_lvl = s.m_search_lvl := by
  rfl

@[simp] theorem unassign_var_lrb_m_search_lvl (s : solver) (v : bool_var) :
    (s.unassign_var_lrb v).m_search_lvl = s.m_search_lvl := by
  unfold unassign_var_lrb; split <;> (try split) <;> rfl

@[simp] theorem unassign_var_anti_exploration_m_search_lvl (s : solver) (v : bool_var) :
    (s.unassign_var_anti_exploration v).m_search_lvl = s.m_search_lvl := by
  unfold unassign_var_anti_exploration; split <;> rfl

@[simp] theorem unassign_var_m_search_lvl (s : solver) (l : literal) :
    (s.unassign_var l).m_search_lvl = s.m_search_lvl := by
  simp [unassign_var]

@[simp] theorem shrink_trail_m_search_lvl (s : solver) (n : Nat) :
    (s.shrink_trail n).m_search_lvl = s.m_search_lvl := by
  rfl

@[simp] theorem set_wlist_at_m_search_lvl (s : solver) (idx : Nat) (ws : List watched) :
    (s.set_wlist_at idx ws).m_search_lvl = s.m_search_lvl := by
  rfl

@[simp] theorem set_clauses_to_reinit_m_search_lvl (s : solver) (cws : List clause_wrapper) :
    (s.set_clauses_to_reinit cws).m_search_lvl = s.m_search_lvl := by
  rfl

@[simp] theorem reset_inconsistent_m_search_lvl (s : solver) :
    s.reset_inconsistent.m_search_lvl = s.m_search_lvl := by
  rfl

@[simp] theorem shrink_scopes_m_search_lvl (s : solver) (n k : Nat) :
    (s.shrink_scopes n k).m_search_lvl = s.m_search_lvl := by
  rfl

@[simp] theorem clear_reinit_stack_m_search_lvl (s : solver) (off : clause_offset) :
    (s.clear_reinit_stack off).m_search_lvl = s.m_search_lvl := by
  rfl

@[simp] theorem unassign_var_record_m_scopes (s : solver) (l : literal) :
    (s.unassign_var_record l).m_scopes = s.m_scopes := by
  rfl

@[simp] theorem unassign_var_lrb_m_scopes (s : solver) (v : bool_var) :
    (s.unassign_var_lrb v).m_scopes = s.m_scopes := by
  unfold unassign_var_lrb; split <;> (try split) <;> rfl

@[simp] theorem unassign_var_anti_exploration_m_scopes (s : solver) (v : bool_var) :
    (s.unassign_var_anti_exploration v).m_scopes = s.m_scopes := by
  unfold unassign_var_anti_exploration; split <;> rfl

@[simp] theorem unassign_var_m_scopes (s : solver) (l : literal) :
    (s.unassign_var l).m_scopes = s.m_scopes := by
  simp [unassign_var]

@[simp] theorem shrink_trail_m_scopes (s : solver) (n : Nat) :
    (s.shrink_trail n).m_scopes = s.m_scopes := by
  rfl

@[simp] theorem set_wlist_at_m_scopes (s : solver) (idx : Nat) (ws : List watched) :
    (s.set_wlist_at idx ws).m_scopes = s.m_scopes := by
  rfl

@[simp] theorem set_clauses_to_reinit_m_scopes (s : solver) (cws : List clause_wrapper) :
    (s.set_clauses_to_reinit cws).m_scopes = s.m_scopes := by
  rfl

@[simp] theorem reset_inconsistent_m_scopes (s : solver) :
    s.reset_inconsistent.m_scopes = s.m_scopes := by
  rfl

@[simp] theorem clear_reinit_stack_m_scopes (s : solver) (off : clause_offset) :
    (s.clear_reinit_stack off).m_scopes = s.m_scopes := by
  rfl

@[simp] theorem push_m_diff_levels (s : solver) :
    s.push.m_diff_levels = s.m_diff_levels := by
  rfl

@[simp] theorem unassign_var_record_m_diff_levels (s : solver) (l : literal) :
    (s.unassign_var_record l).m_diff_levels = s.m_diff_levels := by
  rfl

@[simp] theorem unassign_var_lrb_m_diff_levels (s : solver) (v : bool_var) :
    (s.unassign_var_lrb v).m_diff_levels = s.m_diff_levels := by
  unfold unassign_var_lrb; split <;> (try split) <;> rfl

@[simp] theorem unassign_var_anti_exploration_m_diff_levels (s : solver) (v : bool_var) :
    (s.unassign_var_anti_exploration v).m_diff_levels = s.m_diff_levels := by
  unfold unassign_var_anti_exploration; split <;> rfl

@[simp] theorem unassign_var_m_diff_levels (s : solver) (l : literal) :
    (s.unassign_var l).m_diff_levels = s.m_diff_levels := by
  simp [unassign_var]

@[simp] theorem shrink_trail_m_diff_levels (s : solver) (n : Nat) :
    (s.shrink_trail n).m_diff_levels = s.m_diff_levels := by
  rfl

@[simp] theorem set_wlist_at_m_diff_levels (s : solver) (idx : Nat) (ws : List watched) :
    (s.set_wlist_at idx ws).m_diff_levels = s.m_diff_levels := by
  rfl

@[simp] theorem set_clauses_to_reinit_m_diff_levels (s : solver) (cws : List clause_wrapper) :
    (s.set_clauses_to_reinit cws).m_diff_levels = s.m_diff_levels := by
  rfl

@[simp] theorem reset_inconsistent_m_diff_levels (s : solver) :
    s.reset_inconsistent.m_diff_levels = s.m_diff_levels := by
  rfl

@[simp] theorem shrink_scopes_m_diff_levels (s : solver) (n k : Nat) :
    (s.shrink_scopes n k).m_diff_levels = s.m_diff_levels := by
  rfl

@[simp] theorem clear_reinit_stack_m_diff_levels (s : solver) (off : clause_offset) :
    (s.clear_reinit_stack off).m_diff_levels = s.m_diff_levels := by
  rfl

@[simp] theorem push_m_clauses_to_reinit (s : solver) :
    s.push.m_clauses_to_reinit = s.m_clauses_to_reinit := by
  rfl

@[simp] theorem unassign_var_record_m_clauses_to_reinit (s : solver) (l : literal) :
    (s.unassign_var_record l).m_clauses_to_reinit = s.m_clauses_to_reinit := by
  rfl

@[simp] theorem unassign_var_lrb_m_clauses_to_reinit (s : solver) (v : bool_var) :
    (s.unassign_var_lrb v).m_clauses_to_reinit = s.m_clauses_to_reinit := by
  unfold unassign_var_lrb; split <;> (try split) <;> rfl

@[simp] theorem unassign_var_anti_exploration_m_clauses_to_reinit (s : solver) (v : bool_var) :
    (s.unassign_var_anti_exploration v).m_clauses_to_reinit = s.m_clauses_to_reinit := by
  unfold unassign_var_anti_exploration; split <;> rfl

@[simp] theorem unassign_var_m_clauses_to_reinit (s : solver) (l : literal) :
    (s.unassign_var l).m_clauses_to_reinit = s.m_clauses_to_reinit := by
  simp [unassign_var]

@[simp] theorem shrink_trail_m_clauses_to_reinit (s : solver) (n : Nat) :
    (s.shrink_trail n).m_clauses_to_reinit = s.m_clauses_to_reinit := by
  rfl

@[simp] theorem set_wlist_at_m_clauses_to_reinit (s : solver) (idx : Nat) (ws : List watched) :
    (s.set_wlist_at idx ws).m_clauses_to_reinit = s.m_clauses_to_reinit := by
  rfl

@[simp] theorem reset_inconsistent_m_clauses_to_reinit (s : solver) :
    s.reset_inconsistent.m_clauses_to_reinit = s.m_clauses_to_reinit := by
  rfl

@[simp] theorem shrink_scopes_m_clauses_to_reinit (s : solver) (n k : Nat) :
    (s.shrink_scopes n k).m_clauses_to_reinit = s.m_clauses_to_reinit := by
  rfl

@[simp] theorem clear_reinit_stack_m_clauses_to_reinit (s : solver) (off : clause_offset) :
    (s.clear_reinit_stack off).m_clauses_to_reinit = s.m_clauses_to_reinit := by
  rfl

@[simp] theorem push_m_mark (s : solver) :
    s.push.m_mark = s.m_mark := by
  rfl

@[simp] theorem unassign_var_record_m_mark (s : solver) (l : literal) :
    (s.unassign_var_record l).m_mark = s.m_mark := by
  rfl

@[simp] theorem unassign_var_lrb_m_mark (s : solver) (v : bool_var) :
    (s.unassign_var_lrb v).m_mark = s.m_mark := by
  unfold unassign_var_lrb; split <;> (try split) <;> rfl

@[simp] theorem unassign_var_anti_exploration_m_mark (s : solver) (v : bool_var) :
    (s.unassign_var_anti_exploration v).m_mark = s.m_mark := by
  unfold unassign_var_anti_exploration; split <;> rfl

@[simp] theorem unassign_var_m_mark (s : solver) (l : literal) :
    (s.unassign_var l).m_mark = s.m_mark := by
  simp [unassign_var]

@[simp] theorem shrink_trail_m_mark (s : solver) (n : Nat) :
    (s.shrink_trail n).m_mark = s.m_mark := by
  rfl

@[simp] theorem set_wlist_at_m_mark (s : solver) (idx : Nat) (ws : List watched) :
    (s.set_wlist_at idx ws).m_mark = s.m_mark := by
  rfl

@[simp] theorem set_clauses_to_reinit_m_mark (s : solver) (cws : List clause_wrapper) :
    (s.set_clauses_to_reinit cws).m_mark = s.m_mark := by
  rfl

@[simp] theorem reset_inconsistent_m_mark (s : solver) :
    s.reset_inconsistent.m_mark = s.m_mark := by
  rfl

@[simp] theorem shrink_scopes_m_mark (s : solver) (n k : Nat) :
    (s.shrink_scopes n k).m_mark = s.m_mark := by
  rfl

@[simp] theorem clear_reinit_stack_m_mark (s : solver) (off : clause_offset) :
    (s.clear_reinit_stack off).m_mark = s.m_mark := by
  rfl

@[simp] theorem push_m_lemma (s : solver) :
    s.push.m_lemma = s.m_lemma := by
  rfl

@[simp] theorem unassign_var_record_m_lemma (s : solver) (l : literal) :
    (s.unassign_var_record l).m_lemma = s.m_lemma := by
  rfl

@[simp] theorem unassign_var_lrb_m_lemma (s : solver) (v : bool_var) :
    (s.unassign_var_lrb v).m_lemma = s.m_lemma := by
  unfold unassign_var_lrb; split <;> (try split) <;> rfl

@[simp] theorem unassign_var_anti_exploration_m_lemma (s : solver) (v : bool_var) :
    (s.unassign_var_anti_exploration v).m_lemma = s.m_lemma := by
  unfold unassign_var_anti_exploration; split <;> rfl

@[simp] theorem unassign_var_m_lemma (s : solver) (l : literal) :
    (s.unassign_var l).m_lemma = s.m_lemma := by
  simp [unassign_var]

@[simp] theorem shrink_trail_m_lemma (s : solver) (n : Nat) :
    (s.shrink_trail n).m_lemma = s.m_lemma := by
  rfl

@[simp] theorem set_wlist_at_m_lemma (s : solver) (idx : Nat) (ws : List watched) :
    (s.set_wlist_at idx ws).m_lemma = s.m_lemma := by
  rfl

@[simp] theorem set_clauses_to_reinit_m_lemma (s : solver) (cws : List clause_wrapper) :
    (s.set_clauses_to_reinit cws).m_lemma = s.m_lemma := by
  rfl

@[simp] theorem reset_inconsistent_m_lemma (s : solver) :
    s.reset_inconsistent.m_lemma = s.m_lemma := by
  rfl

@[simp] theorem shrink_scopes_m_lemma (s : solver) (n k : Nat) :
    (s.shrink_scopes n k).m_lemma = s.m_lemma := by
  rfl

@[simp] theorem clear_reinit_stack_m_lemma (s : solver) (off : clause_offset) :
    (s.clear_reinit_stack off).m_lemma = s.m_lemma := by
  rfl

@[simp] theorem push_m_core (s : solver) :
    s.push.m_core = s.m_core := by
  rfl

@[simp] theorem unassign_var_record_m_core (s : solver) (l : literal) :
    (s.unassign_var_record l).m_core = s.m_core := by
  rfl

@[simp] theorem unassign_var_lrb_m_core (s : solver) (v : bool_var) :
    (s.unassign_var_lrb v).m_core = s.m_core := by
  unfold unassign_var_lrb; split <;> (try split) <;> rfl

@[simp] theorem unassign_var_anti_exploration_m_core (s : solver) (v : bool_var) :
    (s.unassign_var_anti_exploration v).m_core = s.m_core := by
  unfold unassign_var_anti_exploration; split <;> rfl

@[simp] theorem unassign_var_m_core (s : solver) (l : literal) :
    (s.unassign_var l).m_core = s.m_core := by
  simp [unassign_var]

@[simp] theorem shrink_trail_m_core (s : solver) (n : Nat) :
    (s.shrink_trail n).m_core = s.m_core := by
  rfl

@[simp] theorem set_wlist_at_m_core (s : solver) (idx : Nat) (ws : List watched) :
    (s.set_wlist_at idx ws).m_core = s.m_core := by
  rfl

@[simp] theorem set_clauses_to_reinit_m_core (s : solver) (cws : List clause_wrapper) :
    (s.set_clauses_to_reinit cws).m_core = s.m_core := by
  rfl

@[simp] theorem reset_inconsistent_m_core (s : solver) :
    s.reset_inconsistent.m_core = s.m_core := by
  rfl

@[simp] theorem shrink_scopes_m_core (s : solver) (n k : Nat) :
    (s.shrink_scopes n k).m_core = s.m_core := by
  rfl

@[simp] theorem clear_reinit_stack_m_core (s : solver) (off : clause_offset) :
    (s.clear_reinit_stack off).m_core = s.m_core := by
  rfl

@[simp] theorem push_m_assumptions (s : solver) :
    s.push.m_assumptions = s.m_assumptions := by
  rfl

@[simp] theorem unassign_var_record_m_assumptions (s : solver) (l : literal) :
    (s.unassign_var_record l).m_assumptions = s.m_assumptions := by
  rfl

@[simp] theorem unassign_var_lrb_m_assumptions (s : solver) (v : bool_var) :
    (s.unassign_var_lrb v).m_assumptions = s.m_assumptions := by
  unfold unassign_var_lrb; split <;> (try split) <;> rfl

@[simp] theorem unassign_var_anti_exploration_m_assumptions (s : solver) (v : bool_var) :
    (s.unassign_var_anti_exploration v).m_assumptions = s.m_assumptions := by
  unfold unassign_var_anti_exploration; split <;> rfl

@[simp] theorem unassign_var_m_assumptions (s : solver) (l : literal) :
    (s.unassign_var l).m_assumptions = s.m_assumptions := by
  simp [unassign_var]

@[simp] theorem shrink_trail_m_assumptions (s : solver) (n : Nat) :
    (s.shrink_trail n).m_assumptions = s.m_assumptions := by
  rfl

@[simp] theorem set_wlist_at_m_assumptions (s : solver) (idx : Nat) (ws : List watched) :
    (s.set_wlist_at idx ws).m_assumptions = s.m_assumptions := by
  rfl

@[simp] theorem set_clauses_to_reinit_m_assumptions (s : solver) (cws : List clause_wrapper) :
    (s.set_clauses_to_reinit cws).m_assumptions = s.m_assumptions := by
  rfl

@[simp] theorem reset_inconsistent_m_assumptions (s : solver) :
    s.reset_inconsistent.m_assumptions = s.m_assumptions := by
  rfl

@[simp] theorem shrink_scopes_m_assumptions (s : solver) (n k : Nat) :
    (s.shrink_scopes n k).m_assumptions = s.m_assumptions := by
  rfl

@[simp] theorem clear_reinit_stack_m_assumptions (s : solver) (off : clause_offset) :
    (s.clear_reinit_stack off).m_assumptions = s.m_assumptions := by
  rfl

@[simp] theorem push_m_assumption_set (s : solver) :
    s.push.m_assumption_set = s.m_assumption_set := by
  rfl

@[simp] theorem unassign_var_record_m_assumption_set (s : solver) (l : literal) :
    (s.unassign_var_record l).m_assumption_set = s.m_assumption_set := by
  rfl

@[simp] theorem unassign_var_lrb_m_assumption_set (s : solver) (v : bool_var) :
    (s.unassign_var_lrb v).m_assumption_set = s.m_assumption_set := by
  unfold unassign_var_lrb; split <;> (try split) <;> rfl

@[simp] theorem unassign_var_anti_exploration_m_assumption_set (s : solver) (v : bool_var) :
    (s.unassign_var_anti_exploration v).m_assumption_set = s.m_assumption_set := by
  unfold unassign_var_anti_exploration; split <;> rfl

@[simp] theorem unassign_var_m_assumption_set (s : solver) (l : literal) :
    (s.unassign_var l).m_assumption_set = s.m_assumption_set := by
  simp [unassign_var]

@[simp] theorem shrink_trail_m_assumption_set (s : solver) (n : Nat) :
    (s.shrink_trail n).m_assumption_set = s.m_assumption_set := by
  rfl

@[simp] theorem set_wlist_at_m_assumption_set (s : solver) (idx : Nat) (ws : List watched) :
    (s.set_wlist_at idx ws).m_assumption_set = s.m_assumption_set := by
  rfl

@[simp] theorem set_clauses_to_reinit_m_assumption_set (s : solver) (cws : List clause_wrapper) :
    (s.set_clauses_to_reinit cws).m_assumption_set = s.m_assumption_set := by
  rfl

@[simp] theorem reset_inconsistent_m_assumption_set (s : solver) :
    s.reset_inconsistent.m_assumption_set = s.m_assumption_set := by
  rfl

@[simp] theorem shrink_scopes_m_assumption_set (s : solver) (n k : Nat) :
    (s.shrink_scopes n k).m_assumption_set = s.m_assumption_set := by
  rfl

@[simp] theorem clear_reinit_stack_m_assumption_set (s : solver) (off : clause_offset) :
    (s.clear_reinit_stack off).m_assumption_set = s.m_assumption_set := by
  rfl

@[simp] theorem push_m_unmark (s : solver) :
    s.push.m_unmark = s.m_unmark := by
  rfl

@[simp] theorem unassign_var_record_m_unmark (s : solver) (l : literal) :
    (s.unassign_var_record l).m_unmark = s.m_unmark := by
  rfl

@[simp] theorem unassign_var_lrb_m_unmark (s : solver) (v : bool_var) :
    (s.unassign_var_lrb v).m_unmark = s.m_unmark := by
  unfold unassign_var_lrb; split <;> (try split) <;> rfl

@[simp] theorem unassign_var_anti_exploration_m_unmark (s : solver) (v : bool_var) :
    (s.unassign_var_anti_exploration v).m_unmark = s.m_unmark := by
  unfold unassign_var_anti_exploration; split <;> rfl

@[simp] theorem unassign_var_m_unmark (s : solver) (l : literal) :
    (s.unassign_var l).m_unmark = s.m_unmark := by
  simp [unassign_var]

@[simp] theorem shrink_trail_m_unmark (s : solver) (n : Nat) :
    (s.shrink_trail n).m_unmark = s.m_unmark := by
  rfl

@[simp] theorem set_wlist_at_m_unmark (s : solver) (idx : Nat) (ws : List watched) :
    (s.set_wlist_at idx ws).m_unmark = s.m_unmark := by
  rfl

@[simp] theorem set_clauses_to_reinit_m_unmark (s : solver) (cws : List clause_wrapper) :
    (s.set_clauses_to_reinit cws).m_unmark = s.m_unmark := by
  rfl

@[simp] theorem reset_inconsistent_m_unmark (s : solver) :
    s.reset_inconsistent.m_unmark = s.m_unmark := by
  rfl

@[simp] theorem shrink_scopes_m_unmark (s : solver) (n k : Nat) :
    (s.shrink_scopes n k).m_unmark = s.m_unmark := by
  rfl

@[simp] theorem clear_reinit_stack_m_unmark (s : solver) (off : clause_offset) :
    (s.clear_reinit_stack off).m_unmark = s.m_unmark := by
  rfl

@[simp] theorem push_m_user_scope_literals (s : solver) :
    s.push.m_user_scope_literals = s.m_user_scope_literals := by
  rfl

@[simp] theorem unassign_var_record_m_user_scope_literals (s : solver) (l : literal) :
    (s.unassign_var_record l).m_user_scope_literals = s.m_user_scope_literals := by
  rfl

@[simp] theorem unassign_var_lrb_m_user_scope_literals (s : solver) (v : bool_var) :
    (s.unassign_var_lrb v).m_user_scope_literals = s.m_user_scope_literals := by
  unfold unassign_var_lrb; split <;> (try split) <;> rfl

@[simp] theorem unassign_var_anti_exploration_m_user_scope_literals (s : solver) (v : bool_var) :
    (s.unassign_var_anti_exploration v).m_user_scope_literals = s.m_user_scope_literals := by
  unfold unassign_var_anti_exploration; split <;> rfl

@[simp] theorem unassign_var_m_user_scope_literals (s : solver) (l : literal) :
    (s.unassign_var l).m_user_scope_literals = s.m_user_scope_literals := by
  simp [unassign_var]

@[simp] theorem shrink_trail_m_user_scope_literals (s : solver) (n : Nat) :
    (s.shrink_trail n).m_user_scope_literals = s.m_user_scope_literals := by
  rfl

@[simp] theorem set_wlist_at_m_user_scope_literals (s : solver) (idx : Nat) (ws : List watched) :
    (s.set_wlist_at idx ws).m_user_scope_literals = s.m_user_scope_literals := by
  rfl

@[simp] theorem set_clauses_to_reinit_m_user_scope_literals (s : solver) (cws : List clause_wrapper) :
    (s.set_clauses_to_reinit cws).m_user_scope_literals = s.m_user_scope_literals := by
  rfl

@[simp] theorem reset_inconsistent_m_user_scope_literals (s : solver) :
    s.reset_inconsistent.m_user_scope_literals = s.m_user_scope_literals := by
  rfl

@[simp] theorem shrink_scopes_m_user_scope_literals (s : solver) (n k : Nat) :
    (s.shrink_scopes n k).m_user_scope_literals = s.m_user_scope_literals := by
  rfl

@[simp] theorem clear_reinit_stack_m_user_scope_literals (s : solver) (off : clause_offset) :
    (s.clear_reinit_stack off).m_user_scope_literals = s.m_user_scope_literals := by
  rfl

@[simp] theorem push_m_conflict_lvl (s : solver) :
    s.push.m_conflict_lvl = s.m_conflict_lvl := by
  rfl

@[simp] theorem unassign_var_record_m_conflict_lvl (s : solver) (l : literal) :
    (s.unassign_var_record l).m_conflict_lvl = s.m_conflict_lvl := by
  rfl

@[simp] theorem unassign_var_lrb_m_conflict_lvl (s : solver) (v : bool_var) :
    (s.unassign_var_lrb v).m_conflict_lvl = s.m_conflict_lvl := by
  unfold unassign_var_lrb; split <;> (try split) <;> rfl

@[simp] theorem unassign_var_anti_exploration_m_conflict_lvl (s : solver) (v : bool_var) :
    (s.unassign_var_anti_exploration v).m_conflict_lvl = s.m_conflict_lvl := by
  unfold unassign_var_anti_exploration; split <;> rfl

@[simp] theorem unassign_var_m_conflict_lvl (s : solver) (l : literal) :
    (s.unassign_var l).m_conflict_lvl = s.m_conflict_lvl := by
  simp [unassign_var]

@[simp] theorem shrink_trail_m_conflict_lvl (s : solver) (n : Nat) :
    (s.shrink_trail n).m_conflict_lvl = s.m_conflict_lvl := by
  rfl

@[simp] theorem set_wlist_at_m_conflict_lvl (s : solver) (idx : Nat) (ws : List watched) :
    (s.set_wlist_at idx ws).m_conflict_lvl = s.m_conflict_lvl := by
  rfl

@[simp] theorem set_clauses_to_reinit_m_conflict_lvl (s : solver) (cws : List clause_wrapper) :
    (s.set_clauses_to_reinit cws).m_conflict_lvl = s.m_conflict_lvl := by
  rfl

@[simp] theorem reset_inconsistent_m_conflict_lvl (s : solver) :
    s.reset_inconsistent.m_conflict_lvl = s.m_conflict_lvl := by
  rfl

@[simp] theorem shrink_scopes_m_conflict_lvl (s : solver) (n k : Nat) :
    (s.shrink_scopes n k).m_conflict_lvl = s.m_conflict_lvl := by
  rfl

@[simp] theorem clear_reinit_stack_m_conflict_lvl (s : solver) (off : clause_offset) :
    (s.clear_reinit_stack off).m_conflict_lvl = s.m_conflict_lvl := by
  rfl

@[simp] theorem push_m_lemma_min_stack (s : solver) :
    s.push.m_lemma_min_stack = s.m_lemma_min_stack := by
  rfl

@[simp] theorem unassign_var_record_m_lemma_min_stack (s : solver) (l : literal) :
    (s.unassign_var_record l).m_lemma_min_stack = s.m_lemma_min_stack := by
  rfl

@[simp] theorem unassign_var_lrb_m_lemma_min_stack (s : solver) (v : bool_var) :
    (s.unassign_var_lrb v).m_lemma_min_stack = s.m_lemma_min_stack := by
  unfold unassign_var_lrb; split <;> (try split) <;> rfl

@[simp] theorem unassign_var_anti_exploration_m_lemma_min_stack (s : solver) (v : bool_var) :
    (s.unassign_var_anti_exploration v).m_lemma_min_stack = s.m_lemma_min_stack := by
  unfold unassign_var_anti_exploration; split <;> rfl

@[simp] theorem unassign_var_m_lemma_min_stack (s : solver) (l : literal) :
    (s.unassign_var l).m_lemma_min_stack = s.m_lemma_min_stack := by
  simp [unassign_var]

@[simp] theorem shrink_trail_m_lemma_min_stack (s : solver) (n : Nat) :
    (s.shrink_trail n).m_lemma_min_stack = s.m_lemma_min_stack := by
  rfl

@[simp] theorem set_wlist_at_m_lemma_min_stack (s : solver) (idx : Nat) (ws : List watched) :
    (s.set_wlist_at idx ws).m_lemma_min_stack = s.m_lemma_min_stack := by
  rfl

@[simp] theorem set_clauses_to_reinit_m_lemma_min_stack (s : solver) (cws : List clause_wrapper) :
    (s.set_clauses_to_reinit cws).m_lemma_min_stack = s.m_lemma_min_stack := by
  rfl

@[simp] theorem reset_inconsistent_m_lemma_min_stack (s : solver) :
    s.reset_inconsistent.m_lemma_min_stack = s.m_lemma_min_stack := by
  rfl

@[simp] theorem shrink_scopes_m_lemma_min_stack (s : solver) (n k : Nat) :
    (s.shrink_scopes n k).m_lemma_min_stack = s.m_lemma_min_stack := by
  rfl

@[simp] theorem clear_reinit_stack_m_lemma_min_stack (s : solver) (off : clause_offset) :
    (s.clear_reinit_stack off).m_lemma_min_stack = s.m_lemma_min_stack := by
  rfl

@[simp] theorem push_m_lvl_set (s : solver) :
    s.push.m_lvl_set = s.m_lvl_set := by
  rfl

@[simp] theorem unassign_var_record_m_lvl_set (s : solver) (l : literal) :
    (s.unassign_var_record l).m_lvl_set = s.m_lvl_set := by
  rfl

@[simp] theorem unassign_var_lrb_m_lvl_set (s : solver) (v : bool_var) :
    (s.unassign_var_lrb v).m_lvl_set = s.m_lvl_set := by
  unfold unassign_var_lrb; split <;> (try split) <;> rfl

@[simp] theorem unassign_var_anti_exploration_m_lvl_set (s : solver) (v : bool_var) :
    (s.unassign_var_anti_exploration v).m_lvl_set = s.m_lvl_set := by
  unfold unassign_var_anti_exploration; split <;> rfl

@[simp] theorem unassign_var_m_lvl_set (s : solver) (l : literal) :
    (s.unassign_var l).m_lvl_set = s.m_lvl_set := by
  simp [unassign_var]

@[simp] theorem shrink_trail_m_lvl_set (s : solver) (n : Nat) :
    (s.shrink_trail n).m_lvl_set = s.m_lvl_set := by
  rfl

@[simp] theorem set_wlist_at_m_lvl_set (s : solver) (idx : Nat) (ws : List watched) :
    (s.set_wlist_at idx ws).m_lvl_set = s.m_lvl_set := by
  rfl

@[simp] theorem set_clauses_to_reinit_m_lvl_set (s : solver) (cws : List clause_wrapper) :
    (s.set_clauses_to_reinit cws).m_lvl_set = s.m_lvl_set := by
  rfl

@[simp] theorem reset_inconsistent_m_lvl_set (s : solver) :
    s.reset_inconsistent.m_lvl_set = s.m_lvl_set := by
  rfl

@[simp] theorem shrink_scopes_m_lvl_set (s : solver) (n k : Nat) :
    (s.shrink_scopes n k).m_lvl_set = s.m_lvl_set := by
  rfl

@[simp] theorem clear_reinit_stack_m_lvl_set (s : solver) (off : clause_offset) :
    (s.clear_reinit_stack off).m_lvl_set = s.m_lvl_set := by
  rfl

@[simp] theorem push_m_ext_antecedents (s : solver) :
    s.push.m_ext_antecedents = s.m_ext_antecedents := by
  rfl

@[simp] theorem unassign_var_record_m_ext_antecedents (s : solver) (l : literal) :
    (s.unassign_var_record l).m_ext_antecedents = s.m_ext_antecedents := by
  rfl

@[simp] theorem unassign_var_lrb_m_ext_antecedents (s : solver) (v : bool_var) :
    (s.unassign_var_lrb v).m_ext_antecedents = s.m_ext_antecedents := by
  unfold unassign_var_lrb; split <;> (try split) <;> rfl

@[simp] theorem unassign_var_anti_exploration_m_ext_antecedents (s : solver) (v : bool_var) :
    (s.unassign_var_anti_exploration v).m_ext_antecedents = s.m_ext_antecedents := by
  unfold unassign_var_anti_exploration; split <;> rfl

@[simp] theorem unassign_var_m_ext_antecedents (s : solver) (l : literal) :
    (s.unassign_var l).m_ext_antecedents = s.m_ext_antecedents := by
  simp [unassign_var]

@[simp] theorem shrink_trail_m_ext_antecedents (s : solver) (n : Nat) :
    (s.shrink_trail n).m_ext_antecedents = s.m_ext_antecedents := by
  rfl

@[simp] theorem set_wlist_at_m_ext_antecedents (s : solver) (idx : Nat) (ws : List watched) :
    (s.set_wlist_at idx ws).m_ext_antecedents = s.m_ext_antecedents := by
  rfl

@[simp] theorem set_clauses_to_reinit_m_ext_antecedents (s : solver) (cws : List clause_wrapper) :
    (s.set_clauses_to_reinit cws).m_ext_antecedents = s.m_ext_antecedents := by
  rfl

@[simp] theorem reset_inconsistent_m_ext_antecedents (s : solver) :
    s.reset_inconsistent.m_ext_antecedents = s.m_ext_antecedents := by
  rfl

@[simp] theorem shrink_scopes_m_ext_antecedents (s : solver) (n k : Nat) :
    (s.shrink_scopes n k).m_ext_antecedents = s.m_ext_antecedents := by
  rfl

@[simp] theorem clear_reinit_stack_m_ext_antecedents (s : solver) (off : clause_offset) :
    (s.clear_reinit_stack off).m_ext_antecedents = s.m_ext_antecedents := by
  rfl

@[simp] theorem push_m_activity (s : solver) :
    s.push.m_activity = s.m_activity := by
  rfl

@[simp] theorem unassign_var_record_m_activity (s : solver) (l : literal) :
    (s.unassign_var_record l).m_activity = s.m_activity := by
  rfl

@[simp] theorem unassign_var_anti_exploration_m_activity (s : solver) (v : bool_var) :
    (s.unassign_var_anti_exploration v).m_activity = s.m_activity := by
  unfold unassign_var_anti_exploration; split <;> rfl

@[simp] theorem shrink_trail_m_activity (s : solver) (n : Nat) :
    (s.shrink_trail n).m_activity = s.m_activity := by
  rfl

@[simp] theorem set_wlist_at_m_activity (s : solver) (idx : Nat) (ws : List watched) :
    (s.set_wlist_at idx ws).m_activity = s.m_activity := by
  rfl

@[simp] theorem set_clauses_to_reinit_m_activity (s : solver) (cws : List clause_wrapper) :
    (s.set_clauses_to_reinit cws).m_activity = s.m_activity := by
  rfl

@[simp] theorem reset_inconsistent_m_activity (s : solver) :
    s.reset_inconsistent.m_activity = s.m_activity := by
  rfl

@[simp] theorem shrink_scopes_m_activity (s : solver) (n k : Nat) :
    (s.shrink_scopes n k).m_activity = s.m_activity := by
  rfl

@[simp] theorem clear_reinit_stack_m_activity (s : solver) (off : clause_offset) :
    (s.clear_reinit_stack off).m_activity = s.m_activity := by
  rfl

@[simp] theorem push_m_case_split_queue (s : solver) :
    s.push.m_case_split_queue = s.m_case_split_queue := by
  rfl

@[simp] theorem unassign_var_lrb_m_case_split_queue (s : solver) (v : bool_var) :
    (s.unassign_var_lrb v).m_case_split_queue = s.m_case_split_queue := by
  unfold unassign_var_lrb; split <;> (try split) <;> rfl

@[simp] theorem unassign_var_anti_exploration_m_case_split_queue (s : solver) (v : bool_var) :
    (s.unassign_var_anti_exploration v).m_case_split_queue = s.m_case_split_queue := by
  unfold unassign_var_anti_exploration; split <;> rfl

@[simp] theorem shrink_trail_m_case_split_queue (s : solver) (n : Nat) :
    (s.shrink_trail n).m_case_split_queue = s.m_case_split_queue := by
  rfl

@[simp] theorem set_wlist_at_m_case_split_queue (s : solver) (idx : Nat) (ws : List watched) :
    (s.set_wlist_at idx ws).m_case_split_queue = s.m_case_split_queue := by
  rfl

@[simp] theorem set_clauses_to_reinit_m_case_split_queue (s : solver) (cws : List clause_wrapper) :
    (s.set_clauses_to_reinit cws).m_case_split_queue = s.m_case_split_queue := by
  rfl

@[simp] theorem reset_inconsistent_m_case_split_queue (s : solver) :
    s.reset_inconsistent.m_case_split_queue = s.m_case_split_queue := by
  rfl

@[simp] theorem shrink_scopes_m_case_split_queue (s : solver) (n k : Nat) :
    (s.shrink_scopes n k).m_case_split_queue = s.m_case_split_queue := by
  rfl

@[simp] theorem clear_reinit_stack_m_case_split_queue (s : solver) (off : clause_offset) :
    (s.clear_reinit_stack off).m_case_split_queue = s.m_case_split_queue := by
  rfl

@[simp] theorem push_m_last_conflict (s : solver) :
    s.push.m_last_conflict = s.m_last_conflict := by
  rfl

@[simp] theorem unassign_var_record_m_last_conflict (s : solver) (l : literal) :
    (s.unassign_var_record l).m_last_conflict = s.m_last_conflict := by
  rfl

@[simp] theorem unassign_var_lrb_m_last_conflict (s : solver) (v : bool_var) :
    (s.unassign_var_lrb v).m_last_conflict = s.m_last_conflict := by
  unfold unassign_var_lrb; split <;> (try split) <;> rfl

@[simp] theorem unassign_var_anti_exploration_m_last_conflict (s : solver) (v : bool_var) :
    (s.unassign_var_anti_exploration v).m_last_conflict = s.m_last_conflict := by
  unfold unassign_var_anti_exploration; split <;> rfl

@[simp] theorem unassign_var_m_last_conflict (s : solver) (l : literal) :
    (s.unassign_var l).m_last_conflict = s.m_last_conflict := by
  simp [unassign_var]

@[simp] theorem shrink_trail_m_last_conflict (s : solver) (n : Nat) :
    (s.shrink_trail n).m_last_conflict = s.m_last_conflict := by
  rfl

@[simp] theorem set_wlist_at_m_last_conflict (s : solver) (idx : Nat) (ws : List watched) :
    (s.set_wlist_at idx ws).m_last_conflict = s.m_last_conflict := by
  rfl

@[simp] theorem set_clauses_to_reinit_m_last_conflict (s : solver) (cws : List clause_wrapper) :
    (s.set_clauses_to_reinit cws).m_last_conflict = s.m_last_conflict := by
  rfl

@[simp] theorem reset_inconsistent_m_last_conflict (s : solver) :
    s.reset_inconsistent.m_last_conflict = s.m_last_conflict := by
  rfl

@[simp] theorem shrink_scopes_m_last_conflict (s : solver) (n k : Nat) :
    (s.shrink_scopes n k).m_last_conflict = s.m_last_conflict := by
  rfl

@[simp] theorem clear_reinit_stack_m_last_conflict (s : solver) (off : clause_offset) :
    (s.clear_reinit_stack off).m_last_conflict = s.m_last_conflict := by
  rfl

/-! ## Frame lemmas of the conflict analysis helpers -/

@[simp] theorem mark_m_lit_mark (s : solver) (v : bool_var) :
    (s.mark v).m_lit_mark = s.m_lit_mark := by
  rfl

@[simp] theorem mark_m_lemma (s : solver) (v : bool_var) :
    (s.mark v).m_lemma = s.m_lemma := by
  rfl

@[simp] theorem mark_m_unmark (s : solver) (v : bool_var) :
    (s.mark v).m_unmark = s.m_unmark := by
  rfl

@[simp] theorem mark_m_lemma_min_stack (s : solver) (v : bool_var) :
    (s.mark v).m_lemma_min_stack = s.m_lemma_min_stack := by
  rfl

@[simp] theorem mark_m_lvl_set (s : solver) (v : bool_var) :
    (s.mark v).m_lvl_set = s.m_lvl_set := by
  rfl

@[simp] theorem mark_m_core (s : solver) (v : bool_var) :
    (s.mark v).m_core = s.m_core := by
  rfl

@[simp] theorem mark_m_ext_antecedents (s : solver) (v : bool_var) :
    (s.mark v).m_ext_antecedents = s.m_ext_antecedents := by
  rfl

@[simp] theorem reset_mark_m_lit_mark (s : solver) (v : bool_var) :
    (s.reset_mark v).m_lit_mark = s.m_lit_mark := by
  rfl

@[simp] theorem reset_mark_m_lemma (s : solver) (v : bool_var) :
    (s.reset_mark v).m_lemma = s.m_lemma := by
  rfl

@[simp] theorem reset_mark_m_unmark (s : solver) (v : bool_var) :
    (s.reset_mark v).m_unmark = s.m_unmark := by
  rfl

@[simp] theorem reset_mark_m_lemma_min_stack (s : solver) (v : bool_var) :
    (s.reset_mark v).m_lemma_min_stack = s.m_lemma_min_stack := by
  rfl

@[simp] theorem reset_mark_m_lvl_set (s : solver) (v : bool_var) :
    (s.reset_mark v).m_lvl_set = s.m_lvl_set := by
  rfl

@[simp] theorem reset_mark_m_core (s : solver) (v : bool_var) :
    (s.reset_mark v).m_core = s.m_core := by
  rfl

@[simp] theorem reset_mark_m_ext_antecedents (s : solver) (v : bool_var) :
    (s.reset_mark v).m_ext_antecedents = s.m_ext_antecedents := by
  rfl

@[simp] theorem mark_lit_m_mark (s : solver) (l : literal) :
    (s.mark_lit l).m_mark = s.m_mark := by
  rfl

@[simp] theorem mark_lit_m_lemma (s : solver) (l : literal) :
    (s.mark_lit l).m_lemma = s.m_lemma := by
  rfl

@[simp] theorem mark_lit_m_unmark (s : solver) (l : literal) :
    (s.mark_lit l).m_unmark = s.m_unmark := by
  rfl

@[simp] theorem mark_lit_m_lemma_min_stack (s : solver) (l : literal) :
    (s.mark_lit l).m_lemma_min_stack = s.m_lemma_min_stack := by
  rfl

@[simp] theorem mark_lit_m_lvl_set (s : solver) (l : literal) :
    (s.mark_lit l).m_lvl_set = s.m_lvl_set := by
  rfl

@[simp] theorem mark_lit_m_core (s : solver) (l : literal) :
    (s.mark_lit l).m_core = s.m_core := by
  rfl

@[simp] theorem mark_lit_m_ext_antecedents (s : solver) (l : literal) :
    (s.mark_lit l).m_ext_antecedents = s.m_ext_antecedents := by
  rfl

@[simp] theorem unmark_lit_m_mark (s : solver) (l : literal) :
    (s.unmark_lit l).m_mark = s.m_mark := by
  rfl

@[simp] theorem unmark_lit_m_lemma (s : solver) (l : literal) :
    (s.unmark_lit l).m_lemma = s.m_lemma := by
  rfl

@[simp] theorem unmark_lit_m_unmark (s : solver) (l : literal) :
    (s.unmark_lit l).m_unmark = s.m_unmark := by
  rfl

@[simp] theorem unmark_lit_m_lemma_min_stack (s : solver) (l : literal) :
    (s.unmark_lit l).m_lemma_min_stack = s.m_lemma_min_stack := by
  rfl

@[simp] theorem unmark_lit_m_lvl_set (s : solver) (l : literal) :
    (s.unmark_lit l).m_lvl_set = s.m_lvl_set := by
  rfl

@[simp] theorem unmark_lit_m_core (s : solver) (l : literal) :
    (s.unmark_lit l).m_core = s.m_core := by
  rfl

@[simp] theorem unmark_lit_m_ext_antecedents (s : solver) (l : literal) :
    (s.unmark_lit l).m_ext_antecedents = s.m_ext_antecedents := by
  rfl

@[simp] theorem push_unmark_m_mark (s : solver) (v : bool_var) :
    (s.push_unmark v).m_mark = s.m_mark := by
  rfl

@[simp] theorem push_unmark_m_lit_mark (s : solver) (v : bool_var) :
    (s.push_unmark v).m_lit_mark = s.m_lit_mark := by
  rfl

@[simp] theorem push_unmark_m_lemma (s : solver) (v : bool_var) :
    (s.push_unmark v).m_lemma = s.m_lemma := by
  rfl

@[simp] theorem push_unmark_m_lemma_min_stack (s : solver) (v : bool_var) :
    (s.push_unmark v).m_lemma_min_stack = s.m_lemma_min_stack := by
  rfl

@[simp] theorem push_unmark_m_lvl_set (s : solver) (v : bool_var) :
    (s.push_unmark v).m_lvl_set = s.m_lvl_set := by
  rfl

@[simp] theorem push_unmark_m_core (s : solver) (v : bool_var) :
    (s.push_unmark v).m_core = s.m_core := by
  rfl

@[simp] theorem push_unmark_m_ext_antecedents (s : solver) (v : bool_var) :
    (s.push_unmark v).m_ext_antecedents = s.m_ext_antecedents := by
  rfl

@[simp] theorem push_lemma_m_mark (s : solver) (l : literal) :
    (s.push_lemma l).m_mark = s.m_mark := by
  rfl

@[simp] theorem push_lemma_m_lit_mark (s : solver) (l : literal) :
    (s.push_lemma l).m_lit_mark = s.m_lit_mark := by
  rfl

@[simp] theorem push_lemma_m_unmark (s : solver) (l : literal) :
    (s.push_lemma l).m_unmark = s.m_unmark := by
  rfl

@[simp] theorem push_lemma_m_lemma_min_stack (s : solver) (l : literal) :
    (s.push_lemma l).m_lemma_min_stack = s.m_lemma_min_stack := by
  rfl

@[simp] theorem push_lemma_m_lvl_set (s : solver) (l : literal) :
    (s.push_lemma l).m_lvl_set = s.m_lvl_set := by
  rfl

@[simp] theorem push_lemma_m_core (s : solver) (l : literal) :
    (s.push_lemma l).m_core = s.m_core := by
  rfl

@[simp] theorem push_lemma_m_ext_antecedents (s : solver) (l : literal) :
    (s.push_lemma l).m_ext_antecedents = s.m_ext_antecedents := by
  rfl

@[simp] theorem push_core_m_mark (s : solver) (l : literal) :
    (s.push_core l).m_mark = s.m_mark := by
  rfl

@[simp] theorem push_core_m_lit_mark (s : solver) (l : literal) :
    (s.push_core l).m_lit_mark = s.m_lit_mark := by
  rfl

@[simp] theorem push_core_m_lemma (s : solver) (l : literal) :
    (s.push_core l).m_lemma = s.m_lemma := by
  rfl

@[simp] theorem push_core_m_unmark (s : solver) (l : literal) :
    (s.push_core l).m_unmark = s.m_unmark := by
  rfl

@[simp] theorem push_core_m_lemma_min_stack (s : solver) (l : literal) :
    (s.push_core l).m_lemma_min_stack = s.m_lemma_min_stack := by
  rfl

@[simp] theorem push_core_m_lvl_set (s : solver) (l : literal) :
    (s.push_core l).m_lvl_set = s.m_lvl_set := by
  rfl

@[simp] theorem push_core_m_ext_antecedents (s : solver) (l : literal) :
    (s.push_core l).m_ext_antecedents = s.m_ext_antecedents := by
  rfl

@[simp] theorem reset_core_m_mark (s : solver) :
    s.reset_core.m_mark = s.m_mark := by
  rfl

@[simp] theorem reset_core_m_lit_mark (s : solver) :
    s.reset_core.m_lit_mark = s.m_lit_mark := by
  rfl

@[simp] theorem reset_core_m_lemma (s : solver) :
    s.reset_core.m_lemma = s.m_lemma := by
  rfl

@[simp] theorem reset_core_m_unmark (s : solver) :
    s.reset_core.m_unmark = s.m_unmark := by
  rfl

@[simp] theorem reset_core_m_lemma_min_stack (s : solver) :
    s.reset_core.m_lemma_min_stack = s.m_lemma_min_stack := by
  rfl

@[simp] theorem reset_core_m_lvl_set (s : solver) :
    s.reset_core.m_lvl_set = s.m_lvl_set := by
  rfl

@[simp] theorem reset_core_m_ext_antecedents (s : solver) :
    s.reset_core.m_ext_antecedents = s.m_ext_antecedents := by
  rfl

@[simp] theorem init_lemma_m_mark (s : solver) :
    s.init_lemma.m_mark = s.m_mark := by
  rfl

@[simp] theorem init_lemma_m_lit_mark (s : solver) :
    s.init_lemma.m_lit_mark = s.m_lit_mark := by
  rfl

@[simp] theorem init_lemma_m_unmark (s : solver) :
    s.init_lemma.m_unmark = s.m_unmark := by
  rfl

@[simp] theorem init_lemma_m_lemma_min_stack (s : solver) :
    s.init_lemma.m_lemma_min_stack = s.m_lemma_min_stack := by
  rfl

@[simp] theorem init_lemma_m_lvl_set (s : solver) :
    s.init_lemma.m_lvl_set = s.m_lvl_set := by
  rfl

@[simp] theorem init_lemma_m_core (s : solver) :
    s.init_lemma.m_core = s.m_core := by
  rfl

@[simp] theorem init_lemma_m_ext_antecedents (s : solver) :
    s.init_lemma.m_ext_antecedents = s.m_ext_antecedents := by
  rfl

@[simp] theorem set_lemma_head_m_mark (s : solver) (l : literal) :
    (s.set_lemma_head l).m_mark = s.m_mark := by
  rfl

@[simp] theorem set_lemma_head_m_lit_mark (s : solver) (l : literal) :
    (s.set_lemma_head l).m_lit_mark = s.m_lit_mark := by
  rfl

@[simp] theorem set_lemma_head_m_unmark (s : solver) (l : literal) :
    (s.set_lemma_head l).m_unmark = s.m_unmark := by
  rfl

@[simp] theorem set_lemma_head_m_lemma_min_stack (s : solver) (l : literal) :
    (s.set_lemma_head l).m_lemma_min_stack = s.m_lemma_min_stack := by
  rfl

@[simp] theorem set_lemma_head_m_lvl_set (s : solver) (l : literal) :
    (s.set_lemma_head l).m_lvl_set = s.m_lvl_set := by
  rfl

@[simp] theorem set_lemma_head_m_core (s : solver) (l : literal) :
    (s.set_lemma_head l).m_core = s.m_core := by
  rfl

@[simp] theorem set_lemma_head_m_ext_antecedents (s : solver) (l : literal) :
    (s.set_lemma_head l).m_ext_antecedents = s.m_ext_antecedents := by
  rfl

@[simp] theorem shrink_unmark_m_mark (s : solver) (n : Nat) :
    (s.shrink_unmark n).m_mark = s.m_mark := by
  rfl

@[simp] theorem shrink_unmark_m_lit_mark (s : solver) (n : Nat) :
    (s.shrink_unmark n).m_lit_mark = s.m_lit_mark := by
  rfl

@[simp] theorem shrink_unmark_m_lemma (s : solver) (n : Nat) :
    (s.shrink_unmark n).m_lemma = s.m_lemma := by
  rfl

@[simp] theorem shrink_unmark_m_lemma_min_stack (s : solver) (n : Nat) :
    (s.shrink_unmark n).m_lemma_min_stack = s.m_lemma_min_stack := by
  rfl

@[simp] theorem shrink_unmark_m_lvl_set (s : solver) (n : Nat) :
    (s.shrink_unmark n).m_lvl_set = s.m_lvl_set := by
  rfl

@[simp] theorem shrink_unmark_m_core (s : solver) (n : Nat) :
    (s.shrink_unmark n).m_core = s.m_core := by
  rfl

@[simp] theorem shrink_unmark_m_ext_antecedents (s : solver) (n : Nat) :
    (s.shrink_unmark n).m_ext_antecedents = s.m_ext_antecedents := by
  rfl

@[simp] theorem push_lemma_min_stack_m_mark (s : solver) (v : bool_var) :
    (s.push_lemma_min_stack v).m_mark = s.m_mark := by
  rfl

@[simp] theorem push_lemma_min_stack_m_lit_mark (s : solver) (v : bool_var) :
    (s.push_lemma_min_stack v).m_lit_mark = s.m_lit_mark := by
  rfl

@[simp] theorem push_lemma_min_stack_m_lemma (s : solver) (v : bool_var) :
    (s.push_lemma_min_stack v).m_lemma = s.m_lemma := by
  rfl

@[simp] theorem push_lemma_min_stack_m_unmark (s : solver) (v : bool_var) :
    (s.push_lemma_min_stack v).m_unmark = s.m_unmark := by
  rfl

@[simp] theorem push_lemma_min_stack_m_lvl_set (s : solver) (v : bool_var) :
    (s.push_lemma_min_stack v).m_lvl_set = s.m_lvl_set := by
  rfl

@[simp] theorem push_lemma_min_stack_m_core (s : solver) (v : bool_var) :
    (s.push_lemma_min_stack v).m_core = s.m_core := by
  rfl

@[simp] theorem push_lemma_min_stack_m_ext_antecedents (s : solver) (v : bool_var) :
    (s.push_lemma_min_stack v).m_ext_antecedents = s.m_ext_antecedents := by
  rfl

@[simp] theorem pop_lemma_min_stack_m_mark (s : solver) :
    s.pop_lemma_min_stack.m_mark = s.m_mark := by
  rfl

@[simp] theorem pop_lemma_min_stack_m_lit_mark (s : solver) :
    s.pop_lemma_min_stack.m_lit_mark = s.m_lit_mark := by
  rfl

@[simp] theorem pop_lemma_min_stack_m_lemma (s : solver) :
    s.pop_lemma_min_stack.m_lemma = s.m_lemma := by
  rfl

@[simp] theorem pop_lemma_min_stack_m_unmark (s : solver) :
    s.pop_lemma_min_stack.m_unmark = s.m_unmark := by
  rfl

@[simp] theorem pop_lemma_min_stack_m_lvl_set (s : solver) :
    s.pop_lemma_min_stack.m_lvl_set = s.m_lvl_set := by
  rfl

@[simp] theorem pop_lemma_min_stack_m_core (s : solver) :
    s.pop_lemma_min_stack.m_core = s.m_core := by
  rfl

@[simp] theorem pop_lemma_min_stack_m_ext_antecedents (s : solver) :
    s.pop_lemma_min_stack.m_ext_antecedents = s.m_ext_antecedents := by
  rfl

@[simp] theorem init_lemma_min_stack_m_mark (s : solver) (v : bool_var) :
    (s.init_lemma_min_stack v).m_mark = s.m_mark := by
  rfl

@[simp] theorem init_lemma_min_stack_m_lit_mark (s : solver) (v : bool_var) :
    (s.init_lemma_min_stack v).m_lit_mark = s.m_lit_mark := by
  rfl

@[simp] theorem init_lemma_min_stack_m_lemma (s : solver) (v : bool_var) :
    (s.init_lemma_min_stack v).m_lemma = s.m_lemma := by
  rfl

@[simp] theorem init_lemma_min_stack_m_unmark (s : solver) (v : bool_var) :
    (s.init_lemma_min_stack v).m_unmark = s.m_unmark := by
  rfl

@[simp] theorem init_lemma_min_stack_m_lvl_set (s : solver) (v : bool_var) :
    (s.init_lemma_min_stack v).m_lvl_set = s.m_lvl_set := by
  rfl

@[simp] theorem init_lemma_min_stack_m_core (s : solver) (v : bool_var) :
    (s.init_lemma_min_stack v).m_core = s.m_core := by
  rfl

@[simp] theorem init_lemma_min_stack_m_ext_antecedents (s : solver) (v : bool_var) :
    (s.init_lemma_min_stack v).m_ext_antecedents = s.m_ext_antecedents := by
  rfl

@[simp] theorem updt_lemma_lvl_set_m_mark (s : solver) :
    s.updt_lemma_lvl_set.m_mark = s.m_mark := by
  rfl

@[simp] theorem updt_lemma_lvl_set_m_lit_mark (s : solver) :
    s.updt_lemma_lvl_set.m_lit_mark = s.m_lit_mark := by
  rfl

@[simp] theorem updt_lemma_lvl_set_m_lemma (s : solver) :
    s.updt_lemma_lvl_set.m_lemma = s.m_lemma := by
  rfl

@[simp] theorem updt_lemma_lvl_set_m_unmark (s : solver) :
    s.updt_lemma_lvl_set.m_unmark = s.m_unmark := by
  rfl

@[simp] theorem updt_lemma_lvl_set_m_lemma_min_stack (s : solver) :
    s.updt_lemma_lvl_set.m_lemma_min_stack = s.m_lemma_min_stack := by
  rfl

@[simp] theorem updt_lemma_lvl_set_m_core (s : solver) :
    s.updt_lemma_lvl_set.m_core = s.m_core := by
  rfl

@[simp] theorem updt_lemma_lvl_set_m_ext_antecedents (s : solver) :
    s.updt_lemma_lvl_set.m_ext_antecedents = s.m_ext_antecedents := by
  rfl

@[simp] theorem set_minimized_lemma_m_mark (s : solver) (lits : List literal) :
    (s.set_minimized_lemma lits).m_mark = s.m_mark := by
  rfl

@[simp] theorem set_minimized_lemma_m_lit_mark (s : solver) (lits : List literal) :
    (s.set_minimized_lemma lits).m_lit_mark = s.m_lit_mark := by
  rfl

@[simp] theorem set_minimized_lemma_m_unmark (s : solver) (lits : List literal) :
    (s.set_minimized_lemma lits).m_unmark = s.m_unmark := by
  rfl

@[simp] theorem set_minimized_lemma_m_lemma_min_stack (s : solver) (lits : List literal) :
    (s.set_minimized_lemma lits).m_lemma_min_stack = s.m_lemma_min_stack := by
  rfl

@[simp] theorem set_minimized_lemma_m_lvl_set (s : solver) (lits : List literal) :
    (s.set_minimized_lemma lits).m_lvl_set = s.m_lvl_set := by
  rfl

@[simp] theorem set_minimized_lemma_m_core (s : solver) (lits : List literal) :
    (s.set_minimized_lemma lits).m_core = s.m_core := by
  rfl

@[simp] theorem set_minimized_lemma_m_ext_antecedents (s : solver) (lits : List literal) :
    (s.set_minimized_lemma lits).m_ext_antecedents = s.m_ext_antecedents := by
  rfl

@[simp] theorem set_dyn_sub_res_lemma_m_mark (s : solver) (lits : List literal) :
    (s.set_dyn_sub_res_lemma lits).m_mark = s.m_mark := by
  rfl

@[simp] theorem set_dyn_sub_res_lemma_m_lit_mark (s : solver) (lits : List literal) :
    (s.set_dyn_sub_res_lemma lits).m_lit_mark = s.m_lit_mark := by
  rfl

@[simp] theorem set_dyn_sub_res_lemma_m_unmark (s : solver) (lits : List literal) :
    (s.set_dyn_sub_res_lemma lits).m_unmark = s.m_unmark := by
  rfl

@[simp] theorem set_dyn_sub_res_lemma_m_lemma_min_stack (s : solver) (lits : List literal) :
    (s.set_dyn_sub_res_lemma lits).m_lemma_min_stack = s.m_lemma_min_stack := by
  rfl

@[simp] theorem set_dyn_sub_res_lemma_m_lvl_set (s : solver) (lits : List literal) :
    (s.set_dyn_sub_res_lemma lits).m_lvl_set = s.m_lvl_set := by
  rfl

@[simp] theorem set_dyn_sub_res_lemma_m_core (s : solver) (lits : List literal) :
    (s.set_dyn_sub_res_lemma lits).m_core = s.m_core := by
  rfl

@[simp] theorem set_dyn_sub_res_lemma_m_ext_antecedents (s : solver) (lits : List literal) :
    (s.set_dyn_sub_res_lemma lits).m_ext_antecedents = s.m_ext_antecedents := by
  rfl

@[simp] theorem bump_activity_m_mark (s : solver) (v : bool_var) :
    (s.bump_activity v).m_mark = s.m_mark := by
  rfl

@[simp] theorem bump_activity_m_lit_mark (s : solver) (v : bool_var) :
    (s.bump_activity v).m_lit_mark = s.m_lit_mark := by
  rfl

@[simp] theorem bump_activity_m_lemma (s : solver) (v : bool_var) :
    (s.bump_activity v).m_lemma = s.m_lemma := by
  rfl

@[simp] theorem bump_activity_m_unmark (s : solver) (v : bool_var) :
    (s.bump_activity v).m_unmark = s.m_unmark := by
  rfl

@[simp] theorem bump_activity_m_lemma_min_stack (s : solver) (v : bool_var) :
    (s.bump_activity v).m_lemma_min_stack = s.m_lemma_min_stack := by
  rfl

@[simp] theorem bump_activity_m_lvl_set (s : solver) (v : bool_var) :
    (s.bump_activity v).m_lvl_set = s.m_lvl_set := by
  rfl

@[simp] theorem bump_activity_m_core (s : solver) (v : bool_var) :
    (s.bump_activity v).m_core = s.m_core := by
  rfl

@[simp] theorem bump_activity_m_ext_antecedents (s : solver) (v : bool_var) :
    (s.bump_activity v).m_ext_antecedents = s.m_ext_antecedents := by
  rfl

@[simp] theorem rescale_activity_m_mark (s : solver) :
    s.rescale_activity.m_mark = s.m_mark := by
  rfl

@[simp] theorem rescale_activity_m_lit_mark (s : solver) :
    s.rescale_activity.m_lit_mark = s.m_lit_mark := by
  rfl

@[simp] theorem rescale_activity_m_lemma (s : solver) :
    s.rescale_activity.m_lemma = s.m_lemma := by
  rfl

@[simp] theorem rescale_activity_m_unmark (s : solver) :
    s.rescale_activity.m_unmark = s.m_unmark := by
  rfl

@[simp] theorem rescale_activity_m_lemma_min_stack (s : solver) :
    s.rescale_activity.m_lemma_min_stack = s.m_lemma_min_stack := by
  rfl

@[simp] theorem rescale_activity_m_lvl_set (s : solver) :
    s.rescale_activity.m_lvl_set = s.m_lvl_set := by
  rfl

@[simp] theorem rescale_activity_m_core (s : solver) :
    s.rescale_activity.m_core = s.m_core := by
  rfl

@[simp] theorem rescale_activity_m_ext_antecedents (s : solver) :
    s.rescale_activity.m_ext_antecedents = s.m_ext_antecedents := by
  rfl

@[simp] theorem fill_ext_antecedents_m_mark (E : collaborators) (s : solver) (c : literal) (idx : Nat) :
    (s.fill_ext_antecedents E c idx).m_mark = s.m_mark := by
  rfl

@[simp] theorem fill_ext_antecedents_m_lit_mark (E : collaborators) (s : solver) (c : literal) (idx : Nat) :
    (s.fill_ext_antecedents E c idx).m_lit_mark = s.m_lit_mark := by
  rfl

@[simp] theorem fill_ext_antecedents_m_lemma (E : collaborators) (s : solver) (c : literal) (idx : Nat) :
    (s.fill_ext_antecedents E c idx).m_lemma = s.m_lemma := by
  rfl

@[simp] theorem fill_ext_antecedents_m_unmark (E : collaborators) (s : solver) (c : literal) (idx : Nat) :
    (s.fill_ext_antecedents E c idx).m_unmark = s.m_unmark := by
  rfl

@[simp] theorem fill_ext_antecedents_m_lemma_min_stack (E : collaborators) (s : solver) (c : literal) (idx : Nat) :
    (s.fill_ext_antecedents E c idx).m_lemma_min_stack = s.m_lemma_min_stack := by
  rfl

@[simp] theorem fill_ext_antecedents_m_lvl_set (E : collaborators) (s : solver) (c : literal) (idx : Nat) :
    (s.fill_ext_antecedents E c idx).m_lvl_set = s.m_lvl_set := by
  rfl

@[simp] theorem fill_ext_antecedents_m_core (E : collaborators) (s : solver) (c : literal) (idx : Nat) :
    (s.fill_ext_antecedents E c idx).m_core = s.m_core := by
  rfl

@[simp] theorem inc_activity_m_mark (s : solver) (v : bool_var) :
    (s.inc_activity v).m_mark = s.m_mark := by
  unfold inc_activity; split <;> rfl

@[simp] theorem inc_activity_m_lit_mark (s : solver) (v : bool_var) :
    (s.inc_activity v).m_lit_mark = s.m_lit_mark := by
  unfold inc_activity; split <;> rfl

@[simp] theorem inc_activity_m_lemma (s : solver) (v : bool_var) :
    (s.inc_activity v).m_lemma = s.m_lemma := by
  unfold inc_activity; split <;> rfl

@[simp] theorem inc_activity_m_unmark (s : solver) (v : bool_var) :
    (s.inc_activity v).m_unmark = s.m_unmark := by
  unfold inc_activity; split <;> rfl

@[simp] theorem inc_activity_m_lemma_min_stack (s : solver) (v : bool_var) :
    (s.inc_activity v).m_lemma_min_stack = s.m_lemma_min_stack := by
  unfold inc_activity; split <;> rfl

@[simp] theorem inc_activity_m_lvl_set (s : solver) (v : bool_var) :
    (s.inc_activity v).m_lvl_set = s.m_lvl_set := by
  unfold inc_activity; split <;> rfl

@[simp] theorem inc_activity_m_core (s : solver) (v : bool_var) :
    (s.inc_activity v).m_core = s.m_core := by
  unfold inc_activity; split <;> rfl

@[simp] theorem inc_activity_m_ext_antecedents (s : solver) (v : bool_var) :
    (s.inc_activity v).m_ext_antecedents = s.m_ext_antecedents := by
  unfold inc_activity; split <;> rfl

@[simp] theorem process_antecedent_bump_m_mark (s : solver) (v : bool_var) :
    (s.process_antecedent_bump v).m_mark = s.m_mark := by
  unfold process_antecedent_bump; split <;> first | rfl | exact inc_activity_m_mark s v

@[simp] theorem process_antecedent_bump_m_lit_mark (s : solver) (v : bool_var) :
    (s.process_antecedent_bump v).m_lit_mark = s.m_lit_mark := by
  unfold process_antecedent_bump; split <;> first | rfl | exact inc_activity_m_lit_mark s v

@[simp] theorem process_antecedent_bump_m_lemma (s : solver) (v : bool_var) :
    (s.process_antecedent_bump v).m_lemma = s.m_lemma := by
  unfold process_antecedent_bump; split <;> first | rfl | exact inc_activity_m_lemma s v

@[simp] theorem process_antecedent_bump_m_unmark (s : solver) (v : bool_var) :
    (s.process_antecedent_bump v).m_unmark = s.m_unmark := by
  unfold process_antecedent_bump; split <;> first | rfl | exact inc_activity_m_unmark s v

@[simp] theorem process_antecedent_bump_m_lemma_min_stack (s : solver) (v : bool_var) :
    (s.process_antecedent_bump v).m_lemma_min_stack = s.m_lemma_min_stack := by
  unfold process_antecedent_bump; split <;> first | rfl | exact inc_activity_m_lemma_min_stack s v

@[simp] theorem process_antecedent_bump_m_lvl_set (s : solver) (v : bool_var) :
    (s.process_antecedent_bump v).m_lvl_set = s.m_lvl_set := by
  unfold process_antecedent_bump; split <;> first | rfl | exact inc_activity_m_lvl_set s v

@[simp] theorem process_antecedent_bump_m_core (s : solver) (v : bool_var) :
    (s.process_antecedent_bump v).m_core = s.m_core := by
  unfold process_antecedent_bump; split <;> first | rfl | exact inc_activity_m_core s v

@[simp] theorem process_antecedent_bump_m_ext_antecedents (s : solver) (v : bool_var) :
    (s.process_antecedent_bump v).m_ext_antecedents = s.m_ext_antecedents := by
  unfold process_antecedent_bump; split <;> first | rfl | exact inc_activity_m_ext_antecedents s v

@[simp] theorem fill_antecedents_m_mark (E : collaborators) (s : solver) (c : literal) (js : justification) :
    (fill_antecedents E s c js).m_mark = s.m_mark := by
  cases js <;> rfl

@[simp] theorem fill_antecedents_m_lit_mark (E : collaborators) (s : solver) (c : literal) (js : justification) :
    (fill_antecedents E s c js).m_lit_mark = s.m_lit_mark := by
  cases js <;> rfl

@[simp] theorem fill_antecedents_m_lemma (E : collaborators) (s : solver) (c : literal) (js : justification) :
    (fill_antecedents E s c js).m_lemma = s.m_lemma := by
  cases js <;> rfl

@[simp] theorem fill_antecedents_m_unmark (E : collaborators) (s : solver) (c : literal) (js : justification) :
    (fill_antecedents E s c js).m_unmark = s.m_unmark := by
  cases js <;> rfl

@[simp] theorem fill_antecedents_m_lemma_min_stack (E : collaborators) (s : solver) (c : literal) (js : justification) :
    (fill_antecedents E s c js).m_lemma_min_stack = s.m_lemma_min_stack := by
  cases js <;> rfl

@[simp] theorem fill_antecedents_m_lvl_set (E : collaborators) (s : solver) (c : literal) (js : justification) :
    (fill_antecedents E s c js).m_lvl_set = s.m_lvl_set := by
  cases js <;> rfl

@[simp] theorem fill_antecedents_m_core (E : collaborators) (s : solver) (c : literal) (js : justification) :
    (fill_antecedents E s c js).m_core = s.m_core := by
  cases js <;> rfl

@[simp] theorem fill_minimization_antecedents_m_mark (E : collaborators) (s : solver) (v : bool_var) (js : justification) :
    (fill_minimization_antecedents E s v js).m_mark = s.m_mark := by
  cases js <;> rfl

@[simp] theorem fill_minimization_antecedents_m_lit_mark (E : collaborators) (s : solver) (v : bool_var) (js : justification) :
    (fill_minimization_antecedents E s v js).m_lit_mark = s.m_lit_mark := by
  cases js <;> rfl

@[simp] theorem fill_minimization_antecedents_m_lemma (E : collaborators) (s : solver) (v : bool_var) (js : justification) :
    (fill_minimization_antecedents E s v js).m_lemma = s.m_lemma := by
  cases js <;> rfl

@[simp] theorem fill_minimization_antecedents_m_unmark (E : collaborators) (s : solver) (v : bool_var) (js : justification) :
    (fill_minimization_antecedents E s v js).m_unmark = s.m_unmark := by
  cases js <;> rfl

@[simp] theorem fill_minimization_antecedents_m_lemma_min_stack (E : collaborators) (s : solver) (v : bool_var) (js : justification) :
    (fill_minimization_antecedents E s v js).m_lemma_min_stack = s.m_lemma_min_stack := by
  cases js <;> rfl

@[simp] theorem fill_minimization_antecedents_m_lvl_set (E : collaborators) (s : solver) (v : bool_var) (js : justification) :
    (fill_minimization_antecedents E s v js).m_lvl_set = s.m_lvl_set := by
  cases js <;> rfl

@[simp] theorem fill_minimization_antecedents_m_core (E : collaborators) (s : solver) (v : bool_var) (js : justification) :
    (fill_minimization_antecedents E s v js).m_core = s.m_core := by
  cases js <;> rfl

@[simp] theorem decay_activity_m_mark (s : solver) :
    s.decay_activity.m_mark = s.m_mark := by
  rfl

@[simp] theorem decay_activity_m_lit_mark (s : solver) :
    s.decay_activity.m_lit_mark = s.m_lit_mark := by
  rfl

@[simp] theorem decay_activity_m_lemma (s : solver) :
    s.decay_activity.m_lemma = s.m_lemma := by
  rfl

@[simp] theorem decay_activity_m_unmark (s : solver) :
    s.decay_activity.m_unmark = s.m_unmark := by
  rfl

@[simp] theorem decay_activity_m_lemma_min_stack (s : solver) :
    s.decay_activity.m_lemma_min_stack = s.m_lemma_min_stack := by
  rfl

@[simp] theorem decay_activity_m_lvl_set (s : solver) :
    s.decay_activity.m_lvl_set = s.m_lvl_set := by
  rfl

@[simp] theorem decay_activity_m_core (s : solver) :
    s.decay_activity.m_core = s.m_core := by
  rfl

@[simp] theorem decay_activity_m_ext_antecedents (s : solver) :
    s.decay_activity.m_ext_antecedents = s.m_ext_antecedents := by
  rfl

@[simp] theorem count_conflict_m_mark (s : solver) :
    s.count_conflict.m_mark = s.m_mark := by
  rfl

@[simp] theorem count_conflict_m_lit_mark (s : solver) :
    s.count_conflict.m_lit_mark = s.m_lit_mark := by
  rfl

@[simp] theorem count_conflict_m_lemma (s : solver) :
    s.count_conflict.m_lemma = s.m_lemma := by
  rfl

@[simp] theorem count_conflict_m_unmark (s : solver) :
    s.count_conflict.m_unmark = s.m_unmark := by
  rfl

@[simp] theorem count_conflict_m_lemma_min_stack (s : solver) :
    s.count_conflict.m_lemma_min_stack = s.m_lemma_min_stack := by
  rfl

@[simp] theorem count_conflict_m_lvl_set (s : solver) :
    s.count_conflict.m_lvl_set = s.m_lvl_set := by
  rfl

@[simp] theorem count_conflict_m_core (s : solver) :
    s.count_conflict.m_core = s.m_core := by
  rfl

@[simp] theorem count_conflict_m_ext_antecedents (s : solver) :
    s.count_conflict.m_ext_antecedents = s.m_ext_antecedents := by
  rfl

/-! ## Literals -/

theorem literal_neg_index (l : literal) :
    l.neg.index = if l.index % 2 = 0 then l.index + 1 else l.index - 1 := by
  simp only [literal.neg, literal.index]
  have h1 := @Nat.xor_div_two l.m_val 1
  have h2 := @Nat.xor_mod_two_eq l.m_val 1
  simp at h1
  split <;> omega

theorem literal_neg_index_ne (l : literal) : l.neg.index ≠ l.index := by
  rw [literal_neg_index]; split <;> omega

theorem literal_neg_ne (l : literal) : l.neg ≠ l := by
  intro h
  exact literal_neg_index_ne l (by rw [h])

theorem literal_neg_var (l : literal) : l.neg.var = l.var := by
  simp only [literal.neg, literal.var]
  have h1 := @Nat.xor_div_two l.m_val 1
  simpa using h1

theorem literal_neg_neg (l : literal) : l.neg.neg = l := by
  have h1 := literal_neg_index l
  have h2 := literal_neg_index l.neg
  cases l with
  | mk v =>
    have : (literal.mk v).neg.neg.m_val = v := by
      simp only [literal.index] at h1 h2
      rw [h2, h1]
      split <;> split <;> simp_all <;> omega
    cases h : (literal.mk v).neg.neg with
    | mk w => simp [h] at this; simp [this]

theorem literal_ext_index {a b : literal} (h : a.index = b.index) : a = b := by
  cases a; cases b; simp_all [literal.index]

theorem index_lt_of_var (l : literal) (n : Nat) (h : 2 * l.var + 1 < n) :
    l.index < n ∧ l.neg.index < n := by
  have h1 : 2 * (l.m_val / 2) + 1 < n := h
  constructor
  · show l.m_val < n
    omega
  · rw [literal_neg_index]
    show (if l.m_val % 2 = 0 then l.m_val + 1 else l.m_val - 1) < n
    split <;> omega


/-! ## Watch lists -/

theorem getD_set_self {α : Type} (xs : List α) (i : Nat) (a d : α) (h : i < xs.length) :
    (xs.set i a).getD i d = a := by
  simp [List.getD_eq_getElem?_getD, List.getElem?_set, h]

theorem getD_set_ne {α : Type} (xs : List α) (i j : Nat) (a d : α) (h : i ≠ j) :
    (xs.set i a).getD j d = xs.getD j d := by
  simp [List.getD_eq_getElem?_getD, List.getElem?_set, h]

theorem get_wlist_set_wlist (s : solver) (l : literal) (ws : List watched)
    (h : l.index < s.m_watches.length) : (s.set_wlist l ws).get_wlist l.index = ws := by
  unfold set_wlist get_wlist
  exact getD_set_self _ _ _ _ h

@[simp] theorem set_wlist_m_watches_length (s : solver) (l : literal) (ws : List watched) :
    (s.set_wlist l ws).m_watches.length = s.m_watches.length := by
  simp [set_wlist]

@[simp] theorem push_watch_m_watches_length (s : solver) (idx : Nat) (w : watched) :
    (s.push_watch idx w).m_watches.length = s.m_watches.length := by
  simp [push_watch]

@[simp] theorem get_wlist_set_conflict (s : solver) (j : justification) (l : literal) (idx : Nat) :
    (s.set_conflict j l).get_wlist idx = s.get_wlist idx := by
  simp [get_wlist]

theorem propagate_binary_m_watches (s : solver) (not_l l1 : literal) (learned : Bool) :
    (propagate_binary s not_l l1 learned).1.m_watches = s.m_watches := by
  unfold propagate_binary
  split <;> simp

theorem propagate_ternary_m_watches (s : solver) (not_l l1 l2 : literal) :
    (propagate_ternary s not_l l1 l2).1.m_watches = s.m_watches := by
  unfold propagate_ternary
  simp only
  split
  · simp
  · split
    · simp
    · split <;> simp

theorem propagate_clause_unit_m_watches (s : solver) (update : Bool) (blocked : literal)
    (off : clause_offset) (c : clause) :
    (propagate_clause_unit s update blocked off c).1.m_watches = s.m_watches := by
  unfold propagate_clause_unit
  split <;> simp

theorem propagate_clause_replace_m_watches_length (s : solver) (not_l : literal)
    (off : clause_offset) (c : clause) (k : Nat) :
    (propagate_clause_replace s not_l off c k).1.m_watches.length = s.m_watches.length := by
  simp [propagate_clause_replace]

theorem propagate_clause_watched_m_watches_length (s : solver) (update : Bool)
    (not_l blocked : literal) (off : clause_offset) (c : clause) :
    (propagate_clause_watched s update not_l blocked off c).1.m_watches.length
      = s.m_watches.length := by
  unfold propagate_clause_watched
  split
  · rfl
  · split
    · exact propagate_clause_replace_m_watches_length _ _ _ _ _
    · rw [propagate_clause_unit_m_watches]

theorem propagate_clause_m_watches_length (s : solver) (update : Bool) (not_l blocked : literal)
    (off : clause_offset) :
    (propagate_clause s update not_l blocked off).1.m_watches.length = s.m_watches.length := by
  unfold propagate_clause
  split
  · rfl
  · dsimp only
    generalize (s.get_clause off).swap_watch not_l = c
    split
    · simp
    · rw [propagate_clause_watched_m_watches_length]; simp

theorem propagate_watch_m_watches_length {ext : ext_propagate} (hext : ext_ok ext)
    (update : Bool) (s : solver) (l : literal) (w : watched) :
    (propagate_watch ext update s l w).1.m_watches.length = s.m_watches.length := by
  cases w with
  | binary l1 learned => simp [propagate_watch, propagate_binary_m_watches]
  | ternary l1 l2 => simp [propagate_watch, propagate_ternary_m_watches]
  | clause b off => simp [propagate_watch, propagate_clause_m_watches_length]
  | ext_constraint idx =>
    simp only [propagate_watch, propagate_ext]
    split
    · exact hext.watches_length _ _ _
    · split <;> exact hext.watches_length _ _ _

/-- The entries already copied (the range before `it2`) are a prefix of the
watch list the loop leaves behind. -/
theorem propagate_wlist_kept {ext : ext_propagate} (hext : ext_ok ext) (update : Bool)
    (l : literal) (rest : List watched) :
    ∀ (s : solver) (kept : List watched), l.index < s.m_watches.length →
      ∃ tl, (propagate_wlist ext update l s kept rest).2.get_wlist l.index = kept ++ tl := by
  induction rest with
  | nil =>
    intro s kept h
    exact ⟨[], by simp [propagate_wlist, get_wlist_set_wlist _ _ _ h]⟩
  | cons w rest ih =>
    intro s kept h
    have hlen := propagate_watch_m_watches_length hext update s l w
    unfold propagate_wlist
    rcases hstep : propagate_watch ext update s l w with ⟨s1, o⟩
    rw [hstep] at hlen
    simp only at hlen
    have h1 : l.index < s1.m_watches.length := by omega
    cases o with
    | keep w1 =>
      obtain ⟨tl, htl⟩ := ih s1 (kept ++ [w1]) h1
      exact ⟨w1 :: tl, by simp [htl]⟩
    | drop => exact ih s1 kept h1
    | conflict skip c =>
      refine ⟨if skip then rest else w :: rest, ?_⟩
      cases c with
      | none =>
        simp only [get_wlist_set_wlist _ _ _ h1]
        cases skip <;> simp
      | some jc =>
        simp only [get_wlist_set_conflict, get_wlist_set_wlist _ _ _ h1]
        cases skip <;> simp

theorem ext_ok_no_ext : ext_ok no_ext :=
  ⟨fun _ _ _ => rfl, fun _ _ _ => rfl, fun _ _ _ => Nat.le_refl _⟩

/-- An entry the step copies is in the watch list the loop leaves behind. -/
theorem propagate_wlist_mem_of_keep {ext : ext_propagate} (hext : ext_ok ext) (update : Bool)
    (l : literal) (s : solver) (w w1 : watched) (kept rest : List watched)
    (hl : l.index < s.m_watches.length)
    (h : (propagate_watch ext update s l w).2 = .keep w1) :
    w1 ∈ (propagate_wlist ext update l s kept (w :: rest)).2.get_wlist l.index := by
  have hlen := propagate_watch_m_watches_length hext update s l w
  rcases hstep : propagate_watch ext update s l w with ⟨s1, o⟩
  rw [hstep] at hlen h
  simp only at hlen h
  subst h
  obtain ⟨tl, htl⟩ := propagate_wlist_kept hext update l rest s1 (kept ++ [w1]) (by omega)
  rw [propagate_wlist, hstep]
  simp only
  rw [htl]
  simp

/-- The entry at which the loop stops on a conflict without skipping it is in
the watch list the loop leaves behind. -/
theorem propagate_wlist_mem_of_conflict {ext : ext_propagate} (hext : ext_ok ext)
    (update : Bool) (l : literal) (s : solver) (w : watched) (kept rest : List watched)
    (hl : l.index < s.m_watches.length)
    (h : ∃ c, (propagate_watch ext update s l w).2 = .conflict false c) :
    w ∈ (propagate_wlist ext update l s kept (w :: rest)).2.get_wlist l.index := by
  have hlen := propagate_watch_m_watches_length hext update s l w
  obtain ⟨c, h⟩ := h
  rcases hstep : propagate_watch ext update s l w with ⟨s1, o⟩
  rw [hstep] at hlen h
  simp only at hlen h
  subst h
  have hl1 : l.index < s1.m_watches.length := by omega
  rw [propagate_wlist, hstep]
  cases c with
  | none => simp [get_wlist_set_wlist _ _ _ hl1]
  | some jc => simp [get_wlist_set_wlist _ _ _ hl1]


/-! ## What `assign_core` records -/

@[simp] theorem assign_core_m_assignment (s : solver) (l : literal) (j : justification) :
    (s.assign_core l j).m_assignment
      = (s.m_assignment.set l.index .l_true).set l.neg.index .l_false := by
  simp [assign_core, assign_core_record]

@[simp] theorem assign_core_m_trail (s : solver) (l : literal) (j : justification) :
    (s.assign_core l j).m_trail = s.m_trail ++ [l] := by
  simp [assign_core, assign_core_record]

@[simp] theorem assign_core_m_level (s : solver) (l : literal) (j : justification) :
    (s.assign_core l j).m_level = s.m_level.set l.var s.scope_lvl := by
  simp [assign_core, assign_core_record]

@[simp] theorem assign_core_m_phase (s : solver) (l : literal) (j : justification) :
    (s.assign_core l j).m_phase = s.m_phase.set l.var (phase.of_sign l.sign) := by
  simp [assign_core, assign_core_record]

@[simp] theorem assign_core_m_justification (s : solver) (l : literal) (j : justification) :
    (s.assign_core l j).m_justification
      = s.m_justification.set l.var (if s.at_base_lvl then justification.none else j) := by
  simp [assign_core, assign_core_record]

theorem assign_core_value_self (s : solver) (l : literal) (j : justification)
    (h : l.index < s.m_assignment.length) : (s.assign_core l j).value l = .l_true := by
  unfold value
  rw [assign_core_m_assignment, getD_set_ne _ _ _ _ _ (literal_neg_index_ne l)]
  exact getD_set_self _ _ _ _ h

theorem assign_core_value_neg (s : solver) (l : literal) (j : justification)
    (h : l.neg.index < s.m_assignment.length) : (s.assign_core l j).value l.neg = .l_false := by
  unfold value
  rw [assign_core_m_assignment]
  exact getD_set_self _ _ _ _ (by simpa using h)

theorem assign_core_value_other (s : solver) (l k : literal) (j : justification)
    (h1 : k ≠ l) (h2 : k ≠ l.neg) : (s.assign_core l j).value k = s.value k := by
  unfold value
  have e1 : l.index ≠ k.index := fun e => h1 (literal_ext_index e.symm)
  have e2 : l.neg.index ≠ k.index := fun e => h2 (literal_ext_index e.symm)
  rw [assign_core_m_assignment, getD_set_ne _ _ _ _ _ e2, getD_set_ne _ _ _ _ _ e1]

/-! ## C1: the binary watch step -/

/-- C1: binary watch step of `propagate_core`.  The literal `l` was taken
from the trail and the next entry of its watch list is a binary entry with
other literal `m`.  (a) If `m` is false the loop stops, the solver becomes
inconsistent with conflict justification `Binary(¬l)` and conflict literal
`¬m`, and nothing is assigned.  (b) If `m` is unassigned the step is
`assign_core(m, Binary(¬l))`: `m` is appended to the trail and is true
afterwards, and the loop goes on with the entry copied.  (c) If `m` is true
the step changes nothing and the loop goes on with the entry copied.  In
every case the entry is in the watch list of `l` that the loop leaves
behind. -/
theorem C1_binary_watch_step {ext : ext_propagate} (hext : ext_ok ext) (update : Bool)
    (s : solver) (l m : literal) (learned : Bool) (kept rest : List watched)
    (hl : l.index < s.m_watches.length) (hinc : s.m_inconsistent = false) :
    (s.value m = .l_false →
      (propagate_wlist ext update l s kept (.binary m learned :: rest)).1 = false ∧
      (propagate_wlist ext update l s kept (.binary m learned :: rest)).2.m_inconsistent = true ∧
      (propagate_wlist ext update l s kept (.binary m learned :: rest)).2.m_conflict
        = .binary l.neg ∧
      (propagate_wlist ext update l s kept (.binary m learned :: rest)).2.m_not_l = m.neg ∧
      (propagate_wlist ext update l s kept (.binary m learned :: rest)).2.m_trail = s.m_trail ∧
      (propagate_wlist ext update l s kept (.binary m learned :: rest)).2.m_assignment
        = s.m_assignment)
    ∧ (s.value m = lbool.l_undef →
      propagate_wlist ext update l s kept (.binary m learned :: rest)
        = propagate_wlist ext update l
            (s.inc_bin_propagate.assign_core m (.binary l.neg))
            (kept ++ [.binary m learned]) rest ∧
      (propagate_watch ext update s l (.binary m learned)).1.m_trail = s.m_trail ++ [m] ∧
      (m.index < s.m_assignment.length →
        (propagate_watch ext update s l (.binary m learned)).1.value m = .l_true))
    ∧ (s.value m = .l_true →
      propagate_wlist ext update l s kept (.binary m learned :: rest)
        = propagate_wlist ext update l s (kept ++ [.binary m learned]) rest)
    ∧ watched.binary m learned ∈
        (propagate_wlist ext update l s kept (.binary m learned :: rest)).2.get_wlist l.index := by
  refine ⟨?_, ?_, ?_, ?_⟩
  · intro hv
    simp [propagate_wlist, propagate_watch, propagate_binary, hv, set_conflict, set_wlist, hinc]
  · intro hv
    refine ⟨?_, ?_, ?_⟩
    · simp [propagate_wlist, propagate_watch, propagate_binary, hv]
    · simp [propagate_watch, propagate_binary, hv]
    · intro hm
      simp only [propagate_watch, propagate_binary, hv]
      exact assign_core_value_self _ _ _ hm
  · intro hv
    simp [propagate_wlist, propagate_watch, propagate_binary, hv]
  · cases hv : s.value m
    · exact propagate_wlist_mem_of_conflict hext update l s _ kept rest hl
        (by simp [propagate_watch, propagate_binary, hv])
    · exact propagate_wlist_mem_of_keep hext update l s _ _ kept rest hl
        (by simp only [propagate_watch, propagate_binary, hv])
    · exact propagate_wlist_mem_of_keep hext update l s _ _ kept rest hl
        (by simp only [propagate_watch, propagate_binary, hv])

/-- C1 at a concrete state: propagating `¬x0` over the binary clause
`x0 ∨ x1` assigns `x1`. -/
theorem C1_binary_watch_step_witness :
    (⟨1⟩ : literal).index < example_bin.m_watches.length ∧
    example_bin.m_inconsistent = false ∧
    example_bin.value ⟨2⟩ = lbool.l_undef ∧
    (propagate_watch no_ext true example_bin ⟨1⟩ (.binary ⟨2⟩ false)).1.m_trail = [⟨1⟩, ⟨2⟩] ∧
    (propagate_watch no_ext true example_bin ⟨1⟩ (.binary ⟨2⟩ false)).1.value ⟨2⟩ = .l_true ∧
    watched.binary ⟨2⟩ false ∈
      (propagate_wlist no_ext true ⟨1⟩ example_bin [] [.binary ⟨2⟩ false]).2.get_wlist 1 :=
  have h := C1_binary_watch_step ext_ok_no_ext true example_bin ⟨1⟩ ⟨2⟩ false [] []
    (by decide) rfl
  ⟨by decide, rfl, by decide, (h.2.1 (by decide)).2.1, (h.2.1 (by decide)).2.2 (by decide), h.2.2.2⟩

/-! ## C2: the ternary watch step -/

/-- C2: ternary watch step of `propagate_core`.  The literal `l` was taken
from the trail and the next entry of its watch list is a ternary entry
`(a, b)`.  With `(value a, value b)`: `(false, undef)` is the step
`assign_core(b, Ternary(a, ¬l))`; `(undef, false)` is the step
`assign_core(a, Ternary(b, ¬l))`; `(false, false)` stops the loop with the
solver inconsistent, conflict justification `Ternary(a, ¬l)` and conflict
literal `¬b`, nothing assigned; every other combination leaves the solver as
it is.  In all cases the entry is in the watch list of `l` that the loop
leaves behind. -/
theorem C2_ternary_watch_step {ext : ext_propagate} (hext : ext_ok ext) (update : Bool)
    (s : solver) (l a b : literal) (kept rest : List watched)
    (hl : l.index < s.m_watches.length) (hinc : s.m_inconsistent = false) :
    (s.value a = .l_false → s.value b = lbool.l_undef →
      propagate_wlist ext update l s kept (.ternary a b :: rest)
        = propagate_wlist ext update l
            (s.inc_ter_propagate.assign_core b (.ternary a l.neg))
            (kept ++ [.ternary a b]) rest ∧
      (propagate_watch ext update s l (.ternary a b)).1.m_trail = s.m_trail ++ [b] ∧
      (b.index < s.m_assignment.length →
        (propagate_watch ext update s l (.ternary a b)).1.value b = .l_true))
    ∧ (s.value a = lbool.l_undef → s.value b = .l_false →
      propagate_wlist ext update l s kept (.ternary a b :: rest)
        = propagate_wlist ext update l
            (s.inc_ter_propagate.assign_core a (.ternary b l.neg))
            (kept ++ [.ternary a b]) rest ∧
      (propagate_watch ext update s l (.ternary a b)).1.m_trail = s.m_trail ++ [a] ∧
      (a.index < s.m_assignment.length →
        (propagate_watch ext update s l (.ternary a b)).1.value a = .l_true))
    ∧ (s.value a = .l_false → s.value b = .l_false →
      (propagate_wlist ext update l s kept (.ternary a b :: rest)).1 = false ∧
      (propagate_wlist ext update l s kept (.ternary a b :: rest)).2.m_inconsistent = true ∧
      (propagate_wlist ext update l s kept (.ternary a b :: rest)).2.m_conflict
        = .ternary a l.neg ∧
      (propagate_wlist ext update l s kept (.ternary a b :: rest)).2.m_not_l = b.neg ∧
      (propagate_wlist ext update l s kept (.ternary a b :: rest)).2.m_trail = s.m_trail ∧
      (propagate_wlist ext update l s kept (.ternary a b :: rest)).2.m_assignment
        = s.m_assignment)
    ∧ (¬ (s.value a = .l_false ∧ s.value b = lbool.l_undef) →
       ¬ (s.value a = lbool.l_undef ∧ s.value b = .l_false) →
       ¬ (s.value a = .l_false ∧ s.value b = .l_false) →
      propagate_wlist ext update l s kept (.ternary a b :: rest)
        = propagate_wlist ext update l s (kept ++ [.ternary a b]) rest)
    ∧ watched.ternary a b ∈
        (propagate_wlist ext update l s kept (.ternary a b :: rest)).2.get_wlist l.index := by
  refine ⟨?_, ?_, ?_, ?_, ?_⟩
  · intro ha hb
    refine ⟨?_, ?_, ?_⟩
    · simp [propagate_wlist, propagate_watch, propagate_ternary, ha, hb]
    · simp [propagate_watch, propagate_ternary, ha, hb]
    · intro hm
      simp only [propagate_watch, propagate_ternary, ha, hb]
      exact assign_core_value_self _ _ _ hm
  · intro ha hb
    refine ⟨?_, ?_, ?_⟩
    · simp [propagate_wlist, propagate_watch, propagate_ternary, ha, hb]
    · simp [propagate_watch, propagate_ternary, ha, hb]
    · intro hm
      simp only [propagate_watch, propagate_ternary, ha, hb]
      exact assign_core_value_self _ _ _ hm
  · intro ha hb
    simp [propagate_wlist, propagate_watch, propagate_ternary, ha, hb, set_conflict, set_wlist,
      hinc]
  · intro h1 h2 h3
    cases ha : s.value a <;> cases hb : s.value b <;>
      simp_all [propagate_wlist, propagate_watch, propagate_ternary]
  · have h : (propagate_watch ext update s l (.ternary a b)).2 = .keep (.ternary a b)
        ∨ ∃ c, (propagate_watch ext update s l (.ternary a b)).2 = .conflict false c := by
      cases ha : s.value a <;> cases hb : s.value b <;>
        simp [propagate_watch, propagate_ternary, ha, hb]
    rcases h with h | h
    · exact propagate_wlist_mem_of_keep hext update l s _ _ kept rest hl h
    · exact propagate_wlist_mem_of_conflict hext update l s _ kept rest hl h

/-- C2 at a concrete state: for the clause `x0 ∨ x1 ∨ x2` with `x1` false
and `x2` unassigned, propagating `¬x0` over the entry `(x1, x2)` assigns
`x2`. -/
theorem C2_ternary_watch_step_witness :
    (⟨1⟩ : literal).index < example_ter.m_watches.length ∧
    example_ter.m_inconsistent = false ∧
    example_ter.value ⟨2⟩ = .l_false ∧ example_ter.value ⟨4⟩ = lbool.l_undef ∧
    (propagate_watch no_ext true example_ter ⟨1⟩ (.ternary ⟨2⟩ ⟨4⟩)).1.m_trail
      = [⟨1⟩, ⟨3⟩, ⟨4⟩] ∧
    watched.ternary ⟨2⟩ ⟨4⟩ ∈
      (propagate_wlist no_ext true ⟨1⟩ example_ter [] [.ternary ⟨2⟩ ⟨4⟩]).2.get_wlist 1 :=
  have h := C2_ternary_watch_step ext_ok_no_ext true example_ter ⟨1⟩ ⟨2⟩ ⟨4⟩ [] []
    (by decide) rfl
  ⟨by decide, rfl, by decide, by decide, (h.1 (by decide) (by decide)).2.1, h.2.2.2.2⟩


/-! ## The clause case of the watch loop -/

@[simp] theorem value_set_clause (s : solver) (off : clause_offset) (c : clause) (x : literal) :
    (s.set_clause off c).value x = s.value x := rfl

@[simp] theorem value_push_watch (s : solver) (idx : Nat) (w : watched) (x : literal) :
    (s.push_watch idx w).value x = s.value x := rfl

@[simp] theorem value_inc_propagate (s : solver) (x : literal) :
    s.inc_propagate.value x = s.value x := rfl

@[simp] theorem value_update_glue (s : solver) (update : Bool) (off : clause_offset)
    (c : clause) (x : literal) : (s.update_glue update off c).value x = s.value x := by
  simp [value]

theorem get_clause_set_clause (s : solver) (off : clause_offset) (c : clause)
    (h : off < s.m_cls_allocator.length) : (s.set_clause off c).get_clause off = c := by
  unfold set_clause get_clause
  exact getD_set_self _ _ _ _ h

@[simp] theorem set_clause_m_cls_allocator_length (s : solver) (off : clause_offset)
    (c : clause) : (s.set_clause off c).m_cls_allocator.length = s.m_cls_allocator.length := by
  simp [set_clause]

theorem find_not_false_congr (s1 s2 : solver) (h : s1.m_assignment = s2.m_assignment)
    (xs : List literal) : ∀ i, find_not_false s1 xs i = find_not_false s2 xs i := by
  induction xs with
  | nil => intro i; rfl
  | cons x xs ih =>
    intro i
    simp only [find_not_false, value, h, ih]

theorem find_not_false_eq_none (s : solver) (xs : List literal)
    (h : ∀ x ∈ xs, s.value x = .l_false) : ∀ i, find_not_false s xs i = none := by
  induction xs with
  | nil => intro i; rfl
  | cons x xs ih =>
    intro i
    have hx := h x (List.mem_cons_self _ _)
    simp only [find_not_false, hx]
    exact ih (fun y hy => h y (List.mem_cons_of_mem _ hy)) (i + 1)

/-- The scan returns the lowest index whose literal is not false. -/
theorem find_not_false_eq_some (s : solver) (xs : List literal) :
    ∀ i k, find_not_false s xs i = some k →
      i ≤ k ∧ k < i + xs.length ∧ s.value (xs.getD (k - i) null_literal) ≠ .l_false ∧
      ∀ j, j < k - i → s.value (xs.getD j null_literal) = .l_false := by
  induction xs with
  | nil => intro i k h; simp [find_not_false] at h
  | cons x xs ih =>
    intro i k h
    simp only [find_not_false] at h
    by_cases hx : s.value x = .l_false
    · simp only [hx, bne_self_eq_false, Bool.false_eq_true, ↓reduceIte] at h
      obtain ⟨h1, h2, h3, h4⟩ := ih (i + 1) k h
      have e : k - i = (k - (i + 1)) + 1 := by omega
      refine ⟨by omega, by simp only [List.length_cons]; omega, ?_, ?_⟩
      · rw [e, List.getD_cons_succ]; exact h3
      · intro j hj
        cases j with
        | zero => simpa using hx
        | succ j => rw [List.getD_cons_succ]; exact h4 j (by omega)
    · have hne : (s.value x != .l_false) = true := by simpa using hx
      simp only [hne, ↓reduceIte, Option.some.injEq] at h
      subst h
      refine ⟨Nat.le_refl _, by simp, ?_, ?_⟩
      · simpa using hx
      · intro j hj; omega

theorem find_not_false_exists (s : solver) (xs : List literal)
    (h : ∃ x ∈ xs, s.value x ≠ .l_false) : ∀ i, ∃ k, find_not_false s xs i = some k := by
  induction xs with
  | nil => obtain ⟨x, hx, _⟩ := h; simp at hx
  | cons x xs ih =>
    intro i
    by_cases hx : s.value x = .l_false
    · obtain ⟨y, hy, hyv⟩ := h
      have hy1 : y ∈ xs := by
        rcases List.mem_cons.1 hy with e | e
        · subst e; exact absurd hx hyv
        · exact e
      obtain ⟨k, hk⟩ := ih ⟨y, hy1, hyv⟩ (i + 1)
      exact ⟨k, by simp only [find_not_false, hx]; exact hk⟩
    · have hne : (s.value x != .l_false) = true := by simpa using hx
      exact ⟨i, by simp only [find_not_false, hne, ↓reduceIte]⟩

/-! ## Swapping two positions of a list -/

theorem perm_getD_cons_set {α : Type} (d x : α) (xs : List α) :
    ∀ j, j < xs.length → (xs.getD j d :: xs.set j x).Perm (x :: xs) := by
  induction xs with
  | nil => intro j h; simp at h
  | cons z zs ih =>
    intro j h
    cases j with
    | zero => simpa using List.Perm.swap x z zs
    | succ n =>
      have h1 : n < zs.length := by simpa using h
      simp only [List.getD_cons_succ, List.set_cons_succ]
      exact ((List.Perm.swap z (zs.getD n d) (zs.set n x)).trans
        ((ih n h1).cons z)).trans (List.Perm.swap x z zs)

/-- Writing `xs[k]` to position 1 and the old `xs[1]` to position `k` permutes
the list. -/
theorem perm_set_one_set {α : Type} (d : α) (xs : List α) (k : Nat) (hk : 2 ≤ k)
    (hlen : k < xs.length) :
    ((xs.set 1 (xs.getD k d)).set k (xs.getD 1 d)).Perm xs := by
  match xs, hlen with
  | [], hlen => simp at hlen
  | [_], hlen => simp at hlen; omega
  | a :: b :: rest, hlen =>
    obtain ⟨n, rfl⟩ : ∃ n, k = n + 2 := ⟨k - 2, by omega⟩
    have hn : n < rest.length := by simpa using hlen
    simp only [List.set_cons_succ, List.set_cons_zero, List.getD_cons_succ, List.getD_cons_zero]
    exact (perm_getD_cons_set d b rest n hn).cons a


theorem propagate_clause_stale (s : solver) (update : Bool) (not_l blocked : literal)
    (off : clause_offset) (hb : s.value blocked ≠ .l_true)
    (h : ((s.get_clause off).swap_watch not_l).m_removed = true
      ∨ ((s.get_clause off).swap_watch not_l).get 1 ≠ not_l) :
    propagate_clause s update not_l blocked off
      = (s.set_clause off ((s.get_clause off).swap_watch not_l),
          .keep (.clause blocked off)) := by
  unfold propagate_clause
  have hb1 : (s.value blocked == .l_true) = false := by simpa using hb
  simp only [hb1, Bool.false_eq_true, ↓reduceIte]
  have : (((s.get_clause off).swap_watch not_l).m_removed
      || ((s.get_clause off).swap_watch not_l).get 1 != not_l) = true := by
    rcases h with h | h
    · simp [h]
    · simp [h]
  simp only [this, ↓reduceIte]

theorem propagate_clause_live (s : solver) (update : Bool) (not_l blocked : literal)
    (off : clause_offset) (hb : s.value blocked ≠ .l_true)
    (hrem : ((s.get_clause off).swap_watch not_l).m_removed = false)
    (h1 : ((s.get_clause off).swap_watch not_l).get 1 = not_l) :
    propagate_clause s update not_l blocked off
      = propagate_clause_watched (s.set_clause off ((s.get_clause off).swap_watch not_l))
          update not_l blocked off ((s.get_clause off).swap_watch not_l) := by
  unfold propagate_clause
  have hb1 : (s.value blocked == .l_true) = false := by simpa using hb
  simp only [hb1, Bool.false_eq_true, ↓reduceIte]
  have : (((s.get_clause off).swap_watch not_l).m_removed
      || ((s.get_clause off).swap_watch not_l).get 1 != not_l) = false := by
    simp [hrem, h1]
  simp only [this, Bool.false_eq_true, ↓reduceIte]

/-! ## C3: a stale generic watch -/

/-- C3 as stated fails: for the clause `x0 ∨ x1 ∨ x2 ∨ x3` watched on `x0` and
`x1`, the entry for it in the list of `¬x2` has a blocked literal that is not
true and, no swap being made, a second clause literal other than `x2`; the
step copies the entry and the list of `¬x2` still holds it afterwards. -/
theorem C3_stale_watch_dropped_counterexample :
    example_stale.value ⟨0⟩ ≠ .l_true ∧
    ((example_stale.get_clause 0).swap_watch (⟨5⟩ : literal).neg).get 1 ≠ (⟨5⟩ : literal).neg ∧
    (propagate_watch no_ext true example_stale ⟨5⟩ (.clause ⟨0⟩ 0)).2 ≠ .drop ∧
    (propagate_watch no_ext true example_stale ⟨5⟩ (.clause ⟨0⟩ 0)).2 = .keep (.clause ⟨0⟩ 0) ∧
    (propagate_wlist no_ext true ⟨5⟩ example_stale [] (example_stale.get_wlist 5)).2.get_wlist 5
      = [.clause ⟨0⟩ 0] := by
  decide

/-- C3 (amended): when `propagate_core` processes a Clause watch entry for the
propagated literal `l` whose blocked literal is not true, and after the
optional swap of `c[0]` and `c[1]` the second literal of the clause is not
`¬l`, the entry is copied unchanged: the loop goes on with the entry kept, the
only change to the solver being the swap written to the clause, and the entry
is in the watch list of `l` that the loop leaves behind. -/
theorem C3_stale_watch_kept {ext : ext_propagate} (hext : ext_ok ext) (update : Bool)
    (s : solver) (l blocked : literal) (off : clause_offset) (kept rest : List watched)
    (hl : l.index < s.m_watches.length) (hb : s.value blocked ≠ .l_true)
    (hstale : ((s.get_clause off).swap_watch l.neg).get 1 ≠ l.neg) :
    propagate_wlist ext update l s kept (.clause blocked off :: rest)
      = propagate_wlist ext update l
          (s.set_clause off ((s.get_clause off).swap_watch l.neg))
          (kept ++ [.clause blocked off]) rest
    ∧ watched.clause blocked off ∈
        (propagate_wlist ext update l s kept (.clause blocked off :: rest)).2.get_wlist
          l.index := by
  have hstep := propagate_clause_stale s update l.neg blocked off hb (Or.inr hstale)
  refine ⟨?_, ?_⟩
  · rw [propagate_wlist]
    simp only [propagate_watch, hstep]
  · exact propagate_wlist_mem_of_keep hext update l s _ _ kept rest hl
      (by simp only [propagate_watch, hstep])

/-- C3 (amended) at the state of the counterexample. -/
theorem C3_stale_watch_kept_witness :
    (⟨5⟩ : literal).index < example_stale.m_watches.length ∧
    example_stale.value ⟨0⟩ ≠ .l_true ∧
    ((example_stale.get_clause 0).swap_watch (⟨5⟩ : literal).neg).get 1 ≠ (⟨5⟩ : literal).neg ∧
    watched.clause ⟨0⟩ 0 ∈
      (propagate_wlist no_ext true ⟨5⟩ example_stale [] [.clause ⟨0⟩ 0]).2.get_wlist 5 :=
  ⟨by decide, by decide, by decide,
    (C3_stale_watch_kept ext_ok_no_ext true example_stale ⟨5⟩ ⟨0⟩ 0 [] []
      (by decide) (by decide) (by decide)).2⟩


/-! ## C4: unit propagation and conflict at a generic clause -/

theorem get_clause_congr (s1 s2 : solver) (h : s1.m_cls_allocator = s2.m_cls_allocator)
    (off : clause_offset) : s1.get_clause off = s2.get_clause off := by
  simp [get_clause, h]

theorem update_glue_m_used (s : solver) (update : Bool) (off : clause_offset) (c : clause)
    (hoff : off < s.m_cls_allocator.length) (hc : c.m_used = true)
    (hs : (s.get_clause off).m_used = true) :
    ((s.update_glue update off c).get_clause off).m_used = true := by
  unfold update_glue
  split
  · dsimp only
    split
    · rw [get_clause_set_clause _ _ _ (by simpa using hoff)]
      exact hc
    · rw [get_clause_congr _ s (by simp)]
      exact hs
  · exact hs

theorem propagate_clause_watched_none (s : solver) (update : Bool) (not_l blocked : literal)
    (off : clause_offset) (c : clause) (h0 : s.value (c.get 0) ≠ .l_true)
    (hrest : ∀ x ∈ c.lits.drop 2, s.value x = .l_false) :
    propagate_clause_watched s update not_l blocked off c
      = propagate_clause_unit s update blocked off c := by
  unfold propagate_clause_watched
  have h : (s.value (c.get 0) == .l_true) = false := by simpa using h0
  simp only [h, Bool.false_eq_true, ↓reduceIte, find_not_false_eq_none s _ hrest 2]

/-- C4: unit propagation and conflict at a generic clause.  The literal `l`
was taken from the trail and the next entry of its watch list is a Clause
entry that gets past the blocked-literal test, for a clause `c` (read after
the optional swap) that is not removed, has `c[1] = ¬l`, `c[0]` not true and
every literal of `c[2..]` false.  If `c[0]` is false the loop stops with the
solver inconsistent, conflict justification `Clause(h)`, nothing assigned and
`c` marked used.  If `c[0]` is unassigned the step is
`assign_core(c[0], Clause(h))` (followed by the glue update): `c[0]` is
appended to the trail and true afterwards, `c` is marked used and the loop
goes on with the entry copied.  In both cases the entry is in the watch list
of `l` that the loop leaves behind. -/
theorem C4_clause_unit_or_conflict {ext : ext_propagate} (hext : ext_ok ext) (update : Bool)
    (s : solver) (l blocked : literal) (off : clause_offset) (c : clause)
    (kept rest : List watched)
    (hl : l.index < s.m_watches.length) (hinc : s.m_inconsistent = false)
    (hoff : off < s.m_cls_allocator.length)
    (hb : s.value blocked ≠ .l_true)
    (hc : (s.get_clause off).swap_watch l.neg = c)
    (hrem : c.m_removed = false) (h1 : c.get 1 = l.neg)
    (h0 : s.value (c.get 0) ≠ .l_true)
    (hrest : ∀ x ∈ c.lits.drop 2, s.value x = .l_false) :
    (s.value (c.get 0) = .l_false →
      (propagate_wlist ext update l s kept (.clause blocked off :: rest)).1 = false ∧
      (propagate_wlist ext update l s kept (.clause blocked off :: rest)).2.m_inconsistent
        = true ∧
      (propagate_wlist ext update l s kept (.clause blocked off :: rest)).2.m_conflict
        = .clause off ∧
      (propagate_wlist ext update l s kept (.clause blocked off :: rest)).2.m_trail
        = s.m_trail ∧
      (propagate_wlist ext update l s kept (.clause blocked off :: rest)).2.m_assignment
        = s.m_assignment ∧
      ((propagate_wlist ext update l s kept (.clause blocked off :: rest)).2.get_clause
        off).m_used = true)
    ∧ (s.value (c.get 0) = lbool.l_undef →
      propagate_wlist ext update l s kept (.clause blocked off :: rest)
        = propagate_wlist ext update l
            ((((s.set_clause off c).inc_propagate.set_clause off
                { c with m_used := true }).assign_core (c.get 0) (.clause off)).update_glue
              update off { c with m_used := true })
            (kept ++ [.clause blocked off]) rest ∧
      (propagate_watch ext update s l (.clause blocked off)).1.m_trail
        = s.m_trail ++ [c.get 0] ∧
      ((c.get 0).index < s.m_assignment.length →
        (propagate_watch ext update s l (.clause blocked off)).1.value (c.get 0) = .l_true) ∧
      ((propagate_watch ext update s l (.clause blocked off)).1.get_clause off).m_used = true)
    ∧ watched.clause blocked off ∈
        (propagate_wlist ext update l s kept (.clause blocked off :: rest)).2.get_wlist
          l.index := by
  subst hc
  have hstep : propagate_watch ext update s l (.clause blocked off)
      = propagate_clause_unit (s.set_clause off ((s.get_clause off).swap_watch l.neg))
          update blocked off ((s.get_clause off).swap_watch l.neg) := by
    simp only [propagate_watch]
    rw [propagate_clause_live s update l.neg blocked off hb hrem h1,
      propagate_clause_watched_none _ _ _ _ _ _ (by simpa using h0) (by simpa using hrest)]
  have hoff1 : off < (s.m_cls_allocator.set off
      ((s.get_clause off).swap_watch l.neg)).length := by simpa using hoff
  refine ⟨?_, ?_, ?_⟩
  · intro hv
    have hv1 : ((s.set_clause off ((s.get_clause off).swap_watch l.neg)).value
        (((s.get_clause off).swap_watch l.neg).get 0) == .l_false) = true := by simp [hv]
    rw [propagate_wlist, hstep]
    simp only [propagate_clause_unit, hv1, ↓reduceIte]
    refine ⟨trivial, ?_, ?_, ?_, ?_, ?_⟩
    · simp [set_conflict, hinc]
    · simp [set_conflict, hinc]
    · simp
    · simp
    · rw [get_clause_congr _ ((s.set_clause off ((s.get_clause off).swap_watch l.neg)).set_clause
        off { (s.get_clause off).swap_watch l.neg with m_used := true }) (by simp)]
      rw [get_clause_set_clause _ _ _ hoff1]
  · intro hv
    have hv1 : ((s.set_clause off ((s.get_clause off).swap_watch l.neg)).value
        (((s.get_clause off).swap_watch l.neg).get 0) == .l_false) = false := by simp [hv]
    have hstep2 : propagate_watch ext update s l (.clause blocked off)
        = ((((s.set_clause off ((s.get_clause off).swap_watch l.neg)).inc_propagate.set_clause
              off { (s.get_clause off).swap_watch l.neg with m_used := true }).assign_core
              (((s.get_clause off).swap_watch l.neg).get 0) (.clause off)).update_glue
              update off { (s.get_clause off).swap_watch l.neg with m_used := true },
            .keep (.clause blocked off)) := by
      rw [hstep]
      simp only [propagate_clause_unit, hv1, Bool.false_eq_true, ↓reduceIte]
      rfl
    refine ⟨?_, ?_, ?_, ?_⟩
    · rw [propagate_wlist, hstep2]
    · rw [hstep2]; simp
    · intro hidx
      rw [hstep2]
      simp only [value_update_glue]
      exact assign_core_value_self _ _ _ (by simpa using hidx)
    · rw [hstep2]
      apply update_glue_m_used
      · simpa using hoff
      · rfl
      · rw [get_clause_congr _ ((s.set_clause off
          ((s.get_clause off).swap_watch l.neg)).inc_propagate.set_clause
          off { (s.get_clause off).swap_watch l.neg with m_used := true }) (by simp)]
        rw [get_clause_set_clause _ _ _ (by simpa using hoff)]
  · have h : (propagate_watch ext update s l (.clause blocked off)).2
          = .keep (.clause blocked off)
        ∨ ∃ c, (propagate_watch ext update s l (.clause blocked off)).2 = .conflict false c := by
      rw [hstep]
      unfold propagate_clause_unit
      split
      · exact Or.inr ⟨_, rfl⟩
      · exact Or.inl rfl
    rcases h with h | h
    · exact propagate_wlist_mem_of_keep hext update l s _ _ kept rest hl h
    · exact propagate_wlist_mem_of_conflict hext update l s _ kept rest hl h

/-- C4 at a concrete state: for the clause `x0 ∨ x1 ∨ x2 ∨ x3` with `x1`,
`x2`, `x3` false, propagating `¬x1` assigns `x0` and marks the clause. -/
theorem C4_clause_unit_or_conflict_witness :
    (⟨3⟩ : literal).index < example_unit.m_watches.length ∧
    example_unit.m_inconsistent = false ∧
    0 < example_unit.m_cls_allocator.length ∧
    example_unit.value ⟨4⟩ ≠ .l_true ∧
    example_unit.value ⟨0⟩ = lbool.l_undef ∧
    (propagate_watch no_ext true example_unit ⟨3⟩ (.clause ⟨4⟩ 0)).1.m_trail
      = [⟨5⟩, ⟨7⟩, ⟨3⟩, ⟨0⟩] ∧
    (propagate_watch no_ext true example_unit ⟨3⟩ (.clause ⟨4⟩ 0)).1.value ⟨0⟩ = .l_true ∧
    ((propagate_watch no_ext true example_unit ⟨3⟩ (.clause ⟨4⟩ 0)).1.get_clause 0).m_used
      = true ∧
    watched.clause ⟨4⟩ 0 ∈
      (propagate_wlist no_ext true ⟨3⟩ example_unit [] [.clause ⟨4⟩ 0]).2.get_wlist 3 :=
  have h := C4_clause_unit_or_conflict ext_ok_no_ext true example_unit ⟨3⟩ ⟨4⟩ 0
    { lits := [⟨0⟩, ⟨2⟩, ⟨4⟩, ⟨6⟩] } [] [] (by decide) rfl (by decide) (by decide)
    (by decide) rfl (by decide) (by decide) (by decide)
  ⟨by decide, rfl, by decide, by decide, by decide,
    (h.2.1 (by decide)).2.1, (h.2.1 (by decide)).2.2.1 (by decide),
    (h.2.1 (by decide)).2.2.2, h.2.2⟩


/-! ## C5: moving a watch -/

theorem swap_watch_perm (c : clause) (not_l : literal) (h : 2 ≤ c.size) :
    (c.swap_watch not_l).lits.Perm c.lits := by
  unfold clause.swap_watch
  split
  · cases c with
    | mk lits a1 a2 a3 a4 a5 a6 a7 a8 =>
      match lits, h with
      | [], h => simp [clause.size] at h
      | [_], h => simp [clause.size] at h
      | a :: b :: rest, _ =>
        simp only [clause.swap, clause.set, clause.get, List.getD_cons_zero, List.getD_cons_succ,
          List.set_cons_zero, List.set_cons_succ]
        exact List.Perm.swap a b rest
  · exact List.Perm.refl _

@[simp] theorem swap_watch_size (c : clause) (not_l : literal) :
    (c.swap_watch not_l).size = c.size := by
  unfold clause.swap_watch
  split <;> simp [clause.swap, clause.set, clause.size]

theorem getD_drop_two (xs : List literal) (j : Nat) :
    (xs.drop 2).getD j null_literal = xs.getD (j + 2) null_literal := by
  simp [List.getD_eq_getElem?_getD, List.getElem?_drop, Nat.add_comm]

/-- C5: watch replacement.  The literal `l` was taken from the trail and the
next entry of its watch list is a Clause entry that gets past the
blocked-literal test, for a clause `c` (read after the optional swap) that is
not removed, has `c[1] = ¬l`, `c[0]` not true and some literal of `c[2..]`
not false.  Then there is an index `k`, the lowest index from 2 on whose
literal is not false, such that after the step: the clause holds the old
`c[k]` at position 1 and `¬l` at position `k`, the other positions as
before, so its literals are a permutation of the literals it had before the
step; the watch `Clause(c[0], h)` was pushed on the list of the negation of
the new `c[1]`; nothing was assigned; and the loop goes on without copying
the entry. -/
theorem C5_watch_replacement (ext : ext_propagate) (update : Bool)
    (s : solver) (l blocked : literal) (off : clause_offset) (c : clause)
    (kept rest : List watched)
    (hoff : off < s.m_cls_allocator.length)
    (hb : s.value blocked ≠ .l_true)
    (hc : (s.get_clause off).swap_watch l.neg = c)
    (hrem : c.m_removed = false) (h1 : c.get 1 = l.neg)
    (h0 : s.value (c.get 0) ≠ .l_true)
    (hex : ∃ x ∈ c.lits.drop 2, s.value x ≠ .l_false) :
    ∃ k, 2 ≤ k ∧ k < c.size ∧ s.value (c.get k) ≠ .l_false ∧
      (∀ i, 2 ≤ i → i < k → s.value (c.get i) = .l_false) ∧
      ((propagate_watch ext update s l (.clause blocked off)).1.get_clause off).lits
        = (c.lits.set 1 (c.get k)).set k l.neg ∧
      ((propagate_watch ext update s l (.clause blocked off)).1.get_clause off).lits.Perm
        (s.get_clause off).lits ∧
      (propagate_watch ext update s l (.clause blocked off)).1.m_watches
        = (s.push_watch (c.get k).neg.index (.clause (c.get 0) off)).m_watches ∧
      (propagate_watch ext update s l (.clause blocked off)).1.m_assignment = s.m_assignment ∧
      (propagate_watch ext update s l (.clause blocked off)).1.m_trail = s.m_trail ∧
      (propagate_watch ext update s l (.clause blocked off)).2 = .drop ∧
      propagate_wlist ext update l s kept (.clause blocked off :: rest)
        = propagate_wlist ext update l
            (propagate_watch ext update s l (.clause blocked off)).1 kept rest := by
  subst hc
  generalize hcc : (s.get_clause off).swap_watch l.neg = c at *
  obtain ⟨k, hk⟩ := find_not_false_exists (s.set_clause off c) (c.lits.drop 2)
    (by simpa using hex) 2
  obtain ⟨k2, klt, kv, kmin⟩ := find_not_false_eq_some _ _ _ _ hk
  have klen : k < c.lits.length := by
    simp only [List.length_drop] at klt; omega
  have hget : ∀ i, 2 ≤ i → (c.lits.drop 2).getD (i - 2) null_literal = c.get i := by
    intro i hi
    rw [getD_drop_two, clause.get]
    congr 1; omega
  have hstep : propagate_watch ext update s l (.clause blocked off)
      = propagate_clause_replace (s.set_clause off c) l.neg off c k := by
    simp only [propagate_watch]
    rw [propagate_clause_live s update l.neg blocked off hb (by rw [hcc]; exact hrem)
      (by rw [hcc]; exact h1), hcc]
    unfold propagate_clause_watched
    have h : ((s.set_clause off c).value (c.get 0) == .l_true) = false := by simpa using h0
    simp only [h, Bool.false_eq_true, ↓reduceIte, hk]
  have h1k : 1 < c.lits.length := by omega
  have e1 : ((c.set 1 (c.get k)).set k l.neg).get 1 = c.get k := by
    simp only [clause.set, clause.get]
    rw [getD_set_ne _ _ _ _ _ (by omega : k ≠ 1)]
    exact getD_set_self _ _ _ _ h1k
  have e0 : ((c.set 1 (c.get k)).set k l.neg).get 0 = c.get 0 := by
    simp only [clause.set, clause.get]
    rw [getD_set_ne _ _ _ _ _ (by omega : k ≠ 0), getD_set_ne _ _ _ _ _ (by omega : 1 ≠ 0)]
  have hcl : (propagate_watch ext update s l (.clause blocked off)).1.get_clause off
      = (c.set 1 (c.get k)).set k l.neg := by
    rw [hstep]
    simp only [propagate_clause_replace]
    rw [get_clause_congr _ ((s.set_clause off c).set_clause off
      ((c.set 1 (c.get k)).set k l.neg)) (by simp)]
    exact get_clause_set_clause _ _ _ (by simpa using hoff)
  refine ⟨k, k2, klen, ?_, ?_, ?_, ?_, ?_, ?_, ?_, ?_, ?_⟩
  · have := kv
    rw [hget k k2] at this
    simpa using this
  · intro i hi hik
    have := kmin (i - 2) (by omega)
    rw [hget i hi] at this
    simpa using this
  · rw [hcl]; rfl
  · rw [hcl]
    have hp : ((c.set 1 (c.get k)).set k l.neg).lits.Perm c.lits := by
      have := perm_set_one_set null_literal c.lits k k2 klen
      simp only [clause.set, clause.get] at h1 ⊢
      rw [h1] at this
      exact this
    refine hp.trans ?_
    rw [← hcc]
    apply swap_watch_perm
    have : ((s.get_clause off).swap_watch l.neg).size = c.size := by rw [hcc]
    simp only [swap_watch_size] at this
    simp only [clause.size] at this ⊢
    omega
  · rw [hstep]
    simp only [propagate_clause_replace, e1, e0]
    simp [push_watch, get_wlist]
  · rw [hstep]; simp [propagate_clause_replace]
  · rw [hstep]; simp [propagate_clause_replace]
  · rw [hstep]; rfl
  · rw [propagate_wlist, hstep]
    rfl

/-- C5 at a concrete state: for the clause `x0 ∨ x1 ∨ x2 ∨ x3` with `x1`,
`x2` false and `x3` unassigned, propagating `¬x1` moves the watch to `x3`. -/
theorem C5_watch_replacement_witness :
    0 < example_move.m_cls_allocator.length ∧
    example_move.value ⟨4⟩ ≠ .l_true ∧
    (∃ x ∈ ([⟨0⟩, ⟨2⟩, ⟨4⟩, ⟨6⟩] : List literal).drop 2, example_move.value x ≠ .l_false) ∧
    ((propagate_watch no_ext true example_move ⟨3⟩ (.clause ⟨4⟩ 0)).1.get_clause 0).lits.Perm
      [⟨0⟩, ⟨2⟩, ⟨4⟩, ⟨6⟩] ∧
    ((propagate_watch no_ext true example_move ⟨3⟩ (.clause ⟨4⟩ 0)).1.get_clause 0).lits
      = [⟨0⟩, ⟨6⟩, ⟨4⟩, ⟨2⟩] ∧
    (propagate_watch no_ext true example_move ⟨3⟩ (.clause ⟨4⟩ 0)).1.get_wlist 7
      = [.clause ⟨0⟩ 0] :=
  have hex : ∃ x ∈ ([⟨0⟩, ⟨2⟩, ⟨4⟩, ⟨6⟩] : List literal).drop 2,
      example_move.value x ≠ .l_false := ⟨⟨6⟩, by decide, by decide⟩
  have h := C5_watch_replacement no_ext true example_move ⟨3⟩ ⟨4⟩ 0
    { lits := [⟨0⟩, ⟨2⟩, ⟨4⟩, ⟨6⟩] } [] [] (by decide) (by decide) rfl rfl (by decide)
    (by decide) hex
  ⟨by decide, by decide, hex,
    h.elim fun _ hk => hk.2.2.2.2.2.1, by decide, by decide⟩


/-! ## C10: what `assign_core` records -/

/-- C10: `assign_core(l, j)` for a literal `l` of an existing variable (in
particular an unassigned one) appends `l` to the end of the trail, makes `l`
true and `¬l` false, sets the level of `var l` to the current scope level,
sets the cached phase of `var l` to the sign of `l`, and records the
justification `j`, except that at scope level 0 the recorded justification is
`None` whatever `j` was.  The queue head, the scope level and the
inconsistency flag are left alone. -/
theorem C10_assign_core (s : solver) (l : literal) (j : justification)
    (hlevel : l.var < s.m_level.length) (hjust : l.var < s.m_justification.length)
    (hphase : l.var < s.m_phase.length) (hasg : 2 * l.var + 1 < s.m_assignment.length) :
    (s.assign_core l j).m_trail = s.m_trail ++ [l] ∧
    (s.assign_core l j).value l = .l_true ∧
    (s.assign_core l j).value l.neg = .l_false ∧
    (s.assign_core l j).lvl l = s.scope_lvl ∧
    (s.assign_core l j).m_phase.getD l.var .PHASE_NOT_AVAILABLE = phase.of_sign l.sign ∧
    (s.scope_lvl ≠ 0 → (s.assign_core l j).m_justification.getD l.var .none = j) ∧
    (s.scope_lvl = 0 → (s.assign_core l j).m_justification.getD l.var j = .none) ∧
    (s.assign_core l j).m_qhead = s.m_qhead ∧
    (s.assign_core l j).m_scope_lvl = s.m_scope_lvl ∧
    (s.assign_core l j).m_inconsistent = s.m_inconsistent := by
  have hi : l.index < s.m_assignment.length := (index_lt_of_var l _ hasg).1
  have hn : l.neg.index < s.m_assignment.length := (index_lt_of_var l _ hasg).2
  refine ⟨by simp, assign_core_value_self _ _ _ hi, assign_core_value_neg _ _ _ hn, ?_, ?_, ?_,
    ?_, by simp, by simp, by simp⟩
  · simp only [lvl, lvl_var, assign_core_m_level]
    exact getD_set_self _ _ _ _ hlevel
  · simp only [assign_core_m_phase]
    exact getD_set_self _ _ _ _ hphase
  · intro h
    have hb : s.at_base_lvl = false := by
      simp only [at_base_lvl, scope_lvl] at *
      simpa using h
    simp only [assign_core_m_justification, hb]
    exact getD_set_self _ _ _ _ hjust
  · intro h
    have hb : s.at_base_lvl = true := by
      simp only [at_base_lvl, scope_lvl] at *
      simpa using h
    simp only [assign_core_m_justification, hb]
    exact getD_set_self _ _ _ _ hjust

/-- C10 at a concrete state: assigning `x1` at scope level 1 with a binary
justification. -/
theorem C10_assign_core_witness :
    (⟨2⟩ : literal).var < example_bin.m_level.length ∧
    (⟨2⟩ : literal).var < example_bin.m_justification.length ∧
    (⟨2⟩ : literal).var < example_bin.m_phase.length ∧
    2 * (⟨2⟩ : literal).var + 1 < example_bin.m_assignment.length ∧
    (example_bin.assign_core ⟨2⟩ (.binary ⟨0⟩)).m_trail = [⟨1⟩, ⟨2⟩] ∧
    (example_bin.assign_core ⟨2⟩ (.binary ⟨0⟩)).lvl ⟨2⟩ = 1 ∧
    (example_bin.assign_core ⟨2⟩ (.binary ⟨0⟩)).m_justification.getD 1 .none = .binary ⟨0⟩ :=
  have h := C10_assign_core example_bin ⟨2⟩ (.binary ⟨0⟩) (by decide) (by decide) (by decide)
    (by decide)
  ⟨by decide, by decide, by decide, by decide, h.1, h.2.2.2.1, h.2.2.2.2.2.1 (by decide)⟩


/-! ## C8: clause normalisation -/

@[simp] theorem simplify_value_lvl0 (s : solver) (curr : literal) :
    s.simplify_value true curr = s.value curr := by
  simp [simplify_value]

/-- A true literal among the remaining ones makes the loop return false. -/
theorem simplify_clause_loop_true (s : solver) (rest : List literal) :
    ∀ prev out, (∃ x ∈ rest, s.value x = .l_true) →
      simplify_clause_loop s true rest prev out = none := by
  induction rest with
  | nil => intro prev out h; obtain ⟨x, hx, _⟩ := h; simp at hx
  | cons curr rest ih =>
    intro prev out h
    have hrec : s.value curr ≠ .l_true → ∃ x ∈ rest, s.value x = .l_true := by
      intro hc
      obtain ⟨x, hx, hv⟩ := h
      rcases List.mem_cons.1 hx with e | e
      · subst e; exact absurd hv hc
      · exact ⟨x, e, hv⟩
    unfold simplify_clause_loop
    simp only [simplify_value_lvl0]
    cases hv : s.value curr
    · simp only; exact ih _ _ (hrec (by simp [hv]))
    · simp only
      split
      · rfl
      · split
        · exact ih _ _ (hrec (by simp [hv]))
        · exact ih _ _ (hrec (by simp [hv]))
    · rfl

theorem between_neg (prev curr x : literal) (h1 : prev.m_val ≤ curr.m_val)
    (h2 : curr.m_val ≤ x.m_val) (hx : x = prev.neg) : curr = prev ∨ curr = prev.neg := by
  have hn := literal_neg_index prev
  simp only [literal.index] at hn
  have hx1 : x.m_val = prev.neg.m_val := by rw [hx]
  rw [hn] at hx1
  by_cases he : prev.m_val % 2 = 0
  · simp only [he, ↓reduceIte] at hx1
    have : curr.m_val = prev.m_val ∨ curr.m_val = x.m_val := by omega
    rcases this with e | e
    · exact Or.inl (literal_ext_index e)
    · exact Or.inr (hx ▸ literal_ext_index e)
  · simp only [he, ↓reduceIte] at hx1
    have e : curr.m_val = prev.m_val := by omega
    exact Or.inl (literal_ext_index e)

/-- Two complementary unassigned literals among the remaining ones (or the
complement of `prev`) make the loop return false. -/
theorem simplify_clause_loop_taut (s : solver) (rest : List literal) :
    ∀ prev out, rest.Pairwise literal_le →
      (prev = null_literal ∨ ∀ y ∈ rest, prev.m_val ≤ y.m_val) →
      (∀ y ∈ rest, y ≠ null_literal.neg) →
      (∃ x ∈ rest, s.value x = lbool.l_undef ∧
        (x = prev.neg ∨ (x.neg ∈ rest ∧ s.value x.neg = lbool.l_undef))) →
      simplify_clause_loop s true rest prev out = none := by
  induction rest with
  | nil => intro prev out _ _ _ h; obtain ⟨x, hx, _⟩ := h; simp at hx
  | cons curr rest ih =>
    intro prev out hs hb hnn h
    have hs1 : rest.Pairwise literal_le := (List.pairwise_cons.1 hs).2
    have hle : ∀ y ∈ rest, curr.m_val ≤ y.m_val := (List.pairwise_cons.1 hs).1
    have hnn1 : ∀ y ∈ rest, y ≠ null_literal.neg := fun y hy => hnn y (List.mem_cons_of_mem _ hy)
    have hb1 : prev = null_literal ∨ ∀ y ∈ rest, prev.m_val ≤ y.m_val :=
      hb.imp id (fun h y hy => h y (List.mem_cons_of_mem _ hy))
    obtain ⟨x, hx, hxu, hxp⟩ := h
    unfold simplify_clause_loop
    simp only [simplify_value_lvl0]
    cases hv : s.value curr
    · -- curr is false: the witnesses are in the tail
      simp only
      have hxc : x ≠ curr := by intro e; rw [e, hv] at hxu; cases hxu
      have hxr : x ∈ rest := by
        rcases List.mem_cons.1 hx with e | e
        · exact absurd e hxc
        · exact e
      refine ih _ _ hs1 hb1 hnn1 ⟨x, hxr, hxu, hxp.imp id ?_⟩
      rintro ⟨hm, hu⟩
      refine ⟨?_, hu⟩
      rcases List.mem_cons.1 hm with e | e
      · rw [e, hv] at hu; cases hu
      · exact e
    · simp only
      by_cases hcp : curr = prev.neg
      · simp [hcp]
      · have hcp1 : (curr == prev.neg) = false := by simpa using hcp
        simp only [hcp1, Bool.false_eq_true, ↓reduceIte]
        by_cases hce : curr = prev
        · have : (curr != prev) = false := by simp [hce]
          simp only [this, Bool.false_eq_true, ↓reduceIte]
          subst hce
          by_cases hxc : x = curr
          · subst hxc
            rcases hxp with e | ⟨hm, hu⟩
            · exact absurd e (literal_neg_ne x).symm
            · have hmr : x.neg ∈ rest := by
                rcases List.mem_cons.1 hm with e | e
                · exact absurd e (literal_neg_ne x)
                · exact e
              exact ih _ _ hs1 hb1 hnn1 ⟨x.neg, hmr, hu, Or.inl rfl⟩
          · have hxr : x ∈ rest := by
              rcases List.mem_cons.1 hx with e | e
              · exact absurd e hxc
              · exact e
            refine ih _ _ hs1 hb1 hnn1 ⟨x, hxr, hxu, ?_⟩
            rcases hxp with e | ⟨hm, hu⟩
            · exact Or.inl e
            · rcases List.mem_cons.1 hm with e | e
              · left
                rw [← e, literal_neg_neg]
              · exact Or.inr ⟨e, hu⟩
        · have : (curr != prev) = true := by simpa using hce
          simp only [this, ↓reduceIte]
          by_cases hxc : x = curr
          · subst hxc
            rcases hxp with e | ⟨hm, hu⟩
            · exact absurd e hcp
            · have hmr : x.neg ∈ rest := by
                rcases List.mem_cons.1 hm with e | e
                · exact absurd e (literal_neg_ne x)
                · exact e
              exact ih _ _ hs1 (Or.inr hle) hnn1 ⟨x.neg, hmr, hu, Or.inl rfl⟩
          · have hxr : x ∈ rest := by
              rcases List.mem_cons.1 hx with e | e
              · exact absurd e hxc
              · exact e
            refine ih _ _ hs1 (Or.inr hle) hnn1 ⟨x, hxr, hxu, ?_⟩
            rcases hxp with e | ⟨hm, hu⟩
            · exfalso
              rcases hb with hnull | hb
              · exact hnn x hx (by rw [e, hnull])
              · rcases between_neg prev curr x (hb curr (List.mem_cons_self _ _))
                  (hle x hxr) e with e1 | e1
                · exact hce e1
                · exact hcp e1
            · rcases List.mem_cons.1 hm with e | e
              · left
                rw [← e, literal_neg_neg]
              · exact Or.inr ⟨e, hu⟩
    · rfl

/-- The loop returns false only for a true literal or for two complementary
unassigned ones. -/
theorem simplify_clause_loop_none (s : solver) (rest : List literal) :
    ∀ prev out, simplify_clause_loop s true rest prev out = none →
      (∃ x ∈ rest, s.value x = .l_true) ∨
      (∃ x ∈ rest, s.value x = lbool.l_undef ∧
        (x = prev.neg ∨ (x.neg ∈ rest ∧ s.value x.neg = lbool.l_undef))) := by
  induction rest with
  | nil => intro prev out h; simp [simplify_clause_loop] at h
  | cons curr rest ih =>
    intro prev out h
    have lift : ∀ p, ((∃ x ∈ rest, s.value x = .l_true) ∨
        (∃ x ∈ rest, s.value x = lbool.l_undef ∧
          (x = p.neg ∨ (x.neg ∈ rest ∧ s.value x.neg = lbool.l_undef)))) →
        (p = prev ∨ (p = curr ∧ s.value curr = lbool.l_undef)) →
        ((∃ x ∈ curr :: rest, s.value x = .l_true) ∨
        (∃ x ∈ curr :: rest, s.value x = lbool.l_undef ∧
          (x = prev.neg ∨ (x.neg ∈ curr :: rest ∧ s.value x.neg = lbool.l_undef)))) := by
      intro p hp hpp
      rcases hp with ⟨x, hx, hv⟩ | ⟨x, hx, hu, hxp⟩
      · exact Or.inl ⟨x, List.mem_cons_of_mem _ hx, hv⟩
      · right
        rcases hxp with e | ⟨hm, hu2⟩
        · rcases hpp with e1 | ⟨e1, hcu⟩
          · exact ⟨x, List.mem_cons_of_mem _ hx, hu, Or.inl (e1 ▸ e)⟩
          · subst e1
            refine ⟨p, List.mem_cons_self _ _, hcu, Or.inr ⟨?_, ?_⟩⟩
            · rw [← e]; exact List.mem_cons_of_mem _ hx
            · rw [← e]; exact hu
        · exact ⟨x, List.mem_cons_of_mem _ hx, hu, Or.inr ⟨List.mem_cons_of_mem _ hm, hu2⟩⟩
    unfold simplify_clause_loop at h
    simp only [simplify_value_lvl0] at h
    cases hv : s.value curr
    · simp only [hv] at h
      exact lift prev (ih _ _ h) (Or.inl rfl)
    · simp only [hv] at h
      by_cases hcp : curr = prev.neg
      · exact Or.inr ⟨curr, List.mem_cons_self _ _, hv, Or.inl hcp⟩
      · have hcp1 : (curr == prev.neg) = false := by simpa using hcp
        simp only [hcp1, Bool.false_eq_true, ↓reduceIte] at h
        by_cases hce : curr = prev
        · have : (curr != prev) = false := by simp [hce]
          simp only [this, Bool.false_eq_true, ↓reduceIte] at h
          exact lift prev (ih _ _ h) (Or.inl rfl)
        · have : (curr != prev) = true := by simpa using hce
          simp only [this, ↓reduceIte] at h
          exact lift curr (ih _ _ h) (Or.inr ⟨rfl, hv⟩)
    · exact Or.inl ⟨curr, List.mem_cons_self _ _, hv⟩


/-- What the loop returns when it runs to the end: the literals of `out`
followed by the unassigned remaining ones without repetition, in strictly
ascending order. -/
theorem simplify_clause_loop_some (s : solver) (rest : List literal) :
    ∀ prev out res, rest.Pairwise literal_le →
      (prev = null_literal ∨ ∀ y ∈ rest, prev.m_val ≤ y.m_val) →
      (∀ y ∈ rest, y ≠ null_literal) →
      (∀ y ∈ rest, s.value y ≠ .l_true) →
      out.Pairwise (fun a b => a.m_val < b.m_val) →
      (∀ y ∈ out, y.m_val ≤ prev.m_val) →
      (prev = null_literal → out = []) →
      simplify_clause_loop s true rest prev out = some res →
      res.Pairwise (fun a b => a.m_val < b.m_val) ∧
      ∀ x, x ∈ res ↔ x ∈ out ∨ (x ∈ rest ∧ s.value x ≠ .l_false ∧ x ≠ prev) := by
  induction rest with
  | nil =>
    intro prev out res _ _ _ _ ho _ _ h
    simp only [simplify_clause_loop, Option.some.injEq] at h
    subst h
    exact ⟨ho, by simp⟩
  | cons curr rest ih =>
    intro prev out res hs hb hnn hnt ho hob hpn h
    have hs1 : rest.Pairwise literal_le := (List.pairwise_cons.1 hs).2
    have hle : ∀ y ∈ rest, curr.m_val ≤ y.m_val := (List.pairwise_cons.1 hs).1
    have hnn1 : ∀ y ∈ rest, y ≠ null_literal := fun y hy => hnn y (List.mem_cons_of_mem _ hy)
    have hnt1 : ∀ y ∈ rest, s.value y ≠ .l_true := fun y hy => hnt y (List.mem_cons_of_mem _ hy)
    have hb1 : prev = null_literal ∨ ∀ y ∈ rest, prev.m_val ≤ y.m_val :=
      hb.imp id (fun h y hy => h y (List.mem_cons_of_mem _ hy))
    unfold simplify_clause_loop at h
    simp only [simplify_value_lvl0] at h
    cases hv : s.value curr
    · simp only [hv] at h
      obtain ⟨r1, r2⟩ := ih _ _ _ hs1 hb1 hnn1 hnt1 ho hob hpn h
      refine ⟨r1, fun x => ?_⟩
      rw [r2 x]
      constructor
      · rintro (h | ⟨h1, h2, h3⟩)
        · exact Or.inl h
        · exact Or.inr ⟨List.mem_cons_of_mem _ h1, h2, h3⟩
      · rintro (h | ⟨h1, h2, h3⟩)
        · exact Or.inl h
        · rcases List.mem_cons.1 h1 with e | e
          · rw [e, hv] at h2; exact absurd rfl h2
          · exact Or.inr ⟨e, h2, h3⟩
    · simp only [hv] at h
      by_cases hcp : curr = prev.neg
      · simp [hcp] at h
      · have hcp1 : (curr == prev.neg) = false := by simpa using hcp
        simp only [hcp1, Bool.false_eq_true, ↓reduceIte] at h
        by_cases hce : curr = prev
        · have : (curr != prev) = false := by simp [hce]
          simp only [this, Bool.false_eq_true, ↓reduceIte] at h
          obtain ⟨r1, r2⟩ := ih _ _ _ hs1 hb1 hnn1 hnt1 ho hob hpn h
          refine ⟨r1, fun x => ?_⟩
          rw [r2 x]
          constructor
          · rintro (h | ⟨h1, h2, h3⟩)
            · exact Or.inl h
            · exact Or.inr ⟨List.mem_cons_of_mem _ h1, h2, h3⟩
          · rintro (h | ⟨h1, h2, h3⟩)
            · exact Or.inl h
            · rcases List.mem_cons.1 h1 with e | e
              · exact absurd (e.trans hce) h3
              · exact Or.inr ⟨e, h2, h3⟩
        · have : (curr != prev) = true := by simpa using hce
          simp only [this, ↓reduceIte] at h
          have hcn : curr ≠ null_literal := hnn curr (List.mem_cons_self _ _)
          have hlt : ∀ y ∈ out, y.m_val < curr.m_val := by
            intro y hy
            rcases hb with hnull | hb
            · rw [hpn hnull] at hy; simp at hy
            · have h1 := hob y hy
              have h2 := hb curr (List.mem_cons_self _ _)
              have h3 : prev.m_val ≠ curr.m_val := fun e => hce (literal_ext_index e.symm)
              omega
          have ho1 : (out ++ [curr]).Pairwise (fun a b => a.m_val < b.m_val) := by
            rw [List.pairwise_append]
            refine ⟨ho, List.pairwise_singleton _ _, ?_⟩
            intro a ha b hb2
            rw [List.mem_singleton.1 hb2]
            exact hlt a ha
          have hob1 : ∀ y ∈ out ++ [curr], y.m_val ≤ curr.m_val := by
            intro y hy
            rcases List.mem_append.1 hy with e | e
            · exact Nat.le_of_lt (hlt y e)
            · rw [List.mem_singleton.1 e]
          obtain ⟨r1, r2⟩ := ih _ _ _ hs1 (Or.inr hle) hnn1 hnt1 ho1 hob1
            (fun e => absurd e hcn) h
          refine ⟨r1, fun x => ?_⟩
          rw [r2 x]
          constructor
          · rintro (h | ⟨h1, h2, h3⟩)
            · rcases List.mem_append.1 h with e | e
              · exact Or.inl e
              · rw [List.mem_singleton.1 e]
                exact Or.inr ⟨List.mem_cons_self _ _, by simp [hv], hce⟩
            · refine Or.inr ⟨List.mem_cons_of_mem _ h1, h2, ?_⟩
              intro e
              rcases hb with hnull | hb
              · exact hnn1 x h1 (e.trans hnull)
              · have h4 := hb curr (List.mem_cons_self _ _)
                have h5 := hle x h1
                have h6 : prev.m_val ≠ curr.m_val := fun e => hce (literal_ext_index e.symm)
                rw [e] at h5
                omega
          · rintro (h | ⟨h1, h2, h3⟩)
            · exact Or.inl (List.mem_append_left _ h)
            · rcases List.mem_cons.1 h1 with e | e
              · exact Or.inl (List.mem_append_right _ (by simp [e]))
              · by_cases hxc : x = curr
                · exact Or.inl (List.mem_append_right _ (by simp [hxc]))
                · exact Or.inr ⟨e, h2, hxc⟩
    · exact absurd hv (hnt curr (List.mem_cons_self _ _))

theorem mem_sort_literals (lits : List literal) (x : literal) :
    x ∈ sort_literals lits ↔ x ∈ lits :=
  (List.perm_insertionSort literal_le lits).mem_iff

theorem sort_literals_sorted (lits : List literal) :
    (sort_literals lits).Pairwise literal_le :=
  List.sorted_insertionSort literal_le lits

theorem ne_null_of_var (l : literal) (h : l.var ≠ null_bool_var) :
    l ≠ null_literal ∧ l ≠ null_literal.neg := by
  constructor
  · intro e; rw [e] at h; exact h (by decide)
  · intro e; rw [e, literal_neg_var] at h; exact h (by decide)

/-- C8: clause normalisation by `simplify_clause` at base level, for every
array of literals of real variables (none is the null literal or its
negation) under an assignment in which a false literal has a true negation.
If the input contains a literal and its negation, or a literal that is true,
the clause is discarded (false is returned).  Otherwise true is returned and
the literals left are in strictly ascending order (so without duplicates),
none of them is false, and they are exactly the literals of the input that
are not false. -/
theorem C8_simplify_clause (s : solver) (lits : List literal)
    (hbase : s.m_scope_lvl = 0)
    (hwf : ∀ l ∈ lits, l.var ≠ null_bool_var)
    (hcons : ∀ l ∈ lits, s.value l = .l_false → s.value l.neg = .l_true) :
    (((∃ l ∈ lits, l.neg ∈ lits) ∨ (∃ l ∈ lits, s.value l = .l_true)) →
      s.simplify_clause lits = none)
    ∧ (¬ (∃ l ∈ lits, l.neg ∈ lits) → ¬ (∃ l ∈ lits, s.value l = .l_true) →
      ∃ out, s.simplify_clause lits = some out ∧
        out.Pairwise (fun a b => a.m_val < b.m_val) ∧
        (∀ x ∈ out, s.value x ≠ .l_false) ∧
        (∀ x, x ∈ out ↔ x ∈ lits ∧ s.value x ≠ .l_false)) := by
  have hsc : s.simplify_clause lits
      = simplify_clause_loop s true (sort_literals lits) null_literal [] := by
    simp [simplify_clause, simplify_clause_core, at_base_lvl, hbase]
  have hnn : ∀ y ∈ sort_literals lits, y ≠ null_literal ∧ y ≠ null_literal.neg :=
    fun y hy => ne_null_of_var y (hwf y ((mem_sort_literals _ _).1 hy))
  rw [hsc]
  constructor
  · intro h
    by_cases ht : ∃ l ∈ lits, s.value l = .l_true
    · obtain ⟨l, hl, hv⟩ := ht
      exact simplify_clause_loop_true s _ _ _ ⟨l, (mem_sort_literals _ _).2 hl, hv⟩
    · rcases h with ⟨l, hl, hln⟩ | h
      · have nt : ∀ x ∈ lits, s.value x ≠ .l_true := fun x hx hv => ht ⟨x, hx, hv⟩
        have hu : ∀ x ∈ lits, x.neg ∈ lits → s.value x = lbool.l_undef := by
          intro x hx hxn
          cases hv : s.value x
          · exact absurd (hcons x hx hv) (nt _ hxn)
          · rfl
          · exact absurd hv (nt x hx)
        refine simplify_clause_loop_taut s _ _ _ (sort_literals_sorted lits) (Or.inl rfl)
          (fun y hy => (hnn y hy).2)
          ⟨l, (mem_sort_literals _ _).2 hl, hu l hl hln,
            Or.inr ⟨(mem_sort_literals _ _).2 hln, hu l.neg hln ?_⟩⟩
        rw [literal_neg_neg]; exact hl
      · exact absurd h ht
  · intro h1 h2
    have nt : ∀ x ∈ lits, s.value x ≠ .l_true := fun x hx hv => h2 ⟨x, hx, hv⟩
    cases hr : simplify_clause_loop s true (sort_literals lits) null_literal [] with
    | none =>
      exfalso
      rcases simplify_clause_loop_none s _ _ _ hr with ⟨x, hx, hv⟩ | ⟨x, hx, _, e | ⟨hm, _⟩⟩
      · exact h2 ⟨x, (mem_sort_literals _ _).1 hx, hv⟩
      · exact (hnn x hx).2 e
      · exact h1 ⟨x, (mem_sort_literals _ _).1 hx, (mem_sort_literals _ _).1 hm⟩
    | some out =>
      obtain ⟨r1, r2⟩ := simplify_clause_loop_some s _ null_literal [] out
        (sort_literals_sorted lits) (Or.inl rfl) (fun y hy => (hnn y hy).1)
        (fun y hy => nt y ((mem_sort_literals _ _).1 hy)) List.Pairwise.nil
        (by simp) (fun _ => rfl) hr
      have hmem : ∀ x, x ∈ out ↔ x ∈ lits ∧ s.value x ≠ .l_false := by
        intro x
        rw [r2 x]
        constructor
        · rintro (h | ⟨h3, h4, _⟩)
          · simp at h
          · exact ⟨(mem_sort_literals _ _).1 h3, h4⟩
        · rintro ⟨h3, h4⟩
          exact Or.inr ⟨(mem_sort_literals _ _).2 h3, h4,
            (hnn x ((mem_sort_literals _ _).2 h3)).1⟩
      exact ⟨out, rfl, r1, fun x hx => ((hmem x).1 hx).2, hmem⟩

/-- C8 at a concrete input: at base level with `x0` false and the other
variables unassigned, the array `x2, x0, x1, x2, x1` becomes `x1, x2`. -/
theorem C8_simplify_clause_witness :
    example_base.m_scope_lvl = 0 ∧
    example_base.simplify_clause [⟨4⟩, ⟨0⟩, ⟨2⟩, ⟨4⟩, ⟨2⟩] = some [⟨2⟩, ⟨4⟩] ∧
    ∃ out, example_base.simplify_clause [⟨4⟩, ⟨0⟩, ⟨2⟩, ⟨4⟩, ⟨2⟩] = some out ∧
      out.Pairwise (fun a b => a.m_val < b.m_val) ∧
      ∀ x, x ∈ out ↔ x ∈ ([⟨4⟩, ⟨0⟩, ⟨2⟩, ⟨4⟩, ⟨2⟩] : List literal)
        ∧ example_base.value x ≠ .l_false :=
  ⟨rfl, by decide,
    ((C8_simplify_clause example_base [⟨4⟩, ⟨0⟩, ⟨2⟩, ⟨4⟩, ⟨2⟩] rfl (by decide)
      (by decide)).2 (by decide) (by decide)).imp fun _ h => ⟨h.1, h.2.1, h.2.2.2⟩⟩


/-! ## Swaps and watch selection -/

theorem set_getD_self {α : Type} (d : α) (xs : List α) :
    ∀ i, xs.set i (xs.getD i d) = xs := by
  induction xs with
  | nil => intro i; rfl
  | cons a t ih =>
    intro i
    cases i with
    | zero => rfl
    | succ n => simp only [List.set_cons_succ, List.getD_cons_succ, ih]

theorem perm_swap_lt {α : Type} (d : α) (xs : List α) :
    ∀ i j, i < j → j < xs.length →
      ((xs.set i (xs.getD j d)).set j (xs.getD i d)).Perm xs := by
  induction xs with
  | nil => intro i j _ h; simp at h
  | cons a t ih =>
    intro i j hij hj
    cases j with
    | zero => omega
    | succ n =>
      have hn : n < t.length := by simpa using hj
      cases i with
      | zero =>
        simp only [List.set_cons_zero, List.getD_cons_succ, List.set_cons_succ,
          List.getD_cons_zero]
        exact perm_getD_cons_set d a t n hn
      | succ m =>
        simp only [List.set_cons_succ, List.getD_cons_succ]
        exact (ih m n (by omega) hn).cons a

/-- `std::swap(c[i], c[j])` permutes the literals of the clause. -/
theorem clause_swap_perm (c : clause) (i j : Nat) (hi : i < c.size) (hj : j < c.size) :
    (c.swap i j).lits.Perm c.lits := by
  simp only [clause.swap, clause.set, clause.get, clause.size] at *
  rcases Nat.lt_trichotomy i j with h | h | h
  · exact perm_swap_lt null_literal c.lits i j h hj
  · subst h
    rw [set_getD_self, set_getD_self]
  · rw [List.set_comm _ _ _ (by omega : i ≠ j)]
    exact perm_swap_lt null_literal c.lits j i h hi

@[simp] theorem clause_swap_size (c : clause) (i j : Nat) : (c.swap i j).size = c.size := by
  simp [clause.swap, clause.set, clause.size]

@[simp] theorem clause_swap_m_learned (c : clause) (i j : Nat) :
    (c.swap i j).m_learned = c.m_learned := rfl

/-- Each index kept by the loop of `select_watch_lit` is `UINT_MAX` or an
index the loop has visited, and once an index was visited one of the three
is set. -/
theorem select_watch_lit_fold (s : solver) (cls : clause) (lo : Nat) :
    ∀ n start (st : watch_candidates), start + n ≤ UINT_MAX →
      (st.min_true_idx = UINT_MAX ∨ (lo ≤ st.min_true_idx ∧ st.min_true_idx < start)) →
      (st.unknown_idx = UINT_MAX ∨ (lo ≤ st.unknown_idx ∧ st.unknown_idx < start)) →
      (st.max_false_idx = UINT_MAX ∨ (lo ≤ st.max_false_idx ∧ st.max_false_idx < start)) →
      lo ≤ start →
      (((List.range' start n).foldl (select_watch_lit_step s cls) st).min_true_idx = UINT_MAX ∨
        (lo ≤ ((List.range' start n).foldl (select_watch_lit_step s cls) st).min_true_idx ∧
          ((List.range' start n).foldl (select_watch_lit_step s cls) st).min_true_idx
            < start + n)) ∧
      (((List.range' start n).foldl (select_watch_lit_step s cls) st).unknown_idx = UINT_MAX ∨
        (lo ≤ ((List.range' start n).foldl (select_watch_lit_step s cls) st).unknown_idx ∧
          ((List.range' start n).foldl (select_watch_lit_step s cls) st).unknown_idx
            < start + n)) ∧
      (((List.range' start n).foldl (select_watch_lit_step s cls) st).max_false_idx = UINT_MAX ∨
        (lo ≤ ((List.range' start n).foldl (select_watch_lit_step s cls) st).max_false_idx ∧
          ((List.range' start n).foldl (select_watch_lit_step s cls) st).max_false_idx
            < start + n)) ∧
      ((0 < n ∨ st.min_true_idx ≠ UINT_MAX ∨ st.unknown_idx ≠ UINT_MAX
          ∨ st.max_false_idx ≠ UINT_MAX) →
        ((List.range' start n).foldl (select_watch_lit_step s cls) st).min_true_idx ≠ UINT_MAX ∨
        ((List.range' start n).foldl (select_watch_lit_step s cls) st).unknown_idx ≠ UINT_MAX ∨
        ((List.range' start n).foldl (select_watch_lit_step s cls) st).max_false_idx
          ≠ UINT_MAX) := by
  intro n
  induction n with
  | zero =>
    intro start st _ h1 h2 h3 _
    simp only [List.range'_zero, List.foldl_nil, Nat.add_zero, Nat.lt_irrefl, false_or]
    exact ⟨h1, h2, h3, id⟩
  | succ n ih =>
    intro start st hb h1 h2 h3 hlo
    have hstart : start ≠ UINT_MAX := by omega
    simp only [List.range'_succ, List.foldl_cons]
    have hstep : ((select_watch_lit_step s cls st start).min_true_idx = UINT_MAX ∨
          (lo ≤ (select_watch_lit_step s cls st start).min_true_idx ∧
            (select_watch_lit_step s cls st start).min_true_idx < start + 1)) ∧
        ((select_watch_lit_step s cls st start).unknown_idx = UINT_MAX ∨
          (lo ≤ (select_watch_lit_step s cls st start).unknown_idx ∧
            (select_watch_lit_step s cls st start).unknown_idx < start + 1)) ∧
        ((select_watch_lit_step s cls st start).max_false_idx = UINT_MAX ∨
          (lo ≤ (select_watch_lit_step s cls st start).max_false_idx ∧
            (select_watch_lit_step s cls st start).max_false_idx < start + 1)) ∧
        ((select_watch_lit_step s cls st start).min_true_idx ≠ UINT_MAX ∨
          (select_watch_lit_step s cls st start).unknown_idx ≠ UINT_MAX ∨
          (select_watch_lit_step s cls st start).max_false_idx ≠ UINT_MAX) := by
      unfold select_watch_lit_step
      split
      · split
        · refine ⟨?_, ?_, ?_, ?_⟩
          · rcases h1 with h | h; exact Or.inl h; exact Or.inr ⟨h.1, Nat.lt_succ_of_lt h.2⟩
          · rcases h2 with h | h; exact Or.inl h; exact Or.inr ⟨h.1, Nat.lt_succ_of_lt h.2⟩
          · exact Or.inr ⟨hlo, by simp⟩
          · exact Or.inr (Or.inr hstart)
        · rename_i hc
          have hm : st.max_false_idx ≠ UINT_MAX := fun e => hc (Or.inl e)
          refine ⟨?_, ?_, ?_, Or.inr (Or.inr hm)⟩
          · rcases h1 with h | h; exact Or.inl h; exact Or.inr ⟨h.1, Nat.lt_succ_of_lt h.2⟩
          · rcases h2 with h | h; exact Or.inl h; exact Or.inr ⟨h.1, Nat.lt_succ_of_lt h.2⟩
          · rcases h3 with h | h; exact Or.inl h; exact Or.inr ⟨h.1, Nat.lt_succ_of_lt h.2⟩
      · refine ⟨?_, ?_, ?_, ?_⟩
        · rcases h1 with h | h; exact Or.inl h; exact Or.inr ⟨h.1, Nat.lt_succ_of_lt h.2⟩
        · exact Or.inr ⟨hlo, by simp⟩
        · rcases h3 with h | h; exact Or.inl h; exact Or.inr ⟨h.1, Nat.lt_succ_of_lt h.2⟩
        · exact Or.inr (Or.inl hstart)
      · split
        · refine ⟨?_, ?_, ?_, ?_⟩
          · exact Or.inr ⟨hlo, by simp⟩
          · rcases h2 with h | h; exact Or.inl h; exact Or.inr ⟨h.1, Nat.lt_succ_of_lt h.2⟩
          · rcases h3 with h | h; exact Or.inl h; exact Or.inr ⟨h.1, Nat.lt_succ_of_lt h.2⟩
          · exact Or.inl hstart
        · rename_i hc
          have hm : st.min_true_idx ≠ UINT_MAX := fun e => hc (Or.inl e)
          refine ⟨?_, ?_, ?_, Or.inl hm⟩
          · rcases h1 with h | h; exact Or.inl h; exact Or.inr ⟨h.1, Nat.lt_succ_of_lt h.2⟩
          · rcases h2 with h | h; exact Or.inl h; exact Or.inr ⟨h.1, Nat.lt_succ_of_lt h.2⟩
          · rcases h3 with h | h; exact Or.inl h; exact Or.inr ⟨h.1, Nat.lt_succ_of_lt h.2⟩
    obtain ⟨g1, g2, g3, g4⟩ := hstep
    have := ih (start + 1) (select_watch_lit_step s cls st start) (by omega) g1 g2 g3 (by omega)
    have e : start + 1 + n = start + (n + 1) := by omega
    rw [e] at this
    exact ⟨this.1, this.2.1, this.2.2.1, fun _ => this.2.2.2 (Or.inr g4)⟩

/-- The index returned by `select_watch_lit` lies in `[starting_at, size)`. -/
theorem select_watch_lit_range (s : solver) (cls : clause) (start : Nat)
    (h : start < cls.size) (hsz : cls.size ≤ UINT_MAX) :
    start ≤ s.select_watch_lit cls start ∧ s.select_watch_lit cls start < cls.size := by
  have hf := select_watch_lit_fold s cls start (cls.size - start) start {} (by omega)
    (Or.inl rfl) (Or.inl rfl) (Or.inl rfl) (Nat.le_refl _)
  have e : start + (cls.size - start) = cls.size := by omega
  rw [e] at hf
  obtain ⟨f1, f2, f3, f4⟩ := hf
  have f5 := f4 (Or.inl (by omega))
  unfold select_watch_lit
  simp only
  split
  · rename_i h1
    rcases f1 with e1 | e1
    · exact absurd e1 h1
    · exact e1
  · split
    · rename_i h1 h2
      rcases f2 with e1 | e1
      · exact absurd e1 h2
      · exact e1
    · rename_i h1 h2
      rcases f3 with e1 | e1
      · rcases f5 with g | g | g
        · exact absurd g h1
        · exact absurd g h2
        · exact absurd e1 g
      · exact e1

theorem select_learned_watch_lit_fold (s : solver) (cls : clause) :
    ∀ n start (m : Nat), start + n ≤ UINT_MAX → 1 ≤ start →
      (m = UINT_MAX ∨ (1 ≤ m ∧ m < start)) →
      (((List.range' start n).foldl (select_learned_watch_lit_step s cls) m = UINT_MAX ∨
        (1 ≤ (List.range' start n).foldl (select_learned_watch_lit_step s cls) m ∧
          (List.range' start n).foldl (select_learned_watch_lit_step s cls) m < start + n)) ∧
      ((0 < n ∨ m ≠ UINT_MAX) →
        (List.range' start n).foldl (select_learned_watch_lit_step s cls) m ≠ UINT_MAX)) := by
  intro n
  induction n with
  | zero =>
    intro start m _ _ h
    simp only [List.range'_zero, List.foldl_nil, Nat.add_zero, Nat.lt_irrefl, false_or]
    exact ⟨h, id⟩
  | succ n ih =>
    intro start m hb hs h
    have hstart : start ≠ UINT_MAX := by omega
    simp only [List.range'_succ, List.foldl_cons]
    have hstep : (select_learned_watch_lit_step s cls m start = UINT_MAX ∨
          (1 ≤ select_learned_watch_lit_step s cls m start ∧
            select_learned_watch_lit_step s cls m start < start + 1)) ∧
        select_learned_watch_lit_step s cls m start ≠ UINT_MAX := by
      unfold select_learned_watch_lit_step
      split
      · exact ⟨Or.inr ⟨hs, by simp⟩, hstart⟩
      · rename_i hc
        have hm : m ≠ UINT_MAX := fun e => hc (Or.inl e)
        rcases h with h | h
        · exact absurd h hm
        · exact ⟨Or.inr ⟨h.1, Nat.lt_succ_of_lt h.2⟩, hm⟩
    have := ih (start + 1) _ (by omega) (by omega) hstep.1
    have e : start + 1 + n = start + (n + 1) := by omega
    rw [e] at this
    exact ⟨this.1, fun _ => this.2 (Or.inr hstep.2)⟩

/-- The index returned by `select_learned_watch_lit` lies in `[1, size)`. -/
theorem select_learned_watch_lit_range (s : solver) (cls : clause)
    (h : 2 ≤ cls.size) (hsz : cls.size ≤ UINT_MAX) :
    1 ≤ s.select_learned_watch_lit cls ∧ s.select_learned_watch_lit cls < cls.size := by
  have hf := select_learned_watch_lit_fold s cls (cls.size - 1) 1 UINT_MAX (by omega)
    (Nat.le_refl _) (Or.inl rfl)
  have e : 1 + (cls.size - 1) = cls.size := by omega
  rw [e] at hf
  unfold select_learned_watch_lit
  rcases hf.1 with e1 | e1
  · exact absurd e1 (hf.2 (Or.inl (by omega)))
  · exact e1

/-- The watch selection of `attach_nary_clause` permutes the literals. -/
theorem select_watches_perm (s : solver) (c : clause) (h : 2 ≤ c.size)
    (hsz : c.size ≤ UINT_MAX) : (s.select_watches c).lits.Perm c.lits := by
  unfold select_watches
  split
  · exact clause_swap_perm c 1 _ (by omega) (select_learned_watch_lit_range s c h hsz).2
  · have r0 := select_watch_lit_range s c 0 (by omega) hsz
    have p0 := clause_swap_perm c 0 _ (by omega) r0.2
    have r1 := select_watch_lit_range s (c.swap 0 (s.select_watch_lit c 0)) 1
      (by simp; omega) (by simpa using hsz)
    exact (clause_swap_perm _ 1 _ (by simp; omega) r1.2).trans p0

@[simp] theorem select_watches_m_learned (s : solver) (c : clause) :
    (s.select_watches c).m_learned = c.m_learned := by
  unfold select_watches
  split <;> rfl


/-! ## Clause creation -/

theorem getD_set {α : Type} (xs : List α) (i j : Nat) (a d : α) :
    (xs.set i a).getD j d = if i = j ∧ i < xs.length then a else xs.getD j d := by
  by_cases h : i = j
  · subst h
    by_cases hl : i < xs.length
    · simp only [hl, and_self, ↓reduceIte]; exact getD_set_self _ _ _ _ hl
    · simp only [hl, and_false, ↓reduceIte]
      rw [List.set_eq_of_length_le (by omega)]
  · simp only [h, false_and, ↓reduceIte]; exact getD_set_ne _ _ _ _ _ h

theorem get_wlist_congr (s1 s2 : solver) (h : s1.m_watches = s2.m_watches) (i : Nat) :
    s1.get_wlist i = s2.get_wlist i := by
  simp [get_wlist, h]

theorem mem_push_watch_self (s : solver) (idx : Nat) (w : watched)
    (h : idx < s.m_watches.length) : w ∈ (s.push_watch idx w).get_wlist idx := by
  simp only [push_watch, get_wlist]
  rw [getD_set_self _ _ _ _ h]
  simp

theorem mem_push_watch_of_mem (s : solver) (idx i : Nat) (w w0 : watched)
    (h : w0 ∈ s.get_wlist i) : w0 ∈ (s.push_watch idx w).get_wlist i := by
  simp only [push_watch, get_wlist] at *
  rw [getD_set]
  split
  · rename_i hc
    rw [← hc.1] at h
    exact List.mem_append_left _ h
  · exact h

theorem get_clause_alloc_clause_new (s : solver) (lits : List literal) (learned : Bool) :
    (s.alloc_clause lits learned).2.get_clause s.m_cls_allocator.length
      = { lits := lits, m_learned := learned } := by
  simp [alloc_clause, get_clause, List.getD_eq_getElem?_getD]

theorem get_clause_alloc_clause_old (s : solver) (lits : List literal) (learned : Bool)
    (i : Nat) (h : i < s.m_cls_allocator.length) :
    (s.alloc_clause lits learned).2.get_clause i = s.get_clause i := by
  simp [alloc_clause, get_clause, List.getD_eq_getElem?_getD, List.getElem?_append_left h]

@[simp] theorem alloc_clause_fst (s : solver) (lits : List literal) (learned : Bool) :
    (s.alloc_clause lits learned).1 = s.m_cls_allocator.length := rfl

@[simp] theorem alloc_clause_length (s : solver) (lits : List literal) (learned : Bool) :
    (s.alloc_clause lits learned).2.m_cls_allocator.length = s.m_cls_allocator.length + 1 := by
  simp [alloc_clause]

theorem get_clause_set_clause_ne (s : solver) (off i : clause_offset) (c : clause)
    (h : off ≠ i) : (s.set_clause off c).get_clause i = s.get_clause i := by
  unfold set_clause get_clause
  exact getD_set_ne _ _ _ _ _ h

theorem get_clause_push_reinit_stack_lits (s : solver) (off i : clause_offset) :
    ((s.push_reinit_stack off).get_clause i).lits = (s.get_clause i).lits := by
  simp only [push_reinit_stack, set_clause, get_clause, push_clauses_to_reinit]
  rw [getD_set]
  split
  · rename_i hc; rw [hc.1]
  · rfl

theorem get_clause_push_reinit_stack_m_learned (s : solver) (off i : clause_offset) :
    ((s.push_reinit_stack off).get_clause i).m_learned = (s.get_clause i).m_learned := by
  simp only [push_reinit_stack, set_clause, get_clause, push_clauses_to_reinit]
  rw [getD_set]
  split
  · rename_i hc; rw [hc.1]
  · rfl

@[simp] theorem push_reinit_stack_length (s : solver) (off : clause_offset) :
    (s.push_reinit_stack off).m_cls_allocator.length = s.m_cls_allocator.length := by
  simp [push_reinit_stack, set_clause, push_clauses_to_reinit]

@[simp] theorem value_assign_frame_at_base_lvl (s : solver) (l : literal) (j : justification) :
    (s.assign l j).at_base_lvl = s.at_base_lvl := by
  simp [at_base_lvl]

/-- What `mk_bin_clause` does to the clause store and to the watch lists. -/
theorem mk_bin_clause_spec (s : solver) (l1 l2 : literal) (learned : Bool)
    (h1 : l1.neg.index < s.m_watches.length) (h2 : l2.neg.index < s.m_watches.length) :
    (s.mk_bin_clause l1 l2 learned).m_cls_allocator = s.m_cls_allocator ∧
    (s.mk_bin_clause l1 l2 learned).m_clauses = s.m_clauses ∧
    (s.mk_bin_clause l1 l2 learned).m_learned = s.m_learned ∧
    ((s.at_base_lvl = true ∧ (s.value l1 = .l_false ∨ s.value l2 = .l_false)) →
      (s.mk_bin_clause l1 l2 learned).m_watches = s.m_watches) ∧
    (¬ (s.at_base_lvl = true ∧ (s.value l1 = .l_false ∨ s.value l2 = .l_false)) →
      watched.binary l2 learned ∈ (s.mk_bin_clause l1 l2 learned).get_wlist l1.neg.index ∧
      watched.binary l1 learned ∈ (s.mk_bin_clause l1 l2 learned).get_wlist l2.neg.index) := by
  have hw : ∀ t : solver, t.m_watches = s.m_watches →
      watched.binary l2 learned ∈ (t.push_bin_watches l1 l2 learned).get_wlist l1.neg.index ∧
      watched.binary l1 learned ∈ (t.push_bin_watches l1 l2 learned).get_wlist l2.neg.index := by
    intro t ht
    unfold push_bin_watches
    exact ⟨mem_push_watch_of_mem _ _ _ _ _ (mem_push_watch_self _ _ _ (by rw [ht]; exact h1)),
      mem_push_watch_self _ _ _ (by simpa [ht] using h2)⟩
  unfold mk_bin_clause propagate_bin_clause
  by_cases hv2 : s.value l2 = .l_false
  · have e2 : (s.value l2 == .l_false) = true := by simp [hv2]
    simp only [e2, ↓reduceIte, Bool.true_and, value_assign_frame_at_base_lvl,
      inc_bin_propagate, at_base_lvl] 
    by_cases hb : s.m_scope_lvl = 0
    · simp [hb, hv2, at_base_lvl]
    · have hb1 : (s.m_scope_lvl == 0) = false := by simpa using hb
      simp only [assign_m_scope_lvl, hb1, Bool.false_eq_true, ↓reduceIte]
      refine ⟨?_, ?_, ?_, ?_, ?_⟩
      · split <;> simp
      · split <;> simp
      · split <;> simp
      · intro h; simp [hb] at h
      · intro _
        apply hw
        split <;> simp
  · have e2 : (s.value l2 == .l_false) = false := by simpa using hv2
    simp only [e2, Bool.false_eq_true, ↓reduceIte]
    by_cases hv1 : s.value l1 = .l_false
    · have e1 : (s.value l1 == .l_false) = true := by simp [hv1]
      simp only [e1, ↓reduceIte, Bool.true_and, value_assign_frame_at_base_lvl,
        inc_bin_propagate, at_base_lvl]
      by_cases hb : s.m_scope_lvl = 0
      · simp [hb, hv1, at_base_lvl]
      · have hb1 : (s.m_scope_lvl == 0) = false := by simpa using hb
        simp only [assign_m_scope_lvl, hb1, Bool.false_eq_true, ↓reduceIte]
        refine ⟨?_, ?_, ?_, ?_, ?_⟩
        · split <;> simp
        · split <;> simp
        · split <;> simp
        · intro h; simp [hb] at h
        · intro _
          apply hw
          split <;> simp
    · have e1 : (s.value l1 == .l_false) = false := by simpa using hv1
      simp only [e1, Bool.false_eq_true, ↓reduceIte, Bool.false_and]
      refine ⟨by simp, by simp, by simp, ?_, ?_⟩
      · intro h; rcases h.2 with h | h
        · exact absurd h hv1
        · exact absurd h hv2
      · intro _; exact hw _ (by simp)


/-- What `attach_ter_clause` leaves behind: the clause store is untouched and
the three ternary watches are in place. -/
theorem attach_ter_clause_spec (s : solver) (off : clause_offset)
    (h0 : ((s.get_clause off).get 0).neg.index < s.m_watches.length)
    (h1 : ((s.get_clause off).get 1).neg.index < s.m_watches.length)
    (h2 : ((s.get_clause off).get 2).neg.index < s.m_watches.length) :
    (s.attach_ter_clause off).2.m_cls_allocator = s.m_cls_allocator ∧
    (s.attach_ter_clause off).2.m_clauses = s.m_clauses ∧
    (s.attach_ter_clause off).2.m_learned = s.m_learned ∧
    (s.attach_ter_clause off).2.m_watches.length = s.m_watches.length ∧
    watched.ternary ((s.get_clause off).get 1) ((s.get_clause off).get 2)
      ∈ (s.attach_ter_clause off).2.get_wlist ((s.get_clause off).get 0).neg.index ∧
    watched.ternary ((s.get_clause off).get 0) ((s.get_clause off).get 2)
      ∈ (s.attach_ter_clause off).2.get_wlist ((s.get_clause off).get 1).neg.index ∧
    watched.ternary ((s.get_clause off).get 0) ((s.get_clause off).get 1)
      ∈ (s.attach_ter_clause off).2.get_wlist ((s.get_clause off).get 2).neg.index := by
  have hw : (s.attach_ter_clause off).2.m_watches
      = (s.push_ter_watches (s.get_clause off)).m_watches := by
    unfold attach_ter_clause
    dsimp only
    split
    · split
      · simp
      · split
        · simp
        · split <;> simp
    · rfl
  have hrest : (s.attach_ter_clause off).2.m_cls_allocator = s.m_cls_allocator ∧
      (s.attach_ter_clause off).2.m_clauses = s.m_clauses ∧
      (s.attach_ter_clause off).2.m_learned = s.m_learned := by
    unfold attach_ter_clause
    dsimp only
    split
    · split
      · simp
      · split
        · simp
        · split <;> simp
    · simp
  refine ⟨hrest.1, hrest.2.1, hrest.2.2, ?_, ?_, ?_, ?_⟩
  · rw [hw]; simp [push_ter_watches]
  · rw [get_wlist_congr _ _ hw]
    unfold push_ter_watches
    exact mem_push_watch_of_mem _ _ _ _ _ (mem_push_watch_of_mem _ _ _ _ _
      (mem_push_watch_self _ _ _ h0))
  · rw [get_wlist_congr _ _ hw]
    unfold push_ter_watches
    exact mem_push_watch_of_mem _ _ _ _ _ (mem_push_watch_self _ _ _ (by simpa using h1))
  · rw [get_wlist_congr _ _ hw]
    unfold push_ter_watches
    exact mem_push_watch_self _ _ _ (by simpa using h2)

@[simp] theorem get_wlist_push_reinit_stack (s : solver) (off : clause_offset) (i : Nat) :
    (s.push_reinit_stack off).get_wlist i = s.get_wlist i := rfl

@[simp] theorem get_wlist_push_clause_vector (s : solver) (off : clause_offset) (b : Bool)
    (i : Nat) : (s.push_clause_vector off b).get_wlist i = s.get_wlist i := by
  simp [get_wlist]

@[simp] theorem get_clause_push_clause_vector (s : solver) (off : clause_offset) (b : Bool)
    (i : Nat) : (s.push_clause_vector off b).get_clause i = s.get_clause i := by
  simp [get_clause]

@[simp] theorem get_clause_inc_mk_ter_clause (s : solver) (i : Nat) :
    s.inc_mk_ter_clause.get_clause i = s.get_clause i := rfl

@[simp] theorem get_clause_inc_mk_clause (s : solver) (i : Nat) :
    s.inc_mk_clause.get_clause i = s.get_clause i := rfl

theorem push_clause_vector_vectors (s : solver) (off : clause_offset) (learned : Bool) :
    (learned = true → (s.push_clause_vector off learned).m_learned = s.m_learned ++ [off] ∧
      (s.push_clause_vector off learned).m_clauses = s.m_clauses) ∧
    (learned = false → (s.push_clause_vector off learned).m_clauses = s.m_clauses ++ [off] ∧
      (s.push_clause_vector off learned).m_learned = s.m_learned) := by
  cases learned <;> simp [push_clause_vector]

/-- What `mk_ter_clause` leaves behind for three literals. -/
theorem mk_ter_clause_spec (s : solver) (a b c : literal) (learned : Bool)
    (ha : a.neg.index < s.m_watches.length) (hb : b.neg.index < s.m_watches.length)
    (hc : c.neg.index < s.m_watches.length) :
    (s.mk_ter_clause [a, b, c] learned).1 = s.m_cls_allocator.length ∧
    (s.mk_ter_clause [a, b, c] learned).2.m_cls_allocator.length
      = s.m_cls_allocator.length + 1 ∧
    ((s.mk_ter_clause [a, b, c] learned).2.get_clause s.m_cls_allocator.length).lits
      = [a, b, c] ∧
    ((s.mk_ter_clause [a, b, c] learned).2.get_clause s.m_cls_allocator.length).m_learned
      = learned ∧
    (∀ i, i < s.m_cls_allocator.length →
      (s.mk_ter_clause [a, b, c] learned).2.get_clause i = s.get_clause i) ∧
    (learned = true →
      (s.mk_ter_clause [a, b, c] learned).2.m_learned
        = s.m_learned ++ [s.m_cls_allocator.length] ∧
      (s.mk_ter_clause [a, b, c] learned).2.m_clauses = s.m_clauses) ∧
    (learned = false →
      (s.mk_ter_clause [a, b, c] learned).2.m_clauses
        = s.m_clauses ++ [s.m_cls_allocator.length] ∧
      (s.mk_ter_clause [a, b, c] learned).2.m_learned = s.m_learned) ∧
    watched.ternary b c ∈ (s.mk_ter_clause [a, b, c] learned).2.get_wlist a.neg.index ∧
    watched.ternary a c ∈ (s.mk_ter_clause [a, b, c] learned).2.get_wlist b.neg.index ∧
    watched.ternary a b ∈ (s.mk_ter_clause [a, b, c] learned).2.get_wlist c.neg.index := by
  generalize hs1 : (s.inc_mk_ter_clause.alloc_clause [a, b, c] learned).2 = s1
  have hcl : s1.get_clause s.m_cls_allocator.length
      = { lits := [a, b, c], m_learned := learned } := by
    rw [← hs1]; exact get_clause_alloc_clause_new s.inc_mk_ter_clause _ _
  have hw1 : s1.m_watches = s.m_watches := by rw [← hs1]; simp
  have hold : ∀ i, i < s.m_cls_allocator.length → s1.get_clause i = s.get_clause i := by
    intro i hi
    rw [← hs1]
    exact get_clause_alloc_clause_old s.inc_mk_ter_clause _ _ i hi
  have hlen1 : s1.m_cls_allocator.length = s.m_cls_allocator.length + 1 := by
    rw [← hs1]; simp
  have hat := attach_ter_clause_spec s1 s.m_cls_allocator.length
    (by rw [hcl, hw1]; exact ha) (by rw [hcl, hw1]; exact hb) (by rw [hcl, hw1]; exact hc)
  rw [hcl] at hat
  simp only [clause.get, List.getD_cons_zero, List.getD_cons_succ] at hat
  obtain ⟨t1, t2, t3, _, t5, t6, t7⟩ := hat
  generalize hs2 : (s1.attach_ter_clause s.m_cls_allocator.length) = a2 at *
  have hmk : s.mk_ter_clause [a, b, c] learned
      = (s.m_cls_allocator.length,
          (if a2.1 && !learned then a2.2.push_reinit_stack s.m_cls_allocator.length
            else a2.2).push_clause_vector s.m_cls_allocator.length learned) := by
    unfold mk_ter_clause
    simp only [alloc_clause_fst, inc_mk_ter_clause_m_cls_allocator, hs1, hs2]
  rw [hmk]
  have hv := push_clause_vector_vectors
    (if a2.1 && !learned then a2.2.push_reinit_stack s.m_cls_allocator.length else a2.2)
    s.m_cls_allocator.length learned
  have hcl2 : ∀ i, a2.2.get_clause i = s1.get_clause i :=
    fun i => get_clause_congr _ _ t1 i
  have hcs1 : s1.m_clauses = s.m_clauses := by rw [← hs1]; simp
  have hls1 : s1.m_learned = s.m_learned := by rw [← hs1]; simp
  refine ⟨rfl, ?_, ?_, ?_, ?_, ?_, ?_, ?_, ?_, ?_⟩
  · split <;> simp [t1, hlen1]
  · simp only [get_clause_push_clause_vector]
    split
    · rw [get_clause_push_reinit_stack_lits, hcl2, hcl]
    · rw [hcl2, hcl]
  · simp only [get_clause_push_clause_vector]
    split
    · rw [get_clause_push_reinit_stack_m_learned, hcl2, hcl]
    · rw [hcl2, hcl]
  · intro i hi
    simp only [get_clause_push_clause_vector]
    split
    · simp only [push_reinit_stack]
      rw [get_clause_set_clause_ne _ _ _ _ (Nat.ne_of_gt hi),
        get_clause_congr _ a2.2 (by simp), hcl2, hold i hi]
    · rw [hcl2, hold i hi]
  · intro hl
    have := hv.1 hl
    rw [this.1, this.2]
    split <;> simp [t2, t3, hcs1, hls1]
  · intro hl
    have := hv.2 hl
    rw [this.1, this.2]
    split <;> simp [t2, t3, hcs1, hls1]
  · simp only [get_wlist_push_clause_vector]
    split
    · simpa using t5
    · exact t5
  · simp only [get_wlist_push_clause_vector]
    split
    · simpa using t6
    · exact t6
  · simp only [get_wlist_push_clause_vector]
    split
    · simpa using t7
    · exact t7


theorem getD_mem {α : Type} (xs : List α) (i : Nat) (d : α) (h : i < xs.length) :
    xs.getD i d ∈ xs := by
  rw [List.getD_eq_getElem _ _ h]
  exact List.getElem_mem _

/-- The state `attach_nary_clause` reaches before it pushes the two watches:
the clause at `off` holds a permutation of its literals and nothing else of
the clause store or of the watch lists has changed. -/
theorem attach_nary_clause_pre (s : solver) (off : clause_offset)
    (hoff : off < s.m_cls_allocator.length) (h2 : 2 ≤ (s.get_clause off).size)
    (hsz : (s.get_clause off).size ≤ UINT_MAX) :
    ∃ t : solver, (s.attach_nary_clause off).2 = t.push_nary_watches off ∧
      (t.get_clause off).lits.Perm (s.get_clause off).lits ∧
      (t.get_clause off).m_learned = (s.get_clause off).m_learned ∧
      (s.at_base_lvl = true → t.get_clause off = s.get_clause off) ∧
      (∀ i, i ≠ off → t.get_clause i = s.get_clause i) ∧
      t.m_watches = s.m_watches ∧ t.m_clauses = s.m_clauses ∧ t.m_learned = s.m_learned ∧
      t.m_cls_allocator.length = s.m_cls_allocator.length := by
  unfold attach_nary_clause
  by_cases hb : s.at_base_lvl = true
  · refine ⟨s, ?_, List.Perm.refl _, rfl, fun _ => rfl, fun _ _ => rfl, rfl, rfl, rfl, rfl⟩
    simp [hb]
  · have hb1 : (!s.at_base_lvl) = true := by simpa using hb
    simp only [hb1, ↓reduceIte]
    have hp := select_watches_perm s (s.get_clause off) h2 hsz
    have key : ∀ t : solver,
        t.m_cls_allocator = (s.set_clause off (s.select_watches (s.get_clause off))).m_cls_allocator →
        t.m_watches = s.m_watches → t.m_clauses = s.m_clauses → t.m_learned = s.m_learned →
        (t.get_clause off).lits.Perm (s.get_clause off).lits ∧
        (t.get_clause off).m_learned = (s.get_clause off).m_learned ∧
        (s.at_base_lvl = true → t.get_clause off = s.get_clause off) ∧
        (∀ i, i ≠ off → t.get_clause i = s.get_clause i) ∧
        t.m_watches = s.m_watches ∧ t.m_clauses = s.m_clauses ∧ t.m_learned = s.m_learned ∧
        t.m_cls_allocator.length = s.m_cls_allocator.length := by
      intro t e1 e2 e3 e4
      have eg : ∀ i, t.get_clause i
          = (s.set_clause off (s.select_watches (s.get_clause off))).get_clause i :=
        fun i => get_clause_congr _ _ e1 i
      refine ⟨?_, ?_, fun h => absurd h hb, ?_, e2, e3, e4, ?_⟩
      · rw [eg, get_clause_set_clause _ _ _ hoff]; exact hp
      · rw [eg, get_clause_set_clause _ _ _ hoff]; simp
      · intro i hi
        rw [eg, get_clause_set_clause_ne _ _ _ _ (Ne.symm hi)]
      · rw [e1]; simp
    split
    · exact ⟨_, rfl, key _ (by simp) (by simp) (by simp) (by simp)⟩
    · split
      · exact ⟨_, rfl, key _ (by simp) (by simp) (by simp) (by simp)⟩
      · exact ⟨_, rfl, key _ (by simp) (by simp) (by simp) (by simp)⟩

/-- What `mk_nary_clause` leaves behind for at least two literals that pass
the `VERIFY`. -/
theorem mk_nary_clause_spec (s : solver) (lits : List literal) (learned : Bool)
    (h2 : 2 ≤ lits.length) (hsz : lits.length ≤ UINT_MAX)
    (hv : verify_adjacent lits = true)
    (hw : ∀ l ∈ lits, l.neg.index < s.m_watches.length) :
    ∃ r : solver, s.mk_nary_clause lits learned = some (s.m_cls_allocator.length, r) ∧
      r.m_cls_allocator.length = s.m_cls_allocator.length + 1 ∧
      (r.get_clause s.m_cls_allocator.length).lits.Perm lits ∧
      (s.at_base_lvl = true → (r.get_clause s.m_cls_allocator.length).lits = lits) ∧
      (r.get_clause s.m_cls_allocator.length).m_learned = learned ∧
      (∀ i, i < s.m_cls_allocator.length → r.get_clause i = s.get_clause i) ∧
      (learned = true →
        r.m_learned = s.m_learned ++ [s.m_cls_allocator.length] ∧ r.m_clauses = s.m_clauses) ∧
      (learned = false →
        r.m_clauses = s.m_clauses ++ [s.m_cls_allocator.length] ∧ r.m_learned = s.m_learned) ∧
      watched.clause ((r.get_clause s.m_cls_allocator.length).get
          ((r.get_clause s.m_cls_allocator.length).size / 2)) s.m_cls_allocator.length
        ∈ r.get_wlist ((r.get_clause s.m_cls_allocator.length).get 0).neg.index ∧
      watched.clause ((r.get_clause s.m_cls_allocator.length).get
          ((r.get_clause s.m_cls_allocator.length).size / 2)) s.m_cls_allocator.length
        ∈ r.get_wlist ((r.get_clause s.m_cls_allocator.length).get 1).neg.index := by
  generalize hs1 : (s.inc_mk_clause.alloc_clause lits learned).2 = s1
  have hcl : s1.get_clause s.m_cls_allocator.length
      = { lits := lits, m_learned := learned } := by
    rw [← hs1]; exact get_clause_alloc_clause_new s.inc_mk_clause _ _
  have hw1 : s1.m_watches = s.m_watches := by rw [← hs1]; simp
  have hold : ∀ i, i < s.m_cls_allocator.length → s1.get_clause i = s.get_clause i := by
    intro i hi
    rw [← hs1]
    exact get_clause_alloc_clause_old s.inc_mk_clause _ _ i hi
  have hlen1 : s1.m_cls_allocator.length = s.m_cls_allocator.length + 1 := by
    rw [← hs1]; simp
  have hcs1 : s1.m_clauses = s.m_clauses := by rw [← hs1]; simp
  have hls1 : s1.m_learned = s.m_learned := by rw [← hs1]; simp
  have hb1 : s1.at_base_lvl = s.at_base_lvl := by rw [← hs1]; simp [at_base_lvl]
  obtain ⟨t, ht, tp, tl, tb, toth, tw, tc, tle, tlen⟩ :=
    attach_nary_clause_pre s1 s.m_cls_allocator.length (by rw [hlen1]; exact Nat.lt_succ_self _)
      (by rw [hcl]; exact h2) (by rw [hcl]; exact hsz)
  rw [hcl] at tp tl tb
  simp only at tp tl
  generalize hc : t.get_clause s.m_cls_allocator.length = c at *
  have hclen : c.lits.length = lits.length := tp.length_eq
  have hmem : ∀ i, i < c.lits.length → (c.get i).neg.index < t.m_watches.length := by
    intro i hi
    rw [tw, hw1]
    exact hw _ (tp.subset (getD_mem _ _ _ hi))
  generalize ha : s1.attach_nary_clause s.m_cls_allocator.length = a2 at *
  have hmk : s.mk_nary_clause lits learned
      = some (s.m_cls_allocator.length,
          (if a2.1 && !learned then a2.2.push_reinit_stack s.m_cls_allocator.length
            else a2.2).push_clause_vector s.m_cls_allocator.length learned) := by
    unfold mk_nary_clause
    simp only [hv, ↓reduceIte, alloc_clause_fst, inc_mk_clause_m_cls_allocator, hs1, ha]
  refine ⟨_, hmk, ?_⟩
  have hv2 := push_clause_vector_vectors
    (if a2.1 && !learned then a2.2.push_reinit_stack s.m_cls_allocator.length else a2.2)
    s.m_cls_allocator.length learned
  have hg : ∀ i, (a2.2.get_clause i) = t.get_clause i := by
    intro i; rw [ht]; rfl
  have hlits : ((if a2.1 && !learned then a2.2.push_reinit_stack s.m_cls_allocator.length
      else a2.2).get_clause s.m_cls_allocator.length).lits = c.lits := by
    split
    · rw [get_clause_push_reinit_stack_lits, hg, hc]
    · rw [hg, hc]
  have hwl : ∀ i, (if a2.1 && !learned then a2.2.push_reinit_stack s.m_cls_allocator.length
      else a2.2).get_wlist i = (t.push_nary_watches s.m_cls_allocator.length).get_wlist i := by
    intro i
    split
    · rw [get_wlist_push_reinit_stack, ht]
    · rw [ht]
  have hget : ∀ i, ((if a2.1 && !learned then a2.2.push_reinit_stack s.m_cls_allocator.length
      else a2.2).get_clause s.m_cls_allocator.length).get i = c.get i := by
    intro i; simp only [clause.get, hlits]
  have hsize : ((if a2.1 && !learned then a2.2.push_reinit_stack s.m_cls_allocator.length
      else a2.2).get_clause s.m_cls_allocator.length).size = c.size := by
    simp only [clause.size, hlits]
  refine ⟨?_, ?_, ?_, ?_, ?_, ?_, ?_, ?_, ?_⟩
  · split <;> simp [ht, tlen, hlen1]
  · simp only [get_clause_push_clause_vector, hlits]; exact tp
  · intro hb
    simp only [get_clause_push_clause_vector, hlits]
    rw [tb (hb1.trans hb)]
  · simp only [get_clause_push_clause_vector]
    split
    · rw [get_clause_push_reinit_stack_m_learned, hg, hc]; exact tl
    · rw [hg, hc]; exact tl
  · intro i hi
    simp only [get_clause_push_clause_vector]
    split
    · simp only [push_reinit_stack]
      rw [get_clause_set_clause_ne _ _ _ _ (Nat.ne_of_gt hi),
        get_clause_congr _ a2.2 (by simp), hg, toth i (Nat.ne_of_lt hi), hold i hi]
    · rw [hg, toth i (Nat.ne_of_lt hi), hold i hi]
  · intro hl
    have := hv2.1 hl
    rw [this.1, this.2]
    split <;> simp [ht, tc, tle, hcs1, hls1]
  · intro hl
    have := hv2.2 hl
    rw [this.1, this.2]
    split <;> simp [ht, tc, tle, hcs1, hls1]
  · simp only [get_clause_push_clause_vector, get_wlist_push_clause_vector, hget, hsize, hwl]
    unfold push_nary_watches
    simp only [hc]
    exact mem_push_watch_of_mem _ _ _ _ _ (mem_push_watch_self _ _ _ (hmem 0 (by omega)))
  · simp only [get_clause_push_clause_vector, get_wlist_push_clause_vector, hget, hsize, hwl]
    unfold push_nary_watches
    simp only [hc]
    exact mem_push_watch_self _ _ _ (by simpa using hmem 1 (by omega))


/-! ## C9: the size dispatch of `mk_clause_core` -/

/-- Every literal the normalisation loop adds counts as unassigned. -/
theorem simplify_clause_loop_undef (s : solver) (lvl0 : Bool) (rest : List literal) :
    ∀ prev out res, simplify_clause_loop s lvl0 rest prev out = some res →
      ∀ x ∈ res, x ∈ out ∨ s.simplify_value lvl0 x = lbool.l_undef := by
  induction rest with
  | nil =>
    intro prev out res h x hx
    simp only [simplify_clause_loop, Option.some.injEq] at h
    subst h
    exact Or.inl hx
  | cons curr rest ih =>
    intro prev out res h x hx
    unfold simplify_clause_loop at h
    cases hv : s.simplify_value lvl0 curr
    · simp only [hv] at h
      exact ih _ _ _ h x hx
    · simp only [hv] at h
      split at h
      · cases h
      · split at h
        · rcases ih _ _ _ h x hx with e | e
          · rcases List.mem_append.1 e with e1 | e1
            · exact Or.inl e1
            · rw [List.mem_singleton.1 e1]; exact Or.inr hv
          · exact Or.inr e
        · exact ih _ _ _ h x hx
    · simp only [hv] at h
      cases h

/-- At base level no literal left by `simplify_clause` is assigned. -/
theorem simplify_clause_base_undef (s : solver) (lits norm : List literal)
    (hb : s.at_base_lvl = true) (h : s.simplify_clause lits = some norm) :
    ∀ x ∈ norm, s.value x = lbool.l_undef := by
  intro x hx
  simp only [simplify_clause, hb, ↓reduceIte, simplify_clause_core] at h
  rcases simplify_clause_loop_undef s true _ _ _ _ h x hx with e | e
  · simp at e
  · simpa using e

/-- C9 as stated fails.  At scope level 1 the unit clause `x1`, which the
normalisation leaves as it is, becomes an assignment of `x1` at level 1, not
at level 0.  And at base level the learned clause `x1 ∨ x0` with `x0` false
adds no binary watch. -/
theorem C9_mk_clause_core_counterexample :
    example_level1.simplify_clause [⟨2⟩] = some [⟨2⟩] ∧
    ((example_level1.mk_clause_core [⟨2⟩] false).map
        fun r => (r.1, r.2.value ⟨2⟩, r.2.lvl ⟨2⟩)) = some (none, .l_true, 1) ∧
    example_base.value ⟨0⟩ = .l_false ∧
    ((example_base.mk_clause_core [⟨2⟩, ⟨0⟩] true).map fun r => r.2.m_watches)
      = some example_base.m_watches := by
  decide

/-- C9 (amended): size dispatch of `mk_clause_core` on the normalised clause
`norm` (the clause itself for a learned clause, what `simplify_clause` leaves
otherwise), with `s0` the solver at the dispatch.  Size 0 makes the solver
inconsistent.  Size 1 passes the single literal to `assign` with
justification `None`: an unassigned literal becomes true at the current scope
level (level 0 at base level) with justification `None`, a false one raises
a conflict.  Size 2 allocates no arena clause and adds the binary watch pair,
unless the clause is learned, the solver is at base level and one of the two
literals is false.  Size 3 allocates one arena clause holding the three
literals and adds the three ternary watches.  Size 4 or more, for literals
that pass the `VERIFY`, allocates one arena clause holding a permutation of
the literals (the literals themselves at base level) and adds generic watches
for it on the negations of its first two literals.  A new clause goes to the
learned vector or to the clause vector according to the flag, and the clauses
already in the arena are untouched. -/
theorem C9_mk_clause_core_dispatch (s s0 : solver) (lits norm : List literal) (learned : Bool)
    (hnorm : (learned = true ∧ norm = lits ∧ s0 = s)
      ∨ (learned = false ∧ s.simplify_clause lits = some norm
          ∧ s0 = s.inc_non_learned_generation))
    (hw : ∀ l ∈ norm, l.neg.index < s.m_watches.length)
    (hvar : ∀ l ∈ norm, l.var < s.m_level.length ∧ l.var < s.m_justification.length
      ∧ l.var < s.m_phase.length ∧ 2 * l.var + 1 < s.m_assignment.length)
    (hsz : norm.length ≤ UINT_MAX) :
    (norm = [] →
      s.mk_clause_core lits learned = some (none, s0.set_conflict .none) ∧
      (s0.set_conflict .none).m_inconsistent = true)
    ∧ (∀ l, norm = [l] →
      s.mk_clause_core lits learned = some (none, s0.assign l .none) ∧
      (s.value l = lbool.l_undef →
        (s0.assign l .none).value l = .l_true ∧
        (s0.assign l .none).lvl l = s.scope_lvl ∧
        (s0.assign l .none).m_justification.getD l.var (.binary l) = .none ∧
        (s0.assign l .none).m_trail = s.m_trail ++ [l]) ∧
      (s.value l = .l_false → (s0.assign l .none).m_inconsistent = true))
    ∧ (∀ l1 l2, norm = [l1, l2] →
      s.mk_clause_core lits learned = some (none, s0.mk_bin_clause l1 l2 learned) ∧
      (s0.mk_bin_clause l1 l2 learned).m_cls_allocator = s.m_cls_allocator ∧
      (s0.mk_bin_clause l1 l2 learned).m_clauses = s.m_clauses ∧
      (s0.mk_bin_clause l1 l2 learned).m_learned = s.m_learned ∧
      (¬ (learned = true ∧ s.m_scope_lvl = 0
          ∧ (s.value l1 = .l_false ∨ s.value l2 = .l_false)) →
        watched.binary l2 learned ∈ (s0.mk_bin_clause l1 l2 learned).get_wlist l1.neg.index ∧
        watched.binary l1 learned ∈ (s0.mk_bin_clause l1 l2 learned).get_wlist l2.neg.index))
    ∧ (∀ a b c, norm = [a, b, c] →
      ∃ r : solver,
        s.mk_clause_core lits learned = some (some s.m_cls_allocator.length, r) ∧
        r.m_cls_allocator.length = s.m_cls_allocator.length + 1 ∧
        (r.get_clause s.m_cls_allocator.length).lits = [a, b, c] ∧
        (r.get_clause s.m_cls_allocator.length).m_learned = learned ∧
        (∀ i, i < s.m_cls_allocator.length → r.get_clause i = s.get_clause i) ∧
        (learned = true →
          r.m_learned = s.m_learned ++ [s.m_cls_allocator.length] ∧ r.m_clauses = s.m_clauses) ∧
        (learned = false →
          r.m_clauses = s.m_clauses ++ [s.m_cls_allocator.length] ∧ r.m_learned = s.m_learned) ∧
        watched.ternary b c ∈ r.get_wlist a.neg.index ∧
        watched.ternary a c ∈ r.get_wlist b.neg.index ∧
        watched.ternary a b ∈ r.get_wlist c.neg.index)
    ∧ (4 ≤ norm.length → verify_adjacent norm = true →
      ∃ r : solver,
        s.mk_clause_core lits learned = some (some s.m_cls_allocator.length, r) ∧
        r.m_cls_allocator.length = s.m_cls_allocator.length + 1 ∧
        (r.get_clause s.m_cls_allocator.length).lits.Perm norm ∧
        (s.m_scope_lvl = 0 → (r.get_clause s.m_cls_allocator.length).lits = norm) ∧
        (r.get_clause s.m_cls_allocator.length).m_learned = learned ∧
        (∀ i, i < s.m_cls_allocator.length → r.get_clause i = s.get_clause i) ∧
        (learned = true →
          r.m_learned = s.m_learned ++ [s.m_cls_allocator.length] ∧ r.m_clauses = s.m_clauses) ∧
        (learned = false →
          r.m_clauses = s.m_clauses ++ [s.m_cls_allocator.length] ∧ r.m_learned = s.m_learned) ∧
        watched.clause ((r.get_clause s.m_cls_allocator.length).get
            ((r.get_clause s.m_cls_allocator.length).size / 2)) s.m_cls_allocator.length
          ∈ r.get_wlist ((r.get_clause s.m_cls_allocator.length).get 0).neg.index ∧
        watched.clause ((r.get_clause s.m_cls_allocator.length).get
            ((r.get_clause s.m_cls_allocator.length).size / 2)) s.m_cls_allocator.length
          ∈ r.get_wlist ((r.get_clause s.m_cls_allocator.length).get 1).neg.index) := by
  have hcore : s.mk_clause_core lits learned = s0.mk_clause_dispatch norm learned := by
    rcases hnorm with ⟨h1, h2, h3⟩ | ⟨h1, h2, h3⟩
    · subst h1 h2 h3; simp [mk_clause_core]
    · subst h1 h3; simp [mk_clause_core, h2]
  have e_val : ∀ x, s0.value x = s.value x := by
    rcases hnorm with ⟨_, _, h3⟩ | ⟨_, _, h3⟩ <;> subst h3 <;> intro x <;> rfl
  have e_w : s0.m_watches = s.m_watches := by
    rcases hnorm with ⟨_, _, h3⟩ | ⟨_, _, h3⟩ <;> subst h3 <;> rfl
  have e_a : s0.m_cls_allocator = s.m_cls_allocator := by
    rcases hnorm with ⟨_, _, h3⟩ | ⟨_, _, h3⟩ <;> subst h3 <;> rfl
  have e_c : s0.m_clauses = s.m_clauses := by
    rcases hnorm with ⟨_, _, h3⟩ | ⟨_, _, h3⟩ <;> subst h3 <;> rfl
  have e_l : s0.m_learned = s.m_learned := by
    rcases hnorm with ⟨_, _, h3⟩ | ⟨_, _, h3⟩ <;> subst h3 <;> rfl
  have e_lv : s0.m_level = s.m_level := by
    rcases hnorm with ⟨_, _, h3⟩ | ⟨_, _, h3⟩ <;> subst h3 <;> rfl
  have e_j : s0.m_justification = s.m_justification := by
    rcases hnorm with ⟨_, _, h3⟩ | ⟨_, _, h3⟩ <;> subst h3 <;> rfl
  have e_p : s0.m_phase = s.m_phase := by
    rcases hnorm with ⟨_, _, h3⟩ | ⟨_, _, h3⟩ <;> subst h3 <;> rfl
  have e_as : s0.m_assignment = s.m_assignment := by
    rcases hnorm with ⟨_, _, h3⟩ | ⟨_, _, h3⟩ <;> subst h3 <;> rfl
  have e_t : s0.m_trail = s.m_trail := by
    rcases hnorm with ⟨_, _, h3⟩ | ⟨_, _, h3⟩ <;> subst h3 <;> rfl
  have e_s : s0.m_scope_lvl = s.m_scope_lvl := by
    rcases hnorm with ⟨_, _, h3⟩ | ⟨_, _, h3⟩ <;> subst h3 <;> rfl
  have e_i : s0.m_inconsistent = s.m_inconsistent := by
    rcases hnorm with ⟨_, _, h3⟩ | ⟨_, _, h3⟩ <;> subst h3 <;> rfl
  have e_g : ∀ i, s0.get_clause i = s.get_clause i := fun i => get_clause_congr _ _ e_a i
  rw [hcore]
  refine ⟨?_, ?_, ?_, ?_, ?_⟩
  · intro hn
    subst hn
    refine ⟨rfl, ?_⟩
    unfold set_conflict
    split
    · assumption
    · rfl
  · intro l hn
    subst hn
    have hl := hvar l (List.mem_singleton.2 rfl)
    refine ⟨rfl, ?_, ?_⟩
    · intro hu
      have hu0 : s0.value l = lbool.l_undef := (e_val l).trans hu
      have hass : s0.assign l .none = s0.assign_core l .none := by
        simp only [assign, hu0]
      rw [hass]
      refine ⟨?_, ?_, ?_, ?_⟩
      · exact assign_core_value_self _ _ _
          (by rw [e_as]; exact (index_lt_of_var l _ hl.2.2.2).1)
      · simp only [lvl, lvl_var, assign_core_m_level, scope_lvl, e_s]
        exact getD_set_self _ _ _ _ (by rw [e_lv]; exact hl.1)
      · simp only [assign_core_m_justification, ite_self]
        exact getD_set_self _ _ _ _ (by rw [e_j]; exact hl.2.1)
      · rw [assign_core_m_trail, e_t]
    · intro hf
      have hf0 : s0.value l = .l_false := (e_val l).trans hf
      simp only [assign, hf0]
      unfold set_conflict
      split
      · assumption
      · rfl
  · intro l1 l2 hn
    subst hn
    have h1 := hw l1 (by simp)
    have h2 := hw l2 (by simp)
    obtain ⟨b1, b2, b3, _, b5⟩ := mk_bin_clause_spec s0 l1 l2 learned
      (by rw [e_w]; exact h1) (by rw [e_w]; exact h2)
    refine ⟨rfl, b1.trans e_a, b2.trans e_c, b3.trans e_l, ?_⟩
    intro hne
    apply b5
    rintro ⟨hb, hf⟩
    have hb' : s.m_scope_lvl = 0 := by
      simp only [at_base_lvl, e_s] at hb; simpa using hb
    rw [e_val, e_val] at hf
    rcases hnorm with ⟨hl, _, _⟩ | ⟨_, hsimp, _⟩
    · exact hne ⟨hl, hb', hf⟩
    · have hu := simplify_clause_base_undef s lits _ (by simp [at_base_lvl, hb']) hsimp
      rcases hf with hf | hf
      · rw [hu l1 (by simp)] at hf; cases hf
      · rw [hu l2 (by simp)] at hf; cases hf
  · intro a b c hn
    subst hn
    obtain ⟨t1, t2, t3, t4, t5, t6, t7, t8, t9, t10⟩ := mk_ter_clause_spec s0 a b c learned
      (by rw [e_w]; exact hw a (by simp)) (by rw [e_w]; exact hw b (by simp))
      (by rw [e_w]; exact hw c (by simp))
    rw [e_a] at t1 t2 t3 t4 t5 t6 t7
    rw [e_l, e_c] at t6 t7
    refine ⟨(s0.mk_ter_clause [a, b, c] learned).2, ?_, t2, t3, t4, ?_, t6, t7, t8, t9, t10⟩
    · simp only [mk_clause_dispatch, List.length_cons, List.length_nil]
      rw [t1]
    · intro i hi
      rw [t5 i hi, e_g]
  · intro h4 hv
    obtain ⟨r, r0, r1, r2, r3, r4, r5, r6, r7, r8, r9⟩ := mk_nary_clause_spec s0 norm learned
      (by omega) hsz hv (by rw [e_w]; exact hw)
    rw [e_a] at r0 r1 r2 r3 r4 r5 r6 r7 r8 r9
    rw [e_l, e_c] at r6 r7
    refine ⟨r, ?_, r1, r2, ?_, r4, ?_, r6, r7, r8, r9⟩
    · unfold mk_clause_dispatch
      split
      · omega
      · omega
      · omega
      · omega
      · rw [r0]
    · intro hb
      exact r3 (by simp [at_base_lvl, e_s, hb])
    · intro i hi
      rw [r5 i hi, e_g]

/-- C9 (amended) at concrete inputs: at base level the clause `x1 ∨ x2` is
stored as a pair of binary watches and no arena clause. -/
theorem C9_mk_clause_core_dispatch_witness :
    example_base.simplify_clause [⟨4⟩, ⟨2⟩] = some [⟨2⟩, ⟨4⟩] ∧
    (example_base.inc_non_learned_generation.mk_bin_clause ⟨2⟩ ⟨4⟩ false).m_cls_allocator
      = [] ∧
    watched.binary ⟨4⟩ false ∈
      (example_base.inc_non_learned_generation.mk_bin_clause ⟨2⟩ ⟨4⟩ false).get_wlist 3 ∧
    watched.binary ⟨2⟩ false ∈
      (example_base.inc_non_learned_generation.mk_bin_clause ⟨2⟩ ⟨4⟩ false).get_wlist 5 :=
  have h := (C9_mk_clause_core_dispatch example_base example_base.inc_non_learned_generation
    [⟨4⟩, ⟨2⟩] [⟨2⟩, ⟨4⟩] false (Or.inr ⟨rfl, by decide, rfl⟩) (by decide) (by decide)
    (by decide)).2.2.1 ⟨2⟩ ⟨4⟩ rfl
  ⟨by decide, h.2.1, (h.2.2.2.2 (by decide)).1, (h.2.2.2.2 (by decide)).2⟩


/-! ## C6: the queue head -/

/-- What one step of the watch loop leaves alone: the queue head stays, the
trail only grows, and a step that does not end in a conflict leaves a
consistent solver consistent. -/
theorem propagate_watch_frame {ext : ext_propagate} (hext : ext_ok ext) (update : Bool)
    (s : solver) (l : literal) (w : watched) :
    (propagate_watch ext update s l w).1.m_qhead = s.m_qhead ∧
    s.m_trail.length ≤ (propagate_watch ext update s l w).1.m_trail.length ∧
    ((∀ skip c, (propagate_watch ext update s l w).2 ≠ .conflict skip c) →
      s.m_inconsistent = false →
      (propagate_watch ext update s l w).1.m_inconsistent = false) := by
  cases w with
  | binary l1 learned =>
    simp only [propagate_watch, propagate_binary]
    split <;> simp
  | ternary l1 l2 =>
    simp only [propagate_watch, propagate_ternary]
    split
    · simp
    · split
      · simp
      · split <;> simp
  | clause blocked off =>
    simp only [propagate_watch, propagate_clause]
    split
    · simp
    · generalize (s.get_clause off).swap_watch l.neg = c
      split
      · simp
      · unfold propagate_clause_watched
        split
        · simp
        · split
          · simp [propagate_clause_replace]
          · unfold propagate_clause_unit
            split <;> simp
  | ext_constraint idx =>
    simp only [propagate_watch, propagate_ext]
    refine ⟨?_, ?_, ?_⟩
    · split
      · exact hext.qhead _ _ _
      · split <;> exact hext.qhead _ _ _
    · split
      · exact hext.trail_length _ _ _
      · split <;> exact hext.trail_length _ _ _
    · intro hc _
      by_cases h : (ext l idx s).2.m_inconsistent = true
      · exfalso
        have := hc (!(ext l idx s).1) none
        simp [h] at this
      · simp only [h, Bool.false_eq_true, ↓reduceIte]
        split <;> simpa using h

/-- The loop over one watch list leaves the queue head alone, only extends
the trail, and when it ends without a conflict the solver is consistent if it
was. -/
theorem propagate_wlist_frame {ext : ext_propagate} (hext : ext_ok ext) (update : Bool)
    (l : literal) (rest : List watched) :
    ∀ (s : solver) (kept : List watched),
      (propagate_wlist ext update l s kept rest).2.m_qhead = s.m_qhead ∧
      s.m_trail.length ≤ (propagate_wlist ext update l s kept rest).2.m_trail.length ∧
      ((propagate_wlist ext update l s kept rest).1 = true → s.m_inconsistent = false →
        (propagate_wlist ext update l s kept rest).2.m_inconsistent = false) := by
  induction rest with
  | nil => intro s kept; simp [propagate_wlist]
  | cons w rest ih =>
    intro s kept
    have hf := propagate_watch_frame hext update s l w
    unfold propagate_wlist
    rcases hstep : propagate_watch ext update s l w with ⟨s1, o⟩
    rw [hstep] at hf
    simp only at hf
    obtain ⟨f1, f2, f3⟩ := hf
    cases o with
    | keep w1 =>
      simp only
      obtain ⟨g1, g2, g3⟩ := ih s1 (kept ++ [w1])
      exact ⟨g1.trans f1, Nat.le_trans f2 g2,
        fun h hi => g3 h (f3 (fun _ _ => by simp) hi)⟩
    | drop =>
      simp only
      obtain ⟨g1, g2, g3⟩ := ih s1 kept
      exact ⟨g1.trans f1, Nat.le_trans f2 g2,
        fun h hi => g3 h (f3 (fun _ _ => by simp) hi)⟩
    | conflict skip c =>
      cases c with
      | none => simp [f1, f2]
      | some jc => simp [f1, f2]

theorem propagate_literal_frame {ext : ext_propagate} (hext : ext_ok ext) (update : Bool)
    (s : solver) :
    (propagate_literal ext update s).2.m_qhead = s.m_qhead + 1 ∧
    s.m_trail.length ≤ (propagate_literal ext update s).2.m_trail.length ∧
    ((propagate_literal ext update s).1 = true → s.m_inconsistent = false →
      (propagate_literal ext update s).2.m_inconsistent = false) := by
  unfold propagate_literal
  exact propagate_wlist_frame hext update _ _ s.inc_qhead _

/-- Partial correctness of the loop of `propagate_core`. -/
theorem propagate_loop_frame {ext : ext_propagate} (hext : ext_ok ext) (update : Bool) :
    ∀ (fuel : Nat) (s : solver) (r : Bool) (s' : solver),
      s.m_qhead ≤ s.m_trail.length → s.m_inconsistent = false →
      propagate_loop ext update fuel s = some (r, s') →
      s'.m_qhead ≤ s'.m_trail.length ∧
      (r = true → s'.m_inconsistent = false ∧ s'.m_qhead = s'.m_trail.length) := by
  intro fuel
  induction fuel with
  | zero =>
    intro s r s' hq hi h
    unfold propagate_loop at h
    split at h
    · cases h
    · simp only [Option.some.injEq, Prod.mk.injEq] at h
      obtain ⟨rfl, rfl⟩ := h
      exact ⟨hq, fun _ => ⟨hi, by omega⟩⟩
  | succ n ih =>
    intro s r s' hq hi h
    unfold propagate_loop at h
    split at h
    · rename_i hlt
      simp only [hi, Bool.false_eq_true, ↓reduceIte] at h
      obtain ⟨f1, f2, f3⟩ := propagate_literal_frame hext update s
      rcases hstep : propagate_literal ext update s with ⟨b, s1⟩
      rw [hstep] at h f1 f2 f3
      simp only at f1 f2 f3
      cases b with
      | false =>
        simp only [Option.some.injEq, Prod.mk.injEq] at h
        obtain ⟨rfl, rfl⟩ := h
        exact ⟨by omega, fun h => by cases h⟩
      | true =>
        simp only at h
        exact ih s1 r s' (by omega) (f3 rfl hi) h
    · simp only [Option.some.injEq, Prod.mk.injEq] at h
      obtain ⟨rfl, rfl⟩ := h
      exact ⟨hq, fun _ => ⟨hi, by omega⟩⟩


/-! ## Termination of the propagation loop -/

theorem count_set_le {α : Type} [DecidableEq α] (xs : List α) (a x : α) (ha : a ≠ x) :
    ∀ i, (xs.set i a).count x ≤ xs.count x := by
  induction xs with
  | nil => intro i; simp
  | cons y ys ih =>
    intro i
    cases i with
    | zero =>
      simp only [List.set_cons_zero, List.count_cons]
      have : (a == x) = false := by simpa using ha
      simp only [this, Bool.false_eq_true, ↓reduceIte]
      omega
    | succ n =>
      simp only [List.set_cons_succ, List.count_cons]
      have := ih n
      omega

theorem count_set_lt {α : Type} [DecidableEq α] (xs : List α) (a x d : α) (ha : a ≠ x) :
    ∀ i, i < xs.length → xs.getD i d = x → (xs.set i a).count x + 1 ≤ xs.count x := by
  induction xs with
  | nil => intro i h; simp at h
  | cons y ys ih =>
    intro i hi hx
    cases i with
    | zero =>
      simp only [List.getD_cons_zero] at hx
      simp only [List.set_cons_zero, List.count_cons]
      have h1 : (a == x) = false := by simpa using ha
      have h2 : (y == x) = true := by simpa using hx
      simp only [h1, h2, Bool.false_eq_true, ↓reduceIte]
      omega
    | succ n =>
      simp only [List.getD_cons_succ] at hx
      simp only [List.set_cons_succ, List.count_cons]
      have := ih n (by simpa using hi) hx
      omega

/-- Assigning an unassigned literal of the assignment array does not raise
the number of unassigned entries plus the length of the trail. -/
theorem assign_core_measure (s : solver) (x : literal) (j : justification)
    (hx : x.index < s.m_assignment.length) (hv : s.value x = lbool.l_undef) :
    (s.assign_core x j).undef_count + (s.assign_core x j).m_trail.length
      ≤ s.undef_count + s.m_trail.length := by
  simp only [undef_count, assign_core_m_assignment, assign_core_m_trail, List.length_append,
    List.length_singleton]
  have h1 := count_set_lt s.m_assignment .l_true lbool.l_undef lbool.l_undef (by decide)
    x.index hx hv
  have h2 := count_set_le (s.m_assignment.set x.index .l_true) .l_false lbool.l_undef
    (by decide) x.neg.index
  omega

theorem propagate_wf_congr (s s1 : solver) (h : propagate_wf s)
    (hw : s1.m_watches = s.m_watches) (ha : s1.m_cls_allocator = s.m_cls_allocator)
    (hl : s1.m_assignment.length = s.m_assignment.length) : propagate_wf s1 := by
  unfold propagate_wf at *
  rw [hw, ha, hl]
  exact h

theorem propagate_wf_assign_core (s : solver) (x : literal) (j : justification)
    (h : propagate_wf s) : propagate_wf (s.assign_core x j) :=
  propagate_wf_congr s _ h (by simp) (by simp) (by simp)

theorem mem_set_cases {α : Type} (xs : List α) (i : Nat) (a y : α) (h : y ∈ xs.set i a) :
    y = a ∨ y ∈ xs := by
  rcases List.mem_or_eq_of_mem_set h with h | h
  · exact Or.inr h
  · exact Or.inl h

theorem propagate_wf_set_clause (s : solver) (off : clause_offset) (c : clause)
    (h : propagate_wf s) (hc : clause_ok s.m_assignment.length c) :
    propagate_wf (s.set_clause off c) := by
  unfold propagate_wf at *
  simp only [set_clause_m_watches, set_clause_m_assignment, set_clause_m_cls_allocator_length]
  refine ⟨h.1, ?_⟩
  intro c1 hc1
  rcases mem_set_cases _ _ _ _ hc1 with e | e
  · rw [e]; exact hc
  · exact h.2 c1 e

theorem propagate_wf_push_watch (s : solver) (idx : Nat) (w : watched)
    (h : propagate_wf s)
    (hw : watch_ok s.m_assignment.length s.m_cls_allocator.length w = true) :
    propagate_wf (s.push_watch idx w) := by
  unfold propagate_wf at *
  simp only [push_watch_m_assignment, push_watch_m_cls_allocator]
  refine ⟨?_, h.2⟩
  intro ws hws w1 hw1
  rcases mem_set_cases _ _ _ _ hws with e | e
  · rw [e] at hw1
    rcases List.mem_append.1 hw1 with e1 | e1
    · by_cases hi : idx < s.m_watches.length
      · exact h.1 _ (by
          unfold get_wlist
          rw [List.getD_eq_getElem _ _ hi]
          exact List.getElem_mem _) w1 e1
      · unfold get_wlist at e1
        rw [List.getD_eq_default _ _ (by omega)] at e1
        simp at e1
    · rw [List.mem_singleton.1 e1]; exact hw
  · exact h.1 ws e w1 hw1

theorem propagate_wf_set_wlist (s : solver) (l : literal) (ws : List watched)
    (h : propagate_wf s)
    (hw : ∀ w ∈ ws, watch_ok s.m_assignment.length s.m_cls_allocator.length w = true) :
    propagate_wf (s.set_wlist l ws) := by
  unfold propagate_wf at *
  simp only [set_wlist_m_assignment, set_wlist_m_cls_allocator]
  refine ⟨?_, h.2⟩
  intro ws1 hws w1 hw1
  rcases mem_set_cases _ _ _ _ hws with e | e
  · rw [e] at hw1; exact hw w1 hw1
  · exact h.1 ws1 e w1 hw1

theorem clause_ok_of_perm (n : Nat) (c c1 : clause) (h : clause_ok n c)
    (hp : c1.lits.Perm c.lits) : clause_ok n c1 := by
  unfold clause_ok clause.size at *
  exact ⟨by rw [hp.length_eq]; exact h.1, fun l hl => h.2 l (hp.subset hl)⟩

theorem clause_ok_get_clause (s : solver) (off : clause_offset) (h : propagate_wf s)
    (hoff : off < s.m_cls_allocator.length) :
    clause_ok s.m_assignment.length (s.get_clause off) := by
  apply h.2
  unfold get_clause
  rw [List.getD_eq_getElem _ _ hoff]
  exact List.getElem_mem _


theorem propagate_wf_update_glue (s : solver) (update : Bool) (off : clause_offset) (c : clause)
    (h : propagate_wf s) (hc : clause_ok s.m_assignment.length c) :
    propagate_wf (s.update_glue update off c) := by
  unfold update_glue
  split
  · dsimp only
    have h1 : propagate_wf (s.num_diff_levels_below c.lits (c.m_glue - 1)).2.2 :=
      propagate_wf_congr s _ h (by simp) (by simp) (by simp)
    split
    · exact propagate_wf_set_clause _ _ _ h1 (by simpa using hc)
    · exact h1
  · exact h

@[simp] theorem update_glue_m_cls_allocator_length (s : solver) (update : Bool)
    (off : clause_offset) (c : clause) :
    (s.update_glue update off c).m_cls_allocator.length = s.m_cls_allocator.length := by
  unfold update_glue
  split
  · dsimp only
    split <;> simp
  · rfl

theorem value_cases_undef (s : solver) (x : literal) (h1 : s.value x ≠ .l_true)
    (h2 : s.value x ≠ .l_false) : s.value x = lbool.l_undef := by
  cases h : s.value x
  · exact absurd h h2
  · rfl
  · exact absurd h h1

/-- One step of the watch loop on a well-formed state and entry: the state
stays well formed, the arrays keep their lengths, a copied entry is well
formed, and the number of unassigned entries plus the trail length does not
grow. -/
theorem propagate_watch_wf (ext : ext_propagate) (update : Bool) (s : solver) (l : literal)
    (w : watched) (h : propagate_wf s)
    (hw : watch_ok s.m_assignment.length s.m_cls_allocator.length w = true) :
    propagate_wf (propagate_watch ext update s l w).1 ∧
    (propagate_watch ext update s l w).1.m_assignment.length = s.m_assignment.length ∧
    (propagate_watch ext update s l w).1.m_cls_allocator.length = s.m_cls_allocator.length ∧
    (∀ w1, (propagate_watch ext update s l w).2 = .keep w1 →
      watch_ok s.m_assignment.length s.m_cls_allocator.length w1 = true) ∧
    (propagate_watch ext update s l w).1.undef_count
        + (propagate_watch ext update s l w).1.m_trail.length
      ≤ s.undef_count + s.m_trail.length := by
  cases w with
  | binary l1 learned =>
    have hl1 : l1.index < s.m_assignment.length := by simpa [watch_ok] using hw
    simp only [propagate_watch, propagate_binary]
    cases hv : s.value l1
    · exact ⟨h, rfl, rfl, fun w1 e => by simp at e, Nat.le_refl _⟩
    · refine ⟨propagate_wf_assign_core _ _ _ (propagate_wf_congr s _ h rfl rfl rfl),
        by simp, by simp, ?_, assign_core_measure s.inc_bin_propagate l1 _ hl1 hv⟩
      intro w1 e
      simp only [watch_outcome.keep.injEq] at e
      rw [← e]; exact hw
    · refine ⟨h, rfl, rfl, ?_, Nat.le_refl _⟩
      intro w1 e
      simp only [watch_outcome.keep.injEq] at e
      rw [← e]; exact hw
  | ternary l1 l2 =>
    have hl : l1.index < s.m_assignment.length ∧ l2.index < s.m_assignment.length := by
      simpa [watch_ok] using hw
    have hk : ∀ w1, watch_outcome.keep (watched.ternary l1 l2) = .keep w1 →
        watch_ok s.m_assignment.length s.m_cls_allocator.length w1 = true := by
      intro w1 e
      simp only [watch_outcome.keep.injEq] at e
      rw [← e]; exact hw
    simp only [propagate_watch, propagate_ternary]
    split
    · rename_i hc
      have hv : s.value l2 = lbool.l_undef := by simp at hc; exact hc.2
      exact ⟨propagate_wf_assign_core _ _ _ (propagate_wf_congr s _ h rfl rfl rfl),
        by simp, by simp, hk, assign_core_measure s.inc_ter_propagate l2 _ hl.2 hv⟩
    · split
      · rename_i hc
        have hv : s.value l1 = lbool.l_undef := by simp at hc; exact hc.1
        exact ⟨propagate_wf_assign_core _ _ _ (propagate_wf_congr s _ h rfl rfl rfl),
          by simp, by simp, hk, assign_core_measure s.inc_ter_propagate l1 _ hl.1 hv⟩
      · split
        · exact ⟨h, rfl, rfl, fun w1 e => by simp at e, Nat.le_refl _⟩
        · exact ⟨h, rfl, rfl, hk, Nat.le_refl _⟩
  | clause blocked off =>
    have hoff : off < s.m_cls_allocator.length := by simpa [watch_ok] using hw
    have hk : ∀ b w1, watch_outcome.keep (watched.clause b off) = .keep w1 →
        watch_ok s.m_assignment.length s.m_cls_allocator.length w1 = true := by
      intro b w1 e
      simp only [watch_outcome.keep.injEq] at e
      rw [← e]; simpa [watch_ok] using hoff
    have hc0 := clause_ok_get_clause s off h hoff
    simp only [propagate_watch, propagate_clause]
    split
    · exact ⟨h, rfl, rfl, hk _, Nat.le_refl _⟩
    · have hcs : clause_ok s.m_assignment.length ((s.get_clause off).swap_watch l.neg) :=
        clause_ok_of_perm _ _ _ hc0 (swap_watch_perm _ _ hc0.1)
      generalize (s.get_clause off).swap_watch l.neg = c at hcs
      have h1 : propagate_wf (s.set_clause off c) := propagate_wf_set_clause _ _ _ h hcs
      split
      · exact ⟨h1, rfl, by simp, hk _, Nat.le_refl _⟩
      · rename_i hstale
        have hc1 : c.get 1 = l.neg := by
          simp only [Bool.or_eq_true, bne_iff_ne, ne_eq, not_or, Decidable.not_not]
            at hstale
          exact hstale.2
        unfold propagate_clause_watched
        split
        · exact ⟨h1, rfl, by simp, hk _, Nat.le_refl _⟩
        · rename_i hnt
          split
          · rename_i k hk1
            obtain ⟨k2, klt, _, _⟩ := find_not_false_eq_some _ _ _ _ hk1
            have klen : k < c.lits.length := by
              simp only [List.length_drop] at klt; omega
            have hp : ((c.set 1 (c.get k)).set k l.neg).lits.Perm c.lits := by
              have := perm_set_one_set null_literal c.lits k k2 klen
              simp only [clause.set, clause.get] at hc1 ⊢
              rw [hc1] at this
              exact this
            have hcs2 := clause_ok_of_perm _ _ _ hcs hp
            simp only [propagate_clause_replace]
            refine ⟨?_, rfl, by simp, fun w1 e => by simp at e, Nat.le_refl _⟩
            apply propagate_wf_push_watch
            · exact propagate_wf_set_clause _ _ _ h1 hcs2
            · simpa [watch_ok] using hoff
          · unfold propagate_clause_unit
            have hcu : clause_ok s.m_assignment.length { c with m_used := true } := hcs
            split
            · exact ⟨propagate_wf_set_clause _ _ _ h1 hcu, rfl, by simp,
                fun w1 e => by simp at e, Nat.le_refl _⟩
            · rename_i hnf
              have hv : s.value (c.get 0) = lbool.l_undef :=
                value_cases_undef _ _ (by simpa using hnt) (by simpa using hnf)
              have h0 : (c.get 0).index < s.m_assignment.length :=
                hcs.2 _ (getD_mem _ _ _ (by have := hcs.1; unfold clause.size at this; omega))
              have h2 : propagate_wf ((s.set_clause off c).inc_propagate.set_clause off
                  { c with m_used := true }) :=
                propagate_wf_set_clause _ _ _ (propagate_wf_congr _ _ h1 rfl rfl rfl) hcu
              refine ⟨?_, by simp, by simp, hk _, ?_⟩
              · apply propagate_wf_update_glue
                · exact propagate_wf_assign_core _ _ _ h2
                · simpa using hcu
              · have := assign_core_measure ((s.set_clause off c).inc_propagate.set_clause off
                  { c with m_used := true }) (c.get 0) (.clause off) h0 hv
                simpa [undef_count] using this
  | ext_constraint idx => simp [watch_ok] at hw


/-- The loop over one watch list keeps a well-formed state well formed and
does not raise the number of unassigned entries plus the trail length. -/
theorem propagate_wlist_wf (ext : ext_propagate) (update : Bool) (l : literal)
    (rest : List watched) :
    ∀ (s : solver) (kept : List watched), propagate_wf s →
      (∀ w ∈ kept, watch_ok s.m_assignment.length s.m_cls_allocator.length w = true) →
      (∀ w ∈ rest, watch_ok s.m_assignment.length s.m_cls_allocator.length w = true) →
      propagate_wf (propagate_wlist ext update l s kept rest).2 ∧
      (propagate_wlist ext update l s kept rest).2.undef_count
          + (propagate_wlist ext update l s kept rest).2.m_trail.length
        ≤ s.undef_count + s.m_trail.length := by
  induction rest with
  | nil =>
    intro s kept h hk _
    simp only [propagate_wlist]
    exact ⟨propagate_wf_set_wlist _ _ _ h hk, Nat.le_refl _⟩
  | cons w rest ih =>
    intro s kept h hk hr
    obtain ⟨f1, f2, f3, f4, f5⟩ := propagate_watch_wf ext update s l w h
      (hr w (List.mem_cons_self _ _))
    have hr1 : ∀ w1 ∈ rest,
        watch_ok s.m_assignment.length s.m_cls_allocator.length w1 = true :=
      fun w1 hw1 => hr w1 (List.mem_cons_of_mem _ hw1)
    unfold propagate_wlist
    rcases hstep : propagate_watch ext update s l w with ⟨s1, o⟩
    rw [hstep] at f1 f2 f3 f4 f5
    simp only at f1 f2 f3 f4 f5
    cases o with
    | keep w1 =>
      simp only
      have hk1 : ∀ w2 ∈ kept ++ [w1],
          watch_ok s1.m_assignment.length s1.m_cls_allocator.length w2 = true := by
        intro w2 hw2
        rw [f2, f3]
        rcases List.mem_append.1 hw2 with e | e
        · exact hk w2 e
        · rw [List.mem_singleton.1 e]; exact f4 w1 rfl
      obtain ⟨g1, g2⟩ := ih s1 (kept ++ [w1]) f1 hk1 (by rw [f2, f3]; exact hr1)
      exact ⟨g1, Nat.le_trans g2 f5⟩
    | drop =>
      simp only
      obtain ⟨g1, g2⟩ := ih s1 kept f1 (by rw [f2, f3]; exact hk) (by rw [f2, f3]; exact hr1)
      exact ⟨g1, Nat.le_trans g2 f5⟩
    | conflict skip c =>
      have hlist : ∀ w2 ∈ (if skip = true then kept ++ rest else kept ++ w :: rest),
          watch_ok s1.m_assignment.length s1.m_cls_allocator.length w2 = true := by
        intro w2 hw2
        rw [f2, f3]
        split at hw2
        · rcases List.mem_append.1 hw2 with e | e
          · exact hk w2 e
          · exact hr1 w2 e
        · rcases List.mem_append.1 hw2 with e | e
          · exact hk w2 e
          · exact hr w2 e
      have hwf := propagate_wf_set_wlist s1 l _ f1 hlist
      cases c with
      | none => exact ⟨hwf, f5⟩
      | some jc =>
        refine ⟨propagate_wf_congr _ _ hwf (by simp) (by simp) (by simp), ?_⟩
        simpa [undef_count] using f5

theorem propagate_literal_wf (ext : ext_propagate) (update : Bool) (s : solver)
    (h : propagate_wf s) :
    propagate_wf (propagate_literal ext update s).2 ∧
    (propagate_literal ext update s).2.undef_count
        + (propagate_literal ext update s).2.m_trail.length
      ≤ s.undef_count + s.m_trail.length := by
  unfold propagate_literal
  apply propagate_wlist_wf ext update _ _ s.inc_qhead _ (propagate_wf_congr s _ h rfl rfl rfl)
  · intro w hw; simp at hw
  · intro w hw
    by_cases hi : (s.m_trail.getD s.m_qhead null_literal).index < s.m_watches.length
    · refine h.1 _ ?_ w hw
      show s.m_watches.getD _ [] ∈ s.m_watches
      rw [List.getD_eq_getElem _ _ hi]
      exact List.getElem_mem _
    · have : s.inc_qhead.get_wlist (s.m_trail.getD s.m_qhead null_literal).index = [] := by
        show s.m_watches.getD _ [] = []
        exact List.getD_eq_default _ _ (by omega)
      rw [this] at hw
      simp at hw

/-- On a well-formed state the loop of `propagate_core` runs to its end
within `undef_count + |trail| - qhead` iterations. -/
theorem propagate_loop_terminates {ext : ext_propagate} (hext : ext_ok ext) (update : Bool) :
    ∀ (fuel : Nat) (s : solver), propagate_wf s → s.m_qhead ≤ s.m_trail.length →
      s.undef_count + s.m_trail.length - s.m_qhead ≤ fuel →
      ∃ r s', propagate_loop ext update fuel s = some (r, s') := by
  intro fuel
  induction fuel with
  | zero =>
    intro s _ hq hf
    unfold propagate_loop
    have : ¬ s.m_qhead < s.m_trail.length := by omega
    simp only [this, ↓reduceIte]
    exact ⟨_, _, rfl⟩
  | succ n ih =>
    intro s h hq hf
    unfold propagate_loop
    split
    · rename_i hlt
      simp only
      split
      · exact ⟨_, _, rfl⟩
      · obtain ⟨f1, f2, _⟩ := propagate_literal_frame hext update s
        obtain ⟨g1, g2⟩ := propagate_literal_wf ext update s h
        rcases hstep : propagate_literal ext update s with ⟨b, s1⟩
        rw [hstep] at f1 f2 g1 g2
        simp only at f1 f2 g1 g2
        cases b with
        | false => exact ⟨_, _, rfl⟩
        | true =>
          simp only
          exact ih s1 g1 (by omega) (by omega)
    · exact ⟨_, _, rfl⟩

/-- C6: the queue head of `propagate_core`, for an extension that leaves the
queue head alone and removes nothing from the trail.  If
`qhead <= |trail|` holds before `propagate_core`, it holds after it, and
whenever `propagate_core` returns true the solver is not inconsistent and
`qhead = |trail|`.  On a state that is well formed for propagation (watch
entries and arena clauses within the arrays, no extension constraint)
`propagate_core` does return: `undef_count + |trail| - qhead` iterations of
its loop suffice. -/
theorem C6_qhead_invariant {ext : ext_propagate} (hext : ext_ok ext) (update : Bool)
    (s : solver) (hq : s.m_qhead ≤ s.m_trail.length) :
    (∀ fuel r s', propagate_core ext update fuel s = some (r, s') →
      s'.m_qhead ≤ s'.m_trail.length ∧
      (r = true → s'.m_inconsistent = false ∧ s'.m_qhead = s'.m_trail.length))
    ∧ (propagate_wf s →
      ∃ r s', propagate_core ext update
        (s.undef_count + s.m_trail.length - s.m_qhead) s = some (r, s')) := by
  constructor
  · intro fuel r s' h
    unfold propagate_core at h
    split at h
    · simp only [Option.some.injEq, Prod.mk.injEq] at h
      obtain ⟨rfl, rfl⟩ := h
      exact ⟨hq, fun h => by cases h⟩
    · rename_i hi
      exact propagate_loop_frame hext update fuel s r s' hq (by simpa using hi) h
  · intro hwf
    unfold propagate_core
    split
    · exact ⟨_, _, rfl⟩
    · exact propagate_loop_terminates hext update _ s hwf hq (Nat.le_refl _)

/-- C6 at a concrete state: propagating the decision `¬x0` over the binary
clause `x0 ∨ x1` returns true with the queue head at the end of the trail. -/
theorem C6_qhead_invariant_witness :
    example_bin.m_qhead ≤ example_bin.m_trail.length ∧
    propagate_wf example_bin ∧
    ((propagate_core no_ext true 3 example_bin).map
      fun r => (r.1, r.2.m_qhead, r.2.m_trail, r.2.m_inconsistent))
      = some (true, 2, [⟨1⟩, ⟨2⟩], false) ∧
    ∃ r s', propagate_core no_ext true
      (example_bin.undef_count + example_bin.m_trail.length - example_bin.m_qhead) example_bin
        = some (r, s') :=
  ⟨by decide, by decide, by decide,
    (C6_qhead_invariant ext_ok_no_ext true example_bin (by decide)).2 (by decide)⟩


/-! ## C7: no missed propagation -/

theorem true_exists_mono (V V' : pview) (c : clause) (h : view_le V V')
    (ht : V.true_exists c) : V'.true_exists c := by
  obtain ⟨x, hx, hv⟩ := ht
  exact ⟨x, hx, h.val_true x hv⟩

/-- The invariant of a clause with generic watches carries over to a later
view in which the watches of the clause are still in place. -/
theorem nary_inv_mono (V V' : pview) (off : clause_offset) (c : clause) (h : view_le V V')
    (hwl : ∀ x, nary_good c off (V.wl x) → nary_good c off (V'.wl x))
    (hrest : ∀ i, i < 2 → (c.get i).neg = V.cur → nary_good c off V.rest →
      V'.true_exists c ∨ nary_good c off V'.rest)
    (hi : V.nary_inv off c) : V'.nary_inv off c := by
  obtain ⟨h1, h2, h3, h4⟩ := hi
  refine ⟨h1, h2, h3, fun i hi2 => ⟨hwl _ (h4 i hi2).1, fun hf => ?_⟩⟩
  rcases h.val_false _ hf with hf0 | hp
  · rcases (h4 i hi2).2 hf0 with ht | hp | ⟨hc, hg⟩
    · exact Or.inl (true_exists_mono V V' c h ht)
    · exact Or.inr (Or.inl (h.pend _ hp))
    · rcases hrest i hi2 hc hg with ht | hg'
      · exact Or.inl ht
      · exact Or.inr (Or.inr ⟨by rw [h.cur]; exact hc, hg'⟩)
  · exact Or.inr (Or.inl hp)

theorem waiting_mono (V V' : pview) (c : clause) (j : Nat) (h : view_le V V')
    (hj : j < c.lits.length)
    (hrest : (c.get j).neg = V.cur → tern_good c j V.rest →
      V'.true_exists c ∨ tern_good c j V'.rest)
    (hw : V.waiting c j) : V'.true_exists c ∨ V'.waiting c j := by
  rcases hw with hu | hp | ⟨hc, hg⟩
  · cases hv : V'.val (c.get j)
    · rcases h.val_false _ hv with hf0 | hp
      · rw [hu] at hf0; cases hf0
      · exact Or.inr (Or.inr (Or.inl hp))
    · exact Or.inr (Or.inl hv)
    · exact Or.inl ⟨c.get j, getD_mem _ _ _ hj, hv⟩
  · exact Or.inr (Or.inr (Or.inl (h.pend _ hp)))
  · rcases hrest hc hg with ht | hg'
    · exact Or.inl ht
    · exact Or.inr (Or.inr (Or.inr ⟨by rw [h.cur]; exact hc, hg'⟩))

/-- The invariant of a clause with ternary watches carries over to a later
view in which the watches of the clause are still in place. -/
theorem tern_inv_mono (V V' : pview) (c : clause) (h : view_le V V')
    (hwl : ∀ i x, tern_good c i (V.wl x) → tern_good c i (V'.wl x))
    (hrest : ∀ i, i < 3 → (c.get i).neg = V.cur → tern_good c i V.rest →
      V'.true_exists c ∨ tern_good c i V'.rest)
    (hi : V.tern_inv c) : V'.tern_inv c := by
  obtain ⟨h1, h4⟩ := hi
  have hlen : c.lits.length = 3 := h1
  refine ⟨h1, fun i hi3 => ⟨hwl _ _ (h4 i hi3).1, fun hf => ?_⟩⟩
  rcases h.val_false _ hf with hf0 | hp
  · rcases (h4 i hi3).2 hf0 with ht | hp | ⟨hc, hg⟩ | hall
    · exact Or.inl (true_exists_mono V V' c h ht)
    · exact Or.inr (Or.inl (h.pend _ hp))
    · rcases hrest i hi3 hc hg with ht | hg'
      · exact Or.inl ht
      · exact Or.inr (Or.inr (Or.inl ⟨by rw [h.cur]; exact hc, hg'⟩))
    · by_cases ht : V'.true_exists c
      · exact Or.inl ht
      · refine Or.inr (Or.inr (Or.inr fun j hj hji => ?_))
        rcases waiting_mono V V' c j h (by omega) (hrest j hj) (hall j hj hji) with e | e
        · exact absurd e ht
        · exact e
  · exact Or.inr (Or.inl hp)


theorem literal_neg_index_xor (x : literal) : x.neg.index = x.index ^^^ 1 := rfl

theorem lt_iff_neg_lt (x : literal) (n : Nat) (hn : n % 2 = 0) :
    x.index < n ↔ x.neg.index < n := by
  rw [literal_neg_index]
  split <;> omega

/-- Under a consistent assignment the value of a negated literal is the
negation of the value of the literal. -/
theorem value_neg (s : solver) (h : assignment_consistent s) (x : literal) :
    s.value x.neg = lbool_neg (s.value x) := by
  by_cases hx : x.index < s.m_assignment.length
  · exact h.2 x.index hx
  · have hx2 : ¬ x.neg.index < s.m_assignment.length := fun e =>
      hx ((lt_iff_neg_lt x _ h.1).2 e)
    unfold value
    rw [List.getD_eq_default _ _ (by omega), List.getD_eq_default _ _ (by omega)]
    rfl

theorem value_neg_of_true (s : solver) (h : assignment_consistent s) (x : literal)
    (hv : s.value x = .l_true) : s.value x.neg = .l_false := by
  rw [value_neg s h, hv]; rfl

theorem value_neg_of_undef (s : solver) (h : assignment_consistent s) (x : literal)
    (hv : s.value x = lbool.l_undef) : s.value x.neg = lbool.l_undef := by
  rw [value_neg s h, hv]; rfl

theorem value_lt_of_ne_undef (s : solver) (x : literal) (h : s.value x ≠ lbool.l_undef) :
    x.index < s.m_assignment.length := by
  by_contra hx
  apply h
  unfold value
  exact List.getD_eq_default _ _ (by omega)

theorem assignment_consistent_of_value (s : solver) (hn : s.m_assignment.length % 2 = 0)
    (h : ∀ x : literal, s.value x.neg = lbool_neg (s.value x)) : assignment_consistent s :=
  ⟨hn, fun i _ => h ⟨i⟩⟩

theorem lbool_neg_neg (v : lbool) : lbool_neg (lbool_neg v) = v := by
  cases v <;> rfl

/-- Assigning an unassigned literal of the assignment array keeps the
assignment consistent. -/
theorem assignment_consistent_assign_core (s : solver) (u : literal) (j : justification)
    (h : assignment_consistent s) (hu : u.index < s.m_assignment.length) :
    assignment_consistent (s.assign_core u j) := by
  have hun : u.neg.index < s.m_assignment.length := (lt_iff_neg_lt u _ h.1).1 hu
  apply assignment_consistent_of_value
  · simpa using h.1
  · intro x
    by_cases e1 : x = u
    · subst e1
      rw [assign_core_value_self _ _ _ hu, assign_core_value_neg _ _ _ hun]; rfl
    · by_cases e2 : x = u.neg
      · subst e2
        rw [literal_neg_neg, assign_core_value_self _ _ _ hu,
          assign_core_value_neg _ _ _ hun]; rfl
      · have e3 : x.neg ≠ u := fun e => e2 (by rw [← e, literal_neg_neg])
        have e4 : x.neg ≠ u.neg := fun e => e1 (by
          have := congrArg literal.neg e
          rwa [literal_neg_neg, literal_neg_neg] at this)
        rw [assign_core_value_other _ _ _ _ e3 e4, assign_core_value_other _ _ _ _ e1 e2]
        exact value_neg s h x

theorem pending_assign_core (s : solver) (u : literal) (j : justification)
    (hq : s.m_qhead ≤ s.m_trail.length) :
    (s.assign_core u j).pending = s.pending ++ [u] := by
  simp only [pending, assign_core_m_trail, assign_core_m_qhead]
  exact List.drop_append_of_le_length hq

theorem common_inv_congr (s s1 : solver) (h : common_inv s)
    (hw : s1.m_watches = s.m_watches) (ha : s1.m_cls_allocator = s.m_cls_allocator)
    (hasg : s1.m_assignment = s.m_assignment) (ht : s1.m_trail = s.m_trail)
    (hq : s1.m_qhead = s.m_qhead) : common_inv s1 := by
  obtain ⟨h1, h2, h3, h4, h5, h6⟩ := h
  have hv : ∀ x, s1.value x = s.value x := fun x => by simp [value, hasg]
  have hp : s1.pending = s.pending := by simp [pending, ht, hq]
  have hg : ∀ off, s1.get_clause off = s.get_clause off := fun off => get_clause_congr _ _ ha off
  refine ⟨propagate_wf_congr s s1 h1 hw ha (by rw [hasg]), by rw [hw, hasg]; exact h2, ?_, by rw [ht, hq]; exact h4,
    ?_, ?_⟩
  · unfold assignment_consistent; rw [hasg]; exact h3
  · intro x hx; rw [hv]; exact h5 x (by rw [← hp]; exact hx)
  · intro ws hws w hw2 b off e
    rw [hg]
    exact h6 ws (by rw [← hw]; exact hws) w hw2 b off e

/-- A state that differs from `s` in none of the members propagation looks at
continues `s`. -/
theorem step_frame_congr (s s1 : solver) (h : common_inv s)
    (hw : s1.m_watches = s.m_watches) (ha : s1.m_cls_allocator = s.m_cls_allocator)
    (hasg : s1.m_assignment = s.m_assignment) (ht : s1.m_trail = s.m_trail)
    (hq : s1.m_qhead = s.m_qhead) (hc : s1.m_clauses = s.m_clauses)
    (hl : s1.m_learned = s.m_learned) : step_frame s s1 := by
  have hv : ∀ x, s1.value x = s.value x := fun x => by simp [value, hasg]
  have hp : s1.pending = s.pending := by simp [pending, ht, hq]
  have hg : ∀ off, s1.get_clause off = s.get_clause off := fun off => get_clause_congr _ _ ha off
  exact {
    common := common_inv_congr s s1 h hw ha hasg ht hq
    val_true := fun x hx => by rw [hv]; exact hx
    val_false := fun x hx => Or.inl (by rw [← hv]; exact hx)
    pend := fun x hx => by rw [hp]; exact hx
    clauses_eq := hc
    learned_eq := hl
    arena_len := by rw [ha]
    asg_len := by rw [hasg]
    size_eq := fun off => by rw [hg]
    frozen_eq := fun off => by rw [hg]
    removed_eq := fun off => by rw [hg]
    wl_mono := fun x w hw2 => by rw [get_wlist_congr _ _ hw]; exact hw2
    bin_back := fun x b lrn hm => by rw [get_wlist_congr _ _ hw] at hm; exact hm }

theorem step_frame_refl (s : solver) (h : common_inv s) : step_frame s s :=
  step_frame_congr s s h rfl rfl rfl rfl rfl rfl rfl

theorem step_frame_trans (s s1 s2 : solver) (h1 : step_frame s s1) (h2 : step_frame s1 s2) :
    step_frame s s2 :=
  { common := h2.common
    val_true := fun x hx => h2.val_true x (h1.val_true x hx)
    val_false := fun x hx => by
      rcases h2.val_false x hx with e | e
      · rcases h1.val_false x e with e1 | e1
        · exact Or.inl e1
        · exact Or.inr (h2.pend _ e1)
      · exact Or.inr e
    pend := fun x hx => h2.pend x (h1.pend x hx)
    clauses_eq := h2.clauses_eq.trans h1.clauses_eq
    learned_eq := h2.learned_eq.trans h1.learned_eq
    arena_len := h2.arena_len.trans h1.arena_len
    asg_len := h2.asg_len.trans h1.asg_len
    size_eq := fun off => (h2.size_eq off).trans (h1.size_eq off)
    frozen_eq := fun off => (h2.frozen_eq off).trans (h1.frozen_eq off)
    removed_eq := fun off => (h2.removed_eq off).trans (h1.removed_eq off)
    wl_mono := fun x w hw => h2.wl_mono x w (h1.wl_mono x w hw)
    bin_back := fun x b lrn hm => h1.bin_back x b lrn (h2.bin_back x b lrn hm) }

/-- Assigning an unassigned literal of the assignment array continues the
state. -/
theorem step_frame_assign_core (s : solver) (u : literal) (j : justification)
    (h : common_inv s) (hv : s.value u = lbool.l_undef)
    (hu : u.index < s.m_assignment.length) : step_frame s (s.assign_core u j) := by
  obtain ⟨h1, h2, h3, h4, h5, h6⟩ := h
  have hun : u.neg.index < s.m_assignment.length := (lt_iff_neg_lt u _ h3.1).1 hu
  have hvn : s.value u.neg = lbool.l_undef := value_neg_of_undef s h3 u hv
  have hp := pending_assign_core s u j h4
  have hval : ∀ x, (s.assign_core u j).value x
      = if x = u then .l_true else if x = u.neg then .l_false else s.value x := by
    intro x
    by_cases e1 : x = u
    · simp only [e1, ↓reduceIte]; exact assign_core_value_self _ _ _ hu
    · by_cases e2 : x = u.neg
      · simp only [e2, literal_neg_ne, ↓reduceIte]; exact assign_core_value_neg _ _ _ hun
      · simp only [e1, e2, ↓reduceIte]; exact assign_core_value_other _ _ _ _ e1 e2
  have hg : ∀ off, (s.assign_core u j).get_clause off = s.get_clause off :=
    fun off => get_clause_congr _ _ (by simp) off
  exact {
    common := by
      refine ⟨propagate_wf_assign_core _ _ _ h1, by simpa using h2,
        assignment_consistent_assign_core s u j h3 hu, by simp; omega, ?_, ?_⟩
      · intro x hx
        rw [hp] at hx
        rw [hval]
        rcases List.mem_append.1 hx with e | e
        · have := h5 x e
          by_cases e1 : x = u
          · simp [e1]
          · by_cases e2 : x = u.neg
            · rw [e2, hvn] at this; cases this
            · simp only [e1, e2, ↓reduceIte]; exact this
        · simp [List.mem_singleton.1 e]
      · intro ws hws w hw b off e
        rw [hg]
        exact h6 ws (by simpa using hws) w hw b off e
    val_true := fun x hx => by
      rw [hval]
      by_cases e1 : x = u
      · simp [e1]
      · by_cases e2 : x = u.neg
        · rw [e2, hvn] at hx; cases hx
        · simp only [e1, e2, ↓reduceIte]; exact hx
    val_false := fun x hx => by
      rw [hval] at hx
      by_cases e1 : x = u
      · simp [e1] at hx
      · by_cases e2 : x = u.neg
        · right
          rw [hp, e2, literal_neg_neg]
          simp
        · simp only [e1, e2, ↓reduceIte] at hx
          exact Or.inl hx
    pend := fun x hx => by rw [hp]; exact List.mem_append_left _ hx
    clauses_eq := by simp
    learned_eq := by simp
    arena_len := by simp
    asg_len := by simp
    size_eq := fun off => by rw [hg]
    frozen_eq := fun off => by rw [hg]
    removed_eq := fun off => by rw [hg]
    wl_mono := fun x w hw => by rw [get_wlist_congr _ s (by simp)]; exact hw
    bin_back := fun x b lrn hm => by rw [get_wlist_congr _ s (by simp)] at hm; exact hm }


theorem get_wlist_mem_or_nil (s : solver) (x : Nat) :
    s.get_wlist x ∈ s.m_watches ∨ s.get_wlist x = [] := by
  unfold get_wlist
  by_cases hx : x < s.m_watches.length
  · left
    rw [List.getD_eq_getElem _ _ hx]
    exact List.getElem_mem _
  · right
    exact List.getD_eq_default _ _ (by omega)

theorem no_ternary_ref_get_wlist (s : solver) (h : common_inv s) (x : Nat) :
    no_ternary_ref s (s.get_wlist x) := by
  rcases get_wlist_mem_or_nil s x with e | e
  · exact h.2.2.2.2.2 _ e
  · rw [e]; intro w hw; cases hw

theorem watch_ok_get_wlist (s : solver) (h : propagate_wf s) (x : Nat) :
    ∀ w ∈ s.get_wlist x,
      watch_ok s.m_assignment.length s.m_cls_allocator.length w = true := by
  rcases get_wlist_mem_or_nil s x with e | e
  · exact h.1 _ e
  · rw [e]; intro w hw; cases hw

theorem get_clause_set_clause_eq (s : solver) (off i : clause_offset) (c : clause)
    (h : off < s.m_cls_allocator.length) :
    (s.set_clause off c).get_clause i = if off = i then c else s.get_clause i := by
  split
  · rename_i e; subst e; exact get_clause_set_clause s off c h
  · rename_i e; exact get_clause_set_clause_ne s off i c e

/-- Writing back a clause of the same size and flags continues the state. -/
theorem step_frame_set_clause (s : solver) (off : clause_offset) (c : clause)
    (h : common_inv s) (hoff : off < s.m_cls_allocator.length)
    (hc : clause_ok s.m_assignment.length c) (hsize : c.size = (s.get_clause off).size)
    (hfrozen : c.m_frozen = (s.get_clause off).m_frozen)
    (hremoved : c.m_removed = (s.get_clause off).m_removed) :
    step_frame s (s.set_clause off c) := by
  obtain ⟨h1, h2, h3, h4, h5, h6⟩ := h
  have hg := fun i => get_clause_set_clause_eq s off i c hoff
  have hsz : ∀ i, ((s.set_clause off c).get_clause i).size = (s.get_clause i).size := by
    intro i; rw [hg]; split
    · rename_i e; rw [← e]; exact hsize
    · rfl
  exact {
    common := by
      refine ⟨propagate_wf_set_clause s off c h1 hc, by simpa using h2, ?_, by simpa using h4,
        ?_, ?_⟩
      · exact h3
      · intro x hx
        have : x ∈ s.pending := by simpa [pending] using hx
        simpa using h5 x this
      · intro ws hws w hw b o e
        rw [hsz]
        exact h6 ws (by simpa using hws) w hw b o e
    val_true := fun x hx => by simpa using hx
    val_false := fun x hx => Or.inl (by simpa using hx)
    pend := fun x hx => by simpa [pending] using hx
    clauses_eq := by simp
    learned_eq := by simp
    arena_len := by simp
    asg_len := by simp
    size_eq := hsz
    frozen_eq := fun i => by
      rw [hg]; split
      · rename_i e; rw [← e]; exact hfrozen
      · rfl
    removed_eq := fun i => by
      rw [hg]; split
      · rename_i e; rw [← e]; exact hremoved
      · rfl
    wl_mono := fun x w hw => by rw [get_wlist_congr _ s (by simp)]; exact hw
    bin_back := fun x b lrn hm => by rw [get_wlist_congr _ s (by simp)] at hm; exact hm }

/-- Pushing a generic watch for a clause that is not of size 3 continues the
state. -/
theorem step_frame_push_watch (s : solver) (idx : Nat) (b : literal) (off : clause_offset)
    (h : common_inv s) (hoff : off < s.m_cls_allocator.length)
    (hsize : (s.get_clause off).size ≠ 3) :
    step_frame s (s.push_watch idx (watched.clause b off)) := by
  have hnt := no_ternary_ref_get_wlist s h idx
  obtain ⟨h1, h2, h3, h4, h5, h6⟩ := h
  have hg : ∀ i, (s.push_watch idx (watched.clause b off)).get_clause i = s.get_clause i :=
    fun i => get_clause_congr _ _ (by simp) i
  exact {
    common := by
      refine ⟨propagate_wf_push_watch s idx _ h1 (by simpa [watch_ok] using hoff),
        by simpa using h2, ?_, by simpa using h4, ?_, ?_⟩
      · exact h3
      · intro x hx
        have : x ∈ s.pending := by simpa [pending] using hx
        simpa [value] using h5 x this
      · intro ws hws w hw b1 o e
        rw [hg]
        simp only [push_watch] at hws
        rcases mem_set_cases _ _ _ _ hws with e1 | e1
        · rw [e1] at hw
          rcases List.mem_append.1 hw with e2 | e2
          · exact hnt w e2 b1 o e
          · rw [List.mem_singleton.1 e2] at e
            cases e
            exact hsize
        · exact h6 ws e1 w hw b1 o e
    val_true := fun x hx => by simpa [value] using hx
    val_false := fun x hx => Or.inl (by simpa [value] using hx)
    pend := fun x hx => by simpa [pending] using hx
    clauses_eq := by simp
    learned_eq := by simp
    arena_len := by simp
    asg_len := by simp
    size_eq := fun i => by rw [hg]
    frozen_eq := fun i => by rw [hg]
    removed_eq := fun i => by rw [hg]
    wl_mono := fun x w hw => mem_push_watch_of_mem s idx x _ w hw
    bin_back := fun x b1 lrn hm => by
      simp only [push_watch, get_wlist] at hm ⊢
      rw [getD_set] at hm
      split at hm
      · rename_i hc
        rw [← hc.1]
        rcases List.mem_append.1 hm with e | e
        · exact e
        · simp at e
      · exact hm }

/-- The view after a step continues the view before it. -/
theorem view_le_of_step_frame (s s1 : solver) (l : literal) (kept rest kept1 rest1 : List watched)
    (h : step_frame s s1) : view_le (view s l kept rest) (view s1 l kept1 rest1) :=
  { val_true := h.val_true
    val_false := h.val_false
    pend := h.pend
    cur := rfl }


theorem nary_inv_congr_lits (V : pview) (off : clause_offset) (c c1 : clause)
    (h : c1.lits = c.lits) (hi : V.nary_inv off c) : V.nary_inv off c1 := by
  simpa only [pview.nary_inv, nary_good, clause.get, clause.size, pview.true_exists, h] using hi

theorem tern_inv_congr_lits (V : pview) (c c1 : clause)
    (h : c1.lits = c.lits) (hi : V.tern_inv c) : V.tern_inv c1 := by
  simpa only [pview.tern_inv, tern_good, clause.get, clause.size, pview.true_exists,
    pview.waiting, h] using hi

theorem vlist_mono (s s1 : solver) (l : literal) (kept kept1 rest : List watched) (w w0 : watched)
    (hf : step_frame s s1) (hk : w0 ∈ kept ++ w :: rest → w0 ∈ kept1 ++ rest) (x : Nat)
    (h : w0 ∈ vlist s l kept (w :: rest) x) : w0 ∈ vlist s1 l kept1 rest x := by
  unfold vlist at *
  split
  · rename_i e; rw [if_pos e] at h; exact hk h
  · rename_i e; rw [if_neg e] at h; exact hf.wl_mono x w0 h

theorem get_mem_lits (c : clause) (i : Nat) (h : i < c.size) : c.get i ∈ c.lits := by
  unfold clause.get clause.size at *
  rw [List.getD_eq_getElem _ _ h]
  exact List.getElem_mem _

/-- A clause with generic watches that the step leaves alone keeps its
invariant, when the entry just processed was not the watch the clause still
relied on or the clause has a true literal now. -/
theorem nary_step_other (s s1 : solver) (l : literal) (kept kept1 rest : List watched)
    (w : watched) (off : clause_offset) (hf : step_frame s s1)
    (hl : (s1.get_clause off).lits = (s.get_clause off).lits)
    (hwl : ∀ b, watched.clause b off ∈ kept ++ w :: rest → watched.clause b off ∈ kept1 ++ rest)
    (hrest : ∀ i, i < 2 → (s.get_clause off).get i = l.neg →
      ∀ b ∈ (s.get_clause off).lits, w = watched.clause b off →
        ∃ x ∈ (s.get_clause off).lits, s1.value x = .l_true)
    (hi : (view s l kept (w :: rest)).nary_inv off (s.get_clause off)) :
    (view s1 l kept1 rest).nary_inv off (s1.get_clause off) := by
  apply nary_inv_congr_lits _ _ _ _ hl
  apply nary_inv_mono _ _ _ _ (view_le_of_step_frame s s1 l _ _ _ _ hf) _ _ hi
  · intro x ⟨b, hb, hm⟩
    exact ⟨b, hb, vlist_mono s s1 l kept kept1 rest w _ hf (hwl b) x hm⟩
  · intro i hi2 hc ⟨b, hb, hm⟩
    rcases List.mem_cons.1 hm with e | e
    · left
      have : (s.get_clause off).get i = l.neg := by
        have := congrArg literal.neg hc
        rw [literal_neg_neg] at this
        exact this
      exact hrest i hi2 this b hb e.symm
    · exact Or.inr ⟨b, hb, e⟩

/-- A clause with ternary watches keeps its invariant over a step, when the
entry just processed was not a watch the clause still relied on or the
clause has a true literal now. -/
theorem tern_step_other (s s1 : solver) (l : literal) (kept kept1 rest : List watched)
    (w : watched) (off : clause_offset) (hf : step_frame s s1)
    (hl : (s1.get_clause off).lits = (s.get_clause off).lits)
    (hwl : ∀ p q, watched.ternary p q ∈ kept ++ w :: rest → watched.ternary p q ∈ kept1 ++ rest)
    (hrest : ∀ i, i < 3 → (s.get_clause off).get i = l.neg →
      tern_good (s.get_clause off) i (w :: rest) →
        (∃ x ∈ (s.get_clause off).lits, s1.value x = .l_true)
          ∨ tern_good (s.get_clause off) i rest)
    (hi : (view s l kept (w :: rest)).tern_inv (s.get_clause off)) :
    (view s1 l kept1 rest).tern_inv (s1.get_clause off) := by
  apply tern_inv_congr_lits _ _ _ hl
  apply tern_inv_mono _ _ _ (view_le_of_step_frame s s1 l _ _ _ _ hf) _ _ hi
  · intro i x ⟨j, hj, k, hk, h1, h2, h3, hm⟩
    exact ⟨j, hj, k, hk, h1, h2, h3, vlist_mono s s1 l kept kept1 rest w _ hf (hwl _ _) x hm⟩
  · intro i hi2 hc hg
    have : (s.get_clause off).get i = l.neg := by
      have := congrArg literal.neg hc
      rw [literal_neg_neg] at this
      exact this
    exact hrest i hi2 this hg

theorem mem_kept_of_ne (kept rest : List watched) (w w1 w0 : watched) (hne : w0 ≠ w)
    (h : w0 ∈ kept ++ w :: rest) : w0 ∈ (kept ++ [w1]) ++ rest := by
  simp only [List.mem_append, List.mem_cons, List.mem_singleton, List.not_mem_nil, or_false] at *
  rcases h with h | h | h
  · exact Or.inl (Or.inl h)
  · exact absurd h hne
  · exact Or.inr h

theorem mem_kept_same (kept rest : List watched) (w w0 : watched)
    (h : w0 ∈ kept ++ w :: rest) : w0 ∈ (kept ++ [w]) ++ rest := by
  simpa using h

theorem mem_drop_of_ne (kept rest : List watched) (w w0 : watched) (hne : w0 ≠ w)
    (h : w0 ∈ kept ++ w :: rest) : w0 ∈ kept ++ rest := by
  simp only [List.mem_append, List.mem_cons] at *
  rcases h with h | h | h
  · exact Or.inl h
  · exact absurd h hne
  · exact Or.inr h


theorem value_congr (s s1 : solver) (h : s1.m_assignment = s.m_assignment) (x : literal) :
    s1.value x = s.value x := by
  simp [value, h]

theorem step_frame_then_assign (s s0 : solver) (u : literal) (j : justification)
    (hf : step_frame s s0) (hv : s0.value u = lbool.l_undef)
    (hu : u.index < s0.m_assignment.length) : step_frame s (s0.assign_core u j) :=
  step_frame_trans s s0 _ hf (step_frame_assign_core s0 u j hf.common hv hu)

/-- Assembling the loop invariant after a step from the frame of the step
and the invariant of every clause. -/
theorem wlist_inv_step (s s1 : solver) (l : literal) (kept kept1 rest : List watched)
    (w : watched) (h : wlist_inv s l kept (w :: rest)) (hf : step_frame s s1)
    (hk : ∀ w0 ∈ kept1, w0 ∈ kept ∨
      (watch_ok s.m_assignment.length s.m_cls_allocator.length w0 = true ∧
        (∀ b off, w0 = watched.clause b off → ∃ b0, w = watched.clause b0 off) ∧
        (∀ b lrn, w0 = watched.binary b lrn → w0 = w)))
    (hbw : ∀ b lrn, w = watched.binary b lrn → s1.value b = .l_true)
    (hcl : ∀ off ∈ s.m_clauses ++ s.m_learned, (s.get_clause off).m_frozen = false →
      clause_inv s (view s l kept (w :: rest)) off →
      clause_inv s1 (view s1 l kept1 rest) off) :
    wlist_inv s1 l kept1 rest := by
  obtain ⟨h1, h2, h3, h4, h5, h6⟩ := h
  refine ⟨hf.common, hf.val_true l h2, ?_, ?_, ?_, ?_⟩
  · intro w0 hw0
    rw [hf.asg_len, hf.arena_len]
    rcases List.mem_append.1 hw0 with e | e
    · rcases hk w0 e with e1 | e1
      · exact h3 w0 (List.mem_append_left _ e1)
      · exact e1.1
    · exact h3 w0 (List.mem_append_right _ (List.mem_cons_of_mem _ e))
  · intro w0 hw0 b off e0
    rw [hf.size_eq]
    rcases List.mem_append.1 hw0 with e | e
    · rcases hk w0 e with e1 | e1
      · exact h4 w0 (List.mem_append_left _ e1) b off e0
      · obtain ⟨b0, hb0⟩ := e1.2.1 b off e0
        exact h4 w (by simp) b0 off hb0
    · exact h4 w0 (List.mem_append_right _ (List.mem_cons_of_mem _ e)) b off e0
  · intro off hoff hfr
    rw [hf.clauses_eq, hf.learned_eq] at hoff
    rw [hf.frozen_eq] at hfr
    exact hcl off hoff hfr (h5 off hoff hfr)
  · intro x b lrn hm hv
    have hback : watched.binary b lrn ∈ vlist s l kept (w :: rest) x.index := by
      simp only [view] at hm
      unfold vlist at *
      split
      · rename_i e
        rw [if_pos e] at hm
        rcases List.mem_append.1 hm with e1 | e1
        · rcases hk _ e1 with e2 | e2
          · exact List.mem_append_left _ e2
          · rw [e2.2.2 b lrn rfl]; simp
        · exact List.mem_append_right _ (List.mem_cons_of_mem _ e1)
      · rename_i e
        rw [if_neg e] at hm
        exact hf.bin_back _ _ _ hm
    by_cases hs : s.value x = .l_true
    · rcases h6 x b lrn hback hs with e | e | ⟨e, e1⟩
      · exact Or.inl (hf.val_true _ e)
      · exact Or.inr (Or.inl (hf.pend _ e))
      · rcases List.mem_cons.1 e1 with e2 | e2
        · exact Or.inl (hbw b lrn e2.symm)
        · exact Or.inr (Or.inr ⟨e, e2⟩)
    · right; left
      have hn := value_neg_of_true s1 hf.common.2.2.1 x hv
      rcases hf.val_false _ hn with e | e
      · exfalso
        apply hs
        have := value_neg s h1.2.2.1 x.neg
        rw [literal_neg_neg, e] at this
        exact this
      · rw [literal_neg_neg] at e
        exact e

/-- A clause the step leaves alone keeps its invariant. -/
theorem clause_inv_step_other (s s1 : solver) (l : literal) (kept kept1 rest : List watched)
    (w : watched) (off : clause_offset) (hf : step_frame s s1)
    (hl : (s1.get_clause off).lits = (s.get_clause off).lits)
    (hwt : ∀ p q, watched.ternary p q ∈ kept ++ w :: rest →
      watched.ternary p q ∈ kept1 ++ rest)
    (hwn : ∀ b, watched.clause b off ∈ kept ++ w :: rest →
      watched.clause b off ∈ kept1 ++ rest)
    (hn : ∀ i, i < 2 → (s.get_clause off).get i = l.neg →
      ∀ b ∈ (s.get_clause off).lits, w = watched.clause b off →
        ∃ x ∈ (s.get_clause off).lits, s1.value x = .l_true)
    (ht : (s.get_clause off).size = 3 → ∀ i, i < 3 → (s.get_clause off).get i = l.neg →
      tern_good (s.get_clause off) i (w :: rest) →
        (∃ x ∈ (s.get_clause off).lits, s1.value x = .l_true)
          ∨ tern_good (s.get_clause off) i rest)
    (hi : clause_inv s (view s l kept (w :: rest)) off) :
    clause_inv s1 (view s1 l kept1 rest) off := by
  obtain ⟨h1, h2, h3⟩ := hi
  refine ⟨by rw [hf.arena_len]; exact h1, by rw [hf.removed_eq]; exact h2, ?_⟩
  rcases h3 with h3 | h3
  · left
    exact tern_step_other s s1 l kept kept1 rest w off hf hl
      hwt (ht h3.1) h3
  · right
    exact nary_step_other s s1 l kept kept1 rest w off hf hl
      hwn hn h3

theorem tern_good_cons_of_ne (c : clause) (i : Nat) (w : watched) (rest : List watched)
    (hw : ∀ p q, w ≠ watched.ternary p q) (h : tern_good c i (w :: rest)) :
    tern_good c i rest := by
  obtain ⟨j, hj, k, hk, h1, h2, h3, hm⟩ := h
  rcases List.mem_cons.1 hm with e | e
  · exact absurd e.symm (hw _ _)
  · exact ⟨j, hj, k, hk, h1, h2, h3, e⟩

/-- The loop invariant over a step that copies the entry unchanged and
touches no clause, for an entry that is no ternary or generic watch. -/
theorem wlist_inv_keep_binary (s s1 : solver) (l : literal) (kept rest : List watched)
    (l1 : literal) (learned : Bool)
    (h : wlist_inv s l kept (watched.binary l1 learned :: rest)) (hf : step_frame s s1)
    (ha : s1.m_cls_allocator = s.m_cls_allocator) (hv1 : s1.value l1 = .l_true) :
    wlist_inv s1 l (kept ++ [watched.binary l1 learned]) rest := by
  apply wlist_inv_step s s1 l kept _ rest _ h hf
  · intro w0 hw0
    rcases List.mem_append.1 hw0 with e | e
    · exact Or.inl e
    · right
      rw [List.mem_singleton.1 e]
      exact ⟨h.2.2.1 _ (by simp), fun b off e1 => (by cases e1), fun _ _ _ => rfl⟩
  · intro b lrn e
    cases e
    exact hv1
  · intro off _ _ hi
    apply clause_inv_step_other s s1 l kept _ rest _ off hf
      (by rw [get_clause_congr _ _ ha]) _ _ _ _ hi
    · intro p q hm; exact mem_kept_same _ _ _ _ hm
    · intro b hm; exact mem_kept_same _ _ _ _ hm
    · intro i _ _ b _ e; cases e
    · intro _ i _ _ hg
      exact Or.inr (tern_good_cons_of_ne _ _ _ _ (fun p q e => by cases e) hg)

/-- The invariant over the binary case of the watch loop. -/
theorem propagate_binary_inv (s : solver) (l : literal) (kept rest : List watched)
    (l1 : literal) (learned : Bool)
    (h : wlist_inv s l kept (watched.binary l1 learned :: rest)) :
    wlist_inv_after (s.propagate_binary l.neg l1 learned).1
      (s.propagate_binary l.neg l1 learned).2 l kept rest := by
  have hc := h.1
  have hok := h.2.2.1 (watched.binary l1 learned) (by simp)
  simp only [watch_ok, decide_eq_true_eq] at hok
  unfold propagate_binary
  cases hv : s.value l1
  · exact trivial
  · have hf0 : step_frame s s.inc_bin_propagate :=
      step_frame_congr s _ hc (by simp) (by simp) (by simp) (by simp) (by simp) (by simp)
        (by simp)
    exact wlist_inv_keep_binary s _ l kept rest l1 learned h
      (step_frame_then_assign s _ l1 _ hf0 (by rw [value_congr s _ (by simp)]; exact hv)
        (by simpa using hok)) (by simp) (assign_core_value_self _ _ _ (by simpa using hok))
  · exact wlist_inv_keep_binary s s l kept rest l1 learned h (step_frame_refl s hc) rfl hv


theorem tern_good_cons (c : clause) (i : Nat) (w : watched) (rest : List watched)
    (h : tern_good c i (w :: rest)) :
    (∃ j, j < 3 ∧ ∃ k, k < 3 ∧ j ≠ i ∧ k ≠ i ∧ j ≠ k ∧ w = watched.ternary (c.get j) (c.get k))
      ∨ tern_good c i rest := by
  obtain ⟨j, hj, k, hk, h1, h2, h3, hm⟩ := h
  rcases List.mem_cons.1 hm with e | e
  · exact Or.inl ⟨j, hj, k, hk, h1, h2, h3, e.symm⟩
  · exact Or.inr ⟨j, hj, k, hk, h1, h2, h3, e⟩

/-- The loop invariant over a ternary step that copies the entry, touches no
clause and leaves one of the two literals of the entry true. -/
theorem wlist_inv_keep_ternary_true (s s1 : solver) (l : literal) (kept rest : List watched)
    (p q : literal) (h : wlist_inv s l kept (watched.ternary p q :: rest))
    (hf : step_frame s s1) (ha : s1.m_cls_allocator = s.m_cls_allocator)
    (ht : s1.value p = .l_true ∨ s1.value q = .l_true) :
    wlist_inv s1 l (kept ++ [watched.ternary p q]) rest := by
  apply wlist_inv_step s s1 l kept _ rest _ h hf
  · intro w0 hw0
    rcases List.mem_append.1 hw0 with e | e
    · exact Or.inl e
    · right
      rw [List.mem_singleton.1 e]
      exact ⟨h.2.2.1 _ (by simp), fun b off e1 => (by cases e1), fun b lrn e1 => (by cases e1)⟩
  · intro b lrn e; cases e
  · intro off _ _ hi
    apply clause_inv_step_other s s1 l kept _ rest _ off hf
      (by rw [get_clause_congr _ _ ha]) _ _ _ _ hi
    · intro p q hm; exact mem_kept_same _ _ _ _ hm
    · intro b hm; exact mem_kept_same _ _ _ _ hm
    · intro i _ _ b _ e; cases e
    · intro hlen i _ _ hg
      rcases tern_good_cons _ _ _ _ hg with ⟨j, hj, k, hk, _, _, _, e⟩ | hr
      · left
        cases e
        rcases ht with ht | ht
        · exact ⟨_, get_mem_lits _ j (by omega), ht⟩
        · exact ⟨_, get_mem_lits _ k (by omega), ht⟩
      · exact Or.inr hr

/-- A clause with ternary watches keeps its invariant when the entry just
processed is copied and both its literals are unassigned. -/
theorem tern_inv_skip_undef (V V1 : pview) (c : clause) (p q : literal)
    (hval : V1.val = V.val) (hpend : V1.pend = V.pend) (hcur : V1.cur = V.cur)
    (hwl : ∀ i x, tern_good c i (V.wl x) → tern_good c i (V1.wl x))
    (hrest : V.rest = watched.ternary p q :: V1.rest)
    (hp : V.val p = lbool.l_undef) (hq : V.val q = lbool.l_undef)
    (hi : V.tern_inv c) : V1.tern_inv c := by
  obtain ⟨h1, h4⟩ := hi
  have key : ∀ i, i < 3 → tern_good c i V.rest → ¬ tern_good c i V1.rest →
      ∀ j, j < 3 → j ≠ i → V.val (c.get j) = lbool.l_undef := by
    intro i hi3 hg hng j hj hji
    rw [hrest] at hg
    rcases tern_good_cons _ _ _ _ hg with ⟨j1, hj1, k1, hk1, e1, e2, e3, e⟩ | hr
    · cases e
      have : j = j1 ∨ j = k1 := by omega
      rcases this with e | e
      · rw [e]; exact hp
      · rw [e]; exact hq
    · exact absurd hr hng
  have hwait : ∀ i j, i < 3 → j < 3 → j ≠ i → V.val (c.get i) = .l_false →
      V.waiting c j → V1.waiting c j := by
    intro i j hi3 hj hji hf hw
    rcases hw with hu | hpd | ⟨hc, hg⟩
    · exact Or.inl (by rw [hval]; exact hu)
    · exact Or.inr (Or.inl (by rw [hpend]; exact hpd))
    · by_cases hg1 : tern_good c j V1.rest
      · exact Or.inr (Or.inr ⟨by rw [hcur]; exact hc, hg1⟩)
      · have := key j hj hg hg1 i hi3 (Ne.symm hji)
        rw [this] at hf; cases hf
  refine ⟨h1, fun i hi3 => ⟨hwl _ _ (h4 i hi3).1, fun hf => ?_⟩⟩
  rw [hval] at hf
  rcases (h4 i hi3).2 hf with ⟨x, hx, hv⟩ | hpd | ⟨hc, hg⟩ | hall
  · exact Or.inl ⟨x, hx, by rw [hval]; exact hv⟩
  · exact Or.inr (Or.inl (by rw [hpend]; exact hpd))
  · by_cases hg1 : tern_good c i V1.rest
    · exact Or.inr (Or.inr (Or.inl ⟨by rw [hcur]; exact hc, hg1⟩))
    · exact Or.inr (Or.inr (Or.inr fun j hj hji =>
        Or.inl (by rw [hval]; exact key i hi3 hg hg1 j hj hji)))
  · exact Or.inr (Or.inr (Or.inr fun j hj hji => hwait i j hi3 hj hji hf (hall j hj hji)))

/-- The loop invariant over a ternary step that finds both literals of the
entry unassigned. -/
theorem wlist_inv_keep_ternary_undef (s : solver) (l : literal) (kept rest : List watched)
    (p q : literal) (h : wlist_inv s l kept (watched.ternary p q :: rest))
    (hp : s.value p = lbool.l_undef) (hq : s.value q = lbool.l_undef) :
    wlist_inv s l (kept ++ [watched.ternary p q]) rest := by
  have hf := step_frame_refl s h.1
  apply wlist_inv_step s s l kept _ rest _ h hf
  · intro w0 hw0
    rcases List.mem_append.1 hw0 with e | e
    · exact Or.inl e
    · right
      rw [List.mem_singleton.1 e]
      exact ⟨h.2.2.1 _ (by simp), fun b off e1 => (by cases e1), fun b lrn e1 => (by cases e1)⟩
  · intro b lrn e; cases e
  · intro off _ _ hi
    obtain ⟨h1, h2, h3⟩ := hi
    refine ⟨h1, h2, ?_⟩
    rcases h3 with h3 | h3
    · left
      apply tern_inv_skip_undef (view s l kept (watched.ternary p q :: rest))
        (view s l (kept ++ [watched.ternary p q]) rest) _ p q rfl rfl rfl _ rfl hp hq h3
      intro i x ⟨j, hj, k, hk, e1, e2, e3, hm⟩
      exact ⟨j, hj, k, hk, e1, e2, e3,
        vlist_mono s s l kept _ rest _ _ hf (mem_kept_same _ _ _ _) x hm⟩
    · right
      exact nary_step_other s s l kept _ rest _ off hf rfl
        (fun b hm => mem_kept_same _ _ _ _ hm) (fun i _ _ b _ e => by cases e) h3

/-- The invariant over the ternary case of the watch loop. -/
theorem propagate_ternary_inv (s : solver) (l : literal) (kept rest : List watched)
    (p q : literal) (h : wlist_inv s l kept (watched.ternary p q :: rest)) :
    wlist_inv_after (s.propagate_ternary l.neg p q).1
      (s.propagate_ternary l.neg p q).2 l kept rest := by
  have hc := h.1
  have hok := h.2.2.1 (watched.ternary p q) (by simp)
  simp only [watch_ok, Bool.and_eq_true, decide_eq_true_eq] at hok
  have hf0 : step_frame s s.inc_ter_propagate :=
    step_frame_congr s _ hc (by simp) (by simp) (by simp) (by simp) (by simp) (by simp)
      (by simp)
  have hvp : s.inc_ter_propagate.value p = s.value p := value_congr s _ (by simp) p
  have hvq : s.inc_ter_propagate.value q = s.value q := value_congr s _ (by simp) q
  cases hp : s.value p <;> cases hq : s.value q
  · rw [show s.propagate_ternary l.neg p q
        = (s, .conflict false (some (justification.ternary p l.neg, q.neg))) from by
      simp [propagate_ternary, hp, hq]]
    exact trivial
  · rw [show s.propagate_ternary l.neg p q
        = (s.inc_ter_propagate.assign_core q (justification.ternary p l.neg),
            .keep (watched.ternary p q)) from by
      simp [propagate_ternary, hp, hq]]
    have hf := step_frame_then_assign s _ q (justification.ternary p l.neg) hf0
      (by rw [hvq]; exact hq) (by simpa using hok.2)
    exact wlist_inv_keep_ternary_true s _ l kept rest p q h hf (by simp)
      (Or.inr (assign_core_value_self _ _ _ (by simpa using hok.2)))
  · rw [show s.propagate_ternary l.neg p q = (s, .keep (watched.ternary p q)) from by
      simp [propagate_ternary, hp, hq]]
    exact wlist_inv_keep_ternary_true s s l kept rest p q h (step_frame_refl s hc) rfl
      (Or.inr hq)
  · rw [show s.propagate_ternary l.neg p q
        = (s.inc_ter_propagate.assign_core p (justification.ternary q l.neg),
            .keep (watched.ternary p q)) from by
      simp [propagate_ternary, hp, hq]]
    have hf := step_frame_then_assign s _ p (justification.ternary q l.neg) hf0
      (by rw [hvp]; exact hp) (by simpa using hok.1)
    exact wlist_inv_keep_ternary_true s _ l kept rest p q h hf (by simp)
      (Or.inl (assign_core_value_self _ _ _ (by simpa using hok.1)))
  · rw [show s.propagate_ternary l.neg p q = (s, .keep (watched.ternary p q)) from by
      simp [propagate_ternary, hp, hq]]
    exact wlist_inv_keep_ternary_undef s l kept rest p q h hp hq
  · rw [show s.propagate_ternary l.neg p q = (s, .keep (watched.ternary p q)) from by
      simp [propagate_ternary, hp, hq]]
    exact wlist_inv_keep_ternary_true s s l kept rest p q h (step_frame_refl s hc) rfl
      (Or.inr hq)
  all_goals
    rw [show s.propagate_ternary l.neg p q = (s, .keep (watched.ternary p q)) from by
      simp [propagate_ternary, hp, hq]]
    exact wlist_inv_keep_ternary_true s s l kept rest p q h (step_frame_refl s hc) rfl
      (Or.inl hp)


theorem nary_good_of_perm (c c1 : clause) (off : clause_offset) (ws : List watched)
    (hp : c1.lits.Perm c.lits) (h : nary_good c off ws) : nary_good c1 off ws := by
  obtain ⟨b, hb, hm⟩ := h
  exact ⟨b, hp.symm.subset hb, hm⟩

theorem true_exists_of_perm (V : pview) (c c1 : clause) (hp : c1.lits.Perm c.lits)
    (h : V.true_exists c) : V.true_exists c1 := by
  obtain ⟨x, hx, hv⟩ := h
  exact ⟨x, hp.symm.subset hx, hv⟩

/-- The invariant of a clause with generic watches does not depend on the
order of its two watched literals nor on the order of the others. -/
theorem nary_inv_of_perm_watch (V : pview) (off : clause_offset) (c c1 : clause)
    (hp : c1.lits.Perm c.lits) (hpos : ∀ i, i < 2 → ∃ i0, i0 < 2 ∧ c1.get i = c.get i0)
    (hi : V.nary_inv off c) : V.nary_inv off c1 := by
  obtain ⟨h1, h2, h3, h4⟩ := hi
  have hsz : c1.size = c.size := hp.length_eq
  refine ⟨hp.nodup_iff.2 h1, by rw [hsz]; exact h2, by rw [hsz]; exact h3, fun i hi2 => ?_⟩
  obtain ⟨i0, hi0, e⟩ := hpos i hi2
  rw [e]
  refine ⟨nary_good_of_perm c c1 off _ hp (h4 i0 hi0).1, fun hf => ?_⟩
  rcases (h4 i0 hi0).2 hf with ht | hpd | ⟨hc, hg⟩
  · exact Or.inl (true_exists_of_perm V c c1 hp ht)
  · exact Or.inr (Or.inl hpd)
  · exact Or.inr (Or.inr ⟨hc, nary_good_of_perm c c1 off _ hp hg⟩)

theorem swap_get_zero (c : clause) (h : 2 ≤ c.size) : (c.swap 0 1).get 0 = c.get 1 := by
  cases c with
  | mk lits a1 a2 a3 a4 a5 a6 a7 a8 =>
    match lits, h with
    | [], h => simp [clause.size] at h
    | [_], h => simp [clause.size] at h
    | a :: b :: rest, _ => rfl

theorem swap_get_one (c : clause) (h : 2 ≤ c.size) : (c.swap 0 1).get 1 = c.get 0 := by
  cases c with
  | mk lits a1 a2 a3 a4 a5 a6 a7 a8 =>
    match lits, h with
    | [], h => simp [clause.size] at h
    | [_], h => simp [clause.size] at h
    | a :: b :: rest, _ => rfl

theorem swap_watch_pos (c : clause) (x : literal) (h : 2 ≤ c.size) :
    ∀ i, i < 2 → ∃ i0, i0 < 2 ∧ (c.swap_watch x).get i = c.get i0 := by
  intro i hi
  unfold clause.swap_watch
  split
  · have : i = 0 ∨ i = 1 := by omega
    rcases this with e | e
    · exact ⟨1, by omega, by rw [e]; exact swap_get_zero c h⟩
    · exact ⟨0, by omega, by rw [e]; exact swap_get_one c h⟩
  · exact ⟨i, hi, rfl⟩

/-- After the optional swap, a clause whose second literal is not `x` does
not have `x` as its first literal either. -/
theorem swap_watch_get_zero_ne (c : clause) (x : literal) (h : 2 ≤ c.size)
    (h1 : (c.swap_watch x).get 1 ≠ x) : (c.swap_watch x).get 0 ≠ x := by
  unfold clause.swap_watch at *
  split
  · rename_i e
    rw [if_pos e, swap_get_one c h] at h1
    exact absurd (by simpa using e) h1
  · rename_i e
    simpa using e

@[simp] theorem swap_watch_m_frozen (c : clause) (x : literal) :
    (c.swap_watch x).m_frozen = c.m_frozen := by
  unfold clause.swap_watch; split <;> rfl

@[simp] theorem swap_watch_m_removed (c : clause) (x : literal) :
    (c.swap_watch x).m_removed = c.m_removed := by
  unfold clause.swap_watch; split <;> rfl

theorem view_set_clause (s : solver) (off : clause_offset) (c : clause) (l : literal)
    (kept rest : List watched) : view (s.set_clause off c) l kept rest = view s l kept rest :=
  rfl

theorem tern_inv_size (V : pview) (c : clause) (h : V.tern_inv c) : c.size = 3 := h.1

/-- The statement `if (c[0] == not_l) std::swap(c[0], c[1])` keeps the loop
invariant. -/
theorem wlist_inv_swap_watch (s : solver) (l : literal) (kept rest : List watched)
    (b : literal) (o : clause_offset) (h : wlist_inv s l kept (watched.clause b o :: rest)) :
    wlist_inv (s.set_clause o ((s.get_clause o).swap_watch l.neg)) l kept
      (watched.clause b o :: rest) := by
  obtain ⟨h1, h2, h3, h4, h5, h6⟩ := h
  have ho : o < s.m_cls_allocator.length := by
    simpa [watch_ok] using h3 (watched.clause b o) (by simp)
  have hok := clause_ok_get_clause s o h1.1 ho
  have hsz : (s.get_clause o).size ≠ 3 := h4 _ (by simp) b o rfl
  have hf := step_frame_set_clause s o ((s.get_clause o).swap_watch l.neg) h1 ho
    (clause_ok_of_perm _ _ _ hok (swap_watch_perm _ _ hok.1)) (by simp) (by simp) (by simp)
  refine ⟨hf.common, hf.val_true l h2, ?_, ?_, ?_, h6⟩
  · intro w0 hw0
    rw [hf.asg_len, hf.arena_len]
    exact h3 w0 hw0
  · intro w0 hw0 b0 off e0
    rw [hf.size_eq]
    exact h4 w0 hw0 b0 off e0
  · intro off hoff hfr
    rw [hf.clauses_eq, hf.learned_eq] at hoff
    rw [hf.frozen_eq] at hfr
    obtain ⟨g1, g2, g3⟩ := h5 off hoff hfr
    refine ⟨by rw [hf.arena_len]; exact g1, by rw [hf.removed_eq]; exact g2, ?_⟩
    rw [view_set_clause]
    by_cases e : o = off
    · subst e
      rw [get_clause_set_clause s o _ ho]
      rcases g3 with g3 | g3
      · exact absurd g3.1 hsz
      · exact Or.inr (nary_inv_of_perm_watch _ _ _ _ (swap_watch_perm _ _ hok.1)
          (swap_watch_pos _ _ hok.1) g3)
    · rw [get_clause_set_clause_ne s o off _ e]
      exact g3


theorem watched_clause_inj (b b1 : literal) (o o1 : clause_offset)
    (h : watched.clause b o = watched.clause b1 o1) : b = b1 ∧ o = o1 := by
  cases h; exact ⟨rfl, rfl⟩

/-- The loop invariant over a step that copies a generic watch and changes
nothing: the blocked literal is true, the clause is removed, or the literal
being propagated is none of the two watched literals of the clause. -/
theorem wlist_inv_keep_clause_same (s : solver) (l : literal) (kept rest : List watched)
    (b : literal) (o : clause_offset) (h : wlist_inv s l kept (watched.clause b o :: rest))
    (hsp : s.value b = .l_true ∨ (s.get_clause o).m_removed = true ∨
      ((s.get_clause o).get 0 ≠ l.neg ∧ (s.get_clause o).get 1 ≠ l.neg)) :
    wlist_inv s l (kept ++ [watched.clause b o]) rest := by
  have hf := step_frame_refl s h.1
  apply wlist_inv_step s s l kept _ rest _ h hf
  · intro w0 hw0
    rcases List.mem_append.1 hw0 with e | e
    · exact Or.inl e
    · right
      rw [List.mem_singleton.1 e]
      exact ⟨h.2.2.1 _ (by simp), fun b1 off e1 => ⟨b, by cases e1; rfl⟩,
        fun b lrn e1 => (by cases e1)⟩
  · intro b lrn e; cases e
  · intro off _ _ hi
    apply clause_inv_step_other s s l kept _ rest _ off hf rfl _ _ _ _ hi
    · intro p q hm; exact mem_kept_same _ _ _ _ hm
    · intro b1 hm; exact mem_kept_same _ _ _ _ hm
    · intro i hi2 hc b1 hb1 e
      obtain ⟨e1, e2⟩ := watched_clause_inj _ _ _ _ e
      subst e1 e2
      rcases hsp with hv | hr | ⟨n0, n1⟩
      · exact ⟨b, hb1, hv⟩
      · rw [hi.2.1] at hr; cases hr
      · have : i = 0 ∨ i = 1 := by omega
        rcases this with e | e
        · rw [e] at hc; exact absurd hc n0
        · rw [e] at hc; exact absurd hc n1
    · intro _ i _ _ hg
      exact Or.inr (tern_good_cons_of_ne _ _ _ _ (fun p q e => by cases e) hg)

theorem nary_good_vlist_replace (s s1 : solver) (l : literal) (kept rest : List watched)
    (b b1 : literal) (o : clause_offset) (c : clause) (hf : step_frame s s1)
    (hb1 : b1 = b ∨ b1 ∈ c.lits) (x : Nat)
    (h : nary_good c o (vlist s l kept (watched.clause b o :: rest) x)) :
    nary_good c o (vlist s1 l (kept ++ [watched.clause b1 o]) rest x) := by
  obtain ⟨b0, hb0, hm⟩ := h
  unfold vlist at *
  split
  · rename_i e
    rw [if_pos e] at hm
    simp only [List.mem_append, List.mem_cons] at hm
    rcases hm with hm | hm | hm
    · exact ⟨b0, hb0, by simp [hm]⟩
    · obtain ⟨e1, _⟩ := watched_clause_inj _ _ _ _ hm
      rcases hb1 with e2 | e2
      · exact ⟨b0, hb0, by simp [e2, e1]⟩
      · exact ⟨b1, e2, by simp⟩
    · exact ⟨b0, hb0, by simp [hm]⟩
  · rename_i e
    rw [if_neg e] at hm
    exact ⟨b0, hb0, hf.wl_mono x _ hm⟩

/-- The loop invariant over a step at the generic watch of a clause that
copies a watch for the clause, keeps the literals of every clause in place
and leaves the clause with a true literal. -/
theorem wlist_inv_keep_clause_true (s s1 : solver) (l : literal) (kept rest : List watched)
    (b b1 : literal) (o : clause_offset)
    (h : wlist_inv s l kept (watched.clause b o :: rest)) (hf : step_frame s s1)
    (hl : ∀ off, (s1.get_clause off).lits = (s.get_clause off).lits)
    (hb1 : b1 = b ∨ b1 ∈ (s.get_clause o).lits)
    (ht : ∃ x ∈ (s.get_clause o).lits, s1.value x = .l_true) :
    wlist_inv s1 l (kept ++ [watched.clause b1 o]) rest := by
  have hsz : (s.get_clause o).size ≠ 3 := h.2.2.2.1 _ (by simp) b o rfl
  apply wlist_inv_step s s1 l kept _ rest _ h hf
  · intro w0 hw0
    rcases List.mem_append.1 hw0 with e | e
    · exact Or.inl e
    · right
      rw [List.mem_singleton.1 e]
      refine ⟨?_, fun b2 off e1 => ⟨b, by cases e1; rfl⟩, fun b lrn e1 => (by cases e1)⟩
      have := h.2.2.1 (watched.clause b o) (by simp)
      simpa [watch_ok] using this
  · intro b lrn e; cases e
  · intro off _ _ hi
    by_cases e : off = o
    · subst e
      obtain ⟨g1, g2, g3⟩ := hi
      refine ⟨by rw [hf.arena_len]; exact g1, by rw [hf.removed_eq]; exact g2, ?_⟩
      rcases g3 with g3 | g3
      · exact absurd g3.1 hsz
      · right
        apply nary_inv_congr_lits _ _ _ _ (hl off)
        apply nary_inv_mono _ _ _ _ (view_le_of_step_frame s s1 l _ _ _ _ hf) _ _ g3
        · intro x hg
          exact nary_good_vlist_replace s s1 l kept rest b b1 off _ hf hb1 x hg
        · intro i _ _ _
          exact Or.inl ht
    · apply clause_inv_step_other s s1 l kept _ rest _ off hf (hl off) _ _ _ _ hi
      · intro p q hm; exact mem_kept_of_ne _ _ _ _ _ (by simp) hm
      · intro b2 hm
        exact mem_kept_of_ne _ _ _ _ _ (fun e1 => e (watched_clause_inj _ _ _ _ e1).2) hm
      · intro i _ _ b2 _ e1
        exact absurd (watched_clause_inj _ _ _ _ e1).2.symm e
      · intro _ i _ _ hg
        exact Or.inr (tern_good_cons_of_ne _ _ _ _ (fun p q e => by cases e) hg)

theorem get_clause_set_clause_lits (s : solver) (o off : clause_offset) (c : clause)
    (h : c.lits = (s.get_clause o).lits) :
    ((s.set_clause o c).get_clause off).lits = (s.get_clause off).lits := by
  unfold set_clause get_clause at *
  simp only [getD_set]
  split
  · rename_i e; rw [h, e.1]
  · rfl

theorem update_glue_get_clause_lits (s : solver) (update : Bool) (o off : clause_offset)
    (c : clause) (h : c.lits = (s.get_clause o).lits) :
    ((s.update_glue update o c).get_clause off).lits = (s.get_clause off).lits := by
  unfold update_glue
  split
  · dsimp only
    split
    · rw [get_clause_set_clause_lits _ _ _ _ (by
        rw [get_clause_congr _ s (by simp)]; exact h)]
      rw [get_clause_congr _ s (by simp)]
    · rw [get_clause_congr _ s (by simp)]
  · rfl

/-- The glue update continues the state. -/
theorem step_frame_update_glue (s : solver) (update : Bool) (o : clause_offset) (c : clause)
    (h : common_inv s) (ho : o < s.m_cls_allocator.length)
    (hc : clause_ok s.m_assignment.length c) (hsize : c.size = (s.get_clause o).size)
    (hfrozen : c.m_frozen = (s.get_clause o).m_frozen)
    (hremoved : c.m_removed = (s.get_clause o).m_removed) :
    step_frame s (s.update_glue update o c) := by
  unfold update_glue
  split
  · dsimp only
    have hf0 : step_frame s (s.num_diff_levels_below c.lits (c.m_glue - 1)).2.2 :=
      step_frame_congr s _ h (by simp) (by simp) (by simp) (by simp) (by simp) (by simp)
        (by simp)
    split
    · apply step_frame_trans s _ _ hf0
      have hg : (s.num_diff_levels_below c.lits (c.m_glue - 1)).2.2.get_clause o
          = s.get_clause o := get_clause_congr _ s (by simp) o
      apply step_frame_set_clause _ _ _ hf0.common (by simpa using ho)
      · simpa using hc
      · rw [hg]; exact hsize
      · rw [hg]; exact hfrozen
      · rw [hg]; exact hremoved
    · exact hf0
  · exact step_frame_refl s h


theorem propagate_clause_unit_of_undef (s : solver) (update : Bool) (b : literal)
    (o : clause_offset) (c : clause) (h : s.value (c.get 0) ≠ .l_false) :
    propagate_clause_unit s update b o c
      = (((s.inc_propagate.set_clause o { c with m_used := true }).assign_core (c.get 0)
            (justification.clause o)).update_glue update o { c with m_used := true },
          .keep (watched.clause b o)) := by
  unfold propagate_clause_unit
  have hne : (s.value (c.get 0) == .l_false) = false := by simpa using h
  simp only [hne, Bool.false_eq_true, ↓reduceIte]
  rfl

/-- The invariant over the unit-or-conflict case of a generic watch. -/
theorem propagate_clause_unit_inv (s : solver) (update : Bool) (l : literal)
    (kept rest : List watched) (b : literal) (o : clause_offset)
    (h : wlist_inv s l kept (watched.clause b o :: rest))
    (h0 : s.value ((s.get_clause o).get 0) ≠ .l_true) :
    wlist_inv_after (propagate_clause_unit s update b o (s.get_clause o)).1
      (propagate_clause_unit s update b o (s.get_clause o)).2 l kept rest := by
  by_cases hf0 : s.value ((s.get_clause o).get 0) = .l_false
  · unfold propagate_clause_unit
    simp only [hf0, beq_self_eq_true, ↓reduceIte]
    exact trivial
  · rw [propagate_clause_unit_of_undef s update b o _ hf0]
    have hu := value_cases_undef s _ h0 hf0
    have hc := h.1
    have ho : o < s.m_cls_allocator.length := by
      simpa [watch_ok] using h.2.2.1 (watched.clause b o) (by simp)
    have hok := clause_ok_get_clause s o hc.1 ho
    have hmem : (s.get_clause o).get 0 ∈ (s.get_clause o).lits :=
      get_mem_lits _ 0 (by have := hok.1; omega)
    have hidx := hok.2 _ hmem
    have hfa : step_frame s s.inc_propagate :=
      step_frame_congr s _ hc (by simp) (by simp) (by simp) (by simp) (by simp) (by simp)
        (by simp)
    have hga : s.inc_propagate.get_clause o = s.get_clause o := get_clause_congr _ s (by simp) o
    have hfb : step_frame s (s.inc_propagate.set_clause o
        { s.get_clause o with m_used := true }) := by
      apply step_frame_trans s _ _ hfa
      apply step_frame_set_clause _ _ _ hfa.common (by simpa using ho)
      · exact ⟨hok.1, by simpa using hok.2⟩
      · rw [hga]; rfl
      · rw [hga]
      · rw [hga]
    have hfc := step_frame_then_assign s _ ((s.get_clause o).get 0) (justification.clause o) hfb
      (by rw [value_congr s _ (by simp)]; exact hu) (by simpa using hidx)
    have hgc : ((s.inc_propagate.set_clause o { s.get_clause o with m_used := true }).assign_core
        ((s.get_clause o).get 0) (justification.clause o)).get_clause o
          = { s.get_clause o with m_used := true } := by
      rw [get_clause_congr _ (s.inc_propagate.set_clause o { s.get_clause o with m_used := true })
        (by simp)]
      exact get_clause_set_clause _ _ _ (by simpa using ho)
    have hfd : step_frame s ((((s.inc_propagate.set_clause o
        { s.get_clause o with m_used := true }).assign_core ((s.get_clause o).get 0)
          (justification.clause o))).update_glue update o
            { s.get_clause o with m_used := true }) := by
      apply step_frame_trans s _ _ hfc
      apply step_frame_update_glue _ _ _ _ hfc.common (by simpa using ho)
      · exact ⟨hok.1, by simpa using hok.2⟩
      · rw [hgc]
      · rw [hgc]
      · rw [hgc]
    apply wlist_inv_keep_clause_true s _ l kept rest b b o h hfd _ (Or.inl rfl)
    · refine ⟨_, hmem, ?_⟩
      rw [value_update_glue]
      exact assign_core_value_self _ _ _ (by simpa using hidx)
    · intro off
      rw [update_glue_get_clause_lits _ _ _ _ _ (by rw [hgc])]
      rw [get_clause_congr _ (s.inc_propagate.set_clause o
        { s.get_clause o with m_used := true }) (by simp)]
      rw [get_clause_set_clause_lits _ _ _ _ (by rw [hga])]
      rw [get_clause_congr _ s (by simp)]


theorem nodup_get_ne (c : clause) (h : c.lits.Nodup) (i j : Nat) (hi : i < c.size)
    (hj : j < c.size) (hij : i ≠ j) : c.get i ≠ c.get j := by
  unfold clause.get clause.size at *
  rw [List.getD_eq_getElem _ _ hi, List.getD_eq_getElem _ _ hj]
  intro e
  exact hij ((List.Nodup.getElem_inj_iff h).1 e)

theorem neg_index_ne_of_ne_neg (a l : literal) (h : a ≠ l.neg) : a.neg.index ≠ l.index := by
  intro e
  apply h
  have := literal_ext_index e
  rw [← this, literal_neg_neg]

theorem vlist_of_ne (s : solver) (l : literal) (kept rest : List watched) (x : Nat)
    (h : x ≠ l.index) : vlist s l kept rest x = s.get_wlist x := by
  unfold vlist; rw [if_neg h]

/-- The invariant over the replacement of a watch: the clause is watched at
the old `c[0]` and at the literal that takes the place of `¬l`. -/
theorem propagate_clause_replace_inv (s : solver) (l : literal) (kept rest : List watched)
    (b : literal) (o : clause_offset) (k : Nat)
    (h : wlist_inv s l kept (watched.clause b o :: rest))
    (h1 : (s.get_clause o).get 1 = l.neg) (hk2 : 2 ≤ k) (hk : k < (s.get_clause o).size)
    (hvk : s.value ((s.get_clause o).get k) ≠ .l_false) :
    wlist_inv (propagate_clause_replace s l.neg o (s.get_clause o) k).1 l kept rest := by
  have hc := h.1
  have ho : o < s.m_cls_allocator.length := by
    simpa [watch_ok] using h.2.2.1 (watched.clause b o) (by simp)
  have hok := clause_ok_get_clause s o hc.1 ho
  have hsz : (s.get_clause o).size ≠ 3 := h.2.2.2.1 _ (by simp) b o rfl
  generalize hcd : s.get_clause o = c at *
  have hlen : k < c.lits.length := hk
  have hperm : ((c.set 1 (c.get k)).set k l.neg).lits.Perm c.lits := by
    have := perm_set_one_set null_literal c.lits k hk2 hlen
    have e1 : c.lits.getD 1 null_literal = l.neg := h1
    rw [e1] at this
    exact this
  have hg0 : ((c.set 1 (c.get k)).set k l.neg).get 0 = c.get 0 := by
    simp only [clause.get, clause.set]
    rw [getD_set_ne _ _ _ _ _ (by omega), getD_set_ne _ _ _ _ _ (by omega)]
  have hg1 : ((c.set 1 (c.get k)).set k l.neg).get 1 = c.get k := by
    simp only [clause.get, clause.set]
    rw [getD_set_ne _ _ _ _ _ (by omega), getD_set_self _ _ _ _ (by omega)]
  show wlist_inv ((s.set_clause o ((c.set 1 (c.get k)).set k l.neg)).push_watch
    (((c.set 1 (c.get k)).set k l.neg).get 1).neg.index
    (watched.clause (((c.set 1 (c.get k)).set k l.neg).get 0) o)) l kept rest
  rw [hg0, hg1]
  generalize hc2 : (c.set 1 (c.get k)).set k l.neg = c2 at *
  have hsz2 : c2.size = c.size := hperm.length_eq
  have hf2 : step_frame s (s.set_clause o c2) := by
    apply step_frame_set_clause s o c2 hc ho (clause_ok_of_perm _ _ _ hok hperm)
    · rw [hcd]; exact hsz2
    · rw [hcd, ← hc2]; rfl
    · rw [hcd, ← hc2]; rfl
  have hf1 : step_frame s ((s.set_clause o c2).push_watch (c.get k).neg.index
      (watched.clause (c.get 0) o)) := by
    apply step_frame_trans s _ _ hf2
    apply step_frame_push_watch _ _ _ _ hf2.common (by simpa using ho)
    rw [hf2.size_eq, hcd]; exact hsz
  have hgo : ((s.set_clause o c2).push_watch (c.get k).neg.index
      (watched.clause (c.get 0) o)).get_clause o = c2 := by
    rw [get_clause_congr _ (s.set_clause o c2) (by simp)]
    exact get_clause_set_clause s o c2 ho
  have hgne : ∀ off, off ≠ o → ((s.set_clause o c2).push_watch (c.get k).neg.index
      (watched.clause (c.get 0) o)).get_clause off = s.get_clause off := by
    intro off e
    rw [get_clause_congr _ (s.set_clause o c2) (by simp)]
    exact get_clause_set_clause_ne s o off c2 (Ne.symm e)
  have hval : ∀ x, ((s.set_clause o c2).push_watch (c.get k).neg.index
      (watched.clause (c.get 0) o)).value x = s.value x :=
    fun x => value_congr s _ (by simp) x
  apply wlist_inv_step s _ l kept kept rest _ h hf1 (fun w0 hw0 => Or.inl hw0)
    (fun b lrn e => by cases e)
  intro off _ _ hi
  by_cases e : off = o
  · subst e
    obtain ⟨g1, g2, g3⟩ := hi
    refine ⟨by rw [hf1.arena_len]; exact g1, by rw [hf1.removed_eq]; exact g2, ?_⟩
    rw [hcd] at g3
    rcases g3 with g3 | g3
    · exact absurd g3.1 hsz
    · right
      rw [hgo]
      obtain ⟨n1, n2, n3, n4⟩ := g3
      have ha : c.get 0 ≠ l.neg := by
        rw [← h1]; exact nodup_get_ne c n1 0 1 (by omega) (by omega) (by omega)
      have hy : c.get k ≠ l.neg := by
        rw [← h1]; exact nodup_get_ne c n1 k 1 hk (by omega) (by omega)
      refine ⟨hperm.nodup_iff.2 n1, by rw [hsz2]; exact n2, by rw [hsz2]; exact n3, ?_⟩
      intro i hi2
      have hi01 : i = 0 ∨ i = 1 := by omega
      rcases hi01 with e | e
      · subst e
        rw [hg0]
        constructor
        · have := (n4 0 (by omega)).1
          simp only [view] at this ⊢
          rw [vlist_of_ne _ _ _ _ _ (neg_index_ne_of_ne_neg _ _ ha)] at this ⊢
          obtain ⟨b0, hb0, hm⟩ := this
          exact ⟨b0, hperm.symm.subset hb0, hf1.wl_mono _ _ hm⟩
        · intro hfalse
          have hfs : s.value (c.get 0) = .l_false := by rw [← hval]; exact hfalse
          rcases (n4 0 (by omega)).2 hfs with ⟨x, hx, hv⟩ | hpd | ⟨hcur, _⟩
          · exact Or.inl ⟨x, hperm.symm.subset hx, (hval x).trans hv⟩
          · exact Or.inr (Or.inl (hf1.pend _ hpd))
          · exfalso
            apply ha
            have := congrArg literal.neg hcur
            rw [literal_neg_neg] at this
            exact this
      · subst e
        rw [hg1]
        constructor
        · simp only [view]
          rw [vlist_of_ne _ _ _ _ _ (neg_index_ne_of_ne_neg _ _ hy)]
          refine ⟨c.get 0, hperm.symm.subset (get_mem_lits c 0 (by omega)), ?_⟩
          apply mem_push_watch_self
          simp only [set_clause_m_watches]
          rw [hc.2.1]
          have hyi := hok.2 _ (get_mem_lits c k hk)
          exact (lt_iff_neg_lt _ _ hc.2.2.1.1).1 hyi
        · intro hfalse
          have hfs : s.value (c.get k) = .l_false := by rw [← hval]; exact hfalse
          exact absurd hfs hvk
  · apply clause_inv_step_other s _ l kept _ rest _ off hf1 (by rw [hgne off e]) _ _ _ _ hi
    · intro p q hm; exact mem_drop_of_ne _ _ _ _ (by simp) hm
    · intro b2 hm
      exact mem_drop_of_ne _ _ _ _ (fun e1 => e (watched_clause_inj _ _ _ _ e1).2) hm
    · intro i _ _ b2 _ e1
      exact absurd (watched_clause_inj _ _ _ _ e1).2.symm e
    · intro _ i _ _ hg
      exact Or.inr (tern_good_cons_of_ne _ _ _ _ (fun p q e => by cases e) hg)


/-- The invariant over the clause case once `c[1] = ¬l` is established. -/
theorem propagate_clause_watched_inv (s : solver) (update : Bool) (l : literal)
    (kept rest : List watched) (b : literal) (o : clause_offset)
    (h : wlist_inv s l kept (watched.clause b o :: rest))
    (h1 : (s.get_clause o).get 1 = l.neg) :
    wlist_inv_after (propagate_clause_watched s update l.neg b o (s.get_clause o)).1
      (propagate_clause_watched s update l.neg b o (s.get_clause o)).2 l kept rest := by
  have hc := h.1
  have ho : o < s.m_cls_allocator.length := by
    simpa [watch_ok] using h.2.2.1 (watched.clause b o) (by simp)
  have hok := clause_ok_get_clause s o hc.1 ho
  have hmem : (s.get_clause o).get 0 ∈ (s.get_clause o).lits :=
    get_mem_lits _ 0 (by have := hok.1; omega)
  by_cases hv0 : s.value ((s.get_clause o).get 0) = .l_true
  · have e : propagate_clause_watched s update l.neg b o (s.get_clause o)
        = (s, .keep (watched.clause ((s.get_clause o).get 0) o)) := by
      unfold propagate_clause_watched
      simp only [hv0, beq_self_eq_true, ↓reduceIte]
    rw [e]
    exact wlist_inv_keep_clause_true s s l kept rest b _ o h (step_frame_refl s hc)
      (fun _ => rfl) (Or.inr hmem) ⟨_, hmem, hv0⟩
  · have hne : (s.value ((s.get_clause o).get 0) == .l_true) = false := by simpa using hv0
    cases hfind : find_not_false s ((s.get_clause o).lits.drop 2) 2 with
    | none =>
      have e : propagate_clause_watched s update l.neg b o (s.get_clause o)
          = propagate_clause_unit s update b o (s.get_clause o) := by
        unfold propagate_clause_watched
        simp only [hne, Bool.false_eq_true, ↓reduceIte, hfind]
      rw [e]
      exact propagate_clause_unit_inv s update l kept rest b o h hv0
    | some k =>
      have e : propagate_clause_watched s update l.neg b o (s.get_clause o)
          = propagate_clause_replace s l.neg o (s.get_clause o) k := by
        unfold propagate_clause_watched
        simp only [hne, Bool.false_eq_true, ↓reduceIte, hfind]
      rw [e]
      obtain ⟨k1, k2, k3, _⟩ := find_not_false_eq_some s _ 2 k hfind
      have hlen : 2 ≤ (s.get_clause o).lits.length := hok.1
      have hk : k < (s.get_clause o).size := by
        simp only [List.length_drop] at k2
        show k < (s.get_clause o).lits.length
        omega
      have hvk : s.value ((s.get_clause o).get k) ≠ .l_false := by
        rw [getD_drop_two] at k3
        have e2 : k - 2 + 2 = k := by omega
        rw [e2] at k3
        exact k3
      exact propagate_clause_replace_inv s l kept rest b o k h h1 k1 hk hvk

/-- The invariant over the clause case of the watch loop. -/
theorem propagate_clause_inv (s : solver) (update : Bool) (l : literal)
    (kept rest : List watched) (b : literal) (o : clause_offset)
    (h : wlist_inv s l kept (watched.clause b o :: rest)) :
    wlist_inv_after (propagate_clause s update l.neg b o).1
      (propagate_clause s update l.neg b o).2 l kept rest := by
  have hc := h.1
  have ho : o < s.m_cls_allocator.length := by
    simpa [watch_ok] using h.2.2.1 (watched.clause b o) (by simp)
  have hok := clause_ok_get_clause s o hc.1 ho
  by_cases hb : s.value b = .l_true
  · have e : propagate_clause s update l.neg b o = (s, .keep (watched.clause b o)) := by
      unfold propagate_clause
      simp only [hb, beq_self_eq_true, ↓reduceIte]
    rw [e]
    exact wlist_inv_keep_clause_same s l kept rest b o h (Or.inl hb)
  · have hne : (s.value b == .l_true) = false := by simpa using hb
    have h2 := wlist_inv_swap_watch s l kept rest b o h
    have hg : (s.set_clause o ((s.get_clause o).swap_watch l.neg)).get_clause o
        = (s.get_clause o).swap_watch l.neg := get_clause_set_clause s o _ ho
    by_cases hst : ((s.get_clause o).swap_watch l.neg).m_removed = true
        ∨ ((s.get_clause o).swap_watch l.neg).get 1 ≠ l.neg
    · have e : propagate_clause s update l.neg b o
          = (s.set_clause o ((s.get_clause o).swap_watch l.neg),
              .keep (watched.clause b o)) := by
        unfold propagate_clause
        have hcond : (((s.get_clause o).swap_watch l.neg).m_removed
            || ((s.get_clause o).swap_watch l.neg).get 1 != l.neg) = true := by
          rcases hst with e1 | e1
          · rw [e1]; rfl
          · have e2 : (((s.get_clause o).swap_watch l.neg).get 1 != l.neg) = true := by
              simpa using e1
            rw [e2]; exact Bool.or_true _
        simp only [hne, Bool.false_eq_true, ↓reduceIte, hcond]
      rw [e]
      apply wlist_inv_keep_clause_same _ l kept rest b o h2
      right
      rw [hg]
      rcases hst with e1 | e1
      · exact Or.inl e1
      · exact Or.inr ⟨swap_watch_get_zero_ne _ _ hok.1 e1, e1⟩
    · have hst1 : ((s.get_clause o).swap_watch l.neg).m_removed = false := by
        cases hr : ((s.get_clause o).swap_watch l.neg).m_removed
        · rfl
        · exact absurd (Or.inl hr) hst
      have hst2 : ((s.get_clause o).swap_watch l.neg).get 1 = l.neg := by
        by_contra hn
        exact hst (Or.inr hn)
      have e : propagate_clause s update l.neg b o
          = propagate_clause_watched (s.set_clause o ((s.get_clause o).swap_watch l.neg))
              update l.neg b o ((s.get_clause o).swap_watch l.neg) := by
        unfold propagate_clause
        have hcond : (((s.get_clause o).swap_watch l.neg).m_removed
            || ((s.get_clause o).swap_watch l.neg).get 1 != l.neg) = false := by
          rw [hst1, hst2]; simp
        simp only [hne, Bool.false_eq_true, ↓reduceIte, hcond]
      rw [e]
      have := propagate_clause_watched_inv _ update l kept rest b o h2 (by rw [hg]; exact hst2)
      rw [hg] at this
      exact this

/-- One iteration of the watch loop keeps the loop invariant. -/
theorem propagate_watch_inv (ext : ext_propagate) (update : Bool) (s : solver) (l : literal)
    (kept rest : List watched) (w : watched) (h : wlist_inv s l kept (w :: rest)) :
    wlist_inv_after (propagate_watch ext update s l w).1 (propagate_watch ext update s l w).2
      l kept rest := by
  cases w with
  | binary l1 learned => exact propagate_binary_inv s l kept rest l1 learned h
  | ternary p q => exact propagate_ternary_inv s l kept rest p q h
  | clause b o => exact propagate_clause_inv s update l kept rest b o h
  | ext_constraint idx =>
    have := h.2.2.1 (watched.ext_constraint idx) (by simp)
    simp [watch_ok] at this


/-- Between two trail literals: the invariant of a clause with generic
watches carries over when the queue entries either stay in the queue or
become the literal being propagated, with its whole list ahead. -/
theorem nary_inv_shift (V V1 : pview) (off : clause_offset) (c : clause)
    (hval : V1.val = V.val) (hwl : ∀ x, V1.wl x = V.wl x)
    (hp : ∀ x, x ∈ V.pend → x ∈ V1.pend ∨ (x = V1.cur ∧ V1.rest = V.wl x.index))
    (hr : V.rest = []) (hi : V.nary_inv off c) : V1.nary_inv off c := by
  obtain ⟨h1, h2, h3, h4⟩ := hi
  refine ⟨h1, h2, h3, fun i hi2 => ⟨by rw [hwl]; exact (h4 i hi2).1, fun hf => ?_⟩⟩
  rw [hval] at hf
  rcases (h4 i hi2).2 hf with ⟨x, hx, hv⟩ | hpd | ⟨_, hg⟩
  · exact Or.inl ⟨x, hx, by rw [hval]; exact hv⟩
  · rcases hp _ hpd with e | ⟨e1, e2⟩
    · exact Or.inr (Or.inl e)
    · exact Or.inr (Or.inr ⟨e1, by rw [e2]; exact (h4 i hi2).1⟩)
  · rw [hr] at hg
    obtain ⟨_, _, hm⟩ := hg
    cases hm

theorem tern_inv_shift (V V1 : pview) (c : clause)
    (hval : V1.val = V.val) (hwl : ∀ x, V1.wl x = V.wl x)
    (hp : ∀ x, x ∈ V.pend → x ∈ V1.pend ∨ (x = V1.cur ∧ V1.rest = V.wl x.index))
    (hr : V.rest = []) (hi : V.tern_inv c) : V1.tern_inv c := by
  obtain ⟨h1, h4⟩ := hi
  have hnil : ∀ i, ¬ tern_good c i V.rest := by
    intro i hg
    rw [hr] at hg
    obtain ⟨_, _, _, _, _, _, _, hm⟩ := hg
    cases hm
  have hpend : ∀ i, i < 3 → (c.get i).neg ∈ V.pend →
      (c.get i).neg ∈ V1.pend ∨ ((c.get i).neg = V1.cur ∧ tern_good c i V1.rest) := by
    intro i hi3 hpd
    rcases hp _ hpd with e | ⟨e1, e2⟩
    · exact Or.inl e
    · exact Or.inr ⟨e1, by rw [e2]; exact (h4 i hi3).1⟩
  refine ⟨h1, fun i hi3 => ⟨by rw [hwl]; exact (h4 i hi3).1, fun hf => ?_⟩⟩
  rw [hval] at hf
  rcases (h4 i hi3).2 hf with ⟨x, hx, hv⟩ | hpd | ⟨_, hg⟩ | hall
  · exact Or.inl ⟨x, hx, by rw [hval]; exact hv⟩
  · rcases hpend i hi3 hpd with e | e
    · exact Or.inr (Or.inl e)
    · exact Or.inr (Or.inr (Or.inl e))
  · exact absurd hg (hnil i)
  · refine Or.inr (Or.inr (Or.inr fun j hj hji => ?_))
    rcases hall j hj hji with hu | hpd | ⟨_, hg⟩
    · exact Or.inl (by rw [hval]; exact hu)
    · exact Or.inr (hpend j hj hpd)
    · exact absurd hg (hnil j)

theorem bin_inv_shift (V V1 : pview)
    (hval : V1.val = V.val) (hwl : ∀ x, V1.wl x = V.wl x)
    (hp : ∀ x, x ∈ V.pend → x ∈ V1.pend ∨ (x = V1.cur ∧ V1.rest = V.wl x.index))
    (hr : V.rest = []) (hi : V.bin_inv) : V1.bin_inv := by
  intro x b lrn hm hv
  rw [hwl] at hm
  rw [hval] at hv
  rcases hi x b lrn hm hv with e | e | ⟨_, e⟩
  · exact Or.inl (by rw [hval]; exact e)
  · rcases hp _ e with e1 | ⟨e1, e2⟩
    · exact Or.inr (Or.inl e1)
    · exact Or.inr (Or.inr ⟨e1, by rw [e2]; exact hm⟩)
  · rw [hr] at e; cases e

theorem clause_inv_shift (s s1 : solver) (V V1 : pview) (off : clause_offset)
    (ha : s1.m_cls_allocator = s.m_cls_allocator)
    (hval : V1.val = V.val) (hwl : ∀ x, V1.wl x = V.wl x)
    (hp : ∀ x, x ∈ V.pend → x ∈ V1.pend ∨ (x = V1.cur ∧ V1.rest = V.wl x.index))
    (hr : V.rest = []) (hi : clause_inv s V off) : clause_inv s1 V1 off := by
  obtain ⟨h1, h2, h3⟩ := hi
  unfold clause_inv
  rw [get_clause_congr s1 s ha, ha]
  refine ⟨h1, h2, ?_⟩
  rcases h3 with h3 | h3
  · exact Or.inl (tern_inv_shift V V1 _ hval hwl hp hr h3)
  · exact Or.inr (nary_inv_shift V V1 off _ hval hwl hp hr h3)

theorem vlist_nil_right (s : solver) (l : literal) (x : Nat) :
    vlist s l (s.get_wlist l.index) [] x = s.get_wlist x := by
  unfold vlist
  split
  · rename_i e; rw [e]; simp
  · rfl

theorem vlist_nil_left (s : solver) (l : literal) (x : Nat) :
    vlist s l [] (s.get_wlist l.index) x = s.get_wlist x := by
  unfold vlist
  split
  · rename_i e; rw [e]; simp
  · rfl

/-- Taking the next literal from the trail establishes the loop invariant
for its watch list. -/
theorem wlist_inv_start (s : solver) (h : propagation_inv s)
    (hq : s.m_qhead < s.m_trail.length) :
    wlist_inv s.inc_qhead (s.m_trail.getD s.m_qhead null_literal) []
      (s.inc_qhead.get_wlist (s.m_trail.getD s.m_qhead null_literal).index) := by
  obtain ⟨hc, hcl, hb⟩ := h
  generalize hl : s.m_trail.getD s.m_qhead null_literal = l
  have hq1 : s.inc_qhead.m_qhead = s.m_qhead + 1 := rfl
  have hpend : s.pending = l :: s.inc_qhead.pending := by
    simp only [pending, inc_qhead_m_trail, hq1]
    rw [List.drop_eq_getElem_cons hq, ← hl, List.getD_eq_getElem _ _ hq]
  have hc1 : common_inv s.inc_qhead := by
    obtain ⟨h1, h2, h3, h4, h5, h6⟩ := hc
    refine ⟨propagate_wf_congr s _ h1 (by simp) (by simp) (by simp), by simpa using h2,
      h3, by rw [hq1]; simpa using hq, ?_, ?_⟩
    · intro x hx
      exact h5 x (by rw [hpend]; exact List.mem_cons_of_mem _ hx)
    · exact h6
  have hshift : ∀ x, x ∈ (view s null_literal (s.get_wlist null_literal.index) []).pend →
      x ∈ (view s.inc_qhead l [] (s.inc_qhead.get_wlist l.index)).pend ∨
        (x = (view s.inc_qhead l [] (s.inc_qhead.get_wlist l.index)).cur ∧
          (view s.inc_qhead l [] (s.inc_qhead.get_wlist l.index)).rest
            = (view s null_literal (s.get_wlist null_literal.index) []).wl x.index) := by
    intro x hx
    have hx1 : x ∈ l :: s.inc_qhead.pending := by rw [← hpend]; exact hx
    rcases List.mem_cons.1 hx1 with e | e
    · right
      refine ⟨e, ?_⟩
      show s.inc_qhead.get_wlist l.index = vlist s null_literal _ [] x.index
      rw [vlist_nil_right, e]
      rfl
    · exact Or.inl e
  have hwl : ∀ x, (view s.inc_qhead l [] (s.inc_qhead.get_wlist l.index)).wl x
      = (view s null_literal (s.get_wlist null_literal.index) []).wl x := by
    intro x
    show vlist s.inc_qhead l [] _ x = vlist s null_literal _ [] x
    rw [vlist_nil_right, vlist_nil_left]
    rfl
  refine ⟨hc1, ?_, ?_, ?_, ?_, ?_⟩
  · exact hc.2.2.2.2.1 l (by rw [hpend]; exact List.mem_cons_self _ _)
  · intro w hw
    exact watch_ok_get_wlist s.inc_qhead hc1.1 l.index w (by simpa using hw)
  · intro w hw
    exact no_ternary_ref_get_wlist s.inc_qhead hc1 l.index w (by simpa using hw)
  · intro off hoff hfr
    exact clause_inv_shift s s.inc_qhead
      (view s null_literal (s.get_wlist null_literal.index) [])
      (view s.inc_qhead l [] (s.inc_qhead.get_wlist l.index)) off rfl rfl hwl hshift rfl
      (hcl off hoff hfr)
  · exact bin_inv_shift (view s null_literal (s.get_wlist null_literal.index) [])
      (view s.inc_qhead l [] (s.inc_qhead.get_wlist l.index)) rfl hwl hshift rfl hb

/-- At the end of a watch list the loop invariant gives back the invariant
of propagation. -/
theorem propagation_inv_of_wlist_inv (s : solver) (l : literal) (kept : List watched)
    (h : wlist_inv s l kept []) : propagation_inv (s.set_wlist l kept) := by
  obtain ⟨hc, hv, hok, hnt, hcl, hb⟩ := h
  have hlt : l.index < s.m_watches.length := by
    rw [hc.2.1]
    exact value_lt_of_ne_undef s l (by rw [hv]; decide)
  have hgw : ∀ x, (s.set_wlist l kept).get_wlist x = vlist s l kept [] x := by
    intro x
    unfold vlist
    simp only [set_wlist, get_wlist, getD_set]
    by_cases e : x = l.index
    · simp [e, hlt]
    · have : ¬ (l.index = x ∧ l.index < s.m_watches.length) := fun e1 => e e1.1.symm
      simp [e, this]
  have hc1 : common_inv (s.set_wlist l kept) := by
    obtain ⟨h1, h2, h3, h4, h5, h6⟩ := hc
    refine ⟨propagate_wf_set_wlist s l kept h1 (by simpa using hok), by simpa using h2,
      h3, h4, h5, ?_⟩
    intro ws hws
    simp only [set_wlist] at hws
    rcases mem_set_cases _ _ _ _ hws with e | e
    · rw [e]
      intro w hw b off e1
      exact hnt w (by simpa using hw) b off e1
    · exact h6 ws e
  have hwl : ∀ x, (view (s.set_wlist l kept) null_literal
      ((s.set_wlist l kept).get_wlist null_literal.index) []).wl x
        = (view s l kept []).wl x := by
    intro x
    show vlist (s.set_wlist l kept) null_literal _ [] x = vlist s l kept [] x
    rw [vlist_nil_right, hgw]
  refine ⟨hc1, ?_, ?_⟩
  · intro off hoff hfr
    exact clause_inv_shift s (s.set_wlist l kept) (view s l kept [])
      (view (s.set_wlist l kept) null_literal
        ((s.set_wlist l kept).get_wlist null_literal.index) []) off rfl rfl hwl
      (fun x hx => Or.inl hx) rfl (hcl off hoff hfr)
  · exact bin_inv_shift (view s l kept [])
      (view (s.set_wlist l kept) null_literal
        ((s.set_wlist l kept).get_wlist null_literal.index) []) rfl hwl
      (fun x hx => Or.inl hx) rfl hb


/-- The loop over a watch list, when it ends without conflict, gives back
the invariant of propagation. -/
theorem propagate_wlist_inv (ext : ext_propagate) (update : Bool) (l : literal)
    (rest : List watched) :
    ∀ (s : solver) (kept : List watched) (s' : solver), wlist_inv s l kept rest →
      propagate_wlist ext update l s kept rest = (true, s') → propagation_inv s' := by
  induction rest with
  | nil =>
    intro s kept s' h he
    simp only [propagate_wlist, Prod.mk.injEq, true_and] at he
    rw [← he]
    exact propagation_inv_of_wlist_inv s l kept h
  | cons w rest ih =>
    intro s kept s' h he
    have hstep := propagate_watch_inv ext update s l kept rest w h
    unfold propagate_wlist at he
    rcases hpw : propagate_watch ext update s l w with ⟨s1, o⟩
    rw [hpw] at hstep he
    cases o with
    | keep w1 => exact ih s1 (kept ++ [w1]) s' hstep he
    | drop => exact ih s1 kept s' hstep he
    | conflict skip c =>
      cases c with
      | none => simp at he
      | some jc => simp at he

/-- The invariant of propagation only looks at the watch lists, the arena,
the assignment, the trail with its queue head and the clause vectors. -/
theorem propagation_inv_congr (s s1 : solver) (h : propagation_inv s)
    (hw : s1.m_watches = s.m_watches) (ha : s1.m_cls_allocator = s.m_cls_allocator)
    (hasg : s1.m_assignment = s.m_assignment) (ht : s1.m_trail = s.m_trail)
    (hq : s1.m_qhead = s.m_qhead) (hc : s1.m_clauses = s.m_clauses)
    (hl : s1.m_learned = s.m_learned) : propagation_inv s1 := by
  obtain ⟨h1, h2, h3⟩ := h
  have hval : (view s1 null_literal (s1.get_wlist null_literal.index) []).val
      = (view s null_literal (s.get_wlist null_literal.index) []).val :=
    funext fun x => value_congr s s1 hasg x
  have hwl : ∀ x, (view s1 null_literal (s1.get_wlist null_literal.index) []).wl x
      = (view s null_literal (s.get_wlist null_literal.index) []).wl x := by
    intro x
    show vlist s1 null_literal _ [] x = vlist s null_literal _ [] x
    rw [vlist_nil_right, vlist_nil_right]
    exact get_wlist_congr s1 s hw x
  have hp : ∀ x, x ∈ (view s null_literal (s.get_wlist null_literal.index) []).pend →
      x ∈ (view s1 null_literal (s1.get_wlist null_literal.index) []).pend ∨
        (x = (view s1 null_literal (s1.get_wlist null_literal.index) []).cur ∧
          (view s1 null_literal (s1.get_wlist null_literal.index) []).rest
            = (view s null_literal (s.get_wlist null_literal.index) []).wl x.index) := by
    intro x hx
    left
    show x ∈ s1.pending
    have : s1.pending = s.pending := by simp [pending, ht, hq]
    rw [this]
    exact hx
  refine ⟨common_inv_congr s s1 h1 hw ha hasg ht hq, ?_, ?_⟩
  · intro off hoff hfr
    rw [hc, hl] at hoff
    rw [get_clause_congr s1 s ha] at hfr
    exact clause_inv_shift s s1 (view s null_literal (s.get_wlist null_literal.index) [])
      (view s1 null_literal (s1.get_wlist null_literal.index) []) off ha hval hwl hp rfl
      (h2 off hoff hfr)
  · exact bin_inv_shift (view s null_literal (s.get_wlist null_literal.index) [])
      (view s1 null_literal (s1.get_wlist null_literal.index) []) hval hwl hp rfl h3

/-- One trail literal: when its watch list is processed without conflict the
invariant of propagation holds again. -/
theorem propagate_literal_inv (ext : ext_propagate) (update : Bool) (s s' : solver)
    (h : propagation_inv s) (hq : s.m_qhead < s.m_trail.length)
    (he : propagate_literal ext update s = (true, s')) : propagation_inv s' := by
  unfold propagate_literal at he
  exact propagate_wlist_inv ext update _ _ s.inc_qhead [] s' (wlist_inv_start s h hq) he

/-- The loop of `propagate_core`, when it returns true, leaves the invariant
of propagation with an empty queue. -/
theorem propagate_loop_inv (ext : ext_propagate) (update : Bool) :
    ∀ (fuel : Nat) (s s' : solver), propagation_inv s →
      propagate_loop ext update fuel s = some (true, s') →
      propagation_inv s' ∧ s'.pending = [] := by
  intro fuel
  induction fuel with
  | zero =>
    intro s s' h he
    unfold propagate_loop at he
    split at he
    · cases he
    · rename_i hlt
      simp only [Option.some.injEq, Prod.mk.injEq, true_and] at he
      rw [← he]
      exact ⟨h, List.drop_eq_nil_of_le (by omega)⟩
  | succ n ih =>
    intro s s' h he
    unfold propagate_loop at he
    split at he
    · rename_i hlt
      simp only at he
      split at he
      · simp at he
      · rcases hstep : propagate_literal ext update s with ⟨b, s1⟩
        rw [hstep] at he
        cases b with
        | false => simp at he
        | true =>
          simp only at he
          exact ih s1 s' (propagate_literal_inv ext update s s1 h hlt hstep) he
    · rename_i hlt
      simp only [Option.some.injEq, Prod.mk.injEq, true_and] at he
      rw [← he]
      exact ⟨h, List.drop_eq_nil_of_le (by omega)⟩


theorem is_empty_spec (s : solver) (c : clause) (h : s.is_empty c = true) :
    ∀ x ∈ c.lits, s.value x = .l_false := by
  intro x hx
  unfold is_empty at h
  have := List.all_eq_true.1 h x hx
  simpa using this

/-- When the loop of `is_unit` returns true no literal is true and at most
one is unassigned. -/
theorem is_unit_loop_spec (s : solver) :
    ∀ (ls : List literal) (fu : Bool), is_unit_loop s ls fu = true →
      (∀ x ∈ ls, s.value x ≠ .l_true) ∧
      (∀ i j, i < j → j < ls.length → s.value (ls.getD i null_literal) = lbool.l_undef →
        s.value (ls.getD j null_literal) = lbool.l_undef → False) ∧
      (fu = true → ∀ x ∈ ls, s.value x ≠ lbool.l_undef) := by
  intro ls
  induction ls with
  | nil =>
    intro fu _
    refine ⟨fun x hx => (by cases hx), fun i j _ hj => (by simp at hj), fun _ x hx => (by cases hx)⟩
  | cons l ls ih =>
    intro fu h
    unfold is_unit_loop at h
    cases hv : s.value l
    · -- false
      rw [hv] at h
      simp only at h
      obtain ⟨a1, a2, a3⟩ := ih fu h
      refine ⟨?_, ?_, ?_⟩
      · intro x hx
        rcases List.mem_cons.1 hx with e | e
        · rw [e, hv]; decide
        · exact a1 x e
      · intro i j hij hj hi1 hj1
        cases i with
        | zero => rw [List.getD_cons_zero, hv] at hi1; cases hi1
        | succ i =>
          cases j with
          | zero => omega
          | succ j =>
            rw [List.getD_cons_succ] at hi1 hj1
            exact a2 i j (by omega) (by simpa using hj) hi1 hj1
      · intro hfu x hx
        rcases List.mem_cons.1 hx with e | e
        · rw [e, hv]; decide
        · exact a3 hfu x e
    · -- unassigned
      rw [hv] at h
      simp only at h
      cases fu with
      | true => simp at h
      | false =>
        simp only [Bool.false_eq_true, ↓reduceIte] at h
        obtain ⟨a1, a2, a3⟩ := ih true h
        refine ⟨?_, ?_, fun hfu => by cases hfu⟩
        · intro x hx
          rcases List.mem_cons.1 hx with e | e
          · rw [e, hv]; decide
          · exact a1 x e
        · intro i j hij hj hi1 hj1
          cases j with
          | zero => omega
          | succ j =>
            rw [List.getD_cons_succ] at hj1
            have hj2 : j < ls.length := by simpa using hj
            exact a3 rfl _ (getD_mem ls j null_literal hj2) hj1
    · -- true
      rw [hv] at h
      simp at h

/-- With an empty queue a false watched literal of a clause with generic
watches comes with a true literal. -/
theorem nary_inv_fixpoint (V : pview) (off : clause_offset) (c : clause)
    (hp : V.pend = []) (hr : V.rest = []) (hi : V.nary_inv off c) (i : Nat) (hi2 : i < 2)
    (hf : V.val (c.get i) = .l_false) : V.true_exists c := by
  rcases (hi.2.2.2 i hi2).2 hf with e | e | ⟨_, e⟩
  · exact e
  · rw [hp] at e; cases e
  · rw [hr] at e
    obtain ⟨_, _, hm⟩ := e
    cases hm

/-- With an empty queue a false literal of a clause with ternary watches
comes with a true literal or with two unassigned ones. -/
theorem tern_inv_fixpoint (V : pview) (c : clause)
    (hp : V.pend = []) (hr : V.rest = []) (hi : V.tern_inv c) (i : Nat) (hi3 : i < 3)
    (hf : V.val (c.get i) = .l_false) :
    V.true_exists c ∨ ∀ j, j < 3 → j ≠ i → V.val (c.get j) = lbool.l_undef := by
  have hnil : ∀ j, ¬ tern_good c j V.rest := by
    intro j hg
    rw [hr] at hg
    obtain ⟨_, _, _, _, _, _, _, hm⟩ := hg
    cases hm
  rcases (hi.2 i hi3).2 hf with e | e | ⟨_, e⟩ | e
  · exact Or.inl e
  · rw [hp] at e; cases e
  · exact absurd e (hnil i)
  · right
    intro j hj hji
    rcases e j hj hji with e1 | e1 | ⟨_, e1⟩
    · exact e1
    · rw [hp] at e1; cases e1
    · exact absurd e1 (hnil j)

/-- With an empty queue a clause that satisfies its watch invariant is
neither empty nor unit. -/
theorem clause_inv_fixpoint (s : solver) (V : pview) (off : clause_offset)
    (hval : V.val = s.value) (hp : V.pend = []) (hr : V.rest = [])
    (hi : clause_inv s V off) :
    s.is_empty (s.get_clause off) = false ∧ s.is_unit (s.get_clause off) = false := by
  obtain ⟨_, _, h3⟩ := hi
  generalize s.get_clause off = c at *
  have hsz : 2 ≤ c.size := by
    rcases h3 with h3 | h3
    · have := h3.1; omega
    · exact h3.2.1
  have hm0 := get_mem_lits c 0 (by omega)
  have hm1 := get_mem_lits c 1 (by omega)
  constructor
  · cases he : s.is_empty c
    · rfl
    · exfalso
      have hall := is_empty_spec s c he
      have hf0 : V.val (c.get 0) = .l_false := by rw [hval]; exact hall _ hm0
      rcases h3 with h3 | h3
      · rcases tern_inv_fixpoint V c hp hr h3 0 (by omega) hf0 with ⟨x, hx, hv⟩ | e
        · rw [hval, hall x hx] at hv; cases hv
        · have := e 1 (by omega) (by omega)
          rw [hval, hall _ hm1] at this; cases this
      · obtain ⟨x, hx, hv⟩ := nary_inv_fixpoint V off c hp hr h3 0 (by omega) hf0
        rw [hval, hall x hx] at hv; cases hv
  · cases hu : s.is_unit c
    · rfl
    · exfalso
      obtain ⟨a1, a2, _⟩ := is_unit_loop_spec s c.lits false hu
      have hnt : ¬ V.true_exists c := by
        intro ⟨x, hx, hv⟩
        rw [hval] at hv
        exact a1 x hx hv
      have hfalse : ∃ i, i < 2 ∧ V.val (c.get i) = .l_false := by
        by_cases h0 : s.value (c.get 0) = .l_false
        · exact ⟨0, by omega, by rw [hval]; exact h0⟩
        · have hu0 := value_cases_undef s _ (a1 _ hm0) h0
          refine ⟨1, by omega, ?_⟩
          rw [hval]
          by_contra h1
          have hu1 := value_cases_undef s _ (a1 _ hm1) h1
          exact a2 0 1 (by omega) hsz hu0 hu1
      obtain ⟨i, hi2, hf⟩ := hfalse
      rcases h3 with h3 | h3
      · have hlen : c.lits.length = 3 := h3.1
        rcases tern_inv_fixpoint V c hp hr h3 i (by omega) hf with e | e
        · exact hnt e
        · rw [hval] at e
          have hi01 : i = 0 ∨ i = 1 := by omega
          rcases hi01 with e1 | e1
          · exact a2 1 2 (by omega) (by omega) (e 1 (by omega) (by omega))
              (e 2 (by omega) (by omega))
          · exact a2 0 2 (by omega) (by omega) (e 0 (by omega) (by omega))
              (e 2 (by omega) (by omega))
      · exact hnt (nary_inv_fixpoint V off c hp hr h3 i hi2 hf)

/-- With the invariant of propagation and an empty queue, no clause of the
clause and learned vectors that is not frozen is empty or unit, and every
binary watch in the list of a true literal has a true literal. -/
theorem no_missed_of_inv (s : solver) (h : propagation_inv s) (hp : s.pending = []) :
    (∀ off ∈ s.m_clauses ++ s.m_learned, (s.get_clause off).m_frozen = false →
      s.is_empty (s.get_clause off) = false ∧ s.is_unit (s.get_clause off) = false) ∧
    (∀ x b lrn, watched.binary b lrn ∈ s.get_wlist x.index → s.value x = .l_true →
      s.value b = .l_true) := by
  obtain ⟨_, h2, h3⟩ := h
  constructor
  · intro off hoff hfr
    exact clause_inv_fixpoint s _ off rfl hp rfl (h2 off hoff hfr)
  · intro x b lrn hm hv
    have hm1 : watched.binary b lrn
        ∈ (view s null_literal (s.get_wlist null_literal.index) []).wl x.index := by
      show watched.binary b lrn ∈ vlist s null_literal _ [] x.index
      rw [vlist_nil_right]
      exact hm
    rcases h3 x b lrn hm1 hv with e | e | ⟨_, e⟩
    · exact e
    · have e1 : x ∈ s.pending := e
      rw [hp] at e1; cases e1
    · cases e

theorem check_missed_propagation_of (s : solver)
    (h : ∀ off ∈ s.m_clauses ++ s.m_learned, (s.get_clause off).m_frozen = false →
      s.is_empty (s.get_clause off) = false ∧ s.is_unit (s.get_clause off) = false) :
    s.check_missed_propagation = true := by
  have hv : ∀ cs, (∀ off ∈ cs, off ∈ s.m_clauses ++ s.m_learned) →
      s.check_missed_propagation_vector cs = true := by
    intro cs hcs
    unfold check_missed_propagation_vector
    rw [List.all_eq_true]
    intro off hoff
    cases hfr : (s.get_clause off).m_frozen
    · obtain ⟨e1, e2⟩ := h off (hcs off hoff) hfr
      rw [e1, e2]; rfl
    · rfl
  unfold check_missed_propagation
  split
  · rfl
  · rw [hv _ (fun off ho => List.mem_append_left _ ho),
      hv _ (fun off ho => List.mem_append_right _ ho)]
    rfl


/-- The loop of `update_chb_activity` writes the activity array only. -/
theorem update_chb_activity_frame (is_sat : Bool) :
    ∀ (ls : List literal) (s : solver),
      (ls.foldl (update_chb_activity_step is_sat) s).m_watches = s.m_watches ∧
      (ls.foldl (update_chb_activity_step is_sat) s).m_cls_allocator = s.m_cls_allocator ∧
      (ls.foldl (update_chb_activity_step is_sat) s).m_assignment = s.m_assignment ∧
      (ls.foldl (update_chb_activity_step is_sat) s).m_trail = s.m_trail ∧
      (ls.foldl (update_chb_activity_step is_sat) s).m_qhead = s.m_qhead ∧
      (ls.foldl (update_chb_activity_step is_sat) s).m_clauses = s.m_clauses ∧
      (ls.foldl (update_chb_activity_step is_sat) s).m_learned = s.m_learned ∧
      (ls.foldl (update_chb_activity_step is_sat) s).m_inconsistent = s.m_inconsistent := by
  intro ls
  induction ls with
  | nil => intro s; exact ⟨rfl, rfl, rfl, rfl, rfl, rfl, rfl, rfl⟩
  | cons l ls ih => intro s; exact ih (update_chb_activity_step is_sat s l)

/-- When `propagate` returns true the invariant of propagation holds, the
queue is empty and the solver is not inconsistent. -/
theorem propagate_inv {ext : ext_propagate} (hext : ext_ok ext) (update : Bool) (fuel : Nat)
    (s s' : solver) (h : propagation_inv s)
    (he : propagate ext update fuel s = some (true, s')) :
    propagation_inv s' ∧ s'.pending = [] ∧ s'.m_inconsistent = false := by
  unfold propagate at he
  cases hcore : propagate_core ext update fuel s with
  | none => rw [hcore] at he; cases he
  | some r =>
    rw [hcore] at he
    obtain ⟨b, s1⟩ := r
    have hb : b = true := by
      simp only at he
      split at he
      · simp only [Option.some.injEq, Prod.mk.injEq] at he; exact he.1
      · simp only [Option.some.injEq, Prod.mk.injEq] at he; exact he.1
    subst hb
    have hq := h.1.2.2.2.1
    have h1 : propagation_inv s1 ∧ s1.pending = [] ∧ s1.m_inconsistent = false := by
      unfold propagate_core at hcore
      split at hcore
      · simp at hcore
      · rename_i hinc
        obtain ⟨a1, a2⟩ := propagate_loop_inv ext update fuel s s1 h hcore
        exact ⟨a1, a2, (propagate_loop_frame hext update fuel s true s1 hq
          (by simpa using hinc) hcore).2 rfl |>.1⟩
    simp only at he
    split at he
    · simp only [Option.some.injEq, Prod.mk.injEq, true_and] at he
      obtain ⟨f1, f2, f3, f4, f5, f6, f7, f8⟩ :=
        update_chb_activity_frame true (s1.m_trail.drop s.m_qhead) s1
      rw [← he]
      refine ⟨propagation_inv_congr s1 _ h1.1 f1 f2 f3 f4 f5 f6 f7, ?_, ?_⟩
      · have : (s1.update_chb_activity true s.m_qhead).pending = s1.pending := by
          simp only [pending, update_chb_activity, f4, f5]
        rw [this]; exact h1.2.1
      · exact f8.trans h1.2.2
    · simp only [Option.some.injEq, Prod.mk.injEq, true_and] at he
      rw [← he]
      exact h1

/-- On a well-formed state `propagate` returns within
`undef_count + |trail| - qhead` iterations of the loop of `propagate_core`. -/
theorem propagate_terminates {ext : ext_propagate} (hext : ext_ok ext) (update : Bool)
    (s : solver) (hwf : propagate_wf s) (hq : s.m_qhead ≤ s.m_trail.length) :
    ∃ r s', propagate ext update (s.undef_count + s.m_trail.length - s.m_qhead) s
      = some (r, s') := by
  have hcore : ∃ r s', propagate_core ext update
      (s.undef_count + s.m_trail.length - s.m_qhead) s = some (r, s') := by
    unfold propagate_core
    split
    · exact ⟨_, _, rfl⟩
    · exact propagate_loop_terminates hext update _ s hwf hq (Nat.le_refl _)
  obtain ⟨r, s1, e⟩ := hcore
  unfold propagate
  rw [e]
  simp only
  split
  · exact ⟨_, _, rfl⟩
  · exact ⟨_, _, rfl⟩


/-- The state `example_unit` satisfies the invariant of propagation: its
clause is watched on `x0` and `x1`, and the entry `¬x1` that falsified the
watched literal `x1` is still in the queue. -/
theorem example_unit_propagation_inv : propagation_inv example_unit := by
  have hall : ∀ ws ∈ example_unit.m_watches, ∀ w ∈ ws, w = watched.clause ⟨4⟩ 0 := by decide
  have hwl : ∀ x, ∀ w ∈ example_unit.get_wlist x, w = watched.clause ⟨4⟩ 0 := by
    intro x w hw
    rcases get_wlist_mem_or_nil example_unit x with e | e
    · exact hall _ e w hw
    · rw [e] at hw; cases hw
  refine ⟨⟨by decide, by decide, by unfold assignment_consistent; decide, by decide,
    by decide, ?_⟩, ?_, ?_⟩
  · intro ws hws w hw b off e
    rw [hall ws hws w hw] at e
    cases e
    decide
  · intro off hoff _
    have e : off = 0 := by simpa [example_unit, example_state] using hoff
    subst e
    refine ⟨by decide, by decide, Or.inr ⟨by decide, by decide, by decide, ?_⟩⟩
    intro i hi
    have hi01 : i = 0 ∨ i = 1 := by omega
    rcases hi01 with e | e
    · subst e
      exact ⟨⟨⟨4⟩, by decide, by decide⟩, fun hf => absurd hf (by decide)⟩
    · subst e
      exact ⟨⟨⟨4⟩, by decide, by decide⟩, fun _ => Or.inr (Or.inl (by decide))⟩
  · intro x b lrn hm
    have hm1 : watched.binary b lrn ∈ example_unit.get_wlist x.index := by
      have : watched.binary b lrn
          ∈ vlist example_unit null_literal (example_unit.get_wlist null_literal.index) []
            x.index := hm
      rw [vlist_nil_right] at this
      exact this
    have := hwl _ _ hm1
    cases this

/-- C7: no missed propagation.  The solver starts in a state that satisfies
the invariant of propagation: its watch lists hold no extension constraint
and stay within the arrays, the assignment is consistent, every clause of the
clause and learned vectors that is not frozen is watched as its size requires
(ternary watches in the lists of the negations of its three literals, generic
watches in the lists of the negations of `c[0]` and `c[1]`), and every trail
entry before `qhead` has been propagated (a false watched literal comes with
a true literal of the clause unless the entry that falsified it is still in
the queue; a binary watch in the list of a true literal has a true literal
unless that literal is still in the queue).  If `propagate` returns true,
the solver is not inconsistent, `check_missed_propagation` holds, no clause
of the clause and learned vectors that is not frozen has all its literals
false or is unit (one unassigned literal and no true one), and no binary
clause is left with its watched literal true and its other literal not true.
On such a state `propagate` does return. -/
theorem C7_no_missed_propagation {ext : ext_propagate} (hext : ext_ok ext) (update : Bool)
    (s : solver) (h : propagation_inv s) :
    (∀ fuel s', propagate ext update fuel s = some (true, s') →
      s'.m_inconsistent = false ∧
      s'.check_missed_propagation = true ∧
      (∀ off ∈ s'.m_clauses ++ s'.m_learned, (s'.get_clause off).m_frozen = false →
        s'.is_empty (s'.get_clause off) = false ∧ s'.is_unit (s'.get_clause off) = false) ∧
      (∀ x b lrn, watched.binary b lrn ∈ s'.get_wlist x.index → s'.value x = .l_true →
        s'.value b = .l_true)) ∧
    ∃ r s', propagate ext update (s.undef_count + s.m_trail.length - s.m_qhead) s
      = some (r, s') := by
  constructor
  · intro fuel s' he
    obtain ⟨a1, a2, a3⟩ := propagate_inv hext update fuel s s' h he
    obtain ⟨b1, b2⟩ := no_missed_of_inv s' a1 a2
    exact ⟨a3, check_missed_propagation_of s' b1, b1, b2⟩
  · exact propagate_terminates hext update s h.1.1 h.1.2.2.2.1

/-- C7 at a concrete state: the clause `x0 ∨ x1 ∨ x2 ∨ x3` with `x1`, `x2`,
`x3` false, their trail entries still in the queue and `x0` unassigned.
`propagate` returns true after assigning `x0`, and the clause is neither
empty nor unit afterwards. -/
theorem C7_no_missed_propagation_witness :
    propagation_inv example_unit ∧
    ((propagate no_ext true 4 example_unit).map
      fun r => (r.1, r.2.m_trail, r.2.value ⟨0⟩, r.2.is_unit (r.2.get_clause 0)))
      = some (true, [⟨5⟩, ⟨7⟩, ⟨3⟩, ⟨0⟩], .l_true, false) ∧
    example_unit.is_unit (example_unit.get_clause 0) = true ∧
    ((∀ fuel s', propagate no_ext true fuel example_unit = some (true, s') →
      s'.m_inconsistent = false ∧
      s'.check_missed_propagation = true ∧
      (∀ off ∈ s'.m_clauses ++ s'.m_learned, (s'.get_clause off).m_frozen = false →
        s'.is_empty (s'.get_clause off) = false ∧ s'.is_unit (s'.get_clause off) = false) ∧
      (∀ x b lrn, watched.binary b lrn ∈ s'.get_wlist x.index → s'.value x = .l_true →
        s'.value b = .l_true)) ∧
    ∃ r s', propagate no_ext true
      (example_unit.undef_count + example_unit.m_trail.length - example_unit.m_qhead)
        example_unit = some (r, s')) :=
  ⟨example_unit_propagation_inv, by decide, by decide,
    C7_no_missed_propagation ext_ok_no_ext true example_unit example_unit_propagation_inv⟩


/-! ## C11: the assignment and the trail -/

theorem index_lt_of_var_lt (l : literal) (n : Nat) (h : l.var < n) : l.index < 2 * n := by
  have : l.m_val / 2 < n := h
  show l.m_val < 2 * n
  omega

theorem var_neg (l : literal) : l.neg.var = l.var := literal_neg_var l

theorem value_mk_var (s : solver) (ext dvar : Bool) (x : literal) :
    (s.mk_var ext dvar).2.value x = s.value x := by
  show (s.m_assignment ++ [lbool.l_undef, lbool.l_undef]).getD x.index lbool.l_undef
    = s.m_assignment.getD x.index lbool.l_undef
  by_cases h : x.index < s.m_assignment.length
  · rw [List.getD_append _ _ _ _ h]
  · rw [List.getD_eq_default s.m_assignment _ (by omega)]
    rw [List.getD_append_right _ _ _ _ (by omega)]
    rcases hk : x.index - s.m_assignment.length with _ | _ | k
    · rfl
    · rfl
    · rfl

theorem assignment_inv_init (s : solver) (h1 : s.m_assignment = []) (h2 : s.m_level = [])
    (h3 : s.m_trail = []) : assignment_inv s := by
  refine ⟨⟨by rw [h1]; rfl, fun i hi => by rw [h1] at hi; simp at hi⟩,
    by simp [h1, num_vars, h2], ?_, by rw [h3]; exact List.nodup_nil⟩
  intro l
  rw [h3]
  simp [value, h1]

theorem assignment_inv_mk_var (s : solver) (ext dvar : Bool) (h : assignment_inv s) :
    assignment_inv (s.mk_var ext dvar).2 := by
  obtain ⟨h1, h2, h3, h4⟩ := h
  have hlen : (s.mk_var ext dvar).2.m_assignment.length = s.m_assignment.length + 2 := by
    show (s.m_assignment ++ [lbool.l_undef, lbool.l_undef]).length = _
    simp
  refine ⟨?_, ?_, ?_, h4⟩
  · apply assignment_consistent_of_value
    · rw [hlen]; have := h1.1; omega
    · intro x
      rw [value_mk_var, value_mk_var]
      exact value_neg s h1 x
  · rw [hlen, h2]
    show 2 * s.m_level.length + 2 = 2 * (s.m_level ++ [UINT_MAX]).length
    simp; omega
  · intro l
    rw [value_mk_var]
    exact h3 l

theorem assign_core_value_eq (s : solver) (u : literal) (j : justification)
    (h3 : assignment_consistent s) (hu : u.index < s.m_assignment.length) (x : literal) :
    (s.assign_core u j).value x
      = if x = u then .l_true else if x = u.neg then .l_false else s.value x := by
  have hun : u.neg.index < s.m_assignment.length := (lt_iff_neg_lt u _ h3.1).1 hu
  by_cases e1 : x = u
  · simp only [e1, ↓reduceIte]; exact assign_core_value_self _ _ _ hu
  · by_cases e2 : x = u.neg
    · simp only [e2, literal_neg_ne, ↓reduceIte]; exact assign_core_value_neg _ _ _ hun
    · simp only [e1, e2, ↓reduceIte]; exact assign_core_value_other _ _ _ _ e1 e2

theorem assignment_inv_assign_core (s : solver) (l : literal) (j : justification)
    (h : assignment_inv s) (hv : s.value l = lbool.l_undef) (hl : l.var < s.num_vars) :
    assignment_inv (s.assign_core l j) := by
  obtain ⟨h1, h2, h3, h4⟩ := h
  have hidx : l.index < s.m_assignment.length := by
    rw [h2]; exact index_lt_of_var_lt l _ hl
  have hval := assign_core_value_eq s l j h1 hidx
  have hnt : l ∉ s.m_trail := fun e => by
    have := (h3 l).1 e
    rw [hv] at this; cases this
  refine ⟨assignment_consistent_assign_core s l j h1 hidx, ?_, ?_, ?_⟩
  · simp only [assign_core_m_assignment, List.length_set, num_vars, assign_core_m_level]
    exact h2
  · intro x
    rw [assign_core_m_trail, hval, List.mem_append, List.mem_singleton]
    by_cases e1 : x = l
    · simp [e1]
    · by_cases e2 : x = l.neg
      · subst e2
        have hne := literal_neg_ne l
        simp only [hne, ↓reduceIte, or_false]
        constructor
        · intro hm
          have := (h3 _).1 hm
          rw [value_neg s h1, hv] at this; cases this
        · intro hc; cases hc
      · simp only [e1, e2, ↓reduceIte, or_false]
        exact h3 x
  · rw [assign_core_m_trail]
    exact List.nodup_append.2 ⟨h4, List.nodup_singleton l, by
      intro a ha hb
      rw [List.mem_singleton] at hb
      exact hnt (hb ▸ ha)⟩

theorem unassign_var_m_assignment (s : solver) (l : literal) :
    (s.unassign_var l).m_assignment
      = (s.m_assignment.set l.index lbool.l_undef).set l.neg.index lbool.l_undef := by
  simp [unassign_var, unassign_var_record]

theorem value_set_undef (asg : List lbool) (l x : literal) :
    ((asg.set l.index lbool.l_undef).set l.neg.index lbool.l_undef).getD x.index lbool.l_undef
      = if x = l ∨ x = l.neg then lbool.l_undef else asg.getD x.index lbool.l_undef := by
  rw [getD_set, getD_set]
  by_cases e2 : x = l.neg
  · subst e2
    simp only [true_and, or_true, ↓reduceIte]
    split
    · rfl
    · rename_i hlt
      simp only [List.length_set] at hlt
      split
      · rfl
      · exact List.getD_eq_default _ _ (by omega)
  · have n2 : l.neg.index ≠ x.index := fun e => e2 (literal_ext_index e.symm)
    simp only [n2, false_and, ↓reduceIte, e2, or_false]
    by_cases e1 : x = l
    · subst e1
      simp only [true_and, ↓reduceIte]
      split
      · rfl
      · exact List.getD_eq_default _ _ (by omega)
    · have n1 : l.index ≠ x.index := fun e => e1 (literal_ext_index e.symm)
      simp only [n1, false_and, ↓reduceIte, e1]

/-- The value of a literal after the loop of `unassign_vars` over `ls`:
unassigned when it or its negation is among `ls`, otherwise as before. -/
theorem value_foldl_unassign_var (ls : List literal) :
    ∀ (s : solver) (x : literal),
      (ls.foldl unassign_var s).value x
        = if ∃ l ∈ ls, x = l ∨ x = l.neg then lbool.l_undef else s.value x := by
  induction ls with
  | nil => intro s x; simp
  | cons l ls ih =>
    intro s x
    rw [List.foldl_cons, ih]
    have hv : (s.unassign_var l).value x
        = if x = l ∨ x = l.neg then lbool.l_undef else s.value x := by
      unfold value
      rw [unassign_var_m_assignment]
      exact value_set_undef _ _ _
    rw [hv]
    by_cases e : ∃ l1 ∈ ls, x = l1 ∨ x = l1.neg
    · have e2 : ∃ l1 ∈ l :: ls, x = l1 ∨ x = l1.neg := by
        obtain ⟨l1, hl1, h⟩ := e
        exact ⟨l1, List.mem_cons_of_mem _ hl1, h⟩
      simp only [e, e2, ↓reduceIte]
    · simp only [e, ↓reduceIte]
      by_cases e1 : x = l ∨ x = l.neg
      · have e2 : ∃ l1 ∈ l :: ls, x = l1 ∨ x = l1.neg := ⟨l, List.mem_cons_self _ _, e1⟩
        simp only [e1, e2, ↓reduceIte]
      · have e2 : ¬ ∃ l1 ∈ l :: ls, x = l1 ∨ x = l1.neg := by
          intro ⟨l1, hl1, h⟩
          rcases List.mem_cons.1 hl1 with e3 | e3
          · exact e1 (e3 ▸ h)
          · exact e ⟨l1, e3, h⟩
        simp only [e1, e2, ↓reduceIte]

theorem foldl_unassign_var_frame (ls : List literal) :
    ∀ (s : solver),
      (ls.foldl unassign_var s).m_trail = s.m_trail ∧
      (ls.foldl unassign_var s).m_level = s.m_level ∧
      (ls.foldl unassign_var s).m_justification = s.m_justification ∧
      (ls.foldl unassign_var s).m_assignment.length = s.m_assignment.length ∧
      (ls.foldl unassign_var s).m_scope_lvl = s.m_scope_lvl ∧
      (ls.foldl unassign_var s).m_scopes = s.m_scopes ∧
      (ls.foldl unassign_var s).m_clauses_to_reinit = s.m_clauses_to_reinit ∧
      (ls.foldl unassign_var s).m_watches = s.m_watches ∧
      (ls.foldl unassign_var s).m_cls_allocator = s.m_cls_allocator ∧
      (ls.foldl unassign_var s).m_inconsistent = s.m_inconsistent := by
  induction ls with
  | nil => intro s; simp
  | cons l ls ih =>
    intro s
    rw [List.foldl_cons]
    obtain ⟨a1, a2, a3, a4, a5, a6, a7, a8, a9, a10⟩ := ih (s.unassign_var l)
    refine ⟨by rw [a1]; simp, by rw [a2]; simp, by rw [a3]; simp, ?_, by rw [a5]; simp,
      by rw [a6]; simp, by rw [a7]; simp, by rw [a8]; simp, by rw [a9]; simp, by rw [a10]; simp⟩
    rw [a4, unassign_var_m_assignment]
    simp

/-- The value of a literal after `unassign_vars`. -/
theorem value_unassign_vars (s : solver) (old_sz : Nat) (x : literal) :
    (s.unassign_vars old_sz).value x
      = if ∃ l ∈ s.m_trail.drop old_sz, x = l ∨ x = l.neg then lbool.l_undef
        else s.value x := by
  have := value_foldl_unassign_var (s.m_trail.drop old_sz).reverse s x
  simp only [List.mem_reverse] at this
  exact this

theorem unassign_vars_m_trail (s : solver) (old_sz : Nat) :
    (s.unassign_vars old_sz).m_trail = s.m_trail.take old_sz := by
  show ((List.foldl unassign_var s _).m_trail).take old_sz = _
  rw [(foldl_unassign_var_frame _ s).1]

theorem unassign_vars_m_qhead (s : solver) (old_sz : Nat) :
    (s.unassign_vars old_sz).m_qhead = old_sz := rfl

theorem unassign_vars_m_level (s : solver) (old_sz : Nat) :
    (s.unassign_vars old_sz).m_level = s.m_level :=
  (foldl_unassign_var_frame _ s).2.1

theorem unassign_vars_m_justification (s : solver) (old_sz : Nat) :
    (s.unassign_vars old_sz).m_justification = s.m_justification :=
  (foldl_unassign_var_frame _ s).2.2.1

theorem unassign_vars_m_assignment_length (s : solver) (old_sz : Nat) :
    (s.unassign_vars old_sz).m_assignment.length = s.m_assignment.length :=
  (foldl_unassign_var_frame _ s).2.2.2.1

theorem neg_eq_iff (a b : literal) : a.neg = b ↔ a = b.neg := by
  constructor
  · intro h; rw [← h, literal_neg_neg]
  · intro h; rw [h, literal_neg_neg]

theorem assignment_inv_unassign_vars (s : solver) (old_sz : Nat) (h : assignment_inv s) :
    assignment_inv (s.unassign_vars old_sz) := by
  obtain ⟨h1, h2, h3, h4⟩ := h
  have hval := value_unassign_vars s old_sz
  have hsplit : s.m_trail = s.m_trail.take old_sz ++ s.m_trail.drop old_sz :=
    (List.take_append_drop _ _).symm
  have hnd : (s.m_trail.take old_sz ++ s.m_trail.drop old_sz).Nodup := by rw [← hsplit]; exact h4
  have hdisj := (List.nodup_append.1 hnd).2.2
  refine ⟨?_, ?_, ?_, ?_⟩
  · apply assignment_consistent_of_value
    · rw [unassign_vars_m_assignment_length]; exact h1.1
    · intro x
      rw [hval, hval]
      by_cases e : ∃ l ∈ s.m_trail.drop old_sz, x = l ∨ x = l.neg
      · have e2 : ∃ l ∈ s.m_trail.drop old_sz, x.neg = l ∨ x.neg = l.neg := by
          obtain ⟨l, hl, hx⟩ := e
          refine ⟨l, hl, ?_⟩
          rcases hx with hx | hx
          · right; rw [hx]
          · left; rw [hx, literal_neg_neg]
        simp only [e, e2, ↓reduceIte]; rfl
      · have e2 : ¬ ∃ l ∈ s.m_trail.drop old_sz, x.neg = l ∨ x.neg = l.neg := by
          intro ⟨l, hl, hx⟩
          apply e
          refine ⟨l, hl, ?_⟩
          rcases hx with hx | hx
          · right; exact (neg_eq_iff _ _).1 hx
          · left
            have := congrArg literal.neg hx
            rwa [literal_neg_neg, literal_neg_neg] at this
        simp only [e, e2, ↓reduceIte]
        exact value_neg s h1 x
  · rw [unassign_vars_m_assignment_length, h2]
    show 2 * s.m_level.length = 2 * (s.unassign_vars old_sz).m_level.length
    rw [unassign_vars_m_level]
  · intro x
    rw [unassign_vars_m_trail, hval]
    constructor
    · intro hm
      have hx : s.value x = .l_true := (h3 x).1 (List.mem_of_mem_take hm)
      have e : ¬ ∃ l ∈ s.m_trail.drop old_sz, x = l ∨ x = l.neg := by
        intro ⟨l, hl, hx2⟩
        rcases hx2 with hx2 | hx2
        · exact hdisj hm (hx2 ▸ hl)
        · have hlt : s.value l = .l_true := (h3 l).1 (List.mem_of_mem_drop hl)
          rw [hx2, value_neg s h1, hlt] at hx
          cases hx
      simp only [e, ↓reduceIte]
      exact hx
    · intro hv
      by_cases e : ∃ l ∈ s.m_trail.drop old_sz, x = l ∨ x = l.neg
      · simp only [e, ↓reduceIte] at hv; cases hv
      · simp only [e, ↓reduceIte] at hv
        have hm := (h3 x).2 hv
        rw [hsplit] at hm
        rcases List.mem_append.1 hm with e1 | e1
        · exact e1
        · exact absurd ⟨x, e1, Or.inl rfl⟩ e
  · rw [unassign_vars_m_trail]
    exact (List.nodup_append.1 hnd).1

theorem assignment_inv_frame (s s1 : solver) (h : assignment_inv s)
    (ha : s1.m_assignment = s.m_assignment) (hl : s1.m_level.length = s.m_level.length)
    (ht : s1.m_trail = s.m_trail) : assignment_inv s1 := by
  obtain ⟨h1, h2, h3, h4⟩ := h
  refine ⟨?_, by rw [ha, h2]; show _ = 2 * s1.m_level.length; rw [hl]; rfl, ?_, by rw [ht]; exact h4⟩
  · unfold assignment_consistent; rw [ha]; exact h1
  · intro l
    rw [ht, value_congr s s1 ha]
    exact h3 l

/-- Every reachable state satisfies the invariant of the assignment and the
trail. -/
theorem assignment_inv_of_reachable (s : solver) (h : assign_reachable s) :
    assignment_inv s := by
  induction h with
  | init s h1 h2 h3 => exact assignment_inv_init s h1 h2 h3
  | mk_var s ext dvar _ ih => exact assignment_inv_mk_var s ext dvar ih
  | assign_core s l j _ hv hl ih => exact assignment_inv_assign_core s l j ih hv hl
  | unassign_vars s old_sz _ _ ih => exact assignment_inv_unassign_vars s old_sz ih
  | frame s s1 _ ha hl ht ih => exact assignment_inv_frame s s1 ih ha hl ht


theorem mk_literal_neg (v : bool_var) : (mk_literal v false).neg = mk_literal v true := by
  apply literal_ext_index
  have h := literal_neg_index (mk_literal v false)
  have e1 : (mk_literal v false).index = 2 * v := by simp [mk_literal, literal.index]
  have e2 : (mk_literal v true).index = 2 * v + 1 := by simp [mk_literal, literal.index]
  rw [h, e1, e2]
  split <;> omega

/-- C11: the assignment consistency invariant.  In every state reached from
a solver without variables by `mk_var`, by `assign_core` on an unassigned
literal of an existing variable and by `unassign_vars` (and by steps that
touch neither the assignment nor the trail), both literals of a variable
are unassigned or exactly one of them is true and the other one false, and a
literal is on the trail if and only if its value is true. -/
theorem C11_assignment_consistency (s : solver) (h : assign_reachable s) :
    (∀ v : bool_var,
      (s.value (mk_literal v false) = lbool.l_undef ∧ s.value (mk_literal v true) = lbool.l_undef) ∨
      (s.value (mk_literal v false) = .l_true ∧ s.value (mk_literal v true) = .l_false) ∨
      (s.value (mk_literal v false) = .l_false ∧ s.value (mk_literal v true) = .l_true)) ∧
    (∀ l : literal, l ∈ s.m_trail ↔ s.value l = .l_true) := by
  obtain ⟨h1, _, h3, _⟩ := assignment_inv_of_reachable s h
  refine ⟨fun v => ?_, h3⟩
  have hn := value_neg s h1 (mk_literal v false)
  rw [mk_literal_neg] at hn
  rw [hn]
  cases s.value (mk_literal v false)
  · exact Or.inr (Or.inr ⟨rfl, rfl⟩)
  · exact Or.inl ⟨rfl, rfl⟩
  · exact Or.inr (Or.inl ⟨rfl, rfl⟩)

/-- C11 at a concrete state: two variables are created, `x0` and then `¬x1`
are assigned, and the second assignment is undone. -/
theorem C11_assignment_consistency_witness :
    assign_reachable example_undo ∧
    ((∀ v : bool_var,
      (example_undo.value (mk_literal v false) = lbool.l_undef ∧
        example_undo.value (mk_literal v true) = lbool.l_undef) ∨
      (example_undo.value (mk_literal v false) = .l_true ∧
        example_undo.value (mk_literal v true) = .l_false) ∨
      (example_undo.value (mk_literal v false) = .l_false ∧
        example_undo.value (mk_literal v true) = .l_true)) ∧
    (∀ l : literal, l ∈ example_undo.m_trail ↔ example_undo.value l = .l_true)) ∧
    example_undo.m_trail = [⟨0⟩] ∧ example_undo.value ⟨0⟩ = .l_true ∧
    example_undo.value ⟨3⟩ = lbool.l_undef :=
  have hr : assign_reachable example_undo :=
    .unassign_vars _ 1
      (.assign_core _ ⟨3⟩ .none
        (.assign_core _ ⟨0⟩ .none
          (.mk_var _ false true (.mk_var _ false true (.init _ rfl rfl rfl)))
          (by decide) (by decide))
        (by decide) (by decide))
      (by decide)
  ⟨hr, C11_assignment_consistency _ hr, by decide, by decide, by decide⟩


/-! ## Steps that only assign -/

theorem assign_ext_congr (s s1 : solver) (ht : s1.m_trail = s.m_trail)
    (hq : s1.m_qhead = s.m_qhead) (hl : s1.m_scope_lvl = s.m_scope_lvl)
    (hs : s1.m_scopes = s.m_scopes) (ha : s1.m_assignment = s.m_assignment)
    (hv : s1.m_level = s.m_level) : assign_ext s s1 :=
  { trail := ⟨[], by rw [ht]; simp⟩
    qhead := hq
    scope_lvl := hl
    scopes := hs
    asg_len := by rw [ha]
    level_len := by rw [hv]
    consistent := fun h => by unfold assignment_consistent; rw [ha]; exact h
    value := fun _ x _ => value_congr s s1 ha x
    level := fun _ x _ => by simp [lvl, lvl_var, hv] }

theorem assign_ext_refl (s : solver) : assign_ext s s :=
  assign_ext_congr s s rfl rfl rfl rfl rfl rfl

theorem assign_ext_trans (s s1 s2 : solver) (h1 : assign_ext s s1) (h2 : assign_ext s1 s2) :
    assign_ext s s2 :=
  { trail := by
      obtain ⟨e1, he1⟩ := h1.trail
      obtain ⟨e2, he2⟩ := h2.trail
      exact ⟨e1 ++ e2, by rw [he2, he1, List.append_assoc]⟩
    qhead := h2.qhead.trans h1.qhead
    scope_lvl := h2.scope_lvl.trans h1.scope_lvl
    scopes := h2.scopes.trans h1.scopes
    asg_len := h2.asg_len.trans h1.asg_len
    level_len := h2.level_len.trans h1.level_len
    consistent := fun h => h2.consistent (h1.consistent h)
    value := fun h x hx => by
      have e1 := h1.value h x hx
      rw [h2.value (h1.consistent h) x (by rw [e1]; exact hx), e1]
    level := fun h x hx => by
      have e1 := h1.value h x hx
      rw [h2.level (h1.consistent h) x (by rw [e1]; exact hx), h1.level h x hx] }

theorem eq_or_eq_neg_of_var_eq (x l : literal) (h : x.var = l.var) : x = l ∨ x = l.neg := by
  have h1 : x.m_val / 2 = l.m_val / 2 := h
  have h2 := literal_neg_index l
  simp only [literal.index] at h2
  by_cases e : x.m_val = l.m_val
  · left; exact literal_ext_index e
  · right
    apply literal_ext_index
    show x.m_val = l.neg.index
    rw [literal_neg_index]
    simp only [literal.index]
    split <;> omega

theorem assign_ext_assign_core (s : solver) (l : literal) (j : justification)
    (hv : s.value l = lbool.l_undef) : assign_ext s (s.assign_core l j) :=
  { trail := ⟨[l], by simp⟩
    qhead := by simp
    scope_lvl := by simp
    scopes := by simp
    asg_len := by simp
    level_len := by simp
    consistent := fun h => by
      by_cases hl : l.index < s.m_assignment.length
      · exact assignment_consistent_assign_core s l j h hl
      · have hl2 : ¬ l.neg.index < s.m_assignment.length :=
          fun e => hl ((lt_iff_neg_lt l _ h.1).2 e)
        unfold assignment_consistent
        have e1 : s.m_assignment.set l.index lbool.l_true = s.m_assignment :=
          List.set_eq_of_length_le (by omega)
        rw [assign_core_m_assignment, e1, List.set_eq_of_length_le (by omega)]
        exact h
    value := fun h x hx => by
      have hn := value_neg_of_undef s h l hv
      apply assign_core_value_other
      · intro e; rw [e] at hx; exact hx hv
      · intro e; rw [e] at hx; exact hx hn
    level := fun h x hx => by
      have hn := value_neg_of_undef s h l hv
      have hne : l.var ≠ x.var := by
        intro e
        rcases eq_or_eq_neg_of_var_eq x l e.symm with e1 | e1
        · rw [e1] at hx; exact hx hv
        · rw [e1] at hx; exact hx hn
      simp only [lvl, lvl_var, assign_core_m_level]
      exact getD_set_ne _ _ _ _ _ hne }

theorem assign_ext_set_conflict (s : solver) (j : justification) (l : literal) :
    assign_ext s (s.set_conflict j l) :=
  assign_ext_congr s _ (by simp) (by simp) (by simp) (by simp) (by simp) (by simp)

theorem assign_ext_assign (s : solver) (l : literal) (j : justification) :
    assign_ext s (s.assign l j) := by
  unfold assign
  cases hv : s.value l
  · exact assign_ext_set_conflict s j l.neg
  · exact assign_ext_assign_core s l j hv
  · exact assign_ext_refl s

theorem assign_ext_propagate_bin_clause (s : solver) (l1 l2 : literal) :
    assign_ext s (s.propagate_bin_clause l1 l2).2 := by
  have h0 : assign_ext s s.inc_bin_propagate :=
    assign_ext_congr s _ (by simp) (by simp) (by simp) (by simp) (by simp) (by simp)
  unfold propagate_bin_clause
  split
  · exact assign_ext_trans _ _ _ h0 (assign_ext_assign _ _ _)
  · split
    · exact assign_ext_trans _ _ _ h0 (assign_ext_assign _ _ _)
    · exact assign_ext_refl s

theorem assign_ext_attach_ter_clause (s : solver) (off : clause_offset) :
    assign_ext s (s.attach_ter_clause off).2 := by
  have h0 : assign_ext s (s.push_ter_watches (s.get_clause off)) :=
    assign_ext_congr s _ (by simp) (by simp) (by simp) (by simp) (by simp) (by simp)
  have h1 : ∀ t : solver, assign_ext t t.inc_ter_propagate := fun t =>
    assign_ext_congr t _ (by simp) (by simp) (by simp) (by simp) (by simp) (by simp)
  unfold attach_ter_clause
  simp only
  split
  · split
    · exact assign_ext_trans _ _ _ h0 (assign_ext_trans _ _ _ (h1 _) (assign_ext_assign _ _ _))
    · split
      · exact assign_ext_trans _ _ _ h0 (assign_ext_trans _ _ _ (h1 _) (assign_ext_assign _ _ _))
      · split
        · exact assign_ext_trans _ _ _ h0
            (assign_ext_trans _ _ _ (h1 _) (assign_ext_assign _ _ _))
        · exact h0
  · exact h0

theorem assign_ext_attach_nary_clause (s : solver) (off : clause_offset) :
    assign_ext s (s.attach_nary_clause off).2 := by
  have h1 : ∀ t : solver, assign_ext t t.inc_propagate := fun t =>
    assign_ext_congr t _ (by simp) (by simp) (by simp) (by simp) (by simp) (by simp)
  have h2 : ∀ t : solver, assign_ext t (t.push_nary_watches off) := fun t =>
    assign_ext_congr t _ (by simp) (by simp) (by simp) (by simp) (by simp) (by simp)
  have h3 : ∀ c, assign_ext s (s.set_clause off c) := fun c =>
    assign_ext_congr s _ (by simp) (by simp) (by simp) (by simp) (by simp) (by simp)
  unfold attach_nary_clause
  simp only
  apply assign_ext_trans _ _ _ _ (h2 _)
  split
  · split
    · exact assign_ext_trans _ _ _ (h3 _) (assign_ext_trans _ _ _ (h1 _) (assign_ext_assign _ _ _))
    · split
      · exact assign_ext_trans _ _ _ (h3 _)
          (assign_ext_trans _ _ _ (h1 _) (assign_ext_assign _ _ _))
      · exact h3 _
  · exact assign_ext_refl s

theorem assign_ext_set_wlist_at (s : solver) (idx : Nat) (ws : List watched) :
    assign_ext s (s.set_wlist_at idx ws) :=
  assign_ext_congr s _ (by simp) (by simp) (by simp) (by simp) (by simp) (by simp)

theorem assign_ext_detach_clause (s : solver) (off : clause_offset) :
    assign_ext s (s.detach_clause off) := by
  unfold detach_clause
  split
  · unfold detach_ter_clause
    simp only
    exact assign_ext_trans _ _ _ (assign_ext_trans _ _ _ (assign_ext_set_wlist_at _ _ _)
      (assign_ext_set_wlist_at _ _ _)) (assign_ext_set_wlist_at _ _ _)
  · unfold detach_nary_clause
    simp only
    exact assign_ext_trans _ _ _ (assign_ext_set_wlist_at _ _ _) (assign_ext_set_wlist_at _ _ _)

theorem assign_ext_attach_clause (s : solver) (off : clause_offset) :
    assign_ext s (s.attach_clause off).2 := by
  unfold attach_clause
  split
  · exact assign_ext_attach_ter_clause s off
  · exact assign_ext_attach_nary_clause s off

theorem assign_ext_reinit_clause (st : solver × List clause_wrapper) (cw : clause_wrapper) :
    assign_ext st.1 (reinit_clause st cw).1 := by
  unfold reinit_clause
  cases cw with
  | bin l1 l2 =>
    simp only
    split
    · exact assign_ext_propagate_bin_clause _ _ _
    · exact assign_ext_propagate_bin_clause _ _ _
  | cls off =>
    simp only
    have h := assign_ext_trans _ _ _ (assign_ext_detach_clause st.1 off)
      (assign_ext_attach_clause _ off)
    split
    · exact h
    · exact assign_ext_trans _ _ _ h
        (assign_ext_congr _ _ (by simp) (by simp) (by simp) (by simp) (by simp) (by simp))

theorem assign_ext_foldl_reinit_clause (cws : List clause_wrapper) :
    ∀ st : solver × List clause_wrapper, assign_ext st.1 (cws.foldl reinit_clause st).1 := by
  induction cws with
  | nil => intro st; exact assign_ext_refl _
  | cons cw cws ih =>
    intro st
    rw [List.foldl_cons]
    exact assign_ext_trans _ _ _ (assign_ext_reinit_clause st cw) (ih _)

theorem assign_ext_reinit_clauses (s : solver) (old_sz : Nat) :
    assign_ext s (s.reinit_clauses old_sz) := by
  unfold reinit_clauses
  simp only
  exact assign_ext_trans _ _ _
    (assign_ext_foldl_reinit_clause (s.m_clauses_to_reinit.drop old_sz) (s, []))
    (assign_ext_congr _ _ (by simp) (by simp) (by simp) (by simp) (by simp) (by simp))

/-- With nothing on the reinit stack above `old_sz`, `reinit_clauses` leaves
the solver as it is. -/
theorem reinit_clauses_of_le (s : solver) (old_sz : Nat)
    (h : s.m_clauses_to_reinit.length ≤ old_sz) : s.reinit_clauses old_sz = s := by
  unfold reinit_clauses
  rw [List.drop_eq_nil_of_le h, List.take_of_length_le h]
  simp [set_clauses_to_reinit]


/-! ## C12: levels of unassigned variables -/

theorem mk_literal_var (v : bool_var) (b : Bool) : (mk_literal v b).var = v := by
  have h0 : ∀ n : Nat, (2 * n + 0) / 2 = n := fun n => by omega
  have h1 : ∀ n : Nat, (2 * n + 1) / 2 = n := fun n => by omega
  cases b
  · exact h0 v
  · exact h1 v

theorem mk_literal_index (v : bool_var) (b : Bool) :
    (mk_literal v b).index = 2 * v + (if b then 1 else 0) := rfl

/-- The invariant behind C12: two assignment entries per variable, and a
variable whose recorded level is undefined is unassigned. -/
theorem level_inv_of_reachable (s : solver) (h : level_reachable s) :
    s.m_assignment.length = 2 * s.m_level.length ∧
    ∀ v b, s.lvl_var v = UINT_MAX → s.value (mk_literal v b) = lbool.l_undef := by
  induction h with
  | init s h1 h2 =>
    refine ⟨by rw [h1, h2]; rfl, fun v b _ => ?_⟩
    simp [value, h1]
  | mk_var s ext dvar _ ih =>
    obtain ⟨a1, a2⟩ := ih
    refine ⟨?_, fun v b hv => ?_⟩
    · show (s.m_assignment ++ [lbool.l_undef, lbool.l_undef]).length
        = 2 * (s.m_level ++ [UINT_MAX]).length
      simp; omega
    · rw [value_mk_var]
      by_cases hlt : v < s.m_level.length
      · apply a2
        have : (s.mk_var ext dvar).2.lvl_var v = s.lvl_var v := by
          show (s.m_level ++ [UINT_MAX]).getD v UINT_MAX = s.m_level.getD v UINT_MAX
          exact List.getD_append _ _ _ _ hlt
        rw [← this]; exact hv
      · unfold value
        apply List.getD_eq_default
        rw [a1, mk_literal_index]
        have : s.m_level.length ≤ v := Nat.le_of_not_lt hlt
        omega
  | assign_core s l j _ hv hl hs ih =>
    obtain ⟨a1, a2⟩ := ih
    refine ⟨by simpa using a1, fun v b hlv => ?_⟩
    have hlvl : (s.assign_core l j).lvl_var v
        = if l.var = v ∧ l.var < s.m_level.length then s.scope_lvl else s.lvl_var v := by
      simp only [lvl_var, assign_core_m_level]
      exact getD_set _ _ _ _ _
    rw [hlvl] at hlv
    by_cases e : l.var = v
    · have hl2 : l.var < s.m_level.length := hl
      simp only [e, true_and] at hlv
      rw [← e, if_pos hl2] at hlv
      omega
    · simp only [e, false_and, ↓reduceIte] at hlv
      rw [assign_core_value_other]
      · exact a2 v b hlv
      · intro e1; apply e; rw [← e1, mk_literal_var]
      · intro e1; apply e; rw [← var_neg l, ← e1, mk_literal_var]
  | unassign_vars s old_sz _ ih =>
    obtain ⟨a1, a2⟩ := ih
    refine ⟨by rw [unassign_vars_m_assignment_length, unassign_vars_m_level]; exact a1,
      fun v b hlv => ?_⟩
    rw [value_unassign_vars]
    split
    · rfl
    · apply a2
      have : (s.unassign_vars old_sz).lvl_var v = s.lvl_var v := by
        simp only [lvl_var, unassign_vars_m_level]
      rw [← this]; exact hlv
  | frame s s1 _ ha hl ih =>
    obtain ⟨a1, a2⟩ := ih
    refine ⟨by rw [ha, hl]; exact a1, fun v b hlv => ?_⟩
    rw [value_congr s s1 ha]
    apply a2
    simp only [lvl_var, hl] at hlv
    exact hlv

/-! ## `pop` -/

theorem pop_zero (s : solver) : s.pop 0 = s := by
  simp [pop]

theorem pop_eq (s : solver) (n : Nat) (hn : n ≠ 0) :
    s.pop n = ((s.reset_inconsistent.unassign_vars (s.pop_scope n).m_trail_lim).shrink_scopes n
        (s.scope_lvl - n)).reinit_clauses (s.pop_scope n).m_clauses_to_reinit_lim := by
  unfold pop
  rw [if_neg hn]

theorem foldl_unassign_var_reset (ls : List literal) (s : solver) :
    (ls.foldl unassign_var s.reset_inconsistent).m_trail = s.m_trail ∧
    (ls.foldl unassign_var s.reset_inconsistent).m_level = s.m_level ∧
    (ls.foldl unassign_var s.reset_inconsistent).m_justification = s.m_justification ∧
    (ls.foldl unassign_var s.reset_inconsistent).m_clauses_to_reinit = s.m_clauses_to_reinit ∧
    (ls.foldl unassign_var s.reset_inconsistent).m_scope_lvl = s.m_scope_lvl ∧
    (ls.foldl unassign_var s.reset_inconsistent).m_scopes = s.m_scopes := by
  obtain ⟨a1, a2, a3, _, a5, a6, a7, _⟩ := foldl_unassign_var_frame ls s.reset_inconsistent
  exact ⟨a1, a2, a3, a7, a5, a6⟩

/-- The state `pop` reaches before it replays the reinit stack: the trail is
cut at the snapshot, the queue head is at its end, the scope stack is
shortened, the removed trail literals are unassigned and nothing else is. -/
theorem pop_before_reinit (s : solver) (n lim k : Nat) :
    ((s.reset_inconsistent.unassign_vars lim).shrink_scopes n k).m_trail = s.m_trail.take lim ∧
    ((s.reset_inconsistent.unassign_vars lim).shrink_scopes n k).m_qhead = lim ∧
    ((s.reset_inconsistent.unassign_vars lim).shrink_scopes n k).m_scope_lvl
      = s.m_scope_lvl - n ∧
    ((s.reset_inconsistent.unassign_vars lim).shrink_scopes n k).m_scopes = s.m_scopes.take k ∧
    ((s.reset_inconsistent.unassign_vars lim).shrink_scopes n k).m_level = s.m_level ∧
    ((s.reset_inconsistent.unassign_vars lim).shrink_scopes n k).m_justification
      = s.m_justification ∧
    ((s.reset_inconsistent.unassign_vars lim).shrink_scopes n k).m_clauses_to_reinit
      = s.m_clauses_to_reinit ∧
    (∀ x, ((s.reset_inconsistent.unassign_vars lim).shrink_scopes n k).value x
      = if ∃ l ∈ s.m_trail.drop lim, x = l ∨ x = l.neg then lbool.l_undef else s.value x) := by
  obtain ⟨a1, a2, a3, a4, a5, a6⟩ :=
    foldl_unassign_var_reset (s.m_trail.drop lim).reverse s
  have e0 : s.reset_inconsistent.m_trail = s.m_trail := rfl
  refine ⟨?_, rfl, ?_, ?_, ?_, ?_, ?_, ?_⟩
  · show (s.reset_inconsistent.unassign_vars lim).m_trail = _
    rw [unassign_vars_m_trail]; rfl
  · show (s.reset_inconsistent.unassign_vars lim).m_scope_lvl - n = _
    show (List.foldl unassign_var s.reset_inconsistent _).m_scope_lvl - n = _
    rw [e0, a5]
  · show (List.take k (List.foldl unassign_var s.reset_inconsistent _).m_scopes) = _
    rw [e0, a6]
  · show (s.reset_inconsistent.unassign_vars lim).m_level = _
    rw [unassign_vars_m_level]; rfl
  · show (s.reset_inconsistent.unassign_vars lim).m_justification = _
    rw [unassign_vars_m_justification]; rfl
  · show (List.foldl unassign_var s.reset_inconsistent _).m_clauses_to_reinit = _
    rw [e0, a4]
  · intro x
    show (s.reset_inconsistent.unassign_vars lim).value x = _
    rw [value_unassign_vars]
    rfl

theorem assignment_inv_pop_before_reinit (s : solver) (n lim k : Nat) (h : assignment_inv s) :
    assignment_inv ((s.reset_inconsistent.unassign_vars lim).shrink_scopes n k) := by
  have h1 : assignment_inv s.reset_inconsistent := assignment_inv_frame s _ h rfl rfl rfl
  exact assignment_inv_frame _ _ (assignment_inv_unassign_vars _ lim h1) rfl rfl rfl


/-- C12 as stated fails: in `example_pop` the variable `x0` is assigned at
level 1 with the justification of a binary clause; `pop(1)` unassigns it and
leaves its recorded level 1 and its justification in place. -/
theorem C12_level_cleared_counterexample :
    example_pop.value ⟨0⟩ = .l_true ∧ example_pop.lvl_var 0 = 1 ∧
    (example_pop.pop 1).value ⟨0⟩ = lbool.l_undef ∧
    (example_pop.pop 1).value ⟨1⟩ = lbool.l_undef ∧
    (example_pop.pop 1).lvl_var 0 = 1 ∧ (example_pop.pop 1).lvl_var 0 ≠ UINT_MAX ∧
    (example_pop.pop 1).m_justification.getD 0 .none = .binary ⟨2⟩ := by
  decide

/-- C12 (amended): in every state reached from a solver without variables by
`mk_var`, by `assign_core` on an unassigned literal of an existing variable
(at a scope level below `UINT_MAX`) and by `unassign_vars`, a variable whose
recorded level is undefined is unassigned: `mk_var` records the undefined
level for the variable it creates and `assign_core` records the current
scope level.  The converse does not hold, because `unassign_vars` clears the
value only: it leaves every recorded level and justification as it is, and
so does `pop(n)` when no entry of the reinit stack is replayed. -/
theorem C12_level_of_unassigned (s : solver) (h : level_reachable s) :
    (∀ v : bool_var, s.lvl_var v = UINT_MAX →
      s.value (mk_literal v false) = lbool.l_undef ∧
      s.value (mk_literal v true) = lbool.l_undef) ∧
    (∀ ext dvar, (s.mk_var ext dvar).2.lvl_var (s.mk_var ext dvar).1 = UINT_MAX) ∧
    (∀ l j, l.var < s.num_vars → (s.assign_core l j).lvl l = s.scope_lvl) ∧
    (∀ old_sz, (s.unassign_vars old_sz).m_level = s.m_level ∧
      (s.unassign_vars old_sz).m_justification = s.m_justification) ∧
    (∀ n, s.m_clauses_to_reinit.length ≤ (s.pop_scope n).m_clauses_to_reinit_lim →
      (s.pop n).m_level = s.m_level ∧ (s.pop n).m_justification = s.m_justification) := by
  obtain ⟨_, a2⟩ := level_inv_of_reachable s h
  refine ⟨fun v hv => ⟨a2 v false hv, a2 v true hv⟩, ?_, ?_, ?_, ?_⟩
  · intro ext dvar
    show (s.m_level ++ [UINT_MAX]).getD s.m_level.length UINT_MAX = UINT_MAX
    rw [List.getD_append_right _ _ _ _ (Nat.le_refl _)]
    simp
  · intro l j hl
    simp only [lvl, lvl_var, assign_core_m_level]
    exact getD_set_self _ _ _ _ hl
  · intro old_sz
    exact ⟨unassign_vars_m_level s old_sz, unassign_vars_m_justification s old_sz⟩
  · intro n hre
    by_cases hn : n = 0
    · rw [hn, pop_zero]; exact ⟨rfl, rfl⟩
    · obtain ⟨_, _, _, _, b5, b6, b7, _⟩ := pop_before_reinit s n (s.pop_scope n).m_trail_lim
        (s.scope_lvl - n)
      rw [pop_eq s n hn, reinit_clauses_of_le _ _ (by rw [b7]; exact hre)]
      exact ⟨b5, b6⟩

/-- C12 (amended) at a concrete state: `example_pop` after `pop(1)`. -/
theorem C12_level_of_unassigned_witness :
    level_reachable example_pop ∧
    (∀ v : bool_var, example_pop.lvl_var v = UINT_MAX →
      example_pop.value (mk_literal v false) = lbool.l_undef ∧
      example_pop.value (mk_literal v true) = lbool.l_undef) ∧
    (example_pop.pop 1).m_level = example_pop.m_level ∧
    (example_pop.pop 1).m_justification = example_pop.m_justification :=
  have hr : level_reachable example_pop :=
    .assign_core _ ⟨0⟩ (.binary ⟨2⟩)
      (.assign_core _ ⟨3⟩ .none
        (.frame _ _ (.mk_var _ false true (.mk_var _ false true (.init _ rfl rfl))) rfl rfl)
        (by decide) (by decide) (by decide))
      (by decide) (by decide) (by decide)
  ⟨hr, (C12_level_of_unassigned example_pop hr).1,
    (C12_level_of_unassigned example_pop hr).2.2.2.2 1 (by decide)⟩

/-! ## C13: `pop` -/

/-- C13 as stated fails: in `example_reinit` the clause `x0 ∨ x1` was added
at level 2 and propagated `x0`.  `pop(1)` removes the trail entry `x0`, and
the replay of the reinit stack assigns `x0` again: the trail is longer than
the snapshot, the variable of the removed entry is assigned and the queue
head is not at the end of the trail. -/
theorem C13_pop_counterexample :
    example_reinit.scope_lvl = 2 ∧ example_reinit.m_trail = [⟨3⟩, ⟨0⟩] ∧
    (example_reinit.pop_scope 1).m_trail_lim = 1 ∧
    (example_reinit.pop 1).m_trail = [⟨3⟩, ⟨0⟩] ∧
    (example_reinit.pop 1).m_trail ≠ example_reinit.m_trail.take 1 ∧
    (example_reinit.pop 1).value ⟨0⟩ = .l_true ∧
    (example_reinit.pop 1).m_qhead = 1 ∧
    (example_reinit.pop 1).m_qhead ≠ (example_reinit.pop 1).m_trail.length := by
  decide

/-- C13 (amended): `pop(n)` for `1 <= n <= scope_lvl`, with `sc` the entry of
the scope stack at index `scope_lvl - n` (written by the `push` that opened
level `scope_lvl - n + 1`, which records the trail length at that moment).
The scope level decreases by exactly `n` and the scope stack is cut to it;
the queue head is `sc.m_trail_lim`; the trail starts with the prefix of the
old trail of that length (followed by what the replay of the reinit stack
assigns), and under the assignment invariant every literal of that prefix is
still true.  When no entry of the reinit stack lies above
`sc.m_clauses_to_reinit_lim`, the trail is exactly that prefix, the queue
head is at its end, both literals of every removed trail entry are
unassigned and every literal of another variable keeps its value.  `pop(0)`
changes nothing. -/
theorem C13_pop (s : solver) (n : Nat) (hn : 1 ≤ n) (hle : n ≤ s.scope_lvl) :
    (s.pop n).scope_lvl + n = s.scope_lvl ∧
    (s.pop n).m_scopes = s.m_scopes.take (s.scope_lvl - n) ∧
    (s.pop n).m_qhead = (s.pop_scope n).m_trail_lim ∧
    (∃ extra, (s.pop n).m_trail = s.m_trail.take (s.pop_scope n).m_trail_lim ++ extra) ∧
    (assignment_inv s →
      ∀ l ∈ s.m_trail.take (s.pop_scope n).m_trail_lim, (s.pop n).value l = .l_true) ∧
    (s.m_clauses_to_reinit.length ≤ (s.pop_scope n).m_clauses_to_reinit_lim →
      (s.pop n).m_trail = s.m_trail.take (s.pop_scope n).m_trail_lim ∧
      ((s.pop_scope n).m_trail_lim ≤ s.m_trail.length →
        (s.pop n).m_qhead = (s.pop n).m_trail.length) ∧
      (∀ l ∈ s.m_trail.drop (s.pop_scope n).m_trail_lim,
        (s.pop n).value l = lbool.l_undef ∧ (s.pop n).value l.neg = lbool.l_undef) ∧
      (∀ x, (∀ l ∈ s.m_trail.drop (s.pop_scope n).m_trail_lim, x.var ≠ l.var) →
        (s.pop n).value x = s.value x)) ∧
    (∀ t : solver, t.push.scope_lvl = t.scope_lvl + 1 ∧
      t.push.m_scopes.getD t.m_scopes.length ⟨0, 0, false⟩
        = ⟨t.m_trail.length, t.m_clauses_to_reinit.length, t.m_inconsistent⟩) ∧
    s.pop 0 = s := by
  have hn0 : n ≠ 0 := by omega
  obtain ⟨b1, b2, b3, b4, _, _, b7, b8⟩ := pop_before_reinit s n (s.pop_scope n).m_trail_lim
    (s.scope_lvl - n)
  have hext := assign_ext_reinit_clauses
    ((s.reset_inconsistent.unassign_vars (s.pop_scope n).m_trail_lim).shrink_scopes n
      (s.scope_lvl - n)) (s.pop_scope n).m_clauses_to_reinit_lim
  rw [← pop_eq s n hn0] at hext
  refine ⟨?_, ?_, ?_, ?_, ?_, ?_, ?_, pop_zero s⟩
  · show (s.pop n).m_scope_lvl + n = _
    rw [hext.scope_lvl, b3]
    exact Nat.sub_add_cancel hle
  · rw [hext.scopes, b4]
  · rw [hext.qhead, b2]
  · obtain ⟨extra, he⟩ := hext.trail
    exact ⟨extra, by rw [he, b1]⟩
  · intro hinv l hl
    have hinv1 := assignment_inv_pop_before_reinit s n (s.pop_scope n).m_trail_lim
      (s.scope_lvl - n) hinv
    have hv : ((s.reset_inconsistent.unassign_vars (s.pop_scope n).m_trail_lim).shrink_scopes n
        (s.scope_lvl - n)).value l = .l_true := (hinv1.2.2.1 l).1 (by rw [b1]; exact hl)
    rw [hext.value hinv1.1 l (by rw [hv]; decide), hv]
  · intro hre
    have e : s.pop n = (s.reset_inconsistent.unassign_vars (s.pop_scope n).m_trail_lim).shrink_scopes
        n (s.scope_lvl - n) := by
      rw [pop_eq s n hn0, reinit_clauses_of_le _ _ (by rw [b7]; exact hre)]
    rw [e]
    refine ⟨b1, ?_, ?_, ?_⟩
    · intro hlim
      rw [b2, b1, List.length_take, Nat.min_eq_left hlim]
    · intro l hl
      rw [b8, b8]
      have e1 : ∃ l1 ∈ s.m_trail.drop (s.pop_scope n).m_trail_lim, l = l1 ∨ l = l1.neg :=
        ⟨l, hl, Or.inl rfl⟩
      have e2 : ∃ l1 ∈ s.m_trail.drop (s.pop_scope n).m_trail_lim, l.neg = l1 ∨ l.neg = l1.neg :=
        ⟨l, hl, Or.inr rfl⟩
      simp only [e1, e2, ↓reduceIte, and_self]
    · intro x hx
      rw [b8]
      have e1 : ¬ ∃ l1 ∈ s.m_trail.drop (s.pop_scope n).m_trail_lim, x = l1 ∨ x = l1.neg := by
        intro ⟨l1, hl1, h⟩
        apply hx l1 hl1
        rcases h with h | h
        · rw [h]
        · rw [h, var_neg]
      simp only [e1, ↓reduceIte]
  · intro t
    refine ⟨rfl, ?_⟩
    show (t.m_scopes ++ [_]).getD t.m_scopes.length _ = _
    rw [List.getD_append_right _ _ _ _ (Nat.le_refl _)]
    simp

/-- C13 (amended) at a concrete state: `pop(1)` on `example_pop` gives back
the empty trail of level 0. -/
theorem C13_pop_witness :
    1 ≤ 1 ∧ 1 ≤ example_pop.scope_lvl ∧ example_pop.m_trail = [⟨3⟩, ⟨0⟩] ∧
    (example_pop.pop 1).scope_lvl = 0 ∧ (example_pop.pop 1).m_trail = [] ∧
    (example_pop.pop 1).m_qhead = 0 ∧ (example_pop.pop 1).m_scopes = [] ∧
    (example_pop.pop 1).scope_lvl + 1 = example_pop.scope_lvl ∧
    (example_pop.pop 1).m_qhead = (example_pop.pop_scope 1).m_trail_lim :=
  ⟨by decide, by decide, by decide, by decide, by decide, by decide, by decide,
    (C13_pop example_pop 1 (by decide) (by decide)).1,
    (C13_pop example_pop 1 (by decide) (by decide)).2.2.1⟩


/-! ## Conflict analysis: what the helpers leave alone -/

theorem analysis_frame.same (s : solver) : analysis_frame s s :=
  ⟨rfl, rfl, rfl, rfl, rfl, rfl, rfl, rfl, rfl, rfl, rfl, rfl, rfl, rfl, rfl, rfl, rfl, rfl, rfl,
    rfl, rfl⟩

theorem analysis_frame.trans {s s1 s2 : solver} (h1 : analysis_frame s s1)
    (h2 : analysis_frame s1 s2) : analysis_frame s s2 :=
  ⟨h2.config.trans h1.config, h2.assignment.trans h1.assignment, h2.level.trans h1.level,
    h2.justification.trans h1.justification, h2.trail.trans h1.trail, h2.arena.trans h1.arena,
    h2.clauses.trans h1.clauses, h2.learned.trans h1.learned, h2.watches.trans h1.watches,
    h2.scope_lvl.trans h1.scope_lvl, h2.scopes.trans h1.scopes, h2.qhead.trans h1.qhead,
    h2.reinit.trans h1.reinit, h2.conflict_lvl.trans h1.conflict_lvl,
    h2.conflict.trans h1.conflict, h2.not_l.trans h1.not_l,
    h2.inconsistent.trans h1.inconsistent, h2.assumptions.trans h1.assumptions,
    h2.assumption_set.trans h1.assumption_set,
    h2.user_scope_literals.trans h1.user_scope_literals, h2.search_lvl.trans h1.search_lvl⟩

theorem analysis_frame.value {s s1 : solver} (h : analysis_frame s s1) (l : literal) :
    s1.value l = s.value l := by
  unfold solver.value; rw [h.assignment]

theorem analysis_frame.lvl_var {s s1 : solver} (h : analysis_frame s s1) (v : bool_var) :
    s1.lvl_var v = s.lvl_var v := by
  unfold solver.lvl_var; rw [h.level]

theorem analysis_frame.lvl {s s1 : solver} (h : analysis_frame s s1) (l : literal) :
    s1.lvl l = s.lvl l := h.lvl_var l.var

theorem analysis_frame.get_clause {s s1 : solver} (h : analysis_frame s s1) (off : clause_offset) :
    s1.get_clause off = s.get_clause off := by
  unfold solver.get_clause; rw [h.arena]

theorem analysis_frame.get_wlist {s s1 : solver} (h : analysis_frame s s1) (i : Nat) :
    s1.get_wlist i = s.get_wlist i := by
  unfold solver.get_wlist; rw [h.watches]

theorem analysis_frame.tracking_assumptions {s s1 : solver} (h : analysis_frame s s1) :
    s1.tracking_assumptions = s.tracking_assumptions := by
  unfold solver.tracking_assumptions; rw [h.assumptions, h.user_scope_literals]

theorem analysis_frame.is_assumption {s s1 : solver} (h : analysis_frame s s1) (l : literal) :
    s1.is_assumption l = s.is_assumption l := by
  unfold solver.is_assumption; rw [h.tracking_assumptions, h.assumption_set]

theorem analysis_frame.foldl {α : Type} (f : solver → α → solver)
    (hf : ∀ s a, analysis_frame s (f s a)) (xs : List α) (s : solver) :
    analysis_frame s (xs.foldl f s) := by
  induction xs generalizing s with
  | nil => exact analysis_frame.same s
  | cons a xs ih => exact (hf s a).trans (ih (f s a))

theorem mark_frame (s : solver) (v : bool_var) : analysis_frame s (s.mark v) :=
  ⟨rfl, rfl, rfl, rfl, rfl, rfl, rfl, rfl, rfl, rfl, rfl, rfl, rfl, rfl, rfl, rfl, rfl, rfl, rfl,
    rfl, rfl⟩

theorem reset_mark_frame (s : solver) (v : bool_var) : analysis_frame s (s.reset_mark v) :=
  ⟨rfl, rfl, rfl, rfl, rfl, rfl, rfl, rfl, rfl, rfl, rfl, rfl, rfl, rfl, rfl, rfl, rfl, rfl, rfl,
    rfl, rfl⟩

theorem mark_lit_frame (s : solver) (l : literal) : analysis_frame s (s.mark_lit l) :=
  ⟨rfl, rfl, rfl, rfl, rfl, rfl, rfl, rfl, rfl, rfl, rfl, rfl, rfl, rfl, rfl, rfl, rfl, rfl, rfl,
    rfl, rfl⟩

theorem unmark_lit_frame (s : solver) (l : literal) : analysis_frame s (s.unmark_lit l) :=
  ⟨rfl, rfl, rfl, rfl, rfl, rfl, rfl, rfl, rfl, rfl, rfl, rfl, rfl, rfl, rfl, rfl, rfl, rfl, rfl,
    rfl, rfl⟩

theorem push_unmark_frame (s : solver) (v : bool_var) : analysis_frame s (s.push_unmark v) :=
  ⟨rfl, rfl, rfl, rfl, rfl, rfl, rfl, rfl, rfl, rfl, rfl, rfl, rfl, rfl, rfl, rfl, rfl, rfl, rfl,
    rfl, rfl⟩

theorem push_lemma_frame (s : solver) (l : literal) : analysis_frame s (s.push_lemma l) :=
  ⟨rfl, rfl, rfl, rfl, rfl, rfl, rfl, rfl, rfl, rfl, rfl, rfl, rfl, rfl, rfl, rfl, rfl, rfl, rfl,
    rfl, rfl⟩

theorem push_core_frame (s : solver) (l : literal) : analysis_frame s (s.push_core l) :=
  ⟨rfl, rfl, rfl, rfl, rfl, rfl, rfl, rfl, rfl, rfl, rfl, rfl, rfl, rfl, rfl, rfl, rfl, rfl, rfl,
    rfl, rfl⟩

theorem reset_core_frame (s : solver) : analysis_frame s s.reset_core :=
  ⟨rfl, rfl, rfl, rfl, rfl, rfl, rfl, rfl, rfl, rfl, rfl, rfl, rfl, rfl, rfl, rfl, rfl, rfl, rfl,
    rfl, rfl⟩

theorem init_lemma_frame (s : solver) : analysis_frame s s.init_lemma :=
  ⟨rfl, rfl, rfl, rfl, rfl, rfl, rfl, rfl, rfl, rfl, rfl, rfl, rfl, rfl, rfl, rfl, rfl, rfl, rfl,
    rfl, rfl⟩

theorem set_lemma_head_frame (s : solver) (l : literal) : analysis_frame s (s.set_lemma_head l) :=
  ⟨rfl, rfl, rfl, rfl, rfl, rfl, rfl, rfl, rfl, rfl, rfl, rfl, rfl, rfl, rfl, rfl, rfl, rfl, rfl,
    rfl, rfl⟩

theorem shrink_unmark_frame (s : solver) (n : Nat) : analysis_frame s (s.shrink_unmark n) :=
  ⟨rfl, rfl, rfl, rfl, rfl, rfl, rfl, rfl, rfl, rfl, rfl, rfl, rfl, rfl, rfl, rfl, rfl, rfl, rfl,
    rfl, rfl⟩

theorem push_lemma_min_stack_frame (s : solver) (v : bool_var) :
    analysis_frame s (s.push_lemma_min_stack v) :=
  ⟨rfl, rfl, rfl, rfl, rfl, rfl, rfl, rfl, rfl, rfl, rfl, rfl, rfl, rfl, rfl, rfl, rfl, rfl, rfl,
    rfl, rfl⟩

theorem pop_lemma_min_stack_frame (s : solver) : analysis_frame s s.pop_lemma_min_stack :=
  ⟨rfl, rfl, rfl, rfl, rfl, rfl, rfl, rfl, rfl, rfl, rfl, rfl, rfl, rfl, rfl, rfl, rfl, rfl, rfl,
    rfl, rfl⟩

theorem init_lemma_min_stack_frame (s : solver) (v : bool_var) :
    analysis_frame s (s.init_lemma_min_stack v) :=
  ⟨rfl, rfl, rfl, rfl, rfl, rfl, rfl, rfl, rfl, rfl, rfl, rfl, rfl, rfl, rfl, rfl, rfl, rfl, rfl,
    rfl, rfl⟩

theorem updt_lemma_lvl_set_frame (s : solver) : analysis_frame s s.updt_lemma_lvl_set :=
  ⟨rfl, rfl, rfl, rfl, rfl, rfl, rfl, rfl, rfl, rfl, rfl, rfl, rfl, rfl, rfl, rfl, rfl, rfl, rfl,
    rfl, rfl⟩

theorem set_minimized_lemma_frame (s : solver) (lits : List literal) :
    analysis_frame s (s.set_minimized_lemma lits) :=
  ⟨rfl, rfl, rfl, rfl, rfl, rfl, rfl, rfl, rfl, rfl, rfl, rfl, rfl, rfl, rfl, rfl, rfl, rfl, rfl,
    rfl, rfl⟩

theorem set_dyn_sub_res_lemma_frame (s : solver) (lits : List literal) :
    analysis_frame s (s.set_dyn_sub_res_lemma lits) :=
  ⟨rfl, rfl, rfl, rfl, rfl, rfl, rfl, rfl, rfl, rfl, rfl, rfl, rfl, rfl, rfl, rfl, rfl, rfl, rfl,
    rfl, rfl⟩

theorem bump_activity_frame (s : solver) (v : bool_var) : analysis_frame s (s.bump_activity v) :=
  ⟨rfl, rfl, rfl, rfl, rfl, rfl, rfl, rfl, rfl, rfl, rfl, rfl, rfl, rfl, rfl, rfl, rfl, rfl, rfl,
    rfl, rfl⟩

theorem rescale_activity_frame (s : solver) : analysis_frame s s.rescale_activity :=
  ⟨rfl, rfl, rfl, rfl, rfl, rfl, rfl, rfl, rfl, rfl, rfl, rfl, rfl, rfl, rfl, rfl, rfl, rfl, rfl,
    rfl, rfl⟩

theorem inc_activity_frame (s : solver) (v : bool_var) : analysis_frame s (s.inc_activity v) := by
  unfold inc_activity
  split
  · exact (bump_activity_frame s v).trans (rescale_activity_frame _)
  · exact bump_activity_frame s v

theorem process_antecedent_bump_frame (s : solver) (v : bool_var) :
    analysis_frame s (s.process_antecedent_bump v) := by
  unfold process_antecedent_bump
  split
  · exact inc_activity_frame s v
  · exact ⟨rfl, rfl, rfl, rfl, rfl, rfl, rfl, rfl, rfl, rfl, rfl, rfl, rfl, rfl, rfl, rfl, rfl, rfl, rfl,
      rfl, rfl⟩
  · exact analysis_frame.same s

theorem fill_ext_antecedents_frame (E : collaborators) (s : solver) (c : literal) (idx : Nat) :
    analysis_frame s (s.fill_ext_antecedents E c idx) :=
  ⟨rfl, rfl, rfl, rfl, rfl, rfl, rfl, rfl, rfl, rfl, rfl, rfl, rfl, rfl, rfl, rfl, rfl, rfl, rfl,
    rfl, rfl⟩

theorem fill_antecedents_frame (E : collaborators) (s : solver) (c : literal)
    (js : justification) : analysis_frame s (fill_antecedents E s c js) := by
  cases js <;> first | exact analysis_frame.same s | exact fill_ext_antecedents_frame E s c _

theorem fill_minimization_antecedents_frame (E : collaborators) (s : solver) (v : bool_var)
    (js : justification) : analysis_frame s (fill_minimization_antecedents E s v js) := by
  cases js <;> first | exact analysis_frame.same s | exact fill_ext_antecedents_frame E s _ _

theorem reset_unmark_frame (s : solver) (n : Nat) : analysis_frame s (s.reset_unmark n) := by
  unfold reset_unmark
  exact (analysis_frame.foldl _ reset_mark_frame _ s).trans (shrink_unmark_frame _ n)

/-! ## Marks -/

theorem is_marked_mark (s : solver) (v w : bool_var) :
    (s.mark v).is_marked w = if v = w ∧ v < s.m_mark.length then true else s.is_marked w := by
  unfold is_marked mark
  exact getD_set _ _ _ _ _

theorem is_marked_reset_mark (s : solver) (v w : bool_var) :
    (s.reset_mark v).is_marked w = if v = w then false else s.is_marked w := by
  unfold is_marked reset_mark
  show (s.m_mark.set v false).getD w false = _
  rw [getD_set]
  by_cases h : v = w
  · subst h
    by_cases hl : v < s.m_mark.length
    · simp [hl]
    · simp only [hl, and_false, ↓reduceIte]
      exact List.getD_eq_default _ _ (Nat.le_of_not_lt hl)
  · simp [h]

@[simp] theorem mark_m_mark_length (s : solver) (v : bool_var) :
    (s.mark v).m_mark.length = s.m_mark.length := by
  simp [mark]

@[simp] theorem reset_mark_m_mark_length (s : solver) (v : bool_var) :
    (s.reset_mark v).m_mark.length = s.m_mark.length := by
  simp [reset_mark]

theorem foldl_reset_mark_spec (xs : List bool_var) (s : solver) :
    (xs.foldl reset_mark s).m_mark.length = s.m_mark.length ∧
    (xs.foldl reset_mark s).m_unmark = s.m_unmark ∧
    (xs.foldl reset_mark s).m_core = s.m_core ∧
    (xs.foldl reset_mark s).m_lemma = s.m_lemma ∧
    (xs.foldl reset_mark s).m_lemma_min_stack = s.m_lemma_min_stack ∧
    (xs.foldl reset_mark s).m_lvl_set = s.m_lvl_set ∧
    (xs.foldl reset_mark s).m_lit_mark = s.m_lit_mark ∧
    ∀ w, (xs.foldl reset_mark s).is_marked w = if w ∈ xs then false else s.is_marked w := by
  induction xs generalizing s with
  | nil => simp
  | cons a xs ih =>
    obtain ⟨h1, h2, h3, h4, h5, h6, h7, h8⟩ := ih (s.reset_mark a)
    simp only [List.foldl_cons]
    refine ⟨by rw [h1]; simp, by rw [h2]; simp, by rw [h3]; simp, by rw [h4]; simp,
      by rw [h5]; simp, by rw [h6]; simp, by rw [h7]; simp, ?_⟩
    intro w
    rw [h8, is_marked_reset_mark]
    by_cases hw : w ∈ xs
    · simp [hw]
    · by_cases ha : a = w
      · subst ha; simp
      · have : ¬ w = a := fun h => ha h.symm
        simp [hw, ha, this]

theorem reset_unmark_spec (s : solver) (n : Nat) :
    (s.reset_unmark n).m_mark.length = s.m_mark.length ∧
    (s.reset_unmark n).m_unmark = s.m_unmark.take n ∧
    (s.reset_unmark n).m_core = s.m_core ∧
    (s.reset_unmark n).m_lemma = s.m_lemma ∧
    (s.reset_unmark n).m_lemma_min_stack = s.m_lemma_min_stack ∧
    (s.reset_unmark n).m_lvl_set = s.m_lvl_set ∧
    (s.reset_unmark n).m_lit_mark = s.m_lit_mark ∧
    ∀ w, (s.reset_unmark n).is_marked w = if w ∈ s.m_unmark.drop n then false else s.is_marked w := by
  obtain ⟨h1, h2, h3, h4, h5, h6, h7, h8⟩ := foldl_reset_mark_spec (s.m_unmark.drop n) s
  unfold reset_unmark
  refine ⟨by simpa using h1, by simp [shrink_unmark, h2], by simpa using h3, by simpa using h4, by simpa using h5,
    by simpa using h6, by simpa using h7, ?_⟩
  intro w
  have := h8 w
  unfold is_marked at this ⊢
  simpa using this

/-- Two mark vectors of the same length with the same flags are equal. -/
theorem m_mark_ext (s s1 : solver) (hl : s1.m_mark.length = s.m_mark.length)
    (h : ∀ v, s1.is_marked v = s.is_marked v) : s1.m_mark = s.m_mark := by
  apply List.ext_getElem hl
  intro i h1 h2
  have := h i
  unfold is_marked at this
  rw [List.getD_eq_getElem _ _ h1, List.getD_eq_getElem _ _ h2] at this
  exact this

/-! ## C19: the unsatisfiable core -/

theorem unsat_core_inv.start (s : solver) (h : ∀ l ∈ s.m_core, l ∈ s.m_assumption_set) :
    unsat_core_inv s s :=
  ⟨analysis_frame.same s, h, rfl, ⟨[], by simp, fun v hv => Or.inl hv, fun v hv => by cases hv⟩,
    fun v hv => hv⟩

theorem unsat_core_inv_of_frame {s0 s s1 : solver} (h : unsat_core_inv s0 s)
    (hf : analysis_frame s s1) (hc : s1.m_core = s.m_core) (hm : s1.m_mark = s.m_mark)
    (hu : s1.m_unmark = s.m_unmark) : unsat_core_inv s0 s1 := by
  have hmk : ∀ v, s1.is_marked v = s.is_marked v := by
    intro v; unfold is_marked; rw [hm]
  refine ⟨h.frame.trans hf, by rw [hc]; exact h.core, by rw [hm]; exact h.mark_len, ?_, ?_⟩
  · obtain ⟨extra, e1, e2, e3⟩ := h.unmark
    exact ⟨extra, by rw [hu]; exact e1, fun v hv => e2 v (by rw [← hmk]; exact hv), e3⟩
  · intro v hv
    rw [hmk]; exact h.mono v hv

theorem process_antecedent_for_unsat_core_inv {s0 s : solver} (h : unsat_core_inv s0 s)
    (a : literal) : unsat_core_inv s0 (s.process_antecedent_for_unsat_core a) := by
  unfold process_antecedent_for_unsat_core
  by_cases hm : s.is_marked a.var = true
  · simp only [hm, Bool.not_true, Bool.false_eq_true, ↓reduceIte]
    exact h
  · have hm0 : s.is_marked a.var = false := by simpa using hm
    simp only [hm0, Bool.not_false, ↓reduceIte]
    obtain ⟨extra, e1, e2, e3⟩ := h.unmark
    have hs0 : s0.is_marked a.var = false := by
      cases hx : s0.is_marked a.var with
      | false => rfl
      | true => rw [h.mono _ hx] at hm0; cases hm0
    have key : unsat_core_inv s0 ((s.mark a.var).push_unmark a.var) := by
      refine ⟨h.frame.trans ((mark_frame s _).trans (push_unmark_frame _ _)), ?_, ?_, ?_, ?_⟩
      · simpa using h.core
      · simpa using h.mark_len
      · refine ⟨extra ++ [a.var], by simp [push_unmark, e1], ?_, ?_⟩
        · intro v hv
          have hv1 : (s.mark a.var).is_marked v = true := hv
          rw [is_marked_mark] at hv1
          by_cases hav : a.var = v ∧ a.var < s.m_mark.length
          · right; simp [hav.1]
          · simp only [hav, ↓reduceIte] at hv1
            rcases e2 v hv1 with h1 | h1
            · exact Or.inl h1
            · right; simp [h1]
        · intro v hv
          rcases List.mem_append.1 hv with h1 | h1
          · exact e3 v h1
          · simp only [List.mem_singleton] at h1
            rw [h1]; exact hs0
      · intro v hv
        have hv1 := h.mono v hv
        show (s.mark a.var).is_marked v = true
        rw [is_marked_mark]
        split
        · rfl
        · exact hv1
    split
    · rename_i hassume
      refine ⟨key.frame.trans (push_core_frame _ _), ?_, key.mark_len, key.unmark, key.mono⟩
      intro l hl
      simp only [push_core, List.mem_append, List.mem_singleton] at hl
      rcases hl with hl | hl
      · exact key.core l hl
      · subst hl
        have hf := (h.frame.is_assumption l)
        rw [hf] at hassume
        unfold is_assumption at hassume
        simp only [Bool.and_eq_true, decide_eq_true_eq] at hassume
        exact hassume.2
    · exact key

theorem process_consequent_for_unsat_core_inv (E : collaborators) {s0 s : solver}
    (h : unsat_core_inv s0 s) (c : literal) (js : justification) :
    unsat_core_inv s0 (s.process_consequent_for_unsat_core E c js) := by
  unfold process_consequent_for_unsat_core
  have h1 : unsat_core_inv s0 (fill_antecedents E s c js) :=
    unsat_core_inv_of_frame h (fill_antecedents_frame E s c js) (by simp) (by simp) (by simp)
  generalize (fill_antecedents E s c js).conflict_antecedents c js = xs
  generalize fill_antecedents E s c js = t at h1
  induction xs generalizing t with
  | nil => exact h1
  | cons a xs ih => exact ih _ (process_antecedent_for_unsat_core_inv h1 a)

theorem unsat_core_loop_inv (E : collaborators) (xs : List literal) {s0 s : solver}
    (h : unsat_core_inv s0 s) : unsat_core_inv s0 (unsat_core_loop E xs s) := by
  induction xs generalizing s with
  | nil => exact h
  | cons l rest ih =>
    unfold unsat_core_loop
    split
    · split
      · exact h
      · exact ih (process_consequent_for_unsat_core_inv E h _ _)
    · exact ih h

theorem unsat_core_not_l_inv (E : collaborators) {s0 s : solver} (h : unsat_core_inv s0 s) :
    unsat_core_inv s0 (unsat_core_not_l E s) := by
  unfold unsat_core_not_l
  split
  · have h1 := process_antecedent_for_unsat_core_inv h s.m_not_l
    split
    · rename_i hassume
      refine ⟨h1.frame.trans (push_core_frame _ _), ?_, h1.mark_len, h1.unmark, h1.mono⟩
      intro l hl
      simp only [push_core, List.mem_append, List.mem_singleton] at hl
      rcases hl with hl | hl
      · exact h1.core l hl
      · subst hl
        rw [h1.frame.is_assumption] at hassume
        unfold is_assumption at hassume
        simp only [Bool.and_eq_true, decide_eq_true_eq] at hassume
        exact hassume.2
    · exact process_consequent_for_unsat_core_inv E h1 _ _
  · exact h

/-- The state of `resolve_conflict_for_unsat_core` before the optional core
minimisation: the core lies in the assumption set and the marks are as
before. -/
theorem resolve_conflict_for_unsat_core_spec (E : collaborators) (s : solver)
    (hmin : s.m_config.m_core_minimize = false) :
    (∀ l ∈ (s.resolve_conflict_for_unsat_core E).m_core, l ∈ s.m_assumption_set) ∧
    (s.resolve_conflict_for_unsat_core E).m_mark = s.m_mark ∧
    (s.resolve_conflict_for_unsat_core E).m_unmark = s.m_unmark ∧
    analysis_frame s (s.resolve_conflict_for_unsat_core E) := by
  unfold resolve_conflict_for_unsat_core
  split
  · exact ⟨fun l hl => (by cases hl), rfl, rfl, reset_core_frame s⟩
  · have h0 : unsat_core_inv s.reset_core s.reset_core :=
      unsat_core_inv.start _ (fun l hl => by cases hl)
    have h1 := unsat_core_loop_inv E s.reset_core.skip_literals_above_conflict_level
      (process_consequent_for_unsat_core_inv E (unsat_core_not_l_inv E h0)
        s.reset_core.first_consequent s.m_conflict)
    generalize unsat_core_loop E s.reset_core.skip_literals_above_conflict_level
      ((unsat_core_not_l E s.reset_core).process_consequent_for_unsat_core E
        s.reset_core.first_consequent s.m_conflict) = t at h1
    obtain ⟨r1, r2, r3, _, _, _, _, r8⟩ := reset_unmark_spec t s.m_unmark.length
    have hcfg : (t.reset_unmark s.m_unmark.length).m_config.m_core_minimize = false := by
      rw [(reset_unmark_frame t _).config, h1.frame.config]; exact hmin
    have hcm : core_minimize E (t.reset_unmark s.m_unmark.length) =
        t.reset_unmark s.m_unmark.length := by
      unfold core_minimize
      simp [hcfg]
    rw [hcm]
    obtain ⟨extra, e1, e2, e3⟩ := h1.unmark
    have e1a : t.m_unmark = s.m_unmark ++ extra := e1
    refine ⟨?_, ?_, ?_, (reset_core_frame s).trans (h1.frame.trans (reset_unmark_frame t _))⟩
    · rw [r3]; exact h1.core
    · apply m_mark_ext _ _ (by rw [r1]; exact h1.mark_len)
      intro v
      rw [r8, e1a, List.drop_left]
      by_cases hv : v ∈ extra
      · simp only [hv, ↓reduceIte]
        exact (e3 v hv).symm
      · simp only [hv, ↓reduceIte]
        cases hx : t.is_marked v with
        | true =>
          rcases e2 v hx with h2 | h2
          · exact h2.symm
          · exact absurd h2 hv
        | false =>
          cases hy : s.is_marked v with
          | false => rfl
          | true =>
            have := h1.mono v hy
            rw [hx] at this; cases this
    · rw [r2, e1a, List.take_left]

theorem init_assumption_assumption_set (s : solver) (lit : literal) :
    ∀ l ∈ (s.init_assumption lit).m_assumption_set, l ∈ s.m_assumption_set ∨ l = lit := by
  intro l hl
  unfold init_assumption at hl
  split at hl
  · exact Or.inl hl
  · have : ((s.add_assumption lit).assign lit .none).m_assumption_set =
        (s.add_assumption lit).m_assumption_set := by simp
    rw [this] at hl
    unfold add_assumption at hl
    simp only at hl
    split at hl
    · exact Or.inl hl
    · simpa using hl

theorem foldl_init_assumption_assumption_set (lits : List literal) (s : solver) :
    ∀ l ∈ (lits.foldl init_assumption s).m_assumption_set, l ∈ s.m_assumption_set ∨ l ∈ lits := by
  induction lits generalizing s with
  | nil => intro l hl; exact Or.inl hl
  | cons a rest ih =>
    intro l hl
    rcases ih _ l hl with h | h
    · rcases init_assumption_assumption_set s a l h with h1 | h1
      · exact Or.inl h1
      · right; simp [h1]
    · right; simp [h]

/-- C19: after `resolve_conflict_for_unsat_core` with core minimisation
disabled, every literal of the core is a member of the assumption set (the
set `init_assumptions` fills with the literals given to `check`, starting
from the empty set), the mark flags are what they were before the call, so
that no variable is left marked when none was marked before, and the
vector `m_unmark` is back at its old content. -/
theorem C19_core_subset_assumptions (E : collaborators) (s : solver)
    (hmin : s.m_config.m_core_minimize = false) :
    (∀ l ∈ (s.resolve_conflict_for_unsat_core E).m_core, l ∈ s.m_assumption_set) ∧
    (s.resolve_conflict_for_unsat_core E).m_mark = s.m_mark ∧
    ((∀ v, s.is_marked v = false) →
      ∀ v, (s.resolve_conflict_for_unsat_core E).is_marked v = false) ∧
    (s.resolve_conflict_for_unsat_core E).m_unmark = s.m_unmark ∧
    (∀ (t : solver) (lits : List literal),
      ∀ l ∈ (lits.foldl init_assumption t.reset_assumptions).m_assumption_set, l ∈ lits) := by
  obtain ⟨h1, h2, h3, _⟩ := resolve_conflict_for_unsat_core_spec E s hmin
  refine ⟨h1, h2, ?_, h3, ?_⟩
  · intro h v
    unfold is_marked
    rw [h2]
    exact h v
  · intro t lits l hl
    rcases foldl_init_assumption_assumption_set lits _ l hl with h | h
    · cases h
    · exact h

/-- C19 at a concrete state: the conflict of the unit clause `x0` with the
assumption `¬x0`; the core is the assumption and no variable stays marked. -/
theorem C19_core_subset_assumptions_witness :
    example_core.m_config.m_core_minimize = false ∧
    example_core.m_assumption_set = [⟨1⟩] ∧
    (example_core.resolve_conflict_for_unsat_core {}).m_core = [⟨1⟩] ∧
    (∀ l ∈ (example_core.resolve_conflict_for_unsat_core {}).m_core,
      l ∈ example_core.m_assumption_set) ∧
    (example_core.resolve_conflict_for_unsat_core {}).m_mark = example_core.m_mark :=
  ⟨by decide, by decide, by decide,
    (C19_core_subset_assumptions {} example_core (by decide)).1,
    (C19_core_subset_assumptions {} example_core (by decide)).2.1⟩

/-! ## C20: the unit clause against its negation -/

/-- C20: for the solver that holds only the unit clause `x0` (built through
`mk_var` and `mk_clause`: the trail is `x0`, there is no watch and no arena
clause), `check` with the single assumption `¬x0` returns `l_false` and the
core read afterwards is exactly `¬x0`, whatever the collaborators are. -/
theorem C20_unit_against_assumption (E : collaborators) :
    example_unit_clause.m_trail = [⟨0⟩] ∧ example_unit_clause.m_cls_allocator = [] ∧
    example_unit_clause.m_watches = [[], []] ∧ example_unit_clause.num_vars = 1 ∧
    ∃ s1, check E 4 example_unit_clause [⟨1⟩] = some (.l_false, s1) ∧ s1.m_core = [⟨1⟩] := by
  refine ⟨by decide, by decide, by decide, by decide, ?_⟩
  have h : (check E 4 example_unit_clause [⟨1⟩]).map (fun r => (r.1, r.2.m_core)) =
      some (.l_false, [⟨1⟩]) := by
    obtain ⟨e, c, m, l1, l2, l3, l4, l5⟩ := E
    cases e <;> with_unfolding_all rfl
  match hc : check E 4 example_unit_clause [⟨1⟩] with
  | none => rw [hc] at h; cases h
  | some (r, s1) =>
    rw [hc] at h
    simp only [Option.map_some', Option.some.injEq, Prod.mk.injEq] at h
    exact ⟨s1, by rw [h.1], h.2⟩

/-! ## Lemma minimisation: the search of `implied_by_marked` -/

theorem min_antecedents_frame (E : collaborators) (hE : E.m_ext = none) {s s1 : solver}
    (h : analysis_frame s s1) (v : bool_var) :
    min_antecedents E s1 v = min_antecedents E s v := by
  unfold min_antecedents
  rw [h.justification]
  cases s.m_justification.getD v .none with
  | none => rfl
  | binary l => rfl
  | ternary l1 l2 => rfl
  | clause off =>
    simp only [fill_minimization_antecedents, minimization_antecedents]
    rw [h.get_clause]
  | ext_justification idx =>
    simp [fill_minimization_antecedents, minimization_antecedents, fill_ext_antecedents, hE]

theorem justified_from_mono (E : collaborators) (s : solver) (X Y : List bool_var) (v : bool_var)
    (hXY : ∀ w ∈ X, w ∈ Y) (h : justified_from E s X v) : justified_from E s Y v :=
  ⟨h.1, fun a ha => by
    rcases h.2 a ha with h1 | h1 | h1
    · exact Or.inl h1
    · exact Or.inr (Or.inl h1)
    · exact Or.inr (Or.inr (hXY _ h1))⟩

theorem process_antecedent_for_minimization_cases (s : solver) (a : literal) :
    ((s.is_marked a.var = true ∨ s.lvl_var a.var = 0) ∧
      s.process_antecedent_for_minimization a = (true, s)) ∨
    (s.is_marked a.var = false ∧ 0 < s.lvl_var a.var ∧
      s.process_antecedent_for_minimization a =
        (true, ((s.mark a.var).push_unmark a.var).push_lemma_min_stack a.var)) ∨
    (s.is_marked a.var = false ∧ 0 < s.lvl_var a.var ∧
      s.process_antecedent_for_minimization a = (false, s)) := by
  unfold process_antecedent_for_minimization
  cases hm : s.is_marked a.var with
  | true => left; simp
  | false =>
    by_cases hl : s.lvl_var a.var > 0
    · right
      by_cases hs : lvl_set_may_contain s.m_lvl_set (s.lvl_var a.var) = true
      · left; simp [hl, hs]
      · right; simp [hl, hs]
    · left
      have : s.lvl_var a.var = 0 := by omega
      simp [this]

theorem unmarked_count_mark (s : solver) (v : bool_var) (hv : v < s.m_mark.length)
    (hm : s.is_marked v = false) : (s.mark v).unmarked_count + 1 ≤ s.unmarked_count := by
  unfold unmarked_count mark
  exact count_set_lt s.m_mark true false false (by decide) v hv hm

/-- What a run of `process_antecedent_for_minimization` over the literals `xs`
does: the variables it marks, `new`, go to the end of `m_unmark` and on the
stack; when it succeeds, every literal of `xs` is at level 0, was marked, or
is among them. -/
theorem process_antecedents_for_minimization_spec (xs : List literal) (s : solver) :
    ∃ new : List bool_var,
      analysis_frame s (process_antecedents_for_minimization s xs).2 ∧
      (process_antecedents_for_minimization s xs).2.m_lemma = s.m_lemma ∧
      (process_antecedents_for_minimization s xs).2.m_lvl_set = s.m_lvl_set ∧
      (process_antecedents_for_minimization s xs).2.m_lit_mark = s.m_lit_mark ∧
      (process_antecedents_for_minimization s xs).2.m_mark.length = s.m_mark.length ∧
      (process_antecedents_for_minimization s xs).2.m_unmark = s.m_unmark ++ new ∧
      (process_antecedents_for_minimization s xs).2.m_lemma_min_stack =
        new.reverse ++ s.m_lemma_min_stack ∧
      (∀ w, (process_antecedents_for_minimization s xs).2.is_marked w = true →
        s.is_marked w = true ∨ w ∈ new) ∧
      (∀ w, s.is_marked w = true →
        (process_antecedents_for_minimization s xs).2.is_marked w = true) ∧
      (∀ w ∈ new, s.is_marked w = false) ∧
      ((process_antecedents_for_minimization s xs).1 = true →
        ∀ a ∈ xs, s.lvl_var a.var = 0 ∨ s.is_marked a.var = true ∨ a.var ∈ new) ∧
      ((∀ a ∈ xs, a.var < s.m_mark.length) →
        (process_antecedents_for_minimization s xs).2.unmarked_count + new.length
          ≤ s.unmarked_count) := by
  induction xs generalizing s with
  | nil =>
    refine ⟨[], analysis_frame.same s, rfl, rfl, rfl, rfl, by simp [process_antecedents_for_minimization],
      by simp [process_antecedents_for_minimization], fun w hw => Or.inl hw, fun w hw => hw,
      fun w hw => (by cases hw), fun _ a ha => (by cases ha), fun _ => ?_⟩
    simp [process_antecedents_for_minimization]
  | cons a rest ih =>
    rcases process_antecedent_for_minimization_cases s a with ⟨h1, h2⟩ | ⟨h1, h2, h3⟩ | ⟨h1, h2, h3⟩
    · -- skipped
      obtain ⟨new, f1, f2, f3, f4, f5, f6, f7, f8, f9, f10, f11, f12⟩ := ih s
      have e : process_antecedents_for_minimization s (a :: rest) =
          process_antecedents_for_minimization s rest := by
        rw [process_antecedents_for_minimization, h2]; simp
      rw [e]
      refine ⟨new, f1, f2, f3, f4, f5, f6, f7, f8, f9, f10, ?_, ?_⟩
      · intro hb b hbm
        rcases List.mem_cons.1 hbm with hb1 | hb1
        · subst hb1
          rcases h1 with h1 | h1
          · exact Or.inr (Or.inl h1)
          · exact Or.inl h1
        · exact f11 hb b hb1
      · intro hr
        exact f12 (fun b hb => hr b (List.mem_cons_of_mem _ hb))
    · -- marked and pushed
      obtain ⟨new, f1, f2, f3, f4, f5, f6, f7, f8, f9, f10, f11, f12⟩ :=
        ih (((s.mark a.var).push_unmark a.var).push_lemma_min_stack a.var)
      have e : process_antecedents_for_minimization s (a :: rest) =
          process_antecedents_for_minimization
            (((s.mark a.var).push_unmark a.var).push_lemma_min_stack a.var) rest := by
        rw [process_antecedents_for_minimization, h3]; simp
      rw [e]
      have hfr : analysis_frame s (((s.mark a.var).push_unmark a.var).push_lemma_min_stack a.var) :=
        (mark_frame s _).trans ((push_unmark_frame _ _).trans (push_lemma_min_stack_frame _ _))
      have hmk : ∀ w, (((s.mark a.var).push_unmark a.var).push_lemma_min_stack a.var).is_marked w
          = if a.var = w ∧ a.var < s.m_mark.length then true else s.is_marked w :=
        fun w => is_marked_mark s a.var w
      refine ⟨a.var :: new, hfr.trans f1, ?_, ?_, ?_, ?_, ?_, ?_, ?_, ?_, ?_, ?_, ?_⟩
      · rw [f2]; rfl
      · rw [f3]; rfl
      · rw [f4]; rfl
      · rw [f5]; simp [push_lemma_min_stack, push_unmark]
      · rw [f6]; simp [push_lemma_min_stack, push_unmark]
      · rw [f7]; simp [push_lemma_min_stack, push_unmark]
      · intro w hw
        rcases f8 w hw with h4 | h4
        · rw [hmk] at h4
          split at h4
          · rename_i hc
            right; simp [hc.1]
          · exact Or.inl h4
        · right; simp [h4]
      · intro w hw
        apply f9
        rw [hmk]
        split
        · rfl
        · exact hw
      · intro w hw
        rcases List.mem_cons.1 hw with h4 | h4
        · rw [h4]; exact h1
        · have h5 := f10 w h4
          rw [hmk] at h5
          split at h5
          · cases h5
          · exact h5
      · intro hb b hbm
        rcases List.mem_cons.1 hbm with hb1 | hb1
        · subst hb1
          right; right; simp
        · rcases f11 hb b hb1 with h4 | h4 | h4
          · left; rw [← hfr.lvl_var]; exact h4
          · rw [hmk] at h4
            split at h4
            · rename_i hc
              right; right; simp [hc.1]
            · exact Or.inr (Or.inl h4)
          · right; right; simp [h4]
      · intro hr
        have h4 := f12 (fun b hb => by
          have := hr b (List.mem_cons_of_mem _ hb)
          simpa [push_lemma_min_stack, push_unmark] using this)
        have h5 := unmarked_count_mark s a.var (hr a (List.mem_cons_self _ _)) h1
        have h6 : (((s.mark a.var).push_unmark a.var).push_lemma_min_stack a.var).unmarked_count
            = (s.mark a.var).unmarked_count := rfl
        rw [h6] at h4
        simp only [List.length_cons]
        omega
    · -- failed
      have e : process_antecedents_for_minimization s (a :: rest) = (false, s) := by
        rw [process_antecedents_for_minimization, h3]; simp
      rw [e]
      refine ⟨[], analysis_frame.same s, rfl, rfl, rfl, rfl, by simp, by simp,
        fun w hw => Or.inl hw, fun w hw => hw, fun w hw => (by cases hw),
        fun hb => (by cases hb), fun _ => by simp⟩

/-- After a failed search `reset_unmark(old_size)` gives back the marks and
the vector `m_unmark` the search started with. -/
theorem reset_unmark_restore (s0 t : solver) (extra : List bool_var)
    (hl : t.m_mark.length = s0.m_mark.length) (e1 : t.m_unmark = s0.m_unmark ++ extra)
    (e2 : ∀ w, t.is_marked w = true → s0.is_marked w = true ∨ w ∈ extra)
    (e3 : ∀ w ∈ extra, s0.is_marked w = false)
    (mono : ∀ w, s0.is_marked w = true → t.is_marked w = true) :
    (t.reset_unmark s0.m_unmark.length).m_mark = s0.m_mark ∧
    (t.reset_unmark s0.m_unmark.length).m_unmark = s0.m_unmark := by
  obtain ⟨r1, r2, _, _, _, _, _, r8⟩ := reset_unmark_spec t s0.m_unmark.length
  refine ⟨?_, by rw [r2, e1, List.take_left]⟩
  apply m_mark_ext _ _ (by rw [r1]; exact hl)
  intro v
  rw [r8, e1, List.drop_left]
  by_cases hv : v ∈ extra
  · simp only [hv, ↓reduceIte]
    exact (e3 v hv).symm
  · simp only [hv, ↓reduceIte]
    cases hx : t.is_marked v with
    | true =>
      rcases e2 v hx with h2 | h2
      · exact h2.symm
      · exact absurd h2 hv
    | false =>
      cases hy : s0.is_marked v with
      | false => rfl
      | true =>
        have := mono v hy
        rw [hx] at this; cases this

/-- The loop of `implied_by_marked` keeps its invariant: a search that
succeeds ends with an empty stack, so that every variable it marked and the
variable under test are justified; a search that fails leaves the marks, the
vector `m_unmark` and the lemma as they were. -/
theorem implied_by_marked_loop_inv (E : collaborators) (hE : E.m_ext = none) (s0 : solver)
    (root : bool_var) :
    ∀ (fuel : Nat) (s : solver) (b : Bool) (s' : solver), implied_inv E s0 root s →
      implied_by_marked_loop E s0.m_unmark.length fuel s = some (b, s') →
      (b = true → implied_inv E s0 root s' ∧ s'.m_lemma_min_stack = []) ∧
      (b = false → analysis_frame s0 s' ∧ s'.m_unmark = s0.m_unmark ∧ s'.m_mark = s0.m_mark ∧
        s'.m_lemma = s0.m_lemma ∧ s'.m_lvl_set = s0.m_lvl_set ∧ s'.m_lit_mark = s0.m_lit_mark) := by
  intro fuel
  induction fuel with
  | zero => intro s b s' _ h; simp [implied_by_marked_loop] at h
  | succ n ih =>
    intro s b s' hinv h
    unfold implied_by_marked_loop at h
    obtain ⟨extra, e1, e2, e3, e4⟩ := hinv.unmark
    split at h
    · -- empty stack
      rename_i hst
      simp only [Option.some.injEq, Prod.mk.injEq] at h
      obtain ⟨rfl, rfl⟩ := h
      exact ⟨fun _ => ⟨hinv, hst⟩, fun hb => by cases hb⟩
    · rename_i var rest hst
      have hpf : analysis_frame s0 s.pop_lemma_min_stack :=
        hinv.frame.trans (pop_lemma_min_stack_frame s)
      split at h
      · -- a decision above level 0
        simp only [Option.some.injEq, Prod.mk.injEq] at h
        obtain ⟨rfl, rfl⟩ := h
        refine ⟨fun hb => (by cases hb), fun _ => ?_⟩
        obtain ⟨r1, r2⟩ := reset_unmark_restore s0 s.pop_lemma_min_stack extra
          (by simpa using hinv.mark_len) (by simpa using e1) e2 e3 hinv.mono
        obtain ⟨_, _, _, q4, _, q6, q7, _⟩ := reset_unmark_spec s.pop_lemma_min_stack
          s0.m_unmark.length
        exact ⟨hpf.trans (reset_unmark_frame _ _), r2, r1, by rw [q4]; exact hinv.lemma_eq,
          by rw [q6]; exact hinv.lvl_set, by rw [q7]; exact hinv.lit_mark⟩
      · rename_i hdec
        -- the antecedents of `var`
        have hstep : implied_by_marked_step E s.pop_lemma_min_stack var =
            process_antecedents_for_minimization
              (fill_minimization_antecedents E s.pop_lemma_min_stack var
                (s.m_justification.getD var .none))
              (min_antecedents E s0 var) := by
          unfold implied_by_marked_step
          rw [← min_antecedents_frame E hE hpf var]
          rfl
        rw [hstep] at h
        have hff := fill_minimization_antecedents_frame E s.pop_lemma_min_stack var
          (s.m_justification.getD var .none)
        generalize hf : fill_minimization_antecedents E s.pop_lemma_min_stack var
          (s.m_justification.getD var .none) = f at h hff
        have hfm : f.m_mark = s.m_mark := by rw [← hf]; simp
        have hfu : f.m_unmark = s.m_unmark := by rw [← hf]; simp
        have hfl : f.m_lemma = s.m_lemma := by rw [← hf]; simp
        have hfv : f.m_lvl_set = s.m_lvl_set := by rw [← hf]; simp
        have hfk : f.m_lit_mark = s.m_lit_mark := by rw [← hf]; simp
        have hfs : f.m_lemma_min_stack = rest := by
          rw [← hf]; simp [pop_lemma_min_stack, hst]
        have hfmk : ∀ w, f.is_marked w = s.is_marked w := by
          intro w; unfold is_marked; rw [hfm]
        obtain ⟨new, f1, f2, f3, f4, f5, f6, f7, f8, f9, f10, f11, _⟩ :=
          process_antecedents_for_minimization_spec (min_antecedents E s0 var) f
        generalize process_antecedents_for_minimization f (min_antecedents E s0 var) = r at *
        obtain ⟨rb, rs⟩ := r
        simp only at f1 f2 f3 f4 f5 f6 f7 f8 f9 f10 f11 h
        have hfr : analysis_frame s0 rs := (hpf.trans hff).trans f1
        have g2 : ∀ w, rs.is_marked w = true → s0.is_marked w = true ∨ w ∈ extra ++ new := by
          intro w hw
          rcases f8 w hw with h1 | h1
          · rw [hfmk] at h1
            rcases e2 w h1 with h2 | h2
            · exact Or.inl h2
            · right; simp [h2]
          · right; simp [h1]
        have g3 : ∀ w ∈ extra ++ new, s0.is_marked w = false := by
          intro w hw
          rcases List.mem_append.1 hw with h1 | h1
          · exact e3 w h1
          · have h2 := f10 w h1
            rw [hfmk] at h2
            cases hx : s0.is_marked w with
            | false => rfl
            | true => rw [hinv.mono w hx] at h2; cases h2
        have gmono : ∀ w, s0.is_marked w = true → rs.is_marked w = true := by
          intro w hw
          apply f9
          rw [hfmk]
          exact hinv.mono w hw
        cases rb with
        | true =>
          simp only [↓reduceIte] at h
          have hnew : implied_inv E s0 root rs := by
            refine ⟨hfr, by rw [f2, hfl]; exact hinv.lemma_eq, by rw [f3, hfv]; exact hinv.lvl_set,
              by rw [f4, hfk]; exact hinv.lit_mark, by rw [f5, hfm]; exact hinv.mark_len,
              ⟨extra ++ new, by rw [f6, hfu, e1, List.append_assoc], g2, g3, ?_⟩, gmono⟩
            intro w hw
            have hjust : justified_from E s0 (extra ++ new) var := by
              refine ⟨?_, ?_⟩
              · by_cases hj : s0.m_justification.getD var .none = .none
                · right
                  have hj1 : s.m_justification.getD var .none = .none := by
                    rw [hinv.frame.justification]; exact hj
                  have : ¬ s.lvl_var var > 0 := fun hc => hdec ⟨hj1, hc⟩
                  rw [← hinv.frame.lvl_var]
                  omega
                · exact Or.inl hj
              · intro a ha
                rcases f11 rfl a ha with h1 | h1 | h1
                · left; rw [← (hpf.trans hff).lvl_var]; exact h1
                · rw [hfmk] at h1
                  rcases e2 _ h1 with h2 | h2
                  · exact Or.inr (Or.inl h2)
                  · right; right; simp [h2]
                · right; right; simp [h1]
            by_cases hwn : w ∈ new
            · left; rw [f7]; simp [hwn]
            · have hw1 : w ∈ extra ∨ w = root := by
                rcases hw with h1 | h1
                · rcases List.mem_append.1 h1 with h2 | h2
                  · exact Or.inl h2
                  · exact absurd h2 hwn
                · exact Or.inr h1
              rcases e4 w hw1 with h1 | h1
              · rw [hst] at h1
                rcases List.mem_cons.1 h1 with h2 | h2
                · right; rw [h2]; exact hjust
                · left; rw [f7, hfs]; simp [h2]
              · right
                exact justified_from_mono E s0 extra _ w (fun x hx => by simp [hx]) h1
          exact ih rs b s' hnew h
        | false =>
          simp only [Bool.false_eq_true, ↓reduceIte, Option.some.injEq, Prod.mk.injEq] at h
          obtain ⟨rfl, rfl⟩ := h
          refine ⟨fun hb => (by cases hb), fun _ => ?_⟩
          obtain ⟨r1, r2⟩ := reset_unmark_restore s0 rs (extra ++ new)
            (by rw [f5, hfm]; exact hinv.mark_len) (by rw [f6, hfu, e1, List.append_assoc])
            g2 g3 gmono
          obtain ⟨_, _, _, q4, _, q6, q7, _⟩ := reset_unmark_spec rs s0.m_unmark.length
          exact ⟨hfr.trans (reset_unmark_frame _ _), r2, r1,
            by rw [q4, f2, hfl]; exact hinv.lemma_eq, by rw [q6, f3, hfv]; exact hinv.lvl_set,
            by rw [q7, f4, hfk]; exact hinv.lit_mark⟩

/-! ## Lemma minimisation: termination and the loop of `minimize_lemma` -/

theorem unmarked_count_le (s : solver) : s.unmarked_count ≤ s.m_mark.length := by
  unfold unmarked_count
  exact List.count_le_length _ _

/-- The loop of `implied_by_marked` returns: each iteration pops a variable,
and a variable is pushed only when it gets marked. -/
theorem implied_by_marked_loop_terminates (E : collaborators) (hE : E.m_ext = none) (s0 : solver)
    (old_size : Nat)
    (hwf : ∀ v a, a ∈ min_antecedents E s0 v → a.var < s0.m_mark.length) :
    ∀ (fuel : Nat) (s : solver), analysis_frame s0 s → s.m_mark.length = s0.m_mark.length →
      2 * s.unmarked_count + s.m_lemma_min_stack.length < fuel →
      ∃ r, implied_by_marked_loop E old_size fuel s = some r := by
  intro fuel
  induction fuel with
  | zero => intro s _ _ h; omega
  | succ n ih =>
    intro s hfr hlen hm
    unfold implied_by_marked_loop
    split
    · exact ⟨_, rfl⟩
    · rename_i var rest hst
      split
      · exact ⟨_, rfl⟩
      · have hpf : analysis_frame s0 s.pop_lemma_min_stack :=
          hfr.trans (pop_lemma_min_stack_frame s)
        have hstep : implied_by_marked_step E s.pop_lemma_min_stack var =
            process_antecedents_for_minimization
              (fill_minimization_antecedents E s.pop_lemma_min_stack var
                (s.m_justification.getD var .none))
              (min_antecedents E s0 var) := by
          unfold implied_by_marked_step
          rw [← min_antecedents_frame E hE hpf var]
          rfl
        rw [hstep]
        have hff := fill_minimization_antecedents_frame E s.pop_lemma_min_stack var
          (s.m_justification.getD var .none)
        generalize hf : fill_minimization_antecedents E s.pop_lemma_min_stack var
          (s.m_justification.getD var .none) = f at hff
        have hfm : f.m_mark = s.m_mark := by rw [← hf]; simp
        have hfs : f.m_lemma_min_stack = rest := by
          rw [← hf]; simp [pop_lemma_min_stack, hst]
        obtain ⟨new, f1, _, _, _, f5, _, f7, _, _, _, _, f12⟩ :=
          process_antecedents_for_minimization_spec (min_antecedents E s0 var) f
        have h12 := f12 (fun a ha => by rw [hfm, hlen]; exact hwf var a ha)
        generalize process_antecedents_for_minimization f (min_antecedents E s0 var) = r at *
        obtain ⟨rb, rs⟩ := r
        simp only at f1 f5 f7 h12
        cases rb with
        | false => exact ⟨_, rfl⟩
        | true =>
          simp only [↓reduceIte]
          apply ih rs ((hpf.trans hff).trans f1) (by rw [f5, hfm]; exact hlen)
          have e1 : f.unmarked_count = s.unmarked_count := by unfold unmarked_count; rw [hfm]
          rw [f7, hfs, List.length_append, List.length_reverse]
          rw [hst] at hm
          simp only [List.length_cons] at hm
          omega

theorem implied_inv_init (E : collaborators) (s : solver) (v : bool_var) :
    implied_inv E (s.init_lemma_min_stack v) v (s.init_lemma_min_stack v) :=
  ⟨analysis_frame.same _, rfl, rfl, rfl, rfl,
    ⟨[], by simp, fun w hw => Or.inl hw, fun w hw => (by cases hw), fun w hw => by
      rcases hw with h | h
      · cases h
      · left; simp [init_lemma_min_stack, h]⟩,
    fun w hw => hw⟩

/-- One call of `implied_by_marked` inside the loop of `minimize_lemma`
keeps the invariant of that loop; after a success the variable under test is
among the implied ones once `minimize_lemma` has recorded it. -/
theorem implied_by_marked_inv (E : collaborators) (hE : E.m_ext = none) (fuel : Nat)
    (s0 s : solver) (l : literal) (b : Bool) (s1 : solver) (hinv : minimize_inv E s0 s)
    (h : s.implied_by_marked E fuel l = some (b, s1)) :
    (b = false → minimize_inv E s0 s1 ∧ s1.m_unmark = s.m_unmark) ∧
    (b = true → minimize_inv E s0 (s1.push_unmark l.var) ∧
      ∃ Y, (s1.push_unmark l.var).m_unmark = s.m_unmark ++ Y ∧ l.var ∈ Y) := by
  unfold implied_by_marked at h
  have hi := implied_by_marked_loop_inv E hE (s.init_lemma_min_stack l.var) l.var fuel
    (s.init_lemma_min_stack l.var) b s1 (implied_inv_init E s l.var) h
  have hfi : analysis_frame s0 (s.init_lemma_min_stack l.var) :=
    hinv.frame.trans (init_lemma_min_stack_frame s _)
  have hmk : ∀ w, (s.init_lemma_min_stack l.var).is_marked w = s.is_marked w := fun w => rfl
  obtain ⟨X, x1, x2, x3⟩ := hinv.unmark
  refine ⟨?_, ?_⟩
  · intro hb
    obtain ⟨g1, g2, g3, g4, g5, g6⟩ := hi.2 hb
    have g3a : s1.m_mark = s.m_mark := g3
    have hmk1 : ∀ w, s1.is_marked w = s.is_marked w := by
      intro w; unfold is_marked; rw [g3a]
    refine ⟨⟨hfi.trans g1, by rw [g5]; exact hinv.lvl_set, by rw [g6]; exact hinv.lit_mark,
      by rw [g3a]; exact hinv.mark_len, ⟨X, by rw [g2]; exact x1, ?_, x3⟩, ?_⟩, g2⟩
    · intro w hw; rw [hmk1] at hw; exact x2 w hw
    · intro w hw; rw [hmk1]; exact hinv.mono w hw
  · intro hb
    obtain ⟨g, gst⟩ := hi.1 hb
    obtain ⟨extra, e1, e2, e3, e4⟩ := g.unmark
    have e1a : s1.m_unmark = s.m_unmark ++ extra := e1
    have hclosed : implied_closed E s0 (X ++ (extra ++ [l.var])) := by
      intro v hv
      rcases List.mem_append.1 hv with h1 | h1
      · exact justified_from_mono E s0 X _ v (fun x hx => by simp [hx]) (x3 v h1)
      · have hv1 : v ∈ extra ∨ v = l.var := by
          rcases List.mem_append.1 h1 with h2 | h2
          · exact Or.inl h2
          · exact Or.inr (by simpa using h2)
        rcases e4 v hv1 with h2 | h2
        · rw [gst] at h2; cases h2
        · refine ⟨?_, ?_⟩
          · have := h2.1
            rw [hfi.justification, hfi.lvl_var] at this
            exact this
          · intro a ha
            rw [← min_antecedents_frame E hE hfi v] at ha
            rcases h2.2 a ha with h3 | h3 | h3
            · left; rw [← hfi.lvl_var]; exact h3
            · rw [hmk] at h3
              rcases x2 _ h3 with h4 | h4
              · exact Or.inr (Or.inl h4)
              · right; right; simp [h4]
            · right; right; simp [h3]
    refine ⟨⟨(hfi.trans g.frame).trans (push_unmark_frame _ _),
      by rw [push_unmark_m_lvl_set, g.lvl_set]; exact hinv.lvl_set,
      by rw [push_unmark_m_lit_mark, g.lit_mark]; exact hinv.lit_mark,
      by rw [push_unmark_m_mark, g.mark_len]; exact hinv.mark_len,
      ⟨X ++ (extra ++ [l.var]), ?_, ?_, hclosed⟩, ?_⟩, ⟨extra ++ [l.var], ?_, by simp⟩⟩
    · show s1.m_unmark ++ [l.var] = _
      rw [e1a, x1]; simp
    · intro w hw
      have hw1 : s1.is_marked w = true := hw
      rcases e2 w hw1 with h1 | h1
      · rw [hmk] at h1
        rcases x2 w h1 with h2 | h2
        · exact Or.inl h2
        · right; simp [h2]
      · right; simp [h1]
    · intro w hw
      show s1.is_marked w = true
      apply g.mono
      rw [hmk]
      exact hinv.mono w hw
    · show s1.m_unmark ++ [l.var] = _
      rw [e1a]; simp

/-- The loop of `minimize_lemma`: the literals it keeps extend `kept` by a
sublist of the literals it was given, and the variable of every literal it
leaves out is recorded in `m_unmark` behind the old end. -/
theorem minimize_lemma_loop_spec (E : collaborators) (hE : E.m_ext = none) (fuel : Nat)
    (s0 : solver) :
    ∀ (xs : List literal) (s : solver) (kept : List literal) (r : solver × List literal),
      minimize_inv E s0 s → minimize_lemma_loop E fuel xs s kept = some r →
      minimize_inv E s0 r.1 ∧
      ∃ k2 Y, r.2 = kept ++ k2 ∧ k2.Sublist xs ∧ r.1.m_unmark = s.m_unmark ++ Y ∧
        ∀ l ∈ xs, l ∈ k2 ∨ l.var ∈ Y := by
  intro xs
  induction xs with
  | nil =>
    intro s kept r hinv h
    simp only [minimize_lemma_loop, Option.some.injEq] at h
    subst h
    exact ⟨hinv, [], [], by simp, List.Sublist.refl _, by simp, fun l hl => (by cases hl)⟩
  | cons l rest ih =>
    intro s kept r hinv h
    unfold minimize_lemma_loop at h
    split at h
    · cases h
    · rename_i s1 hres
      obtain ⟨h1, Y1, y1, y2⟩ := (implied_by_marked_inv E hE fuel s0 s l true s1 hinv hres).2 rfl
      obtain ⟨h2, k2, Y2, z1, z2, z3, z4⟩ := ih _ _ r h1 h
      refine ⟨h2, k2, Y1 ++ Y2, z1, List.Sublist.cons _ z2, by rw [z3, y1, List.append_assoc], ?_⟩
      intro x hx
      rcases List.mem_cons.1 hx with h3 | h3
      · right; rw [h3]; simp [y2]
      · rcases z4 x h3 with h4 | h4
        · exact Or.inl h4
        · right; simp [h4]
    · rename_i s1 hres
      obtain ⟨h1, y1⟩ := (implied_by_marked_inv E hE fuel s0 s l false s1 hinv hres).1 rfl
      obtain ⟨h2, k2, Y2, z1, z2, z3, z4⟩ := ih _ _ r h1 h
      refine ⟨h2, l :: k2, Y2, by rw [z1]; simp, List.Sublist.cons₂ _ z2, by rw [z3, y1], ?_⟩
      intro x hx
      rcases List.mem_cons.1 hx with h3 | h3
      · left; rw [h3]; simp
      · rcases z4 x h3 with h4 | h4
        · left; simp [h4]
        · exact Or.inr h4

/-- The loop of `minimize_lemma` returns when every call of
`implied_by_marked` has fuel for two iterations per variable and two more. -/
theorem minimize_lemma_loop_terminates (E : collaborators) (hE : E.m_ext = none) (s0 : solver)
    (hwf : ∀ v a, a ∈ min_antecedents E s0 v → a.var < s0.m_mark.length) (fuel : Nat)
    (hfuel : 2 * s0.m_mark.length + 2 ≤ fuel) :
    ∀ (xs : List literal) (s : solver) (kept : List literal), minimize_inv E s0 s →
      ∃ r, minimize_lemma_loop E fuel xs s kept = some r := by
  intro xs
  induction xs with
  | nil => intro s kept _; exact ⟨_, rfl⟩
  | cons l rest ih =>
    intro s kept hinv
    have hfi : analysis_frame s0 (s.init_lemma_min_stack l.var) :=
      hinv.frame.trans (init_lemma_min_stack_frame s _)
    have huc := unmarked_count_le (s.init_lemma_min_stack l.var)
    have hlen : (s.init_lemma_min_stack l.var).m_mark.length = s0.m_mark.length := hinv.mark_len
    obtain ⟨⟨b, s1⟩, hr⟩ := implied_by_marked_loop_terminates E hE s0 s.m_unmark.length hwf fuel
      (s.init_lemma_min_stack l.var) hfi hlen (by
        simp only [init_lemma_min_stack_m_mark, init_lemma_min_stack] at huc hlen ⊢
        simp only [unmarked_count, List.length_singleton] at huc ⊢
        omega)
    have hr1 : s.implied_by_marked E fuel l = some (b, s1) := hr
    unfold minimize_lemma_loop
    rw [hr1]
    cases b with
    | true =>
      exact ih _ _ ((implied_by_marked_inv E hE fuel s0 s l true s1 hinv hr1).2 rfl).1
    | false =>
      exact ih _ _ ((implied_by_marked_inv E hE fuel s0 s l false s1 hinv hr1).1 rfl).1

theorem minimize_inv_init (E : collaborators) (s : solver) :
    minimize_inv E s.updt_lemma_lvl_set s.updt_lemma_lvl_set :=
  ⟨analysis_frame.same _, rfl, rfl, rfl,
    ⟨[], by simp, fun w hw => Or.inl hw, fun v hv => (by cases hv)⟩, fun w hw => hw⟩

theorem implied_closed_congr (E : collaborators) (hE : E.m_ext = none) {s s1 : solver}
    (hf : analysis_frame s s1) (hm : s1.m_mark = s.m_mark) (X : List bool_var)
    (h : implied_closed E s1 X) : implied_closed E s X := by
  intro v hv
  obtain ⟨h1, h2⟩ := h v hv
  refine ⟨by rw [← hf.justification, ← hf.lvl_var]; exact h1, ?_⟩
  intro a ha
  rw [← min_antecedents_frame E hE hf v] at ha
  have := h2 a ha
  rw [hf.lvl_var] at this
  unfold is_marked at this ⊢
  rw [hm] at this
  exact this

/-- What `minimize_lemma` returns. -/
theorem minimize_lemma_spec (E : collaborators) (hE : E.m_ext = none) (fuel : Nat)
    (s r : solver) (h : minimize_lemma E fuel s = some r) :
    analysis_frame s r ∧ r.m_lit_mark = s.m_lit_mark ∧ r.m_mark.length = s.m_mark.length ∧
    ∃ kept X, r.m_lemma = s.m_lemma.take 1 ++ kept ∧ kept.Sublist (s.m_lemma.drop 1) ∧
      implied_closed E s X ∧ (∀ l ∈ s.m_lemma.drop 1, l ∈ kept ∨ l.var ∈ X) ∧
      r.m_unmark = [] ∧
      (∀ w, r.is_marked w = true → s.is_marked w = true ∧ w ∉ s.m_unmark ∧ w ∉ X) := by
  unfold minimize_lemma at h
  split at h
  · cases h
  · rename_i res hres
    simp only [Option.some.injEq] at h
    subst h
    obtain ⟨hinv, k2, Y, z1, z2, z3, z4⟩ := minimize_lemma_loop_spec E hE fuel
      s.updt_lemma_lvl_set _ _ _ _ (minimize_inv_init E s) hres
    obtain ⟨X, x1, x2, x3⟩ := hinv.unmark
    have hXY : X = Y := by
      have : s.updt_lemma_lvl_set.m_unmark ++ X = s.updt_lemma_lvl_set.m_unmark ++ Y := by
        rw [← x1, ← z3]
      exact List.append_cancel_left this
    subst hXY
    obtain ⟨q1, q2, _, _, _, _, q7, q8⟩ := reset_unmark_spec res.1 0
    refine ⟨(updt_lemma_lvl_set_frame s).trans (hinv.frame.trans ((reset_unmark_frame _ _).trans
      (set_minimized_lemma_frame _ _))), ?_, ?_, k2, X, ?_, z2, ?_, z4, ?_, ?_⟩
    · rw [set_minimized_lemma_m_lit_mark, q7]; exact hinv.lit_mark
    · rw [set_minimized_lemma_m_mark, q1]; exact hinv.mark_len
    · simp only [List.nil_append] at z1
      rw [z1]; rfl
    · exact implied_closed_congr E hE (updt_lemma_lvl_set_frame s) rfl X x3
    · rw [set_minimized_lemma_m_unmark, q2]; simp
    · intro w hw
      have hw1 : (res.1.reset_unmark 0).is_marked w = true := hw
      rw [q8] at hw1
      simp only [List.drop_zero] at hw1
      split at hw1
      · cases hw1
      · rename_i hnot
        have x1a : res.1.m_unmark = s.m_unmark ++ X := x1
        rw [x1a] at hnot
        simp only [List.mem_append, not_or] at hnot
        rcases x2 w hw1 with h1 | h1
        · exact ⟨h1, hnot.1, hnot.2⟩
        · exact absurd h1 hnot.2

/-- `minimize_lemma` returns. -/
theorem minimize_lemma_terminates (E : collaborators) (hE : E.m_ext = none) (s : solver)
    (hwf : ∀ v a, a ∈ min_antecedents E s v → a.var < s.m_mark.length) (fuel : Nat)
    (hfuel : 2 * s.m_mark.length + 2 ≤ fuel) : ∃ r, minimize_lemma E fuel s = some r := by
  have hwf1 : ∀ v a, a ∈ min_antecedents E s.updt_lemma_lvl_set v →
      a.var < s.updt_lemma_lvl_set.m_mark.length := by
    intro v a ha
    rw [min_antecedents_frame E hE (updt_lemma_lvl_set_frame s) v] at ha
    exact hwf v a ha
  obtain ⟨r, hr⟩ := minimize_lemma_loop_terminates E hE s.updt_lemma_lvl_set hwf1 fuel hfuel
    (s.m_lemma.drop 1) s.updt_lemma_lvl_set [] (minimize_inv_init E s)
  unfold minimize_lemma
  rw [hr]
  exact ⟨_, rfl⟩

/-! ## C18: lemma minimisation -/

theorem some_getD_of_isSome {α : Type} (o : Option α) (d : α) (h : o.isSome = true) :
    o = some (o.getD d) := by
  cases o with
  | none => cases h
  | some a => rfl

/-- For any collaborators, the loop of `minimize_lemma` extends `kept` by a
sublist of the literals it was given. -/
theorem minimize_lemma_loop_sublist (E : collaborators) (fuel : Nat) :
    ∀ (xs : List literal) (s : solver) (kept : List literal) (r : solver × List literal),
      minimize_lemma_loop E fuel xs s kept = some r →
      ∃ k2, r.2 = kept ++ k2 ∧ k2.Sublist xs := by
  intro xs
  induction xs with
  | nil =>
    intro s kept r h
    simp only [minimize_lemma_loop, Option.some.injEq] at h
    subst h
    exact ⟨[], by simp, List.Sublist.refl _⟩
  | cons l rest ih =>
    intro s kept r h
    unfold minimize_lemma_loop at h
    split at h
    · cases h
    · obtain ⟨k2, z1, z2⟩ := ih _ _ r h
      exact ⟨k2, z1, List.Sublist.cons _ z2⟩
    · obtain ⟨k2, z1, z2⟩ := ih _ _ r h
      exact ⟨l :: k2, by rw [z1]; simp, List.Sublist.cons₂ _ z2⟩

/-- C18: `minimize_lemma` returns the first literal of the lemma followed by
a sublist `kept` of the other literals, so the survivors keep their order.
Without an extension, the variables of the literals left out belong to a
set `X` of variables that is implied, through the recorded justifications,
by the variables marked at the call (the lemma literals) and the assignments
of level 0: each member of `X` has a justification or is at level 0 (it is
not a decision above level 0), and every antecedent of its justification is
at level 0, marked, or again in `X`; this is what the depth-first search of
`implied_by_marked` establishes when it returns true, and a literal is left
out exactly when it does.  The function returns: when the antecedents of all
justifications are variables of the solver, fuel for two iterations per
variable and two more suffices. -/
theorem C18_minimize_lemma (E : collaborators) (fuel : Nat) (s r : solver)
    (h : s.minimize_lemma E fuel = some r) :
    ∃ kept, r.m_lemma = s.m_lemma.take 1 ++ kept ∧ kept.Sublist (s.m_lemma.drop 1) ∧
      (E.m_ext = none →
        (∃ X, implied_closed E s X ∧ ∀ l ∈ s.m_lemma.drop 1, l ∉ kept → l.var ∈ X) ∧
        ((∀ v a, a ∈ min_antecedents E s v → a.var < s.m_mark.length) →
          ∃ r1, s.minimize_lemma E (2 * s.m_mark.length + 2) = some r1)) := by
  have h0 := h
  unfold minimize_lemma at h0
  split at h0
  · cases h0
  · rename_i res hres
    simp only [Option.some.injEq] at h0
    subst h0
    obtain ⟨k2, z1, z2⟩ := minimize_lemma_loop_sublist E fuel _ _ _ _ hres
    simp only [List.nil_append] at z1
    refine ⟨res.2, rfl, by rw [z1]; exact z2, ?_⟩
    intro hE
    obtain ⟨_, _, _, kept, X, x1, _, x3, x4, _, _⟩ := minimize_lemma_spec E hE fuel s _ h
    have hk : kept = res.2 := by
      have e : s.m_lemma.take 1 ++ kept = s.m_lemma.take 1 ++ res.2 := by rw [← x1]; rfl
      exact List.append_cancel_left e
    subst hk
    refine ⟨⟨X, x3, ?_⟩, fun hwf => minimize_lemma_terminates E hE s hwf _ (Nat.le_refl _)⟩
    intro l hl hnot
    rcases x4 l hl with h1 | h1
    · exact absurd h1 hnot
    · exact h1

/-- C18 at a concrete state: the lemma `¬c ∨ ¬b ∨ ¬a` of `example_lemma`,
where `b` was implied by `a`, is minimised to `¬c ∨ ¬a`. -/
theorem C18_minimize_lemma_witness :
    example_lemma.m_lemma = [⟨5⟩, ⟨3⟩, ⟨1⟩] ∧
    ((example_lemma.minimize_lemma {} 10).getD {}).m_lemma = [⟨5⟩, ⟨1⟩] ∧
    ∃ kept, ((example_lemma.minimize_lemma {} 10).getD {}).m_lemma =
        example_lemma.m_lemma.take 1 ++ kept ∧ kept.Sublist (example_lemma.m_lemma.drop 1) ∧
      (({} : collaborators).m_ext = none →
        (∃ X, implied_closed {} example_lemma X ∧
          ∀ l ∈ example_lemma.m_lemma.drop 1, l ∉ kept → l.var ∈ X) ∧
        ((∀ v a, a ∈ min_antecedents {} example_lemma v → a.var < example_lemma.m_mark.length) →
          ∃ r1, example_lemma.minimize_lemma {} (2 * example_lemma.m_mark.length + 2) = some r1)) :=
  ⟨by decide, by decide,
    C18_minimize_lemma {} 10 example_lemma ((example_lemma.minimize_lemma {} 10).getD {})
      (some_getD_of_isSome _ _ (by decide))⟩

/-! ## Conflict analysis: one antecedent -/

theorem var_lt_of_index_lt (l : literal) (n : Nat) (h : l.index < 2 * n) : l.var < n := by
  unfold literal.index at h
  unfold literal.var
  exact Nat.div_lt_of_lt_mul h

/-- Two literals on the trail with the same variable are the same literal. -/
theorem trail_var_inj (s : solver) (h : assignment_inv s) (l1 l2 : literal)
    (h1 : l1 ∈ s.m_trail) (h2 : l2 ∈ s.m_trail) (hv : l1.var = l2.var) : l1 = l2 := by
  rcases eq_or_eq_neg_of_var_eq l1 l2 hv with e | e
  · exact e
  · have v1 := (h.2.2.1 l1).1 h1
    have v2 := (h.2.2.1 l2).1 h2
    rw [e, value_neg s h.1, v2] at v1
    cases v1

/-- The variable of a trail literal is a variable of the solver. -/
theorem trail_var_lt (s : solver) (h : assignment_inv s) (l : literal) (hl : l ∈ s.m_trail) :
    l.var < s.num_vars := by
  have v1 := (h.2.2.1 l).1 hl
  apply var_lt_of_index_lt
  rw [← h.2.1]
  by_contra hc
  unfold solver.value at v1
  rw [List.getD_eq_default _ _ (Nat.le_of_not_lt hc)] at v1
  cases v1

theorem lvl_neg (s : solver) (l : literal) : s.lvl l.neg = s.lvl l := by
  unfold solver.lvl; rw [var_neg]

/-- The step of `process_antecedent` on the invariant of the analysis loop,
for an antecedent `a` that stands in the part of the trail still to be
scanned. -/
theorem process_antecedent_uip (Γ : (literal → Bool) → Prop) (s0 : solver) (d : Nat)
    (hasg : assignment_inv s0) (hml : s0.m_mark.length = s0.num_vars)
    (hd : s0.m_conflict_lvl = d) (hle : ∀ l ∈ s0.m_trail, s0.lvl l ≤ d)
    (hcompl : ∀ μ, Γ μ → ∀ l : literal, μ l.neg = !μ l)
    (hlevel0 : ∀ μ, Γ μ → ∀ l ∈ s0.m_trail, s0.lvl l = 0 → μ l = true)
    (P : List literal) (hP : ∀ l ∈ P, l ∈ s0.m_trail) (a : literal) (rest : List literal)
    (s : solver) (n : Nat) (h : uip_inv Γ s0 d P (a :: rest) s n) (haP : a ∈ P) :
    uip_inv Γ s0 d P rest (s.process_antecedent a n).1 (s.process_antecedent a n).2 ∧
    (0 < s0.lvl a → (s.process_antecedent a n).1.is_marked a.var = true) ∧
    (∀ w, s.is_marked w = true → (s.process_antecedent a n).1.is_marked w = true) := by
  obtain ⟨M, tail, m1, m2, m3, m4, m5, m6, m7⟩ := h.shape
  have haT : a ∈ s0.m_trail := hP a haP
  have hrange : a.var < s.m_mark.length := by
    rw [h.mark_len, hml]; exact trail_var_lt s0 hasg a haT
  have hlv : s.lvl_var a.var = s0.lvl a := h.frame.lvl_var a.var
  have hcl : s.m_conflict_lvl = d := by rw [h.frame.conflict_lvl, hd]
  unfold process_antecedent
  by_cases hc : (!s.is_marked a.var && decide (s.lvl_var a.var > 0)) = true
  · simp only [Bool.and_eq_true, Bool.not_eq_true', decide_eq_true_eq] at hc
    obtain ⟨hum, hpos⟩ := hc
    have hnotM : a ∉ M := fun hm => by
      have := ((m3 a).1 hm).2.1
      rw [hum] at this; cases this
    have hmk : ∀ w, ((s.mark a.var).process_antecedent_bump a.var).is_marked w
        = if a.var = w then true else s.is_marked w := by
      intro w
      have e : ((s.mark a.var).process_antecedent_bump a.var).is_marked w
          = (s.mark a.var).is_marked w := by
        unfold is_marked; rw [process_antecedent_bump_m_mark]
      rw [e, is_marked_mark]
      by_cases hw : a.var = w
      · subst hw; simp [hrange]
      · simp [hw]
    have hfr : analysis_frame s0 ((s.mark a.var).process_antecedent_bump a.var) :=
      h.frame.trans ((mark_frame s _).trans (process_antecedent_bump_frame _ _))
    have hlen : ((s.mark a.var).process_antecedent_bump a.var).m_mark.length
        = s0.m_mark.length := by
      rw [process_antecedent_bump_m_mark, mark_m_mark_length]; exact h.mark_len
    have hlem : ((s.mark a.var).process_antecedent_bump a.var).m_lemma = null_literal :: tail := by
      rw [process_antecedent_bump_m_lemma, mark_m_lemma]; exact m4
    simp only [hum, hpos, Bool.not_false, decide_True, Bool.and_self, ↓reduceIte]
    by_cases hlvd : s.lvl_var a.var = s.m_conflict_lvl
    · -- a further literal of the conflict level
      simp only [hlvd, ↓reduceIte]
      have hlvd0 : s0.lvl a = d := by rw [← hlv, hlvd, hcl]
      refine ⟨⟨hfr, hlen, a :: M, tail, List.nodup_cons.2 ⟨hnotM, m1⟩, by simp [m2], ?_, hlem,
        ?_, ?_, ?_⟩, fun _ => by rw [hmk]; simp, fun w hw => by rw [hmk]; split <;> simp [hw]⟩
      · intro l
        rw [hmk]
        constructor
        · intro hl
          rcases List.mem_cons.1 hl with e | e
          · subst e; exact ⟨haP, by simp, hlvd0⟩
          · obtain ⟨q1, q2, q3⟩ := (m3 l).1 e
            exact ⟨q1, by simp [q2], q3⟩
        · intro ⟨q1, q2, q3⟩
          by_cases hv : a.var = l.var
          · have : a = l := trail_var_inj s0 hasg a l haT (hP l q1) hv
            simp [this]
          · simp only [hv, ↓reduceIte] at q2
            exact List.mem_cons_of_mem _ ((m3 l).2 ⟨q1, q2, q3⟩)
      · intro t ht
        obtain ⟨q1, q2, q3, q4⟩ := m5 t ht
        exact ⟨q1, q2, q3, by rw [hmk]; split <;> simp [q4]⟩
      · intro v hv
        rw [hmk] at hv
        by_cases hav : a.var = v
        · exact ⟨a, haT, hav, Or.inl (List.mem_cons_self _ _)⟩
        · simp only [hav, ↓reduceIte] at hv
          obtain ⟨l, q1, q2, q3⟩ := m6 v hv
          refine ⟨l, q1, q2, ?_⟩
          rcases q3 with q3 | q3
          · exact Or.inl (List.mem_cons_of_mem _ q3)
          · exact Or.inr q3
      · intro μ hμ
        rcases m7 μ hμ with q | q | q
        · exact Or.inl q
        · obtain ⟨l, q1, q2⟩ := q
          exact Or.inr (Or.inl ⟨l, List.mem_cons_of_mem _ q1, q2⟩)
        · obtain ⟨b, q1, q2⟩ := q
          rcases List.mem_cons.1 q1 with e | e
          · subst e
            exact Or.inr (Or.inl ⟨b, List.mem_cons_self _ _, q2⟩)
          · exact Or.inr (Or.inr ⟨b, e, q2⟩)
    · -- a literal of a lower level goes to the lemma
      simp only [hlvd, ↓reduceIte]
      have hlt : s0.lvl a < d := by
        have h1 := hle a haT
        have h2 : s0.lvl a ≠ d := fun e => hlvd (by rw [hlv, e, hcl])
        omega
      have hmk2 : ∀ w, (((s.mark a.var).process_antecedent_bump a.var).push_lemma
          a.neg).is_marked w = if a.var = w then true else s.is_marked w := hmk
      refine ⟨⟨hfr.trans (push_lemma_frame _ _), hlen, M, tail ++ [a.neg], m1, m2, ?_, ?_,
        ?_, ?_, ?_⟩, fun _ => by rw [hmk2]; simp, fun w hw => by rw [hmk2]; split <;> simp [hw]⟩
      · intro l
        rw [hmk2]
        constructor
        · intro hl
          obtain ⟨q1, q2, q3⟩ := (m3 l).1 hl
          exact ⟨q1, by simp [q2], q3⟩
        · intro ⟨q1, q2, q3⟩
          by_cases hv : a.var = l.var
          · have : a = l := trail_var_inj s0 hasg a l haT (hP l q1) hv
            rw [← this] at q3
            omega
          · simp only [hv, ↓reduceIte] at q2
            exact (m3 l).2 ⟨q1, q2, q3⟩
      · show ((s.mark a.var).process_antecedent_bump a.var).m_lemma ++ [a.neg] = _
        rw [hlem]; rfl
      · intro t ht
        rcases List.mem_append.1 ht with e | e
        · obtain ⟨q1, q2, q3, q4⟩ := m5 t e
          exact ⟨q1, q2, q3, by rw [hmk2]; split <;> simp [q4]⟩
        · simp only [List.mem_singleton] at e
          subst e
          refine ⟨by rw [literal_neg_neg]; exact haT, by rw [lvl_neg, ← hlv]; exact hpos,
            by rw [lvl_neg]; exact hlt, by rw [hmk2, var_neg]; simp⟩
      · intro v hv
        rw [hmk2] at hv
        by_cases hav : a.var = v
        · exact ⟨a, haT, hav, Or.inr (by simp)⟩
        · simp only [hav, ↓reduceIte] at hv
          obtain ⟨l, q1, q2, q3⟩ := m6 v hv
          refine ⟨l, q1, q2, ?_⟩
          rcases q3 with q3 | q3
          · exact Or.inl q3
          · exact Or.inr (by simp [q3])
      · intro μ hμ
        rcases m7 μ hμ with q | q | q
        · obtain ⟨t, q1, q2⟩ := q
          exact Or.inl ⟨t, by simp [q1], q2⟩
        · exact Or.inr (Or.inl q)
        · obtain ⟨b, q1, q2⟩ := q
          rcases List.mem_cons.1 q1 with e | e
          · subst e
            exact Or.inl ⟨b.neg, by simp, by rw [hcompl μ hμ, q2]; rfl⟩
          · exact Or.inr (Or.inr ⟨b, e, q2⟩)
  · -- the antecedent is skipped
    simp only [hc, Bool.false_eq_true, ↓reduceIte]
    have hc1 : s.is_marked a.var = true ∨ s0.lvl a = 0 := by
      cases hm : s.is_marked a.var with
      | true => exact Or.inl rfl
      | false =>
        right
        simp only [hm, Bool.not_false, Bool.true_and, decide_eq_true_eq] at hc
        rw [← hlv]; omega
    refine ⟨⟨h.frame, h.mark_len, M, tail, m1, m2, m3, m4, m5, m6, ?_⟩, ?_, fun w hw => hw⟩
    · intro μ hμ
      rcases m7 μ hμ with q | q | q
      · exact Or.inl q
      · exact Or.inr (Or.inl q)
      · obtain ⟨b, q1, q2⟩ := q
        rcases List.mem_cons.1 q1 with e | e
        · subst e
          rcases hc1 with hm | hz
          · obtain ⟨l, r1, r2, r3⟩ := m6 _ hm
            have : l = b := trail_var_inj s0 hasg l b r1 haT r2
            subst this
            rcases r3 with r3 | r3
            · exact Or.inr (Or.inl ⟨l, r3, q2⟩)
            · exact Or.inl ⟨l.neg, r3, by rw [hcompl μ hμ, q2]; rfl⟩
          · have := hlevel0 μ hμ b haT hz
            rw [q2] at this; cases this
        · exact Or.inr (Or.inr ⟨b, e, q2⟩)
    · intro hpos
      rcases hc1 with hm | hz
      · exact hm
      · omega

/-- A run of `process_antecedent` over antecedents that stand in the part of
the trail still to be scanned. -/
theorem process_antecedents_uip (Γ : (literal → Bool) → Prop) (s0 : solver) (d : Nat)
    (hasg : assignment_inv s0) (hml : s0.m_mark.length = s0.num_vars)
    (hd : s0.m_conflict_lvl = d) (hle : ∀ l ∈ s0.m_trail, s0.lvl l ≤ d)
    (hcompl : ∀ μ, Γ μ → ∀ l : literal, μ l.neg = !μ l)
    (hlevel0 : ∀ μ, Γ μ → ∀ l ∈ s0.m_trail, s0.lvl l = 0 → μ l = true)
    (P : List literal) (hP : ∀ l ∈ P, l ∈ s0.m_trail) :
    ∀ (xs : List literal) (s : solver) (n : Nat), uip_inv Γ s0 d P xs s n →
      (∀ a ∈ xs, a ∈ P) →
      uip_inv Γ s0 d P [] (s.process_antecedents xs n).1 (s.process_antecedents xs n).2 ∧
      (∀ a ∈ xs, 0 < s0.lvl a → (s.process_antecedents xs n).1.is_marked a.var = true) ∧
      (∀ w, s.is_marked w = true → (s.process_antecedents xs n).1.is_marked w = true) := by
  intro xs
  induction xs with
  | nil => intro s n h _; exact ⟨h, fun a ha => (by cases ha), fun w hw => hw⟩
  | cons a rest ih =>
    intro s n h hin
    obtain ⟨h1, h2, h3⟩ := process_antecedent_uip Γ s0 d hasg hml hd hle hcompl hlevel0 P hP a
      rest s n h (hin a (List.mem_cons_self _ _))
    obtain ⟨g1, g2, g3⟩ := ih _ _ h1 (fun b hb => hin b (List.mem_cons_of_mem _ hb))
    have e : s.process_antecedents (a :: rest) n =
        (s.process_antecedent a n).1.process_antecedents rest (s.process_antecedent a n).2 := rfl
    rw [e]
    refine ⟨g1, ?_, fun w hw => g3 w (h3 w hw)⟩
    intro b hb hpos
    rcases List.mem_cons.1 hb with e1 | e1
    · subst e1; exact g3 _ (h2 hpos)
    · exact g2 b e1 hpos

/-! ## Conflict analysis: the loop of `resolve_conflict_core` -/

theorem conflict_antecedents_frame (E : collaborators) (hE : E.m_ext = none) {s s1 : solver}
    (h : analysis_frame s s1) (c : literal) (js : justification) :
    conflict_antecedents (fill_antecedents E s1 c js) c js =
      conflict_antecedents (fill_antecedents E s c js) c js := by
  cases js with
  | none => rfl
  | binary l => rfl
  | ternary l1 l2 => rfl
  | clause off =>
    simp only [fill_antecedents, conflict_antecedents]
    rw [h.get_clause]
  | ext_justification idx =>
    simp [fill_antecedents, conflict_antecedents, fill_ext_antecedents, hE]

theorem reason_antecedents_frame (E : collaborators) (hE : E.m_ext = none) {s s1 : solver}
    (h : analysis_frame s s1) (l : literal) :
    reason_antecedents E s1 l = reason_antecedents E s l := by
  unfold reason_antecedents
  rw [h.justification]
  exact conflict_antecedents_frame E hE h l _

theorem uip_inv_of_frame {Γ : (literal → Bool) → Prop} {s0 : solver} {d : Nat}
    {P pending : List literal} {s s1 : solver} {n : Nat} (h : uip_inv Γ s0 d P pending s n)
    (hf : analysis_frame s s1) (hm : s1.m_mark = s.m_mark) (hl : s1.m_lemma = s.m_lemma) :
    uip_inv Γ s0 d P pending s1 n := by
  have hmk : ∀ v, s1.is_marked v = s.is_marked v := by
    intro v; unfold is_marked; rw [hm]
  obtain ⟨M, tail, m1, m2, m3, m4, m5, m6, m7⟩ := h.shape
  refine ⟨h.frame.trans hf, by rw [hm]; exact h.mark_len, M, tail, m1, m2, ?_, by rw [hl]; exact m4,
    ?_, ?_, m7⟩
  · intro l; rw [hmk]; exact m3 l
  · intro t ht; rw [hmk]; exact m5 t ht
  · intro v hv; rw [hmk] at hv; exact m6 v hv

theorem process_antecedent_counter_le (s : solver) (a : literal) (n : Nat) :
    n ≤ (s.process_antecedent a n).2 := by
  unfold process_antecedent
  split
  · split
    · simp
    · simp
  · simp

theorem process_antecedents_counter_le (xs : List literal) (s : solver) (n : Nat) :
    n ≤ (s.process_antecedents xs n).2 := by
  induction xs generalizing s n with
  | nil => exact Nat.le_refl _
  | cons a rest ih =>
    have e : s.process_antecedents (a :: rest) n =
        (s.process_antecedent a n).1.process_antecedents rest (s.process_antecedent a n).2 := rfl
    rw [e]
    exact Nat.le_trans (process_antecedent_counter_le s a n) (ih _ _)

/-- `process_justification` on the invariant of the analysis loop, for a
justification whose antecedents stand in the part of the trail still to be
scanned. -/
theorem process_justification_uip (E : collaborators) (hE : E.m_ext = none)
    (Γ : (literal → Bool) → Prop) (s0 : solver) (d : Nat)
    (hasg : assignment_inv s0) (hml : s0.m_mark.length = s0.num_vars)
    (hd : s0.m_conflict_lvl = d) (hle : ∀ l ∈ s0.m_trail, s0.lvl l ≤ d)
    (hcompl : ∀ μ, Γ μ → ∀ l : literal, μ l.neg = !μ l)
    (hlevel0 : ∀ μ, Γ μ → ∀ l ∈ s0.m_trail, s0.lvl l = 0 → μ l = true)
    (P : List literal) (hP : ∀ l ∈ P, l ∈ s0.m_trail) (c : literal) (js : justification)
    (s : solver) (n : Nat)
    (h : uip_inv Γ s0 d P (conflict_antecedents (fill_antecedents E s0 c js) c js) s n)
    (hin : ∀ a ∈ conflict_antecedents (fill_antecedents E s0 c js) c js, a ∈ P) :
    uip_inv Γ s0 d P [] (process_justification E s c js n).1 (process_justification E s c js n).2 ∧
    n ≤ (process_justification E s c js n).2 ∧
    (∀ a ∈ conflict_antecedents (fill_antecedents E s0 c js) c js, 0 < s0.lvl a →
      (process_justification E s c js n).1.is_marked a.var = true) ∧
    (∀ w, s.is_marked w = true → (process_justification E s c js n).1.is_marked w = true) := by
  unfold process_justification
  have hff := fill_antecedents_frame E s c js
  have e1 : conflict_antecedents (fill_antecedents E (fill_antecedents E s c js) c js) c js =
      conflict_antecedents (fill_antecedents E s c js) c js :=
    conflict_antecedents_frame E hE hff c js
  have e2 : conflict_antecedents (fill_antecedents E s c js) c js =
      conflict_antecedents (fill_antecedents E s0 c js) c js :=
    conflict_antecedents_frame E hE h.frame c js
  have e3 : (fill_antecedents E s c js).conflict_antecedents c js =
      conflict_antecedents (fill_antecedents E s0 c js) c js := by
    rw [← e2]
  rw [e3]
  have h1 := uip_inv_of_frame h hff (by simp) (by simp)
  obtain ⟨g1, g2, g3⟩ := process_antecedents_uip Γ s0 d hasg hml hd hle hcompl hlevel0 P hP _ _ _
    h1 hin
  refine ⟨g1, process_antecedents_counter_le _ _ _, g2, fun w hw => g3 w ?_⟩
  unfold is_marked at hw ⊢
  rw [fill_antecedents_m_mark]
  exact hw

theorem is_marked_reset_mark_self (s : solver) (v : bool_var) :
    (s.reset_mark v).is_marked v = false := by
  rw [is_marked_reset_mark]; simp

theorem conflict_inv.reasons_split {E : collaborators} {s : solver} {d : Nat}
    (h : conflict_inv E s d) (pre : List literal) (l : literal) (post : List literal)
    (hT : s.m_trail = pre ++ l :: post) : ∀ a ∈ reason_antecedents E s l, a ∈ pre := by
  intro a ha
  have h1 := h.reasons pre.length (by rw [hT]; simp)
  have e1 : s.m_trail.getD pre.length null_literal = l := by
    rw [hT, List.getD_eq_getElem?_getD, List.getElem?_append_right (Nat.le_refl _)]
    simp
  have e2 : s.m_trail.take pre.length = pre := by
    rw [hT]; simp
  rw [e1, e2] at h1
  exact h1 a ha

theorem conflict_inv.is_unmarked {E : collaborators} {s : solver} {d : Nat}
    (h : conflict_inv E s d) (v : bool_var) : s.is_marked v = false := by
  unfold is_marked
  by_cases hv : v < s.m_mark.length
  · rw [List.getD_eq_getElem _ _ hv]
    exact h.unmarked _ (List.getElem_mem _)
  · exact List.getD_eq_default _ _ (Nat.le_of_not_lt hv)

/-- The analysis loop returns the first unique implication point: a trail
literal `u` of level `d`, with the lemma tail collected so far. -/
theorem resolve_conflict_loop_uip (E : collaborators) (hE : E.m_ext = none)
    (Γ : (literal → Bool) → Prop) (s0 : solver) (d : Nat)
    (hinv : conflict_inv E s0 d) (hd : s0.m_conflict_lvl = d) (hsound : sound_inv E Γ s0 d) :
    ∀ (xs Q : List literal) (s : solver) (n : Nat), s0.m_trail = xs.reverse ++ Q →
      uip_inv Γ s0 d xs.reverse [] s n → 1 ≤ n →
      ∃ s1 u tail, resolve_conflict_loop E xs s n = some (s1, u) ∧
        analysis_frame s0 s1 ∧ s1.m_mark.length = s0.m_mark.length ∧
        u ∈ s0.m_trail ∧ s0.lvl u = d ∧ s1.m_lemma = null_literal :: tail ∧
        (∀ t ∈ tail, t.neg ∈ s0.m_trail ∧ 0 < s0.lvl t ∧ s0.lvl t < d ∧
          s1.is_marked t.var = true) ∧
        (∀ v, s1.is_marked v = true → ∃ t ∈ tail, t.var = v) ∧
        (∀ μ, Γ μ → (∃ t ∈ tail, μ t = true) ∨ μ u = false) := by
  intro xs
  induction xs with
  | nil =>
    intro Q s n _ h hn
    obtain ⟨M, tail, m1, m2, m3, _⟩ := h.shape
    cases M with
    | nil => simp at m2; omega
    | cons m M => have := ((m3 m).1 (List.mem_cons_self _ _)).1; simp at this
  | cons l rest ih =>
    intro Q s n hT h hn
    obtain ⟨M, tail, m1, m2, m3, m4, m5, m6, m7⟩ := h.shape
    have hT1 : s0.m_trail = rest.reverse ++ l :: Q := by
      rw [hT]; simp
    have hnd : s0.m_trail.Nodup := hinv.asg.2.2.2
    have hlT : l ∈ s0.m_trail := by rw [hT1]; simp
    have hrestT : ∀ x ∈ rest.reverse, x ∈ s0.m_trail := by
      intro x hx; rw [hT1]; simp [List.mem_reverse.1 hx]
    have hPT : ∀ x ∈ (l :: rest).reverse, x ∈ s0.m_trail := by
      intro x hx; rw [hT]; exact List.mem_append_left _ hx
    have hlnot : l ∉ rest.reverse := by
      intro hc
      rw [hT1] at hnd
      have := (List.nodup_append.1 hnd).2.2
      exact this hc (List.mem_cons_self _ _) 
    have hbefore : ∀ x ∈ rest.reverse, s0.lvl x ≤ s0.lvl l := by
      intro x hx
      have hp := hinv.level_mono
      rw [hT1, List.pairwise_append] at hp
      exact hp.2.2 x hx l (List.mem_cons_self _ _)
    unfold resolve_conflict_loop
    by_cases hmk : s.is_marked l.var = true
    · simp only [hmk, ↓reduceIte]
      -- the marked literal is one of the conflict level
      have hlM : l ∈ M := by
        obtain ⟨l1, q1, q2, q3⟩ := m6 _ hmk
        have : l1 = l := trail_var_inj s0 hinv.asg l1 l q1 hlT q2
        subst this
        rcases q3 with q3 | q3
        · exact q3
        · exfalso
          have hlt := (m5 _ q3).2.2.1
          rw [lvl_neg] at hlt
          cases M with
          | nil => simp at m2; omega
          | cons m M1 =>
            obtain ⟨r1, _, r3⟩ := (m3 m).1 (List.mem_cons_self _ _)
            rcases List.mem_reverse.1 r1 with _ | ⟨_, r4⟩
            · omega
            · have := hbefore m (List.mem_reverse.2 r4)
              omega
      have hld : s0.lvl l = d := ((m3 l).1 hlM).2.2
      have hnle : n ≤ s0.m_trail.length := by
        rw [← m2]
        apply List.Subperm.length_le
        apply List.subperm_of_subset m1
        intro x hx
        exact hPT x ((m3 x).1 hx).1
      have hTl := hinv.trail_len
      have hnm : (n + 4294967295) % 4294967296 = n - 1 := by omega
      rw [hnm]
      -- the state after the mark of `l` is cleared
      have hmk' : ∀ w, (s.reset_mark l.var).is_marked w
          = if l.var = w then false else s.is_marked w := is_marked_reset_mark s l.var
      have hM1 : (M.erase l).Nodup := m1.erase l
      have hM2 : (M.erase l).length = n - 1 := by
        rw [List.length_erase_of_mem hlM, m2]
      have hM3 : ∀ x, x ∈ M.erase l ↔ (x ∈ rest.reverse ∧ (s.reset_mark l.var).is_marked x.var = true
          ∧ s0.lvl x = d) := by
        intro x
        rw [m1.mem_erase_iff, hmk']
        constructor
        · intro ⟨q1, q2⟩
          obtain ⟨r1, r2, r3⟩ := (m3 x).1 q2
          have hx : x ∈ rest.reverse := by
            rcases List.mem_reverse.1 r1 with _ | ⟨_, r4⟩
            · exact absurd rfl q1
            · exact List.mem_reverse.2 r4
          have hv : l.var ≠ x.var := fun e =>
            q1 (trail_var_inj s0 hinv.asg x l (hrestT x hx) hlT e.symm)
          exact ⟨hx, by simp [hv, r2], r3⟩
        · intro ⟨q1, q2, q3⟩
          have hne : x ≠ l := fun e => hlnot (e ▸ q1)
          refine ⟨hne, (m3 x).2 ⟨?_, ?_, q3⟩⟩
          · exact List.mem_reverse.2 (List.mem_cons_of_mem _ (List.mem_reverse.1 q1))
          · split at q2
            · cases q2
            · exact q2
      have htail : ∀ t ∈ tail, t.neg ∈ s0.m_trail ∧ 0 < s0.lvl t ∧ s0.lvl t < d ∧
          (s.reset_mark l.var).is_marked t.var = true := by
        intro t ht
        obtain ⟨q1, q2, q3, q4⟩ := m5 t ht
        refine ⟨q1, q2, q3, ?_⟩
        rw [hmk']
        have hv : l.var ≠ t.var := by
          intro e
          have : t.neg = l := trail_var_inj s0 hinv.asg t.neg l q1 hlT (by rw [var_neg, e])
          rw [← this, lvl_neg] at hld
          omega
        simp [hv, q4]
      have hmarked : ∀ v, (s.reset_mark l.var).is_marked v = true →
          ∃ x ∈ s0.m_trail, x.var = v ∧ (x ∈ M.erase l ∨ x.neg ∈ tail) := by
        intro v hv
        rw [hmk'] at hv
        split at hv
        · cases hv
        · rename_i hne
          obtain ⟨x, q1, q2, q3⟩ := m6 v hv
          refine ⟨x, q1, q2, ?_⟩
          rcases q3 with q3 | q3
          · left
            rw [m1.mem_erase_iff]
            exact ⟨fun e => hne (by rw [← q2, e]), q3⟩
          · exact Or.inr q3
      by_cases hpos : n - 1 > 0
      · simp only [hpos, ↓reduceIte]
        -- `l` has a justification: a decision is the first of its level
        have hjs0 : s.m_justification.getD l.var .none = s0.m_justification.getD l.var .none := by
          rw [h.frame.justification]
        have hsnd : ∀ μ, Γ μ → (∃ t ∈ tail, μ t = true) ∨ (∃ x ∈ M.erase l, μ x = false) ∨
            (∃ a ∈ reason_antecedents E s0 l, μ a = false) := by
          intro μ hμ
          rcases m7 μ hμ with q | q | q
          · exact Or.inl q
          · obtain ⟨x, q1, q2⟩ := q
            by_cases hx : x = l
            · subst hx
              have hjs : s0.m_justification.getD x.var .none ≠ .none := by
                intro hj
                have hdf := hsound.decision_first ⟨μ, hμ⟩ _ _ _ hT1 hj hld
                have hne : M.erase x ≠ [] := by
                  intro e
                  rw [e] at hM2
                  simp at hM2
                  omega
                obtain ⟨y, hy⟩ := List.exists_mem_of_ne_nil _ hne
                obtain ⟨r1, _, r3⟩ := (hM3 y).1 hy
                have := hdf y r1
                omega
              rcases hsound.reason μ hμ x hlT hjs with r | r
              · rw [q2] at r; cases r
              · exact Or.inr (Or.inr r)
            · exact Or.inr (Or.inl ⟨x, (m1.mem_erase_iff).2 ⟨hx, q1⟩, q2⟩)
          · obtain ⟨a, q1, _⟩ := q
            cases q1
        have hinv1 : uip_inv Γ s0 d rest.reverse
            (conflict_antecedents (fill_antecedents E s0 l (s.m_justification.getD l.var .none)) l
              (s.m_justification.getD l.var .none)) (s.reset_mark l.var) (n - 1) := by
          refine ⟨h.frame.trans (reset_mark_frame s _), by
            rw [reset_mark_m_mark_length]; exact h.mark_len, M.erase l, tail, hM1, hM2, hM3,
            by rw [reset_mark_m_lemma]; exact m4, htail, hmarked, ?_⟩
          rw [hjs0]
          exact hsnd
        have hin : ∀ a ∈ conflict_antecedents
            (fill_antecedents E s0 l (s.m_justification.getD l.var .none)) l
              (s.m_justification.getD l.var .none), a ∈ rest.reverse := by
          rw [hjs0]
          exact hinv.reasons_split _ _ _ hT1
        obtain ⟨g1, g2, _, _⟩ := process_justification_uip E hE Γ s0 d hinv.asg hinv.mark_len hd
          hinv.level_le hsound.compl hsound.level0 rest.reverse hrestT l
          (s.m_justification.getD l.var .none) (s.reset_mark l.var) (n - 1) hinv1 hin
        exact ih (l :: Q) _ _ hT1 g1 (by omega)
      · -- `l` is the first unique implication point
        simp only [hpos, ↓reduceIte]
        have hn1 : n = 1 := by omega
        have hMe : M.erase l = [] := by
          apply List.eq_nil_of_length_eq_zero
          rw [hM2]; omega
        refine ⟨s.reset_mark l.var, l, tail, rfl, h.frame.trans (reset_mark_frame s _), by
          rw [reset_mark_m_mark_length]; exact h.mark_len, hlT, hld,
          by rw [reset_mark_m_lemma]; exact m4, htail, ?_, ?_⟩
        · intro v hv
          obtain ⟨x, q1, q2, q3⟩ := hmarked v hv
          rcases q3 with q3 | q3
          · rw [hMe] at q3; cases q3
          · exact ⟨x.neg, q3, by rw [var_neg]; exact q2⟩
        · intro μ hμ
          rcases m7 μ hμ with q | q | q
          · exact Or.inl q
          · obtain ⟨x, q1, q2⟩ := q
            by_cases hx : x = l
            · subst hx; exact Or.inr q2
            · have : x ∈ M.erase l := (m1.mem_erase_iff).2 ⟨hx, q1⟩
              rw [hMe] at this; cases this
          · obtain ⟨a, q1, _⟩ := q
            cases q1
    · -- an unmarked literal is skipped
      simp only [hmk, Bool.false_eq_true, ↓reduceIte]
      have hmkf : s.is_marked l.var = false := by simpa using hmk
      have hinv1 : uip_inv Γ s0 d rest.reverse [] s n := by
        refine ⟨h.frame, h.mark_len, M, tail, m1, m2, ?_, m4, m5, m6, m7⟩
        intro x
        rw [m3 x]
        constructor
        · intro ⟨q1, q2, q3⟩
          refine ⟨?_, q2, q3⟩
          rcases List.mem_reverse.1 q1 with _ | ⟨_, r4⟩
          · rw [hmkf] at q2; cases q2
          · exact List.mem_reverse.2 r4
        · intro ⟨q1, q2, q3⟩
          exact ⟨List.mem_reverse.2 (List.mem_cons_of_mem _ (List.mem_reverse.1 q1)), q2, q3⟩
      exact ih (l :: Q) s n hT1 hinv1 hn

/-! ## Conflict analysis: the lemma of `resolve_conflict_core` -/

theorem skip_literals_eq (s : solver) (h : ∀ l ∈ s.m_trail, s.lvl l ≤ s.m_conflict_lvl) :
    s.skip_literals_above_conflict_level = s.m_trail.reverse := by
  unfold skip_literals_above_conflict_level
  have key : ∀ xs : List literal, (∀ l ∈ xs, s.lvl l ≤ s.m_conflict_lvl) →
      xs.dropWhile (fun l => decide (s.lvl l > s.m_conflict_lvl)) = xs := by
    intro xs hx
    cases xs with
    | nil => rfl
    | cons a r =>
      have := hx a (List.mem_cons_self _ _)
      rw [List.dropWhile_cons]
      have e : decide (s.lvl a > s.m_conflict_lvl) = false := by
        simp only [decide_eq_false_iff_not]; omega
      rw [e]
      rfl
  exact key _ (fun l hl => h l (List.mem_reverse.1 hl))

theorem conflict_antecedents_congr (E : collaborators) (hE : E.m_ext = none) (s s1 : solver)
    (har : s1.m_cls_allocator = s.m_cls_allocator) (c : literal) (js : justification) :
    conflict_antecedents (fill_antecedents E s1 c js) c js =
      conflict_antecedents (fill_antecedents E s c js) c js := by
  cases js with
  | none => rfl
  | binary l => rfl
  | ternary l1 l2 => rfl
  | clause off =>
    simp only [fill_antecedents, conflict_antecedents, solver.get_clause, har]
  | ext_justification idx =>
    simp [fill_antecedents, conflict_antecedents, fill_ext_antecedents, hE]

/-- The invariant of a conflict state only reads the assignment, the levels,
the justifications, the trail, the clauses, the marks and the conflict. -/
theorem conflict_inv_congr (E : collaborators) (hE : E.m_ext = none) (s s1 : solver) (d : Nat)
    (ha : s1.m_assignment = s.m_assignment) (hl : s1.m_level = s.m_level)
    (hj : s1.m_justification = s.m_justification) (ht : s1.m_trail = s.m_trail)
    (har : s1.m_cls_allocator = s.m_cls_allocator) (hn : s1.m_not_l = s.m_not_l)
    (hc : s1.m_conflict = s.m_conflict) (hm : s1.m_mark = s.m_mark)
    (h : conflict_inv E s d) : conflict_inv E s1 d := by
  have hlvl : ∀ l, s1.lvl l = s.lvl l := by
    intro l; unfold solver.lvl solver.lvl_var; rw [hl]
  have hra : ∀ l, reason_antecedents E s1 l = reason_antecedents E s l := by
    intro l
    unfold reason_antecedents
    rw [hj]
    exact conflict_antecedents_congr E hE s s1 har l _
  have hfc : s1.first_consequent = s.first_consequent := by
    unfold first_consequent; rw [hn]
  have hca : conflict_clause_antecedents E s1 = conflict_clause_antecedents E s := by
    unfold conflict_clause_antecedents
    rw [hn, hc, hfc, conflict_antecedents_congr E hE s s1 har]
  refine ⟨assignment_inv_frame s s1 h.asg ha (by rw [hl]) ht, by rw [ht]; exact h.trail_len, ?_, ?_,
    ?_, by rw [hm]; exact h.unmarked, ?_, ?_, ?_⟩
  · intro l hl1; rw [hlvl]; exact h.level_le l (by rw [← ht]; exact hl1)
  · rw [ht]
    exact h.level_mono.imp (fun {a b} hab => by rw [hlvl, hlvl]; exact hab)
  · rw [hm]
    show _ = s1.m_level.length
    rw [hl]; exact h.mark_len
  · intro i hi a ha1
    rw [ht] at hi ha1 ⊢
    rw [hra] at ha1
    exact h.reasons i hi a ha1
  · intro a ha1
    rw [hca] at ha1; rw [ht]; exact h.conflict_true a ha1
  · obtain ⟨a, q1, q2⟩ := h.conflict_level
    exact ⟨a, by rw [hca]; exact q1, by rw [hlvl]; exact q2⟩

/-- The built-in analysis of `resolve_conflict_core` on a state that
satisfies the invariant, with a conflict at level `d ≥ 1`: it returns, the
lemma is the negation of a trail literal `u` of level `d` followed by
literals that are false and assigned between level 0 and level `d`, the
marked variables are those of these literals, and every valuation of `Γ`
satisfies the lemma. -/
theorem resolve_conflict_analysis_spec (E : collaborators) (hE : E.m_ext = none)
    (Γ : (literal → Bool) → Prop) (s : solver) (d : Nat) (hinv : conflict_inv E s d)
    (hd : s.m_conflict_lvl = d) (hd1 : 1 ≤ d) (hsound : sound_inv E Γ s d) :
    ∃ s1 u tail, resolve_conflict_analysis E s = some s1 ∧ analysis_frame s s1 ∧
      s1.m_mark.length = s.m_mark.length ∧ u ∈ s.m_trail ∧ s.lvl u = d ∧
      s1.m_lemma = u.neg :: tail ∧
      (∀ t ∈ tail, t.neg ∈ s.m_trail ∧ 0 < s.lvl t ∧ s.lvl t < d ∧
        s1.is_marked t.var = true) ∧
      (∀ v, s1.is_marked v = true → ∃ t ∈ tail, t.var = v) ∧
      (∀ μ, Γ μ → ∃ t ∈ u.neg :: tail, μ t = true) := by
  have hPT : ∀ l ∈ s.m_trail, l ∈ s.m_trail := fun l hl => hl
  have h0 : uip_inv Γ s d s.m_trail (conflict_clause_antecedents E s) s.init_lemma 0 := by
    refine ⟨init_lemma_frame s, rfl, [], [], List.nodup_nil, rfl, ?_, rfl,
      fun t ht => (by cases ht), ?_, ?_⟩
    · intro l
      constructor
      · intro hl; cases hl
      · intro ⟨_, q2, _⟩
        have : s.is_marked l.var = false := hinv.is_unmarked _
        have q2a : s.is_marked l.var = true := q2
        rw [this] at q2a; cases q2a
    · intro v hv
      have : s.is_marked v = false := hinv.is_unmarked _
      have hva : s.is_marked v = true := hv
      rw [this] at hva; cases hva
    · intro μ hμ
      exact Or.inr (Or.inr (hsound.conflict μ hμ))
  -- the antecedents of the conflict
  have hstep : uip_inv Γ s d s.m_trail [] (process_conflict E s.init_lemma).1
      (process_conflict E s.init_lemma).2 ∧
      (∀ a ∈ conflict_clause_antecedents E s, 0 < s.lvl a →
        (process_conflict E s.init_lemma).1.is_marked a.var = true) := by
    unfold process_conflict process_not_l
    have e1 : s.init_lemma.m_not_l = s.m_not_l := rfl
    have e2 : s.init_lemma.first_consequent = s.first_consequent := rfl
    have e3 : s.init_lemma.m_conflict = s.m_conflict := rfl
    rw [e1, e2, e3]
    by_cases hn : s.m_not_l ≠ null_literal
    · simp only [hn, ne_eq, not_false_eq_true, ↓reduceIte]
      have hcc : conflict_clause_antecedents E s = s.m_not_l ::
          conflict_antecedents (fill_antecedents E s s.first_consequent s.m_conflict)
            s.first_consequent s.m_conflict := by
        unfold conflict_clause_antecedents
        simp [hn]
      rw [hcc] at h0
      have hct := hinv.conflict_true
      rw [hcc] at hct
      obtain ⟨g1, g2, g3⟩ := process_antecedent_uip Γ s d hinv.asg hinv.mark_len hd
        hinv.level_le hsound.compl hsound.level0 s.m_trail hPT s.m_not_l _ s.init_lemma 0 h0
        (hct _ (List.mem_cons_self _ _))
      obtain ⟨k1, _, k3, k4⟩ := process_justification_uip E hE Γ s d hinv.asg hinv.mark_len hd
        hinv.level_le hsound.compl hsound.level0 s.m_trail hPT s.first_consequent s.m_conflict
        _ _ g1 (fun a ha => hct a (List.mem_cons_of_mem _ ha))
      refine ⟨k1, ?_⟩
      rw [hcc]
      intro a ha hpos
      rcases List.mem_cons.1 ha with e | e
      · subst e; exact k4 _ (g2 hpos)
      · exact k3 a e hpos
    · simp only [hn, ↓reduceIte]
      have hcc : conflict_clause_antecedents E s =
          conflict_antecedents (fill_antecedents E s s.first_consequent s.m_conflict)
            s.first_consequent s.m_conflict := by
        unfold conflict_clause_antecedents
        simp [hn]
      rw [hcc] at h0
      have hct := hinv.conflict_true
      rw [hcc] at hct
      obtain ⟨k1, _, k3, _⟩ := process_justification_uip E hE Γ s d hinv.asg hinv.mark_len hd
        hinv.level_le hsound.compl hsound.level0 s.m_trail hPT s.first_consequent s.m_conflict
        _ _ h0 hct
      refine ⟨k1, ?_⟩
      rw [hcc]
      exact k3
  obtain ⟨hu, hmarked⟩ := hstep
  -- one of them is at the conflict level
  have hn1 : 1 ≤ (process_conflict E s.init_lemma).2 := by
    obtain ⟨M, tail, m1, m2, m3, _⟩ := hu.shape
    obtain ⟨a, q1, q2⟩ := hinv.conflict_level
    have : a ∈ M := (m3 a).2 ⟨hinv.conflict_true a q1, hmarked a q1 (by omega), q2⟩
    rw [← m2]
    exact List.length_pos_of_mem this
  have hskip : s.skip_literals_above_conflict_level = s.m_trail.reverse :=
    skip_literals_eq s (by rw [hd]; exact hinv.level_le)
  obtain ⟨s1, u, tail, r1, r2, r3, r4, r5, r6, r7, r8, r9⟩ :=
    resolve_conflict_loop_uip E hE Γ s d hinv hd hsound s.m_trail.reverse [] _ _ (by simp)
      (by rw [List.reverse_reverse]; exact hu) hn1
  refine ⟨s1.set_lemma_head u.neg, u, tail, ?_, r2.trans (set_lemma_head_frame _ _), r3, r4, r5, ?_,
    r7, r8, ?_⟩
  · unfold resolve_conflict_analysis
    rw [hskip, r1]
  · show s1.m_lemma.set 0 u.neg = _
    rw [r6]; rfl
  · intro μ hμ
    rcases r9 μ hμ with q | q
    · obtain ⟨t, q1, q2⟩ := q
      exact ⟨t, List.mem_cons_of_mem _ q1, q2⟩
    · exact ⟨u.neg, List.mem_cons_self _ _, by rw [hsound.compl μ hμ, q]; rfl⟩

/-! ## C14: the shape of the first-UIP lemma -/

theorem forget_phase_frame (s : solver) (l : literal) : analysis_frame s (s.forget_phase l) :=
  ⟨rfl, rfl, rfl, rfl, rfl, rfl, rfl, rfl, rfl, rfl, rfl, rfl, rfl, rfl, rfl, rfl, rfl, rfl, rfl,
    rfl, rfl⟩

theorem foldl_forget_phase_m_mark (ls : List literal) (s : solver) :
    (ls.foldl forget_phase s).m_mark = s.m_mark := by
  induction ls generalizing s with
  | nil => rfl
  | cons a rest ih => exact ih (s.forget_phase a)

theorem forget_phase_of_vars_frame (s : solver) (k : Nat) :
    analysis_frame s (s.forget_phase_of_vars k) ∧ (s.forget_phase_of_vars k).m_mark = s.m_mark :=
  ⟨analysis_frame.foldl _ forget_phase_frame _ s, foldl_forget_phase_m_mark _ s⟩

theorem set_conflict_lvl_no_ext (E : collaborators) (hE : E.m_ext = none) (s : solver) :
    s.set_conflict_lvl E = { s with m_conflict_lvl := s.scope_lvl } := by
  unfold set_conflict_lvl get_max_lvl
  simp [hE]

/-- Without an extension, the state in which the analysis starts differs from
the conflict state in counters, in the phases and in the conflict level,
which is the scope level. -/
theorem resolve_conflict_enter_spec (E : collaborators) (hE : E.m_ext = none) (s : solver) :
    (s.resolve_conflict_enter E).m_conflict_lvl = s.scope_lvl ∧
    (s.resolve_conflict_enter E).m_assignment = s.m_assignment ∧
    (s.resolve_conflict_enter E).m_level = s.m_level ∧
    (s.resolve_conflict_enter E).m_justification = s.m_justification ∧
    (s.resolve_conflict_enter E).m_trail = s.m_trail ∧
    (s.resolve_conflict_enter E).m_cls_allocator = s.m_cls_allocator ∧
    (s.resolve_conflict_enter E).m_not_l = s.m_not_l ∧
    (s.resolve_conflict_enter E).m_conflict = s.m_conflict ∧
    (s.resolve_conflict_enter E).m_mark = s.m_mark ∧
    (s.resolve_conflict_enter E).m_scope_lvl = s.m_scope_lvl ∧
    (s.resolve_conflict_enter E).m_watches = s.m_watches ∧
    (s.resolve_conflict_enter E).m_clauses = s.m_clauses ∧
    (s.resolve_conflict_enter E).m_learned = s.m_learned := by
  unfold resolve_conflict_enter
  obtain ⟨h1, h2⟩ := forget_phase_of_vars_frame (s.count_conflict.set_conflict_lvl E)
    (s.count_conflict.set_conflict_lvl E).m_conflict_lvl
  rw [set_conflict_lvl_no_ext E hE] at h1 h2 ⊢
  exact ⟨h1.conflict_lvl, h1.assignment, h1.level, h1.justification, h1.trail, h1.arena, h1.not_l,
    h1.conflict, h2, h1.scope_lvl, h1.watches, h1.clauses, h1.learned⟩

theorem sound_inv_empty (E : collaborators) (s : solver) (d : Nat) :
    sound_inv E (fun _ => False) s d :=
  ⟨fun _ h => h.elim, fun _ h => h.elim, fun _ h => h.elim, fun _ h => h.elim,
    fun ⟨_, h⟩ => h.elim⟩

/-- Without an extension and outside the unsat-core case, `resolve_conflict_core`
is the built-in analysis followed by `learn_lemma_and_backjump`. -/
theorem resolve_conflict_core_eq (E : collaborators) (hE : E.m_ext = none) (fuel : Nat)
    (s : solver) (hd : 1 ≤ s.scope_lvl)
    (hcore : ¬ (s.scope_lvl ≤ 1 ∧ s.tracking_assumptions = true)) :
    resolve_conflict_core E fuel s =
      (resolve_conflict_analysis E (s.resolve_conflict_enter E)).bind fun s1 =>
        (s1.learn_lemma_and_backjump E fuel).map fun s2 => (true, s2) := by
  have e1 : (s.count_conflict.set_conflict_lvl E).m_conflict_lvl = s.scope_lvl := by
    rw [set_conflict_lvl_no_ext E hE]; rfl
  have e2 : (s.count_conflict.set_conflict_lvl E).tracking_assumptions = s.tracking_assumptions := by
    rw [set_conflict_lvl_no_ext E hE]; rfl
  unfold resolve_conflict_core
  rw [e1, e2, if_neg hcore, if_neg (by omega)]
  unfold resolve_conflict_ext
  simp only [hE]
  unfold resolve_conflict_learn resolve_conflict_enter
  rw [e1]
  cases resolve_conflict_analysis E
      ((s.count_conflict.set_conflict_lvl E).forget_phase_of_vars s.scope_lvl) with
  | none => rfl
  | some s1 =>
    simp only [Option.some_bind]
    cases s1.learn_lemma_and_backjump E fuel <;> rfl

/-- C14: `resolve_conflict_core` without an extension, on a state that
satisfies the trail and justification invariant `conflict_inv` with a
conflict at the scope level `d ≥ 1`, outside the case that is handed to the
unsat-core analysis (`d ≤ 1` while assumptions are tracked).  The built-in
analysis returns a state `s1`, which is what `learn_lemma_and_backjump` is
called on.  Its lemma starts with the negation of a trail literal `u` of
level `d`; every other lemma literal is false and assigned at a level `l`
with `0 < l < d`; so the first literal is the only one of level `d`. -/
theorem C14_first_uip_lemma (E : collaborators) (hE : E.m_ext = none) (fuel : Nat) (s : solver)
    (hd : 1 ≤ s.scope_lvl) (hinv : conflict_inv E s s.scope_lvl)
    (hcore : ¬ (s.scope_lvl ≤ 1 ∧ s.tracking_assumptions = true)) :
    ∃ s1 u tail, resolve_conflict_analysis E (s.resolve_conflict_enter E) = some s1 ∧
      resolve_conflict_core E fuel s =
        (s1.learn_lemma_and_backjump E fuel).map (fun s2 => (true, s2)) ∧
      u ∈ s.m_trail ∧ s.lvl u = s.scope_lvl ∧ s1.m_lemma = u.neg :: tail ∧
      s1.lvl u.neg = s.scope_lvl ∧
      (∀ t ∈ tail, s1.value t = .l_false ∧ 0 < s1.lvl t ∧ s1.lvl t < s.scope_lvl) ∧
      s1.m_lemma.filter (fun t => decide (s1.lvl t = s.scope_lvl)) = [u.neg] := by
  obtain ⟨p1, p2, p3, p4, p5, p6, p7, p8, p9, _⟩ := resolve_conflict_enter_spec E hE s
  have hinv1 : conflict_inv E (s.resolve_conflict_enter E) s.scope_lvl :=
    conflict_inv_congr E hE s _ _ p2 p3 p4 p5 p6 p7 p8 p9 hinv
  obtain ⟨s1, u, tail, r1, r2, _, r4, r5, r6, r7, _, _⟩ :=
    resolve_conflict_analysis_spec E hE (fun _ => False) _ _ hinv1 p1 hd (sound_inv_empty _ _ _)
  have hlvl : ∀ l, s1.lvl l = s.lvl l := by
    intro l
    rw [r2.lvl]
    unfold solver.lvl solver.lvl_var
    rw [p3]
  have hval : ∀ l, s1.value l = s.value l := by
    intro l
    rw [r2.value]
    unfold solver.value
    rw [p2]
  have hu : s.lvl u = s.scope_lvl := by
    have : (s.resolve_conflict_enter E).lvl u = s.lvl u := by
      unfold solver.lvl solver.lvl_var; rw [p3]
    rw [← this]; exact r5
  have htail : ∀ t ∈ tail, s1.value t = .l_false ∧ 0 < s1.lvl t ∧ s1.lvl t < s.scope_lvl := by
    intro t ht
    obtain ⟨q1, q2, q3, _⟩ := r7 t ht
    rw [p5] at q1
    have e : (s.resolve_conflict_enter E).lvl t = s.lvl t := by
      unfold solver.lvl solver.lvl_var; rw [p3]
    rw [e] at q2 q3
    refine ⟨?_, by rw [hlvl]; exact q2, by rw [hlvl]; exact q3⟩
    rw [hval]
    have v1 := (hinv.asg.2.2.1 t.neg).1 q1
    have v2 := value_neg s hinv.asg.1 t.neg
    rw [literal_neg_neg, v1] at v2
    exact v2
  refine ⟨s1, u, tail, r1, ?_, by rw [← p5]; exact r4, hu, r6, by rw [hlvl, lvl_neg]; exact hu,
    htail, ?_⟩
  · rw [resolve_conflict_core_eq E hE fuel s hd hcore, r1]
    rfl
  · rw [r6, List.filter_cons]
    have e1 : decide (s1.lvl u.neg = s.scope_lvl) = true := by
      rw [hlvl, lvl_neg, hu]; simp
    rw [e1]
    simp only [↓reduceIte, List.cons.injEq, true_and]
    rw [List.filter_eq_nil_iff]
    intro t ht
    have := (htail t ht).2.2
    simp only [decide_eq_true_eq]
    omega

theorem assignment_inv_of_bounded (s : solver) (h1 : assignment_consistent s)
    (h2 : s.m_assignment.length = 2 * s.num_vars)
    (h3 : ∀ i < s.m_assignment.length, ((⟨i⟩ : literal) ∈ s.m_trail ↔ s.value ⟨i⟩ = .l_true))
    (h4 : ∀ l ∈ s.m_trail, l.index < s.m_assignment.length) (h5 : s.m_trail.Nodup) :
    assignment_inv s := by
  refine ⟨h1, h2, ?_, h5⟩
  intro l
  by_cases hl : l.m_val < s.m_assignment.length
  · exact h3 l.m_val hl
  · constructor
    · intro hm
      exact absurd (h4 l hm) hl
    · intro hv
      have hv2 : s.m_assignment.getD l.m_val lbool.l_undef = .l_true := hv
      rw [List.getD_eq_default _ _ (Nat.le_of_not_lt hl)] at hv2
      cases hv2

/-- The state `example_conflict` satisfies the invariant of conflict analysis
for a conflict at level 2. -/
theorem example_conflict_inv : conflict_inv {} example_conflict 2 := by
  refine ⟨assignment_inv_of_bounded _ (by unfold assignment_consistent; decide) (by decide)
    (by decide) (by decide) (by decide), by decide, by decide, by decide, by decide, by decide,
    by decide, by decide, by decide⟩

/-- C14 at a concrete state: the conflict of `example_conflict` at level 2
gives the lemma `¬c ∨ ¬b ∨ ¬a`, where `c` is the decision of level 2 and `a`,
`b` are assigned at level 1. -/
theorem C14_first_uip_lemma_witness :
    1 ≤ example_conflict.scope_lvl ∧ conflict_inv {} example_conflict example_conflict.scope_lvl ∧
    ¬ (example_conflict.scope_lvl ≤ 1 ∧ example_conflict.tracking_assumptions = true) ∧
    (resolve_conflict_analysis {} (example_conflict.resolve_conflict_enter {})).map
      (fun s1 => s1.m_lemma) = some [⟨5⟩, ⟨3⟩, ⟨1⟩] ∧
    ∃ s1 u tail,
      resolve_conflict_analysis {} (example_conflict.resolve_conflict_enter {}) = some s1 ∧
      resolve_conflict_core {} 10 example_conflict =
        (s1.learn_lemma_and_backjump {} 10).map (fun s2 => (true, s2)) ∧
      u ∈ example_conflict.m_trail ∧ example_conflict.lvl u = example_conflict.scope_lvl ∧
      s1.m_lemma = u.neg :: tail ∧ s1.lvl u.neg = example_conflict.scope_lvl ∧
      (∀ t ∈ tail, s1.value t = .l_false ∧ 0 < s1.lvl t ∧
        s1.lvl t < example_conflict.scope_lvl) ∧
      s1.m_lemma.filter (fun t => decide (s1.lvl t = example_conflict.scope_lvl)) = [u.neg] :=
  ⟨by decide, example_conflict_inv, by decide, by decide,
    C14_first_uip_lemma {} rfl 10 example_conflict (by decide) example_conflict_inv (by decide)⟩

/-! ## Backjumping: the lemma and the assumptions stay -/

theorem lemma_frame_refl (s : solver) : lemma_frame s s := ⟨rfl, rfl, rfl, rfl, rfl⟩

theorem lemma_frame_trans {s s1 s2 : solver} (h1 : lemma_frame s s1) (h2 : lemma_frame s1 s2) :
    lemma_frame s s2 :=
  ⟨h2.config.trans h1.config, h2.lemma_eq.trans h1.lemma_eq,
    h2.assumptions.trans h1.assumptions, h2.assumption_set.trans h1.assumption_set,
    h2.user_scope_literals.trans h1.user_scope_literals⟩

theorem lemma_frame_tracking {s s1 : solver} (h : lemma_frame s s1) :
    s1.tracking_assumptions = s.tracking_assumptions := by
  unfold tracking_assumptions; rw [h.assumptions, h.user_scope_literals]

theorem lemma_frame_foldl {α : Type} (f : solver → α → solver)
    (hf : ∀ s a, lemma_frame s (f s a)) (xs : List α) (s : solver) :
    lemma_frame s (xs.foldl f s) := by
  induction xs generalizing s with
  | nil => exact lemma_frame_refl s
  | cons a xs ih => exact lemma_frame_trans (hf s a) (ih (f s a))

theorem lemma_frame_assign (s : solver) (l : literal) (j : justification) :
    lemma_frame s (s.assign l j) := ⟨by simp, by simp, by simp, by simp, by simp⟩

theorem lemma_frame_propagate_bin_clause (s : solver) (l1 l2 : literal) :
    lemma_frame s (s.propagate_bin_clause l1 l2).2 := by
  unfold propagate_bin_clause
  split
  · exact ⟨by simp, by simp, by simp, by simp, by simp⟩
  · split
    · exact ⟨by simp, by simp, by simp, by simp, by simp⟩
    · exact lemma_frame_refl s

theorem lemma_frame_attach_ter_clause (s : solver) (off : clause_offset) :
    lemma_frame s (s.attach_ter_clause off).2 := by
  unfold attach_ter_clause
  simp only
  split
  · split
    · exact ⟨by simp, by simp, by simp, by simp, by simp⟩
    · split
      · exact ⟨by simp, by simp, by simp, by simp, by simp⟩
      · split
        · exact ⟨by simp, by simp, by simp, by simp, by simp⟩
        · exact ⟨by simp, by simp, by simp, by simp, by simp⟩
  · exact ⟨by simp, by simp, by simp, by simp, by simp⟩

theorem lemma_frame_attach_nary_clause (s : solver) (off : clause_offset) :
    lemma_frame s (s.attach_nary_clause off).2 := by
  unfold attach_nary_clause
  simp only
  split
  · split
    · exact ⟨by simp, by simp, by simp, by simp, by simp⟩
    · split
      · exact ⟨by simp, by simp, by simp, by simp, by simp⟩
      · exact ⟨by simp, by simp, by simp, by simp, by simp⟩
  · exact ⟨by simp, by simp, by simp, by simp, by simp⟩

theorem lemma_frame_detach_clause (s : solver) (off : clause_offset) :
    lemma_frame s (s.detach_clause off) := by
  unfold detach_clause
  split
  · unfold detach_ter_clause
    exact ⟨by simp, by simp, by simp, by simp, by simp⟩
  · unfold detach_nary_clause
    exact ⟨by simp, by simp, by simp, by simp, by simp⟩

theorem lemma_frame_attach_clause (s : solver) (off : clause_offset) :
    lemma_frame s (s.attach_clause off).2 := by
  unfold attach_clause
  split
  · exact lemma_frame_attach_ter_clause s off
  · exact lemma_frame_attach_nary_clause s off

theorem lemma_frame_reinit_clause (st : solver × List clause_wrapper) (cw : clause_wrapper) :
    lemma_frame st.1 (reinit_clause st cw).1 := by
  unfold reinit_clause
  cases cw with
  | bin l1 l2 =>
    simp only
    split
    · exact lemma_frame_propagate_bin_clause _ _ _
    · exact lemma_frame_propagate_bin_clause _ _ _
  | cls off =>
    simp only
    have h := lemma_frame_trans (lemma_frame_detach_clause st.1 off)
      (lemma_frame_attach_clause _ off)
    split
    · exact h
    · exact lemma_frame_trans h ⟨by simp, by simp, by simp, by simp, by simp⟩

theorem lemma_frame_foldl_reinit_clause (cws : List clause_wrapper) :
    ∀ st : solver × List clause_wrapper, lemma_frame st.1 (cws.foldl reinit_clause st).1 := by
  induction cws with
  | nil => intro st; exact lemma_frame_refl _
  | cons cw cws ih =>
    intro st
    rw [List.foldl_cons]
    exact lemma_frame_trans (lemma_frame_reinit_clause st cw) (ih _)

theorem lemma_frame_reinit_clauses (s : solver) (old_sz : Nat) :
    lemma_frame s (s.reinit_clauses old_sz) := by
  unfold reinit_clauses
  simp only
  exact lemma_frame_trans
    (lemma_frame_foldl_reinit_clause (s.m_clauses_to_reinit.drop old_sz) (s, []))
    ⟨by simp, by simp, by simp, by simp, by simp⟩

theorem lemma_frame_unassign_vars (s : solver) (old_sz : Nat) :
    lemma_frame s (s.unassign_vars old_sz) := by
  unfold unassign_vars
  have h1 : ∀ (t : solver) (l : literal), lemma_frame t (t.unassign_var l) :=
    fun t l => ⟨by simp, by simp, by simp, by simp, by simp⟩
  have h2 : ∀ t : solver, lemma_frame t (t.shrink_trail old_sz) :=
    fun t => ⟨rfl, rfl, rfl, rfl, rfl⟩
  exact lemma_frame_trans (lemma_frame_foldl unassign_var h1 _ s) (h2 _)

theorem lemma_frame_pop (s : solver) (n : Nat) : lemma_frame s (s.pop n) := by
  unfold pop
  split
  · exact lemma_frame_refl s
  · have h1 : lemma_frame s s.reset_inconsistent := ⟨rfl, rfl, rfl, rfl, rfl⟩
    have h2 := lemma_frame_unassign_vars s.reset_inconsistent (s.pop_scope n).m_trail_lim
    have h3 : lemma_frame (s.reset_inconsistent.unassign_vars (s.pop_scope n).m_trail_lim)
        ((s.reset_inconsistent.unassign_vars (s.pop_scope n).m_trail_lim).shrink_scopes n
          (s.scope_lvl - n)) := ⟨rfl, rfl, rfl, rfl, rfl⟩
    exact lemma_frame_trans (lemma_frame_trans (lemma_frame_trans h1 h2) h3)
      (lemma_frame_reinit_clauses _ _)

theorem lemma_frame_assign_each (lits : List literal) (s : solver) :
    lemma_frame s (s.assign_each lits) := by
  unfold assign_each
  apply lemma_frame_foldl
  intro t l
  split
  · exact lemma_frame_refl t
  · exact lemma_frame_assign t l _

theorem lemma_frame_reinit_assumptions (s : solver) : lemma_frame s s.reinit_assumptions := by
  unfold reinit_assumptions
  split
  · have h1 : lemma_frame s s.push := ⟨rfl, rfl, rfl, rfl, rfl⟩
    have h2 := lemma_frame_assign_each (s.m_user_scope_literals.map literal.neg) s.push
    exact lemma_frame_trans (lemma_frame_trans h1 h2) (lemma_frame_assign_each _ _)
  · exact lemma_frame_refl s

theorem lemma_frame_pop_reinit (s : solver) (n : Nat) : lemma_frame s (s.pop_reinit n) :=
  lemma_frame_trans (lemma_frame_pop s n) (lemma_frame_reinit_assumptions _)

theorem lemma_frame_num_diff_levels (s : solver) (lits : List literal) :
    lemma_frame s (s.num_diff_levels lits).2 := ⟨rfl, rfl, rfl, rfl, rfl⟩

theorem lemma_frame_backjump (s : solver) : lemma_frame s s.backjump :=
  lemma_frame_trans (lemma_frame_num_diff_levels s _) (lemma_frame_pop_reinit _ _)

theorem lemma_frame_mk_bin_clause (s : solver) (l1 l2 : literal) (learned : Bool) :
    lemma_frame s (s.mk_bin_clause l1 l2 learned) := by
  unfold mk_bin_clause
  simp only
  have h := lemma_frame_propagate_bin_clause s l1 l2
  split
  · exact h
  · split
    · exact lemma_frame_trans h ⟨by simp, by simp, by simp, by simp, by simp⟩
    · exact lemma_frame_trans h ⟨by simp, by simp, by simp, by simp, by simp⟩

theorem lemma_frame_push_clause_vector (s : solver) (off : clause_offset) (learned : Bool) :
    lemma_frame s (s.push_clause_vector off learned) :=
  ⟨by simp, by simp, by simp, by simp, by simp⟩

theorem lemma_frame_mk_ter_clause (s : solver) (lits : List literal) (learned : Bool) :
    lemma_frame s (s.mk_ter_clause lits learned).2 := by
  unfold mk_ter_clause
  simp only
  have h0 : lemma_frame s (s.inc_mk_ter_clause.alloc_clause lits learned).2 :=
    ⟨by simp, by simp, by simp, by simp, by simp⟩
  have h1 := lemma_frame_trans h0 (lemma_frame_attach_ter_clause _
    (s.inc_mk_ter_clause.alloc_clause lits learned).1)
  split
  · exact lemma_frame_trans (lemma_frame_trans h1 ⟨by simp, by simp, by simp, by simp, by simp⟩)
      (lemma_frame_push_clause_vector _ _ _)
  · exact lemma_frame_trans h1 (lemma_frame_push_clause_vector _ _ _)

theorem lemma_frame_mk_nary_clause (s : solver) (lits : List literal) (learned : Bool)
    (r : clause_offset × solver) (h : s.mk_nary_clause lits learned = some r) :
    lemma_frame s r.2 := by
  unfold mk_nary_clause at h
  split at h
  · simp only [Option.some.injEq] at h
    subst h
    simp only
    have h0 : lemma_frame s (s.inc_mk_clause.alloc_clause lits learned).2 :=
      ⟨by simp, by simp, by simp, by simp, by simp⟩
    have h1 := lemma_frame_trans h0 (lemma_frame_attach_nary_clause _
      (s.inc_mk_clause.alloc_clause lits learned).1)
    split
    · exact lemma_frame_trans
        (lemma_frame_trans h1 ⟨by simp, by simp, by simp, by simp, by simp⟩)
        (lemma_frame_push_clause_vector _ _ _)
    · exact lemma_frame_trans h1 (lemma_frame_push_clause_vector _ _ _)
  · cases h

theorem lemma_frame_mk_clause_dispatch (s : solver) (lits : List literal) (learned : Bool)
    (r : Option clause_offset × solver) (h : s.mk_clause_dispatch lits learned = some r) :
    lemma_frame s r.2 := by
  unfold mk_clause_dispatch at h
  split at h
  · simp only [Option.some.injEq] at h; subst h
    exact ⟨by simp, by simp, by simp, by simp, by simp⟩
  · simp only [Option.some.injEq] at h; subst h
    exact lemma_frame_assign _ _ _
  · simp only [Option.some.injEq] at h; subst h
    exact lemma_frame_mk_bin_clause _ _ _ _
  · simp only [Option.some.injEq] at h; subst h
    exact lemma_frame_mk_ter_clause _ _ _
  · split at h
    · rename_i r1 hr1
      simp only [Option.some.injEq] at h; subst h
      exact lemma_frame_mk_nary_clause s lits learned r1 hr1
    · cases h

theorem lemma_frame_learn_lemma_finish (s : solver) (cls : Option clause_offset) (glue : Nat) :
    lemma_frame s (s.learn_lemma_finish cls glue) := by
  have h1 : ∀ t : solver, lemma_frame t t.decay_activity.updt_phase_counters := by
    intro t
    unfold updt_phase_counters
    split <;> split <;> exact ⟨rfl, rfl, rfl, rfl, rfl⟩
  have h2 : ∀ off, lemma_frame s (s.set_glue off glue) := fun off => ⟨rfl, rfl, rfl, rfl, rfl⟩
  unfold learn_lemma_finish
  split
  · exact lemma_frame_trans (h2 _) (h1 _)
  · exact h1 s

/-! ## Backjumping: what was assigned stays assigned -/

theorem assign_grow_of_ext {s s1 : solver} (h : assign_ext s s1) : assign_grow s s1 :=
  ⟨h.asg_len, h.level_len, by rw [h.scope_lvl], h.consistent, h.value, h.level⟩

theorem assign_grow_refl (s : solver) : assign_grow s s :=
  assign_grow_of_ext (assign_ext_refl s)

theorem assign_grow_trans {s s1 s2 : solver} (h1 : assign_grow s s1) (h2 : assign_grow s1 s2) :
    assign_grow s s2 :=
  { asg_len := h2.asg_len.trans h1.asg_len
    level_len := h2.level_len.trans h1.level_len
    scope_le := Nat.le_trans h1.scope_le h2.scope_le
    consistent := fun h => h2.consistent (h1.consistent h)
    value := fun h x hx => by
      have e1 := h1.value h x hx
      rw [h2.value (h1.consistent h) x (by rw [e1]; exact hx), e1]
    level := fun h x hx => by
      have e1 := h1.value h x hx
      rw [h2.level (h1.consistent h) x (by rw [e1]; exact hx), h1.level h x hx] }

theorem assign_grow_push (s : solver) : assign_grow s s.push :=
  { asg_len := rfl
    level_len := rfl
    scope_le := Nat.le_succ _
    consistent := fun h => h
    value := fun _ _ _ => rfl
    level := fun _ _ _ => rfl }

theorem assign_ext_assign_each (lits : List literal) (s : solver) :
    assign_ext s (s.assign_each lits) := by
  unfold assign_each
  induction lits generalizing s with
  | nil => exact assign_ext_refl s
  | cons l rest ih =>
    rw [List.foldl_cons]
    refine assign_ext_trans _ _ _ ?_ (ih _)
    split
    · exact assign_ext_refl s
    · exact assign_ext_assign s l _

theorem reinit_assumptions_spec (s : solver) :
    assign_grow s s.reinit_assumptions ∧
    s.reinit_assumptions.m_scope_lvl =
      (if s.tracking_assumptions && s.at_base_lvl then s.m_scope_lvl + 1 else s.m_scope_lvl) := by
  unfold reinit_assumptions
  split
  · have h1 := assign_ext_assign_each (s.m_user_scope_literals.map literal.neg) s.push
    have h2 := assign_ext_assign_each s.m_assumptions
      (s.push.assign_each (s.m_user_scope_literals.map literal.neg))
    refine ⟨assign_grow_trans (assign_grow_push s)
      (assign_grow_of_ext (assign_ext_trans _ _ _ h1 h2)), ?_⟩
    rw [h2.scope_lvl, h1.scope_lvl]
    rfl
  · exact ⟨assign_grow_refl s, rfl⟩

theorem pop_m_scope_lvl (s : solver) (n : Nat) : (s.pop n).m_scope_lvl = s.m_scope_lvl - n := by
  by_cases hn : n = 0
  · subst hn; rw [pop_zero]; rfl
  · rw [pop_eq s n hn, (assign_ext_reinit_clauses _ _).scope_lvl]
    exact (pop_before_reinit s n _ _).2.2.1

theorem assign_ext_mk_bin_clause (s : solver) (l1 l2 : literal) (learned : Bool) :
    assign_ext s (s.mk_bin_clause l1 l2 learned) := by
  unfold mk_bin_clause
  simp only
  have h := assign_ext_propagate_bin_clause s l1 l2
  split
  · exact h
  · split
    · exact assign_ext_trans _ _ _ h
        (assign_ext_congr _ _ (by simp) (by simp) (by simp) (by simp) (by simp) (by simp))
    · exact assign_ext_trans _ _ _ h
        (assign_ext_congr _ _ (by simp) (by simp) (by simp) (by simp) (by simp) (by simp))

theorem assign_ext_push_clause_vector (s : solver) (off : clause_offset) (learned : Bool) :
    assign_ext s (s.push_clause_vector off learned) :=
  assign_ext_congr _ _ (by simp) (by simp) (by simp) (by simp) (by simp) (by simp)

theorem assign_ext_mk_ter_clause (s : solver) (lits : List literal) (learned : Bool) :
    assign_ext s (s.mk_ter_clause lits learned).2 := by
  unfold mk_ter_clause
  simp only
  have h0 : assign_ext s (s.inc_mk_ter_clause.alloc_clause lits learned).2 :=
    assign_ext_congr _ _ (by simp) (by simp) (by simp) (by simp) (by simp) (by simp)
  have h1 := assign_ext_trans _ _ _ h0 (assign_ext_attach_ter_clause _
    (s.inc_mk_ter_clause.alloc_clause lits learned).1)
  split
  · exact assign_ext_trans _ _ _ (assign_ext_trans _ _ _ h1
      (assign_ext_congr _ _ (by simp) (by simp) (by simp) (by simp) (by simp) (by simp)))
      (assign_ext_push_clause_vector _ _ _)
  · exact assign_ext_trans _ _ _ h1 (assign_ext_push_clause_vector _ _ _)

theorem assign_ext_mk_nary_clause (s : solver) (lits : List literal) (learned : Bool)
    (r : clause_offset × solver) (h : s.mk_nary_clause lits learned = some r) :
    assign_ext s r.2 := by
  unfold mk_nary_clause at h
  split at h
  · simp only [Option.some.injEq] at h
    subst h
    simp only
    have h0 : assign_ext s (s.inc_mk_clause.alloc_clause lits learned).2 :=
      assign_ext_congr _ _ (by simp) (by simp) (by simp) (by simp) (by simp) (by simp)
    have h1 := assign_ext_trans _ _ _ h0 (assign_ext_attach_nary_clause _
      (s.inc_mk_clause.alloc_clause lits learned).1)
    split
    · exact assign_ext_trans _ _ _ (assign_ext_trans _ _ _ h1
        (assign_ext_congr _ _ (by simp) (by simp) (by simp) (by simp) (by simp) (by simp)))
        (assign_ext_push_clause_vector _ _ _)
    · exact assign_ext_trans _ _ _ h1 (assign_ext_push_clause_vector _ _ _)
  · cases h

theorem assign_ext_mk_clause_dispatch (s : solver) (lits : List literal) (learned : Bool)
    (r : Option clause_offset × solver) (h : s.mk_clause_dispatch lits learned = some r) :
    assign_ext s r.2 := by
  unfold mk_clause_dispatch at h
  split at h
  · simp only [Option.some.injEq] at h; subst h
    exact assign_ext_set_conflict _ _ _
  · simp only [Option.some.injEq] at h; subst h
    exact assign_ext_assign _ _ _
  · simp only [Option.some.injEq] at h; subst h
    exact assign_ext_mk_bin_clause _ _ _ _
  · simp only [Option.some.injEq] at h; subst h
    exact assign_ext_mk_ter_clause _ _ _
  · split at h
    · rename_i r1 hr1
      simp only [Option.some.injEq] at h; subst h
      exact assign_ext_mk_nary_clause s lits learned r1 hr1
    · cases h

theorem assign_ext_learn_lemma_finish (s : solver) (cls : Option clause_offset) (glue : Nat) :
    assign_ext s (s.learn_lemma_finish cls glue) := by
  have h1 : ∀ t : solver, assign_ext t t.decay_activity.updt_phase_counters := by
    intro t
    unfold updt_phase_counters
    split <;> split <;> exact assign_ext_congr _ _ rfl rfl rfl rfl rfl rfl
  have h2 : ∀ off, assign_ext s (s.set_glue off glue) := fun off =>
    assign_ext_congr _ _ rfl rfl rfl rfl rfl rfl
  unfold learn_lemma_finish
  split
  · exact assign_ext_trans _ _ _ (h2 _) (h1 _)
  · exact h1 s

/-! ## C15: the backjump level -/

theorem foldl_max_spec (f : literal → Nat) (xs : List literal) (a : Nat) :
    a ≤ xs.foldl (fun r l => max r (f l)) a ∧
    (∀ l ∈ xs, f l ≤ xs.foldl (fun r l => max r (f l)) a) ∧
    (xs.foldl (fun r l => max r (f l)) a = a ∨
      ∃ l ∈ xs, f l = xs.foldl (fun r l => max r (f l)) a) := by
  induction xs generalizing a with
  | nil => exact ⟨Nat.le_refl _, fun l hl => (by cases hl), Or.inl rfl⟩
  | cons x rest ih =>
    obtain ⟨h1, h2, h3⟩ := ih (max a (f x))
    rw [List.foldl_cons]
    refine ⟨Nat.le_trans (Nat.le_max_left _ _) h1, ?_, ?_⟩
    · intro l hl
      rcases List.mem_cons.1 hl with e | e
      · subst e; exact Nat.le_trans (Nat.le_max_right _ _) h1
      · exact h2 l e
    · rcases h3 with e | ⟨l, q1, q2⟩
      · rw [e]
        by_cases hc : f x ≤ a
        · left; exact Nat.max_eq_left hc
        · right
          exact ⟨x, List.mem_cons_self _ _, by rw [Nat.max_eq_right (by omega)]⟩
      · exact Or.inr ⟨l, List.mem_cons_of_mem _ q1, q2⟩

/-- The new scope level is the largest level among the lemma literals behind
the first one. -/
theorem new_scope_lvl_spec (s : solver) :
    (∀ l ∈ s.m_lemma.drop 1, s.lvl l ≤ s.new_scope_lvl) ∧
    (s.m_lemma.drop 1 ≠ [] → ∃ l ∈ s.m_lemma.drop 1, s.lvl l = s.new_scope_lvl) ∧
    (s.m_lemma.length ≤ 1 → s.new_scope_lvl = 0) := by
  obtain ⟨_, h2, h3⟩ := foldl_max_spec (fun l => s.lvl_var l.var) (s.m_lemma.drop 1) 0
  refine ⟨h2, ?_, ?_⟩
  · intro hne
    rcases h3 with e | e
    · obtain ⟨l, hl⟩ := List.exists_mem_of_ne_nil _ hne
      have := h2 l hl
      exact ⟨l, hl, by
        have e1 : s.new_scope_lvl = 0 := e
        rw [e1]; rw [e] at this; exact Nat.le_zero.1 this⟩
    · exact e
  · intro hlen
    unfold new_scope_lvl
    rw [List.drop_eq_nil_of_le hlen]
    rfl

theorem backjump_scopes_eq (s : solver) (hle : s.new_scope_lvl ≤ s.m_scope_lvl)
    (hlt : s.m_scope_lvl < 4294967296) : s.backjump_scopes = s.m_scope_lvl - s.new_scope_lvl := by
  unfold backjump_scopes
  omega

/-- The scope level after the backjump and the installation of the lemma. -/
theorem learn_lemma_and_backjump_scope (E : collaborators) (fuel : Nat) (s s1 r : solver)
    (hprep : s.learn_lemma_prepare E fuel = some s1)
    (hr : s.learn_lemma_and_backjump E fuel = some r)
    (hle : s1.new_scope_lvl ≤ s1.m_scope_lvl) (hlt : s1.m_scope_lvl < 4294967296) :
    lemma_frame s1 r ∧
    r.m_scope_lvl = s1.backjump.m_scope_lvl ∧
    s1.backjump.m_scope_lvl =
      (if s1.tracking_assumptions && decide (s1.new_scope_lvl = 0) then 1 else s1.new_scope_lvl) := by
  unfold learn_lemma_and_backjump at hr
  rw [hprep] at hr
  simp only at hr
  split at hr
  · cases hr
  · rename_i res hres
    simp only [Option.some.injEq] at hr
    subst hr
    have hd : s1.backjump.mk_clause_dispatch s1.backjump.m_lemma true = some res := by
      simpa [mk_clause_core] using hres
    have f1 := lemma_frame_backjump s1
    have f2 := lemma_frame_mk_clause_dispatch _ _ _ _ hd
    have f3 := lemma_frame_learn_lemma_finish res.2 res.1 (s1.num_diff_levels s1.m_lemma).1
    have a2 := assign_ext_mk_clause_dispatch _ _ _ _ hd
    have a3 := assign_ext_learn_lemma_finish res.2 res.1 (s1.num_diff_levels s1.m_lemma).1
    refine ⟨lemma_frame_trans f1 (lemma_frame_trans f2 f3), by
      rw [a3.scope_lvl, a2.scope_lvl], ?_⟩
    unfold backjump pop_reinit
    rw [(reinit_assumptions_spec _).2, pop_m_scope_lvl, backjump_scopes_eq s1 hle hlt]
    have e1 : ((s1.num_diff_levels s1.m_lemma).2.pop
        (s1.m_scope_lvl - s1.new_scope_lvl)).tracking_assumptions = s1.tracking_assumptions :=
      lemma_frame_tracking (lemma_frame_trans (lemma_frame_num_diff_levels s1 _)
        (lemma_frame_pop _ _))
    have e2 : (s1.num_diff_levels s1.m_lemma).2.m_scope_lvl = s1.m_scope_lvl := rfl
    have e3 : ((s1.num_diff_levels s1.m_lemma).2.pop
        (s1.m_scope_lvl - s1.new_scope_lvl)).at_base_lvl = decide (s1.new_scope_lvl = 0) := by
      unfold at_base_lvl
      rw [pop_m_scope_lvl, e2]
      have : s1.m_scope_lvl - (s1.m_scope_lvl - s1.new_scope_lvl) = s1.new_scope_lvl := by omega
      rw [this]
      by_cases h0 : s1.new_scope_lvl = 0 <;> simp [h0]
    rw [e1, e3, e2]
    have : s1.m_scope_lvl - (s1.m_scope_lvl - s1.new_scope_lvl) = s1.new_scope_lvl := by omega
    rw [this]
    by_cases h0 : s1.new_scope_lvl = 0
    · simp [h0]
    · simp [h0]

/-- C15: `learn_lemma_and_backjump`, with `s1` the state that holds the lemma
after minimisation (and after dynamic subsumption resolution, when it is
configured).  The new scope level is the largest level among the literals of
that lemma behind the first one, the UIP, and 0 when there is none.  The
call `pop_reinit(m_scope_lvl - new_scope_lvl)` pops to exactly this level;
the lemma that is installed afterwards is the lemma of `s1`.  The scope
level at the end is this level, except that `reinit_assumptions` opens the
assumption scope again (level 1) when assumptions are tracked and the
backjump went to level 0. -/
theorem C15_backjump_level (E : collaborators) (fuel : Nat) (s s1 r : solver)
    (hprep : s.learn_lemma_prepare E fuel = some s1)
    (hr : s.learn_lemma_and_backjump E fuel = some r)
    (hle : s1.new_scope_lvl ≤ s1.m_scope_lvl) (hlt : s1.m_scope_lvl < 4294967296) :
    (s.m_lemma ≠ [] → s.m_config.m_minimize_lemmas = true →
      ∃ s2, s.minimize_lemma E fuel = some s2 ∧
        s1 = (if s2.m_config.m_dyn_sub_res then (s2.reset_lemma_var_marks E).dyn_sub_res E
          else s2.reset_lemma_var_marks E)) ∧
    (∀ l ∈ s1.m_lemma.drop 1, s1.lvl l ≤ s1.new_scope_lvl) ∧
    (s1.m_lemma.drop 1 ≠ [] → ∃ l ∈ s1.m_lemma.drop 1, s1.lvl l = s1.new_scope_lvl) ∧
    (s1.m_lemma.length ≤ 1 → s1.new_scope_lvl = 0) ∧
    s1.backjump = ((s1.num_diff_levels s1.m_lemma).2.pop
      (s1.m_scope_lvl - s1.new_scope_lvl)).reinit_assumptions ∧
    ((s1.num_diff_levels s1.m_lemma).2.pop (s1.m_scope_lvl - s1.new_scope_lvl)).scope_lvl
      = s1.new_scope_lvl ∧
    r.m_lemma = s1.m_lemma ∧
    r.scope_lvl =
      (if s1.tracking_assumptions && decide (s1.new_scope_lvl = 0) then 1 else s1.new_scope_lvl) := by
  obtain ⟨n1, n2, n3⟩ := new_scope_lvl_spec s1
  obtain ⟨g1, g2, g3⟩ := learn_lemma_and_backjump_scope E fuel s s1 r hprep hr hle hlt
  refine ⟨?_, n1, n2, n3, ?_, ?_, g1.lemma_eq, by
    show r.m_scope_lvl = _
    rw [g2, g3]⟩
  · intro hne hmin
    unfold learn_lemma_prepare at hprep
    have e : s.m_lemma.isEmpty = false := by
      cases hl : s.m_lemma with
      | nil => exact absurd hl hne
      | cons a b => rfl
    rw [e] at hprep
    simp only [Bool.false_eq_true, ↓reduceIte, hmin] at hprep
    split at hprep
    · cases hprep
    · rename_i s2 hs2
      refine ⟨s2, hs2, ?_⟩
      split at hprep
      · rename_i hdyn
        simp only [Option.some.injEq] at hprep
        rw [if_pos hdyn]; exact hprep.symm
      · rename_i hdyn
        simp only [Option.some.injEq] at hprep
        rw [if_neg hdyn]; exact hprep.symm
  · unfold backjump pop_reinit
    rw [backjump_scopes_eq s1 hle hlt]
  · show ((s1.num_diff_levels s1.m_lemma).2.pop (s1.m_scope_lvl - s1.new_scope_lvl)).m_scope_lvl
      = _
    rw [pop_m_scope_lvl]
    show s1.m_scope_lvl - (s1.m_scope_lvl - s1.new_scope_lvl) = _
    omega

/-- C15 at a concrete state: the lemma `¬c ∨ ¬b ∨ ¬a` of `example_lemma` is
minimised to `¬c ∨ ¬a`, the level of `a` is 1, and the solver backjumps from
level 2 to level 1. -/
theorem C15_backjump_level_witness :
    ((example_lemma.learn_lemma_prepare {} 10).getD {}).m_lemma = [⟨5⟩, ⟨1⟩] ∧
    ((example_lemma.learn_lemma_prepare {} 10).getD {}).new_scope_lvl = 1 ∧
    example_lemma.m_scope_lvl = 2 ∧
    ((example_lemma.learn_lemma_and_backjump {} 10).getD {}).scope_lvl = 1 ∧
    ((example_lemma.learn_lemma_and_backjump {} 10).getD {}).scope_lvl =
      (if ((example_lemma.learn_lemma_prepare {} 10).getD {}).tracking_assumptions &&
          decide (((example_lemma.learn_lemma_prepare {} 10).getD {}).new_scope_lvl = 0)
        then 1 else ((example_lemma.learn_lemma_prepare {} 10).getD {}).new_scope_lvl) :=
  ⟨by decide, by decide, by decide, by decide,
    (C15_backjump_level {} 10 example_lemma ((example_lemma.learn_lemma_prepare {} 10).getD {})
      ((example_lemma.learn_lemma_and_backjump {} 10).getD {})
      (some_getD_of_isSome _ _ (by decide)) (some_getD_of_isSome _ _ (by decide))
      (by decide) (by decide)).2.2.2.2.2.2.2⟩

/-! ## Installing the lemma after the backjump -/

theorem asserts_congr (s s1 : solver) (l : literal) (ha : s1.m_assignment = s.m_assignment)
    (hi : s1.m_inconsistent = s.m_inconsistent)
    (H : s.value l = .l_true ∨ s.m_inconsistent = true) :
    s1.value l = .l_true ∨ s1.m_inconsistent = true := by
  rw [value_congr s s1 ha, hi]; exact H

theorem set_conflict_inconsistent (s : solver) (j : justification) (l : literal) :
    (s.set_conflict j l).m_inconsistent = true := by
  unfold set_conflict
  split
  · assumption
  · rfl

/-- After `assign(l, j)` the literal is true or the solver is in conflict. -/
theorem assign_asserts (s : solver) (l : literal) (j : justification)
    (hr : l.index < s.m_assignment.length) :
    (s.assign l j).value l = .l_true ∨ (s.assign l j).m_inconsistent = true := by
  unfold assign
  cases hv : s.value l
  · exact Or.inr (set_conflict_inconsistent _ _ _)
  · exact Or.inl (assign_core_value_self s l j hr)
  · exact Or.inl hv

theorem assign_false_conflict (s : solver) (l : literal) (j : justification)
    (hv : s.value l = .l_false) : (s.assign l j).m_inconsistent = true := by
  unfold assign
  rw [hv]
  exact set_conflict_inconsistent _ _ _

theorem mk_bin_clause_asserts (s : solver) (h t : literal)
    (hr : h.index < s.m_assignment.length) (ht : s.value t = .l_false) :
    (s.mk_bin_clause h t true).value h = .l_true ∨
      (s.mk_bin_clause h t true).m_inconsistent = true := by
  have e : s.propagate_bin_clause h t = (true, s.inc_bin_propagate.assign h (.binary t)) := by
    unfold propagate_bin_clause; simp [ht]
  have H := assign_asserts s.inc_bin_propagate h (.binary t) (by simpa using hr)
  unfold mk_bin_clause
  rw [e]
  simp only [Bool.true_and, Bool.not_true, Bool.false_and, Bool.false_eq_true, ↓reduceIte]
  split
  · exact H
  · exact asserts_congr _ _ _ (by simp) (by simp) H

theorem mk_ter_clause_asserts (s : solver) (h t1 t2 : literal) (hb : s.at_base_lvl = false)
    (hr : h.index < s.m_assignment.length) (h1 : s.value t1 = .l_false)
    (h2 : s.value t2 = .l_false) :
    (s.mk_ter_clause [h, t1, t2] true).2.value h = .l_true ∨
      (s.mk_ter_clause [h, t1, t2] true).2.m_inconsistent = true := by
  have hc := get_clause_alloc_clause_new s.inc_mk_ter_clause [h, t1, t2] true
  have hb2 : ∀ c, (((s.inc_mk_ter_clause.alloc_clause [h, t1, t2] true).2).push_ter_watches
      c).at_base_lvl = false := by
    intro c
    unfold at_base_lvl at hb ⊢
    simpa using hb
  have hv : ∀ c x, (((s.inc_mk_ter_clause.alloc_clause [h, t1, t2] true).2).push_ter_watches
      c).value x = s.value x := fun c x => value_congr _ _ (by simp) x
  have H := assign_asserts (((s.inc_mk_ter_clause.alloc_clause [h, t1, t2]
    true).2).push_ter_watches { lits := [h, t1, t2], m_learned := true }).inc_ter_propagate h
      (.ternary t1 t2) (by simpa using hr)
  have e : (s.inc_mk_ter_clause.alloc_clause [h, t1, t2] true).2.attach_ter_clause
      (s.inc_mk_ter_clause.alloc_clause [h, t1, t2] true).1 =
      (true, (((s.inc_mk_ter_clause.alloc_clause [h, t1, t2] true).2).push_ter_watches
        { lits := [h, t1, t2], m_learned := true }).inc_ter_propagate.assign h
          (.ternary t1 t2)) := by
    unfold attach_ter_clause
    simp only [alloc_clause_fst]
    rw [hc]
    simp only [hb2, hv]
    have g1 : ({ lits := [h, t1, t2], m_learned := true } : clause).get 1 = t1 := rfl
    have g2 : ({ lits := [h, t1, t2], m_learned := true } : clause).get 2 = t2 := rfl
    have g0 : ({ lits := [h, t1, t2], m_learned := true } : clause).get 0 = h := rfl
    rw [g0, g1, g2, h1, h2]
    simp
  unfold mk_ter_clause
  simp only
  rw [e]
  simp only [Bool.true_and, Bool.not_true, Bool.false_eq_true, ↓reduceIte]
  exact asserts_congr _ _ _ (by simp) (by simp) H

theorem swap_one_get_zero (c : clause) (w : Nat) (hw : 1 ≤ w) : (c.swap 1 w).get 0 = c.get 0 := by
  unfold clause.swap clause.set clause.get
  simp only
  rw [getD_set_ne _ _ _ _ _ (by omega), getD_set_ne _ _ _ _ _ (by omega)]

theorem swap_one_get_one (c : clause) (w : Nat) (hw : 1 ≤ w) (hlt : w < c.size) :
    (c.swap 1 w).get 1 = c.get w := by
  unfold clause.swap clause.set clause.get
  simp only
  by_cases e : w = 1
  · subst e
    rw [getD_set_self _ _ _ _ (by simpa using hlt)]
  · rw [getD_set_ne _ _ _ _ _ e]
    unfold clause.size at hlt
    rw [getD_set_self _ _ _ _ (by omega)]

theorem asserts_push_nary_watches (s : solver) (off : clause_offset) (l : literal)
    (H : s.value l = .l_true ∨ s.m_inconsistent = true) :
    (s.push_nary_watches off).value l = .l_true ∨
      (s.push_nary_watches off).m_inconsistent = true :=
  asserts_congr _ _ _ (by simp) (by simp) H

theorem mk_nary_clause_asserts (s : solver) (h : literal) (tail : List literal)
    (r : clause_offset × solver) (hm : s.mk_nary_clause (h :: tail) true = some r)
    (hlen : 1 ≤ tail.length) (hsz : (h :: tail).length ≤ UINT_MAX)
    (hb : s.at_base_lvl = false) (hr : h.index < s.m_assignment.length)
    (ht : ∀ t ∈ tail, s.value t = .l_false) :
    r.2.value h = .l_true ∨ r.2.m_inconsistent = true := by
  unfold mk_nary_clause at hm
  split at hm
  · simp only [Option.some.injEq] at hm
    subst hm
    simp only
    have hc := get_clause_alloc_clause_new s.inc_mk_clause (h :: tail) true
    have hw := select_learned_watch_lit_range (s.inc_mk_clause.alloc_clause (h :: tail) true).2
      { lits := h :: tail, m_learned := true } (by simp [clause.size]; omega)
      (by simpa [clause.size] using hsz)
    have g0 := swap_one_get_zero { lits := h :: tail, m_learned := true } _ hw.1
    have g1 := swap_one_get_one { lits := h :: tail, m_learned := true } _ hw.1 hw.2
    have hmem : ({ lits := h :: tail, m_learned := true } : clause).get
        ((s.inc_mk_clause.alloc_clause (h :: tail) true).2.select_learned_watch_lit
          { lits := h :: tail, m_learned := true }) ∈ tail := by
      generalize (s.inc_mk_clause.alloc_clause (h :: tail) true).2.select_learned_watch_lit
          { lits := h :: tail, m_learned := true } = w at hw
      obtain ⟨w1, w2⟩ := hw
      unfold clause.get
      simp only [clause.size, List.length_cons] at w2
      obtain ⟨k, rfl⟩ : ∃ k, w = k + 1 := ⟨w - 1, by omega⟩
      rw [List.getD_cons_succ, List.getD_eq_getElem _ _ (by omega)]
      exact List.getElem_mem _
    have hfalse := ht _ hmem
    have hb2 : (s.inc_mk_clause.alloc_clause (h :: tail) true).2.at_base_lvl = false := by
      unfold at_base_lvl at hb ⊢
      simpa using hb
    have e : ∀ c, ((s.inc_mk_clause.alloc_clause (h :: tail) true).2.set_clause
        (s.inc_mk_clause.alloc_clause (h :: tail) true).1 c).m_assignment = s.m_assignment := by
      intro c; simp
    have hsel : (s.inc_mk_clause.alloc_clause (h :: tail) true).2.select_watches
        { lits := h :: tail, m_learned := true } =
        ({ lits := h :: tail, m_learned := true } : clause).swap 1
          ((s.inc_mk_clause.alloc_clause (h :: tail) true).2.select_learned_watch_lit
            { lits := h :: tail, m_learned := true }) := by
      unfold select_watches
      simp
    have hatt : ((s.inc_mk_clause.alloc_clause (h :: tail) true).2.attach_nary_clause
        (s.inc_mk_clause.alloc_clause (h :: tail) true).1).2.value h = .l_true ∨
        ((s.inc_mk_clause.alloc_clause (h :: tail) true).2.attach_nary_clause
        (s.inc_mk_clause.alloc_clause (h :: tail) true).1).2.m_inconsistent = true := by
      unfold attach_nary_clause
      simp only [alloc_clause_fst] at hc ⊢
      rw [hc, hb2, hsel]
      simp only [Bool.not_false, ↓reduceIte, g0, g1]
      have h0 : ∀ st : solver, st.m_assignment = s.m_assignment →
          st.value (({ lits := h :: tail, m_learned := true } : clause).get 0) = s.value h :=
        fun st e1 => value_congr _ _ e1 _
      have h1 : ∀ st : solver, st.m_assignment = s.m_assignment →
          st.value (({ lits := h :: tail, m_learned := true } : clause).get
            ((s.inc_mk_clause.alloc_clause (h :: tail) true).2.select_learned_watch_lit
              { lits := h :: tail, m_learned := true })) = .l_false :=
        fun st e1 => by rw [value_congr _ _ e1]; exact hfalse
      rw [h0 _ (by simp), h1 _ (by simp)]
      by_cases hh : s.value h = .l_false
      · rw [hh]
        simp only [beq_self_eq_true, ↓reduceIte]
        right
        simp only [push_nary_watches_m_inconsistent]
        exact assign_false_conflict _ _ _ (h1 _ (by simp))
      · have hne : (s.value h == lbool.l_false) = false := by
          cases hv : s.value h
          · exact absurd hv hh
          · rfl
          · rfl
        rw [hne]
        simp only [Bool.false_eq_true, ↓reduceIte, beq_self_eq_true]
        have g00 : ({ lits := h :: tail, m_learned := true } : clause).get 0 = h := rfl
        rw [g00]
        apply asserts_push_nary_watches
        exact assign_asserts _ h _ (by simpa using hr)
    simp only [Bool.not_true, Bool.and_false, Bool.false_eq_true, ↓reduceIte]
    exact asserts_congr _ _ _ (by simp) (by simp) hatt
  · cases hm

theorem three_le_match (n : Nat) (hn : 4 ≤ n) :
    ∃ k, n = k + 4 := ⟨n - 4, by omega⟩

/-- Installing a lemma whose literals behind the first are all false assigns
the first literal or raises a conflict; above the base level when the lemma
is not a unit. -/
theorem mk_clause_dispatch_asserts (s : solver) (h : literal) (tail : List literal)
    (r : Option clause_offset × solver)
    (hm : s.mk_clause_dispatch (h :: tail) true = some r)
    (hsz : (h :: tail).length ≤ UINT_MAX)
    (hb : tail ≠ [] → s.at_base_lvl = false) (hr : h.index < s.m_assignment.length)
    (ht : ∀ t ∈ tail, s.value t = .l_false) :
    r.2.value h = .l_true ∨ r.2.m_inconsistent = true := by
  match tail, hm, hsz, hb, ht with
  | [], hm, _, _, _ =>
    simp only [mk_clause_dispatch, List.length_singleton, Option.some.injEq] at hm
    subst hm
    exact assign_asserts s h .none hr
  | [t], hm, _, _, ht =>
    simp only [mk_clause_dispatch, List.length_cons, List.length_nil, Option.some.injEq] at hm
    subst hm
    exact mk_bin_clause_asserts s h t hr (ht t (List.mem_singleton_self _))
  | [t1, t2], hm, _, hb, ht =>
    simp only [mk_clause_dispatch, List.length_cons, List.length_nil, Option.some.injEq] at hm
    subst hm
    exact mk_ter_clause_asserts s h t1 t2 (hb (by simp)) hr (ht t1 (by simp)) (ht t2 (by simp))
  | t1 :: t2 :: t3 :: rest, hm, hsz, hb, ht =>
    simp only [mk_clause_dispatch, List.length_cons] at hm
    split at hm
    · rename_i r1 hr1
      simp only [Option.some.injEq] at hm
      subst hm
      exact mk_nary_clause_asserts s h (t1 :: t2 :: t3 :: rest) r1 hr1 (by simp) hsz
        (hb (by simp)) hr ht
    · cases hm

/-! ## What the backjump keeps -/

theorem mem_drop_index {α : Type} (xs : List α) (n : Nat) (x d : α) (h : x ∈ xs.drop n) :
    ∃ i, n ≤ i ∧ i < xs.length ∧ xs.getD i d = x := by
  obtain ⟨j, hj, e⟩ := List.getElem_of_mem h
  rw [List.length_drop] at hj
  refine ⟨n + j, Nat.le_add_right _ _, by omega, ?_⟩
  rw [List.getD_eq_getElem _ _ (by omega), ← e, List.getElem_drop]

theorem learn_lemma_finish_m_inconsistent (s : solver) (cls : Option clause_offset)
    (glue : Nat) : (s.learn_lemma_finish cls glue).m_inconsistent = s.m_inconsistent := by
  have h1 : ∀ t : solver, t.decay_activity.updt_phase_counters.m_inconsistent
      = t.m_inconsistent := by
    intro t
    unfold updt_phase_counters
    split <;> split <;> rfl
  unfold learn_lemma_finish
  split
  · rw [h1]; rfl
  · exact h1 s

/-- A false literal whose level is at most the level popped to stays false
and keeps its level, also behind the replay of the reinit stack. -/
theorem pop_retains (s : solver) (n : Nat) (hasg : assignment_inv s) (hsc : scope_inv s)
    (hn : n ≤ s.m_scope_lvl) :
    assignment_consistent (s.pop n) ∧
    (s.pop n).m_assignment.length = s.m_assignment.length ∧
    ∀ t, s.value t = .l_false → s.lvl t ≤ s.m_scope_lvl - n →
      (s.pop n).value t = .l_false ∧ (s.pop n).lvl t = s.lvl t := by
  by_cases h0 : n = 0
  · subst h0
    rw [pop_zero]
    exact ⟨hasg.1, rfl, fun t hv _ => ⟨hv, rfl⟩⟩
  · rw [pop_eq s n h0]
    obtain ⟨_, _, _, _, plevel, _, _, pvalue⟩ :=
      pop_before_reinit s n (s.pop_scope n).m_trail_lim (s.scope_lvl - n)
    have pinv := assignment_inv_pop_before_reinit s n (s.pop_scope n).m_trail_lim
      (s.scope_lvl - n) hasg
    have hext := assign_ext_reinit_clauses
      ((s.reset_inconsistent.unassign_vars (s.pop_scope n).m_trail_lim).shrink_scopes n
        (s.scope_lvl - n)) (s.pop_scope n).m_clauses_to_reinit_lim
    refine ⟨hext.consistent pinv.1, ?_, ?_⟩
    · rw [hext.asg_len, pinv.2.1, hasg.2.1]
      show 2 * _ = 2 * s.m_level.length
      unfold num_vars
      rw [plevel]
    · intro t hv hl
      have hp : ((s.reset_inconsistent.unassign_vars (s.pop_scope n).m_trail_lim).shrink_scopes n
          (s.scope_lvl - n)).value t = .l_false := by
        rw [pvalue, if_neg]
        · exact hv
        · rintro ⟨l, hmem, hor⟩
          have hltrue : s.value l = .l_true := (hasg.2.2.1 l).1 (List.mem_of_mem_drop hmem)
          rcases hor with e | e
          · rw [e, hltrue] at hv; cases hv
          · obtain ⟨i, hi1, hi2, hi3⟩ := mem_drop_index _ _ l null_literal hmem
            have hk : s.m_scope_lvl - n < s.m_scopes.length := by
              rw [hsc.1]; omega
            have hiff := hsc.2 (s.m_scope_lvl - n) hk i hi2
            rw [hi3] at hiff
            have hlv : s.lvl l ≤ s.m_scope_lvl - n := by
              rw [← lvl_neg, ← e]; exact hl
            have : i < (s.pop_scope n).m_trail_lim := hiff.2 hlv
            omega
      have hne : ((s.reset_inconsistent.unassign_vars (s.pop_scope n).m_trail_lim).shrink_scopes
          n (s.scope_lvl - n)).value t ≠ lbool.l_undef := by
        rw [hp]; intro e; cases e
      refine ⟨by rw [hext.value pinv.1 t hne, hp], ?_⟩
      rw [hext.level pinv.1 t hne]
      unfold lvl lvl_var
      rw [plevel]

theorem scope_inv_num_diff_levels (s : solver) (lits : List literal) (h : scope_inv s) :
    scope_inv (s.num_diff_levels lits).2 := h

/-- The state after the backjump: the literals of the lemma behind the first
are still false at their levels, which are at most the scope level. -/
theorem backjump_retains (s1 : solver) (h : literal) (tail : List literal)
    (hlem : s1.m_lemma = h :: tail) (hasg : assignment_inv s1) (hsc : scope_inv s1)
    (hlt : s1.m_scope_lvl < 4294967296)
    (htail : ∀ t ∈ tail, s1.value t = .l_false ∧ 0 < s1.lvl t ∧ s1.lvl t ≤ s1.m_scope_lvl) :
    assignment_consistent s1.backjump ∧
    s1.backjump.m_assignment.length = s1.m_assignment.length ∧
    (tail ≠ [] → s1.backjump.at_base_lvl = false) ∧
    s1.new_scope_lvl ≤ s1.m_scope_lvl ∧
    ∀ t ∈ tail, s1.backjump.value t = .l_false ∧ s1.backjump.lvl t = s1.lvl t ∧
      s1.lvl t ≤ s1.backjump.m_scope_lvl := by
  obtain ⟨n1, n2, n3⟩ := new_scope_lvl_spec s1
  have hdrop : s1.m_lemma.drop 1 = tail := by rw [hlem]; rfl
  rw [hdrop] at n1 n2
  have hle : s1.new_scope_lvl ≤ s1.m_scope_lvl := by
    by_cases ht : tail = []
    · rw [n3 (by rw [hlem, ht]; simp)]; exact Nat.zero_le _
    · obtain ⟨l, hl1, hl2⟩ := n2 ht
      rw [← hl2]; exact (htail l hl1).2.2
  have hasg2 : assignment_inv (s1.num_diff_levels s1.m_lemma).2 :=
    assignment_inv_frame s1 _ hasg rfl rfl rfl
  obtain ⟨p1, p2, p3⟩ := pop_retains (s1.num_diff_levels s1.m_lemma).2
    (s1.m_scope_lvl - s1.new_scope_lvl) hasg2 (scope_inv_num_diff_levels s1 _ hsc)
    (Nat.sub_le _ _)
  obtain ⟨g, gs⟩ := reinit_assumptions_spec ((s1.num_diff_levels s1.m_lemma).2.pop
    (s1.m_scope_lvl - s1.new_scope_lvl))
  have hb : s1.backjump = ((s1.num_diff_levels s1.m_lemma).2.pop
      (s1.m_scope_lvl - s1.new_scope_lvl)).reinit_assumptions := by
    unfold backjump pop_reinit
    rw [backjump_scopes_eq s1 hle hlt]
  have hpsc : ((s1.num_diff_levels s1.m_lemma).2.pop
      (s1.m_scope_lvl - s1.new_scope_lvl)).m_scope_lvl = s1.new_scope_lvl := by
    rw [pop_m_scope_lvl]
    show s1.m_scope_lvl - (s1.m_scope_lvl - s1.new_scope_lvl) = _
    omega
  rw [hb]
  refine ⟨g.consistent p1, by rw [g.asg_len, p2]; rfl, ?_, hle, ?_⟩
  · intro ht
    obtain ⟨l, hl1, hl2⟩ := n2 ht
    have hpos : 0 < s1.new_scope_lvl := by rw [← hl2]; exact (htail l hl1).2.1
    have := g.scope_le
    rw [hpsc] at this
    unfold at_base_lvl
    simp only [beq_eq_false_iff_ne, ne_eq]
    omega
  · intro t ht
    obtain ⟨v1, v2, v3⟩ := htail t ht
    have hsub : (s1.num_diff_levels s1.m_lemma).2.m_scope_lvl
        - (s1.m_scope_lvl - s1.new_scope_lvl) = s1.new_scope_lvl := by
      show s1.m_scope_lvl - (s1.m_scope_lvl - s1.new_scope_lvl) = _
      omega
    obtain ⟨q1, q2⟩ := p3 t v1 (by rw [hsub]; exact n1 t ht)
    have hne : ((s1.num_diff_levels s1.m_lemma).2.pop
        (s1.m_scope_lvl - s1.new_scope_lvl)).value t ≠ lbool.l_undef := by
      rw [q1]; intro e; cases e
    refine ⟨by rw [g.value p1 t hne, q1], by rw [g.level p1 t hne, q2]; rfl, ?_⟩
    have := g.scope_le
    rw [hpsc] at this
    exact Nat.le_trans (n1 t ht) this

/-- The installation of the lemma by `learn_lemma_and_backjump`: the first
literal is true unless the solver is in conflict, and the other literals
are false at levels up to the scope level. -/
theorem learn_lemma_and_backjump_asserts (E : collaborators) (fuel : Nat) (s s1 r : solver)
    (h : literal) (tail : List literal)
    (hprep : s.learn_lemma_prepare E fuel = some s1)
    (hr : s.learn_lemma_and_backjump E fuel = some r)
    (hlem : s1.m_lemma = h :: tail) (hsz : s1.m_lemma.length ≤ UINT_MAX)
    (hasg : assignment_inv s1) (hsc : scope_inv s1) (hlt : s1.m_scope_lvl < 4294967296)
    (huip : s1.value h = .l_false)
    (htail : ∀ t ∈ tail, s1.value t = .l_false ∧ 0 < s1.lvl t ∧ s1.lvl t ≤ s1.m_scope_lvl) :
    r.m_lemma = h :: tail ∧
    (r.value h = .l_true ∨ r.m_inconsistent = true) ∧
    (∀ t ∈ tail, r.value t = .l_false ∧ r.lvl t = s1.lvl t ∧ r.lvl t ≤ r.scope_lvl) := by
  obtain ⟨b1, b2, b3, b4, b5⟩ := backjump_retains s1 h tail hlem hasg hsc hlt htail
  obtain ⟨g1, g2, _⟩ := learn_lemma_and_backjump_scope E fuel s s1 r hprep hr b4 hlt
  unfold learn_lemma_and_backjump at hr
  rw [hprep] at hr
  simp only at hr
  split at hr
  · cases hr
  · rename_i res hres
    simp only [Option.some.injEq] at hr
    subst hr
    have hbl : s1.backjump.m_lemma = h :: tail := by
      rw [(lemma_frame_backjump s1).lemma_eq, hlem]
    have hd : s1.backjump.mk_clause_dispatch (h :: tail) true = some res := by
      rw [← hbl]
      simpa [mk_clause_core] using hres
    have hrange : h.index < s1.backjump.m_assignment.length := by
      rw [b2]
      exact value_lt_of_ne_undef s1 h (by rw [huip]; intro e; cases e)
    have ha := mk_clause_dispatch_asserts s1.backjump h tail res hd (by rw [← hlem]; exact hsz)
      b3 hrange (fun t ht => (b5 t ht).1)
    have a2 := assign_ext_mk_clause_dispatch _ _ _ _ hd
    have a3 := assign_ext_learn_lemma_finish res.2 res.1 (s1.num_diff_levels s1.m_lemma).1
    have a23 := assign_ext_trans _ _ _ a2 a3
    refine ⟨by rw [g1.lemma_eq, hlem], ?_, ?_⟩
    · rw [learn_lemma_finish_m_inconsistent]
      rcases ha with ha | ha
      · left
        rw [a3.value (a2.consistent b1) h (by rw [ha]; intro e; cases e), ha]
      · exact Or.inr ha
    · intro t ht
      obtain ⟨v1, v2, v3⟩ := b5 t ht
      have hne : s1.backjump.value t ≠ lbool.l_undef := by rw [v1]; intro e; cases e
      have hl : (res.2.learn_lemma_finish res.1 (s1.num_diff_levels s1.m_lemma).1).lvl t
          = s1.lvl t := by rw [a23.level b1 t hne, v2]
      refine ⟨by rw [a23.value b1 t hne, v1], hl, ?_⟩
      rw [hl]
      show _ ≤ (res.2.learn_lemma_finish res.1 (s1.num_diff_levels s1.m_lemma).1).m_scope_lvl
      rw [a23.scope_lvl]
      exact v3

/-! ## C16: the installed lemma is asserting -/

/-- C16, amended: `learn_lemma_and_backjump` on a first-UIP lemma `h :: tail`
(`s1` is the state that holds the final lemma: its first literal is false,
the others are false at positive levels up to the scope level), when the
solver is not inconsistent after the call.  Then exactly one literal of the
installed lemma is assigned true, its first literal, and every other
literal is assigned false at a level that is at most the scope level after
the backjump. -/
theorem C16_lemma_asserting (E : collaborators) (fuel : Nat) (s s1 r : solver)
    (h : literal) (tail : List literal)
    (hprep : s.learn_lemma_prepare E fuel = some s1)
    (hr : s.learn_lemma_and_backjump E fuel = some r)
    (hlem : s1.m_lemma = h :: tail) (hsz : s1.m_lemma.length ≤ UINT_MAX)
    (hasg : assignment_inv s1) (hsc : scope_inv s1) (hlt : s1.m_scope_lvl < 4294967296)
    (huip : s1.value h = .l_false)
    (htail : ∀ t ∈ tail, s1.value t = .l_false ∧ 0 < s1.lvl t ∧ s1.lvl t ≤ s1.m_scope_lvl)
    (hcons : r.m_inconsistent = false) :
    r.m_lemma = h :: tail ∧
    r.value h = .l_true ∧
    (∀ t ∈ tail, r.value t = .l_false ∧ r.lvl t ≤ r.scope_lvl) ∧
    (∀ l ∈ r.m_lemma, r.value l = .l_true ↔ l = h) := by
  obtain ⟨c1, c2, c3⟩ := learn_lemma_and_backjump_asserts E fuel s s1 r h tail hprep hr hlem hsz
    hasg hsc hlt huip htail
  have hv : r.value h = .l_true := by
    rcases c2 with c2 | c2
    · exact c2
    · rw [hcons] at c2; cases c2
  refine ⟨c1, hv, fun t ht => ⟨(c3 t ht).1, (c3 t ht).2.2⟩, ?_⟩
  intro l hl
  rw [c1] at hl
  constructor
  · intro hlt
    rcases List.mem_cons.1 hl with e | e
    · exact e
    · rw [(c3 l e).1] at hlt; cases hlt
  · intro e
    rw [e]; exact hv

theorem example_prepared_inv : assignment_inv example_prepared :=
  assignment_inv_of_bounded _ (by unfold assignment_consistent; decide) (by decide)
    (by decide) (by decide) (by decide)

/-- C16 at a concrete state: for `example_lemma` the installed lemma is
`¬c ∨ ¬a`; after the backjump to level 1 the literal `¬c` is true and `¬a`
is false at level 1. -/
theorem C16_lemma_asserting_witness :
    example_prepared.m_lemma = [⟨5⟩, ⟨1⟩] ∧ scope_inv example_prepared ∧
    example_prepared.value ⟨5⟩ = .l_false ∧
    ((example_lemma.learn_lemma_and_backjump {} 10).getD {}).m_inconsistent = false ∧
    ((example_lemma.learn_lemma_and_backjump {} 10).getD {}).m_lemma = [⟨5⟩, ⟨1⟩] ∧
    ((example_lemma.learn_lemma_and_backjump {} 10).getD {}).value ⟨5⟩ = .l_true ∧
    (∀ t ∈ [(⟨1⟩ : literal)],
      ((example_lemma.learn_lemma_and_backjump {} 10).getD {}).value t = .l_false ∧
      ((example_lemma.learn_lemma_and_backjump {} 10).getD {}).lvl t ≤
        ((example_lemma.learn_lemma_and_backjump {} 10).getD {}).scope_lvl) ∧
    (∀ l ∈ ((example_lemma.learn_lemma_and_backjump {} 10).getD {}).m_lemma,
      ((example_lemma.learn_lemma_and_backjump {} 10).getD {}).value l = .l_true ↔ l = ⟨5⟩) :=
  ⟨by decide, by unfold scope_inv; decide, by decide, by decide,
    C16_lemma_asserting {} 10 example_lemma example_prepared
      ((example_lemma.learn_lemma_and_backjump {} 10).getD {}) ⟨5⟩ [⟨1⟩]
      (some_getD_of_isSome _ _ (by decide)) (some_getD_of_isSome _ _ (by decide))
      (by decide) (by decide) example_prepared_inv (by unfold scope_inv; decide) (by decide)
      (by decide) (by decide) (by decide)⟩

theorem example_reinit_prepared_inv : assignment_inv example_reinit_prepared :=
  assignment_inv_of_bounded _ (by unfold assignment_consistent; decide) (by decide)
    (by decide) (by decide) (by decide)

/-- C16 as stated fails when the replay of the reinit stack assigns the UIP
again.  In `example_reinit_conflict` the lemma is `¬u ∨ x`, a first-UIP
lemma: `¬u` is false at level 2 and `x` is false at level 1.  The backjump to
level 1 replays the clause `u ∨ x` of the reinit stack, which assigns `u`
without a conflict; the installation of the lemma then raises the conflict,
and no literal of the installed lemma is true. -/
theorem C16_lemma_asserting_counterexample :
    example_reinit_lemma.learn_lemma_prepare {} 10 = some example_reinit_prepared ∧
    example_reinit_prepared.m_lemma = [⟨5⟩, ⟨0⟩] ∧
    example_reinit_prepared.value ⟨5⟩ = .l_false ∧ example_reinit_prepared.lvl ⟨5⟩ = 2 ∧
    example_reinit_prepared.value ⟨0⟩ = .l_false ∧ example_reinit_prepared.lvl ⟨0⟩ = 1 ∧
    example_reinit_prepared.scope_lvl = 2 ∧
    assignment_inv example_reinit_prepared ∧ scope_inv example_reinit_prepared ∧
    example_reinit_prepared.backjump.m_inconsistent = false ∧
    example_reinit_prepared.backjump.m_trail = [⟨1⟩, ⟨4⟩] ∧
    ∃ r, example_reinit_lemma.learn_lemma_and_backjump {} 10 = some r ∧
      r.m_lemma = [⟨5⟩, ⟨0⟩] ∧ r.scope_lvl = 1 ∧ r.m_inconsistent = true ∧
      ∀ l ∈ r.m_lemma, r.value l = .l_false :=
  ⟨some_getD_of_isSome _ _ (by decide), by decide, by decide, by decide, by decide, by decide,
    by decide, example_reinit_prepared_inv, by unfold scope_inv; decide, by decide, by decide,
    (example_reinit_lemma.learn_lemma_and_backjump {} 10).getD {},
    some_getD_of_isSome _ _ (by decide), by decide, by decide, by decide, by decide⟩

/-! ## Soundness of the lemma -/

theorem reason_antecedents_congr (E : collaborators) (hE : E.m_ext = none) (s s1 : solver)
    (hj : s1.m_justification = s.m_justification)
    (har : s1.m_cls_allocator = s.m_cls_allocator) (l : literal) :
    reason_antecedents E s1 l = reason_antecedents E s l := by
  unfold reason_antecedents
  rw [hj]
  exact conflict_antecedents_congr E hE s s1 har l _

theorem min_antecedents_congr (E : collaborators) (hE : E.m_ext = none) (s s1 : solver)
    (hj : s1.m_justification = s.m_justification)
    (har : s1.m_cls_allocator = s.m_cls_allocator) (v : bool_var) :
    min_antecedents E s1 v = min_antecedents E s v := by
  unfold min_antecedents
  rw [hj]
  cases s.m_justification.getD v .none with
  | none => rfl
  | binary l => rfl
  | ternary l1 l2 => rfl
  | clause off =>
    simp only [fill_minimization_antecedents, minimization_antecedents, solver.get_clause, har]
  | ext_justification idx =>
    simp [fill_minimization_antecedents, minimization_antecedents, fill_ext_antecedents, hE]

/-- For a trail literal the analysis and the minimisation read the same
antecedents from its justification. -/
theorem reason_antecedents_eq_min (E : collaborators) (hE : E.m_ext = none) (s : solver)
    (p : literal) (hp : p ≠ null_literal) (hself : p ∉ reason_antecedents E s p) :
    reason_antecedents E s p = min_antecedents E s p.var := by
  unfold reason_antecedents min_antecedents at *
  cases hj : s.m_justification.getD p.var .none with
  | none => rfl
  | binary l => rfl
  | ternary l1 l2 => rfl
  | clause off =>
    rw [hj] at hself
    simp only [fill_antecedents, conflict_antecedents, fill_minimization_antecedents,
      minimization_antecedents, ne_eq, hp, not_false_eq_true, ↓reduceIte] at hself ⊢
    by_cases h0 : (s.get_clause off).get 0 = p
    · rw [if_pos h0, if_pos (by rw [h0])]
    · rw [if_neg h0] at hself ⊢
      by_cases hv : ((s.get_clause off).get 0).var = p.var
      · exfalso
        rcases eq_or_eq_neg_of_var_eq _ _ hv with e | e
        · exact h0 e
        · apply hself
          rw [e, literal_neg_neg]
          exact List.mem_cons_self _ _
      · rw [if_neg hv]
  | ext_justification idx =>
    simp [fill_antecedents, conflict_antecedents, fill_minimization_antecedents,
      minimization_antecedents, fill_ext_antecedents, hE]

theorem getD_mem_take {α : Type} (xs : List α) (i : Nat) (a d : α) (h : a ∈ xs.take i) :
    ∃ j, j < i ∧ j < xs.length ∧ xs.getD j d = a := by
  obtain ⟨j, hj, e⟩ := List.getElem_of_mem h
  rw [List.length_take] at hj
  refine ⟨j, by omega, by omega, ?_⟩
  rw [List.getD_eq_getElem _ _ (by omega), ← e, List.getElem_take]

theorem trail_split_of_index (xs : List literal) (i : Nat) (hi : i < xs.length) :
    xs = xs.take i ++ xs.getD i null_literal :: xs.drop (i + 1) := by
  rw [List.getD_eq_getElem _ _ hi]
  exact (List.take_append_drop i xs).symm.trans (by rw [List.drop_eq_getElem_cons hi])

/-- The assignments that satisfy the clauses of the solver form a class of
valuations the analysis is sound for, when the justifications are clauses of
the solver. -/
theorem sound_inv_of_db (E : collaborators) (hE : E.m_ext = none) (s se : solver) (d : Nat)
    (ht : se.m_trail = s.m_trail) (hl : se.m_level = s.m_level)
    (hj : se.m_justification = s.m_justification)
    (har : se.m_cls_allocator = s.m_cls_allocator) (hn : se.m_not_l = s.m_not_l)
    (hc : se.m_conflict = s.m_conflict)
    (hdb : reasons_in_db E s) (hdec : decision_first s d) :
    sound_inv E (is_model s) se d := by
  have hlvl : ∀ l, se.lvl l = s.lvl l := by
    intro l; unfold solver.lvl solver.lvl_var; rw [hl]
  have hfc : se.first_consequent = s.first_consequent := by
    unfold first_consequent; rw [hn]
  have hca : conflict_clause_antecedents E se = conflict_clause_antecedents E s := by
    unfold conflict_clause_antecedents
    rw [hn, hc, hfc, conflict_antecedents_congr E hE s se har]
  refine ⟨fun μ hμ => hμ.1, ?_, ?_, ?_, ?_⟩
  · intro μ hμ l hl1 hl0
    exact hμ.2.2 l (by rw [← ht]; exact hl1) (by rw [← hlvl]; exact hl0)
  · intro μ hμ l hl1 hne
    rw [ht] at hl1
    rw [hj] at hne
    obtain ⟨c, c1, c2⟩ := hdb.1 l hl1 hne
    obtain ⟨x, x1, x2⟩ := hμ.2.1 c c1
    rcases c2 x x1 with e | e
    · left; rw [← e]; exact x2
    · right
      refine ⟨x.neg, by rw [reason_antecedents_congr E hE s se hj har]; exact e, ?_⟩
      rw [hμ.1, x2]; rfl
  · intro μ hμ
    obtain ⟨c, c1, c2⟩ := hdb.2
    obtain ⟨x, x1, x2⟩ := hμ.2.1 c c1
    refine ⟨x.neg, by rw [hca]; exact c2 x x1, ?_⟩
    rw [hμ.1, x2]; rfl
  · intro _ pre l post hsplit hnone hld p hp
    rw [ht] at hsplit
    rw [hj] at hnone
    rw [hlvl] at hld
    rw [hlvl]
    have hlen : pre.length < s.m_trail.length := by
      rw [hsplit, List.length_append, List.length_cons]; omega
    have hget : s.m_trail.getD pre.length null_literal = l := by
      rw [hsplit, List.getD_eq_getElem?_getD, List.getElem?_append_right (Nat.le_refl _)]
      simp
    obtain ⟨j, hj1, e⟩ := List.getElem_of_mem hp
    have hgetj : s.m_trail.getD j null_literal = p := by
      rw [hsplit, List.getD_eq_getElem?_getD, List.getElem?_append_left hj1,
        List.getElem?_eq_getElem hj1, e]
      rfl
    have := hdec pre.length hlen (by rw [hget]; exact hnone) (by rw [hget]; exact hld) j hj1
    rw [hgetj] at this
    exact this

/-- What the minimisation leaves out is implied: an assignment that
satisfies the reason clauses and makes the kept literals false makes every
trail literal true whose variable is at level 0, marked or in the implied
set `X`. -/
theorem implied_true (E : collaborators) (hE : E.m_ext = none)
    (Γ : (literal → Bool) → Prop) (s s1 : solver) (d : Nat)
    (hinv : conflict_inv E s d) (hsound : sound_inv E Γ s d)
    (hnull : null_literal ∉ s.m_trail) (hf : analysis_frame s s1)
    (tail kept : List literal) (X : List bool_var)
    (hmarked : ∀ v, s1.is_marked v = true → ∃ t ∈ tail, t.var = v)
    (htail : ∀ t ∈ tail, t.neg ∈ s.m_trail)
    (hkept : ∀ l ∈ tail, l ∈ kept ∨ l.var ∈ X)
    (hX : implied_closed E s1 X)
    (μ : literal → Bool) (hμ : Γ μ) (hfalse : ∀ t ∈ kept, μ t = false) :
    ∀ n i, i < n → i < s.m_trail.length →
      (s.lvl (s.m_trail.getD i null_literal) = 0 ∨
        s1.is_marked (s.m_trail.getD i null_literal).var = true ∨
        (s.m_trail.getD i null_literal).var ∈ X) →
      μ (s.m_trail.getD i null_literal) = true := by
  intro n
  induction n with
  | zero => intro i hi; cases hi
  | succ n ih =>
    intro i hi hlen hcase
    have hpm : s.m_trail.getD i null_literal ∈ s.m_trail := by
      rw [List.getD_eq_getElem _ _ hlen]; exact List.getElem_mem _
    have inX : (s.m_trail.getD i null_literal).var ∈ X →
        μ (s.m_trail.getD i null_literal) = true := by
      intro hx
      obtain ⟨j1, j2⟩ := hX _ hx
      rw [hf.justification, hf.lvl_var] at j1
      rcases j1 with j1 | j1
      · rcases hsound.reason μ hμ _ hpm j1 with r | ⟨a, a1, a2⟩
        · exact r
        · exfalso
          have hbefore := hinv.reasons i hlen a a1
          have hself : s.m_trail.getD i null_literal ∉
              reason_antecedents E s (s.m_trail.getD i null_literal) := by
            intro hmem
            have hb := hinv.reasons i hlen _ hmem
            obtain ⟨j, q1, q2, q3⟩ := getD_mem_take _ _ _ null_literal hb
            have hnd := hinv.asg.2.2.2
            rw [List.getD_eq_getElem _ _ q2, List.getD_eq_getElem _ _ hlen] at q3
            have := (List.Nodup.getElem_inj_iff hnd).1 q3
            omega
          have hpne : s.m_trail.getD i null_literal ≠ null_literal := by
            intro e; rw [e] at hpm; exact hnull hpm
          rw [reason_antecedents_eq_min E hE s _ hpne hself,
            ← min_antecedents_frame E hE hf] at a1
          obtain ⟨j, q1, q2, q3⟩ := getD_mem_take _ _ _ null_literal hbefore
          have hc := j2 a a1
          rw [hf.lvl_var] at hc
          rw [← q3] at hc a2
          have := ih j (by omega) q2 hc
          rw [this] at a2
          cases a2
      · exact hsound.level0 μ hμ _ hpm j1
    rcases hcase with h0 | hm | hx
    · exact hsound.level0 μ hμ _ hpm h0
    · obtain ⟨t, t1, t2⟩ := hmarked _ hm
      have e : t.neg = s.m_trail.getD i null_literal :=
        trail_var_inj s hinv.asg _ _ (htail t t1) hpm (by rw [var_neg]; exact t2)
      rcases hkept t t1 with k | k
      · rw [← e, hsound.compl μ hμ, hfalse t k]; rfl
      · exact inX (by rw [← t2]; exact k)
    · exact inX hx

/-! ## The lemma that is installed -/

theorem foldl_m_lemma_append {α : Type} (f : solver → α → solver)
    (hf : ∀ s a, ∃ e, (f s a).m_lemma = s.m_lemma ++ e) (xs : List α) (s : solver) :
    ∃ e, (xs.foldl f s).m_lemma = s.m_lemma ++ e := by
  induction xs generalizing s with
  | nil => exact ⟨[], by simp⟩
  | cons a rest ih =>
    obtain ⟨e1, h1⟩ := hf s a
    obtain ⟨e2, h2⟩ := ih (f s a)
    exact ⟨e1 ++ e2, by rw [List.foldl_cons, h2, h1, List.append_assoc]⟩

theorem update_lrb_reasoned_lit_m_lemma (s : solver) (lit : literal) :
    ∃ e, (s.update_lrb_reasoned_lit lit).m_lemma = s.m_lemma ++ e := by
  unfold update_lrb_reasoned_lit
  split
  · exact ⟨[lit], rfl⟩
  · exact ⟨[], by simp⟩

theorem update_lrb_reasoned_step_m_lemma (E : collaborators) (s : solver) (l : literal) :
    ∃ e, (update_lrb_reasoned_step E s l).m_lemma = s.m_lemma ++ e := by
  unfold update_lrb_reasoned_step
  obtain ⟨e, h⟩ := foldl_m_lemma_append update_lrb_reasoned_lit update_lrb_reasoned_lit_m_lemma
    (lrb_antecedents (fill_antecedents E s l (s.m_justification.getD l.var .none))
      (s.m_justification.getD l.var .none))
    (fill_antecedents E s l (s.m_justification.getD l.var .none))
  exact ⟨e, by rw [h, fill_antecedents_m_lemma]⟩

theorem foldl_reset_mark_m_lemma (ls : List literal) (s : solver) :
    (ls.foldl (fun st l => st.reset_mark l.var) s).m_lemma = s.m_lemma := by
  induction ls generalizing s with
  | nil => rfl
  | cons a rest ih => rw [List.foldl_cons, ih, reset_mark_m_lemma]

theorem update_lrb_reasoned_m_lemma (E : collaborators) (s : solver) :
    (s.update_lrb_reasoned E).m_lemma = s.m_lemma := by
  obtain ⟨e, h⟩ := foldl_m_lemma_append (update_lrb_reasoned_step E)
    (update_lrb_reasoned_step_m_lemma E) s.m_lemma.reverse
    (s.mark (s.m_lemma.getD 0 null_literal).var)
  unfold update_lrb_reasoned update_lrb_reasoned_reset
  simp only [reset_mark_m_lemma, h, mark_m_lemma]
  simp

theorem reset_lemma_var_marks_m_lemma (E : collaborators) (s : solver) :
    (s.reset_lemma_var_marks E).m_lemma = s.m_lemma := by
  unfold reset_lemma_var_marks
  rw [foldl_reset_mark_m_lemma]
  split
  · exact update_lrb_reasoned_m_lemma E s
  · rfl

theorem resolve_conflict_enter_m_config (E : collaborators) (hE : E.m_ext = none) (s : solver) :
    (s.resolve_conflict_enter E).m_config = s.m_config := by
  unfold resolve_conflict_enter
  obtain ⟨h1, _⟩ := forget_phase_of_vars_frame (s.count_conflict.set_conflict_lvl E)
    (s.count_conflict.set_conflict_lvl E).m_conflict_lvl
  rw [set_conflict_lvl_no_ext E hE] at h1 ⊢
  exact h1.config

/-- The lemma in the state `learn_lemma_and_backjump` returns is the lemma it
installed. -/
theorem learn_lemma_and_backjump_m_lemma (E : collaborators) (fuel : Nat) (s s1 r : solver)
    (hprep : s.learn_lemma_prepare E fuel = some s1)
    (hr : s.learn_lemma_and_backjump E fuel = some r) : r.m_lemma = s1.m_lemma := by
  unfold learn_lemma_and_backjump at hr
  rw [hprep] at hr
  simp only at hr
  split at hr
  · cases hr
  · rename_i res hres
    simp only [Option.some.injEq] at hr
    subst hr
    have hd : s1.backjump.mk_clause_dispatch s1.backjump.m_lemma true = some res := by
      simpa [mk_clause_core] using hres
    exact (lemma_frame_trans (lemma_frame_backjump s1)
      (lemma_frame_trans (lemma_frame_mk_clause_dispatch _ _ _ _ hd)
        (lemma_frame_learn_lemma_finish res.2 res.1 (s1.num_diff_levels s1.m_lemma).1))).lemma_eq

/-- Without dynamic subsumption resolution the lemma that is installed is
the minimised lemma, or the lemma of the analysis when minimisation is
switched off. -/
theorem learn_lemma_prepare_m_lemma (E : collaborators) (fuel : Nat) (s1 s2 : solver)
    (hne : s1.m_lemma ≠ []) (hmin : s1.minimize_lemma E fuel = some s2)
    (hcfg : s2.m_config = s1.m_config) (hdyn : s1.m_config.m_dyn_sub_res = false) :
    ∃ s3, s1.learn_lemma_prepare E fuel = some s3 ∧
      s3.m_lemma = (if s1.m_config.m_minimize_lemmas then s2.m_lemma else s1.m_lemma) := by
  have e : s1.m_lemma.isEmpty = false := by
    cases hl : s1.m_lemma with
    | nil => exact absurd hl hne
    | cons a b => rfl
  unfold learn_lemma_prepare
  rw [e]
  simp only [Bool.false_eq_true, ↓reduceIte]
  by_cases hm : s1.m_config.m_minimize_lemmas = true
  · rw [if_pos hm, if_pos hm, hmin]
    simp only [hcfg, hdyn, Bool.false_eq_true, ↓reduceIte]
    exact ⟨_, rfl, reset_lemma_var_marks_m_lemma E s2⟩
  · rw [if_neg hm, if_neg hm]
    exact ⟨_, rfl, reset_lemma_var_marks_m_lemma E s1⟩

/-- The analysis and the minimisation of `resolve_conflict_core` return
lemmas that hold in every valuation of a class `Γ` the analysis is sound
for. -/
theorem minimized_lemma_sound (E : collaborators) (hE : E.m_ext = none)
    (Γ : (literal → Bool) → Prop) (s : solver) (d : Nat) (hinv : conflict_inv E s d)
    (hd : s.m_conflict_lvl = d) (hd1 : 1 ≤ d) (hsound : sound_inv E Γ s d)
    (hnull : null_literal ∉ s.m_trail) (hwf : antecedents_wf E s) (fuel : Nat)
    (hfuel : 2 * s.num_vars + 2 ≤ fuel) :
    ∃ s1 s2, resolve_conflict_analysis E s = some s1 ∧ s1.minimize_lemma E fuel = some s2 ∧
      s1.m_lemma ≠ [] ∧ s1.m_config = s.m_config ∧ s2.m_config = s1.m_config ∧
      ∀ μ, Γ μ → (∃ l ∈ s1.m_lemma, μ l = true) ∧ (∃ l ∈ s2.m_lemma, μ l = true) := by
  obtain ⟨s1, u, tail, r1, r2, r3, r4, r5, r6, r7, r8, r9⟩ :=
    resolve_conflict_analysis_spec E hE Γ s d hinv hd hd1 hsound
  have hwf1 : ∀ v a, a ∈ min_antecedents E s1 v → a.var < s1.m_mark.length := by
    intro v a ha
    rw [min_antecedents_frame E hE r2] at ha
    rw [r3, hinv.mark_len]
    by_cases hv : v < s.m_justification.length
    · exact hwf v hv a ha
    · exfalso
      unfold min_antecedents at ha
      rw [List.getD_eq_default _ _ (Nat.le_of_not_lt hv)] at ha
      cases ha
  obtain ⟨s2, hs2⟩ := minimize_lemma_terminates E hE s1 hwf1 fuel (by
    rw [r3, hinv.mark_len]; exact hfuel)
  obtain ⟨m1, _, _, kept, X, x1, _, x3, x4, _, _⟩ := minimize_lemma_spec E hE fuel s1 s2 hs2
  have hdrop : s1.m_lemma.drop 1 = tail := by rw [r6]; rfl
  have htake : s1.m_lemma.take 1 = [u.neg] := by rw [r6]; rfl
  rw [hdrop] at x4
  rw [htake] at x1
  refine ⟨s1, s2, r1, hs2, by rw [r6]; exact List.cons_ne_nil _ _, r2.config, m1.config, ?_⟩
  intro μ hμ
  obtain ⟨t, t1, t2⟩ := r9 μ hμ
  refine ⟨⟨t, by rw [r6]; exact t1, t2⟩, ?_⟩
  by_contra hnot
  have hall : ∀ l ∈ s2.m_lemma, μ l = false := by
    intro l hl
    cases hv : μ l
    · rfl
    · exact absurd ⟨l, hl, hv⟩ hnot
  rcases List.mem_cons.1 t1 with e | e
  · have := hall u.neg (by rw [x1]; exact List.mem_cons_self _ _)
    rw [e, this] at t2
    cases t2
  · obtain ⟨q1, _, _, q4⟩ := r7 t e
    obtain ⟨i, hi, hget⟩ := List.getElem_of_mem q1
    have hgetD : s.m_trail.getD i null_literal = t.neg := by
      rw [List.getD_eq_getElem _ _ hi, hget]
    have := implied_true E hE Γ s s1 d hinv hsound hnull r2 tail kept X r8
      (fun t ht => (r7 t ht).1) x4 x3 μ hμ
      (fun k hk => hall k (by rw [x1]; exact List.mem_cons_of_mem _ hk)) (i + 1) i
      (Nat.lt_succ_self _) hi (Or.inr (Or.inl (by rw [hgetD, var_neg]; exact q4)))
    rw [hgetD, hsound.compl μ hμ, t2] at this
    cases this

/-! ## C17: the lemma follows from the clauses of the solver -/

/-- C17: `resolve_conflict_core` without an extension, on a state that
satisfies the trail and justification invariant `conflict_inv` with a
conflict at the scope level `d ≥ 1`, outside the unsat-core case, when the
justifications on the trail and the conflict are clauses of the solver
(`reasons_in_db`), the decision of level `d` is the first literal of its
level, the null literal is not on the trail and the antecedents of the
recorded justifications are variables of the solver.  With fuel for two
iterations per variable and two more, the first-UIP analysis returns a state
`s1` and `minimize_lemma` returns a state `s2`, and every total assignment
that satisfies the clauses of the solver (binary and ternary watches, the
clauses of `m_clauses` and `m_learned`, the units of level 0) makes a
literal of the first-UIP lemma true and a literal of the minimised lemma
true.  Without dynamic subsumption resolution the lemma that
`learn_lemma_and_backjump` installs is this minimised lemma, or the
first-UIP lemma when minimisation is switched off. -/
theorem C17_lemma_sound (E : collaborators) (hE : E.m_ext = none) (fuel : Nat) (s : solver)
    (hd : 1 ≤ s.scope_lvl) (hinv : conflict_inv E s s.scope_lvl)
    (hcore : ¬ (s.scope_lvl ≤ 1 ∧ s.tracking_assumptions = true))
    (hnull : null_literal ∉ s.m_trail) (hdb : reasons_in_db E s)
    (hdec : decision_first s s.scope_lvl) (hwf : antecedents_wf E s)
    (hfuel : 2 * s.num_vars + 2 ≤ fuel) :
    ∃ s1 s2, resolve_conflict_analysis E (s.resolve_conflict_enter E) = some s1 ∧
      s1.minimize_lemma E fuel = some s2 ∧
      resolve_conflict_core E fuel s =
        (s1.learn_lemma_and_backjump E fuel).map (fun r => (true, r)) ∧
      (∀ μ, is_model s μ → (∃ l ∈ s1.m_lemma, μ l = true) ∧ (∃ l ∈ s2.m_lemma, μ l = true)) ∧
      (s.m_config.m_dyn_sub_res = false →
        ∃ s3, s1.learn_lemma_prepare E fuel = some s3 ∧
          s3.m_lemma = (if s.m_config.m_minimize_lemmas then s2.m_lemma else s1.m_lemma) ∧
          ∀ r, s1.learn_lemma_and_backjump E fuel = some r → r.m_lemma = s3.m_lemma) := by
  obtain ⟨p1, p2, p3, p4, p5, p6, p7, p8, p9, _⟩ := resolve_conflict_enter_spec E hE s
  have hinv1 : conflict_inv E (s.resolve_conflict_enter E) s.scope_lvl :=
    conflict_inv_congr E hE s _ _ p2 p3 p4 p5 p6 p7 p8 p9 hinv
  have hsound : sound_inv E (is_model s) (s.resolve_conflict_enter E) s.scope_lvl :=
    sound_inv_of_db E hE s _ _ p5 p3 p4 p6 p7 p8 hdb hdec
  have hwf1 : antecedents_wf E (s.resolve_conflict_enter E) := by
    intro v hv a ha
    rw [min_antecedents_congr E hE s _ p4 p6] at ha
    rw [p4] at hv
    show a.var < (s.resolve_conflict_enter E).m_level.length
    rw [p3]
    exact hwf v hv a ha
  have hnv : (s.resolve_conflict_enter E).num_vars = s.num_vars := by
    show (s.resolve_conflict_enter E).m_level.length = s.m_level.length
    rw [p3]
  obtain ⟨s1, s2, a1, a2, a3, a4, a5, a6⟩ := minimized_lemma_sound E hE (is_model s)
    (s.resolve_conflict_enter E) s.scope_lvl hinv1 p1 hd hsound (by rw [p5]; exact hnull) hwf1
    fuel (by rw [hnv]; exact hfuel)
  have hcfg : s1.m_config = s.m_config := by
    rw [a4, resolve_conflict_enter_m_config E hE]
  refine ⟨s1, s2, a1, a2, ?_, a6, ?_⟩
  · rw [resolve_conflict_core_eq E hE fuel s hd hcore, a1]
    rfl
  · intro hdyn
    obtain ⟨s3, b1, b2⟩ := learn_lemma_prepare_m_lemma E fuel s1 s2 a3 a2 a5
      (by rw [hcfg]; exact hdyn)
    rw [hcfg] at b2
    exact ⟨s3, b1, b2, fun r hr => learn_lemma_and_backjump_m_lemma E fuel s1 s3 r b1 hr⟩

/-! ## C17 at a concrete state -/

/-- A valuation satisfies the clauses of the solver when it passes the
checks over the watch lists, the clause vectors and the trail. -/
theorem is_model_of_checks (s : solver) (μ : literal → Bool) (h1 : ∀ l : literal, μ l.neg = !μ l)
    (h2 : ∀ i < s.m_watches.length, ∀ e ∈ s.get_wlist i,
      (match e with
        | .binary l2 _ => μ (⟨i⟩ : literal).neg || μ l2
        | .ternary l1 l2 => μ (⟨i⟩ : literal).neg || μ l1 || μ l2
        | _ => true) = true)
    (h3 : ∀ off ∈ s.m_clauses ++ s.m_learned, ∃ l ∈ (s.get_clause off).lits, μ l = true)
    (h4 : ∀ l ∈ s.m_trail, s.lvl l = 0 → μ l = true) : is_model s μ := by
  refine ⟨h1, ?_, h4⟩
  have hlen : ∀ (w : literal) (e : watched), e ∈ s.get_wlist w.index →
      w.index < s.m_watches.length := by
    intro w e he
    by_contra hw
    unfold get_wlist at he
    rw [List.getD_eq_default _ _ (Nat.le_of_not_lt hw)] at he
    cases he
  intro c hc
  rcases hc with ⟨w, l2, b, hmem, rfl⟩ | ⟨w, l1, l2, hmem, rfl⟩ | ⟨off, hoff, rfl⟩
  · have h := h2 w.index (hlen w _ hmem) _ hmem
    simp only [Bool.or_eq_true] at h
    rcases h with h | h
    · exact ⟨w.neg, List.mem_cons_self _ _, h⟩
    · exact ⟨l2, by simp, h⟩
  · have h := h2 w.index (hlen w _ hmem) _ hmem
    simp only [Bool.or_eq_true] at h
    rcases h with (h | h) | h
    · exact ⟨w.neg, List.mem_cons_self _ _, h⟩
    · exact ⟨l1, by simp, h⟩
    · exact ⟨l2, by simp, h⟩
  · exact h3 off hoff

/-- In `example_conflict` the justifications of `b` and `d` and the conflict
are clauses of the solver: the binary watch for `¬a ∨ b` and the two clauses
of the arena. -/
theorem example_conflict_reasons : reasons_in_db {} example_conflict := by
  refine ⟨?_, [⟨3⟩, ⟨5⟩, ⟨7⟩], Or.inr (Or.inr ⟨1, by decide, by decide⟩), by decide⟩
  intro l hl hj
  have hl1 : l ∈ [(⟨0⟩ : literal), ⟨2⟩, ⟨4⟩, ⟨6⟩] := hl
  simp only [List.mem_cons, List.mem_singleton, List.not_mem_nil, or_false] at hl1
  rcases hl1 with rfl | rfl | rfl | rfl
  · exact absurd (by decide) hj
  · exact ⟨[⟨1⟩, ⟨2⟩], Or.inl ⟨⟨0⟩, ⟨2⟩, false, by decide, by decide⟩, by decide⟩
  · exact absurd (by decide) hj
  · exact ⟨[⟨1⟩, ⟨5⟩, ⟨6⟩], Or.inr (Or.inr ⟨0, by decide, by decide⟩), by decide⟩

/-- The assignment that makes every variable false satisfies the clauses of
`example_conflict`. -/
theorem example_conflict_model :
    is_model example_conflict (fun l => decide (l.index % 2 = 1)) := by
  apply is_model_of_checks
  · intro l
    have h := literal_neg_index l
    simp only [h]
    split
    · rename_i hc
      have : l.index % 2 = 0 := by omega
      simp [this]
      omega
    · rename_i hc
      have : l.index % 2 = 1 := by omega
      simp [this]
      omega
  · decide
  · decide
  · decide

/-- C17 at a concrete state: for `example_conflict`, whose clauses are
`¬a ∨ b`, `¬a ∨ ¬c ∨ d` and `¬b ∨ ¬c ∨ ¬d`, the first-UIP lemma is
`¬c ∨ ¬b ∨ ¬a` and the minimised lemma is `¬c ∨ ¬a`; the clauses have a
satisfying assignment, and every satisfying assignment makes a literal of
either lemma true. -/
theorem C17_lemma_sound_witness :
    1 ≤ example_conflict.scope_lvl ∧ conflict_inv {} example_conflict example_conflict.scope_lvl ∧
    null_literal ∉ example_conflict.m_trail ∧ reasons_in_db {} example_conflict ∧
    decision_first example_conflict example_conflict.scope_lvl ∧
    antecedents_wf {} example_conflict ∧
    is_model example_conflict (fun l => decide (l.index % 2 = 1)) ∧
    ((resolve_conflict_analysis {} (example_conflict.resolve_conflict_enter {})).bind
      (fun s1 => s1.minimize_lemma {} 10)).map (fun s2 => s2.m_lemma) = some [⟨5⟩, ⟨1⟩] ∧
    ∃ s1 s2,
      resolve_conflict_analysis {} (example_conflict.resolve_conflict_enter {}) = some s1 ∧
      s1.minimize_lemma {} 10 = some s2 ∧
      resolve_conflict_core {} 10 example_conflict =
        (s1.learn_lemma_and_backjump {} 10).map (fun r => (true, r)) ∧
      (∀ μ, is_model example_conflict μ →
        (∃ l ∈ s1.m_lemma, μ l = true) ∧ (∃ l ∈ s2.m_lemma, μ l = true)) ∧
      (example_conflict.m_config.m_dyn_sub_res = false →
        ∃ s3, s1.learn_lemma_prepare {} 10 = some s3 ∧
          s3.m_lemma = (if example_conflict.m_config.m_minimize_lemmas then s2.m_lemma
            else s1.m_lemma) ∧
          ∀ r, s1.learn_lemma_and_backjump {} 10 = some r → r.m_lemma = s3.m_lemma) :=
  ⟨by decide, example_conflict_inv, by decide, example_conflict_reasons,
    by unfold decision_first; decide, by unfold antecedents_wf; decide, example_conflict_model,
    by decide,
    C17_lemma_sound {} rfl 10 example_conflict (by decide) example_conflict_inv (by decide)
      (by decide) example_conflict_reasons (by unfold decision_first; decide)
      (by unfold antecedents_wf; decide) (by decide)⟩

/-! ## C30: the second watch of a learned clause -/

/-- Invariant of the loop of `select_learned_watch_lit`: the index kept is
the first position of a literal of the highest level among the positions
scanned. -/
theorem select_learned_watch_lit_argmax (s : solver) (cls : clause) :
    ∀ n start m, start + n ≤ UINT_MAX → 1 ≤ start →
      ((m = UINT_MAX ∧ start = 1) ∨ (1 ≤ m ∧ m < start ∧
        (∀ k, 1 ≤ k → k < start → s.lvl (cls.get k) ≤ s.lvl (cls.get m)) ∧
        (∀ j, 1 ≤ j → j < m → s.lvl (cls.get j) < s.lvl (cls.get m)))) →
      (0 < n ∨ m ≠ UINT_MAX) →
      1 ≤ (List.range' start n).foldl (select_learned_watch_lit_step s cls) m ∧
      (List.range' start n).foldl (select_learned_watch_lit_step s cls) m < start + n ∧
      (∀ k, 1 ≤ k → k < start + n → s.lvl (cls.get k) ≤
        s.lvl (cls.get ((List.range' start n).foldl (select_learned_watch_lit_step s cls) m))) ∧
      (∀ j, 1 ≤ j → j < (List.range' start n).foldl (select_learned_watch_lit_step s cls) m →
        s.lvl (cls.get j) <
          s.lvl (cls.get ((List.range' start n).foldl (select_learned_watch_lit_step s cls) m))) := by
  intro n
  induction n with
  | zero =>
    intro start m _ _ hinv hne
    simp only [List.range'_zero, List.foldl_nil, Nat.add_zero]
    rcases hinv with ⟨e, _⟩ | h
    · rcases hne with h | h
      · exact absurd h (Nat.lt_irrefl 0)
      · exact absurd e h
    · exact h
  | succ n ih =>
    intro start m hb hs hinv _
    simp only [List.range'_succ, List.foldl_cons]
    have hstep : 1 ≤ select_learned_watch_lit_step s cls m start ∧
        select_learned_watch_lit_step s cls m start < start + 1 ∧
        (∀ k, 1 ≤ k → k < start + 1 → s.lvl (cls.get k) ≤
          s.lvl (cls.get (select_learned_watch_lit_step s cls m start))) ∧
        (∀ j, 1 ≤ j → j < select_learned_watch_lit_step s cls m start →
          s.lvl (cls.get j) < s.lvl (cls.get (select_learned_watch_lit_step s cls m start))) := by
      unfold select_learned_watch_lit_step
      split
      · rename_i hc
        refine ⟨hs, Nat.lt_succ_self _, ?_, ?_⟩
        · intro k k1 k2
          by_cases ek : k = start
          · rw [ek]
          · rcases hinv with ⟨_, e⟩ | ⟨_, m2, m3, _⟩
            · omega
            · have hm : m ≠ UINT_MAX := by omega
              rcases hc with hc | hc
              · exact absurd hc hm
              · exact Nat.le_of_lt (Nat.lt_of_le_of_lt (m3 k k1 (by omega)) hc)
        · intro j j1 j2
          rcases hinv with ⟨_, e⟩ | ⟨_, m2, m3, _⟩
          · omega
          · have hm : m ≠ UINT_MAX := by omega
            rcases hc with hc | hc
            · exact absurd hc hm
            · exact Nat.lt_of_le_of_lt (m3 j j1 j2) hc
      · rename_i hc
        have hm : m ≠ UINT_MAX := fun e => hc (Or.inl e)
        have hle : s.lvl (cls.get start) ≤ s.lvl (cls.get m) :=
          Nat.le_of_not_lt (fun e => hc (Or.inr e))
        rcases hinv with ⟨e, _⟩ | ⟨m1, m2, m3, m4⟩
        · exact absurd e hm
        · refine ⟨m1, Nat.lt_succ_of_lt m2, ?_, m4⟩
          intro k k1 k2
          by_cases ek : k = start
          · rw [ek]; exact hle
          · exact m3 k k1 (by omega)
    have hne : select_learned_watch_lit_step s cls m start ≠ UINT_MAX := by omega
    have := ih (start + 1) _ (by omega) (by omega) (Or.inr hstep) (Or.inr hne)
    have e : start + 1 + n = start + (n + 1) := by omega
    rw [e] at this
    exact this

/-- C30: `select_learned_watch_lit` on a clause of size at least 2 (sizes are
unsigned numbers) returns an index `i` with `1 ≤ i < size` such that
`lvl(c[i]) ≥ lvl(c[k])` for every position `k ≥ 1`, and `i` is the smallest
such index: every position from 1 on with that property is at or behind `i`.
This holds for every clause, in particular for one whose literals at the
positions from 1 on are all false. -/
theorem C30_select_learned_watch_lit (s : solver) (cls : clause) (h2 : 2 ≤ cls.size)
    (hsz : cls.size ≤ UINT_MAX) :
    1 ≤ s.select_learned_watch_lit cls ∧ s.select_learned_watch_lit cls < cls.size ∧
    (∀ k, 1 ≤ k → k < cls.size →
      s.lvl (cls.get k) ≤ s.lvl (cls.get (s.select_learned_watch_lit cls))) ∧
    (∀ j, 1 ≤ j → j < cls.size →
      (∀ k, 1 ≤ k → k < cls.size → s.lvl (cls.get k) ≤ s.lvl (cls.get j)) →
      s.select_learned_watch_lit cls ≤ j) := by
  have h := select_learned_watch_lit_argmax s cls (cls.size - 1) 1 UINT_MAX (by omega)
    (Nat.le_refl _) (Or.inl ⟨rfl, rfl⟩) (Or.inl (by omega))
  have e : 1 + (cls.size - 1) = cls.size := by omega
  rw [e] at h
  obtain ⟨a1, a2, a3, a4⟩ := h
  refine ⟨a1, a2, a3, ?_⟩
  intro j j1 j2 hj
  by_contra hlt
  have h1 := a4 j j1 (Nat.lt_of_not_le hlt)
  have h3 := hj _ a1 a2
  unfold select_learned_watch_lit at h3
  omega

/-- C30 at a concrete clause: the literals behind the first have the levels
1, 2, 1, 2 in `example_conflict`, and the index returned is 2, the first
position of level 2. -/
theorem C30_select_learned_watch_lit_witness :
    2 ≤ example_watch_clause.size ∧ example_watch_clause.size ≤ UINT_MAX ∧
    (∀ k, 1 ≤ k → k < example_watch_clause.size →
      example_conflict.value (example_watch_clause.get k) = .l_false) ∧
    example_conflict.select_learned_watch_lit example_watch_clause = 2 ∧
    (∀ j, 1 ≤ j → j < example_watch_clause.size →
      (∀ k, 1 ≤ k → k < example_watch_clause.size →
        example_conflict.lvl (example_watch_clause.get k) ≤
          example_conflict.lvl (example_watch_clause.get j)) →
      example_conflict.select_learned_watch_lit example_watch_clause ≤ j) :=
  ⟨by decide, by decide, by decide, by decide,
    (C30_select_learned_watch_lit example_conflict example_watch_clause (by decide)
      (by decide)).2.2.2⟩

/-! ## C26: the orders of the clause database reduction -/

theorem glue_lt_iff (c1 c2 : clause) :
    glue_lt c1 c2 = true ↔ lex2_lt (c1.m_glue, c1.size) (c2.m_glue, c2.size) := by
  unfold glue_lt lex2_lt
  by_cases h : c1.m_glue < c2.m_glue
  · simp [h]
  · simp [h]

theorem psm_lt_iff (c1 c2 : clause) :
    psm_lt c1 c2 = true ↔ lex2_lt (c1.m_psm, c1.size) (c2.m_psm, c2.size) := by
  unfold psm_lt lex2_lt
  by_cases h : c1.m_psm < c2.m_psm
  · simp [h]
  · simp [h]

theorem glue_psm_lt_iff (c1 c2 : clause) :
    glue_psm_lt c1 c2 = true ↔
      lex3_lt (c1.m_glue, c1.m_psm, c1.size) (c2.m_glue, c2.m_psm, c2.size) := by
  unfold glue_psm_lt lex3_lt
  by_cases h1 : c1.m_glue < c2.m_glue
  · simp [h1]
  · by_cases h2 : c1.m_glue > c2.m_glue
    · simp only [h1, h2, ↓reduceIte, Bool.false_eq_true, false_or, false_iff, not_and]
      intro e; omega
    · have e : c1.m_glue = c2.m_glue := by omega
      by_cases h3 : c1.m_psm < c2.m_psm
      · simp [h1, h2, h3, e]
      · by_cases h4 : c1.m_psm > c2.m_psm
        · simp only [h1, h2, h3, h4, ↓reduceIte, Bool.false_eq_true, false_or, false_iff,
            not_and, not_or]
          intro _ e2
          omega
        · have e2 : c1.m_psm = c2.m_psm := by omega
          simp [h1, h2, h3, h4, e, e2]

theorem psm_glue_lt_iff (c1 c2 : clause) :
    psm_glue_lt c1 c2 = true ↔
      lex3_lt (c1.m_psm, c1.m_glue, c1.size) (c2.m_psm, c2.m_glue, c2.size) := by
  unfold psm_glue_lt lex3_lt
  by_cases h1 : c1.m_psm < c2.m_psm
  · simp [h1]
  · by_cases h2 : c1.m_psm > c2.m_psm
    · simp only [h1, h2, ↓reduceIte, Bool.false_eq_true, false_or, false_iff, not_and]
      intro e; omega
    · have e : c1.m_psm = c2.m_psm := by omega
      by_cases h3 : c1.m_glue < c2.m_glue
      · simp [h1, h2, h3, e]
      · by_cases h4 : c1.m_glue > c2.m_glue
        · simp only [h1, h2, h3, h4, ↓reduceIte, Bool.false_eq_true, false_or, false_iff,
            not_and, not_or]
          intro _ e2
          omega
        · have e2 : c1.m_glue = c2.m_glue := by omega
          simp [h1, h2, h3, h4, e, e2]

theorem bool_false_iff_not (b : Bool) : b = false ↔ ¬ b = true := by
  cases b <;> simp

/-- A relation that is the lexicographic order of a pair of keys is a strict
weak order. -/
theorem strict_weak_order_of_lex2 (lt : clause → clause → Bool) (key : clause → Nat × Nat)
    (h : ∀ a b, lt a b = true ↔ lex2_lt (key a) (key b)) : strict_weak_order lt := by
  refine ⟨?_, ?_, ?_⟩
  · intro a
    rw [bool_false_iff_not, h]
    unfold lex2_lt
    omega
  · intro a b c
    rw [h, h, h]
    unfold lex2_lt
    omega
  · intro a b c
    rw [bool_false_iff_not, bool_false_iff_not, bool_false_iff_not, bool_false_iff_not,
      bool_false_iff_not, bool_false_iff_not, h, h, h, h, h, h]
    unfold lex2_lt
    omega

/-- A relation that is the lexicographic order of a triple of keys is a
strict weak order. -/
theorem strict_weak_order_of_lex3 (lt : clause → clause → Bool)
    (key : clause → Nat × Nat × Nat)
    (h : ∀ a b, lt a b = true ↔ lex3_lt (key a) (key b)) : strict_weak_order lt := by
  refine ⟨?_, ?_, ?_⟩
  · intro a
    rw [bool_false_iff_not, h]
    unfold lex3_lt
    omega
  · intro a b c
    rw [h, h, h]
    unfold lex3_lt
    omega
  · intro a b c
    rw [bool_false_iff_not, bool_false_iff_not, bool_false_iff_not, bool_false_iff_not,
      bool_false_iff_not, bool_false_iff_not, h, h, h, h, h, h]
    unfold lex3_lt
    omega

/-- C26: `glue_lt`, `psm_lt`, `glue_psm_lt` and `psm_glue_lt` are the strict
lexicographic orders on the keys (glue, size), (psm, size), (glue, psm, size)
and (psm, glue, size), and each of them is a strict weak order: irreflexive,
transitive, and with transitive incomparability. -/
theorem C26_gc_lex_keys :
    (∀ c1 c2, glue_lt c1 c2 = true ↔ lex2_lt (c1.m_glue, c1.size) (c2.m_glue, c2.size)) ∧
    (∀ c1 c2, psm_lt c1 c2 = true ↔ lex2_lt (c1.m_psm, c1.size) (c2.m_psm, c2.size)) ∧
    (∀ c1 c2, glue_psm_lt c1 c2 = true ↔
      lex3_lt (c1.m_glue, c1.m_psm, c1.size) (c2.m_glue, c2.m_psm, c2.size)) ∧
    (∀ c1 c2, psm_glue_lt c1 c2 = true ↔
      lex3_lt (c1.m_psm, c1.m_glue, c1.size) (c2.m_psm, c2.m_glue, c2.size)) ∧
    strict_weak_order glue_lt ∧ strict_weak_order psm_lt ∧
    strict_weak_order glue_psm_lt ∧ strict_weak_order psm_glue_lt :=
  ⟨glue_lt_iff, psm_lt_iff, glue_psm_lt_iff, psm_glue_lt_iff,
    strict_weak_order_of_lex2 _ _ glue_lt_iff, strict_weak_order_of_lex2 _ _ psm_lt_iff,
    strict_weak_order_of_lex3 _ _ glue_psm_lt_iff, strict_weak_order_of_lex3 _ _ psm_glue_lt_iff⟩

/-! ## C25: the two watches of a binary clause -/

/-- C25 as stated fails at base level: in `example_base` the literal `x0` is
false at level 0; `mk_bin_clause(x1, x0)` assigns `x1` and returns before the
watches are pushed, so the watch lists stay empty. -/
theorem C25_binary_watch_symmetry_counterexample :
    example_base.at_base_lvl = true ∧ example_base.value ⟨0⟩ = .l_false ∧
    (example_base.mk_bin_clause ⟨2⟩ ⟨0⟩ false).value ⟨2⟩ = .l_true ∧
    (example_base.mk_bin_clause ⟨2⟩ ⟨0⟩ false).get_wlist (⟨2⟩ : literal).neg.index = [] ∧
    (example_base.mk_bin_clause ⟨2⟩ ⟨0⟩ false).get_wlist (⟨0⟩ : literal).neg.index = [] ∧
    watched.binary ⟨0⟩ false ∉
      (example_base.mk_bin_clause ⟨2⟩ ⟨0⟩ false).get_wlist (⟨2⟩ : literal).neg.index := by
  decide

/-- C25, amended: `mk_bin_clause(l1, l2, learned)` for literals of existing
variables.  Unless the solver is at base level and one of the two literals
is false, the watch list of `¬l1` contains afterwards a binary entry for
`l2` and the watch list of `¬l2` a binary entry for `l1`, with the learned
flag given.  At base level with a false literal the other literal is
assigned (or the conflict is raised) and the watch lists are left as they
are. -/
theorem C25_binary_watch_symmetry (s : solver) (l1 l2 : literal) (learned : Bool)
    (h1 : l1.neg.index < s.m_watches.length) (h2 : l2.neg.index < s.m_watches.length) :
    (¬ (s.at_base_lvl = true ∧ (s.value l1 = .l_false ∨ s.value l2 = .l_false)) →
      watched.binary l2 learned ∈ (s.mk_bin_clause l1 l2 learned).get_wlist l1.neg.index ∧
      watched.binary l1 learned ∈ (s.mk_bin_clause l1 l2 learned).get_wlist l2.neg.index) ∧
    ((s.at_base_lvl = true ∧ (s.value l1 = .l_false ∨ s.value l2 = .l_false)) →
      (s.mk_bin_clause l1 l2 learned).m_watches = s.m_watches) :=
  ⟨(mk_bin_clause_spec s l1 l2 learned h1 h2).2.2.2.2, (mk_bin_clause_spec s l1 l2 learned h1 h2).2.2.2.1⟩

/-- C25 at a concrete state: in `example_level1` nothing is assigned, and
`mk_bin_clause(x0, x1)` pushes the two watches. -/
theorem C25_binary_watch_symmetry_witness :
    (⟨0⟩ : literal).neg.index < example_level1.m_watches.length ∧
    (⟨2⟩ : literal).neg.index < example_level1.m_watches.length ∧
    ¬ (example_level1.at_base_lvl = true ∧
      (example_level1.value ⟨0⟩ = .l_false ∨ example_level1.value ⟨2⟩ = .l_false)) ∧
    watched.binary ⟨2⟩ false ∈
      (example_level1.mk_bin_clause ⟨0⟩ ⟨2⟩ false).get_wlist (⟨0⟩ : literal).neg.index ∧
    watched.binary ⟨0⟩ false ∈
      (example_level1.mk_bin_clause ⟨0⟩ ⟨2⟩ false).get_wlist (⟨2⟩ : literal).neg.index :=
  ⟨by decide, by decide, by decide,
    (C25_binary_watch_symmetry example_level1 ⟨0⟩ ⟨2⟩ false (by decide) (by decide)).1
      (by decide)⟩

/-! ## C29: the watch list after a conflict -/

/-- A conflict at a binary, ternary or clause entry is found before the entry
is passed: the clean-up copies the entry itself. -/
theorem propagate_watch_conflict_skip (ext : ext_propagate) (update : Bool) (s : solver)
    (l : literal) (w : watched) (skip : Bool) (c : Option (justification × literal))
    (hk : ∀ idx, w ≠ .ext_constraint idx)
    (h : (propagate_watch ext update s l w).2 = .conflict skip c) : skip = false := by
  cases w with
  | binary l1 learned =>
    simp only [propagate_watch, propagate_binary] at h
    split at h <;> simp at h
    exact h.1
  | ternary l1 l2 =>
    simp only [propagate_watch, propagate_ternary] at h
    split at h
    · simp at h
    · split at h
      · simp at h
      · split at h
        · simp at h; exact h.1
        · simp at h
  | clause blocked off =>
    simp only [propagate_watch, propagate_clause] at h
    split at h
    · simp at h
    · split at h
      · simp at h
      · unfold propagate_clause_watched at h
        split at h
        · simp at h
        · split at h
          · simp [propagate_clause_replace] at h
          · unfold propagate_clause_unit at h
            split at h
            · simp at h; exact h.1
            · simp at h
  | ext_constraint idx => exact absurd rfl (hk idx)

/-- When the loop over a watch list leaves through a conflict, the list
splits at the entry of the conflict: the loop run on the entries before it
ends regularly, with the entries kept so far as the watch list, and the
watch list at the end is made of these and of the entries from the conflict
on. -/
theorem propagate_wlist_conflict_split {ext : ext_propagate} (hext : ext_ok ext)
    (update : Bool) (l : literal) (rest : List watched) :
    ∀ (s : solver) (kept : List watched),
      (propagate_wlist ext update l s kept rest).1 = false →
      ∃ pre w post s1 kept1 s2 skip c, rest = pre ++ w :: post ∧
        propagate_wlist ext update l s kept pre = (true, s1.set_wlist l kept1) ∧
        propagate_watch ext update s1 l w = (s2, .conflict skip c) ∧
        s2.m_watches.length = s.m_watches.length ∧
        (propagate_wlist ext update l s kept rest).2.m_watches =
          (s2.set_wlist l (kept1 ++ if skip then post else w :: post)).m_watches := by
  induction rest with
  | nil =>
    intro s kept h
    simp [propagate_wlist] at h
  | cons w rest ih =>
    intro s kept h
    have hlen := propagate_watch_m_watches_length hext update s l w
    rcases hstep : propagate_watch ext update s l w with ⟨s1, o⟩
    rw [hstep] at hlen
    simp only at hlen
    cases o with
    | keep w1 =>
      have e : propagate_wlist ext update l s kept (w :: rest)
          = propagate_wlist ext update l s1 (kept ++ [w1]) rest := by
        rw [propagate_wlist, hstep]
      rw [e] at h ⊢
      obtain ⟨pre, w2, post, t1, k1, t2, skip, c, r1, r2, r3, r4, r5⟩ := ih s1 _ h
      refine ⟨w :: pre, w2, post, t1, k1, t2, skip, c, by rw [r1]; rfl, ?_, r3, by
        rw [r4, hlen], r5⟩
      rw [propagate_wlist, hstep]
      exact r2
    | drop =>
      have e : propagate_wlist ext update l s kept (w :: rest)
          = propagate_wlist ext update l s1 kept rest := by
        rw [propagate_wlist, hstep]
      rw [e] at h ⊢
      obtain ⟨pre, w2, post, t1, k1, t2, skip, c, r1, r2, r3, r4, r5⟩ := ih s1 _ h
      refine ⟨w :: pre, w2, post, t1, k1, t2, skip, c, by rw [r1]; rfl, ?_, r3, by
        rw [r4, hlen], r5⟩
      rw [propagate_wlist, hstep]
      exact r2
    | conflict skip c =>
      refine ⟨[], w, rest, s, kept, s1, skip, c, rfl, by simp [propagate_wlist], hstep, hlen, ?_⟩
      rw [propagate_wlist, hstep]
      cases c with
      | none => cases skip <;> simp
      | some jc => cases skip <;> simp

/-- C29: when the loop of `propagate_core` over the watch list of the trail
literal `l` leaves through a conflict, the list it started with splits into
the entries `pre` before the conflict, the entry `w` of the conflict and the
entries `post` behind it.  The entries kept so far, `kept`, are the watch
list the loop leaves when it is run on `pre` alone.  The watch list of `l`
at the end is `kept` followed by `w` and `post`, in order and unchanged, when
`w` is a binary, ternary or clause entry (for an entry of the extension the
flag `skip` tells whether the extension asked to drop it). -/
theorem C29_conflict_compaction {ext : ext_propagate} (hext : ext_ok ext) (update : Bool)
    (s : solver) (hl : (s.m_trail.getD s.m_qhead null_literal).index < s.m_watches.length)
    (hconf : (propagate_literal ext update s).1 = false) :
    ∃ pre w post s1 kept s2 skip c,
      s.get_wlist (s.m_trail.getD s.m_qhead null_literal).index = pre ++ w :: post ∧
      propagate_wlist ext update (s.m_trail.getD s.m_qhead null_literal) s.inc_qhead [] pre
        = (true, s1.set_wlist (s.m_trail.getD s.m_qhead null_literal) kept) ∧
      propagate_watch ext update s1 (s.m_trail.getD s.m_qhead null_literal) w
        = (s2, .conflict skip c) ∧
      ((∀ idx, w ≠ .ext_constraint idx) → skip = false) ∧
      (propagate_literal ext update s).2.get_wlist (s.m_trail.getD s.m_qhead null_literal).index
        = kept ++ (if skip then post else w :: post) := by
  unfold propagate_literal at hconf ⊢
  obtain ⟨pre, w, post, s1, kept, s2, skip, c, r1, r2, r3, r4, r5⟩ :=
    propagate_wlist_conflict_split hext update _ _ s.inc_qhead [] hconf
  refine ⟨pre, w, post, s1, kept, s2, skip, c, r1, r2, r3, ?_, ?_⟩
  · intro hk
    exact propagate_watch_conflict_skip ext update s1 _ w skip c hk (by rw [r3])
  · rw [get_wlist_congr _ _ r5]
    exact get_wlist_set_wlist _ _ _ (by rw [r4]; exact hl)

/-- C29 at a concrete state: in `example_compaction` the binary entry for
`x3` is kept (and `x3` assigned), the ternary entry is in conflict, and the
watch list of `x0` at the end holds the three entries as before. -/
theorem C29_conflict_compaction_witness :
    (example_compaction.m_trail.getD example_compaction.m_qhead null_literal).index
      < example_compaction.m_watches.length ∧
    (propagate_literal no_ext false example_compaction).1 = false ∧
    (propagate_literal no_ext false example_compaction).2.get_wlist 0
      = [.binary ⟨6⟩ false, .ternary ⟨2⟩ ⟨4⟩, .binary ⟨7⟩ false] ∧
    (propagate_literal no_ext false example_compaction).2.value ⟨6⟩ = .l_true ∧
    ∃ pre w post s1 kept s2 skip c,
      example_compaction.get_wlist
        (example_compaction.m_trail.getD example_compaction.m_qhead null_literal).index
          = pre ++ w :: post ∧
      propagate_wlist no_ext false
        (example_compaction.m_trail.getD example_compaction.m_qhead null_literal)
        example_compaction.inc_qhead [] pre
        = (true, s1.set_wlist
          (example_compaction.m_trail.getD example_compaction.m_qhead null_literal) kept) ∧
      propagate_watch no_ext false s1
        (example_compaction.m_trail.getD example_compaction.m_qhead null_literal) w
        = (s2, .conflict skip c) ∧
      ((∀ idx, w ≠ .ext_constraint idx) → skip = false) ∧
      (propagate_literal no_ext false example_compaction).2.get_wlist
        (example_compaction.m_trail.getD example_compaction.m_qhead null_literal).index
        = kept ++ (if skip then post else w :: post) :=
  ⟨by decide, by decide, by decide, by decide,
    C29_conflict_compaction ext_ok_no_ext false example_compaction (by decide) (by decide)⟩

/-! ## C21: the inconsistency flag -/

/-- C21 as stated fails above the base level: in `example_level1`, at scope
level 1, the empty clause is asserted through `mk_clause` and the flag is
set; `pop(1)` and `pop_to_base_level` clear it, and a later `check` runs the
search and returns its answer, here `sat`. -/
theorem C21_inconsistency_sticky_counterexample :
    example_level1.scope_lvl = 1 ∧ example_level1.m_user_scope_literals = [] ∧
    example_level1.m_inconsistent = false ∧
    (example_level1.mk_clause [] false).isSome = true ∧
    example_empty_clause.m_inconsistent = true ∧
    (example_empty_clause.pop 1).m_inconsistent = false ∧
    example_empty_clause.pop_to_base_level.m_inconsistent = false ∧
    (check example_sat_search 10 example_empty_clause []).map (fun r => r.1)
      = some lbool.l_true := by
  decide

/-- C21, amended: an empty clause asserted through `mk_clause` without user
scope literals sets the inconsistency flag at any scope level (`t` is any
state), and so does `set_conflict`.  When the flag is set at scope level 0,
it stays set across `pop(n)` for `n ≤ scope_lvl` and across
`pop_to_base_level`, and `check` returns `l_false`, with the flag still set,
unless its configuration hands the problem to another engine. -/
theorem C21_inconsistency_sticky (E : collaborators) (fuel : Nat) (s t : solver)
    (lits : List literal) (learned : Bool) (hb : s.m_scope_lvl = 0)
    (hinc : s.m_inconsistent = true) (ht : t.m_user_scope_literals = [])
    (hdel : check_delegate E s.init_reason_unknown.pop_to_base_level lits = none) :
    (∃ r, t.mk_clause [] learned = some (none, r) ∧ r.m_inconsistent = true) ∧
    (∀ j l, (t.set_conflict j l).m_inconsistent = true) ∧
    (∀ n, n ≤ s.scope_lvl → (s.pop n).m_inconsistent = true) ∧
    s.pop_to_base_level.m_inconsistent = true ∧
    ∃ r, check E fuel s lits = some (.l_false, r) ∧ r.m_inconsistent = true := by
  have hlvl : s.scope_lvl = 0 := hb
  have hp0 : s.pop_to_base_level = s.reset_assumptions := by
    unfold pop_to_base_level
    have : s.reset_assumptions.scope_lvl = 0 := hb
    rw [hlvl, pop_zero]
  have hp1 : s.init_reason_unknown.pop_to_base_level = s.init_reason_unknown.reset_assumptions := by
    unfold pop_to_base_level
    have : s.init_reason_unknown.scope_lvl = 0 := hb
    rw [this, pop_zero]
  refine ⟨?_, fun j l => set_conflict_inconsistent _ _ _, ?_, ?_, ?_⟩
  · cases learned
    · refine ⟨({ t with m_model_is_current := false } : solver).inc_non_learned_generation.set_conflict
        .none, ?_, set_conflict_inconsistent _ _ _⟩
      simp [mk_clause, ht, mk_clause_core, simplify_clause, simplify_clause_core, sort_literals,
        simplify_clause_loop, mk_clause_dispatch]
    · refine ⟨({ t with m_model_is_current := false } : solver).set_conflict .none, ?_,
        set_conflict_inconsistent _ _ _⟩
      simp [mk_clause, ht, mk_clause_core, mk_clause_dispatch]
  · intro n hn
    have : n = 0 := by omega
    rw [this, pop_zero]
    exact hinc
  · rw [hp0]; exact hinc
  · unfold check
    rw [hdel]
    have hi : (s.init_reason_unknown.pop_to_base_level.set_searching true).init_search.inconsistent
        = true := by
      rw [hp1]; exact hinc
    simp only [check_search, hi, if_true]
    refine ⟨_, rfl, ?_⟩
    rw [hp1]
    simp only [set_searching, init_search, init_reason_unknown, reset_assumptions]
    exact hinc

/-- C21 at concrete states: `example_inconsistent` is `example_base` (scope
level 0) after a conflict; `check` with the default configuration answers
`l_false`. -/
theorem C21_inconsistency_sticky_witness :
    example_inconsistent.m_scope_lvl = 0 ∧ example_inconsistent.m_inconsistent = true ∧
    example_level1.m_user_scope_literals = [] ∧
    example_inconsistent.pop_to_base_level.m_inconsistent = true ∧
    ∃ r, check {} 5 example_inconsistent [] = some (.l_false, r) ∧ r.m_inconsistent = true :=
  ⟨by decide, by decide, by decide,
    (C21_inconsistency_sticky {} 5 example_inconsistent example_level1 [] false (by decide)
      (by decide) (by decide) rfl).2.2.2⟩

/-! ## C22: user scopes -/

/-- C22 as stated fails on the appended literal: after `user_push` on the
empty solver the scope variable is `x0` and the literal pushed on the
user-scope stack, which `mk_clause` appends, is the positive literal `x0`
(index 0), not its negation (index 1): `mk_clause` of the empty clause
assigns `x0`, where the clause with the negation appended assigns `¬x0`.
After a second `user_push` both scope literals are appended. -/
theorem C22_user_scope_literal_counterexample :
    ({} : solver).user_push.m_user_scope_literals = [⟨0⟩] ∧
    (⟨0⟩ : literal).sign = false ∧ (⟨0⟩ : literal).neg = ⟨1⟩ ∧
    (({} : solver).user_push.mk_clause [] false).map (fun r => r.2.m_trail) = some [⟨0⟩] ∧
    (({} : solver).user_push.mk_clause_core ([] ++ [(⟨0⟩ : literal).neg]) false).map
      (fun r => r.2.m_trail) = some [⟨1⟩] ∧
    (example_user_scopes.mk_clause [] false).map (fun r => r.2.m_aux_literals)
      = some [⟨0⟩, ⟨2⟩] := by
  decide

/-- C22, amended: `user_push` creates the variable `s = num_vars()`, external
and not a decision variable, and pushes the positive literal of `s` on the
stack of user scope literals; a clause added afterwards through `mk_clause`
is passed on to `mk_clause_core` with the literals of all the open user
scopes appended, the last of them the positive literal of `s` (the negation
of `s` is what `init_assumptions` and `reinit_assumptions` assign). -/
theorem C22_user_scope_literal (s : solver) (lits : List literal) (learned : Bool) :
    s.user_push.num_vars = s.num_vars + 1 ∧
    s.user_push.m_external = s.m_external ++ [true] ∧
    s.user_push.m_decision = s.m_decision ++ [false] ∧
    s.user_push.m_user_scope_literals
      = s.m_user_scope_literals ++ [mk_literal s.num_vars false] ∧
    (mk_literal s.num_vars false).var = s.num_vars ∧
    (mk_literal s.num_vars false).sign = false ∧
    s.user_push.mk_clause lits learned
      = ({ s.user_push with
            m_model_is_current := false,
            m_aux_literals := lits ++ (s.m_user_scope_literals ++ [mk_literal s.num_vars false])
          } : solver).mk_clause_core
          (lits ++ (s.m_user_scope_literals ++ [mk_literal s.num_vars false])) learned := by
  refine ⟨?_, rfl, rfl, rfl, ?_, ?_, ?_⟩
  · simp [user_push, mk_var, num_vars]
  · simp [mk_literal, literal.var]
  · simp [mk_literal, literal.sign]
  · have h : s.user_push.m_user_scope_literals
        = s.m_user_scope_literals ++ [mk_literal s.num_vars false] := rfl
    have hne : s.user_push.m_user_scope_literals.isEmpty = false := by
      rw [h]; simp
    unfold mk_clause
    simp only [hne, Bool.false_eq_true, if_false]
    rfl

/-! ## C27: `gc_half` -/

theorem detach_del_frame (s : solver) (off : clause_offset) :
    ((s.detach_clause off).del_clause off).m_cls_allocator = s.m_cls_allocator ∧
    ((s.detach_clause off).del_clause off).m_assignment = s.m_assignment ∧
    ((s.detach_clause off).del_clause off).m_justification = s.m_justification ∧
    ((s.detach_clause off).del_clause off).m_stats.m_gc_clause = s.m_stats.m_gc_clause := by
  unfold del_clause detach_clause
  split <;> exact ⟨rfl, rfl, rfl, rfl⟩

theorem can_delete_congr (s s1 : solver) (off : clause_offset)
    (h1 : s1.m_cls_allocator = s.m_cls_allocator) (h2 : s1.m_assignment = s.m_assignment)
    (h3 : s1.m_justification = s.m_justification) : s1.can_delete off = s.can_delete off := by
  unfold can_delete get_clause value
  rw [h1, h2, h3]

theorem gc_half_fold (s : solver) (l : List clause_offset) :
    ∀ (st : solver × List clause_offset),
      st.1.m_cls_allocator = s.m_cls_allocator → st.1.m_assignment = s.m_assignment →
      st.1.m_justification = s.m_justification →
      l.foldl gc_half_step st
        = ((l.filter fun off => s.can_delete off).foldl
            (fun t off => (t.detach_clause off).del_clause off) st.1,
           st.2 ++ l.filter fun off => !s.can_delete off) ∧
      (l.foldl gc_half_step st).1.m_stats.m_gc_clause = st.1.m_stats.m_gc_clause := by
  induction l with
  | nil => intro st _ _ _; simp
  | cons off l ih =>
    intro st h1 h2 h3
    have hc := can_delete_congr s st.1 off h1 h2 h3
    have hf := detach_del_frame st.1 off
    rw [List.foldl_cons]
    by_cases hd : s.can_delete off = true
    · have hstep : gc_half_step st off = ((st.1.detach_clause off).del_clause off, st.2) := by
        unfold gc_half_step; rw [hc, hd]; rfl
      rw [hstep]
      have := ih ((st.1.detach_clause off).del_clause off, st.2) (hf.1.trans h1) (hf.2.1.trans h2)
        (hf.2.2.1.trans h3)
      refine ⟨?_, this.2.trans hf.2.2.2⟩
      rw [this.1]
      simp [List.filter_cons, hd]
    · have hd2 : s.can_delete off = false := by simpa using hd
      have hstep : gc_half_step st off = (st.1, st.2 ++ [off]) := by
        unfold gc_half_step; rw [hc, hd2]; rfl
      rw [hstep]
      have := ih (st.1, st.2 ++ [off]) h1 h2 h3
      refine ⟨?_, this.2⟩
      rw [this.1]
      simp [List.filter_cons, hd2]

/-- C27: `gc_half` on a learned vector of length `n` keeps the first `n / 2`
entries in place; of the other entries it keeps, in their order, those for
which `can_delete` fails, and it detaches and deletes, one after the other,
those for which `can_delete` holds (`detach_clause` and `del_clause` do not
change what `can_delete` reads, so the test is the one of the state before
the call); the unsigned counter `m_gc_clause` grows by the number of deleted
clauses. -/
theorem C27_gc_half (s : solver) :
    s.gc_half.m_learned
      = s.m_learned.take (s.m_learned.length / 2) ++
        (s.m_learned.drop (s.m_learned.length / 2)).filter (fun off => !s.can_delete off) ∧
    (∀ i, i < s.m_learned.length / 2 →
      s.gc_half.m_learned.get? i = s.m_learned.get? i) ∧
    List.Sublist (s.gc_half.m_learned.drop (s.m_learned.length / 2))
      (s.m_learned.drop (s.m_learned.length / 2)) ∧
    (∀ off, off ∈ s.gc_half.m_learned.drop (s.m_learned.length / 2) ↔
      off ∈ s.m_learned.drop (s.m_learned.length / 2) ∧ s.can_delete off = false) ∧
    s.gc_half.m_watches
      = (((s.m_learned.drop (s.m_learned.length / 2)).filter fun off => s.can_delete off).foldl
          (fun t off => (t.detach_clause off).del_clause off) s).m_watches ∧
    s.gc_half.m_stats.m_del_clause
      = (((s.m_learned.drop (s.m_learned.length / 2)).filter fun off => s.can_delete off).foldl
          (fun t off => (t.detach_clause off).del_clause off) s).m_stats.m_del_clause ∧
    s.gc_half.m_stats.m_gc_clause
      = (s.m_stats.m_gc_clause +
          ((s.m_learned.drop (s.m_learned.length / 2)).filter fun off => s.can_delete off).length)
        % 4294967296 := by
  have hf := gc_half_fold s (s.m_learned.drop (s.m_learned.length / 2)) (s, []) rfl rfl rfl
  have hl : s.gc_half.m_learned
      = s.m_learned.take (s.m_learned.length / 2) ++
        (s.m_learned.drop (s.m_learned.length / 2)).filter (fun off => !s.can_delete off) := by
    show _ ++ _ = _
    rw [hf.1]; simp
  have hlen : (s.m_learned.take (s.m_learned.length / 2)).length = s.m_learned.length / 2 := by
    rw [List.length_take]; omega
  have hdrop : s.gc_half.m_learned.drop (s.m_learned.length / 2)
      = (s.m_learned.drop (s.m_learned.length / 2)).filter (fun off => !s.can_delete off) := by
    rw [hl]
    exact List.drop_left' hlen
  refine ⟨hl, ?_, ?_, ?_, ?_, ?_, ?_⟩
  · intro i hi
    rw [hl, List.get?_eq_getElem?, List.get?_eq_getElem?,
      List.getElem?_append_left (by rw [hlen]; exact hi), List.getElem?_take_of_lt hi]
  · rw [hdrop]; exact List.filter_sublist _
  · intro off
    rw [hdrop, List.mem_filter]
    simp
  · show (List.foldl gc_half_step (s, []) _).1.m_watches = _
    rw [hf.1]
  · show (List.foldl gc_half_step (s, []) _).1.m_stats.m_del_clause = _
    rw [hf.1]
  · show ((List.foldl gc_half_step (s, []) _).1.m_stats.m_gc_clause + _) % 4294967296 = _
    rw [hf.2, hf.1]
    have h1 := List.length_eq_length_filter_add
      (l := s.m_learned.drop (s.m_learned.length / 2)) (fun off => s.can_delete off)
    have h2 : (s.m_learned.drop (s.m_learned.length / 2)).length
        = s.m_learned.length - s.m_learned.length / 2 := List.length_drop _ _
    simp only [List.nil_append] at *
    congr 2
    omega

/-! ## C28: the lemmas that `copy` transfers -/

theorem attach_ter_clause_arena (s : solver) (off : clause_offset) :
    (s.attach_ter_clause off).2.m_cls_allocator = s.m_cls_allocator := by
  unfold attach_ter_clause
  dsimp only
  split
  · split
    · simp
    · split
      · simp
      · split
        · simp
        · simp
  · simp

theorem attach_nary_clause_arena_length (s : solver) (off : clause_offset) :
    (s.attach_nary_clause off).2.m_cls_allocator.length = s.m_cls_allocator.length := by
  unfold attach_nary_clause
  dsimp only
  split
  · split
    · simp
    · split
      · simp
      · simp
  · simp

theorem mk_clause_core_learned_offset (s : solver) (lits : List literal) (off1 : clause_offset)
    (d : solver) (h : s.mk_clause_core lits true = some (some off1, d)) :
    off1 < d.m_cls_allocator.length ∧ off1 ∈ d.m_learned := by
  unfold mk_clause_core at h
  simp only [Bool.not_true, Bool.false_eq_true, ↓reduceIte] at h
  unfold mk_clause_dispatch at h
  split at h
  · simp at h
  · simp at h
  · simp at h
  · simp only [Option.some.injEq, Prod.mk.injEq] at h
    obtain ⟨h1, h2⟩ := h
    subst h2
    have e1 : (s.mk_ter_clause lits true).1 = s.m_cls_allocator.length := rfl
    rw [← h1, e1]
    constructor
    · simp [mk_ter_clause, push_clause_vector, attach_ter_clause_arena]
    · simp [mk_ter_clause, push_clause_vector]
  · split at h
    · rename_i r hr
      simp only [Option.some.injEq, Prod.mk.injEq] at h
      obtain ⟨h1, h2⟩ := h
      subst h2
      unfold mk_nary_clause at hr
      split at hr
      · simp only [Option.some.injEq] at hr
        subst hr
        rw [← h1]
        constructor
        · simp [push_clause_vector, attach_nary_clause_arena_length]
        · simp [push_clause_vector]
      · simp at hr
    · simp at h

theorem fold_opt_filter {α : Type} (f : solver → α → Option solver) (p : α → Bool)
    (hp : ∀ d a, p a = false → f d a = some d) :
    ∀ (l : List α) (d : solver), fold_opt f l d = fold_opt f (l.filter p) d := by
  intro l
  induction l with
  | nil => intro d; rfl
  | cons a l ih =>
    intro d
    by_cases ha : p a = true
    · rw [List.filter_cons_of_pos ha]
      unfold fold_opt
      split
      · rfl
      · exact ih _
    · have ha2 : p a = false := by simpa using ha
      rw [List.filter_cons_of_neg ha]
      rw [← ih d]
      conv_lhs => unfold fold_opt
      rw [hp d a ha2]

theorem get_clause_set_clause_self (s : solver) (off : clause_offset) (c : clause)
    (h : off < s.m_cls_allocator.length) : (s.set_clause off c).get_clause off = c := by
  unfold set_clause get_clause
  simp [List.getD_eq_getElem?_getD, h]


/-! ## C24: `next_var` -/

theorem countP_lt_of_imp {α : Type} (p q : α → Bool) (a : α) (hpa : p a = true)
    (hqa : q a = false) :
    ∀ l : List α, (∀ x ∈ l, q x = true → p x = true) → a ∈ l → l.countP q < l.countP p := by
  intro l
  induction l with
  | nil => intro _ h; simp at h
  | cons x xs ih =>
    intro himp hmem
    have hle : xs.countP q ≤ xs.countP p :=
      List.countP_mono_left fun y hy hq => himp y (List.mem_cons_of_mem _ hy) hq
    rw [List.countP_cons, List.countP_cons]
    rcases List.mem_cons.1 hmem with rfl | hxs
    · simp only [hpa, hqa, ↓reduceIte, Bool.false_eq_true]; omega
    · have h1 := ih (fun y hy => himp y (List.mem_cons_of_mem _ hy)) hxs
      by_cases hq : q x = true
      · have h2 := himp x (List.mem_cons_self _ _) hq
        simp only [hq, h2, ↓reduceIte]; omega
      · simp only [hq, ↓reduceIte, Bool.false_eq_true]
        split <;> omega

theorem foldl_pick_mem (f : bool_var → bool_var → Bool) :
    ∀ (l : List bool_var) (b : bool_var),
      l.foldl (fun b v => if f v b then v else b) b = b ∨
      l.foldl (fun b v => if f v b then v else b) b ∈ l := by
  intro l
  induction l with
  | nil => intro b; exact Or.inl rfl
  | cons x xs ih =>
    intro b
    rw [List.foldl_cons]
    rcases ih (if f x b then x else b) with h | h
    · rw [h]
      split
      · exact Or.inr (List.mem_cons_self _ _)
      · exact Or.inl rfl
    · exact Or.inr (List.mem_cons_of_mem _ h)

theorem min_var_mem (s : solver) (h : s.m_case_split_queue ≠ []) :
    s.min_var ∈ s.m_case_split_queue := by
  unfold min_var
  cases hq : s.m_case_split_queue with
  | nil => exact absurd hq h
  | cons x xs =>
    simp only [List.drop_succ_cons, List.drop_zero, List.headD_cons]
    rcases foldl_pick_mem
      (fun v b => decide (s.m_activity.getD v 0 > s.m_activity.getD b 0)) xs x with h1 | h1
    · simp only [decide_eq_true_eq] at h1
      rw [h1]; exact List.mem_cons_self _ _
    · simp only [decide_eq_true_eq] at h1
      exact List.mem_cons_of_mem _ h1

theorem age_anti_exploration_step (s : solver) (next v : bool_var) :
    (s.anti_exploration_step next).age v
      = if next = v ∧ next < s.m_canceled.length then 0 else s.age v := by
  unfold anti_exploration_step age
  simp only [getD_set]
  split
  · omega
  · rfl

theorem anti_exploration_loop_spec :
    ∀ (n fuel : Nat) (s : solver),
      s.m_case_split_queue.countP (fun v => decide (s.age v > 0)) ≤ n → n ≤ fuel →
      s.m_case_split_queue ≠ [] →
      (∀ v ∈ s.m_case_split_queue, v < s.m_canceled.length) →
      ∃ s1, anti_exploration_loop fuel s = some s1 ∧
        s1.m_case_split_queue = s.m_case_split_queue ∧ s1.m_assignment = s.m_assignment ∧
        s1.m_eliminated = s.m_eliminated ∧ s1.m_level = s.m_level ∧
        s1.m_config = s.m_config ∧ s1.m_canceled.length = s.m_canceled.length := by
  intro n
  induction n with
  | zero =>
    intro fuel s hc _ hne _
    have hm := min_var_mem s hne
    have hage : ¬ s.age s.min_var > 0 := by
      intro hpos
      have : 0 < s.m_case_split_queue.countP (fun v => decide (s.age v > 0)) :=
        List.countP_pos_iff.2 ⟨_, hm, by simpa using hpos⟩
      omega
    refine ⟨s, ?_, rfl, rfl, rfl, rfl, rfl, rfl⟩
    unfold anti_exploration_loop
    simp [hage]
  | succ n ih =>
    intro fuel s hc hf hne hb
    have hm := min_var_mem s hne
    by_cases hage : s.age s.min_var > 0
    · obtain ⟨fuel1, rfl⟩ : ∃ k, fuel = k + 1 := ⟨fuel - 1, by omega⟩
      have hq : (s.anti_exploration_step s.min_var).m_case_split_queue = s.m_case_split_queue := rfl
      have hlt : (s.anti_exploration_step s.min_var).m_case_split_queue.countP
            (fun v => decide ((s.anti_exploration_step s.min_var).age v > 0))
          < s.m_case_split_queue.countP (fun v => decide (s.age v > 0)) := by
        rw [hq]
        refine countP_lt_of_imp _ _ s.min_var (by simpa using hage) ?_ _ ?_ hm
        · rw [age_anti_exploration_step]
          simp [hb _ hm]
        · intro x _ hx
          rw [age_anti_exploration_step] at hx
          split at hx
          · simp at hx
          · exact hx
      obtain ⟨s1, h1, h2, h3, h4, h5, h6, h7⟩ :=
        ih fuel1 (s.anti_exploration_step s.min_var) (by omega) (by omega) hne
          (by
            intro v hv
            have : (s.anti_exploration_step s.min_var).m_canceled.length = s.m_canceled.length := by
              simp [anti_exploration_step]
            rw [this]; exact hb v hv)
      refine ⟨s1, ?_, h2, h3, h4, h5, h6, ?_⟩
      · rw [anti_exploration_loop]
        simp only [hage, ↓reduceIte]
        exact h1
      · rw [h7]; simp [anti_exploration_step]
    · refine ⟨s, ?_, rfl, rfl, rfl, rfl, rfl, rfl⟩
      unfold anti_exploration_loop
      simp [hage]

theorem next_var_loop_spec (inner : Nat) :
    ∀ (fuel : Nat) (s : solver),
      s.m_case_split_queue.length ≤ fuel → s.m_case_split_queue.length ≤ inner →
      (s.m_config.m_anti_exploration = true →
        ∀ v ∈ s.m_case_split_queue, v < s.m_canceled.length) →
      ∃ v s1, next_var_loop inner fuel s = some (v, s1) ∧
        s1.m_assignment = s.m_assignment ∧ s1.m_eliminated = s.m_eliminated ∧
        s1.m_level = s.m_level ∧
        ((v = null_bool_var ∧ s1.m_case_split_queue = []) ∨
          (s.is_candidate v = true ∧ v ∈ s.m_case_split_queue)) := by
  intro fuel
  induction fuel with
  | zero =>
    intro s hf _ _
    have he : s.m_case_split_queue = [] := List.length_eq_zero.1 (by omega)
    refine ⟨null_bool_var, s, ?_, rfl, rfl, rfl, Or.inl ⟨rfl, he⟩⟩
    unfold next_var_loop
    simp [he]
  | succ fuel ih =>
    intro s hf hi hb
    by_cases he : s.m_case_split_queue = []
    · refine ⟨null_bool_var, s, ?_, rfl, rfl, rfl, Or.inl ⟨rfl, he⟩⟩
      unfold next_var_loop
      simp [he]
    · have hinner : ∃ s1,
          (if s.m_config.m_anti_exploration then anti_exploration_loop inner s else some s)
            = some s1 ∧
          s1.m_case_split_queue = s.m_case_split_queue ∧ s1.m_assignment = s.m_assignment ∧
          s1.m_eliminated = s.m_eliminated ∧ s1.m_level = s.m_level ∧
          s1.m_config = s.m_config ∧ s1.m_canceled.length = s.m_canceled.length := by
        by_cases ha : s.m_config.m_anti_exploration = true
        · rw [if_pos ha]
          exact anti_exploration_loop_spec inner inner s
            (le_trans (List.countP_le_length _) hi) (le_refl _) he (hb ha)
        · rw [if_neg ha]
          exact ⟨s, rfl, rfl, rfl, rfl, rfl, rfl, rfl⟩
      obtain ⟨s1, h1, h2, h3, h4, h5, h6, h7⟩ := hinner
      have hne1 : s1.m_case_split_queue ≠ [] := by rw [h2]; exact he
      have hm := min_var_mem s1 hne1
      have hcand : ∀ v, s1.queue_next_var.2.is_candidate v = s.is_candidate v := by
        intro v
        unfold is_candidate value_var value was_eliminated queue_next_var
        simp only [h3, h4]
      have hemp : s.m_case_split_queue.isEmpty = false := by
        cases hq : s.m_case_split_queue with
        | nil => exact absurd hq he
        | cons _ _ => rfl
      by_cases hc : s1.queue_next_var.2.is_candidate s1.queue_next_var.1 = true
      · refine ⟨s1.queue_next_var.1, s1.queue_next_var.2, ?_, h3, h4, h5, Or.inr ⟨?_, ?_⟩⟩
        · rw [next_var_loop]
          simp only [hemp, Bool.false_eq_true, ↓reduceIte, h1, hc]
        · rw [← hcand]; exact hc
        · rw [← h2]; exact hm
      · have hlen : s1.queue_next_var.2.m_case_split_queue.length + 1
            = s.m_case_split_queue.length := by
          show (s1.m_case_split_queue.erase s1.min_var).length + 1 = _
          rw [List.length_erase_of_mem hm, h2]
          have : 0 < s.m_case_split_queue.length := List.length_pos.2 he
          omega
        have hsub : ∀ v ∈ s1.queue_next_var.2.m_case_split_queue, v ∈ s.m_case_split_queue := by
          intro v hv
          rw [← h2]
          exact List.mem_of_mem_erase hv
        obtain ⟨v, s2, g1, g2, g3, g4, g5⟩ := ih s1.queue_next_var.2 (by omega) (by omega)
          (by
            intro ha v hv
            have e1 : s1.queue_next_var.2.m_canceled.length = s.m_canceled.length := h7
            have e2 : s1.queue_next_var.2.m_config = s.m_config := h6
            rw [e1]
            exact hb (by rw [← e2]; exact ha) v (hsub v hv))
        refine ⟨v, s2, ?_, g2.trans h3, g3.trans h4, g4.trans h5, ?_⟩
        · rw [next_var_loop]
          simp only [hemp, Bool.false_eq_true, ↓reduceIte, h1, hc]
          exact g1
        · rcases g5 with g5 | g5
          · exact Or.inl g5
          · exact Or.inr ⟨by rw [← hcand]; exact g5.1, hsub v g5.2⟩

theorem is_candidate_congr (s s1 : solver) (v : bool_var)
    (h1 : s1.m_assignment = s.m_assignment) (h2 : s1.m_eliminated = s.m_eliminated) :
    s1.is_candidate v = s.is_candidate v := by
  unfold is_candidate value_var value was_eliminated
  rw [h1, h2]

theorem is_candidate_iff (s : solver) (v : bool_var) :
    s.is_candidate v = true ↔ s.value_var v = lbool.l_undef ∧ s.was_eliminated v = false := by
  unfold is_candidate
  simp

/-- C24: for every generator `rng`, with fuel for at least as many rounds as
the decision queue has entries (and, under anti-exploration, the queue
entries being indices of `m_canceled`), `next_var` returns; the assignment
and the eliminated flags are left alone; the result is `null_bool_var` with
the decision queue emptied or no variables at all, or it is a variable that
is unassigned and not eliminated, taken from the queue or drawn below
`num_vars()`.  As `null_bool_var` is neither in the queue nor below
`num_vars()`, it is returned only in the first case. -/
theorem C24_next_var (rng : random_gen) (fuel : Nat) (s : solver)
    (hfuel : s.m_case_split_queue.length ≤ fuel)
    (hq : s.m_config.m_anti_exploration = true →
      ∀ v ∈ s.m_case_split_queue, v < s.m_canceled.length) :
    ∃ v s1, next_var rng fuel s = some (v, s1) ∧
      s1.m_assignment = s.m_assignment ∧ s1.m_eliminated = s.m_eliminated ∧
      ((v = null_bool_var ∧ (s1.m_case_split_queue = [] ∨ s.num_vars = 0)) ∨
        (s1.value_var v = lbool.l_undef ∧ s1.was_eliminated v = false ∧
          (v ∈ s.m_case_split_queue ∨ v < s.num_vars))) ∧
      (null_bool_var ∉ s.m_case_split_queue → s.num_vars ≤ null_bool_var →
        v = null_bool_var → s1.m_case_split_queue = [] ∨ s.num_vars = 0) := by
  have key : ∃ v s1, next_var rng fuel s = some (v, s1) ∧
      s1.m_assignment = s.m_assignment ∧ s1.m_eliminated = s.m_eliminated ∧
      ((v = null_bool_var ∧ (s1.m_case_split_queue = [] ∨ s.num_vars = 0)) ∨
        (s1.value_var v = lbool.l_undef ∧ s1.was_eliminated v = false ∧
          (v ∈ s.m_case_split_queue ∨ v < s.num_vars))) := by
    have loop : ∀ t : solver, t.m_case_split_queue = s.m_case_split_queue →
        t.m_assignment = s.m_assignment → t.m_eliminated = s.m_eliminated →
        t.m_config = s.m_config → t.m_canceled = s.m_canceled →
        ∃ v s1, next_var_loop fuel fuel t = some (v, s1) ∧
          s1.m_assignment = s.m_assignment ∧ s1.m_eliminated = s.m_eliminated ∧
          ((v = null_bool_var ∧ (s1.m_case_split_queue = [] ∨ s.num_vars = 0)) ∨
            (s1.value_var v = lbool.l_undef ∧ s1.was_eliminated v = false ∧
              (v ∈ s.m_case_split_queue ∨ v < s.num_vars))) := by
      intro t t1 t2 t3 t4 t5
      obtain ⟨v, s1, g1, g2, g3, _, g5⟩ := next_var_loop_spec fuel fuel t (by rw [t1]; exact hfuel)
        (by rw [t1]; exact hfuel) (by rw [t1, t4, t5]; exact hq)
      refine ⟨v, s1, g1, g2.trans t2, g3.trans t3, ?_⟩
      rcases g5 with g5 | g5
      · exact Or.inl ⟨g5.1, Or.inl g5.2⟩
      · have hc : s1.is_candidate v = true := by
          rw [is_candidate_congr t s1 v g2 g3]; exact g5.1
        have := (is_candidate_iff s1 v).1 hc
        exact Or.inr ⟨this.1, this.2, Or.inl (by rw [← t1]; exact g5.2)⟩
    unfold next_var
    split
    · split
      · rename_i h0
        exact ⟨null_bool_var, _, rfl, rfl, rfl, Or.inl ⟨rfl, Or.inr h0⟩⟩
      · rename_i h0
        split
        · rename_i hc
          have hn : 0 < s.num_vars := Nat.pos_of_ne_zero h0
          have := (is_candidate_iff _ _).1 hc
          exact ⟨_, _, rfl, rfl, rfl, Or.inr ⟨this.1, this.2, Or.inr (Nat.mod_lt _ hn)⟩⟩
        · exact loop _ rfl rfl rfl rfl rfl
    · exact loop _ rfl rfl rfl rfl rfl
  obtain ⟨v, s1, h1, h2, h3, h4⟩ := key
  refine ⟨v, s1, h1, h2, h3, h4, ?_⟩
  intro hn1 hn2 hv
  rcases h4 with h4 | h4
  · exact h4.2
  · rcases h4.2.2 with h5 | h5
    · exact absurd (hv ▸ h5) hn1
    · rw [hv] at h5
      exact absurd h5 (Nat.not_lt.2 hn2)

/-- C24 at a concrete state: in `example_queue` the top of the queue, `x0`,
is assigned and is discarded; the variable returned is `x2`. -/
theorem C24_next_var_witness :
    example_queue.m_case_split_queue.length ≤ 3 ∧
    (next_var example_rng 3 example_queue).map (fun r => (r.1, r.2.m_case_split_queue))
      = some (2, [1]) ∧
    ∃ v s1, next_var example_rng 3 example_queue = some (v, s1) ∧
      s1.m_assignment = example_queue.m_assignment ∧
      s1.m_eliminated = example_queue.m_eliminated ∧
      ((v = null_bool_var ∧ (s1.m_case_split_queue = [] ∨ example_queue.num_vars = 0)) ∨
        (s1.value_var v = lbool.l_undef ∧ s1.was_eliminated v = false ∧
          (v ∈ example_queue.m_case_split_queue ∨ v < example_queue.num_vars))) ∧
      (null_bool_var ∉ example_queue.m_case_split_queue →
        example_queue.num_vars ≤ null_bool_var →
        v = null_bool_var → s1.m_case_split_queue = [] ∨ example_queue.num_vars = 0) :=
  ⟨by decide, by decide, C24_next_var example_rng 3 example_queue (by decide) (by decide)⟩

/-! ## C23: the incremental round trip -/

theorem list_ext_getD {α : Type} (d : α) (l1 l2 : List α) (hl : l1.length = l2.length)
    (h : ∀ i, i < l1.length → l1.getD i d = l2.getD i d) : l1 = l2 := by
  apply List.ext_getElem hl
  intro i h1 h2
  have := h i h1
  simpa [List.getD_eq_getElem?_getD, List.getElem?_eq_getElem, h1, h2] using this

theorem get_wlist_set_wlist_at (u : solver) (i j : Nat) (ws : List watched) :
    (u.set_wlist_at i ws).get_wlist j
      = if i = j ∧ i < u.m_watches.length then ws else u.get_wlist j := by
  unfold set_wlist_at get_wlist
  exact getD_set _ _ _ _ _

theorem get_wlist_push_watch (u : solver) (i j : Nat) (w : watched) :
    (u.push_watch i w).get_wlist j
      = if i = j ∧ i < u.m_watches.length then u.get_wlist i ++ [w] else u.get_wlist j := by
  unfold push_watch get_wlist
  exact getD_set _ _ _ _ _

theorem get_wlist_of_length_le (u : solver) (i : Nat) (h : u.m_watches.length ≤ i) :
    u.get_wlist i = [] := by
  unfold get_wlist
  simp [List.getD_eq_getElem?_getD, List.getElem?_eq_none h]

theorem store_frame_refl (s : solver) : store_frame s s :=
  ⟨rfl, rfl, rfl, rfl, rfl, rfl, rfl, rfl⟩

theorem store_frame_trans {a b c : solver} (h1 : store_frame a b) (h2 : store_frame b c) :
    store_frame a c :=
  ⟨h2.m_clauses.trans h1.m_clauses, h2.m_learned.trans h1.m_learned,
    h2.m_cls_allocator.trans h1.m_cls_allocator, h2.m_trail.trans h1.m_trail,
    h2.m_user_scope_literals.trans h1.m_user_scope_literals, h2.m_level.trans h1.m_level,
    h2.m_mc.trans h1.m_mc, h2.watches_length.trans h1.watches_length⟩

theorem store_frame_set_wlist_at (u : solver) (i : Nat) (ws : List watched) :
    store_frame u (u.set_wlist_at i ws) :=
  ⟨rfl, rfl, rfl, rfl, rfl, rfl, rfl, by simp [set_wlist_at]⟩

theorem store_frame_push_watch (u : solver) (i : Nat) (w : watched) :
    store_frame u (u.push_watch i w) :=
  ⟨rfl, rfl, rfl, rfl, rfl, rfl, rfl, by simp [push_watch]⟩

theorem store_frame_detach_bin_clause (u : solver) (l1 l2 : literal) (learned : Bool) :
    store_frame u (u.detach_bin_clause l1 l2 learned) := by
  unfold detach_bin_clause
  exact store_frame_trans (store_frame_set_wlist_at _ _ _) (store_frame_set_wlist_at _ _ _)

theorem store_frame_detach_clause (u : solver) (off : clause_offset) :
    store_frame u (u.detach_clause off) := by
  unfold detach_clause
  split
  · unfold detach_ter_clause
    exact store_frame_trans (store_frame_trans (store_frame_set_wlist_at _ _ _)
      (store_frame_set_wlist_at _ _ _)) (store_frame_set_wlist_at _ _ _)
  · unfold detach_nary_clause
    exact store_frame_trans (store_frame_set_wlist_at _ _ _) (store_frame_set_wlist_at _ _ _)

theorem store_frame_del_clause (u : solver) (off : clause_offset) :
    store_frame u (u.del_clause off) :=
  ⟨rfl, rfl, rfl, rfl, rfl, rfl, rfl, rfl⟩

theorem rt_erase_clause_watch_append (ws : List watched) (b : literal) (off : clause_offset)
    (h : ∀ w ∈ ws, ∀ b1, w ≠ .clause b1 off) :
    erase_clause_watch (ws ++ [.clause b off]) off = ws := by
  induction ws with
  | nil => simp [erase_clause_watch]
  | cons w ws ih =>
    have ih1 := ih (fun x hx => h x (List.mem_cons_of_mem _ hx))
    cases w with
    | clause b1 o =>
      have : o ≠ off := by
        intro e
        exact h (.clause b1 o) (List.mem_cons_self _ _) b1 (by rw [e])
      simp only [List.cons_append, erase_clause_watch, this, ↓reduceIte]
      exact congrArg _ ih1
    | binary l lrn =>
      simp only [List.cons_append, erase_clause_watch]
      exact congrArg _ ih1
    | ternary l1 l2 =>
      simp only [List.cons_append, erase_clause_watch]
      exact congrArg _ ih1
    | ext_constraint idx =>
      simp only [List.cons_append, erase_clause_watch]
      exact congrArg _ ih1

theorem rt_erase_clause_watch_none (ws : List watched) (off : clause_offset)
    (h : ∀ w ∈ ws, ∀ b1, w ≠ .clause b1 off) : erase_clause_watch ws off = ws := by
  induction ws with
  | nil => simp [erase_clause_watch]
  | cons w ws ih =>
    have ih1 := ih (fun x hx => h x (List.mem_cons_of_mem _ hx))
    cases w with
    | clause b1 o =>
      have : o ≠ off := by
        intro e
        exact h (.clause b1 o) (List.mem_cons_self _ _) b1 (by rw [e])
      simp only [erase_clause_watch, this, ↓reduceIte, ih1]
    | binary l lrn => simp only [erase_clause_watch, ih1]
    | ternary l1 l2 => simp only [erase_clause_watch, ih1]
    | ext_constraint idx => simp only [erase_clause_watch, ih1]

theorem rt_erase_append_self {α : Type} [DecidableEq α] (ws : List α) (w : α) (h : w ∉ ws) :
    (ws ++ [w]).erase w = ws := by
  rw [List.erase_append_right _ h]
  simp

/-! ### The stages of `user_pop` -/

theorem rt_gc_lit_fold_keep (lit : literal) (l : List clause_offset) :
    ∀ st : solver × List clause_offset,
      (∀ off ∈ l, clause_contains (st.1.get_clause off) lit = false ∧
        clause_contains (st.1.get_clause off) lit.neg = false) →
      l.foldl (gc_lit_step lit) st = (st.1, st.2 ++ l) := by
  induction l with
  | nil => intro st _; simp
  | cons off l ih =>
    intro st h
    have h0 := h off (List.mem_cons_self _ _)
    have hstep : gc_lit_step lit st off = (st.1, st.2 ++ [off]) := by
      unfold gc_lit_step
      rw [h0.1, h0.2]; rfl
    rw [List.foldl_cons, hstep,
      ih (st.1, st.2 ++ [off]) (fun o ho => h o (List.mem_cons_of_mem _ ho))]
    simp

theorem rt_gc_lit_learned_keep (u : solver) (lit : literal)
    (h : ∀ off ∈ u.m_learned, clause_contains (u.get_clause off) lit = false ∧
      clause_contains (u.get_clause off) lit.neg = false) :
    u.gc_lit_learned lit = u := by
  unfold gc_lit_learned
  rw [rt_gc_lit_fold_keep lit u.m_learned (u, []) h]
  simp

theorem rt_gc_lit_clauses_keep (u : solver) (lit : literal)
    (h : ∀ off ∈ u.m_clauses, clause_contains (u.get_clause off) lit = false ∧
      clause_contains (u.get_clause off) lit.neg = false) :
    u.gc_lit_clauses lit = u := by
  unfold gc_lit_clauses
  rw [rt_gc_lit_fold_keep lit u.m_clauses (u, []) h]
  simp

theorem rt_gc_lit_clauses_last (u : solver) (lit : literal) (cs : List clause_offset)
    (off : clause_offset) (hc : u.m_clauses = cs ++ [off])
    (hk : ∀ o ∈ cs, clause_contains (u.get_clause o) lit = false ∧
      clause_contains (u.get_clause o) lit.neg = false)
    (hn : clause_contains (u.get_clause off) lit = true) :
    u.gc_lit_clauses lit = { (u.detach_clause off).del_clause off with m_clauses := cs } := by
  unfold gc_lit_clauses
  rw [hc, List.foldl_append, rt_gc_lit_fold_keep lit cs (u, []) hk]
  simp only [List.foldl_cons, List.foldl_nil, List.nil_append]
  have hstep : gc_lit_step lit (u, cs) off = ((u.detach_clause off).del_clause off, cs) := by
    unfold gc_lit_step
    simp only [hn, Bool.true_or, ↓reduceIte]
  rw [hstep]

theorem rt_gc_bin_fold_frame (learned : Bool) (nlit : literal) (pairs : List (literal × literal)) :
    ∀ v : solver, store_frame v (pairs.foldl (gc_bin_step learned nlit) v) := by
  induction pairs with
  | nil => intro v; exact store_frame_refl v
  | cons p pairs ih =>
    intro v
    rw [List.foldl_cons]
    refine store_frame_trans ?_ (ih _)
    unfold gc_bin_step
    split
    · exact store_frame_detach_bin_clause _ _ _ _
    · exact store_frame_refl v

theorem store_frame_gc_bin (u : solver) (learned : Bool) (nlit : literal) :
    store_frame u (u.gc_bin learned nlit) := by
  unfold gc_bin
  have h1 : store_frame u { u with m_user_bin_clauses := u.collect_bin_clauses learned false } :=
    ⟨rfl, rfl, rfl, rfl, rfl, rfl, rfl, rfl⟩
  exact store_frame_trans h1 (rt_gc_bin_fold_frame _ _ _ _)

theorem rt_gc_bin_fold_watch (learned : Bool) (nlit : literal) (g g1 : Nat → List watched)
    (L : Nat) (pairs : List (literal × literal)) :
    ∀ v : solver, v.m_watches.length = L →
      (∀ p ∈ pairs, (nlit == p.1 || nlit == p.2) = true →
        ∀ w : solver, w.m_watches.length = L →
          ((∀ i, w.get_wlist i = g i) ∨ (∀ i, w.get_wlist i = g1 i)) →
          ∀ i, (w.detach_bin_clause p.1 p.2 learned).get_wlist i = g1 i) →
      ((∀ i, v.get_wlist i = g i) ∨ (∀ i, v.get_wlist i = g1 i)) →
      (∀ i, (pairs.foldl (gc_bin_step learned nlit) v).get_wlist i = g1 i) ∨
        ((∀ i, (pairs.foldl (gc_bin_step learned nlit) v).get_wlist i = g i) ∧
          ∀ p ∈ pairs, (nlit == p.1 || nlit == p.2) = false) := by
  induction pairs with
  | nil =>
    intro v _ _ hv
    rcases hv with hv | hv
    · exact Or.inr ⟨hv, fun p hp => by simp at hp⟩
    · exact Or.inl hv
  | cons p pairs ih =>
    intro v hL hstep hv
    rw [List.foldl_cons]
    by_cases hp : (nlit == p.1 || nlit == p.2) = true
    · have e : gc_bin_step learned nlit v p = v.detach_bin_clause p.1 p.2 learned := by
        unfold gc_bin_step; rw [if_pos hp]
      rw [e]
      have h1 := hstep p (List.mem_cons_self _ _) hp v hL hv
      have hL1 : (v.detach_bin_clause p.1 p.2 learned).m_watches.length = L :=
        (store_frame_detach_bin_clause v p.1 p.2 learned).watches_length.trans hL
      rcases ih _ hL1 (fun q hq => hstep q (List.mem_cons_of_mem _ hq)) (Or.inr h1) with h2 | h2
      · exact Or.inl h2
      · left
        intro i
        have hmem := h2.2
        -- the remaining pairs are skipped, the state stays as it is
        have hskip : ∀ (qs : List (literal × literal)) (w : solver),
            (∀ q ∈ qs, (nlit == q.1 || nlit == q.2) = false) →
            qs.foldl (gc_bin_step learned nlit) w = w := by
          intro qs
          induction qs with
          | nil => intro w _; rfl
          | cons q qs ihq =>
            intro w hq
            rw [List.foldl_cons]
            have : gc_bin_step learned nlit w q = w := by
              unfold gc_bin_step
              rw [hq q (List.mem_cons_self _ _)]; rfl
            rw [this]
            exact ihq w (fun r hr => hq r (List.mem_cons_of_mem _ hr))
        rw [hskip pairs _ hmem]
        exact h1 i
    · have hp2 : (nlit == p.1 || nlit == p.2) = false := by simpa using hp
      have e : gc_bin_step learned nlit v p = v := by
        unfold gc_bin_step; rw [hp2]; rfl
      rw [e]
      rcases ih v hL (fun q hq => hstep q (List.mem_cons_of_mem _ hq)) hv with h2 | h2
      · exact Or.inl h2
      · refine Or.inr ⟨h2.1, ?_⟩
        intro q hq
        rcases List.mem_cons.1 hq with e1 | e1
        · rw [e1]; exact hp2
        · exact h2.2 q e1

theorem rt_collect_mem (u : solver) (learned lo : Bool) (p : literal × literal)
    (h : p ∈ u.collect_bin_clauses learned lo) :
    ∃ idx, idx < u.m_watches.length ∧ ∃ l2 lrn, watched.binary l2 lrn ∈ u.get_wlist idx ∧
      p = ((⟨idx⟩ : literal).neg, l2) := by
  unfold collect_bin_clauses at h
  rw [List.mem_flatMap] at h
  obtain ⟨idx, hidx, hp⟩ := h
  rw [List.mem_filterMap] at hp
  obtain ⟨w, hw, he⟩ := hp
  refine ⟨idx, List.mem_range.1 hidx, ?_⟩
  cases w with
  | binary l2 lrn =>
    refine ⟨l2, lrn, hw, ?_⟩
    have he1 : (if (!learned && lrn) = true then none
        else if (learned && lo && !lrn) = true then none
        else if (⟨idx⟩ : literal).neg.index > l2.index then none
        else some ((⟨idx⟩ : literal).neg, l2)) = some p := he
    split_ifs at he1
    exact (Option.some.inj he1).symm
  | ternary l1 l2 => simp [collect_bin_entry] at he
  | clause b off => simp [collect_bin_entry] at he
  | ext_constraint i => simp [collect_bin_entry] at he

theorem rt_collect_mem_of (u : solver) (idx : Nat) (l2 : literal)
    (hidx : idx < u.m_watches.length) (hw : watched.binary l2 false ∈ u.get_wlist idx)
    (hle : (⟨idx⟩ : literal).neg.index ≤ l2.index) :
    ((⟨idx⟩ : literal).neg, l2) ∈ u.collect_bin_clauses false false := by
  unfold collect_bin_clauses
  rw [List.mem_flatMap]
  refine ⟨idx, List.mem_range.2 hidx, ?_⟩
  rw [List.mem_filterMap]
  refine ⟨_, hw, ?_⟩
  unfold collect_bin_entry
  have : ¬ (⟨idx⟩ : literal).neg.index > l2.index := by omega
  simp [this]

theorem rt_detach_bin_noop (w : solver) (l1 l2 : literal) (learned : Bool)
    (h1 : watched.binary l2 learned ∉ w.get_wlist l1.neg.index)
    (h2 : watched.binary l1 learned ∉ w.get_wlist l2.neg.index) :
    ∀ i, (w.detach_bin_clause l1 l2 learned).get_wlist i = w.get_wlist i := by
  intro i
  unfold detach_bin_clause
  have e1 : (w.get_wlist l1.neg.index).erase (watched.binary l2 learned)
      = w.get_wlist l1.neg.index := List.erase_of_not_mem h1
  have a1 : ∀ j, (w.set_wlist_at l1.neg.index (w.get_wlist l1.neg.index)).get_wlist j
      = w.get_wlist j := by
    intro j
    rw [get_wlist_set_wlist_at]
    split
    · rename_i h; rw [h.1]
    · rfl
  rw [e1]
  have e2 : ((w.set_wlist_at l1.neg.index (w.get_wlist l1.neg.index)).get_wlist
      l2.neg.index).erase (watched.binary l1 learned) = w.get_wlist l2.neg.index := by
    rw [a1]; exact List.erase_of_not_mem h2
  rw [e2, get_wlist_set_wlist_at]
  split
  · rename_i h; rw [h.1]
  · exact a1 i

theorem rt_unassign_var_lrb_frame (s : solver) (v : bool_var) :
    store_frame s (s.unassign_var_lrb v) ∧ (s.unassign_var_lrb v).m_watches = s.m_watches := by
  unfold unassign_var_lrb
  split
  · split
    · exact ⟨⟨rfl, rfl, rfl, rfl, rfl, rfl, rfl, rfl⟩, rfl⟩
    · exact ⟨store_frame_refl s, rfl⟩
  · exact ⟨store_frame_refl s, rfl⟩

theorem rt_unassign_var_anti_exploration_frame (s : solver) (v : bool_var) :
    store_frame s (s.unassign_var_anti_exploration v) ∧
      (s.unassign_var_anti_exploration v).m_watches = s.m_watches := by
  unfold unassign_var_anti_exploration
  split
  · exact ⟨⟨rfl, rfl, rfl, rfl, rfl, rfl, rfl, rfl⟩, rfl⟩
  · exact ⟨store_frame_refl s, rfl⟩

theorem rt_unassign_var_frame (s : solver) (l : literal) :
    store_frame s (s.unassign_var l) ∧ (s.unassign_var l).m_watches = s.m_watches := by
  unfold unassign_var
  have h1 : store_frame s (s.unassign_var_record l) ∧
      (s.unassign_var_record l).m_watches = s.m_watches :=
    ⟨⟨rfl, rfl, rfl, rfl, rfl, rfl, rfl, rfl⟩, rfl⟩
  have h2 := rt_unassign_var_lrb_frame (s.unassign_var_record l) l.var
  have h3 := rt_unassign_var_anti_exploration_frame
    ((s.unassign_var_record l).unassign_var_lrb l.var) l.var
  exact ⟨store_frame_trans (store_frame_trans h1.1 h2.1) h3.1, h3.2.trans (h2.2.trans h1.2)⟩

theorem rt_foldl_unassign_var_frame (ls : List literal) :
    ∀ s : solver, store_frame s (ls.foldl unassign_var s) ∧
      (ls.foldl unassign_var s).m_watches = s.m_watches := by
  induction ls with
  | nil => intro s; exact ⟨store_frame_refl s, rfl⟩
  | cons l ls ih =>
    intro s
    rw [List.foldl_cons]
    have h1 := rt_unassign_var_frame s l
    have h2 := ih (s.unassign_var l)
    exact ⟨store_frame_trans h1.1 h2.1, h2.2.trans h1.2⟩

theorem rt_unassign_vars (s : solver) (k : Nat) :
    (s.unassign_vars k).m_trail = s.m_trail.take k ∧
    (s.unassign_vars k).m_watches = s.m_watches ∧
    (s.unassign_vars k).m_clauses = s.m_clauses ∧
    (s.unassign_vars k).m_learned = s.m_learned ∧
    (s.unassign_vars k).m_cls_allocator = s.m_cls_allocator ∧
    (s.unassign_vars k).m_user_scope_literals = s.m_user_scope_literals ∧
    (s.unassign_vars k).m_level = s.m_level ∧
    (s.unassign_vars k).m_mc = s.m_mc := by
  have h := rt_foldl_unassign_var_frame (s.m_trail.drop k).reverse s
  refine ⟨unassign_vars_m_trail s k, h.2, h.1.m_clauses, h.1.m_learned, h.1.m_cls_allocator,
    h.1.m_user_scope_literals, h.1.m_level, h.1.m_mc⟩

theorem rt_max_var_lits (lits : List literal) :
    ∀ w : bool_var, (∀ l ∈ lits, l.var ≤ w) →
      lits.foldl (fun v l => if l.var > v then l.var else v) w = w := by
  induction lits with
  | nil => intro w _; rfl
  | cons l lits ih =>
    intro w h
    rw [List.foldl_cons]
    have h0 := h l (List.mem_cons_self _ _)
    have : ¬ l.var > w := Nat.not_lt.2 h0
    rw [if_neg this]
    exact ih w (fun x hx => h x (List.mem_cons_of_mem _ hx))

theorem rt_max_var_clauses (u : solver) (cs : List clause_offset) :
    ∀ w : bool_var, (∀ off ∈ cs, ∀ l ∈ (u.get_clause off).lits, l.var ≤ w) →
      u.max_var_clauses cs w = w := by
  unfold max_var_clauses
  induction cs with
  | nil => intro w _; rfl
  | cons off cs ih =>
    intro w h
    rw [List.foldl_cons, rt_max_var_lits _ w (h off (List.mem_cons_self _ _))]
    exact ih w (fun o ho => h o (List.mem_cons_of_mem _ ho))

theorem rt_max_var_bins (pairs : List (literal × literal)) :
    ∀ w : bool_var, (∀ p ∈ pairs, p.1.var ≤ w ∧ p.2.var ≤ w) → max_var_bins pairs w = w := by
  unfold max_var_bins
  induction pairs with
  | nil => intro w _; rfl
  | cons p pairs ih =>
    intro w h
    rw [List.foldl_cons]
    have h0 := h p (List.mem_cons_self _ _)
    have a1 : ¬ p.1.var > w := Nat.not_lt.2 h0.1
    have a2 : ¬ p.2.var > w := Nat.not_lt.2 h0.2
    simp only [a1, a2, ↓reduceIte]
    exact ih w (fun q hq => h q (List.mem_cons_of_mem _ hq))

/-! ### The end of `user_pop`: `gc_bin` without effect, the trail and `gc_var` -/

theorem rt_wf_get_wlist (s : solver) (hwf : store_wf s) (i : Nat) (w : watched)
    (h : w ∈ s.get_wlist i) :
    watched_below s.num_vars s.m_cls_allocator.length w = true ∧ i < 2 * s.num_vars := by
  have hi : i < s.m_watches.length := by
    by_contra hc
    rw [get_wlist_of_length_le s i (by omega)] at h
    simp at h
  refine ⟨hwf.watch_lits (s.get_wlist i) ?_ w h, by rw [← hwf.watches_length]; exact hi⟩
  unfold get_wlist
  rw [List.getD_eq_getElem?_getD, List.getElem?_eq_getElem hi]
  exact List.getElem_mem _

theorem rt_scope_lit (n : Nat) :
    (mk_literal n false).var = n ∧ (mk_literal n false).index = 2 * n ∧
    (mk_literal n false).neg.index = 2 * n + 1 := by
  refine ⟨mk_literal_var n false, by simp [mk_literal_index], ?_⟩
  rw [mk_literal_neg]
  simp [mk_literal_index]

theorem rt_ne_of_var_lt (n : Nat) (l : literal) (h : l.var < n) :
    l ≠ mk_literal n false ∧ l ≠ (mk_literal n false).neg := by
  constructor
  · intro e
    rw [e, (rt_scope_lit n).1] at h
    exact Nat.lt_irrefl _ h
  · intro e
    rw [e, literal_neg_var, (rt_scope_lit n).1] at h
    exact Nat.lt_irrefl _ h

theorem rt_pairs_below (s u : solver) (hwf : store_wf s)
    (hu : ∀ i, u.get_wlist i = s.get_wlist i) (learned lo : Bool) (p : literal × literal)
    (hp : p ∈ u.collect_bin_clauses learned lo) :
    p.1.var < s.num_vars ∧ p.2.var < s.num_vars := by
  obtain ⟨idx, _, l2, lrn, hw, rfl⟩ := rt_collect_mem u learned lo p hp
  rw [hu] at hw
  have h := rt_wf_get_wlist s hwf idx _ hw
  constructor
  · show (⟨idx⟩ : literal).neg.var < s.num_vars
    rw [literal_neg_var]
    show idx / 2 < s.num_vars
    omega
  · have := h.1
    simpa [watched_below] using this

theorem rt_gc_bin_noop (s u : solver) (hwf : store_wf s)
    (hu : ∀ i, u.get_wlist i = s.get_wlist i) (learned : Bool) :
    ∀ i, (u.gc_bin learned (mk_literal s.num_vars false)).get_wlist i = s.get_wlist i := by
  have hno : ∀ p ∈ u.collect_bin_clauses learned false,
      (mk_literal s.num_vars false == p.1 || mk_literal s.num_vars false == p.2) = false := by
    intro p hp
    have h := rt_pairs_below s u hwf hu learned false p hp
    have h1 := (rt_ne_of_var_lt s.num_vars p.1 h.1).1
    have h2 := (rt_ne_of_var_lt s.num_vars p.2 h.2).1
    simp only [Bool.or_eq_false_iff, beq_eq_false_iff_ne, ne_eq]
    exact ⟨fun e => h1 e.symm, fun e => h2 e.symm⟩
  unfold gc_bin
  have h := rt_gc_bin_fold_watch learned (mk_literal s.num_vars false) s.get_wlist s.get_wlist
    u.m_watches.length (u.collect_bin_clauses learned false)
    { u with m_user_bin_clauses := u.collect_bin_clauses learned false } rfl
    (fun p hp hit => by rw [hno p hp] at hit; exact absurd hit (by simp))
    (Or.inl hu)
  rcases h with h | h
  · exact h
  · exact h.1

theorem rt_unassign_from (s u : solver) (hwf : store_wf s)
    (htr : u.m_trail = s.m_trail ∨ u.m_trail = s.m_trail ++ [mk_literal s.num_vars false]) :
    (u.unassign_from (mk_literal s.num_vars false)).m_trail = s.m_trail ∧
    (u.unassign_from (mk_literal s.num_vars false)).m_watches = u.m_watches ∧
    (u.unassign_from (mk_literal s.num_vars false)).m_clauses = u.m_clauses ∧
    (u.unassign_from (mk_literal s.num_vars false)).m_learned = u.m_learned ∧
    (u.unassign_from (mk_literal s.num_vars false)).m_cls_allocator = u.m_cls_allocator ∧
    (u.unassign_from (mk_literal s.num_vars false)).m_user_scope_literals
      = u.m_user_scope_literals ∧
    (u.unassign_from (mk_literal s.num_vars false)).m_level = u.m_level ∧
    (u.unassign_from (mk_literal s.num_vars false)).m_mc = u.m_mc := by
  have hnot : mk_literal s.num_vars false ∉ s.m_trail := by
    intro hm
    exact (rt_ne_of_var_lt s.num_vars _ (hwf.trail_lits _ hm)).1 rfl
  unfold unassign_from
  rcases htr with htr | htr
  · have : ¬ u.m_trail.indexOf (mk_literal s.num_vars false) < u.m_trail.length := by
      rw [htr]
      have := List.indexOf_lt_length.not.2 hnot
      exact this
    rw [if_neg this]
    exact ⟨htr, rfl, rfl, rfl, rfl, rfl, rfl, rfl⟩
  · have hidx : u.m_trail.indexOf (mk_literal s.num_vars false) = s.m_trail.length := by
      rw [htr, List.indexOf_append_of_not_mem hnot]
      simp
    have hlt : u.m_trail.indexOf (mk_literal s.num_vars false) < u.m_trail.length := by
      rw [hidx, htr]; simp
    rw [if_pos hlt, hidx]
    have h := rt_unassign_vars u s.m_trail.length
    refine ⟨?_, h.2.1, h.2.2.1, h.2.2.2.1, h.2.2.2.2.1, h.2.2.2.2.2.1, h.2.2.2.2.2.2.1,
      h.2.2.2.2.2.2.2⟩
    rw [h.1, htr]
    simp

theorem rt_gc_var_bound (s v : solver) (hwf : store_wf s)
    (hw : ∀ i, v.get_wlist i = s.get_wlist i)
    (hc : v.m_clauses = s.m_clauses) (hl : v.m_learned = s.m_learned)
    (ha : ∀ off, off < s.m_cls_allocator.length → v.get_clause off = s.get_clause off)
    (hmc : v.m_mc = s.m_mc) (htr : v.m_trail = s.m_trail) :
    v.gc_var_bound s.num_vars = s.num_vars := by
  unfold gc_var_bound
  split
  · rename_i hpos
    have hcl : ∀ off ∈ s.m_clauses ++ s.m_learned,
        ∀ l ∈ (v.get_clause off).lits, l.var ≤ s.num_vars - 1 := by
      intro off hoff l hl1
      have h := hwf.clause_lits off hoff
      rw [ha off h.1] at hl1
      exact Nat.le_sub_one_of_lt (h.2 l hl1)
    have e1 : v.max_var_clauses v.m_learned (s.num_vars - 1) = s.num_vars - 1 := by
      rw [hl]
      exact rt_max_var_clauses v _ _ (fun off ho => hcl off (List.mem_append_right _ ho))
    have e2 : v.max_var_clauses v.m_clauses (s.num_vars - 1) = s.num_vars - 1 := by
      rw [hc]
      exact rt_max_var_clauses v _ _ (fun off ho => hcl off (List.mem_append_left _ ho))
    have e3 : ∀ learned, max_var_bins (v.collect_bin_clauses learned false) (s.num_vars - 1)
        = s.num_vars - 1 := by
      intro learned
      apply rt_max_var_bins
      intro p hp
      have := rt_pairs_below s v hwf hw learned false p hp
      exact ⟨Nat.le_sub_one_of_lt this.1, Nat.le_sub_one_of_lt this.2⟩
    have e4 : v.m_trail.foldl (fun w l => if l.var > w then l.var else w) (s.num_vars - 1)
        = s.num_vars - 1 := by
      rw [htr]
      apply rt_max_var_lits
      intro l hl1
      exact Nat.le_sub_one_of_lt (hwf.trail_lits l hl1)
    rw [e1, e2, e3, e3, e4, hmc]
    have h1 := hwf.mc_vars
    have h2 := hwf.num_vars_lt
    have h3 : null_bool_var = 2147483647 := rfl
    rw [h3] at h2
    have hpos1 : 0 < s.num_vars := hpos
    have h4 : (s.num_vars - 1 + 1) % 4294967296 = s.num_vars := by omega
    rw [h4]
    exact Nat.max_eq_right h1
  · rfl

theorem rt_finish (s u : solver) (hwf : store_wf s)
    (hw : ∀ i, u.get_wlist i = s.get_wlist i)
    (hlen : u.m_watches.length = 2 * s.num_vars + 2)
    (hc : u.m_clauses = s.m_clauses) (hl : u.m_learned = s.m_learned)
    (ha : ∀ off, off < s.m_cls_allocator.length → u.get_clause off = s.get_clause off)
    (husl : u.m_user_scope_literals = s.m_user_scope_literals) (hmc : u.m_mc = s.m_mc)
    (hlev : u.m_level.length = s.num_vars + 1)
    (htr : u.m_trail = s.m_trail ∨ u.m_trail = s.m_trail ++ [mk_literal s.num_vars false]) :
    ((u.unassign_from (mk_literal s.num_vars false)).gc_var s.num_vars).num_vars = s.num_vars ∧
    ((u.unassign_from (mk_literal s.num_vars false)).gc_var s.num_vars).m_trail = s.m_trail ∧
    ((u.unassign_from (mk_literal s.num_vars false)).gc_var s.num_vars).m_watches
      = s.m_watches ∧
    ((u.unassign_from (mk_literal s.num_vars false)).gc_var s.num_vars).m_clauses
      = s.m_clauses ∧
    ((u.unassign_from (mk_literal s.num_vars false)).gc_var s.num_vars).m_learned
      = s.m_learned ∧
    ((u.unassign_from (mk_literal s.num_vars false)).gc_var s.num_vars).m_user_scope_literals
      = s.m_user_scope_literals := by
  obtain ⟨t1, t2, t3, t4, t5, t6, t7, t8⟩ := rt_unassign_from s u hwf htr
  generalize u.unassign_from (mk_literal s.num_vars false) = v at t1 t2 t3 t4 t5 t6 t7 t8
  have hwv : ∀ i, v.get_wlist i = s.get_wlist i := by
    intro i
    have : v.get_wlist i = u.get_wlist i := by unfold get_wlist; rw [t2]
    rw [this, hw]
  have hav : ∀ off, off < s.m_cls_allocator.length → v.get_clause off = s.get_clause off := by
    intro off ho
    have : v.get_clause off = u.get_clause off := by unfold get_clause; rw [t5]
    rw [this, ha off ho]
  have hb := rt_gc_var_bound s v hwf hwv (t3.trans hc) (t4.trans hl) hav (t8.trans hmc) t1
  have hlt : s.num_vars < v.m_level.length := by rw [t7, hlev]; omega
  unfold gc_var
  rw [hb]
  unfold shrink_vars
  have hlt2 : s.num_vars <
      ({ v with m_user_bin_clauses :=
          if s.num_vars > 0 then v.collect_bin_clauses false false
          else v.m_user_bin_clauses } : solver).m_level.length := hlt
  rw [if_pos hlt2]
  refine ⟨?_, t1, ?_, t3.trans hc, t4.trans hl, t6.trans husl⟩
  · show (v.m_level.take s.num_vars).length = s.num_vars
    rw [List.length_take]
    omega
  · show v.m_watches.take (2 * s.num_vars) = s.m_watches
    have hvl : v.m_watches.length = 2 * s.num_vars + 2 := by rw [t2, hlen]
    apply list_ext_getD []
    · rw [List.length_take, hvl, hwf.watches_length]; omega
    · intro i hi
      rw [List.length_take, hvl] at hi
      have hi2 : i < 2 * s.num_vars := by omega
      have e1 : (v.m_watches.take (2 * s.num_vars)).getD i [] = v.get_wlist i := by
        unfold get_wlist
        rw [List.getD_eq_getElem?_getD, List.getD_eq_getElem?_getD, List.getElem?_take_of_lt hi2]
      rw [e1, hwv]
      rfl

/-! ### `user_pop` on a solver with one more user scope -/

theorem rt_get_wlist_ge (s : solver) (hwf : store_wf s) (i : Nat) (h : 2 * s.num_vars ≤ i) :
    s.get_wlist i = [] :=
  get_wlist_of_length_le s i (by rw [hwf.watches_length]; exact h)

theorem rt_not_contains (s u : solver) (hwf : store_wf s)
    (ha : ∀ off, off < s.m_cls_allocator.length → u.get_clause off = s.get_clause off)
    (off : clause_offset) (hoff : off ∈ s.m_clauses ++ s.m_learned) :
    clause_contains (u.get_clause off) (mk_literal s.num_vars false) = false ∧
    clause_contains (u.get_clause off) (mk_literal s.num_vars false).neg = false := by
  have h := hwf.clause_lits off hoff
  rw [ha off h.1]
  unfold clause_contains
  constructor
  · rw [decide_eq_false_iff_not]
    intro hm
    exact (rt_ne_of_var_lt s.num_vars _ (h.2 _ hm)).1 rfl
  · rw [decide_eq_false_iff_not]
    intro hm
    exact (rt_ne_of_var_lt s.num_vars _ (h.2 _ hm)).2 rfl

/-- The first statements of the loop body of `user_pop`: the scope literal is
taken off its stack and its two watch lists are emptied. -/
theorem rt_reset (s t : solver) (h : scope_added s t) :
    t.m_user_scope_literals.getLastD null_literal = mk_literal s.num_vars false ∧
    store_frame { t with m_user_scope_literals := s.m_user_scope_literals }
      (t.pop_user_scope_literal (mk_literal s.num_vars false)) ∧
    (∀ i, (t.pop_user_scope_literal (mk_literal s.num_vars false)).get_wlist i
      = if i < 2 * s.num_vars then t.get_wlist i else []) := by
  have hl := rt_scope_lit s.num_vars
  refine ⟨by rw [h.m_user_scope_literals]; simp, ?_, ?_⟩
  · unfold pop_user_scope_literal
    refine ⟨rfl, rfl, rfl, rfl, ?_, rfl, rfl, by simp [set_wlist_at]⟩
    show t.m_user_scope_literals.dropLast = s.m_user_scope_literals
    rw [h.m_user_scope_literals]; simp
  · intro i
    unfold pop_user_scope_literal
    rw [get_wlist_set_wlist_at, get_wlist_set_wlist_at, hl.2.1, hl.2.2]
    have hlen : (({ t with m_user_scope_literals := t.m_user_scope_literals.dropLast } :
        solver).set_wlist_at (2 * s.num_vars) []).m_watches.length = 2 * s.num_vars + 2 := by
      simp [set_wlist_at, h.watches_length]
    have hlen0 : ({ t with m_user_scope_literals := t.m_user_scope_literals.dropLast } :
        solver).m_watches.length = 2 * s.num_vars + 2 := h.watches_length
    rw [hlen, hlen0]
    by_cases h1 : 2 * s.num_vars + 1 = i
    · rw [if_pos ⟨h1, by omega⟩, if_neg (by omega)]
    · rw [if_neg (fun hc => h1 hc.1)]
      by_cases h2 : 2 * s.num_vars = i
      · rw [if_pos ⟨h2, by omega⟩, if_neg (by omega)]
      · rw [if_neg (fun hc => h2 hc.1)]
        by_cases h3 : i < 2 * s.num_vars
        · rw [if_pos h3]; rfl
        · rw [if_neg h3]
          exact get_wlist_of_length_le _ _ (by rw [hlen0]; omega)

/-- The end of the loop body of `user_pop` from a state whose watch lists are
those of `s`: the two calls of `gc_bin` find nothing, the trail is cut at the
scope literal and `gc_var` removes the scope variable. -/
theorem rt_pop_tail (s u : solver) (hwf : store_wf s)
    (hw : ∀ i, u.get_wlist i = s.get_wlist i)
    (hlen : u.m_watches.length = 2 * s.num_vars + 2)
    (hc : u.m_clauses = s.m_clauses) (hl : u.m_learned = s.m_learned)
    (ha : ∀ off, off < s.m_cls_allocator.length → u.get_clause off = s.get_clause off)
    (husl : u.m_user_scope_literals = s.m_user_scope_literals) (hmc : u.m_mc = s.m_mc)
    (hlev : u.m_level.length = s.num_vars + 1)
    (htr : u.m_trail = s.m_trail ∨ u.m_trail = s.m_trail ++ [mk_literal s.num_vars false]) :
    restored s (((((u.gc_bin true (mk_literal s.num_vars false)).gc_bin false
      (mk_literal s.num_vars false)).unassign_from (mk_literal s.num_vars false))).gc_var
      s.num_vars) := by
  have f1 := store_frame_gc_bin u true (mk_literal s.num_vars false)
  have w1 := rt_gc_bin_noop s u hwf hw true
  have f2 := store_frame_gc_bin (u.gc_bin true (mk_literal s.num_vars false)) false
    (mk_literal s.num_vars false)
  have w2 := rt_gc_bin_noop s _ hwf w1 false
  have f := store_frame_trans f1 f2
  refine rt_finish s _ hwf w2 (f.watches_length.trans hlen) (f.m_clauses.trans hc)
    (f.m_learned.trans hl) ?_ (f.m_user_scope_literals.trans husl) (f.m_mc.trans hmc)
    (by rw [f.m_level]; exact hlev) (by rw [f.m_trail]; exact htr)
  intro off ho
  have : ((u.gc_bin true (mk_literal s.num_vars false)).gc_bin false
      (mk_literal s.num_vars false)).get_clause off = u.get_clause off := by
    unfold get_clause; rw [f.m_cls_allocator]
  rw [this, ha off ho]

/-! ### The cases of the clause added inside the user scope -/

/-- After the reset of the two watch lists of the scope literal, `gc_lit`
keeps the clauses of `s`. -/
theorem rt_reset_gc_lit (s t : solver) (hwf : store_wf s) (h : scope_added s t)
    (hc : t.m_clauses = s.m_clauses) :
    ((t.pop_user_scope_literal (mk_literal s.num_vars false)).gc_lit_learned
      (mk_literal s.num_vars false)).gc_lit_clauses (mk_literal s.num_vars false)
      = t.pop_user_scope_literal (mk_literal s.num_vars false) := by
  obtain ⟨_, fr, _⟩ := rt_reset s t h
  have ha : ∀ off, off < s.m_cls_allocator.length →
      (t.pop_user_scope_literal (mk_literal s.num_vars false)).get_clause off
        = s.get_clause off := by
    intro off ho
    have : (t.pop_user_scope_literal (mk_literal s.num_vars false)).get_clause off
        = t.get_clause off := by
      unfold get_clause; rw [fr.m_cls_allocator]
    rw [this, h.arena off ho]
  have e1 : (t.pop_user_scope_literal (mk_literal s.num_vars false)).gc_lit_learned
      (mk_literal s.num_vars false) = t.pop_user_scope_literal (mk_literal s.num_vars false) := by
    apply rt_gc_lit_learned_keep
    intro off ho
    rw [fr.m_learned] at ho
    have ho1 : off ∈ s.m_learned := by rw [← h.m_learned]; exact ho
    exact rt_not_contains s _ hwf ha off (List.mem_append_right _ ho1)
  rw [e1]
  apply rt_gc_lit_clauses_keep
  intro off ho
  rw [fr.m_clauses] at ho
  have ho1 : off ∈ s.m_clauses := by rw [← hc]; exact ho
  exact rt_not_contains s _ hwf ha off (List.mem_append_left _ ho1)

/-- The round trip when the clause store of `t` is that of `s`: the clause
was dropped, or it was the unit clause of the scope literal. -/
theorem rt_pop_plain (s t : solver) (hwf : store_wf s) (h : scope_added s t)
    (hc : t.m_clauses = s.m_clauses)
    (hw : ∀ i, i < 2 * s.num_vars → t.get_wlist i = s.get_wlist i) :
    restored s t.user_pop_scope := by
  obtain ⟨hlast, fr, hwr⟩ := rt_reset s t h
  unfold user_pop_scope
  rw [hlast, (rt_scope_lit s.num_vars).1, rt_reset_gc_lit s t hwf h hc]
  refine rt_pop_tail s _ hwf ?_ (fr.watches_length.trans h.watches_length)
    (fr.m_clauses.trans hc) (fr.m_learned.trans h.m_learned) ?_ fr.m_user_scope_literals
    (fr.m_mc.trans h.m_mc) (by rw [fr.m_level]; exact h.level_length)
    (by rw [fr.m_trail]; exact h.m_trail)
  · intro i
    rw [hwr]
    split
    · rename_i hi; exact hw i hi
    · rename_i hi; exact (rt_get_wlist_ge s hwf i (by omega)).symm
  · intro off ho
    have : (t.pop_user_scope_literal (mk_literal s.num_vars false)).get_clause off
        = t.get_clause off := by
      unfold get_clause; rw [fr.m_cls_allocator]
    rw [this, h.arena off ho]

theorem rt_literal_of_neg_index (a : literal) : (⟨a.neg.index⟩ : literal).neg = a := by
  have : (⟨a.neg.index⟩ : literal) = a.neg := rfl
  rw [this, literal_neg_neg]

theorem rt_index_lt (a : literal) (n : Nat) (h : a.var < n) :
    a.index < 2 * n ∧ a.neg.index < 2 * n := by
  have h1 : a.m_val / 2 < n := h
  apply index_lt_of_var
  show 2 * (a.m_val / 2) + 1 < 2 * n
  omega

theorem rt_no_scope_binary (s : solver) (hwf : store_wf s) (i : Nat) (lrn : Bool) :
    watched.binary (mk_literal s.num_vars false) lrn ∉ s.get_wlist i := by
  intro hm
  have h := (rt_wf_get_wlist s hwf i _ hm).1
  simp only [watched_below, decide_eq_true_eq, (rt_scope_lit s.num_vars).1] at h
  exact Nat.lt_irrefl _ h

/-- The round trip when the clause added is binary: `gc_bin(false, lit)`
removes the watch the clause left in the list of a literal of `s`. -/
theorem rt_pop_binary (s t : solver) (hwf : store_wf s) (h : scope_added s t)
    (hc : t.m_clauses = s.m_clauses) (a : literal) (ha : a.var < s.num_vars)
    (hw : ∀ i, i < 2 * s.num_vars → t.get_wlist i = s.get_wlist i ++
      (if i = a.neg.index then [watched.binary (mk_literal s.num_vars false) false] else [])) :
    restored s t.user_pop_scope := by
  obtain ⟨hlast, fr, hwr⟩ := rt_reset s t h
  have hl := rt_scope_lit s.num_vars
  have hai := rt_index_lt a s.num_vars ha
  unfold user_pop_scope
  rw [hlast, hl.1, rt_reset_gc_lit s t hwf h hc]
  generalize hu1 : t.pop_user_scope_literal (mk_literal s.num_vars false) = u1 at fr hwr
  have hlen1 : u1.m_watches.length = 2 * s.num_vars + 2 :=
    fr.watches_length.trans h.watches_length
  -- the watch lists after the reset
  have hg : ∀ i, u1.get_wlist i = s.get_wlist i ++
      (if i = a.neg.index then [watched.binary (mk_literal s.num_vars false) false] else []) := by
    intro i
    rw [hwr]
    split
    · rename_i hi; exact hw i hi
    · rename_i hi
      rw [rt_get_wlist_ge s hwf i (by omega), if_neg (by omega)]
      rfl
  have hg_top : s.get_wlist (2 * s.num_vars + 1) ++
      (if 2 * s.num_vars + 1 = a.neg.index
        then [watched.binary (mk_literal s.num_vars false) false] else []) = [] := by
    rw [rt_get_wlist_ge s hwf _ (by omega), if_neg (by omega)]
    rfl
  -- the collected binary clauses that contain the scope literal
  have hpairs : ∀ (w : solver) (learned : Bool),
      (∀ i, w.get_wlist i = s.get_wlist i ++
        (if i = a.neg.index then [watched.binary (mk_literal s.num_vars false) false] else [])) →
      ∀ p ∈ w.collect_bin_clauses learned false,
        (mk_literal s.num_vars false == p.1 || mk_literal s.num_vars false == p.2) = true →
        p = (a, mk_literal s.num_vars false) := by
    intro w learned hwg p hp hit
    obtain ⟨idx, _, l2, lrn, hmem, rfl⟩ := rt_collect_mem w learned false p hp
    rw [hwg, List.mem_append] at hmem
    rcases hmem with hmem | hmem
    · exfalso
      have hb := rt_wf_get_wlist s hwf idx _ hmem
      have h1 : (⟨idx⟩ : literal).neg.var < s.num_vars := by
        rw [literal_neg_var]
        show idx / 2 < s.num_vars
        omega
      have h2 : l2.var < s.num_vars := by simpa [watched_below] using hb.1
      simp only [Bool.or_eq_true, beq_iff_eq] at hit
      rcases hit with e | e
      · exact (rt_ne_of_var_lt s.num_vars _ h1).1 e.symm
      · exact (rt_ne_of_var_lt s.num_vars _ h2).1 e.symm
    · split at hmem
      · rename_i hidx
        simp only [List.mem_singleton, watched.binary.injEq] at hmem
        rw [hidx, rt_literal_of_neg_index, hmem.1]
      · simp at hmem
  -- `detach_bin_clause` of that clause with the learned flag set finds nothing
  have hdet_true : ∀ w : solver,
      (∀ i, w.get_wlist i = s.get_wlist i ++
        (if i = a.neg.index then [watched.binary (mk_literal s.num_vars false) false] else [])) →
      ∀ i, (w.detach_bin_clause a (mk_literal s.num_vars false) true).get_wlist i
        = s.get_wlist i ++
          (if i = a.neg.index then [watched.binary (mk_literal s.num_vars false) false]
            else []) := by
    intro w hwg i
    rw [rt_detach_bin_noop w _ _ _ ?_ ?_, hwg]
    · rw [hwg, if_pos rfl, List.mem_append]
      intro hm
      rcases hm with hm | hm
      · exact rt_no_scope_binary s hwf _ _ hm
      · simp at hm
    · rw [hwg, hl.2.2, hg_top]
      simp
  -- without the flag it removes the watch
  have hdet_false : ∀ w : solver, w.m_watches.length = 2 * s.num_vars + 2 →
      ((∀ i, w.get_wlist i = s.get_wlist i ++
        (if i = a.neg.index then [watched.binary (mk_literal s.num_vars false) false] else [])) ∨
        (∀ i, w.get_wlist i = s.get_wlist i)) →
      ∀ i, (w.detach_bin_clause a (mk_literal s.num_vars false) false).get_wlist i
        = s.get_wlist i := by
    intro w hwl hwg i
    rcases hwg with hwg | hwg
    · unfold detach_bin_clause
      have e1 : (w.get_wlist a.neg.index).erase
          (watched.binary (mk_literal s.num_vars false) false) = s.get_wlist a.neg.index := by
        rw [hwg, if_pos rfl]
        exact rt_erase_append_self _ _ (rt_no_scope_binary s hwf _ _)
      rw [e1]
      have e2 : (w.set_wlist_at a.neg.index (s.get_wlist a.neg.index)).get_wlist
          (mk_literal s.num_vars false).neg.index = [] := by
        rw [get_wlist_set_wlist_at, hl.2.2, if_neg (by omega), hwg, hg_top]
      rw [e2, get_wlist_set_wlist_at, get_wlist_set_wlist_at, hl.2.2]
      simp only [List.erase_nil]
      by_cases h1 : 2 * s.num_vars + 1 = i
      · rw [if_pos ⟨h1, by simp [set_wlist_at, hwl]⟩]
        exact (rt_get_wlist_ge s hwf i (by omega)).symm
      · rw [if_neg (fun hc => h1 hc.1)]
        by_cases h2 : a.neg.index = i
        · rw [if_pos ⟨h2, by rw [hwl]; omega⟩, h2]
        · rw [if_neg (fun hc => h2 hc.1), hwg, if_neg (fun e => h2 e.symm)]
          simp
    · rw [rt_detach_bin_noop w _ _ _ ?_ ?_, hwg]
      · rw [hwg]; exact rt_no_scope_binary s hwf _ _
      · rw [hwg, hl.2.2, rt_get_wlist_ge s hwf _ (by omega)]
        simp
  -- `gc_bin(true, lit)`
  have f1 := store_frame_gc_bin u1 true (mk_literal s.num_vars false)
  have w1 : ∀ i, (u1.gc_bin true (mk_literal s.num_vars false)).get_wlist i
      = s.get_wlist i ++
        (if i = a.neg.index then [watched.binary (mk_literal s.num_vars false) false]
          else []) := by
    have := rt_gc_bin_fold_watch true (mk_literal s.num_vars false)
      (fun i => s.get_wlist i ++
        (if i = a.neg.index then [watched.binary (mk_literal s.num_vars false) false] else []))
      (fun i => s.get_wlist i ++
        (if i = a.neg.index then [watched.binary (mk_literal s.num_vars false) false] else []))
      u1.m_watches.length (u1.collect_bin_clauses true false)
      { u1 with m_user_bin_clauses := u1.collect_bin_clauses true false } rfl
      (fun p hp hit w _ hwg i => by
        have hp1 := hpairs u1 true hg p hp hit
        rw [hp1]
        exact hdet_true w (by rcases hwg with hwg | hwg <;> exact hwg) i)
      (Or.inl hg)
    unfold gc_bin
    rcases this with h1 | h1
    · exact h1
    · exact h1.1
  -- `gc_bin(false, lit)`
  generalize hu4 : u1.gc_bin true (mk_literal s.num_vars false) = u4 at f1 w1
  have hlen4 : u4.m_watches.length = 2 * s.num_vars + 2 := f1.watches_length.trans hlen1
  have f2 := store_frame_gc_bin u4 false (mk_literal s.num_vars false)
  have w2 : ∀ i, (u4.gc_bin false (mk_literal s.num_vars false)).get_wlist i = s.get_wlist i := by
    have := rt_gc_bin_fold_watch false (mk_literal s.num_vars false)
      (fun i => s.get_wlist i ++
        (if i = a.neg.index then [watched.binary (mk_literal s.num_vars false) false] else []))
      s.get_wlist (2 * s.num_vars + 2) (u4.collect_bin_clauses false false)
      { u4 with m_user_bin_clauses := u4.collect_bin_clauses false false } hlen4
      (fun p hp hit w hwl hwg i => by
        have hp1 := hpairs u4 false w1 p hp hit
        rw [hp1]
        exact hdet_false w hwl hwg i)
      (Or.inl w1)
    unfold gc_bin
    rcases this with h1 | h1
    · exact h1
    · exfalso
      have hmem : ((⟨a.neg.index⟩ : literal).neg, mk_literal s.num_vars false)
          ∈ u4.collect_bin_clauses false false := by
        apply rt_collect_mem_of u4 a.neg.index _ (by rw [hlen4]; omega)
        · rw [w1, if_pos rfl]; simp
        · rw [rt_literal_of_neg_index, hl.2.1]; omega
      have := h1.2 _ hmem
      simp at this
  have f := store_frame_trans fr (store_frame_trans f1 f2)
  refine rt_finish s _ hwf w2 (f.watches_length.trans h.watches_length)
    (f.m_clauses.trans hc) (f.m_learned.trans h.m_learned) ?_ f.m_user_scope_literals
    (f.m_mc.trans h.m_mc) (by rw [f.m_level]; exact h.level_length)
    (by rw [f.m_trail]; exact h.m_trail)
  intro off ho
  have : (u4.gc_bin false (mk_literal s.num_vars false)).get_clause off = t.get_clause off := by
    unfold get_clause; rw [f.m_cls_allocator]
  rw [this, h.arena off ho]

/-- The round trip when the clause added was stored in the arena: `gc_lit`
finds it at the end of the clause vector, detaches and deletes it. -/
theorem rt_pop_clause (s t : solver) (hwf : store_wf s) (h : scope_added s t)
    (hc : t.m_clauses = s.m_clauses ++ [s.m_cls_allocator.length])
    (hlit : mk_literal s.num_vars false ∈ (t.get_clause s.m_cls_allocator.length).lits)
    (hdet : ∀ i, ((t.pop_user_scope_literal (mk_literal s.num_vars false)).detach_clause
      s.m_cls_allocator.length).get_wlist i = s.get_wlist i) :
    restored s t.user_pop_scope := by
  obtain ⟨hlast, fr, _⟩ := rt_reset s t h
  have hl := rt_scope_lit s.num_vars
  unfold user_pop_scope
  rw [hlast, hl.1]
  generalize hu1 : t.pop_user_scope_literal (mk_literal s.num_vars false) = u1 at fr hdet
  have ha : ∀ off, u1.get_clause off = t.get_clause off := by
    intro off
    unfold get_clause; rw [fr.m_cls_allocator]
  have ha1 : ∀ off, off < s.m_cls_allocator.length → u1.get_clause off = s.get_clause off :=
    fun off ho => (ha off).trans (h.arena off ho)
  have e1 : u1.gc_lit_learned (mk_literal s.num_vars false) = u1 := by
    apply rt_gc_lit_learned_keep
    intro off ho
    rw [fr.m_learned] at ho
    have ho1 : off ∈ s.m_learned := by rw [← h.m_learned]; exact ho
    exact rt_not_contains s _ hwf ha1 off (List.mem_append_right _ ho1)
  have e2 := rt_gc_lit_clauses_last u1 (mk_literal s.num_vars false) s.m_clauses
    s.m_cls_allocator.length (fr.m_clauses.trans hc)
    (fun o ho => rt_not_contains s _ hwf ha1 o (List.mem_append_left _ ho))
    (by
      unfold clause_contains
      rw [ha, decide_eq_true_eq]
      exact hlit)
  rw [e1, e2]
  have f1 := store_frame_trans (store_frame_detach_clause u1 s.m_cls_allocator.length)
    (store_frame_del_clause (u1.detach_clause s.m_cls_allocator.length) s.m_cls_allocator.length)
  refine rt_pop_tail s _ hwf hdet ?_ rfl ?_ ?_ ?_ ?_ ?_ ?_
  · exact f1.watches_length.trans (fr.watches_length.trans h.watches_length)
  · exact f1.m_learned.trans (fr.m_learned.trans h.m_learned)
  · intro off ho
    have : ({ (u1.detach_clause s.m_cls_allocator.length).del_clause s.m_cls_allocator.length
        with m_clauses := s.m_clauses } : solver).get_clause off = u1.get_clause off := by
      unfold get_clause
      exact congrArg (fun l => l.getD off default) f1.m_cls_allocator
    rw [this, ha1 off ho]
  · exact f1.m_user_scope_literals.trans fr.m_user_scope_literals
  · exact f1.m_mc.trans (fr.m_mc.trans h.m_mc)
  · have : ({ (u1.detach_clause s.m_cls_allocator.length).del_clause s.m_cls_allocator.length
        with m_clauses := s.m_clauses } : solver).m_level = t.m_level :=
      f1.m_level.trans fr.m_level
    rw [this]; exact h.level_length
  · have : ({ (u1.detach_clause s.m_cls_allocator.length).del_clause s.m_cls_allocator.length
        with m_clauses := s.m_clauses } : solver).m_trail = t.m_trail :=
      f1.m_trail.trans fr.m_trail
    rw [this]; exact h.m_trail

theorem rt_no_scope_ternary (s : solver) (hwf : store_wf s) (i : Nat) (l1 : literal) :
    watched.ternary l1 (mk_literal s.num_vars false) ∉ s.get_wlist i := by
  intro hm
  have h := (rt_wf_get_wlist s hwf i _ hm).1
  simp only [watched_below, Bool.and_eq_true, decide_eq_true_eq,
    (rt_scope_lit s.num_vars).1] at h
  exact Nat.lt_irrefl _ h.2

theorem rt_neg_index_ne (a b : literal) (h : a ≠ b) : a.neg.index ≠ b.neg.index := by
  intro e
  apply h
  have := literal_ext_index e
  rw [← literal_neg_neg a, this, literal_neg_neg]

/-- The round trip when the clause added is ternary. -/
theorem rt_pop_ternary (s t : solver) (hwf : store_wf s) (h : scope_added s t)
    (a b : literal) (ha : a.var < s.num_vars) (hb : b.var < s.num_vars) (hab : a ≠ b)
    (hc : t.m_clauses = s.m_clauses ++ [s.m_cls_allocator.length])
    (hcl : (t.get_clause s.m_cls_allocator.length).lits = [a, b, mk_literal s.num_vars false])
    (hw : ∀ i, i < 2 * s.num_vars → t.get_wlist i = s.get_wlist i ++
      (if i = a.neg.index then [watched.ternary b (mk_literal s.num_vars false)]
        else if i = b.neg.index then [watched.ternary a (mk_literal s.num_vars false)]
        else [])) :
    restored s t.user_pop_scope := by
  apply rt_pop_clause s t hwf h hc (by rw [hcl]; simp)
  obtain ⟨_, fr, hwr⟩ := rt_reset s t h
  have hl := rt_scope_lit s.num_vars
  have hai := rt_index_lt a s.num_vars ha
  have hbi := rt_index_lt b s.num_vars hb
  have hne := rt_neg_index_ne a b hab
  generalize hu1 : t.pop_user_scope_literal (mk_literal s.num_vars false) = u1 at fr hwr
  have hlen1 : u1.m_watches.length = 2 * s.num_vars + 2 :=
    fr.watches_length.trans h.watches_length
  have hcl1 : u1.get_clause s.m_cls_allocator.length
      = t.get_clause s.m_cls_allocator.length := by
    unfold get_clause; rw [fr.m_cls_allocator]
  have hg : ∀ i, u1.get_wlist i = s.get_wlist i ++
      (if i = a.neg.index then [watched.ternary b (mk_literal s.num_vars false)]
        else if i = b.neg.index then [watched.ternary a (mk_literal s.num_vars false)]
        else []) := by
    intro i
    rw [hwr]
    split
    · rename_i hi; exact hw i hi
    · rename_i hi
      rw [rt_get_wlist_ge s hwf i (by omega), if_neg (by omega), if_neg (by omega)]
      rfl
  have hsz : (u1.get_clause s.m_cls_allocator.length).size = 3 := by
    rw [hcl1]; unfold clause.size; rw [hcl]; rfl
  have g0 : (u1.get_clause s.m_cls_allocator.length).get 0 = a := by
    rw [hcl1]; unfold clause.get; rw [hcl]; rfl
  have g1 : (u1.get_clause s.m_cls_allocator.length).get 1 = b := by
    rw [hcl1]; unfold clause.get; rw [hcl]; rfl
  have g2 : (u1.get_clause s.m_cls_allocator.length).get 2 = mk_literal s.num_vars false := by
    rw [hcl1]; unfold clause.get; rw [hcl]; rfl
  intro i
  unfold detach_clause
  rw [if_pos hsz]
  unfold detach_ter_clause
  simp only [g0, g1, g2, erase_ternary_watch]
  have e1 : (u1.get_wlist a.neg.index).erase
      (watched.ternary b (mk_literal s.num_vars false)) = s.get_wlist a.neg.index := by
    rw [hg, if_pos rfl]
    exact rt_erase_append_self _ _ (rt_no_scope_ternary s hwf _ _)
  rw [e1]
  have e2 : ((u1.set_wlist_at a.neg.index (s.get_wlist a.neg.index)).get_wlist
      b.neg.index).erase (watched.ternary a (mk_literal s.num_vars false))
      = s.get_wlist b.neg.index := by
    rw [get_wlist_set_wlist_at, if_neg (fun hc => hne hc.1), hg,
      if_neg (fun e => hne e.symm), if_pos rfl]
    exact rt_erase_append_self _ _ (rt_no_scope_ternary s hwf _ _)
  rw [e2]
  have e3 : (((u1.set_wlist_at a.neg.index (s.get_wlist a.neg.index)).set_wlist_at b.neg.index
      (s.get_wlist b.neg.index)).get_wlist (mk_literal s.num_vars false).neg.index).erase
      (watched.ternary a b) = [] := by
    rw [get_wlist_set_wlist_at, get_wlist_set_wlist_at, hl.2.2, if_neg (by omega),
      if_neg (by omega), hg, rt_get_wlist_ge s hwf _ (by omega), if_neg (by omega),
      if_neg (by omega)]
    rfl
  rw [e3, get_wlist_set_wlist_at, get_wlist_set_wlist_at, get_wlist_set_wlist_at, hl.2.2]
  by_cases h1 : 2 * s.num_vars + 1 = i
  · rw [if_pos ⟨h1, by simp [set_wlist_at, hlen1]⟩]
    exact (rt_get_wlist_ge s hwf i (by omega)).symm
  · rw [if_neg (fun hc => h1 hc.1)]
    by_cases h2 : b.neg.index = i
    · rw [if_pos ⟨h2, by simp only [set_wlist_at, List.length_set]; rw [hlen1]; omega⟩, h2]
    · rw [if_neg (fun hc => h2 hc.1)]
      by_cases h3 : a.neg.index = i
      · rw [if_pos ⟨h3, by rw [hlen1]; omega⟩, h3]
      · rw [if_neg (fun hc => h3 hc.1), hg, if_neg (fun e => h3 e.symm),
          if_neg (fun e => h2 e.symm)]
        simp

theorem rt_no_new_clause_watch (s : solver) (hwf : store_wf s) (i : Nat) :
    ∀ w ∈ s.get_wlist i, ∀ b1, w ≠ watched.clause b1 s.m_cls_allocator.length := by
  intro w hm b1 e
  rw [e] at hm
  have h := (rt_wf_get_wlist s hwf i _ hm).1
  simp only [watched_below, decide_eq_true_eq] at h
  exact Nat.lt_irrefl _ h

/-- The round trip when the clause added has four literals or more. -/
theorem rt_pop_nary (s t : solver) (hwf : store_wf s) (h : scope_added s t)
    (c0 c1 blk : literal) (rest : List literal)
    (h0 : c0.var < s.num_vars) (h1 : c1.var < s.num_vars) (h01 : c0 ≠ c1)
    (hrest : 2 ≤ rest.length) (hlit : mk_literal s.num_vars false ∈ rest)
    (hc : t.m_clauses = s.m_clauses ++ [s.m_cls_allocator.length])
    (hcl : (t.get_clause s.m_cls_allocator.length).lits = c0 :: c1 :: rest)
    (hw : ∀ i, i < 2 * s.num_vars → t.get_wlist i = s.get_wlist i ++
      (if i = c0.neg.index then [watched.clause blk s.m_cls_allocator.length]
        else if i = c1.neg.index then [watched.clause blk s.m_cls_allocator.length]
        else [])) :
    restored s t.user_pop_scope := by
  apply rt_pop_clause s t hwf h hc (by rw [hcl]; simp [hlit])
  obtain ⟨_, fr, hwr⟩ := rt_reset s t h
  have hl := rt_scope_lit s.num_vars
  have hai := rt_index_lt c0 s.num_vars h0
  have hbi := rt_index_lt c1 s.num_vars h1
  have hne := rt_neg_index_ne c0 c1 h01
  generalize hu1 : t.pop_user_scope_literal (mk_literal s.num_vars false) = u1 at fr hwr
  have hlen1 : u1.m_watches.length = 2 * s.num_vars + 2 :=
    fr.watches_length.trans h.watches_length
  have hcl1 : u1.get_clause s.m_cls_allocator.length
      = t.get_clause s.m_cls_allocator.length := by
    unfold get_clause; rw [fr.m_cls_allocator]
  have hg : ∀ i, u1.get_wlist i = s.get_wlist i ++
      (if i = c0.neg.index then [watched.clause blk s.m_cls_allocator.length]
        else if i = c1.neg.index then [watched.clause blk s.m_cls_allocator.length]
        else []) := by
    intro i
    rw [hwr]
    split
    · rename_i hi; exact hw i hi
    · rename_i hi
      rw [rt_get_wlist_ge s hwf i (by omega), if_neg (by omega), if_neg (by omega)]
      rfl
  have hsz : ¬ (u1.get_clause s.m_cls_allocator.length).size = 3 := by
    rw [hcl1]; unfold clause.size; rw [hcl]
    simp only [List.length_cons]
    omega
  have g0 : (u1.get_clause s.m_cls_allocator.length).get 0 = c0 := by
    rw [hcl1]; unfold clause.get; rw [hcl]; rfl
  have g1 : (u1.get_clause s.m_cls_allocator.length).get 1 = c1 := by
    rw [hcl1]; unfold clause.get; rw [hcl]; rfl
  intro i
  unfold detach_clause
  rw [if_neg hsz]
  unfold detach_nary_clause
  simp only [g0, g1]
  have e1 : erase_clause_watch (u1.get_wlist c0.neg.index) s.m_cls_allocator.length
      = s.get_wlist c0.neg.index := by
    rw [hg, if_pos rfl]
    exact rt_erase_clause_watch_append _ _ _ (rt_no_new_clause_watch s hwf _)
  rw [e1]
  have e2 : erase_clause_watch ((u1.set_wlist_at c0.neg.index
      (s.get_wlist c0.neg.index)).get_wlist c1.neg.index) s.m_cls_allocator.length
      = s.get_wlist c1.neg.index := by
    rw [get_wlist_set_wlist_at, if_neg (fun hc => hne hc.1), hg,
      if_neg (fun e => hne e.symm), if_pos rfl]
    exact rt_erase_clause_watch_append _ _ _ (rt_no_new_clause_watch s hwf _)
  rw [e2, get_wlist_set_wlist_at, get_wlist_set_wlist_at]
  by_cases h2 : c1.neg.index = i
  · rw [if_pos ⟨h2, by simp only [set_wlist_at, List.length_set]; rw [hlen1]; omega⟩, h2]
  · rw [if_neg (fun hc => h2 hc.1)]
    by_cases h3 : c0.neg.index = i
    · rw [if_pos ⟨h3, by rw [hlen1]; omega⟩, h3]
    · rw [if_neg (fun hc => h3 hc.1), hg, if_neg (fun e => h3 e.symm),
        if_neg (fun e => h2 e.symm)]
      simp

/-! ### The clause that `mk_clause` builds inside the user scope -/

theorem rt_simplify (p : solver) (lits norm : List literal) (hbase : p.m_scope_lvl = 0)
    (hnn : ∀ l ∈ lits, l.var ≠ null_bool_var) (hs : p.simplify_clause lits = some norm) :
    norm.Pairwise (fun a b => a.m_val < b.m_val) ∧
    (∀ x, x ∈ norm ↔ x ∈ lits ∧ p.value x ≠ .l_false) ∧
    (∀ x ∈ norm, p.value x = lbool.l_undef) ∧
    (∀ a ∈ norm, ∀ b ∈ norm, a ≠ b.neg) := by
  have hb : p.at_base_lvl = true := by simp [at_base_lvl, hbase]
  have hund := simplify_clause_base_undef p lits norm hb hs
  have hsc : p.simplify_clause lits
      = simplify_clause_loop p true (sort_literals lits) null_literal [] := by
    simp [simplify_clause, simplify_clause_core, at_base_lvl, hbase]
  rw [hsc] at hs
  have hnn1 : ∀ y ∈ sort_literals lits, y ≠ null_literal ∧ y ≠ null_literal.neg :=
    fun y hy => ne_null_of_var y (hnn y ((mem_sort_literals _ _).1 hy))
  have nt : ∀ y ∈ sort_literals lits, p.value y ≠ .l_true := by
    intro y hy hv
    rw [simplify_clause_loop_true p _ _ _ ⟨y, hy, hv⟩] at hs
    simp at hs
  obtain ⟨r1, r2⟩ := simplify_clause_loop_some p _ null_literal [] norm
    (sort_literals_sorted lits) (Or.inl rfl) (fun y hy => (hnn1 y hy).1) nt List.Pairwise.nil
    (by simp) (fun _ => rfl) hs
  have hmem : ∀ x, x ∈ norm ↔ x ∈ lits ∧ p.value x ≠ .l_false := by
    intro x
    rw [r2 x]
    constructor
    · rintro (h | ⟨h3, h4, _⟩)
      · simp at h
      · exact ⟨(mem_sort_literals _ _).1 h3, h4⟩
    · rintro ⟨h3, h4⟩
      exact Or.inr ⟨(mem_sort_literals _ _).2 h3, h4,
        (hnn1 x ((mem_sort_literals _ _).2 h3)).1⟩
  refine ⟨r1, hmem, hund, ?_⟩
  intro a ha b hb1 e
  have hb2 := (mem_sort_literals _ _).2 ((hmem b).1 hb1).1
  have ha2 := (mem_sort_literals _ _).2 ((hmem a).1 ha).1
  have := simplify_clause_loop_taut p (sort_literals lits) null_literal []
    (sort_literals_sorted lits) (Or.inl rfl) (fun y hy => (hnn1 y hy).2)
    ⟨b, hb2, hund b hb1, Or.inr ⟨by rw [← e]; exact ha2, by rw [← e]; exact hund a ha⟩⟩
  rw [this] at hs
  simp at hs

theorem rt_shape (m : literal) :
    ∀ norm : List literal, norm.Pairwise (fun a b => a.m_val < b.m_val) → m ∈ norm →
      (∀ x ∈ norm, x = m ∨ x.m_val < m.m_val) →
      ∃ init, norm = init ++ [m] ∧ ∀ x ∈ init, x.m_val < m.m_val := by
  intro norm
  induction norm with
  | nil => intro _ h; simp at h
  | cons x xs ih =>
    intro hp hm hall
    have hp1 := List.pairwise_cons.1 hp
    by_cases hmx : m ∈ xs
    · obtain ⟨init, e, hi⟩ := ih hp1.2 hmx (fun y hy => hall y (List.mem_cons_of_mem _ hy))
      refine ⟨x :: init, by rw [e]; rfl, ?_⟩
      intro y hy
      rcases List.mem_cons.1 hy with e1 | e1
      · rw [e1]; exact hp1.1 m hmx
      · exact hi y e1
    · have hx : m = x := by
        rcases List.mem_cons.1 hm with e1 | e1
        · exact e1
        · exact absurd e1 hmx
      have hnil : xs = [] := by
        cases xs with
        | nil => rfl
        | cons y ys =>
          exfalso
          have h1 := hp1.1 y (List.mem_cons_self _ _)
          rcases hall y (List.mem_cons_of_mem _ (List.mem_cons_self _ _)) with e1 | e1
          · exact hmx (e1 ▸ List.mem_cons_self _ _)
          · rw [← hx] at h1; omega
      exact ⟨[], by rw [hnil, hx]; rfl, fun _ h => by simp at h⟩

theorem rt_verify_adjacent (lits : List literal)
    (h : ∀ a ∈ lits, ∀ b ∈ lits, a ≠ b.neg) : verify_adjacent lits = true := by
  induction lits with
  | nil => rfl
  | cons a rest ih =>
    cases rest with
    | nil => rfl
    | cons b rest =>
      unfold verify_adjacent
      rw [ih (fun x hx y hy => h x (List.mem_cons_of_mem _ hx) y (List.mem_cons_of_mem _ hy))]
      have := h a (List.mem_cons_self _ _) b (List.mem_cons_of_mem _ (List.mem_cons_self _ _))
      simp [this]

theorem rt_user_pop_one (t : solver) (h0 : t.m_scope_lvl = 0) :
    t.user_pop 1 = t.reset_assumptions.user_pop_scope := by
  unfold user_pop pop_to_base_level
  have : t.scope_lvl = 0 := h0
  rw [this, pop_zero]
  rfl

theorem rt_opened_get_wlist (s q : solver) (h : scope_opened s q) (i : Nat) :
    q.get_wlist i = s.get_wlist i := by
  unfold get_wlist
  rw [h.m_watches, List.getD_eq_getElem?_getD, List.getD_eq_getElem?_getD]
  by_cases hi : i < s.m_watches.length
  · rw [List.getElem?_append_left hi]
  · rw [List.getElem?_eq_none (by omega : s.m_watches.length ≤ i)]
    have hi1 : s.m_watches.length ≤ i := by omega
    rw [List.getElem?_append_right hi1]
    rcases Nat.lt_or_ge (i - s.m_watches.length) 2 with h2 | h2
    · have : i - s.m_watches.length = 0 ∨ i - s.m_watches.length = 1 := by omega
      rcases this with e | e <;> rw [e] <;> rfl
    · rw [List.getElem?_eq_none (by simpa using h2)]

theorem rt_opened_value_lit (s q : solver) (hwf : store_wf s) (h : scope_opened s q) :
    q.value (mk_literal s.num_vars false) = lbool.l_undef := by
  unfold value
  rw [h.m_assignment, (rt_scope_lit s.num_vars).2.1, List.getD_eq_getElem?_getD,
    List.getElem?_append_right (by rw [hwf.assignment_length]), hwf.assignment_length]
  simp

theorem rt_push_watch_get (u : solver) (i j : Nat) (w : watched)
    (hi : i < u.m_watches.length) :
    (u.push_watch i w).get_wlist j = u.get_wlist j ++ (if j = i then [w] else []) := by
  rw [get_wlist_push_watch]
  by_cases hj : j = i
  · subst hj
    rw [if_pos ⟨rfl, hi⟩, if_pos rfl]
  · rw [if_neg (fun hc => hj hc.1.symm), if_neg hj]
    simp

theorem rt_push_watch_length (u : solver) (i : Nat) (w : watched) :
    (u.push_watch i w).m_watches.length = u.m_watches.length := by
  simp [push_watch]

/-! ### From the clause added to the state `user_pop` starts from -/

theorem rt_opened_added (s q : solver) (hwf : store_wf s) (h : scope_opened s q) :
    scope_added s q := by
  refine ⟨h.m_user_scope_literals, ?_, h.m_mc, h.m_learned, ?_, ?_, Or.inl h.m_trail,
    h.m_scope_lvl⟩
  · rw [h.m_level]; simp [num_vars]
  · intro off _
    unfold get_clause; rw [h.m_cls_allocator]
  · rw [h.m_watches, List.length_append, hwf.watches_length]; rfl

theorem rt_added_reset (s t : solver) (h : scope_added s t) :
    scope_added s t.reset_assumptions :=
  ⟨h.m_user_scope_literals, h.level_length, h.m_mc, h.m_learned, h.arena, h.watches_length,
    h.m_trail, h.m_scope_lvl⟩

/-- The clause was dropped by `simplify_clause`. -/
theorem rt_add_none (s q : solver) (hwf : store_wf s) (h : scope_opened s q) :
    restored s (q.user_pop 1) := by
  rw [rt_user_pop_one q h.m_scope_lvl]
  exact rt_pop_plain s _ hwf (rt_added_reset s q (rt_opened_added s q hwf h)) h.m_clauses
    (fun i _ => rt_opened_get_wlist s q h i)

theorem rt_branching_mc (s : solver) (v : bool_var) :
    (s.assign_core_branching v).m_mc = s.m_mc := by
  unfold assign_core_branching
  split <;> rfl

theorem rt_anti_exploration_mc (s : solver) (v : bool_var) :
    (s.assign_core_anti_exploration v).m_mc = s.m_mc := by
  unfold assign_core_anti_exploration
  split
  · split
    · rfl
    · rfl
  · rfl

theorem rt_assign_core_mc (s : solver) (l : literal) (j : justification) :
    (s.assign_core l j).m_mc = s.m_mc := by
  unfold assign_core
  dsimp only
  rw [rt_anti_exploration_mc, rt_branching_mc]
  rfl

/-- The clause is the unit clause of the scope literal. -/
theorem rt_add_unit (s q : solver) (hwf : store_wf s) (h : scope_opened s q) :
    restored s ((q.assign (mk_literal s.num_vars false) .none).user_pop 1) := by
  have hv := rt_opened_value_lit s q hwf h
  have e : q.assign (mk_literal s.num_vars false) .none
      = q.assign_core (mk_literal s.num_vars false) .none := by
    unfold assign; rw [hv]
  rw [e]
  have hadd : scope_added s (q.assign_core (mk_literal s.num_vars false) .none) := by
    refine ⟨by simp [h.m_user_scope_literals], ?_, ?_, by simp [h.m_learned], ?_, ?_, ?_,
      by simp [h.m_scope_lvl]⟩
    · rw [assign_core_m_level, List.length_set, h.m_level]; simp [num_vars]
    · rw [rt_assign_core_mc, h.m_mc]
    · intro off _
      unfold get_clause
      rw [assign_core_m_cls_allocator, h.m_cls_allocator]
    · rw [assign_core_m_watches, h.m_watches, List.length_append, hwf.watches_length]; rfl
    · right; rw [assign_core_m_trail, h.m_trail]
  rw [rt_user_pop_one _ hadd.m_scope_lvl]
  refine rt_pop_plain s _ hwf (rt_added_reset s _ hadd) ?_ ?_
  · show (q.assign_core (mk_literal s.num_vars false) .none).m_clauses = s.m_clauses
    rw [assign_core_m_clauses, h.m_clauses]
  · intro i _
    show (q.assign_core (mk_literal s.num_vars false) .none).get_wlist i = s.get_wlist i
    rw [← rt_opened_get_wlist s q h i]
    unfold get_wlist
    rw [assign_core_m_watches]

/-- The clause is binary. -/
theorem rt_add_binary (s q : solver) (hwf : store_wf s) (h : scope_opened s q) (a : literal)
    (ha : a.var < s.num_vars) (hva : q.value a = lbool.l_undef) :
    restored s ((q.mk_bin_clause a (mk_literal s.num_vars false) false).user_pop 1) := by
  have hv := rt_opened_value_lit s q hwf h
  have hl := rt_scope_lit s.num_vars
  have hai := rt_index_lt a s.num_vars ha
  have hqlen : q.m_watches.length = 2 * s.num_vars + 2 := by
    rw [h.m_watches, List.length_append, hwf.watches_length]; rfl
  have e : q.mk_bin_clause a (mk_literal s.num_vars false) false
      = q.inc_mk_bin_clause.push_bin_watches a (mk_literal s.num_vars false) false := by
    unfold mk_bin_clause propagate_bin_clause
    rw [hv, hva]
    rfl
  rw [e]
  generalize ht : q.inc_mk_bin_clause.push_bin_watches a (mk_literal s.num_vars false) false = t
  have hw : ∀ i, i < 2 * s.num_vars → t.get_wlist i = s.get_wlist i ++
      (if i = a.neg.index then [watched.binary (mk_literal s.num_vars false) false] else []) := by
    intro i hi
    rw [← ht]
    unfold push_bin_watches
    have hL0 : q.inc_mk_bin_clause.m_watches.length = 2 * s.num_vars + 2 := hqlen
    have h1 : a.neg.index < q.inc_mk_bin_clause.m_watches.length := by rw [hL0]; omega
    have h2 : (mk_literal s.num_vars false).neg.index
        < (q.inc_mk_bin_clause.push_watch a.neg.index
            (watched.binary (mk_literal s.num_vars false) false)).m_watches.length := by
      rw [rt_push_watch_length, hL0, hl.2.2]; omega
    rw [rt_push_watch_get _ _ _ _ h2, rt_push_watch_get _ _ _ _ h1, hl.2.2,
      if_neg (show ¬ i = 2 * s.num_vars + 1 by omega)]
    have : q.inc_mk_bin_clause.get_wlist i = s.get_wlist i := rt_opened_get_wlist s q h i
    rw [this]
    simp
  have hfr : store_frame q t := by
    rw [← ht]
    unfold push_bin_watches
    have f0 : store_frame q q.inc_mk_bin_clause := ⟨rfl, rfl, rfl, rfl, rfl, rfl, rfl, rfl⟩
    exact store_frame_trans (store_frame_trans f0
      (store_frame_push_watch q.inc_mk_bin_clause _ _)) (store_frame_push_watch _ _ _)
  have hsl : t.m_scope_lvl = 0 := by rw [← ht]; exact h.m_scope_lvl
  have hadd : scope_added s t := by
    refine ⟨hfr.m_user_scope_literals.trans h.m_user_scope_literals, ?_,
      hfr.m_mc.trans h.m_mc, hfr.m_learned.trans h.m_learned, ?_,
      hfr.watches_length.trans hqlen, Or.inl (hfr.m_trail.trans h.m_trail), hsl⟩
    · rw [hfr.m_level, h.m_level]; simp [num_vars]
    · intro off _
      unfold get_clause
      rw [hfr.m_cls_allocator, h.m_cls_allocator]
  rw [rt_user_pop_one _ hsl]
  exact rt_pop_binary s _ hwf (rt_added_reset s _ hadd) (hfr.m_clauses.trans h.m_clauses) a ha hw

theorem rt_attach_ter_base (u : solver) (off : clause_offset) (hb : u.m_scope_lvl = 0) :
    u.attach_ter_clause off = (false, u.push_ter_watches (u.get_clause off)) := by
  unfold attach_ter_clause
  dsimp only
  have hbase : (u.push_ter_watches (u.get_clause off)).at_base_lvl = true := by
    simp [at_base_lvl, push_ter_watches, push_watch, hb]
  rw [hbase]
  rfl

theorem rt_attach_nary_base (u : solver) (off : clause_offset) (hb : u.m_scope_lvl = 0) :
    u.attach_nary_clause off = (false, u.push_nary_watches off) := by
  unfold attach_nary_clause
  dsimp only
  have hbase : u.at_base_lvl = true := by simp [at_base_lvl, hb]
  rw [hbase]
  rfl

/-- The clause is ternary. -/
theorem rt_add_ternary (s q : solver) (hwf : store_wf s) (h : scope_opened s q) (a b : literal)
    (ha : a.var < s.num_vars) (hb : b.var < s.num_vars) (hab : a ≠ b) :
    restored s
      ((q.mk_ter_clause [a, b, mk_literal s.num_vars false] false).2.user_pop 1) := by
  have hl := rt_scope_lit s.num_vars
  have hai := rt_index_lt a s.num_vars ha
  have hbi := rt_index_lt b s.num_vars hb
  have hne := rt_neg_index_ne a b hab
  have hqlen : q.m_watches.length = 2 * s.num_vars + 2 := by
    rw [h.m_watches, List.length_append, hwf.watches_length]; rfl
  generalize hr2 : (q.inc_mk_ter_clause.alloc_clause
    [a, b, mk_literal s.num_vars false] false).2 = r2
  have r2_watches : r2.m_watches = q.m_watches := by rw [← hr2]; rfl
  have r2_arena : r2.m_cls_allocator = q.m_cls_allocator ++
      [{ lits := [a, b, mk_literal s.num_vars false], m_learned := false }] := by
    rw [← hr2]; rfl
  have r2_new : r2.get_clause s.m_cls_allocator.length
      = { lits := [a, b, mk_literal s.num_vars false], m_learned := false } := by
    rw [← hr2, ← h.m_cls_allocator]
    exact get_clause_alloc_clause_new _ _ _
  have r2_lvl : r2.m_scope_lvl = 0 := by rw [← hr2]; exact h.m_scope_lvl
  have e : (q.mk_ter_clause [a, b, mk_literal s.num_vars false] false).2
      = ((((r2.push_watch a.neg.index (.ternary b (mk_literal s.num_vars false))).push_watch
          b.neg.index (.ternary a (mk_literal s.num_vars false))).push_watch
          (mk_literal s.num_vars false).neg.index (.ternary a b))).push_clause_vector
          s.m_cls_allocator.length false := by
    unfold mk_ter_clause
    dsimp only
    rw [hr2]
    have e0 : (q.inc_mk_ter_clause.alloc_clause [a, b, mk_literal s.num_vars false] false).1
        = s.m_cls_allocator.length := by
      rw [← h.m_cls_allocator]; rfl
    rw [e0, rt_attach_ter_base r2 _ r2_lvl, r2_new]
    rfl
  rw [e]
  generalize hw3 : ((r2.push_watch a.neg.index (.ternary b (mk_literal s.num_vars false))).push_watch
      b.neg.index (.ternary a (mk_literal s.num_vars false))).push_watch
      (mk_literal s.num_vars false).neg.index (.ternary a b) = w3
  have f3 : store_frame r2 w3 := by
    rw [← hw3]
    exact store_frame_trans (store_frame_trans (store_frame_push_watch _ _ _)
      (store_frame_push_watch _ _ _)) (store_frame_push_watch _ _ _)
  have hw : ∀ i, i < 2 * s.num_vars → w3.get_wlist i = s.get_wlist i ++
      (if i = a.neg.index then [watched.ternary b (mk_literal s.num_vars false)]
        else if i = b.neg.index then [watched.ternary a (mk_literal s.num_vars false)]
        else []) := by
    intro i hi
    rw [← hw3]
    have hL0 : r2.m_watches.length = 2 * s.num_vars + 2 := by rw [r2_watches, hqlen]
    have h1 : a.neg.index < r2.m_watches.length := by rw [hL0]; omega
    have h2 : b.neg.index < (r2.push_watch a.neg.index
        (watched.ternary b (mk_literal s.num_vars false))).m_watches.length := by
      rw [rt_push_watch_length, hL0]; omega
    have h3 : (mk_literal s.num_vars false).neg.index < ((r2.push_watch a.neg.index
        (watched.ternary b (mk_literal s.num_vars false))).push_watch b.neg.index
        (watched.ternary a (mk_literal s.num_vars false))).m_watches.length := by
      rw [rt_push_watch_length, rt_push_watch_length, hL0, hl.2.2]; omega
    rw [rt_push_watch_get _ _ _ _ h3, rt_push_watch_get _ _ _ _ h2,
      rt_push_watch_get _ _ _ _ h1, hl.2.2,
      if_neg (show ¬ i = 2 * s.num_vars + 1 by omega)]
    have : r2.get_wlist i = s.get_wlist i := by
      rw [← rt_opened_get_wlist s q h i]
      unfold get_wlist; rw [r2_watches]
    rw [this]
    by_cases c1 : i = a.neg.index
    · rw [if_pos c1, if_pos c1, if_neg (by rw [c1]; exact hne)]
      simp
    · rw [if_neg c1, if_neg c1]
      simp
  generalize ht : w3.push_clause_vector s.m_cls_allocator.length false = t
  have t_eq : t = { w3 with m_clauses := w3.m_clauses ++ [s.m_cls_allocator.length] } := by
    rw [← ht]; rfl
  have r2_fields : r2.m_user_scope_literals = q.m_user_scope_literals ∧ r2.m_level = q.m_level ∧
      r2.m_mc = q.m_mc ∧ r2.m_learned = q.m_learned ∧ r2.m_clauses = q.m_clauses ∧
      r2.m_trail = q.m_trail := by
    rw [← hr2]; exact ⟨rfl, rfl, rfl, rfl, rfl, rfl⟩
  have t_arena : t.m_cls_allocator = r2.m_cls_allocator := by
    rw [t_eq]; exact f3.m_cls_allocator
  have hadd : scope_added s t := by
    rw [t_eq]
    refine ⟨f3.m_user_scope_literals.trans (r2_fields.1.trans h.m_user_scope_literals), ?_,
      f3.m_mc.trans (r2_fields.2.2.1.trans h.m_mc),
      f3.m_learned.trans (r2_fields.2.2.2.1.trans h.m_learned), ?_,
      f3.watches_length.trans (by rw [r2_watches, hqlen]),
      Or.inl (f3.m_trail.trans (r2_fields.2.2.2.2.2.trans h.m_trail)), ?_⟩
    · show w3.m_level.length = _
      rw [f3.m_level, r2_fields.2.1, h.m_level]; simp [num_vars]
    · intro off ho
      show w3.m_cls_allocator.getD off default = _
      rw [f3.m_cls_allocator, r2_arena, h.m_cls_allocator,
        List.getD_eq_getElem?_getD, List.getElem?_append_left ho]
      unfold get_clause
      rw [List.getD_eq_getElem?_getD]
    · show w3.m_scope_lvl = 0
      rw [← hw3]; exact r2_lvl
  rw [rt_user_pop_one _ hadd.m_scope_lvl]
  refine rt_pop_ternary s _ hwf (rt_added_reset s _ hadd) a b ha hb hab ?_ ?_ ?_
  · show t.m_clauses = _
    rw [t_eq]
    show w3.m_clauses ++ _ = _
    rw [f3.m_clauses, r2_fields.2.2.2.2.1, h.m_clauses]
  · show (t.get_clause s.m_cls_allocator.length).lits = _
    have : t.get_clause s.m_cls_allocator.length = r2.get_clause s.m_cls_allocator.length := by
      unfold get_clause; rw [t_arena]
    rw [this, r2_new]
  · intro i hi
    show t.get_wlist i = _
    have : t.get_wlist i = w3.get_wlist i := by rw [t_eq]; rfl
    rw [this]
    exact hw i hi

/-- The clause has four literals or more. -/
theorem rt_add_nary (s q : solver) (hwf : store_wf s) (h : scope_opened s q)
    (c0 c1 : literal) (rest : List literal)
    (h0 : c0.var < s.num_vars) (h1 : c1.var < s.num_vars) (h01 : c0 ≠ c1)
    (hrest : 2 ≤ rest.length) (hlit : mk_literal s.num_vars false ∈ rest)
    (hv : verify_adjacent (c0 :: c1 :: rest) = true) :
    ∃ r, q.mk_nary_clause (c0 :: c1 :: rest) false = some r ∧ r.1 = s.m_cls_allocator.length ∧
      restored s (r.2.user_pop 1) := by
  have hl := rt_scope_lit s.num_vars
  have hai := rt_index_lt c0 s.num_vars h0
  have hbi := rt_index_lt c1 s.num_vars h1
  have hne := rt_neg_index_ne c0 c1 h01
  have hqlen : q.m_watches.length = 2 * s.num_vars + 2 := by
    rw [h.m_watches, List.length_append, hwf.watches_length]; rfl
  generalize hr2 : (q.inc_mk_clause.alloc_clause (c0 :: c1 :: rest) false).2 = r2
  have r2_watches : r2.m_watches = q.m_watches := by rw [← hr2]; rfl
  have r2_arena : r2.m_cls_allocator = q.m_cls_allocator ++
      [{ lits := c0 :: c1 :: rest, m_learned := false }] := by
    rw [← hr2]; rfl
  have r2_new : r2.get_clause s.m_cls_allocator.length
      = { lits := c0 :: c1 :: rest, m_learned := false } := by
    rw [← hr2, ← h.m_cls_allocator]
    exact get_clause_alloc_clause_new _ _ _
  have r2_lvl : r2.m_scope_lvl = 0 := by rw [← hr2]; exact h.m_scope_lvl
  generalize hblk : ({ lits := c0 :: c1 :: rest, m_learned := false } : clause).get
    (({ lits := c0 :: c1 :: rest, m_learned := false } : clause).size / 2) = blk
  have e : q.mk_nary_clause (c0 :: c1 :: rest) false
      = some (s.m_cls_allocator.length,
          ((r2.push_watch c0.neg.index (.clause blk s.m_cls_allocator.length)).push_watch
            c1.neg.index (.clause blk s.m_cls_allocator.length)).push_clause_vector
            s.m_cls_allocator.length false) := by
    unfold mk_nary_clause
    rw [if_pos hv]
    dsimp only
    rw [hr2]
    have e0 : (q.inc_mk_clause.alloc_clause (c0 :: c1 :: rest) false).1
        = s.m_cls_allocator.length := by
      rw [← h.m_cls_allocator]; rfl
    rw [e0, rt_attach_nary_base r2 _ r2_lvl]
    dsimp only
    have e1 : r2.push_nary_watches s.m_cls_allocator.length
        = (r2.push_watch c0.neg.index (.clause blk s.m_cls_allocator.length)).push_watch
            c1.neg.index (.clause blk s.m_cls_allocator.length) := by
      unfold push_nary_watches
      dsimp only
      rw [r2_new, hblk]
      rfl
    rw [e1]
    rfl
  refine ⟨_, e, rfl, ?_⟩
  dsimp only
  generalize hw3 : (r2.push_watch c0.neg.index (.clause blk s.m_cls_allocator.length)).push_watch
      c1.neg.index (.clause blk s.m_cls_allocator.length) = w3
  have f3 : store_frame r2 w3 := by
    rw [← hw3]
    exact store_frame_trans (store_frame_push_watch _ _ _) (store_frame_push_watch _ _ _)
  have hw : ∀ i, i < 2 * s.num_vars → w3.get_wlist i = s.get_wlist i ++
      (if i = c0.neg.index then [watched.clause blk s.m_cls_allocator.length]
        else if i = c1.neg.index then [watched.clause blk s.m_cls_allocator.length]
        else []) := by
    intro i hi
    rw [← hw3]
    have hL0 : r2.m_watches.length = 2 * s.num_vars + 2 := by rw [r2_watches, hqlen]
    have h1 : c0.neg.index < r2.m_watches.length := by rw [hL0]; omega
    have h2 : c1.neg.index < (r2.push_watch c0.neg.index
        (watched.clause blk s.m_cls_allocator.length)).m_watches.length := by
      rw [rt_push_watch_length, hL0]; omega
    rw [rt_push_watch_get _ _ _ _ h2, rt_push_watch_get _ _ _ _ h1]
    have : r2.get_wlist i = s.get_wlist i := by
      rw [← rt_opened_get_wlist s q h i]
      unfold get_wlist; rw [r2_watches]
    rw [this]
    by_cases c1 : i = c0.neg.index
    · rw [if_pos c1, if_pos c1, if_neg (by rw [c1]; exact hne)]
      simp
    · rw [if_neg c1, if_neg c1]
      simp
  generalize ht : w3.push_clause_vector s.m_cls_allocator.length false = t
  have t_eq : t = { w3 with m_clauses := w3.m_clauses ++ [s.m_cls_allocator.length] } := by
    rw [← ht]; rfl
  have r2_fields : r2.m_user_scope_literals = q.m_user_scope_literals ∧ r2.m_level = q.m_level ∧
      r2.m_mc = q.m_mc ∧ r2.m_learned = q.m_learned ∧ r2.m_clauses = q.m_clauses ∧
      r2.m_trail = q.m_trail := by
    rw [← hr2]; exact ⟨rfl, rfl, rfl, rfl, rfl, rfl⟩
  have t_arena : t.m_cls_allocator = r2.m_cls_allocator := by
    rw [t_eq]; exact f3.m_cls_allocator
  have hadd : scope_added s t := by
    rw [t_eq]
    refine ⟨f3.m_user_scope_literals.trans (r2_fields.1.trans h.m_user_scope_literals), ?_,
      f3.m_mc.trans (r2_fields.2.2.1.trans h.m_mc),
      f3.m_learned.trans (r2_fields.2.2.2.1.trans h.m_learned), ?_,
      f3.watches_length.trans (by rw [r2_watches, hqlen]),
      Or.inl (f3.m_trail.trans (r2_fields.2.2.2.2.2.trans h.m_trail)), ?_⟩
    · show w3.m_level.length = _
      rw [f3.m_level, r2_fields.2.1, h.m_level]; simp [num_vars]
    · intro off ho
      show w3.m_cls_allocator.getD off default = _
      rw [f3.m_cls_allocator, r2_arena, h.m_cls_allocator,
        List.getD_eq_getElem?_getD, List.getElem?_append_left ho]
      unfold get_clause
      rw [List.getD_eq_getElem?_getD]
    · show w3.m_scope_lvl = 0
      rw [← hw3]; exact r2_lvl
  rw [rt_user_pop_one _ hadd.m_scope_lvl]
  refine rt_pop_nary s _ hwf (rt_added_reset s _ hadd) c0 c1 blk rest h0 h1 h01 hrest hlit
    ?_ ?_ ?_
  · show t.m_clauses = _
    rw [t_eq]
    show w3.m_clauses ++ _ = _
    rw [f3.m_clauses, r2_fields.2.2.2.2.1, h.m_clauses]
  · show (t.get_clause s.m_cls_allocator.length).lits = _
    have : t.get_clause s.m_cls_allocator.length = r2.get_clause s.m_cls_allocator.length := by
      unfold get_clause; rw [t_arena]
    rw [this, r2_new]
  · intro i hi
    show t.get_wlist i = _
    have : t.get_wlist i = w3.get_wlist i := by rw [t_eq]; rfl
    rw [this]
    exact hw i hi

theorem rt_opened_user_push (s : solver) (hb : s.m_scope_lvl = 0) (aux : List literal) :
    scope_opened s { s.user_push with m_model_is_current := false, m_aux_literals := aux } ∧
    scope_opened s
      ({ s.user_push with m_model_is_current := false, m_aux_literals := aux } :
        solver).inc_non_learned_generation :=
  ⟨⟨rfl, rfl, rfl, rfl, rfl, rfl, rfl, rfl, hb, rfl⟩,
    ⟨rfl, rfl, rfl, rfl, rfl, rfl, rfl, rfl, hb, rfl⟩⟩

theorem rt_var_lt_of_val (x : literal) (n : Nat) (h : x.m_val < 2 * n) : x.var < n := by
  show x.m_val / 2 < n
  omega

/-- The round trip from the state `p` that `mk_clause` hands to
`mk_clause_core` inside the user scope. -/
theorem rt_mk_clause_core (s p : solver) (hwf : store_wf s) (hp : scope_opened s p)
    (hq : scope_opened s p.inc_non_learned_generation) (lits : List literal)
    (hlits : ∀ l ∈ lits, l = mk_literal s.num_vars false ∨ l.var < s.num_vars)
    (hmem : mk_literal s.num_vars false ∈ lits) :
    ∃ r, p.mk_clause_core lits false = some r ∧ restored s (r.2.user_pop 1) := by
  have hl := rt_scope_lit s.num_vars
  have hnull : null_bool_var = 2147483647 := rfl
  have hn := hwf.num_vars_lt
  unfold mk_clause_core
  simp only [Bool.not_false, ↓reduceIte]
  cases hs : p.simplify_clause lits with
  | none => exact ⟨_, rfl, rt_add_none s p hwf hp⟩
  | some norm =>
    dsimp only
    have hnn : ∀ l ∈ lits, l.var ≠ null_bool_var := by
      intro l hl1
      rcases hlits l hl1 with e | e
      · rw [e, hl.1]; exact Nat.ne_of_lt hn
      · exact Nat.ne_of_lt (Nat.lt_trans e hn)
    obtain ⟨n1, n2, n3, n4⟩ := rt_simplify p lits norm hp.m_scope_lvl hnn hs
    have hvl := rt_opened_value_lit s p hwf hp
    have hin : mk_literal s.num_vars false ∈ norm :=
      (n2 _).2 ⟨hmem, by rw [hvl]; simp⟩
    obtain ⟨init, hnorm, hinit⟩ := rt_shape (mk_literal s.num_vars false) norm n1 hin
      (by
        intro x hx
        rcases hlits x ((n2 x).1 hx).1 with e | e
        · exact Or.inl e
        · right
          have e1 : x.m_val / 2 < s.num_vars := e
          show x.m_val < (mk_literal s.num_vars false).index
          rw [hl.2.1]; omega)
    have hvar : ∀ x ∈ init, x.var < s.num_vars := by
      intro x hx
      have := hinit x hx
      have e : (mk_literal s.num_vars false).m_val = 2 * s.num_vars := hl.2.1
      rw [e] at this
      exact rt_var_lt_of_val x _ this
    have hval : ∀ x ∈ norm, p.inc_non_learned_generation.value x = lbool.l_undef :=
      fun x hx => n3 x hx
    subst hnorm
    match init, hinit, hvar with
    | [], _, _ => exact ⟨_, rfl, rt_add_unit s _ hwf hq⟩
    | [a], _, hvar =>
      exact ⟨_, rfl, rt_add_binary s _ hwf hq a (hvar a (by simp)) (hval a (by simp))⟩
    | [a, b], _, hvar =>
      have hab : a ≠ b := by
        intro e
        have := List.pairwise_cons.1 n1
        have h1 := this.1 b (by simp)
        rw [e] at h1
        exact Nat.lt_irrefl _ h1
      exact ⟨_, rfl, rt_add_ternary s _ hwf hq a b (hvar a (by simp)) (hvar b (by simp)) hab⟩
    | a :: b :: c :: rest, _, hvar =>
      have hab : a ≠ b := by
        intro e
        have := List.pairwise_cons.1 n1
        have h1 := this.1 b (by simp)
        rw [e] at h1
        exact Nat.lt_irrefl _ h1
      have hv := rt_verify_adjacent _ n4
      obtain ⟨r, hr, _, hres⟩ := rt_add_nary s _ hwf hq a b
        (c :: rest ++ [mk_literal s.num_vars false]) (hvar a (by simp)) (hvar b (by simp)) hab
        (by simp) (by simp) hv
      refine ⟨(some r.1, r.2), ?_, hres⟩
      have hr1 : p.inc_non_learned_generation.mk_nary_clause
          (a :: b :: c :: (rest ++ [mk_literal s.num_vars false])) false = some r := hr
      have hlen : (a :: b :: c :: (rest ++ [mk_literal s.num_vars false])).length
          = rest.length + 4 := by simp
      show p.inc_non_learned_generation.mk_clause_dispatch
        (a :: b :: c :: (rest ++ [mk_literal s.num_vars false])) false = _
      unfold mk_clause_dispatch
      rw [hlen, hr1]
      rfl

/-- C23: from a state at scope level 0 whose clause store is well formed
(`store_wf`), for a clause `C` over variables of the solver, the calls
`user_push(); mk_clause(C); user_pop(1)` return, and the state they leave
has the number of variables, the trail, the watch lists, the clause vector,
the learned vector and the stack of user scope literals of the state before.
`mk_clause` is called with its default `learned = false`. -/
theorem C23_incremental_round_trip (s : solver) (C : List literal) (hb : s.m_scope_lvl = 0)
    (hwf : store_wf s) (hC : ∀ l ∈ C, l.var < s.num_vars) :
    ∃ r, s.user_push.mk_clause C false = some r ∧
      (r.2.user_pop 1).num_vars = s.num_vars ∧
      (r.2.user_pop 1).m_trail = s.m_trail ∧
      (r.2.user_pop 1).m_watches = s.m_watches ∧
      (r.2.user_pop 1).m_clauses = s.m_clauses ∧
      (r.2.user_pop 1).m_learned = s.m_learned ∧
      (r.2.user_pop 1).m_user_scope_literals = s.m_user_scope_literals := by
  have husl : s.user_push.m_user_scope_literals
      = s.m_user_scope_literals ++ [mk_literal s.num_vars false] := rfl
  have hne : s.user_push.m_user_scope_literals.isEmpty = false := by
    rw [husl]; simp
  have ho := rt_opened_user_push s hb (C ++ s.user_push.m_user_scope_literals)
  obtain ⟨r, hr, hres⟩ := rt_mk_clause_core s _ hwf ho.1 ho.2
    (C ++ s.user_push.m_user_scope_literals)
    (by
      intro l hl
      rw [husl] at hl
      rcases List.mem_append.1 hl with h1 | h1
      · exact Or.inr (hC l h1)
      · rcases List.mem_append.1 h1 with h2 | h2
        · exact Or.inr (hwf.scope_lits l h2)
        · exact Or.inl (List.mem_singleton.1 h2))
    (by rw [husl]; simp)
  refine ⟨r, ?_, hres⟩
  unfold mk_clause
  simp only [hne, Bool.false_eq_true, if_false]
  exact hr

/-- C23 at a concrete state: in `example_store` the clause `x0 ∨ x1` is added
inside a user scope; `x0` is false at level 0, so the clause stored is the
binary clause of `x1` and the scope literal `x4`, which leaves a watch in the
list of `¬x1`; `user_pop(1)` restores the state. -/
theorem C23_incremental_round_trip_witness :
    example_store.m_scope_lvl = 0 ∧ store_wf example_store ∧
    (∀ l ∈ ([⟨0⟩, ⟨2⟩] : List literal), l.var < example_store.num_vars) ∧
    (example_store.user_push.mk_clause [⟨0⟩, ⟨2⟩] false).map (fun r => r.2.get_wlist 3)
      = some [.ternary ⟨4⟩ ⟨6⟩, .binary ⟨8⟩ false] ∧
    ∃ r, example_store.user_push.mk_clause [⟨0⟩, ⟨2⟩] false = some r ∧
      (r.2.user_pop 1).num_vars = example_store.num_vars ∧
      (r.2.user_pop 1).m_trail = example_store.m_trail ∧
      (r.2.user_pop 1).m_watches = example_store.m_watches ∧
      (r.2.user_pop 1).m_clauses = example_store.m_clauses ∧
      (r.2.user_pop 1).m_learned = example_store.m_learned ∧
      (r.2.user_pop 1).m_user_scope_literals = example_store.m_user_scope_literals :=
  have hwf : store_wf example_store :=
    ⟨by decide, by decide, by decide, by decide, by decide, by decide, by decide, by decide⟩
  ⟨rfl, hwf, by decide, by decide,
    C23_incremental_round_trip example_store [⟨0⟩, ⟨2⟩] rfl hwf (by decide)⟩

theorem swl_inv_step (s : solver) (cls : clause) (start k : Nat) (st : watch_candidates)
    (hk : start + k < UINT_MAX) (h : swl_inv s cls start k st) :
    swl_inv s cls start (k + 1) (select_watch_lit_step s cls st (start + k)) := by
  have hne : start + k ≠ UINT_MAX := Nat.ne_of_lt hk
  have hlast : ∀ i, i < start + (k + 1) → i < start + k ∨ i = start + k := fun i hi => by omega
  unfold select_watch_lit_step
  cases hv : s.value (cls.get (start + k)) with
  | l_false =>
    simp only []
    by_cases hc : st.max_false_idx = UINT_MAX ∨
        s.lvl (cls.get (start + k)) > s.lvl (cls.get st.max_false_idx)
    · rw [if_pos hc]
      refine ⟨?_, ?_, ?_, ?_, ?_, ?_⟩ <;> (try dsimp only)
      · intro h0 i h1 h2
        rcases hlast i h2 with h3 | h3
        · exact h.true_none h0 i h1 h3
        · rw [h3, hv]; decide
      · intro h0
        obtain ⟨a, b, c, d⟩ := h.true_some h0
        refine ⟨a, by omega, c, ?_⟩
        intro i h1 h2 h4
        rcases hlast i h2 with h3 | h3
        · exact d i h1 h3 h4
        · rw [h3, hv] at h4; cases h4
      · intro h0; exact absurd h0 hne
      · intro _
        refine ⟨by omega, by omega, hv, ?_⟩
        intro i h1 h2 h4
        rcases hlast i h2 with h3 | h3
        · show s.lvl (cls.get i) ≤ s.lvl (cls.get (start + k))
          rcases hc with hc | hc
          · exact absurd h4 (h.false_none hc i h1 h3)
          · by_cases h5 : st.max_false_idx = UINT_MAX
            · exact absurd h4 (h.false_none h5 i h1 h3)
            · have := (h.false_some h5).2.2.2 i h1 h3 h4
              omega
        · rw [h3]
      · intro h0 i h1 h2
        rcases hlast i h2 with h3 | h3
        · exact h.unknown_none h0 i h1 h3
        · rw [h3, hv]; decide
      · intro h0
        obtain ⟨a, b, c⟩ := h.unknown_some h0
        exact ⟨a, by omega, c⟩
    · rw [if_neg hc]
      have hc1 : st.max_false_idx ≠ UINT_MAX := fun h0 => hc (Or.inl h0)
      have hc2 : s.lvl (cls.get (start + k)) ≤ s.lvl (cls.get st.max_false_idx) :=
        Nat.le_of_not_lt (fun h0 => hc (Or.inr h0))
      refine ⟨?_, ?_, ?_, ?_, ?_, ?_⟩ <;> (try dsimp only)
      · intro h0 i h1 h2
        rcases hlast i h2 with h3 | h3
        · exact h.true_none h0 i h1 h3
        · rw [h3, hv]; decide
      · intro h0
        obtain ⟨a, b, c, d⟩ := h.true_some h0
        refine ⟨a, by omega, c, ?_⟩
        intro i h1 h2 h4
        rcases hlast i h2 with h3 | h3
        · exact d i h1 h3 h4
        · rw [h3, hv] at h4; cases h4
      · intro h0; exact absurd h0 hc1
      · intro _
        obtain ⟨a, b, c, d⟩ := h.false_some hc1
        refine ⟨a, by omega, c, ?_⟩
        intro i h1 h2 h4
        rcases hlast i h2 with h3 | h3
        · exact d i h1 h3 h4
        · rw [h3]; exact hc2
      · intro h0 i h1 h2
        rcases hlast i h2 with h3 | h3
        · exact h.unknown_none h0 i h1 h3
        · rw [h3, hv]; decide
      · intro h0
        obtain ⟨a, b, c⟩ := h.unknown_some h0
        exact ⟨a, by omega, c⟩
  | l_undef =>
    simp only []
    refine ⟨?_, ?_, ?_, ?_, ?_, ?_⟩ <;> (try dsimp only)
    · intro h0 i h1 h2
      rcases hlast i h2 with h3 | h3
      · exact h.true_none h0 i h1 h3
      · rw [h3, hv]; decide
    · intro h0
      obtain ⟨a, b, c, d⟩ := h.true_some h0
      refine ⟨a, by omega, c, ?_⟩
      intro i h1 h2 h4
      rcases hlast i h2 with h3 | h3
      · exact d i h1 h3 h4
      · rw [h3, hv] at h4; cases h4
    · intro h0 i h1 h2
      rcases hlast i h2 with h3 | h3
      · exact h.false_none h0 i h1 h3
      · rw [h3, hv]; decide
    · intro h0
      obtain ⟨a, b, c, d⟩ := h.false_some h0
      refine ⟨a, by omega, c, ?_⟩
      intro i h1 h2 h4
      rcases hlast i h2 with h3 | h3
      · exact d i h1 h3 h4
      · rw [h3, hv] at h4; cases h4
    · intro h0; exact absurd h0 hne
    · intro _
      exact ⟨by omega, by omega, hv⟩
  | l_true =>
    simp only []
    by_cases hc : st.min_true_idx = UINT_MAX ∨
        s.lvl (cls.get (start + k)) < s.lvl (cls.get st.min_true_idx)
    · rw [if_pos hc]
      refine ⟨?_, ?_, ?_, ?_, ?_, ?_⟩ <;> (try dsimp only)
      · intro h0; exact absurd h0 hne
      · intro _
        refine ⟨by omega, by omega, hv, ?_⟩
        intro i h1 h2 h4
        rcases hlast i h2 with h3 | h3
        · show s.lvl (cls.get (start + k)) ≤ s.lvl (cls.get i)
          rcases hc with hc | hc
          · exact absurd h4 (h.true_none hc i h1 h3)
          · by_cases h5 : st.min_true_idx = UINT_MAX
            · exact absurd h4 (h.true_none h5 i h1 h3)
            · have := (h.true_some h5).2.2.2 i h1 h3 h4
              omega
        · rw [h3]
      · intro h0 i h1 h2
        rcases hlast i h2 with h3 | h3
        · exact h.false_none h0 i h1 h3
        · rw [h3, hv]; decide
      · intro h0
        obtain ⟨a, b, c, d⟩ := h.false_some h0
        refine ⟨a, by omega, c, ?_⟩
        intro i h1 h2 h4
        rcases hlast i h2 with h3 | h3
        · exact d i h1 h3 h4
        · rw [h3, hv] at h4; cases h4
      · intro h0 i h1 h2
        rcases hlast i h2 with h3 | h3
        · exact h.unknown_none h0 i h1 h3
        · rw [h3, hv]; decide
      · intro h0
        obtain ⟨a, b, c⟩ := h.unknown_some h0
        exact ⟨a, by omega, c⟩
    · rw [if_neg hc]
      have hc1 : st.min_true_idx ≠ UINT_MAX := fun h0 => hc (Or.inl h0)
      have hc2 : s.lvl (cls.get st.min_true_idx) ≤ s.lvl (cls.get (start + k)) :=
        Nat.le_of_not_lt (fun h0 => hc (Or.inr h0))
      refine ⟨?_, ?_, ?_, ?_, ?_, ?_⟩ <;> (try dsimp only)
      · intro h0; exact absurd h0 hc1
      · intro _
        obtain ⟨a, b, c, d⟩ := h.true_some hc1
        refine ⟨a, by omega, c, ?_⟩
        intro i h1 h2 h4
        rcases hlast i h2 with h3 | h3
        · exact d i h1 h3 h4
        · rw [h3]; exact hc2
      · intro h0 i h1 h2
        rcases hlast i h2 with h3 | h3
        · exact h.false_none h0 i h1 h3
        · rw [h3, hv]; decide
      · intro h0
        obtain ⟨a, b, c, d⟩ := h.false_some h0
        refine ⟨a, by omega, c, ?_⟩
        intro i h1 h2 h4
        rcases hlast i h2 with h3 | h3
        · exact d i h1 h3 h4
        · rw [h3, hv] at h4; cases h4
      · intro h0 i h1 h2
        rcases hlast i h2 with h3 | h3
        · exact h.unknown_none h0 i h1 h3
        · rw [h3, hv]; decide
      · intro h0
        obtain ⟨a, b, c⟩ := h.unknown_some h0
        exact ⟨a, by omega, c⟩

theorem swl_inv_fold (s : solver) (cls : clause) (start : Nat) :
    ∀ k, start + k ≤ UINT_MAX →
      swl_inv s cls start k
        ((List.range' start k).foldl (select_watch_lit_step s cls) {}) := by
  intro k
  induction k with
  | zero =>
    intro _
    refine ⟨?_, ?_, ?_, ?_, ?_, ?_⟩
    · intro _ i h1 h2; omega
    · intro h0; exact absurd rfl h0
    · intro _ i h1 h2; omega
    · intro h0; exact absurd rfl h0
    · intro _ i h1 h2; omega
    · intro h0; exact absurd rfl h0
  | succ k ih =>
    intro hk
    rw [List.range'_concat, List.foldl_append]
    simp only [Nat.one_mul, List.foldl_cons, List.foldl_nil]
    exact swl_inv_step s cls start k _ (by omega) (ih (by omega))

/-- C36: `select_watch_lit(cls, start)` follows its documented rules.  For a
start index inside the clause, the returned index lies in `[start, size)`;
when some literal from `start` on is true, the result is a true literal
whose level is minimal among the true ones; otherwise, when some literal is
unassigned, the result is an unassigned literal; otherwise (all are false) the
result is a (false) literal of maximal level. -/
theorem C36_select_watch_lit (s : solver) (cls : clause) (start : Nat)
    (hs : start < cls.size) (hn : cls.size ≤ UINT_MAX) :
    start ≤ s.select_watch_lit cls start ∧ s.select_watch_lit cls start < cls.size ∧
    ((∃ i, start ≤ i ∧ i < cls.size ∧ s.value (cls.get i) = .l_true) →
      s.value (cls.get (s.select_watch_lit cls start)) = .l_true ∧
      ∀ i, start ≤ i → i < cls.size → s.value (cls.get i) = .l_true →
        s.lvl (cls.get (s.select_watch_lit cls start)) ≤ s.lvl (cls.get i)) ∧
    ((¬ ∃ i, start ≤ i ∧ i < cls.size ∧ s.value (cls.get i) = .l_true) →
      (∃ i, start ≤ i ∧ i < cls.size ∧ s.value (cls.get i) = lbool.l_undef) →
      s.value (cls.get (s.select_watch_lit cls start)) = lbool.l_undef) ∧
    ((∀ i, start ≤ i → i < cls.size → s.value (cls.get i) = .l_false) →
      s.value (cls.get (s.select_watch_lit cls start)) = .l_false ∧
      ∀ i, start ≤ i → i < cls.size →
        s.lvl (cls.get i) ≤ s.lvl (cls.get (s.select_watch_lit cls start))) := by
  have hinv := swl_inv_fold s cls start (cls.size - start) (by omega)
  have hb : ∀ i, i < cls.size → i < start + (cls.size - start) := fun i hi => by omega
  have hb1 : ∀ i, i < start + (cls.size - start) → i < cls.size := fun i hi => by omega
  unfold select_watch_lit
  generalize (List.range' start (cls.size - start)).foldl (select_watch_lit_step s cls) {} = st
    at hinv
  simp only []
  by_cases ht : st.min_true_idx ≠ UINT_MAX
  · rw [if_pos ht]
    obtain ⟨a, b, c, d⟩ := hinv.true_some ht
    refine ⟨a, hb1 _ b, fun _ => ⟨c, fun i h1 h2 h3 => d i h1 (hb i h2) h3⟩, ?_, ?_⟩
    · intro h0; exact absurd ⟨_, a, hb1 _ b, c⟩ h0
    · intro h0; rw [h0 _ a (hb1 _ b)] at c; cases c
  · rw [if_neg ht]
    have ht1 : st.min_true_idx = UINT_MAX := not_not.1 ht
    by_cases hu : st.unknown_idx ≠ UINT_MAX
    · rw [if_pos hu]
      obtain ⟨a, b, c⟩ := hinv.unknown_some hu
      refine ⟨a, hb1 _ b, ?_, fun _ _ => c, ?_⟩
      · rintro ⟨i, h1, h2, h3⟩; exact absurd h3 (hinv.true_none ht1 i h1 (hb i h2))
      · intro h0; rw [h0 _ a (hb1 _ b)] at c; cases c
    · rw [if_neg hu]
      have hu1 : st.unknown_idx = UINT_MAX := not_not.1 hu
      have hf : st.max_false_idx ≠ UINT_MAX := by
        intro h0
        have h1 := hinv.true_none ht1 start (Nat.le_refl _) (hb _ hs)
        have h2 := hinv.unknown_none hu1 start (Nat.le_refl _) (hb _ hs)
        have h3 := hinv.false_none h0 start (Nat.le_refl _) (hb _ hs)
        cases h4 : s.value (cls.get start)
        · exact h3 h4
        · exact h2 h4
        · exact h1 h4
      obtain ⟨a, b, c, d⟩ := hinv.false_some hf
      refine ⟨a, hb1 _ b, ?_, ?_, ?_⟩
      · rintro ⟨i, h1, h2, h3⟩; exact absurd h3 (hinv.true_none ht1 i h1 (hb i h2))
      · rintro _ ⟨i, h1, h2, h3⟩; exact absurd h3 (hinv.unknown_none hu1 i h1 (hb i h2))
      · intro h0; exact ⟨c, fun i h1 h2 => d i h1 (hb i h2) (h0 i h1 h2)⟩

/-- C36 at a concrete clause: for `¬a ∨ ¬c ∨ d` in `example_conflict` (`a`
and `c` true, `d` true at level 2) the search from index 0 returns index 2,
the only true literal. -/
theorem C36_select_watch_lit_witness :
    0 < ({ lits := [⟨1⟩, ⟨5⟩, ⟨6⟩] } : clause).size ∧
    example_conflict.select_watch_lit { lits := [⟨1⟩, ⟨5⟩, ⟨6⟩] } 0 = 2 ∧
    (0 ≤ example_conflict.select_watch_lit { lits := [⟨1⟩, ⟨5⟩, ⟨6⟩] } 0 ∧
    example_conflict.select_watch_lit { lits := [⟨1⟩, ⟨5⟩, ⟨6⟩] } 0 <
      ({ lits := [⟨1⟩, ⟨5⟩, ⟨6⟩] } : clause).size) :=
  ⟨by decide, by decide,
    (C36_select_watch_lit example_conflict { lits := [⟨1⟩, ⟨5⟩, ⟨6⟩] } 0 (by decide)
      (by decide)).1,
    (C36_select_watch_lit example_conflict { lits := [⟨1⟩, ⟨5⟩, ⟨6⟩] } 0 (by decide)
      (by decide)).2.1⟩

/-! ## Dynamic subsumption resolution -/

theorem literal_index_inj (a b : literal) : a.index = b.index ↔ a = b := by
  cases a; cases b
  simp [literal.index]

theorem dsr_unmark_lit (s : solver) (l x : literal) :
    (s.unmark_lit l).is_marked_lit x =
      if l = x ∧ l.index < s.m_lit_mark.length then false else s.is_marked_lit x := by
  unfold unmark_lit is_marked_lit
  simp only [getD_set, literal_index_inj]

theorem dsr_mark_lit (s : solver) (l x : literal) :
    (s.mark_lit l).is_marked_lit x =
      if l = x ∧ l.index < s.m_lit_mark.length then true else s.is_marked_lit x := by
  unfold mark_lit is_marked_lit
  simp only [getD_set, literal_index_inj]

theorem dsr_unmark_lit_le (s : solver) (l x : literal)
    (h : (s.unmark_lit l).is_marked_lit x = true) : s.is_marked_lit x = true := by
  rw [dsr_unmark_lit] at h
  split_ifs at h
  exact h

theorem dsr_unmark_lit_ne (s : solver) (l x : literal) (h : l ≠ x) :
    (s.unmark_lit l).is_marked_lit x = s.is_marked_lit x := by
  rw [dsr_unmark_lit, if_neg (fun h1 => h h1.1)]

theorem dsr_unmark_lit_self (s : solver) (l : literal) :
    (s.unmark_lit l).is_marked_lit l = false := by
  rw [dsr_unmark_lit]
  split_ifs with h1
  · rfl
  · unfold is_marked_lit
    have h2 : ¬ l.index < s.m_lit_mark.length := fun h3 => h1 ⟨rfl, h3⟩
    simp [List.getD_eq_getElem?_getD, List.getElem?_eq_none (Nat.le_of_not_lt h2)]

/-- The marks after the first loop of `dyn_sub_res`. -/
theorem dsr_mark_all (ls : List literal) :
    ∀ (s : solver), (ls.foldl mark_lit s).m_lit_mark.length = s.m_lit_mark.length ∧
      (∀ x, (ls.foldl mark_lit s).is_marked_lit x = true → s.is_marked_lit x = true ∨ x ∈ ls) ∧
      (∀ x, s.is_marked_lit x = true → (ls.foldl mark_lit s).is_marked_lit x = true) ∧
      (∀ x, x ∈ ls → x.index < s.m_lit_mark.length →
        (ls.foldl mark_lit s).is_marked_lit x = true) := by
  induction ls with
  | nil =>
    intro s
    exact ⟨rfl, fun x h => Or.inl h, fun x h => h, fun x h => absurd h (List.not_mem_nil _)⟩
  | cons l ls ih =>
    intro s
    obtain ⟨h1, h2, h3, h4⟩ := ih (s.mark_lit l)
    have hlen : (s.mark_lit l).m_lit_mark.length = s.m_lit_mark.length := by
      simp [mark_lit]
    rw [List.foldl_cons]
    refine ⟨h1.trans hlen, ?_, ?_, ?_⟩
    · intro x hx
      rcases h2 x hx with h5 | h5
      · rw [dsr_mark_lit] at h5
        split_ifs at h5 with h6
        · exact Or.inr (by rw [h6.1]; exact List.mem_cons_self _ _)
        · exact Or.inl h5
      · exact Or.inr (List.mem_cons_of_mem _ h5)
    · intro x hx
      apply h3
      rw [dsr_mark_lit]
      split_ifs
      · rfl
      · exact hx
    · intro x hx hb
      rcases List.mem_cons.1 hx with h5 | h5
      · apply h3
        rw [dsr_mark_lit, h5, if_pos ⟨rfl, by rw [← h5]; exact hb⟩]
      · exact h4 x h5 (by rw [hlen]; exact hb)

theorem dsr_bin (l0 : literal) (s : solver) (l2 : literal) :
    (∀ x, (dyn_sub_res_bin l0 s l2).is_marked_lit x = true → s.is_marked_lit x = true) ∧
    (dyn_sub_res_bin l0 s l2).is_marked_lit l0 = s.is_marked_lit l0 := by
  unfold dyn_sub_res_bin
  split_ifs with h
  · simp only [Bool.and_eq_true, bne_iff_ne, ne_eq] at h
    exact ⟨fun x hx => dsr_unmark_lit_le _ _ _ hx,
      dsr_unmark_lit_ne _ _ _ (fun h1 => h.2 h1.symm)⟩
  · exact ⟨fun x hx => hx, rfl⟩

theorem dsr_bin_fold (l0 : literal) (lits : List literal) :
    ∀ (s : solver),
      (∀ x, (lits.foldl (dyn_sub_res_bin l0) s).is_marked_lit x = true →
        s.is_marked_lit x = true) ∧
      (lits.foldl (dyn_sub_res_bin l0) s).is_marked_lit l0 = s.is_marked_lit l0 := by
  induction lits with
  | nil => intro s; exact ⟨fun x hx => hx, rfl⟩
  | cons l lits ih =>
    intro s
    rw [List.foldl_cons]
    obtain ⟨h1, h2⟩ := ih (dyn_sub_res_bin l0 s l)
    obtain ⟨h3, h4⟩ := dsr_bin l0 s l
    exact ⟨fun x hx => h3 x (h1 x hx), h2.trans h4⟩

theorem dsr_watch (l0 : literal) (ws : List watched) :
    ∀ (s : solver),
      (∀ x, (dyn_sub_res_watch l0 s ws).is_marked_lit x = true → s.is_marked_lit x = true) ∧
      (dyn_sub_res_watch l0 s ws).is_marked_lit l0 = s.is_marked_lit l0 := by
  induction ws with
  | nil => intro s; exact ⟨fun x hx => hx, rfl⟩
  | cons w ws ih =>
    intro s
    cases w with
    | binary l2 learned =>
      show (∀ x, (dyn_sub_res_watch l0 (dyn_sub_res_bin l0 s l2) ws).is_marked_lit x = true →
          s.is_marked_lit x = true) ∧
        (dyn_sub_res_watch l0 (dyn_sub_res_bin l0 s l2) ws).is_marked_lit l0 =
          s.is_marked_lit l0
      obtain ⟨h1, h2⟩ := ih (dyn_sub_res_bin l0 s l2)
      obtain ⟨h3, h4⟩ := dsr_bin l0 s l2
      exact ⟨fun x hx => h3 x (h1 x hx), h2.trans h4⟩
    | ternary l2 l3 =>
      unfold dyn_sub_res_watch
      split_ifs with h5 h6
      · simp only [Bool.and_eq_true, bne_iff_ne, ne_eq] at h5
        obtain ⟨h1, h2⟩ := ih (s.unmark_lit l3.neg)
        exact ⟨fun x hx => dsr_unmark_lit_le _ _ _ (h1 x hx),
          h2.trans (dsr_unmark_lit_ne _ _ _ (fun h => h5.2 h.symm))⟩
      · simp only [Bool.and_eq_true, bne_iff_ne, ne_eq] at h6
        obtain ⟨h1, h2⟩ := ih (s.unmark_lit l2.neg)
        exact ⟨fun x hx => dsr_unmark_lit_le _ _ _ (h1 x hx),
          h2.trans (dsr_unmark_lit_ne _ _ _ (fun h => h6.2 h.symm))⟩
      · exact ih s
    | clause b off => exact ⟨fun x hx => hx, rfl⟩
    | ext_constraint idx => exact ⟨fun x hx => hx, rfl⟩

theorem dsr_lit (E : collaborators) (l0 : literal) (s : solver) (l : literal) :
    (∀ x, (dyn_sub_res_lit E l0 s l).is_marked_lit x = true → s.is_marked_lit x = true) ∧
    (dyn_sub_res_lit E l0 s l).is_marked_lit l0 = s.is_marked_lit l0 := by
  unfold dyn_sub_res_lit
  split_ifs with h
  · exact ⟨fun x hx => hx, rfl⟩
  · obtain ⟨h3, h4⟩ := dsr_watch l0 (s.get_wlist l.neg.index) s
    split
    · rename_i lits _
      obtain ⟨h1, h2⟩ := dsr_bin_fold l0 lits (dyn_sub_res_watch l0 s (s.get_wlist l.neg.index))
      exact ⟨fun x hx => h3 x (h1 x hx), h2.trans h4⟩
    · exact ⟨h3, h4⟩

theorem dsr_lit_fold (E : collaborators) (l0 : literal) (ls : List literal) :
    ∀ (s : solver),
      (∀ x, (ls.foldl (dyn_sub_res_lit E l0) s).is_marked_lit x = true →
        s.is_marked_lit x = true) ∧
      (ls.foldl (dyn_sub_res_lit E l0) s).is_marked_lit l0 = s.is_marked_lit l0 := by
  induction ls with
  | nil => intro s; exact ⟨fun x hx => hx, rfl⟩
  | cons l ls ih =>
    intro s
    rw [List.foldl_cons]
    obtain ⟨h1, h2⟩ := ih (dyn_sub_res_lit E l0 s l)
    obtain ⟨h3, h4⟩ := dsr_lit E l0 s l
    exact ⟨fun x hx => h3 x (h1 x hx), h2.trans h4⟩

/-- The last loop of `dyn_sub_res`: the literals kept form a subsequence of
the literals visited, the first one is kept when it is marked, and no visited
literal is marked at the end. -/
theorem dsr_collect (ls : List literal) :
    ∀ (s : solver) (kept : List literal),
      ∃ r, (dyn_sub_res_collect ls s kept).2 = kept ++ r ∧ r.Sublist ls ∧
        (∀ x, (dyn_sub_res_collect ls s kept).1.is_marked_lit x = true →
          s.is_marked_lit x = true ∧ x ∉ ls) ∧
        (∀ l rest, ls = l :: rest → s.is_marked_lit l = true → ∃ r1, r = l :: r1) := by
  induction ls with
  | nil =>
    intro s kept
    exact ⟨[], by simp [dyn_sub_res_collect], List.Sublist.refl _,
      fun x hx => ⟨hx, List.not_mem_nil _⟩, fun l rest h => by cases h⟩
  | cons l ls ih =>
    intro s kept
    unfold dyn_sub_res_collect
    split_ifs with h
    · obtain ⟨r, h1, h2, h3, _⟩ := ih (s.unmark_lit l) (kept ++ [l])
      refine ⟨l :: r, by rw [h1]; simp, h2.cons₂ l, ?_, ?_⟩
      · intro x hx
        obtain ⟨h5, h6⟩ := h3 x hx
        refine ⟨dsr_unmark_lit_le _ _ _ h5, ?_⟩
        intro h7
        rcases List.mem_cons.1 h7 with h8 | h8
        · rw [h8, dsr_unmark_lit_self] at h5; cases h5
        · exact h6 h8
      · intro l1 rest h5 _
        cases h5
        exact ⟨r, rfl⟩
    · obtain ⟨r, h1, h2, h3, _⟩ := ih s kept
      refine ⟨r, h1, h2.cons l, ?_, ?_⟩
      · intro x hx
        obtain ⟨h5, h6⟩ := h3 x hx
        refine ⟨h5, ?_⟩
        intro h7
        rcases List.mem_cons.1 h7 with h8 | h8
        · rw [h8] at h5; exact h h5
        · exact h6 h8
      · intro l1 rest h5 h6
        cases h5
        exact absurd h6 h

/-- C31: `dyn_sub_res` never removes the first-UIP literal.  For every
non-empty lemma whose first literal has a mark flag, whatever the watch lists
and the probing cache hold, the lemma after `dyn_sub_res` is a non-empty
order-preserving subsequence of the lemma before it with the same first
literal; at exit no literal of the lemma is marked and a literal that is
marked was marked before the call, so no mark set by the procedure
remains. -/
theorem C31_dyn_sub_res_keeps_uip (E : collaborators) (s : solver) (hne : s.m_lemma ≠ [])
    (h0 : (s.m_lemma.getD 0 null_literal).index < s.m_lit_mark.length) :
    (dyn_sub_res E s).m_lemma.Sublist s.m_lemma ∧
    (dyn_sub_res E s).m_lemma ≠ [] ∧
    (dyn_sub_res E s).m_lemma.head? = s.m_lemma.head? ∧
    (∀ x, (dyn_sub_res E s).is_marked_lit x = true →
      s.is_marked_lit x = true ∧ x ∉ s.m_lemma) := by
  obtain ⟨l0, rest, hl⟩ := List.exists_cons_of_ne_nil hne
  have hl0 : s.m_lemma.getD 0 null_literal = l0 := by rw [hl]; rfl
  rw [hl0] at h0
  obtain ⟨_, m2, m3, m4⟩ := dsr_mark_all s.m_lemma s
  obtain ⟨f1, f2⟩ := dsr_lit_fold E l0 s.m_lemma (s.m_lemma.foldl mark_lit s)
  have hm0 : (s.m_lemma.foldl (dyn_sub_res_lit E l0) (s.m_lemma.foldl mark_lit s)).is_marked_lit
      l0 = true := by
    rw [f2]
    exact m4 l0 (by rw [hl]; exact List.mem_cons_self _ _) h0
  obtain ⟨r, c1, c2, c3, c4⟩ := dsr_collect s.m_lemma
    (s.m_lemma.foldl (dyn_sub_res_lit E l0) (s.m_lemma.foldl mark_lit s)) []
  obtain ⟨r1, hr1⟩ := c4 l0 rest hl hm0
  have hlem : (dyn_sub_res E s).m_lemma = r := by
    unfold dyn_sub_res set_dyn_sub_res_lemma
    rw [hl0]
    simpa using c1
  have hmark : ∀ x, (dyn_sub_res E s).is_marked_lit x =
      (dyn_sub_res_collect s.m_lemma
        (s.m_lemma.foldl (dyn_sub_res_lit E l0) (s.m_lemma.foldl mark_lit s)) []).1.is_marked_lit
        x := by
    intro x
    unfold dyn_sub_res set_dyn_sub_res_lemma
    rw [hl0]
    rfl
  refine ⟨by rw [hlem]; exact c2, by rw [hlem, hr1]; exact List.cons_ne_nil _ _,
    by rw [hlem, hr1, hl]; rfl, ?_⟩
  intro x hx
  rw [hmark] at hx
  obtain ⟨h5, h6⟩ := c3 x hx
  refine ⟨?_, h6⟩
  rcases m2 x (f1 x h5) with h7 | h7
  · exact h7
  · exact absurd h7 h6

/-- C31 at a concrete lemma: for `¬c ∨ ¬b ∨ ¬a` in `example_dyn_sub_res` the
binary clause `¬a ∨ b` removes `¬b`, and the first literal `¬c` stays. -/
theorem C31_dyn_sub_res_keeps_uip_witness :
    (dyn_sub_res {} example_dyn_sub_res).m_lemma = [⟨5⟩, ⟨1⟩] ∧
    (dyn_sub_res {} example_dyn_sub_res).m_lemma.Sublist example_dyn_sub_res.m_lemma ∧
    (dyn_sub_res {} example_dyn_sub_res).m_lemma ≠ [] ∧
    (dyn_sub_res {} example_dyn_sub_res).m_lemma.head? = example_dyn_sub_res.m_lemma.head? ∧
    (∀ x, (dyn_sub_res {} example_dyn_sub_res).is_marked_lit x = true →
      example_dyn_sub_res.is_marked_lit x = true ∧ x ∉ example_dyn_sub_res.m_lemma) :=
  ⟨by decide, C31_dyn_sub_res_keeps_uip {} example_dyn_sub_res (by decide) (by decide)⟩

/-! ## Glue -/

theorem ndl_clean_getD (d : List Bool) (h : ∀ b ∈ d, b = false) (i : Nat) :
    d.getD i false = false := by
  by_cases hi : i < d.length
  · rw [List.getD_eq_getElem _ _ hi]
    exact h _ (List.getElem_mem hi)
  · simp [List.getD_eq_getElem?_getD, List.getElem?_eq_none (Nat.le_of_not_lt hi)]

theorem ndl_clean_of_getD (d : List Bool) (h : ∀ i, d.getD i false = false) :
    ∀ b ∈ d, b = false := by
  intro b hb
  obtain ⟨i, hi, rfl⟩ := List.getElem_of_mem hb
  rw [← List.getD_eq_getElem _ false hi]
  exact h i

theorem ndl_reserve_length (d : List Bool) (n : Nat) : n ≤ (reserve d n).length := by
  unfold reserve
  split_ifs with h
  · simp; omega
  · omega

theorem ndl_reserve_clean (d : List Bool) (n : Nat) (h : ∀ b ∈ d, b = false) :
    ∀ b ∈ reserve d n, b = false := by
  unfold reserve
  split_ifs with h1
  · intro b hb
    rcases List.mem_append.1 hb with h2 | h2
    · exact h b h2
    · exact (List.mem_replicate.1 h2).2
  · exact h

theorem ndl_flag_set (d : List Bool) (S : Finset Nat) (k : Nat) (hk : k < d.length)
    (hd : ∀ i, d.getD i false = true ↔ i ∈ S) :
    ∀ i, (d.set k true).getD i false = true ↔ i ∈ insert k S := by
  intro i
  rw [getD_set]
  by_cases h : k = i
  · subst h
    simp [hk]
  · rw [if_neg (fun h1 => h h1.1), hd i, Finset.mem_insert]
    constructor
    · exact fun h1 => Or.inr h1
    · rintro (h1 | h1)
      · exact absurd h1.symm h
      · exact h1

theorem ndl_union_insert (S T : Finset Nat) (a : Nat) :
    insert a S ∪ T = S ∪ insert a T := by
  ext i
  simp only [Finset.mem_union, Finset.mem_insert]
  tauto

theorem ndl_union_mem (S T : Finset Nat) (a : Nat) (h : a ∈ S) :
    S ∪ T = S ∪ insert a T := by
  ext i
  by_cases hi : i = a
  · subst hi; simp [h]
  · simp [hi]

theorem ndl_levels_cons (s : solver) (l : literal) (ls : List literal) :
    ((l :: ls).map s.lvl).toFinset = insert (s.lvl l) (ls.map s.lvl).toFinset := by
  simp

/-- The first loop of `num_diff_levels`: with the flags standing for the set
`S` of levels and `r` its size, the loop ends with the flags for `S` joined
with the levels of the literals and with the size of that set. -/
theorem ndl_scan (s : solver) :
    ∀ (ls : List literal) (d : List Bool) (r : Nat) (S : Finset Nat),
      (∀ i, d.getD i false = true ↔ i ∈ S) → r = S.card →
      (∀ l ∈ ls, s.lvl l < d.length) →
      (∀ i, (num_diff_levels_scan s ls d r).1.getD i false = true ↔
        i ∈ S ∪ (ls.map s.lvl).toFinset) ∧
      (num_diff_levels_scan s ls d r).2 = (S ∪ (ls.map s.lvl).toFinset).card ∧
      (num_diff_levels_scan s ls d r).1.length = d.length := by
  intro ls
  induction ls with
  | nil =>
    intro d r S hd hr _
    refine ⟨fun i => ?_, ?_, rfl⟩
    · show d.getD i false = true ↔ _
      rw [hd]; simp
    · show r = _
      simp [hr]
  | cons l ls ih =>
    intro d r S hd hr hl
    have hl0 : s.lvl l < d.length := hl l (List.mem_cons_self _ _)
    have hls : ∀ x ∈ ls, s.lvl x < d.length := fun x hx => hl x (List.mem_cons_of_mem _ hx)
    unfold num_diff_levels_scan
    split_ifs with h
    · have hn : s.lvl l ∉ S := by
        intro h1
        rw [(hd _).2 h1] at h
        cases h
      obtain ⟨a, b, c⟩ := ih (d.set (s.lvl l) true) (r + 1) (insert (s.lvl l) S)
        (ndl_flag_set d S _ hl0 hd) (by rw [Finset.card_insert_of_not_mem hn, hr])
        (by simpa using hls)
      have he : insert (s.lvl l) S ∪ (ls.map s.lvl).toFinset =
          S ∪ ((l :: ls).map s.lvl).toFinset := by
        rw [ndl_levels_cons, ndl_union_insert]
      rw [he] at a b
      exact ⟨a, b, by simpa using c⟩
    · have hin : s.lvl l ∈ S := by
        rw [← hd]
        cases h1 : d.getD (s.lvl l) false
        · rw [h1] at h; exact absurd rfl h
        · rfl
      obtain ⟨a, b, c⟩ := ih d r S hd hr hls
      have he : S ∪ (ls.map s.lvl).toFinset = S ∪ ((l :: ls).map s.lvl).toFinset := by
        rw [ndl_levels_cons]; exact ndl_union_mem _ _ _ hin
      rw [he] at a b
      exact ⟨a, b, c⟩

/-- The reset loop of `num_diff_levels` and `num_diff_levels_below`. -/
theorem ndl_reset (s : solver) :
    ∀ (ls : List literal) (d : List Bool), (∀ l ∈ ls, s.lvl l < d.length) →
      ∀ i, (reset_diff_levels s ls d).getD i false =
        if i ∈ ls.map s.lvl then false else d.getD i false := by
  intro ls
  induction ls with
  | nil => intro d _ i; simp [reset_diff_levels]
  | cons l ls ih =>
    intro d hl i
    have hl0 : s.lvl l < d.length := hl l (List.mem_cons_self _ _)
    have hls : ∀ x ∈ ls, s.lvl x < (d.set (s.lvl l) false).length := by
      intro x hx
      rw [List.length_set]
      exact hl x (List.mem_cons_of_mem _ hx)
    unfold reset_diff_levels
    rw [ih _ hls i, getD_set]
    by_cases h1 : i ∈ ls.map s.lvl
    · rw [if_pos h1, if_pos (by rw [List.map_cons]; exact List.mem_cons_of_mem _ h1)]
    · rw [if_neg h1]
      by_cases h2 : s.lvl l = i
      · rw [if_pos ⟨h2, hl0⟩, if_pos (by rw [List.map_cons, h2]; exact List.mem_cons_self _ _)]
      · rw [if_neg (fun h3 => h2 h3.1), if_neg]
        rw [List.map_cons, List.mem_cons]
        rintro (h3 | h3)
        · exact h2 h3.symm
        · exact h1 h3

/-- The first loop of `num_diff_levels_below`: it visits a prefix of the
literals, flags and counts the levels of that prefix, and when it ends with
`glue < max_glue` the prefix is the whole list. -/
theorem ndl_below_scan (s : solver) (max_glue : Nat) :
    ∀ (ls : List literal) (d : List Bool) (glue i : Nat) (S : Finset Nat),
      (∀ j, d.getD j false = true ↔ j ∈ S) → glue = S.card →
      (∀ l ∈ ls, s.lvl l < d.length) →
      ∃ k, (num_diff_levels_below_scan s max_glue ls d glue i).2.2 = i + k ∧ k ≤ ls.length ∧
        (∀ j, (num_diff_levels_below_scan s max_glue ls d glue i).1.getD j false = true ↔
          j ∈ S ∪ ((ls.take k).map s.lvl).toFinset) ∧
        (num_diff_levels_below_scan s max_glue ls d glue i).2.1 =
          (S ∪ ((ls.take k).map s.lvl).toFinset).card ∧
        ((num_diff_levels_below_scan s max_glue ls d glue i).2.1 < max_glue → k = ls.length) ∧
        (num_diff_levels_below_scan s max_glue ls d glue i).1.length = d.length := by
  intro ls
  induction ls with
  | nil =>
    intro d glue i S hd hr _
    refine ⟨0, rfl, Nat.le_refl _, fun j => ?_, ?_, fun _ => rfl, rfl⟩
    · show d.getD j false = true ↔ _
      rw [hd]; simp
    · show glue = _
      simp [hr]
  | cons l ls ih =>
    intro d glue i S hd hr hl
    have hl0 : s.lvl l < d.length := hl l (List.mem_cons_self _ _)
    have hls : ∀ x ∈ ls, s.lvl x < d.length := fun x hx => hl x (List.mem_cons_of_mem _ hx)
    unfold num_diff_levels_below_scan
    split_ifs with hg h
    · have hn : s.lvl l ∉ S := by
        intro h1
        rw [(hd _).2 h1] at h
        cases h
      obtain ⟨k, a0, a1, a, b, c, e⟩ := ih (d.set (s.lvl l) true) (glue + 1) (i + 1)
        (insert (s.lvl l) S) (ndl_flag_set d S _ hl0 hd)
        (by rw [Finset.card_insert_of_not_mem hn, hr]) (by simpa using hls)
      have he : insert (s.lvl l) S ∪ ((ls.take k).map s.lvl).toFinset =
          S ∪ (((l :: ls).take (k + 1)).map s.lvl).toFinset := by
        rw [List.take_succ_cons, ndl_levels_cons, ndl_union_insert]
      rw [he] at a b
      exact ⟨k + 1, by rw [a0]; omega, by simpa using a1, a, b,
        fun h1 => by rw [c h1]; rfl, by simpa using e⟩
    · have hin : s.lvl l ∈ S := by
        rw [← hd]
        cases h1 : d.getD (s.lvl l) false
        · rw [h1] at h; exact absurd rfl h
        · rfl
      obtain ⟨k, a0, a1, a, b, c, e⟩ := ih d glue (i + 1) S hd hr hls
      have he : S ∪ ((ls.take k).map s.lvl).toFinset =
          S ∪ (((l :: ls).take (k + 1)).map s.lvl).toFinset := by
        rw [List.take_succ_cons, ndl_levels_cons]; exact ndl_union_mem _ _ _ hin
      rw [he] at a b
      exact ⟨k + 1, by rw [a0]; omega, by simpa using a1, a, b,
        fun h1 => by rw [c h1]; rfl, e⟩
    · refine ⟨0, rfl, Nat.zero_le _, fun j => ?_, ?_, fun h1 => absurd h1 hg, rfl⟩
      · show d.getD j false = true ↔ _
        rw [hd]; simp
      · show glue = _
        simp [hr]

/-- `num_diff_levels` counts the distinct levels and leaves clean flags. -/
theorem num_diff_levels_spec (s : solver) (lits : List literal)
    (hclean : ∀ b ∈ s.m_diff_levels, b = false)
    (hlits : ∀ l ∈ lits, s.lvl l ≤ s.scope_lvl) :
    (s.num_diff_levels lits).1 = ((lits.map s.lvl).dedup).length ∧
    (∀ b ∈ (s.num_diff_levels lits).2.m_diff_levels, b = false) := by
  have hres := ndl_reserve_clean s.m_diff_levels (s.scope_lvl + 1) hclean
  have hlen := ndl_reserve_length s.m_diff_levels (s.scope_lvl + 1)
  have hb : ∀ l ∈ lits, s.lvl l < (reserve s.m_diff_levels (s.scope_lvl + 1)).length :=
    fun l hl => Nat.lt_of_lt_of_le (Nat.lt_succ_of_le (hlits l hl)) hlen
  obtain ⟨a, b, c⟩ := ndl_scan s lits (reserve s.m_diff_levels (s.scope_lvl + 1)) 0 ∅
    (by intro i; rw [ndl_clean_getD _ hres]; simp) rfl hb
  refine ⟨?_, ?_⟩
  · show (num_diff_levels_scan s lits (reserve s.m_diff_levels (s.scope_lvl + 1)) 0).2 = _
    rw [b, Finset.empty_union, List.card_toFinset]
  · apply ndl_clean_of_getD
    intro i
    show (reset_diff_levels s lits
      (num_diff_levels_scan s lits (reserve s.m_diff_levels (s.scope_lvl + 1)) 0).1).getD i
        false = false
    rw [ndl_reset s lits _ (by rw [c]; exact hb)]
    split_ifs with h
    · rfl
    · cases h1 : (num_diff_levels_scan s lits (reserve s.m_diff_levels (s.scope_lvl + 1))
        0).1.getD i false
      · rfl
      · have h2 := (a i).1 h1
        rw [Finset.empty_union, List.mem_toFinset] at h2
        exact absurd h2 h

/-- `num_diff_levels_below` returns true only when it scanned all literals;
then the glue is the number of distinct levels.  The flags are clean at
exit in any case. -/
theorem num_diff_levels_below_spec (s : solver) (lits : List literal) (max_glue : Nat)
    (hclean : ∀ b ∈ s.m_diff_levels, b = false)
    (hlits : ∀ l ∈ lits, s.lvl l ≤ s.scope_lvl) :
    ((s.num_diff_levels_below lits max_glue).1 = true →
      (num_diff_levels_below_scan s max_glue lits
        (reserve s.m_diff_levels (s.scope_lvl + 1)) 0 0).2.2 = lits.length ∧
      (s.num_diff_levels_below lits max_glue).2.1 = ((lits.map s.lvl).dedup).length ∧
      (s.num_diff_levels_below lits max_glue).2.1 < max_glue) ∧
    (∀ b ∈ (s.num_diff_levels_below lits max_glue).2.2.m_diff_levels, b = false) := by
  have hres := ndl_reserve_clean s.m_diff_levels (s.scope_lvl + 1) hclean
  have hlen := ndl_reserve_length s.m_diff_levels (s.scope_lvl + 1)
  have hb : ∀ l ∈ lits, s.lvl l < (reserve s.m_diff_levels (s.scope_lvl + 1)).length :=
    fun l hl => Nat.lt_of_lt_of_le (Nat.lt_succ_of_le (hlits l hl)) hlen
  obtain ⟨k, a0, a1, a, b, c, e⟩ := ndl_below_scan s max_glue lits
    (reserve s.m_diff_levels (s.scope_lvl + 1)) 0 0 ∅
    (by intro i; rw [ndl_clean_getD _ hres]; simp) rfl hb
  rw [Nat.zero_add] at a0
  refine ⟨?_, ?_⟩
  · intro h
    have hlt : (num_diff_levels_below_scan s max_glue lits
        (reserve s.m_diff_levels (s.scope_lvl + 1)) 0 0).2.1 < max_glue := of_decide_eq_true h
    have hk := c hlt
    refine ⟨by rw [a0, hk], ?_, hlt⟩
    show (num_diff_levels_below_scan s max_glue lits
        (reserve s.m_diff_levels (s.scope_lvl + 1)) 0 0).2.1 = _
    rw [b, hk, List.take_length, Finset.empty_union, List.card_toFinset]
  · apply ndl_clean_of_getD
    intro i
    show (reset_diff_levels s (lits.take (num_diff_levels_below_scan s max_glue lits
        (reserve s.m_diff_levels (s.scope_lvl + 1)) 0 0).2.2)
      (num_diff_levels_below_scan s max_glue lits
        (reserve s.m_diff_levels (s.scope_lvl + 1)) 0 0).1).getD i false = false
    rw [ndl_reset s _ _ (by
      intro l hl
      rw [e]
      exact hb l (List.mem_of_mem_take hl)), a0]
    split_ifs with h
    · rfl
    · cases h1 : (num_diff_levels_below_scan s max_glue lits
        (reserve s.m_diff_levels (s.scope_lvl + 1)) 0 0).1.getD i false
      · rfl
      · have h2 := (a i).1 h1
        rw [Finset.empty_union, List.mem_toFinset] at h2
        exact absurd h2 h

theorem lvl_congr (s q : solver) (h : q.m_level = s.m_level) : q.lvl = s.lvl := by
  funext l
  unfold lvl lvl_var
  rw [h]

/-- The `UPDATE_GLUE` block: the clause keeps its literals, its glue does
not grow, and a glue that changes is the number of distinct levels of the
literals and lies below the old glue minus one. -/
theorem update_glue_spec (q : solver) (update : Bool) (off : clause_offset) (c : clause)
    (hclean : ∀ b ∈ q.m_diff_levels, b = false)
    (hlits : ∀ l ∈ c.lits, q.lvl l ≤ q.scope_lvl)
    (hoff : off < q.m_cls_allocator.length) (hget : q.get_clause off = c) :
    ((q.update_glue update off c).get_clause off).lits = c.lits ∧
    ((q.update_glue update off c).get_clause off).m_glue ≤ c.m_glue ∧
    (((q.update_glue update off c).get_clause off).m_glue ≠ c.m_glue →
      ((q.update_glue update off c).get_clause off).m_glue =
        ((c.lits.map q.lvl).dedup).length ∧
      ((q.update_glue update off c).get_clause off).m_glue + 1 < c.m_glue) ∧
    (∀ b ∈ (q.update_glue update off c).m_diff_levels, b = false) := by
  obtain ⟨h1, h2⟩ := num_diff_levels_below_spec q c.lits (c.m_glue - 1) hclean hlits
  unfold update_glue
  by_cases hc : (update && c.m_learned && decide (c.m_glue > 2)) = true
  swap
  · rw [if_neg hc, hget]
    exact ⟨rfl, Nat.le_refl _, fun h => absurd rfl h, hclean⟩
  rw [if_pos hc]
  simp only []
  by_cases hr : (q.num_diff_levels_below c.lits (c.m_glue - 1)).1 = true
  · rw [if_pos hr]
    obtain ⟨_, h3, h4⟩ := h1 hr
    have hoff1 : off < (q.num_diff_levels_below c.lits (c.m_glue - 1)).2.2.m_cls_allocator.length := by
      rw [num_diff_levels_below_m_cls_allocator]; exact hoff
    rw [get_clause_set_clause _ _ _ hoff1]
    refine ⟨rfl, ?_, fun _ => ⟨h3, ?_⟩, ?_⟩
    · show (q.num_diff_levels_below c.lits (c.m_glue - 1)).2.1 ≤ c.m_glue
      omega
    · show (q.num_diff_levels_below c.lits (c.m_glue - 1)).2.1 + 1 < c.m_glue
      omega
    · simpa using h2
  · rw [if_neg hr]
    have hg : (q.num_diff_levels_below c.lits (c.m_glue - 1)).2.2.get_clause off = c := by
      unfold get_clause
      rw [num_diff_levels_below_m_cls_allocator]
      exact hget
    rw [hg]
    exact ⟨rfl, Nat.le_refl _, fun h => absurd rfl h, h2⟩

/-- C32: glue only tightens.  With clean scratch flags and literals whose
levels do not exceed the scope level, `num_diff_levels(lits)` returns the
number of distinct levels among the literals; `num_diff_levels_below`
returns true only when it scanned the whole list, and then its glue is that
number and is below `max_glue`; and the unit-propagation step of
`propagate_core` for the clause `c` at `off` leaves the literals alone, never
raises the glue, and when it changes the glue the new one is the number of
distinct levels among all the literals of the clause and is smaller than the
old one (even than the old one minus one).  The flags are clean again after
each of the three. -/
theorem C32_glue_only_tightens (s : solver) (lits : List literal) (max_glue : Nat)
    (update : Bool) (blocked : literal) (off : clause_offset) (c : clause)
    (hclean : ∀ b ∈ s.m_diff_levels, b = false)
    (hlits : ∀ l ∈ lits, s.lvl l ≤ s.scope_lvl)
    (hoff : off < s.m_cls_allocator.length)
    (h0 : (c.get 0).var < s.m_level.length)
    (hlv : ∀ l ∈ c.lits, l.var ≠ (c.get 0).var → s.lvl l ≤ s.scope_lvl) :
    ((s.num_diff_levels lits).1 = ((lits.map s.lvl).dedup).length ∧
      ∀ b ∈ (s.num_diff_levels lits).2.m_diff_levels, b = false) ∧
    (((s.num_diff_levels_below lits max_glue).1 = true →
        (num_diff_levels_below_scan s max_glue lits
          (reserve s.m_diff_levels (s.scope_lvl + 1)) 0 0).2.2 = lits.length ∧
        (s.num_diff_levels_below lits max_glue).2.1 = ((lits.map s.lvl).dedup).length ∧
        (s.num_diff_levels_below lits max_glue).2.1 < max_glue) ∧
      ∀ b ∈ (s.num_diff_levels_below lits max_glue).2.2.m_diff_levels, b = false) ∧
    (((propagate_clause_unit s update blocked off c).1.get_clause off).lits = c.lits ∧
      ((propagate_clause_unit s update blocked off c).1.get_clause off).m_glue ≤ c.m_glue ∧
      (((propagate_clause_unit s update blocked off c).1.get_clause off).m_glue ≠ c.m_glue →
        ((propagate_clause_unit s update blocked off c).1.get_clause off).m_glue =
          ((c.lits.map (propagate_clause_unit s update blocked off c).1.lvl).dedup).length ∧
        ((propagate_clause_unit s update blocked off c).1.get_clause off).m_glue + 1 <
          c.m_glue) ∧
      ∀ b ∈ (propagate_clause_unit s update blocked off c).1.m_diff_levels, b = false) := by
  refine ⟨num_diff_levels_spec s lits hclean hlits,
    num_diff_levels_below_spec s lits max_glue hclean hlits, ?_⟩
  unfold propagate_clause_unit
  split_ifs with hv
  · simp only []
    rw [get_clause_set_clause _ _ _ hoff]
    exact ⟨rfl, Nat.le_refl _, fun h => absurd rfl h, by simpa using hclean⟩
  · simp only []
    generalize hq : (s.inc_propagate.set_clause off { c with m_used := true }).assign_core
      (clause.get { c with m_used := true } 0) (justification.clause off) = q
    have hqc : q.m_cls_allocator = s.m_cls_allocator.set off { c with m_used := true } := by
      rw [← hq]; simp [set_clause]
    have hqd : q.m_diff_levels = s.m_diff_levels := by rw [← hq]; simp
    have hql : q.m_level = s.m_level.set (c.get 0).var s.scope_lvl := by
      rw [← hq]; simp [scope_lvl, clause.get]
    have hqs : q.scope_lvl = s.scope_lvl := by rw [← hq]; simp [scope_lvl]
    have hlv1 : ∀ l ∈ (({ c with m_used := true } : clause)).lits, q.lvl l ≤ q.scope_lvl := by
      intro l hl
      rw [hqs]
      unfold lvl lvl_var
      rw [hql, getD_set]
      split_ifs with h1
      · exact Nat.le_refl _
      · have h2 : l.var ≠ (c.get 0).var := fun h3 => h1 ⟨h3.symm, h0⟩
        exact hlv l hl h2
    have hget : q.get_clause off = { c with m_used := true } := by
      unfold get_clause
      rw [hqc]
      exact getD_set_self _ _ _ _ hoff
    obtain ⟨a, b, c1, d⟩ := update_glue_spec q update off { c with m_used := true }
      (by rw [hqd]; exact hclean) hlv1 (by rw [hqc, List.length_set]; exact hoff) hget
    rw [lvl_congr q (q.update_glue update off { c with m_used := true }) (by simp)]
    exact ⟨a, b, c1, d⟩

/-- C32 at a concrete state: in `example_glue` the learned clause
`x0 ∨ x1 ∨ x2 ∨ x3` of glue 4 is unit, all its literals end at level 1, and
the propagation step lowers its glue to 1. -/
theorem C32_glue_only_tightens_witness :
    ((propagate_clause_unit example_glue true ⟨4⟩ 0 example_glue_clause).1.get_clause 0).m_glue
      = 1 ∧
    (((example_glue.num_diff_levels [⟨2⟩, ⟨4⟩, ⟨6⟩]).1 =
        (([⟨2⟩, ⟨4⟩, ⟨6⟩] : List literal).map example_glue.lvl).dedup.length ∧
      ∀ b ∈ (example_glue.num_diff_levels [⟨2⟩, ⟨4⟩, ⟨6⟩]).2.m_diff_levels, b = false) ∧
    (((example_glue.num_diff_levels_below [⟨2⟩, ⟨4⟩, ⟨6⟩] 3).1 = true →
        (num_diff_levels_below_scan example_glue 3 [⟨2⟩, ⟨4⟩, ⟨6⟩]
          (reserve example_glue.m_diff_levels (example_glue.scope_lvl + 1)) 0 0).2.2 =
            ([⟨2⟩, ⟨4⟩, ⟨6⟩] : List literal).length ∧
        (example_glue.num_diff_levels_below [⟨2⟩, ⟨4⟩, ⟨6⟩] 3).2.1 =
          (([⟨2⟩, ⟨4⟩, ⟨6⟩] : List literal).map example_glue.lvl).dedup.length ∧
        (example_glue.num_diff_levels_below [⟨2⟩, ⟨4⟩, ⟨6⟩] 3).2.1 < 3) ∧
      ∀ b ∈ (example_glue.num_diff_levels_below [⟨2⟩, ⟨4⟩, ⟨6⟩] 3).2.2.m_diff_levels,
        b = false) ∧
    (((propagate_clause_unit example_glue true ⟨4⟩ 0 example_glue_clause).1.get_clause 0).lits
        = example_glue_clause.lits ∧
      ((propagate_clause_unit example_glue true ⟨4⟩ 0 example_glue_clause).1.get_clause
        0).m_glue ≤ example_glue_clause.m_glue ∧
      (((propagate_clause_unit example_glue true ⟨4⟩ 0 example_glue_clause).1.get_clause
          0).m_glue ≠ example_glue_clause.m_glue →
        ((propagate_clause_unit example_glue true ⟨4⟩ 0 example_glue_clause).1.get_clause
          0).m_glue =
          ((example_glue_clause.lits.map
            (propagate_clause_unit example_glue true ⟨4⟩ 0 example_glue_clause).1.lvl).dedup).length ∧
        ((propagate_clause_unit example_glue true ⟨4⟩ 0 example_glue_clause).1.get_clause
          0).m_glue + 1 < example_glue_clause.m_glue) ∧
      ∀ b ∈ (propagate_clause_unit example_glue true ⟨4⟩ 0 example_glue_clause).1.m_diff_levels,
        b = false)) :=
  ⟨by decide, C32_glue_only_tightens example_glue [⟨2⟩, ⟨4⟩, ⟨6⟩] 3 true ⟨4⟩ 0
    example_glue_clause (by decide) (by decide) (by decide) (by decide) (by decide)⟩

/-! ## DIMACS display -/

theorem num_clauses_wlist_spec (l_idx : Nat) (wl : List watched) :
    ∀ n, num_clauses_wlist l_idx n wl % 4294967296 =
      (n + (display_dimacs_wlist l_idx wl).length) % 4294967296 := by
  induction wl with
  | nil => intro n; rfl
  | cons w wl ih =>
    intro n
    unfold num_clauses_wlist display_dimacs_wlist at *
    rw [List.foldl_cons, ih]
    cases h : dimacs_binary l_idx w with
    | none => simp [h]
    | some l2 =>
      simp only [h, Option.isSome_some, if_true, List.filterMap_cons, Option.map_some',
        List.length_cons]
      omega

theorem num_clauses_watches_spec (ws : List (List watched)) :
    ∀ l_idx n, num_clauses_watches ws l_idx n % 4294967296 =
      (n + (display_dimacs_watches ws l_idx).length) % 4294967296 := by
  induction ws with
  | nil => intro l_idx n; rfl
  | cons wl ws ih =>
    intro l_idx n
    unfold num_clauses_watches display_dimacs_watches
    rw [ih, List.length_append, Nat.add_mod, num_clauses_wlist_spec]
    omega

theorem display_dimacs_watches_length (ws : List (List watched)) :
    ∀ l_idx, (display_dimacs_watches ws l_idx).length =
      ((List.range ws.length).map fun i =>
        (ws.getD i []).countP fun w => (dimacs_binary (l_idx + i) w).isSome).sum := by
  induction ws with
  | nil => intro l_idx; rfl
  | cons wl ws ih =>
    intro l_idx
    unfold display_dimacs_watches
    rw [List.length_append, ih, List.length_cons, List.range_succ_eq_map, List.map_cons,
      List.sum_cons, List.map_map]
    congr 1
    · unfold display_dimacs_wlist
      rw [List.length_filterMap_eq_countP]
      simp [Option.isSome_map']
    · congr 1
      apply List.map_congr_left
      intro i _
      simp only [Function.comp, List.getD_cons_succ]
      rw [show l_idx + 1 + i = l_idx + (i + 1) by omega]

theorem display_dimacs_wlist_eq (i : Nat) (wl : List watched) :
    display_dimacs_wlist i wl =
      wl.filterMap fun w =>
        match w with
        | .binary l2 _ =>
          if (⟨i⟩ : literal).neg.index < l2.index then some [(⟨i⟩ : literal).neg, l2] else none
        | _ => none := by
  unfold display_dimacs_wlist
  congr 1
  funext w
  cases w with
  | binary l2 learned =>
    simp only [dimacs_binary, to_literal]
    split <;> rfl
  | ternary l2 l3 => rfl
  | clause b off => rfl
  | ext_constraint idx => rfl

theorem display_dimacs_watches_eq (ws : List (List watched)) :
    ∀ l_idx, display_dimacs_watches ws l_idx =
      (List.range ws.length).flatMap fun i => display_dimacs_wlist (l_idx + i) (ws.getD i []) := by
  induction ws with
  | nil => intro l_idx; rfl
  | cons wl ws ih =>
    intro l_idx
    unfold display_dimacs_watches
    rw [ih, List.length_cons, List.range_succ_eq_map, List.flatMap_cons, List.flatMap_map]
    congr 1
    apply List.flatMap_congr
    intro i _
    simp only [Function.comp, Nat.succ_eq_add_one, List.getD_cons_succ]
    rw [show l_idx + 1 + i = l_idx + (i + 1) by omega]

/-- The two watch entries of a binary clause `a ∨ b` give one line: the
entry in the list of `¬a` passes the index test when `a` has the smaller
index, the entry in the list of `¬b` when `b` has. -/
theorem display_dimacs_wlist_pair (a b : literal) (la lb : Bool) (h : a ≠ b) :
    display_dimacs_wlist a.neg.index [.binary b la] ++
        display_dimacs_wlist b.neg.index [.binary a lb] =
      if a.index < b.index then [[a, b]] else [[b, a]] := by
  have ha : (⟨a.neg.index⟩ : literal).neg = a := literal_neg_neg a
  have hb : (⟨b.neg.index⟩ : literal).neg = b := literal_neg_neg b
  have hne : a.index ≠ b.index := fun e => h ((literal_index_inj a b).1 e)
  rw [display_dimacs_wlist_eq, display_dimacs_wlist_eq]
  simp only [List.filterMap_cons, List.filterMap_nil, ha, hb]
  by_cases hlt : a.index < b.index
  · have hnot : ¬ b.index < a.index := by omega
    simp [hlt, hnot]
  · have hlt2 : b.index < a.index := by omega
    simp [hlt, hlt2]

/-- C40: the header of `display_dimacs` is consistent with the body.  For
every solver state the clause lines are, in this order, one line per trail
literal, one line `l l2` per binary watch entry `l2` of a watch list number
`i` with `index(l) < index(l2)`, where `l` is the negation of the literal
with index `i`, and one line per clause of `m_clauses` and of `m_learned`;
the number of lines is the sum of the four counts; the count in the header,
`num_clauses()`, is that number as a 32 bit unsigned, hence equal to it
whenever it is below `2^32`; and a binary clause over two literals that is
watched on both sides gives one line, the one that starts with the literal of
smaller index. -/
theorem C40_dimacs_header_count (s : solver) :
    (display_dimacs s).lines =
      s.m_trail.map (fun l => [l]) ++
        ((List.range s.m_watches.length).flatMap fun i =>
          (s.get_wlist i).filterMap fun w =>
            match w with
            | .binary l2 _ =>
              if (⟨i⟩ : literal).neg.index < l2.index then some [(⟨i⟩ : literal).neg, l2]
              else none
            | _ => none) ++
        s.m_clauses.map (fun off => (s.get_clause off).lits) ++
        s.m_learned.map (fun off => (s.get_clause off).lits) ∧
    (display_dimacs s).lines.length =
      s.m_trail.length +
        ((List.range s.m_watches.length).map fun i =>
          (s.get_wlist i).countP fun w =>
            match w with
            | .binary l2 _ => decide ((⟨i⟩ : literal).neg.index < l2.index)
            | _ => false).sum +
        s.m_clauses.length + s.m_learned.length ∧
    (display_dimacs s).num_vars = s.m_level.length ∧
    (display_dimacs s).num_clauses = (display_dimacs s).lines.length % 4294967296 ∧
    ((display_dimacs s).lines.length < 4294967296 →
      (display_dimacs s).num_clauses = (display_dimacs s).lines.length) ∧
    (∀ (a b : literal) (la lb : Bool), a ≠ b →
      display_dimacs_wlist a.neg.index [.binary b la] ++
          display_dimacs_wlist b.neg.index [.binary a lb] =
        if a.index < b.index then [[a, b]] else [[b, a]]) := by
  have hlines : (display_dimacs s).lines =
      s.m_trail.map (fun l => [l]) ++
        ((List.range s.m_watches.length).flatMap fun i =>
          (s.get_wlist i).filterMap fun w =>
            match w with
            | .binary l2 _ =>
              if (⟨i⟩ : literal).neg.index < l2.index then some [(⟨i⟩ : literal).neg, l2]
              else none
            | _ => none) ++
        s.m_clauses.map (fun off => (s.get_clause off).lits) ++
        s.m_learned.map (fun off => (s.get_clause off).lits) := by
    show s.m_trail.map (fun l => [l]) ++ display_dimacs_watches s.m_watches 0 ++ _ ++ _ = _
    rw [display_dimacs_watches_eq]
    congr 3
    apply List.flatMap_congr
    intro i _
    rw [Nat.zero_add, display_dimacs_wlist_eq]
    rfl
  have hlen : (display_dimacs s).lines.length =
      s.m_trail.length + (display_dimacs_watches s.m_watches 0).length +
        s.m_clauses.length + s.m_learned.length := by
    simp [display_dimacs]
    omega
  have hcount : s.num_clauses = (display_dimacs s).lines.length % 4294967296 := by
    rw [hlen]
    unfold num_clauses
    have h := num_clauses_watches_spec s.m_watches 0 s.m_trail.length
    omega
  refine ⟨hlines, ?_, rfl, hcount, ?_, display_dimacs_wlist_pair⟩
  · rw [hlen, display_dimacs_watches_length]
    congr 4
    apply List.map_congr_left
    intro i _
    rw [Nat.zero_add]
    show List.countP _ (s.get_wlist i) = _
    congr 1
    funext w
    cases w with
    | binary l2 learned =>
      simp only [dimacs_binary, to_literal]
      split <;> simp [*]
    | ternary l2 l3 => rfl
    | clause b off => rfl
    | ext_constraint idx => rfl
  · intro h
    show s.num_clauses = _
    rw [hcount, Nat.mod_eq_of_lt h]

/-- C40 at a concrete state: `example_dimacs_learned` has four trail
literals, the binary clause `¬a ∨ b` with a watch entry on each side, one
clause and one learned clause; the header announces 4 variables and 7
clauses, and 7 lines follow, one of them for the binary clause. -/
theorem C40_dimacs_header_count_witness :
    display_dimacs example_dimacs_learned =
      { num_vars := 4, num_clauses := 7,
        lines := [[⟨0⟩], [⟨2⟩], [⟨4⟩], [⟨6⟩], [⟨1⟩, ⟨2⟩], [⟨1⟩, ⟨5⟩, ⟨6⟩], [⟨3⟩, ⟨5⟩, ⟨7⟩]] } ∧
    watched.binary ⟨2⟩ false ∈ example_dimacs_learned.get_wlist 0 ∧
    watched.binary ⟨1⟩ false ∈ example_dimacs_learned.get_wlist 3 ∧
    (display_dimacs example_dimacs_learned).num_clauses =
      (display_dimacs example_dimacs_learned).lines.length % 4294967296 :=
  ⟨by decide, by decide, by decide, (C40_dimacs_header_count example_dimacs_learned).2.2.2.1⟩

/-- C38: in the DIMACS-display mode `check` gets past the loop over the
assumptions only when there is none.  The loop never advances its index, so
for one assumption or more it is still running after any number of rounds,
reading behind the end of the array from the second round on; with no
assumption it writes nothing and `check` returns `l_undef`. -/
theorem C38_dimacs_display_loop (E : collaborators) (s : solver) (lits : List literal)
    (fuel : Nat) (hd : s.m_config.m_dimacs_display = true) :
    (lits ≠ [] → ∀ i p out, i < lits.length →
      display_assumptions_loop lits.length lits fuel i p out = none) ∧
    (lits = [] → display_assumptions_loop lits.length lits (fuel + 1) 0 0 [] = some []) ∧
    check_delegate E s lits =
      some ((display_assumptions_loop lits.length lits (fuel + 1) 0 0 []).map
        fun _ => (lbool.l_undef, s)) := by
  have h1 : ∀ fuel i p out, i < lits.length →
      display_assumptions_loop lits.length lits fuel i p out = none := by
    intro fuel
    induction fuel with
    | zero => intro i p out _; rfl
    | succ n ih =>
      intro i p out hi
      unfold display_assumptions_loop
      rw [if_pos hi]
      exact ih i _ _ hi
  refine ⟨fun _ => h1 fuel, ?_, ?_⟩
  · intro h; rw [h]; rfl
  · unfold check_delegate
    rw [if_pos hd]
    cases lits with
    | nil => rfl
    | cons l ls =>
      rw [h1 (fuel + 1) 0 0 [] (by simp)]
      rfl

/-- C38 at a concrete call: `check` on `example_dimacs` with the single
assumption `x0` does not return, whatever the bound on the number of
rounds. -/
theorem C38_dimacs_display_loop_witness :
    check_delegate {} example_dimacs [⟨0⟩] = some none ∧
    (([⟨0⟩] : List literal) ≠ [] → ∀ i p out, i < ([⟨0⟩] : List literal).length →
      display_assumptions_loop ([⟨0⟩] : List literal).length [⟨0⟩] 5 i p out = none) ∧
    (([⟨0⟩] : List literal) = [] →
      display_assumptions_loop ([⟨0⟩] : List literal).length [⟨0⟩] (5 + 1) 0 0 [] = some []) ∧
    check_delegate {} example_dimacs [⟨0⟩] =
      some ((display_assumptions_loop ([⟨0⟩] : List literal).length [⟨0⟩] (5 + 1) 0 0 []).map
        fun _ => (lbool.l_undef, example_dimacs)) :=
  ⟨rfl, C38_dimacs_display_loop {} example_dimacs [⟨0⟩] 5 rfl⟩

/-! ## Sizes of the per-variable vectors -/

theorem sizes_frame_refl (s : solver) : sizes_frame s s := ⟨rfl, rfl, rfl⟩

theorem sizes_frame_trans {s s1 s2 : solver} (h1 : sizes_frame s s1) (h2 : sizes_frame s1 s2) :
    sizes_frame s s2 :=
  ⟨h2.1.trans h1.1, h2.2.1.trans h1.2.1, h2.2.2.trans h1.2.2⟩

theorem sizes_frame_foldl {α : Type} (f : solver → α → solver)
    (hf : ∀ s a, sizes_frame s (f s a)) (xs : List α) :
    ∀ s, sizes_frame s (xs.foldl f s) := by
  induction xs with
  | nil => intro s; exact sizes_frame_refl s
  | cons x xs ih => intro s; exact sizes_frame_trans (hf s x) (ih (f s x))

theorem sizes_frame_set_wlist_at (s : solver) (idx : Nat) (ws : List watched) :
    sizes_frame s (s.set_wlist_at idx ws) := by
  unfold sizes_frame var_sizes history_sizes set_wlist_at
  simp

theorem sizes_frame_detach_clause (s : solver) (off : clause_offset) :
    sizes_frame s (s.detach_clause off) := by
  unfold detach_clause
  split_ifs
  · unfold detach_ter_clause
    exact sizes_frame_trans (sizes_frame_trans (sizes_frame_set_wlist_at _ _ _)
      (sizes_frame_set_wlist_at _ _ _)) (sizes_frame_set_wlist_at _ _ _)
  · unfold detach_nary_clause
    exact sizes_frame_trans (sizes_frame_set_wlist_at _ _ _) (sizes_frame_set_wlist_at _ _ _)

theorem sizes_frame_del_clause (s : solver) (off : clause_offset) :
    sizes_frame s (s.del_clause off) := ⟨rfl, rfl, rfl⟩

theorem sizes_frame_gc_lit_fold (lit : literal) (cs : List clause_offset) :
    ∀ (st : solver × List clause_offset), sizes_frame st.1 (cs.foldl (gc_lit_step lit) st).1 := by
  induction cs with
  | nil => intro st; exact sizes_frame_refl _
  | cons c cs ih =>
    intro st
    rw [List.foldl_cons]
    refine sizes_frame_trans ?_ (ih _)
    unfold gc_lit_step
    split_ifs
    · exact sizes_frame_trans (sizes_frame_detach_clause _ _) (sizes_frame_del_clause _ _)
    · exact sizes_frame_refl _

theorem sizes_frame_gc_lit_learned (s : solver) (lit : literal) :
    sizes_frame s (s.gc_lit_learned lit) := by
  have h := sizes_frame_gc_lit_fold lit s.m_learned (s, [])
  exact ⟨h.1, h.2.1, h.2.2⟩

theorem sizes_frame_gc_lit_clauses (s : solver) (lit : literal) :
    sizes_frame s (s.gc_lit_clauses lit) := by
  have h := sizes_frame_gc_lit_fold lit s.m_clauses (s, [])
  exact ⟨h.1, h.2.1, h.2.2⟩

theorem sizes_frame_gc_bin (s : solver) (learned : Bool) (nlit : literal) :
    sizes_frame s (s.gc_bin learned nlit) := by
  unfold gc_bin
  have h0 : sizes_frame s { s with m_user_bin_clauses := s.collect_bin_clauses learned false } :=
    ⟨rfl, rfl, rfl⟩
  refine sizes_frame_trans h0 (sizes_frame_foldl _ ?_ _ _)
  intro q p
  unfold gc_bin_step
  split_ifs
  · unfold detach_bin_clause
    exact sizes_frame_trans (sizes_frame_set_wlist_at _ _ _) (sizes_frame_set_wlist_at _ _ _)
  · exact sizes_frame_refl _

theorem sizes_frame_unassign_var (s : solver) (l : literal) :
    sizes_frame s (s.unassign_var l) := by
  have h1 : sizes_frame s (s.unassign_var_record l) := by
    unfold sizes_frame var_sizes history_sizes unassign_var_record
    simp
  have h2 : ∀ q : solver, sizes_frame q (q.unassign_var_lrb l.var) := by
    intro q
    unfold unassign_var_lrb
    split_ifs
    · unfold sizes_frame var_sizes history_sizes
      simp
    · exact sizes_frame_refl _
    · exact sizes_frame_refl _
  have h3 : ∀ q : solver, sizes_frame q (q.unassign_var_anti_exploration l.var) := by
    intro q
    unfold unassign_var_anti_exploration
    split_ifs
    · unfold sizes_frame var_sizes history_sizes
      simp
    · exact sizes_frame_refl _
  exact sizes_frame_trans (sizes_frame_trans h1 (h2 _)) (h3 _)

theorem sizes_frame_unassign_vars (s : solver) (old_sz : Nat) :
    sizes_frame s (s.unassign_vars old_sz) := by
  unfold unassign_vars
  have h := sizes_frame_foldl unassign_var sizes_frame_unassign_var
    (s.m_trail.drop old_sz).reverse s
  exact ⟨h.1, h.2.1, h.2.2⟩

theorem sizes_frame_user_pop_prefix (s : solver) (lit : literal) :
    sizes_frame s ((((((s.pop_user_scope_literal lit).gc_lit_learned lit).gc_lit_clauses
      lit).gc_bin true lit).gc_bin false lit).unassign_from lit) := by
  have h1 : sizes_frame s (s.pop_user_scope_literal lit) := by
    unfold pop_user_scope_literal
    have h0 : sizes_frame s
        { s with m_user_scope_literals := s.m_user_scope_literals.dropLast } := ⟨rfl, rfl, rfl⟩
    exact sizes_frame_trans (sizes_frame_trans h0 (sizes_frame_set_wlist_at _ _ _))
      (sizes_frame_set_wlist_at _ _ _)
  have h6 : ∀ q : solver, sizes_frame q (q.unassign_from lit) := by
    intro q
    unfold unassign_from
    split_ifs
    · exact sizes_frame_unassign_vars _ _
    · exact sizes_frame_refl _
  exact sizes_frame_trans (sizes_frame_trans (sizes_frame_trans (sizes_frame_trans
    (sizes_frame_trans h1 (sizes_frame_gc_lit_learned _ _)) (sizes_frame_gc_lit_clauses _ _))
    (sizes_frame_gc_bin _ _ _)) (sizes_frame_gc_bin _ _ _)) (h6 _)

/-- `gc_var` keeps the cut vectors aligned and the other ones long
enough. -/
theorem gc_var_aligned (s : solver) (v : bool_var) (ha : vars_aligned s)
    (hc : history_covers s) :
    vars_aligned (s.gc_var v) ∧ history_covers (s.gc_var v) ∧
      (s.gc_var v).m_scope_lvl = s.m_scope_lvl := by
  unfold gc_var
  generalize s.gc_var_bound v = w
  generalize hq : ({ s with m_user_bin_clauses :=
      if v > 0 then s.collect_bin_clauses false false else s.m_user_bin_clauses } : solver) = q
  have hqa : vars_aligned q := by rw [← hq]; exact ha
  have hqc : history_covers q := by rw [← hq]; exact hc
  have hqs : q.m_scope_lvl = s.m_scope_lvl := by rw [← hq]
  unfold vars_aligned var_sizes num_vars at hqa
  unfold history_covers history_sizes num_vars at hqc
  simp only [List.replicate, List.cons_append, List.nil_append, List.cons.injEq, and_true,
    List.mem_cons, List.mem_singleton, List.not_mem_nil, or_false, forall_eq_or_imp,
    forall_eq] at hqa hqc
  unfold shrink_vars
  split_ifs with h
  · refine ⟨?_, ?_, hqs⟩
    · obtain ⟨_, a1, a2, a3, a4, a5, a6, a7, a8, a9, a10, a11, a12⟩ := hqa
      unfold vars_aligned var_sizes num_vars
      simp only [List.replicate, List.cons_append, List.nil_append, List.cons.injEq, and_true,
        List.length_take, a1, a2, a3, a4, a5, a6, a7, a8, a9, a10, a11, a12,
        min_eq_left (Nat.le_of_lt h), min_eq_left (Nat.mul_le_mul_left 2 (Nat.le_of_lt h)),
        and_self]
    · obtain ⟨b1, b2, b3, b4, b5⟩ := hqc
      unfold history_covers history_sizes num_vars
      simp only [List.mem_cons, List.mem_singleton, List.not_mem_nil, or_false,
        forall_eq_or_imp, forall_eq, List.length_take, min_eq_left (Nat.le_of_lt h)]
      exact ⟨Nat.le_trans (Nat.le_of_lt h) b1, Nat.le_trans (Nat.le_of_lt h) b2,
        Nat.le_trans (Nat.le_of_lt h) b3, Nat.le_trans (Nat.le_of_lt h) b4,
        Nat.le_trans (Nat.le_of_lt h) b5⟩
  · refine ⟨?_, ?_, hqs⟩
    · unfold vars_aligned var_sizes num_vars
      simp only [List.replicate, List.cons_append, List.nil_append, List.cons.injEq, and_true]
      exact hqa
    · unfold history_covers history_sizes num_vars
      simp only [List.mem_cons, List.mem_singleton, List.not_mem_nil, or_false,
        forall_eq_or_imp, forall_eq]
      exact hqc

theorem aligned_of_sizes_frame {s s1 : solver} (h : sizes_frame s s1) (ha : vars_aligned s)
    (hc : history_covers s) : vars_aligned s1 ∧ history_covers s1 := by
  have hn : s1.num_vars = s.num_vars := by
    have h1 := h.1
    unfold var_sizes at h1
    simp only [List.cons.injEq] at h1
    exact h1.1
  unfold vars_aligned history_covers at *
  rw [h.1, h.2.1, hn]
  exact ⟨ha, hc⟩

theorem user_pop_scope_aligned (s : solver) (ha : vars_aligned s) (hc : history_covers s) :
    vars_aligned s.user_pop_scope ∧ history_covers s.user_pop_scope ∧
      s.user_pop_scope.m_scope_lvl = s.m_scope_lvl := by
  unfold user_pop_scope
  have h := sizes_frame_user_pop_prefix s (s.m_user_scope_literals.getLastD null_literal)
  obtain ⟨h1, h2⟩ := aligned_of_sizes_frame h ha hc
  obtain ⟨a, b, c⟩ := gc_var_aligned _ (s.m_user_scope_literals.getLastD null_literal).var h1 h2
  exact ⟨a, b, c.trans h.2.2⟩

theorem user_pop_loop_aligned (n : Nat) :
    ∀ s : solver, vars_aligned s → history_covers s →
      vars_aligned (user_pop_loop n s) ∧ history_covers (user_pop_loop n s) ∧
        (user_pop_loop n s).m_scope_lvl = s.m_scope_lvl := by
  induction n with
  | zero => intro s ha hc; exact ⟨ha, hc, rfl⟩
  | succ n ih =>
    intro s ha hc
    obtain ⟨a, b, c⟩ := user_pop_scope_aligned s ha hc
    obtain ⟨a1, b1, c1⟩ := ih s.user_pop_scope a b
    exact ⟨a1, b1, c1.trans c⟩

theorem mk_var_aligned (s : solver) (ext dvar : Bool) (ha : vars_aligned s)
    (hc : history_covers s) :
    vars_aligned (s.mk_var ext dvar).2 ∧ history_covers (s.mk_var ext dvar).2 ∧
      (s.mk_var ext dvar).2.m_scope_lvl = s.m_scope_lvl := by
  unfold vars_aligned var_sizes num_vars at ha
  unfold history_covers history_sizes num_vars at hc
  simp only [List.replicate, List.cons_append, List.nil_append, List.cons.injEq, and_true,
    List.mem_cons, List.mem_singleton, List.not_mem_nil, or_false, forall_eq_or_imp,
    forall_eq] at ha hc
  refine ⟨?_, ?_, rfl⟩
  · obtain ⟨_, a1, a2, a3, a4, a5, a6, a7, a8, a9, a10, a11, a12⟩ := ha
    unfold vars_aligned var_sizes num_vars mk_var
    simp only [List.replicate, List.cons_append, List.nil_append, List.cons.injEq, and_true,
      List.length_append, List.length_cons, List.length_nil, a1, a2, a3, a4, a5, a6, a7, a8,
      a9, a10, a11, a12, true_and]
    omega
  · obtain ⟨b1, b2, b3, b4, b5⟩ := hc
    unfold history_covers history_sizes num_vars mk_var
    simp only [List.mem_cons, List.mem_singleton, List.not_mem_nil, or_false,
      forall_eq_or_imp, forall_eq, List.length_append, List.length_cons, List.length_nil]
    exact ⟨by omega, by omega, by omega, by omega, by omega⟩

theorem run_var_op_aligned (s : solver) (op : var_op) (hb : s.m_scope_lvl = 0)
    (ha : vars_aligned s) (hc : history_covers s) :
    vars_aligned (run_var_op s op) ∧ history_covers (run_var_op s op) ∧
      (run_var_op s op).m_scope_lvl = 0 := by
  cases op with
  | mk_var ext dvar =>
    obtain ⟨a, b, c⟩ := mk_var_aligned s ext dvar ha hc
    exact ⟨a, b, c.trans hb⟩
  | user_push =>
    obtain ⟨a, b, c⟩ := mk_var_aligned s true false ha hc
    exact ⟨a, b, c.trans hb⟩
  | user_pop n =>
    have hp : s.pop_to_base_level = s.reset_assumptions := by
      unfold pop_to_base_level pop scope_lvl
      exact if_pos hb
    have he : run_var_op s (.user_pop n) = user_pop_loop n s.reset_assumptions := by
      show user_pop_loop n s.pop_to_base_level = _
      rw [hp]
    rw [he]
    obtain ⟨a, b, c⟩ := user_pop_loop_aligned n s.reset_assumptions ha hc
    exact ⟨a, b, c.trans hb⟩

/-- C37 fails in the code: `mk_var` extends `m_last_conflict`,
`m_last_propagation`, `m_participated`, `m_canceled` and `m_reasoned` together
with the other per-variable vectors, and `gc_var` cuts back the others only.
After `user_push` and `user_pop(1)` on the empty solver there is no variable
left, the vectors that `gc_var` cuts back are empty, and these five still
have one entry each. -/
theorem C37_arrays_aligned_counterexample :
    vars_aligned ({} : solver) ∧ history_aligned ({} : solver) ∧
    (run_var_ops {} [.user_push, .user_pop 1]).num_vars = 0 ∧
    vars_aligned (run_var_ops {} [.user_push, .user_pop 1]) ∧
    history_sizes (run_var_ops {} [.user_push, .user_pop 1]) = [1, 1, 1, 1, 1] ∧
    ¬ history_aligned (run_var_ops {} [.user_push, .user_pop 1]) := by
  decide

/-- C37, what the code keeps: starting from a solver at scope level 0
whose vectors are aligned, after any sequence of `mk_var`, `user_push` and
`user_pop` calls the vectors for level, justification, decision, eliminated,
external, activity, mark, phase, prev_phase and assigned_since_gc have length
`num_vars` and the assignment, watch and literal-mark vectors have length
`2 * num_vars`.  For the vectors last_conflict, last_propagation,
participated, canceled and reasoned, which `gc_var` omits to cut back, only
the bound remains: their length is at least `num_vars`. -/
theorem C37_arrays_aligned (s : solver) (ops : List var_op) (hb : s.m_scope_lvl = 0)
    (ha : vars_aligned s) (hc : history_covers s) :
    vars_aligned (run_var_ops s ops) ∧ history_covers (run_var_ops s ops) ∧
      (run_var_ops s ops).m_scope_lvl = 0 := by
  unfold run_var_ops
  induction ops generalizing s with
  | nil => exact ⟨ha, hc, hb⟩
  | cons op ops ih =>
    obtain ⟨a, b, c⟩ := run_var_op_aligned s op hb ha hc
    exact ih (run_var_op s op) c a b

/-- C37 at a concrete run: the empty solver after `user_push`, `mk_var`,
`user_push` and `user_pop(1)`. -/
theorem C37_arrays_aligned_witness :
    (run_var_ops {} [.user_push, .mk_var false true, .user_push, .user_pop 1]).num_vars = 2 ∧
    (vars_aligned (run_var_ops {} [.user_push, .mk_var false true, .user_push, .user_pop 1]) ∧
      history_covers
        (run_var_ops {} [.user_push, .mk_var false true, .user_push, .user_pop 1]) ∧
      (run_var_ops {} [.user_push, .mk_var false true, .user_push, .user_pop 1]).m_scope_lvl
        = 0) :=
  ⟨by decide, C37_arrays_aligned {} [.user_push, .mk_var false true, .user_push, .user_pop 1]
    rfl (by decide) (by decide)⟩

/-! ## Phase forgetting on conflict -/

theorem mem_drop_iff_getD {α : Type} (xs : List α) (n : Nat) (d x : α) :
    x ∈ xs.drop n ↔ ∃ i, n ≤ i ∧ i < xs.length ∧ xs.getD i d = x := by
  constructor
  · intro h
    obtain ⟨i, hi, he⟩ := List.getElem_of_mem h
    rw [List.getElem_drop] at he
    rw [List.length_drop] at hi
    exact ⟨n + i, Nat.le_add_right _ _, by omega,
      by rw [List.getD_eq_getElem _ _ (by omega)]; exact he⟩
  · rintro ⟨i, h1, h2, h3⟩
    rw [List.getD_eq_getElem _ _ h2] at h3
    rw [← h3]
    have h4 : i - n < (xs.drop n).length := by rw [List.length_drop]; omega
    have h5 : (xs.drop n)[i - n] = xs[i] := by
      rw [List.getElem_drop]
      congr 1
      omega
    rw [← h5]
    exact List.getElem_mem h4

theorem foldl_forget_phase_getD (ls : List literal) :
    ∀ (s : solver) (v : bool_var) (d : phase),
      (ls.foldl forget_phase s).m_phase.getD v d =
        if v < s.m_phase.length ∧ ∃ l ∈ ls, l.var = v then phase.PHASE_NOT_AVAILABLE
        else s.m_phase.getD v d := by
  induction ls with
  | nil => intro s v d; simp
  | cons a ls ih =>
    intro s v d
    rw [List.foldl_cons, ih]
    have hlen : (s.forget_phase a).m_phase.length = s.m_phase.length := by
      simp [forget_phase]
    have hget : (s.forget_phase a).m_phase.getD v d =
        if a.var = v ∧ a.var < s.m_phase.length then phase.PHASE_NOT_AVAILABLE
        else s.m_phase.getD v d := by
      unfold forget_phase
      exact getD_set _ _ _ _ _
    rw [hlen, hget]
    by_cases hv : v < s.m_phase.length
    · by_cases h1 : ∃ l ∈ ls, l.var = v
      · obtain ⟨l, hl, he⟩ := h1
        rw [if_pos ⟨hv, l, hl, he⟩, if_pos ⟨hv, l, List.mem_cons_of_mem _ hl, he⟩]
      · rw [if_neg (fun h => h1 h.2)]
        by_cases h2 : a.var = v
        · rw [if_pos ⟨h2, by rw [h2]; exact hv⟩, if_pos ⟨hv, a, List.mem_cons_self _ _, h2⟩]
        · rw [if_neg (fun h => h2 h.1), if_neg]
          rintro ⟨_, l, hl, he⟩
          rcases List.mem_cons.1 hl with h3 | h3
          · exact h2 (by rw [← h3]; exact he)
          · exact h1 ⟨l, h3, he⟩
    · rw [if_neg (fun h => hv h.1), if_neg (fun h => hv (by rw [← h.1]; exact h.2)),
        if_neg (fun h => hv h.1)]

/-- With a scope stack that matches the levels, the trail entries from the
snapshot of scope `k` on are the trail literals of a level above `k`. -/
theorem scope_inv_mem_drop (s : solver) (k : Nat) (hsc : scope_inv s) (hk : k < s.m_scope_lvl)
    (l : literal) :
    l ∈ s.m_trail.drop (s.m_scopes.getD k ⟨0, 0, false⟩).m_trail_lim ↔
      l ∈ s.m_trail ∧ k < s.lvl l := by
  have hk1 : k < s.m_scopes.length := by rw [hsc.1]; exact hk
  rw [mem_drop_iff_getD _ _ null_literal]
  constructor
  · rintro ⟨i, h1, h2, h3⟩
    have h4 := hsc.2 k hk1 i h2
    rw [h3] at h4
    refine ⟨?_, ?_⟩
    · rw [← h3, List.getD_eq_getElem _ _ h2]
      exact List.getElem_mem h2
    · by_contra h5
      exact absurd (h4.2 (Nat.le_of_not_lt h5)) (Nat.not_lt.2 h1)
  · rintro ⟨h1, h2⟩
    obtain ⟨i, hi, he⟩ := List.getElem_of_mem h1
    have h4 := hsc.2 k hk1 i hi
    rw [List.getD_eq_getElem _ _ hi, he] at h4
    refine ⟨i, ?_, hi, by rw [List.getD_eq_getElem _ _ hi]; exact he⟩
    by_contra h5
    exact absurd (h4.1 (Nat.lt_of_not_le h5)) (Nat.not_le.2 h2)

/-- Counting the conflict and setting its level leaves the trail, the scopes,
the levels and the phases as they are. -/
theorem conflict_lvl_frame (E : collaborators) (s : solver) :
    (s.count_conflict.set_conflict_lvl E).m_trail = s.m_trail ∧
    (s.count_conflict.set_conflict_lvl E).m_scopes = s.m_scopes ∧
    (s.count_conflict.set_conflict_lvl E).m_scope_lvl = s.m_scope_lvl ∧
    (s.count_conflict.set_conflict_lvl E).m_level = s.m_level ∧
    (s.count_conflict.set_conflict_lvl E).m_phase = s.m_phase := by
  unfold set_conflict_lvl get_max_lvl
  split_ifs
  · exact ⟨rfl, rfl, rfl, rfl, rfl⟩
  · split <;> exact ⟨rfl, rfl, rfl, rfl, rfl⟩

/-- The claim as it stands fails: in `example_deep_conflict` the conflict is
at level 3 and the lemma `¬x2 ∨ ¬x0` sends the solver back to level 1.  The
variable `x1`, assigned at level 2, is on the trail before the call and
unassigned after it, and its cached phase is never set to "not available":
it is positive before the call, when the analysis starts and after the
call. -/
theorem C33_phase_forgetting_counterexample :
    (⟨2⟩ : literal) ∈ example_deep_conflict.m_trail ∧
    example_deep_conflict.m_phase.getD 1 .PHASE_NOT_AVAILABLE = .POS_PHASE ∧
    (example_deep_conflict.resolve_conflict_enter {}).m_phase =
      [.POS_PHASE, .POS_PHASE, .PHASE_NOT_AVAILABLE, .PHASE_NOT_AVAILABLE] ∧
    (resolve_conflict_core {} 10 example_deep_conflict).map
        (fun r => (r.1, r.2.m_scope_lvl, r.2.m_trail, r.2.value ⟨2⟩, r.2.m_phase)) =
      some (true, 1, [⟨0⟩, ⟨5⟩], lbool.l_undef,
        [.POS_PHASE, .POS_PHASE, .NEG_PHASE, .PHASE_NOT_AVAILABLE]) := by
  decide

/-- C33, amended: `resolve_conflict_core`, when it goes on to learn a
lemma, starts the analysis in the state left by
`forget_phase_of_vars(m_conflict_lvl)`.  With a scope stack that matches the
levels, this sets the cached phase to "not available" for exactly the
variables of the trail literals assigned at the conflict level or above,
and leaves every other phase as it is.  The backjump, run in a state `s1`
with the same trail, scopes and assignment, hands the trail
literals of a level above `new_scope_lvl` to `unassign_vars`: exactly these
become unassigned before the reinit stack is replayed.  As `new_scope_lvl`
is below the conflict level, every variable whose phase was forgotten is
unassigned, and the variables assigned at a level above `new_scope_lvl` and
below the conflict level are unassigned and keep their cached phase. -/
theorem C33_phase_forgetting (E : collaborators) (s s1 : solver) (fuel : Nat) (d : phase)
    (hsc : scope_inv s)
    (h1 : 1 ≤ (s.count_conflict.set_conflict_lvl E).m_conflict_lvl)
    (h2 : (s.count_conflict.set_conflict_lvl E).m_conflict_lvl ≤ s.m_scope_lvl)
    (hlt : s.m_scope_lvl < 4294967296)
    (ht : s1.m_trail = s.m_trail) (hs : s1.m_scopes = s.m_scopes)
    (hv : s1.m_scope_lvl = s.m_scope_lvl) (ha : s1.m_assignment = s.m_assignment)
    (hk : s1.new_scope_lvl < (s.count_conflict.set_conflict_lvl E).m_conflict_lvl) :
    (¬((s.count_conflict.set_conflict_lvl E).m_conflict_lvl ≤ 1 ∧
        (s.count_conflict.set_conflict_lvl E).tracking_assumptions = true) →
      resolve_conflict_core E fuel s = resolve_conflict_ext E fuel (s.resolve_conflict_enter E)) ∧
    (∀ v, (s.resolve_conflict_enter E).m_phase.getD v d =
      if v < s.m_phase.length ∧ ∃ l ∈ s.m_trail, l.var = v ∧
          (s.count_conflict.set_conflict_lvl E).m_conflict_lvl ≤ s.lvl l then
        phase.PHASE_NOT_AVAILABLE
      else s.m_phase.getD v d) ∧
    s1.backjump = ((((s1.num_diff_levels s1.m_lemma).2.reset_inconsistent.unassign_vars
        ((s1.num_diff_levels s1.m_lemma).2.pop_scope s1.backjump_scopes).m_trail_lim).shrink_scopes
        s1.backjump_scopes
        ((s1.num_diff_levels s1.m_lemma).2.scope_lvl - s1.backjump_scopes)).reinit_clauses
        ((s1.num_diff_levels s1.m_lemma).2.pop_scope
          s1.backjump_scopes).m_clauses_to_reinit_lim).reinit_assumptions ∧
    (∀ l, l ∈ s1.m_trail.drop
        ((s1.num_diff_levels s1.m_lemma).2.pop_scope s1.backjump_scopes).m_trail_lim ↔
      l ∈ s.m_trail ∧ s1.new_scope_lvl < s.lvl l) ∧
    (∀ x, (((s1.num_diff_levels s1.m_lemma).2.reset_inconsistent.unassign_vars
        ((s1.num_diff_levels s1.m_lemma).2.pop_scope s1.backjump_scopes).m_trail_lim).shrink_scopes
        s1.backjump_scopes
        ((s1.num_diff_levels s1.m_lemma).2.scope_lvl - s1.backjump_scopes)).value x =
      if ∃ l ∈ s.m_trail, s1.new_scope_lvl < s.lvl l ∧ (x = l ∨ x = l.neg) then lbool.l_undef
      else s.value x) ∧
    (∀ l ∈ s.m_trail, (s.count_conflict.set_conflict_lvl E).m_conflict_lvl ≤ s.lvl l →
      s1.new_scope_lvl < s.lvl l) := by
  obtain ⟨f1, f2, f3, f4, f5⟩ := conflict_lvl_frame E s
  generalize hc : (s.count_conflict.set_conflict_lvl E).m_conflict_lvl = c at h1 h2 hk ⊢
  have hnew : s1.new_scope_lvl < s.m_scope_lvl := Nat.lt_of_lt_of_le hk h2
  have hbs : s1.backjump_scopes = s1.m_scope_lvl - s1.new_scope_lvl := by
    unfold backjump_scopes
    rw [hv, Nat.mod_eq_of_lt (Nat.lt_trans hnew hlt)]
    omega
  have hn0 : s1.backjump_scopes ≠ 0 := by rw [hbs, hv]; omega
  have hlim : ((s1.num_diff_levels s1.m_lemma).2.pop_scope s1.backjump_scopes).m_trail_lim =
      (s.m_scopes.getD s1.new_scope_lvl ⟨0, 0, false⟩).m_trail_lim := by
    show ((s1.m_scopes.getD (s1.m_scope_lvl - s1.backjump_scopes) ⟨0, 0, false⟩)).m_trail_lim = _
    rw [hbs, hs, hv, show s.m_scope_lvl - (s.m_scope_lvl - s1.new_scope_lvl) = s1.new_scope_lvl
      by omega]
  have hdrop : ∀ l, l ∈ s1.m_trail.drop
      ((s1.num_diff_levels s1.m_lemma).2.pop_scope s1.backjump_scopes).m_trail_lim ↔
      l ∈ s.m_trail ∧ s1.new_scope_lvl < s.lvl l := by
    intro l
    rw [hlim, ht]
    exact scope_inv_mem_drop s s1.new_scope_lvl hsc hnew l
  refine ⟨?_, ?_, ?_, hdrop, ?_, fun l _ h => Nat.lt_of_lt_of_le hk h⟩
  · intro hb
    unfold resolve_conflict_core resolve_conflict_enter
    rw [hc, if_neg hb, if_neg (show ¬ c = 0 by omega)]
  · intro v
    unfold resolve_conflict_enter forget_phase_of_vars
    rw [foldl_forget_phase_getD, hc, f5, f1, f2, if_neg (show ¬ c = 0 by omega)]
    have hm := scope_inv_mem_drop s (c - 1) hsc (by omega)
    by_cases hvl : v < s.m_phase.length
    · by_cases hex : ∃ l ∈ s.m_trail, l.var = v ∧ c ≤ s.lvl l
      · obtain ⟨l, hl1, hl2, hl3⟩ := hex
        rw [if_pos ⟨hvl, l, (hm l).2 ⟨hl1, by omega⟩, hl2⟩,
          if_pos ⟨hvl, l, hl1, hl2, hl3⟩]
      · have hex1 : ¬ (v < s.m_phase.length ∧ ∃ l ∈ s.m_trail.drop
            (s.m_scopes.getD (c - 1) ⟨0, 0, false⟩).m_trail_lim, l.var = v) := by
          rintro ⟨_, l, hl1, hl2⟩
          obtain ⟨hl3, hl4⟩ := (hm l).1 hl1
          exact hex ⟨l, hl3, hl2, by omega⟩
        rw [if_neg hex1, if_neg (fun h => hex h.2)]
    · rw [if_neg (fun h => hvl h.1), if_neg (fun h => hvl h.1)]
  · unfold backjump pop_reinit
    rw [pop_eq _ _ hn0]
  · intro x
    obtain ⟨_, _, _, _, _, _, _, pvalue⟩ := pop_before_reinit (s1.num_diff_levels s1.m_lemma).2
      s1.backjump_scopes
      ((s1.num_diff_levels s1.m_lemma).2.pop_scope s1.backjump_scopes).m_trail_lim
      ((s1.num_diff_levels s1.m_lemma).2.scope_lvl - s1.backjump_scopes)
    rw [pvalue x]
    have hval : (s1.num_diff_levels s1.m_lemma).2.value x = s.value x := by
      show s1.m_assignment.getD x.index lbool.l_undef = s.m_assignment.getD x.index lbool.l_undef
      rw [ha]
    have htr : (s1.num_diff_levels s1.m_lemma).2.m_trail = s1.m_trail := rfl
    rw [hval, htr]
    by_cases hex : ∃ l ∈ s.m_trail, s1.new_scope_lvl < s.lvl l ∧ (x = l ∨ x = l.neg)
    · obtain ⟨l, hl1, hl2, hl3⟩ := hex
      rw [if_pos ⟨l, (hdrop l).2 ⟨hl1, hl2⟩, hl3⟩, if_pos ⟨l, hl1, hl2, hl3⟩]
    · have hex1 : ¬ ∃ l ∈ s1.m_trail.drop
          ((s1.num_diff_levels s1.m_lemma).2.pop_scope s1.backjump_scopes).m_trail_lim,
          x = l ∨ x = l.neg := by
        rintro ⟨l, hl1, hl3⟩
        obtain ⟨hl4, hl5⟩ := (hdrop l).1 hl1
        exact hex ⟨l, hl4, hl5, hl3⟩
      rw [if_neg hex1, if_neg hex]

/-- C33 at a concrete conflict: `example_deep_conflict`, with the lemma
prepared in `example_deep_prepared`; the backjump goes from level 3 to
level 1. -/
theorem C33_phase_forgetting_witness :
    example_deep_prepared.new_scope_lvl = 1 ∧
    (example_deep_conflict.count_conflict.set_conflict_lvl {}).m_conflict_lvl = 3 ∧
    (∀ l ∈ example_deep_conflict.m_trail,
      (example_deep_conflict.count_conflict.set_conflict_lvl {}).m_conflict_lvl ≤
        example_deep_conflict.lvl l →
      example_deep_prepared.new_scope_lvl < example_deep_conflict.lvl l) :=
  ⟨by decide, by decide,
    (C33_phase_forgetting {} example_deep_conflict example_deep_prepared 10 .POS_PHASE
      (by unfold scope_inv; decide) (by decide) (by decide) (by decide) (by decide)
      (by decide) (by decide) (by decide) (by decide)).2.2.2.2.2⟩

/-! ## `implied_by_marked` and the marks -/

theorem mark_ext_refl (s : solver) : mark_ext s s :=
  ⟨rfl, rfl, rfl, ⟨[], by simp, fun v hv => Or.inl hv, fun v hv => (by cases hv)⟩,
    fun v hv => hv⟩

/-- A step that leaves levels, level set, marks and `m_unmark` alone keeps
the relation. -/
theorem mark_ext_congr {s0 s s1 : solver} (h : mark_ext s0 s) (h1 : s1.m_level = s.m_level)
    (h2 : s1.m_lvl_set = s.m_lvl_set) (h3 : s1.m_mark = s.m_mark)
    (h4 : s1.m_unmark = s.m_unmark) : mark_ext s0 s1 := by
  have hm : ∀ v, s1.is_marked v = s.is_marked v := fun v => by unfold is_marked; rw [h3]
  obtain ⟨extra, e1, e2, e3⟩ := h.unmark
  exact ⟨h1.trans h.level, h2.trans h.lvl_set, by rw [h3]; exact h.mark_len,
    ⟨extra, by rw [h4]; exact e1, fun v hv => e2 v (by rw [← hm]; exact hv), e3⟩,
    fun v hv => by rw [hm]; exact h.mono v hv⟩

theorem mark_ext_process_antecedent (s0 s : solver) (a : literal) (h : mark_ext s0 s) :
    mark_ext s0 (s.process_antecedent_for_minimization a).2 := by
  have hlv : s.lvl_var a.var = s0.lvl_var a.var := by unfold lvl_var; rw [h.level]
  unfold process_antecedent_for_minimization
  split_ifs with h1 h2
  · simp only [Bool.and_eq_true, Bool.not_eq_true', decide_eq_true_eq] at h1
    obtain ⟨extra, e1, e2, e3⟩ := h.unmark
    have hm0 : s0.is_marked a.var = false := by
      cases hx : s0.is_marked a.var
      · rfl
      · rw [h.mono _ hx] at h1; cases h1.1
    refine ⟨h.level, h.lvl_set, ?_, ⟨extra ++ [a.var], ?_, ?_, ?_⟩, ?_⟩
    · show (s.m_mark.set a.var true).length = _
      rw [List.length_set]; exact h.mark_len
    · show s.m_unmark ++ [a.var] = _
      rw [e1, List.append_assoc]
    · intro v hv
      have hv1 : (s.mark a.var).is_marked v = true := hv
      rw [is_marked_mark] at hv1
      split_ifs at hv1 with h3
      · exact Or.inr (List.mem_append.2 (Or.inr (by rw [h3.1]; exact List.mem_singleton_self _)))
      · rcases e2 v hv1 with h4 | h4
        · exact Or.inl h4
        · exact Or.inr (List.mem_append.2 (Or.inl h4))
    · intro v hv
      rcases List.mem_append.1 hv with h3 | h3
      · exact e3 v h3
      · rw [List.mem_singleton] at h3
        rw [h3]
        refine ⟨hm0, by rw [← hlv]; exact h1.2, ?_⟩
        rw [← hlv, ← h.lvl_set]
        exact h2
    · intro v hv
      show (s.mark a.var).is_marked v = true
      rw [is_marked_mark]
      split_ifs
      · rfl
      · exact h.mono v hv
  · exact h
  · exact h

theorem mark_ext_process_antecedents (s0 : solver) (xs : List literal) :
    ∀ s, mark_ext s0 s → mark_ext s0 (process_antecedents_for_minimization s xs).2 := by
  induction xs with
  | nil => intro s h; exact h
  | cons a rest ih =>
    intro s h
    unfold process_antecedents_for_minimization
    split_ifs
    · exact ih _ (mark_ext_process_antecedent s0 s a h)
    · exact mark_ext_process_antecedent s0 s a h

theorem mark_ext_step (E : collaborators) (s0 s : solver) (var : bool_var) (h : mark_ext s0 s) :
    mark_ext s0 (implied_by_marked_step E s.pop_lemma_min_stack var).2 := by
  unfold implied_by_marked_step
  apply mark_ext_process_antecedents
  have h1 : mark_ext s0 s.pop_lemma_min_stack := mark_ext_congr h rfl rfl rfl rfl
  exact mark_ext_congr h1 (fill_minimization_antecedents_frame E _ _ _).level (by simp)
    (by simp) (by simp)

/-- Leaving `implied_by_marked` with a failure: `reset_unmark(old_size)`
restores the marks and `m_unmark` of the state the call started in. -/
theorem mark_ext_reset (s0 s : solver) (h : mark_ext s0 s) :
    (s.reset_unmark s0.m_unmark.length).m_mark = s0.m_mark ∧
    (s.reset_unmark s0.m_unmark.length).m_unmark = s0.m_unmark := by
  obtain ⟨extra, e1, e2, e3⟩ := h.unmark
  obtain ⟨q1, q2, _, _, _, _, _, q8⟩ := reset_unmark_spec s s0.m_unmark.length
  refine ⟨?_, by rw [q2, e1]; simp⟩
  apply m_mark_ext _ _ (by rw [q1]; exact h.mark_len)
  intro v
  rw [q8, e1, List.drop_left]
  split_ifs with h1
  · exact ((e3 v h1).1).symm
  · cases hx : s.is_marked v
    · cases hy : s0.is_marked v
      · rfl
      · rw [h.mono v hy] at hx; cases hx
    · rcases e2 v hx with h2 | h2
      · exact h2.symm
      · exact absurd h2 h1

theorem implied_by_marked_loop_marks (E : collaborators) (s0 : solver) :
    ∀ (fuel : Nat) (s : solver) (b : Bool) (r : solver), mark_ext s0 s →
      implied_by_marked_loop E s0.m_unmark.length fuel s = some (b, r) →
      (b = false → r.m_mark = s0.m_mark ∧ r.m_unmark = s0.m_unmark) ∧
      (b = true → mark_ext s0 r) := by
  intro fuel
  induction fuel with
  | zero => intro s b r _ h; cases h
  | succ n ih =>
    intro s b r hinv h
    unfold implied_by_marked_loop at h
    split at h
    · simp only [Option.some.injEq, Prod.mk.injEq] at h
      obtain ⟨rfl, rfl⟩ := h
      exact ⟨fun hb => (by cases hb), fun _ => hinv⟩
    · rename_i var rest hst
      split_ifs at h with h1 h2
      · simp only [Option.some.injEq, Prod.mk.injEq] at h
        obtain ⟨rfl, rfl⟩ := h
        refine ⟨fun _ => ?_, fun hb => (by cases hb)⟩
        exact mark_ext_reset s0 _ (mark_ext_congr hinv rfl rfl rfl rfl)
      · exact ih _ b r (mark_ext_step E s0 s var hinv) h
      · simp only [Option.some.injEq, Prod.mk.injEq] at h
        obtain ⟨rfl, rfl⟩ := h
        refine ⟨fun _ => ?_, fun hb => (by cases hb)⟩
        exact mark_ext_reset s0 _ (mark_ext_step E s0 s var hinv)

/-- C39: `implied_by_marked` is mark-neutral on failure.  When
`implied_by_marked(lit)` returns false, the mark vector and the unmark stack
are exactly what they were before the call.  When it returns true, the unmark
stack has grown by the variables the call marked: every marked variable was
marked before or is one of them, nothing lost its mark, and each of them was
unmarked before, has a level above 0 and a level that the level set of the
lemma may contain.  Without an extension, with the antecedents inside the
mark vector and a bound above twice the number of unmarked variables plus
one, the call returns. -/
theorem C39_implied_by_marked_marks (E : collaborators) (fuel : Nat) (s : solver)
    (lit : literal) (b : Bool) (r : solver)
    (h : s.implied_by_marked E fuel lit = some (b, r)) :
    (b = false → r.m_mark = s.m_mark ∧ r.m_unmark = s.m_unmark) ∧
    (b = true → ∃ extra, r.m_unmark = s.m_unmark ++ extra ∧
      (∀ v, r.is_marked v = true → s.is_marked v = true ∨ v ∈ extra) ∧
      (∀ v, s.is_marked v = true → r.is_marked v = true) ∧
      (∀ v ∈ extra, s.is_marked v = false ∧ 0 < s.lvl_var v ∧
        lvl_set_may_contain s.m_lvl_set (s.lvl_var v) = true)) ∧
    (E.m_ext = none → (∀ v a, a ∈ min_antecedents E s v → a.var < s.m_mark.length) →
      ∀ fuel1, 2 * s.unmarked_count + 1 < fuel1 →
        ∃ r1, s.implied_by_marked E fuel1 lit = some r1) := by
  unfold implied_by_marked at h
  have hinit : mark_ext s (s.init_lemma_min_stack lit.var) :=
    mark_ext_congr (mark_ext_refl s) rfl rfl rfl rfl
  obtain ⟨h1, h2⟩ := implied_by_marked_loop_marks E s fuel _ b r hinit h
  refine ⟨h1, ?_, ?_⟩
  · intro hb
    obtain ⟨extra, e1, e2, e3⟩ := (h2 hb).unmark
    exact ⟨extra, e1, e2, (h2 hb).mono, e3⟩
  · intro hE hwf fuel1 hf
    exact implied_by_marked_loop_terminates E hE s s.m_unmark.length hwf fuel1
      (s.init_lemma_min_stack lit.var) (init_lemma_min_stack_frame s _) rfl (by
        have : (s.init_lemma_min_stack lit.var).unmarked_count = s.unmarked_count := rfl
        rw [this]
        simp only [init_lemma_min_stack, List.length_singleton]
        omega)

/-- C39 at a concrete call: in `example_lemma`, with the lemma
`¬c ∨ ¬b ∨ ¬a`, the literal `¬a` is not implied (`a` is a decision), and the
call leaves the marks and the unmark stack as they were. -/
theorem C39_implied_by_marked_marks_witness :
    (example_implied.1.implied_by_marked {} 10 ⟨1⟩).map Prod.fst = some false ∧
    example_implied.2.m_mark = example_implied.1.m_mark ∧
    example_implied.2.m_unmark = example_implied.1.m_unmark :=
  ⟨by decide,
    (C39_implied_by_marked_marks {} 10 example_implied.1 ⟨1⟩ false example_implied.2 rfl).1 rfl⟩

/-! ## The scope stack -/

theorem scope_reachable_of_ext {s s1 : solver} (h : scope_reachable s) (he : assign_ext s s1) :
    scope_reachable s1 := by
  obtain ⟨extra, hx⟩ := he.trail
  exact .step s s1 h he.scopes he.scope_lvl (by rw [hx]; simp)

theorem trail_lim_take (s : solver) (ms : List scope) (k j : Nat) (hj : j < k)
    (hms : ms = s.m_scopes.take k) :
    (ms.getD j ⟨0, 0, false⟩).m_trail_lim = s.trail_lim j := by
  unfold trail_lim
  rw [hms]
  simp only [List.getD_eq_getElem?_getD]
  rw [List.getElem?_take_of_lt hj]

theorem scopes_sorted_push (s : solver) (h : scopes_sorted s) : scopes_sorted s.push := by
  obtain ⟨h1, h2, h3⟩ := h
  have hlim : ∀ k, k < s.m_scopes.length → s.push.trail_lim k = s.trail_lim k := by
    intro k hk
    unfold trail_lim push
    simp only [List.getD_eq_getElem?_getD]
    rw [List.getElem?_append_left hk]
  have hlast : s.push.trail_lim s.m_scopes.length = s.m_trail.length := by
    unfold trail_lim push
    simp [List.getD_eq_getElem?_getD]
  have hlen : s.push.m_scopes.length = s.m_scopes.length + 1 := by simp [push]
  refine ⟨by rw [hlen, h1]; rfl, ?_, ?_⟩
  · intro i j hij hj
    rw [hlen] at hj
    by_cases hj1 : j < s.m_scopes.length
    · rw [hlim i (by omega), hlim j hj1]
      exact h2 i j hij hj1
    · have hj2 : j = s.m_scopes.length := by omega
      rw [hj2, hlast]
      by_cases hi1 : i < s.m_scopes.length
      · rw [hlim i hi1]; exact h3 i hi1
      · have hi2 : i = s.m_scopes.length := by omega
        rw [hi2, hlast]
  · intro k hk
    rw [hlen] at hk
    show _ ≤ s.m_trail.length
    by_cases hk1 : k < s.m_scopes.length
    · rw [hlim k hk1]; exact h3 k hk1
    · have hk2 : k = s.m_scopes.length := by omega
      rw [hk2, hlast]

theorem scopes_sorted_pop (s : solver) (n : Nat) (h : scopes_sorted s) (hn : n ≤ s.m_scope_lvl) :
    scopes_sorted (s.pop n) := by
  by_cases h0 : n = 0
  · subst h0; rw [pop_zero]; exact h
  · obtain ⟨h1, h2, h3⟩ := h
    rw [pop_eq s n h0]
    obtain ⟨ptrail, _, plvl, pscopes, _, _, _, _⟩ :=
      pop_before_reinit s n (s.pop_scope n).m_trail_lim (s.scope_lvl - n)
    have hext := assign_ext_reinit_clauses
      ((s.reset_inconsistent.unassign_vars (s.pop_scope n).m_trail_lim).shrink_scopes n
        (s.scope_lvl - n)) (s.pop_scope n).m_clauses_to_reinit_lim
    generalize ((s.reset_inconsistent.unassign_vars (s.pop_scope n).m_trail_lim).shrink_scopes n
        (s.scope_lvl - n)) = pb at ptrail plvl pscopes hext
    generalize pb.reinit_clauses (s.pop_scope n).m_clauses_to_reinit_lim = r at hext
    obtain ⟨extra, hx⟩ := hext.trail
    have hk : s.scope_lvl - n < s.m_scopes.length := by
      unfold scope_lvl; omega
    have hlimk : (s.pop_scope n).m_trail_lim = s.trail_lim (s.scope_lvl - n) := rfl
    have hrs : r.m_scopes = s.m_scopes.take (s.scope_lvl - n) := by
      rw [hext.scopes, pscopes]
    have hrlen : r.m_scopes.length = s.scope_lvl - n := by
      rw [hrs, List.length_take]; omega
    have hrlim : ∀ j, j < s.scope_lvl - n → r.trail_lim j = s.trail_lim j := by
      intro j hj
      exact trail_lim_take s r.m_scopes (s.scope_lvl - n) j hj hrs
    refine ⟨?_, ?_, ?_⟩
    · rw [hrlen, hext.scope_lvl, plvl]; rfl
    · intro i j hij hj
      rw [hrlen] at hj
      rw [hrlim i (by omega), hrlim j hj]
      exact h2 i j hij (by omega)
    · intro k hk1
      rw [hrlen] at hk1
      rw [hrlim k hk1, hx, ptrail, List.length_append, List.length_take, hlimk]
      have ha := h2 k (s.scope_lvl - n) (by omega) hk
      have hb := h3 (s.scope_lvl - n) hk
      omega

theorem scopes_sorted_of_reachable (s : solver) (h : scope_reachable s) : scopes_sorted s := by
  induction h with
  | init s h1 h2 =>
    refine ⟨by rw [h1, h2]; rfl, ?_, ?_⟩
    · intro i j _ hj; rw [h1] at hj; cases hj
    · intro k hk; rw [h1] at hk; cases hk
  | push s _ ih => exact scopes_sorted_push s ih
  | pop s n _ hn ih => exact scopes_sorted_pop s n ih hn
  | step s s1 _ h1 h2 h3 ih =>
    obtain ⟨a, b, c⟩ := ih
    have hlim : ∀ k, s1.trail_lim k = s.trail_lim k := fun k => by unfold trail_lim; rw [h1]
    refine ⟨by rw [h1, h2]; exact a, ?_, ?_⟩
    · intro i j hij hj
      rw [h1] at hj
      rw [hlim, hlim]
      exact b i j hij hj
    · intro k hk
      rw [h1] at hk
      rw [hlim]
      exact Nat.le_trans (c k hk) h3

/-! ### The operations of the solver stay inside the reachable states -/

theorem scope_reachable_assign (s : solver) (l : literal) (j : justification)
    (h : scope_reachable s) : scope_reachable (s.assign l j) :=
  scope_reachable_of_ext h (assign_ext_assign s l j)

theorem scope_reachable_assign_each (s : solver) (lits : List literal)
    (h : scope_reachable s) : scope_reachable (s.assign_each lits) :=
  scope_reachable_of_ext h (assign_ext_assign_each lits s)

theorem scope_reachable_mk_var (s : solver) (ext dvar : Bool) (h : scope_reachable s) :
    scope_reachable (s.mk_var ext dvar).2 :=
  .step s _ h rfl rfl (Nat.le_refl _)

theorem scope_reachable_reinit_assumptions (s : solver) (h : scope_reachable s) :
    scope_reachable s.reinit_assumptions := by
  unfold reinit_assumptions
  split_ifs
  · exact scope_reachable_assign_each _ _ (scope_reachable_assign_each _ _ (.push s h))
  · exact h

theorem scope_reachable_pop_reinit (s : solver) (n : Nat) (h : scope_reachable s)
    (hn : n ≤ s.m_scope_lvl) : scope_reachable (s.pop_reinit n) :=
  scope_reachable_reinit_assumptions _ (.pop s n h hn)

theorem propagate_watch_scopes {ext : ext_propagate} (hext : ext_scopes ext) (update : Bool)
    (s : solver) (l : literal) (w : watched) :
    (propagate_watch ext update s l w).1.m_scopes = s.m_scopes ∧
    (propagate_watch ext update s l w).1.m_scope_lvl = s.m_scope_lvl := by
  cases w with
  | binary l1 learned =>
    simp only [propagate_watch, propagate_binary]
    split <;> simp
  | ternary l1 l2 =>
    simp only [propagate_watch, propagate_ternary]
    split
    · simp
    · split
      · simp
      · split <;> simp
  | clause blocked off =>
    simp only [propagate_watch, propagate_clause]
    split
    · simp
    · generalize (s.get_clause off).swap_watch l.neg = c
      split
      · simp
      · unfold propagate_clause_watched
        split
        · simp
        · split
          · simp [propagate_clause_replace]
          · unfold propagate_clause_unit
            split <;> simp
  | ext_constraint idx =>
    simp only [propagate_watch, propagate_ext]
    split
    · exact hext _ _ _
    · split <;> exact hext _ _ _

theorem propagate_wlist_scopes {ext : ext_propagate} (hext : ext_scopes ext) (update : Bool)
    (l : literal) (rest : List watched) :
    ∀ (s : solver) (kept : List watched),
      (propagate_wlist ext update l s kept rest).2.m_scopes = s.m_scopes ∧
      (propagate_wlist ext update l s kept rest).2.m_scope_lvl = s.m_scope_lvl := by
  induction rest with
  | nil => intro s kept; simp [propagate_wlist]
  | cons w rest ih =>
    intro s kept
    have hf := propagate_watch_scopes hext update s l w
    unfold propagate_wlist
    rcases hstep : propagate_watch ext update s l w with ⟨s1, o⟩
    rw [hstep] at hf
    simp only at hf
    obtain ⟨f1, f2⟩ := hf
    cases o with
    | keep w1 =>
      simp only
      obtain ⟨g1, g2⟩ := ih s1 (kept ++ [w1])
      exact ⟨g1.trans f1, g2.trans f2⟩
    | drop =>
      simp only
      obtain ⟨g1, g2⟩ := ih s1 kept
      exact ⟨g1.trans f1, g2.trans f2⟩
    | conflict skip c =>
      cases c with
      | none => simp [f1, f2]
      | some jc => simp [f1, f2]

theorem propagate_loop_scopes {ext : ext_propagate} (hext : ext_ok ext) (hsc : ext_scopes ext)
    (update : Bool) :
    ∀ (fuel : Nat) (s : solver) (r : Bool) (s1 : solver),
      propagate_loop ext update fuel s = some (r, s1) →
      s1.m_scopes = s.m_scopes ∧ s1.m_scope_lvl = s.m_scope_lvl ∧
        s.m_trail.length ≤ s1.m_trail.length := by
  intro fuel
  induction fuel with
  | zero =>
    intro s r s1 h
    unfold propagate_loop at h
    split at h
    · cases h
    · simp only [Option.some.injEq, Prod.mk.injEq] at h
      obtain ⟨_, rfl⟩ := h
      exact ⟨rfl, rfl, Nat.le_refl _⟩
  | succ n ih =>
    intro s r s1 h
    unfold propagate_loop at h
    split at h
    · by_cases hi : s.m_inconsistent = true
      · simp only [hi, ↓reduceIte, Option.some.injEq, Prod.mk.injEq] at h
        obtain ⟨_, rfl⟩ := h
        exact ⟨rfl, rfl, Nat.le_refl _⟩
      · simp only [hi, Bool.false_eq_true, ↓reduceIte] at h
        have f := propagate_literal_frame hext update s
        have g : (propagate_literal ext update s).2.m_scopes = s.m_scopes ∧
            (propagate_literal ext update s).2.m_scope_lvl = s.m_scope_lvl := by
          unfold propagate_literal
          exact propagate_wlist_scopes hsc update _ _ s.inc_qhead _
        rcases hstep : propagate_literal ext update s with ⟨b, s2⟩
        rw [hstep] at h f g
        simp only at f g
        cases b with
        | false =>
          simp only [Option.some.injEq, Prod.mk.injEq] at h
          obtain ⟨_, rfl⟩ := h
          exact ⟨g.1, g.2, f.2.1⟩
        | true =>
          simp only at h
          obtain ⟨a1, a2, a3⟩ := ih s2 r s1 h
          exact ⟨a1.trans g.1, a2.trans g.2, Nat.le_trans f.2.1 a3⟩
    · simp only [Option.some.injEq, Prod.mk.injEq] at h
      obtain ⟨_, rfl⟩ := h
      exact ⟨rfl, rfl, Nat.le_refl _⟩

theorem update_chb_activity_scopes (s : solver) (is_sat : Bool) (qhead : Nat) :
    (s.update_chb_activity is_sat qhead).m_scopes = s.m_scopes ∧
    (s.update_chb_activity is_sat qhead).m_scope_lvl = s.m_scope_lvl ∧
    (s.update_chb_activity is_sat qhead).m_trail = s.m_trail := by
  unfold update_chb_activity
  generalize s.m_trail.drop qhead = ls
  induction ls generalizing s with
  | nil => exact ⟨rfl, rfl, rfl⟩
  | cons a rest ih =>
    rw [List.foldl_cons]
    obtain ⟨a1, a2, a3⟩ := ih (update_chb_activity_step is_sat s a)
    exact ⟨a1, a2, a3⟩

theorem scope_reachable_propagate {ext : ext_propagate} (hext : ext_ok ext)
    (hsc : ext_scopes ext) (update : Bool) (fuel : Nat) (s : solver) (r : Bool × solver)
    (h : scope_reachable s) (hp : propagate ext update fuel s = some r) :
    scope_reachable r.2 := by
  unfold propagate at hp
  split at hp
  · cases hp
  · rename_i r0 hr0
    have hq : scope_reachable r0.2 := by
      unfold propagate_core at hr0
      split at hr0
      · simp only [Option.some.injEq] at hr0
        rw [← hr0]; exact h
      · obtain ⟨a1, a2, a3⟩ := propagate_loop_scopes hext hsc update fuel s r0.1 r0.2 hr0
        exact .step s _ h a1 a2 a3
    split at hp
    · simp only [Option.some.injEq] at hp
      rw [← hp]
      obtain ⟨a1, a2, a3⟩ := update_chb_activity_scopes r0.2 r0.1 s.m_qhead
      exact .step _ _ hq a1 a2 (by rw [a3])
    · simp only [Option.some.injEq] at hp
      rw [← hp]; exact hq

theorem anti_exploration_loop_scopes :
    ∀ (fuel : Nat) (s s1 : solver), anti_exploration_loop fuel s = some s1 →
      s1.m_scopes = s.m_scopes ∧ s1.m_scope_lvl = s.m_scope_lvl ∧ s1.m_trail = s.m_trail := by
  intro fuel
  induction fuel with
  | zero =>
    intro s s1 h
    rw [anti_exploration_loop] at h
    by_cases ha : s.age s.min_var > 0
    · simp only [ha, ↓reduceIte] at h
      cases h
    · simp only [ha, ↓reduceIte, Option.some.injEq] at h
      rw [← h]; exact ⟨rfl, rfl, rfl⟩
  | succ n ih =>
    intro s s1 h
    rw [anti_exploration_loop] at h
    by_cases ha : s.age s.min_var > 0
    · simp only [ha, ↓reduceIte] at h
      obtain ⟨a1, a2, a3⟩ := ih (s.anti_exploration_step s.min_var) s1 h
      exact ⟨a1, a2, a3⟩
    · simp only [ha, ↓reduceIte, Option.some.injEq] at h
      rw [← h]; exact ⟨rfl, rfl, rfl⟩

theorem next_var_loop_scopes (inner : Nat) :
    ∀ (fuel : Nat) (s : solver) (r : bool_var × solver), next_var_loop inner fuel s = some r →
      r.2.m_scopes = s.m_scopes ∧ r.2.m_scope_lvl = s.m_scope_lvl ∧ r.2.m_trail = s.m_trail := by
  intro fuel
  induction fuel with
  | zero =>
    intro s r h
    rw [next_var_loop] at h
    by_cases he : s.m_case_split_queue.isEmpty = true
    · simp only [he, ↓reduceIte, Option.some.injEq] at h
      rw [← h]; exact ⟨rfl, rfl, rfl⟩
    · simp only [he, Bool.false_eq_true, ↓reduceIte] at h
      cases h
  | succ n ih =>
    intro s r h
    rw [next_var_loop] at h
    by_cases he : s.m_case_split_queue.isEmpty = true
    · simp only [he, ↓reduceIte, Option.some.injEq] at h
      rw [← h]; exact ⟨rfl, rfl, rfl⟩
    · simp only [he, Bool.false_eq_true, ↓reduceIte] at h
      cases hs1 : (if s.m_config.m_anti_exploration then anti_exploration_loop inner s
          else some s) with
      | none => rw [hs1] at h; cases h
      | some s1 =>
        rw [hs1] at h
        simp only at h
        have hf : s1.m_scopes = s.m_scopes ∧ s1.m_scope_lvl = s.m_scope_lvl ∧
            s1.m_trail = s.m_trail := by
          by_cases ha : s.m_config.m_anti_exploration = true
          · rw [if_pos ha] at hs1
            exact anti_exploration_loop_scopes inner s s1 hs1
          · rw [if_neg ha] at hs1
            simp only [Option.some.injEq] at hs1
            rw [← hs1]; exact ⟨rfl, rfl, rfl⟩
        by_cases hc : s1.queue_next_var.2.is_candidate s1.queue_next_var.1 = true
        · simp only [hc, ↓reduceIte, Option.some.injEq] at h
          rw [← h]
          exact hf
        · simp only [hc, Bool.false_eq_true, ↓reduceIte] at h
          obtain ⟨a1, a2, a3⟩ := ih _ r h
          exact ⟨a1.trans hf.1, a2.trans hf.2.1, a3.trans hf.2.2⟩

theorem next_var_scopes (rng : random_gen) (fuel : Nat) (s : solver) (r : bool_var × solver)
    (h : next_var rng fuel s = some r) :
    r.2.m_scopes = s.m_scopes ∧ r.2.m_scope_lvl = s.m_scope_lvl ∧ r.2.m_trail = s.m_trail := by
  unfold next_var at h
  split at h
  · split at h
    · simp only [Option.some.injEq] at h
      rw [← h]; exact ⟨rfl, rfl, rfl⟩
    · split at h
      · simp only [Option.some.injEq] at h
        rw [← h]; exact ⟨rfl, rfl, rfl⟩
      · exact next_var_loop_scopes fuel fuel ((s.draw rng).2.draw rng).2 r h
  · exact next_var_loop_scopes fuel fuel (s.draw rng).2 r h

theorem decide_phase_scopes (E : collaborators) (rng : random_gen) (s : solver)
    (next : bool_var) :
    (decide_phase E rng s next).2.m_scopes = s.m_scopes ∧
    (decide_phase E rng s next).2.m_scope_lvl = s.m_scope_lvl ∧
    (decide_phase E rng s next).2.m_trail = s.m_trail := by
  unfold decide_phase
  split
  · split
    · exact ⟨rfl, rfl, rfl⟩
    · exact ⟨rfl, rfl, rfl⟩
    · split <;> exact ⟨rfl, rfl, rfl⟩
    · exact ⟨rfl, rfl, rfl⟩
  · exact ⟨rfl, rfl, rfl⟩

/-- A decision stays inside the reachable states: it opens a scope and
assigns the decision literal. -/
theorem scope_reachable_decide (E : collaborators) (rng : random_gen) (fuel : Nat)
    (s : solver) (r : Bool × solver) (h : scope_reachable s)
    (hd : s.decide E rng fuel = some r) : scope_reachable r.2 := by
  unfold solver.decide at hd
  split at hd
  · cases hd
  · rename_i next s1 hn
    obtain ⟨a1, a2, a3⟩ := next_var_scopes rng fuel s (next, s1) hn
    have h1 : scope_reachable s1 := .step s s1 h a1 a2 (by rw [a3])
    split at hd
    · simp only [Option.some.injEq] at hd
      rw [← hd]; exact h1
    · simp only [Option.some.injEq] at hd
      rw [← hd]
      apply scope_reachable_assign
      obtain ⟨b1, b2, b3⟩ := decide_phase_scopes E rng s1.push.inc_decision next
      exact .step s1.push _ (.push s1 h1) b1 b2 (by rw [b3]; exact Nat.le_refl _)

/-- `init_assumptions` stays inside the reachable states. -/
theorem scope_reachable_init_assumptions (E : collaborators) (hext : ext_ok E.ext_propagate)
    (hsc : ext_scopes E.ext_propagate) (fuel : Nat) (s : solver) (lits : List literal)
    (r : solver) (h : scope_reachable s) (hi : init_assumptions E fuel s lits = some r) :
    scope_reachable r := by
  unfold init_assumptions at hi
  split at hi
  · simp only [Option.some.injEq] at hi
    rw [← hi]; exact h
  · split at hi
    · cases hi
    · rename_i r0 hr0
      have h1 : scope_reachable s.reset_assumptions.push :=
        .push _ (.step s s.reset_assumptions h rfl rfl (Nat.le_refl _))
      have h2 := scope_reachable_propagate hext hsc false fuel _ r0 h1 hr0
      split at hi
      · simp only [Option.some.injEq] at hi
        rw [← hi]; exact h2
      · simp only [Option.some.injEq] at hi
        rw [← hi]
        have h3 := scope_reachable_assign_each r0.2 (r0.2.m_user_scope_literals.map literal.neg) h2
        have h4 : ∀ (ls : List literal) (q : solver), scope_reachable q →
            scope_reachable (ls.foldl init_assumption q) := by
          intro ls
          induction ls with
          | nil => intro q hq; exact hq
          | cons a rest ih =>
            intro q hq
            rw [List.foldl_cons]
            apply ih
            unfold init_assumption
            split
            · exact hq
            · exact scope_reachable_assign _ _ _
                (.step q (q.add_assumption a) hq rfl rfl (Nat.le_refl _))
        exact .step _ _ (h4 lits _ h3) rfl rfl (Nat.le_refl _)

theorem ext_scopes_no_ext : ext_scopes no_ext := fun _ _ _ => ⟨rfl, rfl⟩

/-- The claim as it stands fails.  `init_assumptions` opens the assumption
scope of `example_assume_base` for the assumption `¬x0`, which is true at
level 0 already, so nothing is assigned in that scope; the decision that
follows opens the next scope with the same snapshot.  In the state reached,
the two open scopes have the snapshots 1 and 1. -/
theorem C34_scopes_nested_counterexample :
    init_assumptions {} 10 example_assume_base [⟨1⟩] = some example_assumed ∧
    example_assumed.decide {} example_rng 10 = some (true, example_decided) ∧
    scope_reachable example_decided ∧
    example_decided.m_scopes.length = 2 ∧
    example_decided.trail_lim 0 = 1 ∧ example_decided.trail_lim 1 = 1 ∧
    ¬ example_decided.trail_lim 0 < example_decided.trail_lim 1 := by
  have h1 : init_assumptions {} 10 example_assume_base [⟨1⟩] = some example_assumed := rfl
  have h2 : example_assumed.decide {} example_rng 10 = some (true, example_decided) := rfl
  have h0 : scope_reachable example_assume_base := .init _ rfl rfl
  have h3 := scope_reachable_init_assumptions {} ext_ok_no_ext ext_scopes_no_ext 10 _ _ _ h0 h1
  have h4 := scope_reachable_decide {} example_rng 10 _ _ h3 h2
  exact ⟨h1, h2, h4, by decide, by decide, by decide, by decide⟩

/-- C34, amended: in every reachable solver state there is one scope record
per level, the trail lengths snapshotted for the open scopes do not decrease
from an outer scope to an inner one, and none exceeds the length of the
trail.  When the scope stack matches the levels on the trail, the snapshot
of scope `k + 1` is strictly greater than the snapshot of scope `k` exactly
when some trail literal is assigned at level `k + 1`, the level between the
two. -/
theorem C34_scopes_nested (s : solver) (h : scope_reachable s) :
    s.m_scopes.length = s.m_scope_lvl ∧
    (∀ k, k + 1 < s.m_scopes.length → s.trail_lim k ≤ s.trail_lim (k + 1)) ∧
    (∀ i j, i ≤ j → j < s.m_scopes.length → s.trail_lim i ≤ s.trail_lim j) ∧
    (∀ k, k < s.m_scopes.length → s.trail_lim k ≤ s.m_trail.length) ∧
    (scope_inv s → ∀ k, k + 1 < s.m_scopes.length →
      (s.trail_lim k < s.trail_lim (k + 1) ↔ ∃ l ∈ s.m_trail, s.lvl l = k + 1)) := by
  obtain ⟨h1, h2, h3⟩ := scopes_sorted_of_reachable s h
  refine ⟨h1, fun k hk => h2 k (k + 1) (Nat.le_succ k) hk, h2, h3, ?_⟩
  intro hsc k hk
  have hb := h3 (k + 1) hk
  constructor
  · intro hlt
    have hi : s.trail_lim k < s.m_trail.length := by omega
    have e1 := hsc.2 k (by omega) (s.trail_lim k) hi
    have e2 := hsc.2 (k + 1) hk (s.trail_lim k) hi
    refine ⟨s.m_trail.getD (s.trail_lim k) null_literal, ?_, ?_⟩
    · rw [List.getD_eq_getElem _ _ hi]
      exact List.getElem_mem hi
    · have e3 := e2.1 hlt
      have e4 : ¬ s.lvl (s.m_trail.getD (s.trail_lim k) null_literal) ≤ k :=
        fun h5 => absurd (e1.2 h5) (Nat.lt_irrefl _)
      omega
  · rintro ⟨l, hl, hlv⟩
    obtain ⟨i, hi, he⟩ := List.getElem_of_mem hl
    have e1 := hsc.2 k (by omega) i hi
    have e2 := hsc.2 (k + 1) hk i hi
    rw [List.getD_eq_getElem _ _ hi, he, hlv] at e1 e2
    have e3 : i < s.trail_lim (k + 1) := e2.2 (Nat.le_refl _)
    have e4 : ¬ i < s.trail_lim k := fun h5 => absurd (e1.1 h5) (by omega)
    omega

/-- C34 at a concrete state: `example_decided`, where the snapshots are 1
and 1. -/
theorem C34_scopes_nested_witness :
    scope_reachable example_decided ∧
    (example_decided.m_scopes.length = example_decided.m_scope_lvl ∧
      ∀ k, k + 1 < example_decided.m_scopes.length →
        example_decided.trail_lim k ≤ example_decided.trail_lim (k + 1)) := by
  have h0 : scope_reachable example_assume_base := .init _ rfl rfl
  have h3 := scope_reachable_init_assumptions {} ext_ok_no_ext ext_scopes_no_ext 10
    example_assume_base [⟨1⟩] example_assumed h0 rfl
  have h4 := scope_reachable_decide {} example_rng 10 example_assumed (true, example_decided)
    h3 rfl
  exact ⟨h4, (C34_scopes_nested example_decided h4).1, (C34_scopes_nested example_decided h4).2.1⟩

/-! ## What leaves the marks alone -/

theorem marks_frame_refl (s : solver) : marks_frame s s := ⟨rfl⟩

theorem marks_frame_trans {s s1 s2 : solver} (h1 : marks_frame s s1) (h2 : marks_frame s1 s2) :
    marks_frame s s2 :=
  ⟨h2.marks.trans h1.marks⟩

theorem marks_frame_foldl {α : Type} (f : solver → α → solver)
    (hf : ∀ s a, marks_frame s (f s a)) (xs : List α) (s : solver) :
    marks_frame s (xs.foldl f s) := by
  induction xs generalizing s with
  | nil => exact marks_frame_refl s
  | cons a xs ih => exact marks_frame_trans (hf s a) (ih (f s a))

theorem marks_frame_assign (s : solver) (l : literal) (j : justification) :
    marks_frame s (s.assign l j) := ⟨by simp⟩

theorem marks_frame_propagate_bin_clause (s : solver) (l1 l2 : literal) :
    marks_frame s (s.propagate_bin_clause l1 l2).2 := by
  unfold propagate_bin_clause
  split
  · exact ⟨by simp⟩
  · split
    · exact ⟨by simp⟩
    · exact marks_frame_refl s

theorem marks_frame_attach_ter_clause (s : solver) (off : clause_offset) :
    marks_frame s (s.attach_ter_clause off).2 := by
  unfold attach_ter_clause
  simp only
  split
  · split
    · exact ⟨by simp⟩
    · split
      · exact ⟨by simp⟩
      · split
        · exact ⟨by simp⟩
        · exact ⟨by simp⟩
  · exact ⟨by simp⟩

theorem marks_frame_attach_nary_clause (s : solver) (off : clause_offset) :
    marks_frame s (s.attach_nary_clause off).2 := by
  unfold attach_nary_clause
  simp only
  split
  · split
    · exact ⟨by simp⟩
    · split
      · exact ⟨by simp⟩
      · exact ⟨by simp⟩
  · exact ⟨by simp⟩

theorem marks_frame_detach_clause (s : solver) (off : clause_offset) :
    marks_frame s (s.detach_clause off) := by
  unfold detach_clause
  split
  · unfold detach_ter_clause
    exact ⟨by simp⟩
  · unfold detach_nary_clause
    exact ⟨by simp⟩

theorem marks_frame_attach_clause (s : solver) (off : clause_offset) :
    marks_frame s (s.attach_clause off).2 := by
  unfold attach_clause
  split
  · exact marks_frame_attach_ter_clause s off
  · exact marks_frame_attach_nary_clause s off

theorem marks_frame_reinit_clause (st : solver × List clause_wrapper) (cw : clause_wrapper) :
    marks_frame st.1 (reinit_clause st cw).1 := by
  unfold reinit_clause
  cases cw with
  | bin l1 l2 =>
    simp only
    split
    · exact marks_frame_propagate_bin_clause _ _ _
    · exact marks_frame_propagate_bin_clause _ _ _
  | cls off =>
    simp only
    have h := marks_frame_trans (marks_frame_detach_clause st.1 off)
      (marks_frame_attach_clause _ off)
    split
    · exact h
    · exact marks_frame_trans h ⟨by simp⟩

theorem marks_frame_foldl_reinit_clause (cws : List clause_wrapper) :
    ∀ st : solver × List clause_wrapper, marks_frame st.1 (cws.foldl reinit_clause st).1 := by
  induction cws with
  | nil => intro st; exact marks_frame_refl _
  | cons cw cws ih =>
    intro st
    rw [List.foldl_cons]
    exact marks_frame_trans (marks_frame_reinit_clause st cw) (ih _)

theorem marks_frame_reinit_clauses (s : solver) (old_sz : Nat) :
    marks_frame s (s.reinit_clauses old_sz) := by
  unfold reinit_clauses
  simp only
  exact marks_frame_trans
    (marks_frame_foldl_reinit_clause (s.m_clauses_to_reinit.drop old_sz) (s, []))
    ⟨by simp⟩

theorem marks_frame_unassign_vars (s : solver) (old_sz : Nat) :
    marks_frame s (s.unassign_vars old_sz) := by
  unfold unassign_vars
  have h1 : ∀ (t : solver) (l : literal), marks_frame t (t.unassign_var l) :=
    fun t l => ⟨by simp⟩
  have h2 : ∀ t : solver, marks_frame t (t.shrink_trail old_sz) :=
    fun t => ⟨rfl⟩
  exact marks_frame_trans (marks_frame_foldl unassign_var h1 _ s) (h2 _)

theorem marks_frame_pop (s : solver) (n : Nat) : marks_frame s (s.pop n) := by
  unfold pop
  split
  · exact marks_frame_refl s
  · have h1 : marks_frame s s.reset_inconsistent := ⟨rfl⟩
    have h2 := marks_frame_unassign_vars s.reset_inconsistent (s.pop_scope n).m_trail_lim
    have h3 : marks_frame (s.reset_inconsistent.unassign_vars (s.pop_scope n).m_trail_lim)
        ((s.reset_inconsistent.unassign_vars (s.pop_scope n).m_trail_lim).shrink_scopes n
          (s.scope_lvl - n)) := ⟨rfl⟩
    exact marks_frame_trans (marks_frame_trans (marks_frame_trans h1 h2) h3)
      (marks_frame_reinit_clauses _ _)

theorem marks_frame_assign_each (lits : List literal) (s : solver) :
    marks_frame s (s.assign_each lits) := by
  unfold assign_each
  apply marks_frame_foldl
  intro t l
  split
  · exact marks_frame_refl t
  · exact marks_frame_assign t l _

theorem marks_frame_reinit_assumptions (s : solver) : marks_frame s s.reinit_assumptions := by
  unfold reinit_assumptions
  split
  · have h1 : marks_frame s s.push := ⟨rfl⟩
    have h2 := marks_frame_assign_each (s.m_user_scope_literals.map literal.neg) s.push
    exact marks_frame_trans (marks_frame_trans h1 h2) (marks_frame_assign_each _ _)
  · exact marks_frame_refl s

theorem marks_frame_pop_reinit (s : solver) (n : Nat) : marks_frame s (s.pop_reinit n) :=
  marks_frame_trans (marks_frame_pop s n) (marks_frame_reinit_assumptions _)

theorem marks_frame_num_diff_levels (s : solver) (lits : List literal) :
    marks_frame s (s.num_diff_levels lits).2 := ⟨rfl⟩

theorem marks_frame_backjump (s : solver) : marks_frame s s.backjump :=
  marks_frame_trans (marks_frame_num_diff_levels s _) (marks_frame_pop_reinit _ _)

theorem marks_frame_mk_bin_clause (s : solver) (l1 l2 : literal) (learned : Bool) :
    marks_frame s (s.mk_bin_clause l1 l2 learned) := by
  unfold mk_bin_clause
  simp only
  have h := marks_frame_propagate_bin_clause s l1 l2
  split
  · exact h
  · split
    · exact marks_frame_trans h ⟨by simp⟩
    · exact marks_frame_trans h ⟨by simp⟩

theorem marks_frame_push_clause_vector (s : solver) (off : clause_offset) (learned : Bool) :
    marks_frame s (s.push_clause_vector off learned) :=
  ⟨by simp⟩

theorem marks_frame_mk_ter_clause (s : solver) (lits : List literal) (learned : Bool) :
    marks_frame s (s.mk_ter_clause lits learned).2 := by
  unfold mk_ter_clause
  simp only
  have h0 : marks_frame s (s.inc_mk_ter_clause.alloc_clause lits learned).2 :=
    ⟨by simp⟩
  have h1 := marks_frame_trans h0 (marks_frame_attach_ter_clause _
    (s.inc_mk_ter_clause.alloc_clause lits learned).1)
  split
  · exact marks_frame_trans (marks_frame_trans h1 ⟨by simp⟩)
      (marks_frame_push_clause_vector _ _ _)
  · exact marks_frame_trans h1 (marks_frame_push_clause_vector _ _ _)

theorem marks_frame_mk_nary_clause (s : solver) (lits : List literal) (learned : Bool)
    (r : clause_offset × solver) (h : s.mk_nary_clause lits learned = some r) :
    marks_frame s r.2 := by
  unfold mk_nary_clause at h
  split at h
  · simp only [Option.some.injEq] at h
    subst h
    simp only
    have h0 : marks_frame s (s.inc_mk_clause.alloc_clause lits learned).2 :=
      ⟨by simp⟩
    have h1 := marks_frame_trans h0 (marks_frame_attach_nary_clause _
      (s.inc_mk_clause.alloc_clause lits learned).1)
    split
    · exact marks_frame_trans
        (marks_frame_trans h1 ⟨by simp⟩)
        (marks_frame_push_clause_vector _ _ _)
    · exact marks_frame_trans h1 (marks_frame_push_clause_vector _ _ _)
  · cases h

theorem marks_frame_mk_clause_dispatch (s : solver) (lits : List literal) (learned : Bool)
    (r : Option clause_offset × solver) (h : s.mk_clause_dispatch lits learned = some r) :
    marks_frame s r.2 := by
  unfold mk_clause_dispatch at h
  split at h
  · simp only [Option.some.injEq] at h; subst h
    exact ⟨by simp⟩
  · simp only [Option.some.injEq] at h; subst h
    exact marks_frame_assign _ _ _
  · simp only [Option.some.injEq] at h; subst h
    exact marks_frame_mk_bin_clause _ _ _ _
  · simp only [Option.some.injEq] at h; subst h
    exact marks_frame_mk_ter_clause _ _ _
  · split at h
    · rename_i r1 hr1
      simp only [Option.some.injEq] at h; subst h
      exact marks_frame_mk_nary_clause s lits learned r1 hr1
    · cases h

theorem marks_frame_learn_lemma_finish (s : solver) (cls : Option clause_offset) (glue : Nat) :
    marks_frame s (s.learn_lemma_finish cls glue) := by
  have h1 : ∀ t : solver, marks_frame t t.decay_activity.updt_phase_counters := by
    intro t
    unfold updt_phase_counters
    split <;> split <;> exact ⟨rfl⟩
  have h2 : ∀ off, marks_frame s (s.set_glue off glue) := fun off => ⟨rfl⟩
  unfold learn_lemma_finish
  split
  · exact marks_frame_trans (h2 _) (h1 _)
  · exact h1 s

/-! ## The marks after `resolve_conflict_core` -/

theorem foldl_reset_mark_lits (ls : List literal) (s : solver) (w : bool_var) :
    (ls.foldl (fun st l => st.reset_mark l.var) s).is_marked w =
      if w ∈ ls.map literal.var then false else s.is_marked w := by
  have h := (foldl_reset_mark_spec (ls.map literal.var) s).2.2.2.2.2.2.2 w
  rw [List.foldl_map] at h
  exact h

theorem lrb_marks_lit (s0 s : solver) (lit : literal) (h : lrb_marks s0 s) :
    lrb_marks s0 (s.update_lrb_reasoned_lit lit) := by
  obtain ⟨e, h1, h2⟩ := h
  unfold update_lrb_reasoned_lit
  by_cases hm : s.is_marked lit.var = true
  · simp only [hm, Bool.not_true, Bool.false_eq_true, ↓reduceIte]
    exact ⟨e, h1, h2⟩
  · have hm0 : s.is_marked lit.var = false := by simpa using hm
    simp only [hm0, Bool.not_false, ↓reduceIte]
    refine ⟨e ++ [lit], ?_, ?_⟩
    · show s.m_lemma ++ [lit] = _
      rw [h1, List.append_assoc]
    · intro w hw
      have hw1 : (s.mark lit.var).is_marked w = true := hw
      rw [is_marked_mark] at hw1
      by_cases hc : lit.var = w ∧ lit.var < s.m_mark.length
      · exact Or.inr ⟨lit, by simp, hc.1⟩
      · rw [if_neg hc] at hw1
        rcases h2 w hw1 with h3 | ⟨l, hl, hlw⟩
        · exact Or.inl h3
        · exact Or.inr ⟨l, by simp [hl], hlw⟩

theorem lrb_marks_foldl {α : Type} (f : solver → α → solver) (s0 : solver)
    (hf : ∀ s a, lrb_marks s0 s → lrb_marks s0 (f s a)) (xs : List α) (s : solver)
    (h : lrb_marks s0 s) : lrb_marks s0 (xs.foldl f s) := by
  induction xs generalizing s with
  | nil => exact h
  | cons a xs ih => exact ih (f s a) (hf s a h)

theorem lrb_marks_step (E : collaborators) (s0 s : solver) (l : literal) (h : lrb_marks s0 s) :
    lrb_marks s0 (update_lrb_reasoned_step E s l) := by
  unfold update_lrb_reasoned_step
  apply lrb_marks_foldl update_lrb_reasoned_lit s0 (fun t a ht => lrb_marks_lit s0 t a ht)
  obtain ⟨e, h1, h2⟩ := h
  refine ⟨e, by rw [fill_antecedents_m_lemma]; exact h1, ?_⟩
  intro w hw
  apply h2 w
  unfold is_marked at hw ⊢
  rw [fill_antecedents_m_mark] at hw
  exact hw

/-- A variable that is marked after `update_lrb_reasoned` was marked
before. -/
theorem update_lrb_reasoned_marks (E : collaborators) (s : solver) (w : bool_var)
    (h : (s.update_lrb_reasoned E).is_marked w = true) : s.is_marked w = true := by
  have h1 := lrb_marks_foldl (update_lrb_reasoned_step E)
    (s.mark (s.m_lemma.getD 0 null_literal).var)
    (fun t a ht => lrb_marks_step E _ t a ht) s.m_lemma.reverse
    (s.mark (s.m_lemma.getD 0 null_literal).var) ⟨[], by simp, fun w hw => Or.inl hw⟩
  unfold update_lrb_reasoned update_lrb_reasoned_reset at h
  generalize s.m_lemma.reverse.foldl (update_lrb_reasoned_step E)
    (s.mark (s.m_lemma.getD 0 null_literal).var) = t at h h1
  obtain ⟨e, a, b⟩ := h1
  have hl : (t.reset_mark (s.m_lemma.getD 0 null_literal).var).m_lemma = s.m_lemma ++ e := by
    rw [reset_mark_m_lemma, a, mark_m_lemma]
  have h2 : (((t.reset_mark (s.m_lemma.getD 0 null_literal).var).m_lemma.drop
      s.m_lemma.length).reverse.foldl (fun st l => st.reset_mark l.var)
        (t.reset_mark (s.m_lemma.getD 0 null_literal).var)).is_marked w = true := h
  rw [foldl_reset_mark_lits, hl, List.drop_left] at h2
  by_cases hw : w ∈ e.reverse.map literal.var
  · rw [if_pos hw] at h2; cases h2
  · rw [if_neg hw, is_marked_reset_mark] at h2
    by_cases hv : (s.m_lemma.getD 0 null_literal).var = w
    · rw [if_pos hv] at h2; cases h2
    · rw [if_neg hv] at h2
      rcases b w h2 with h3 | ⟨l, hl1, hl2⟩
      · rw [is_marked_mark, if_neg (fun hc => hv hc.1)] at h3
        exact h3
      · exact absurd (List.mem_map.2 ⟨l, List.mem_reverse.2 hl1, hl2⟩) hw

/-- A variable that is marked after `reset_lemma_var_marks` was marked before
and is not the variable of a lemma literal behind the first one. -/
theorem reset_lemma_var_marks_marks (E : collaborators) (s : solver) (w : bool_var)
    (h : (s.reset_lemma_var_marks E).is_marked w = true) :
    s.is_marked w = true ∧ w ∉ (s.m_lemma.drop 1).map literal.var := by
  unfold reset_lemma_var_marks at h
  rw [foldl_reset_mark_lits] at h
  by_cases hb : s.m_config.m_branching_heuristic = .BH_LRB
  · rw [if_pos hb, update_lrb_reasoned_m_lemma] at h
    by_cases hw : w ∈ (s.m_lemma.drop 1).map literal.var
    · rw [if_pos hw] at h; cases h
    · rw [if_neg hw] at h
      exact ⟨update_lrb_reasoned_marks E s w h, hw⟩
  · rw [if_neg hb] at h
    by_cases hw : w ∈ (s.m_lemma.drop 1).map literal.var
    · rw [if_pos hw] at h; cases h
    · rw [if_neg hw] at h
      exact ⟨h, hw⟩

theorem marks_frame_dyn_sub_res_bin (l0 : literal) (s : solver) (l2 : literal) :
    marks_frame s (dyn_sub_res_bin l0 s l2) := by
  unfold dyn_sub_res_bin
  split
  · exact ⟨by simp⟩
  · exact marks_frame_refl s

theorem marks_frame_dyn_sub_res_watch (l0 : literal) (ws : List watched) :
    ∀ (s : solver), marks_frame s (dyn_sub_res_watch l0 s ws) := by
  induction ws with
  | nil => intro s; exact marks_frame_refl s
  | cons w ws ih =>
    intro s
    cases w with
    | binary l2 learned =>
      show marks_frame s (dyn_sub_res_watch l0 (dyn_sub_res_bin l0 s l2) ws)
      exact marks_frame_trans (marks_frame_dyn_sub_res_bin l0 s l2) (ih _)
    | ternary l2 l3 =>
      unfold dyn_sub_res_watch
      split_ifs
      · exact marks_frame_trans ⟨by simp⟩ (ih (s.unmark_lit l3.neg))
      · exact marks_frame_trans ⟨by simp⟩ (ih (s.unmark_lit l2.neg))
      · exact ih s
    | clause b off => exact marks_frame_refl s
    | ext_constraint idx => exact marks_frame_refl s

theorem marks_frame_dyn_sub_res_lit (E : collaborators) (l0 : literal) (s : solver)
    (l : literal) : marks_frame s (dyn_sub_res_lit E l0 s l) := by
  unfold dyn_sub_res_lit
  split_ifs
  · exact marks_frame_refl s
  · split
    · exact marks_frame_trans (marks_frame_dyn_sub_res_watch l0 _ s)
        (marks_frame_foldl _ (marks_frame_dyn_sub_res_bin l0) _ _)
    · exact marks_frame_dyn_sub_res_watch l0 _ s

theorem marks_frame_dyn_sub_res_collect (ls : List literal) :
    ∀ (s : solver) (kept : List literal), marks_frame s (dyn_sub_res_collect ls s kept).1 := by
  induction ls with
  | nil => intro s kept; exact marks_frame_refl s
  | cons l ls ih =>
    intro s kept
    unfold dyn_sub_res_collect
    split_ifs
    · exact marks_frame_trans ⟨by simp⟩ (ih (s.unmark_lit l) (kept ++ [l]))
    · exact ih s kept

theorem marks_frame_dyn_sub_res (E : collaborators) (s : solver) :
    marks_frame s (dyn_sub_res E s) := by
  unfold dyn_sub_res
  refine marks_frame_trans (marks_frame_foldl mark_lit (fun t l => ⟨by simp⟩) s.m_lemma s) ?_
  refine marks_frame_trans (marks_frame_foldl _
    (marks_frame_dyn_sub_res_lit E (s.m_lemma.getD 0 null_literal)) s.m_lemma _) ?_
  refine marks_frame_trans (marks_frame_dyn_sub_res_collect s.m_lemma _ []) ?_
  exact ⟨rfl⟩

theorem marks_frame_is_marked {s s1 : solver} (h : marks_frame s s1) (w : bool_var) :
    s1.is_marked w = s.is_marked w := by
  unfold is_marked
  rw [h.marks]

/-- The state `learn_lemma_prepare` returns has no marked variable when the
variables marked before are variables of lemma literals behind the first
one. -/
theorem learn_lemma_prepare_marks (E : collaborators) (hE : E.m_ext = none) (fuel : Nat)
    (s s1 : solver) (u : literal) (tail : List literal) (hl : s.m_lemma = u :: tail)
    (hm : ∀ v, s.is_marked v = true → ∃ t ∈ tail, t.var = v)
    (h : s.learn_lemma_prepare E fuel = some s1) : ∀ w, s1.is_marked w = false := by
  have hne : s.m_lemma.isEmpty = false := by rw [hl]; rfl
  have key : ∀ t : solver, (∀ v, t.is_marked v = true → v ∈ (t.m_lemma.drop 1).map literal.var) →
      ∀ w, (t.reset_lemma_var_marks E).is_marked w = false := by
    intro t ht w
    cases hx : (t.reset_lemma_var_marks E).is_marked w with
    | false => rfl
    | true =>
      obtain ⟨a, b⟩ := reset_lemma_var_marks_marks E t w hx
      exact absurd (ht w a) b
  have hs : ∀ v, s.is_marked v = true → v ∈ (s.m_lemma.drop 1).map literal.var := by
    intro v hv
    obtain ⟨t, ht, htv⟩ := hm v hv
    rw [hl]
    exact List.mem_map.2 ⟨t, ht, htv⟩
  unfold learn_lemma_prepare at h
  rw [hne] at h
  simp only [Bool.false_eq_true, ↓reduceIte] at h
  by_cases hmin : s.m_config.m_minimize_lemmas = true
  · rw [if_pos hmin] at h
    cases hr : s.minimize_lemma E fuel with
    | none => rw [hr] at h; cases h
    | some r =>
      rw [hr] at h
      simp only at h
      obtain ⟨_, _, _, kept, X, k1, _, _, k4, _, k6⟩ := minimize_lemma_spec E hE fuel s r hr
      have hrm : ∀ v, r.is_marked v = true → v ∈ (r.m_lemma.drop 1).map literal.var := by
        intro v hv
        obtain ⟨q1, _, q3⟩ := k6 v hv
        obtain ⟨t, ht, htv⟩ := hm v q1
        have ht1 : t ∈ s.m_lemma.drop 1 := by rw [hl]; exact ht
        have hk : r.m_lemma.drop 1 = kept := by rw [k1, hl]; rfl
        rw [hk]
        rcases k4 t ht1 with h5 | h5
        · exact List.mem_map.2 ⟨t, h5, htv⟩
        · rw [htv] at h5; exact absurd h5 q3
      by_cases hdyn : r.m_config.m_dyn_sub_res = true
      · rw [if_pos hdyn] at h
        simp only [Option.some.injEq] at h
        subst h
        intro w
        rw [marks_frame_is_marked (marks_frame_dyn_sub_res E _)]
        exact key r hrm w
      · rw [if_neg hdyn] at h
        simp only [Option.some.injEq] at h
        subst h
        exact key r hrm
  · rw [if_neg hmin] at h
    simp only [Option.some.injEq] at h
    subst h
    exact key s hs

/-- The marks in the state `learn_lemma_and_backjump` returns are the ones
`learn_lemma_prepare` left. -/
theorem learn_lemma_and_backjump_marks (E : collaborators) (fuel : Nat) (s s1 r : solver)
    (hprep : s.learn_lemma_prepare E fuel = some s1)
    (hr : s.learn_lemma_and_backjump E fuel = some r) : r.m_mark = s1.m_mark := by
  unfold learn_lemma_and_backjump at hr
  rw [hprep] at hr
  simp only at hr
  split at hr
  · cases hr
  · rename_i res hres
    simp only [Option.some.injEq] at hr
    subst hr
    have hd : s1.backjump.mk_clause_dispatch s1.backjump.m_lemma true = some res := by
      simpa [mk_clause_core] using hres
    exact (marks_frame_trans (marks_frame_backjump s1)
      (marks_frame_trans (marks_frame_mk_clause_dispatch _ _ _ _ hd)
        (marks_frame_learn_lemma_finish res.2 res.1 (s1.num_diff_levels s1.m_lemma).1))).marks

theorem core_minimize_marks (E : collaborators) (hmus : ∀ t, (E.mus t).m_mark = t.m_mark)
    (s : solver) : (core_minimize E s).m_mark = s.m_mark := by
  unfold core_minimize
  split_ifs
  · rw [hmus]
  · rw [hmus]
  · rfl

/-- The unsat-core analysis leaves the marks as they were, when the subset
minimiser does. -/
theorem resolve_conflict_for_unsat_core_marks (E : collaborators)
    (hmus : ∀ t, (E.mus t).m_mark = t.m_mark) (s : solver) :
    (s.resolve_conflict_for_unsat_core E).m_mark = s.m_mark := by
  unfold resolve_conflict_for_unsat_core
  split
  · rfl
  · have h0 : unsat_core_inv s.reset_core s.reset_core :=
      unsat_core_inv.start _ (fun l hl => by cases hl)
    have h1 := unsat_core_loop_inv E s.reset_core.skip_literals_above_conflict_level
      (process_consequent_for_unsat_core_inv E (unsat_core_not_l_inv E h0)
        s.reset_core.first_consequent s.m_conflict)
    generalize unsat_core_loop E s.reset_core.skip_literals_above_conflict_level
      ((unsat_core_not_l E s.reset_core).process_consequent_for_unsat_core E
        s.reset_core.first_consequent s.m_conflict) = t at h1
    obtain ⟨r1, _, _, _, _, _, _, r8⟩ := reset_unmark_spec t s.m_unmark.length
    rw [core_minimize_marks E hmus]
    obtain ⟨extra, e1, e2, e3⟩ := h1.unmark
    have e1a : t.m_unmark = s.m_unmark ++ extra := e1
    apply m_mark_ext _ _ (by rw [r1]; exact h1.mark_len)
    intro v
    rw [r8, e1a, List.drop_left]
    by_cases hv : v ∈ extra
    · simp only [hv, ↓reduceIte]
      exact (e3 v hv).symm
    · simp only [hv, ↓reduceIte]
      cases hx : t.is_marked v with
      | true =>
        rcases e2 v hx with h2 | h2
        · exact h2.symm
        · exact absurd h2 hv
      | false =>
        cases hy : s.is_marked v with
        | false => rfl
        | true =>
          have := h1.mono v hy
          rw [hx] at this; cases this

/-- C35: the marks are clean between conflict analyses.
`resolve_conflict_core`, without an extension and with a subset minimiser
`mus` that leaves the marks alone, starts in a state `s` in which no variable
is marked; when the conflict goes to the first-UIP analysis (its level is at
least 1 and it is not handed to the unsat-core analysis), `s` satisfies the
trail and justification invariant `conflict_inv`.  Then no variable is marked
in the state `r` it returns, and `check_marks` holds there, whichever of the
unsat-core analysis, the return at level 0 and the first-UIP analysis, with
or without lemma minimisation and dynamic subsumption resolution, has run. -/
theorem C35_marks_clean_between_analyses (E : collaborators) (hE : E.m_ext = none)
    (hmus : ∀ t, (E.mus t).m_mark = t.m_mark) (fuel : Nat) (s r : solver) (b : Bool)
    (hclean : ∀ x ∈ s.m_mark, x = false)
    (hinv : 1 ≤ s.scope_lvl → ¬ (s.scope_lvl ≤ 1 ∧ s.tracking_assumptions = true) →
      conflict_inv E s s.scope_lvl)
    (h : resolve_conflict_core E fuel s = some (b, r)) :
    (∀ x ∈ r.m_mark, x = false) ∧ (∀ v, r.is_marked v = false) ∧ r.check_marks = true := by
  have fin : (∀ v, r.is_marked v = false) →
      (∀ x ∈ r.m_mark, x = false) ∧ (∀ v, r.is_marked v = false) ∧ r.check_marks = true := by
    intro hr
    refine ⟨ndl_clean_of_getD _ hr, hr, ?_⟩
    unfold check_marks
    simp [hr]
  have of_eq : r.m_mark = s.m_mark → ∀ v, r.is_marked v = false := by
    intro hm v
    unfold is_marked
    rw [hm]
    exact ndl_clean_getD _ hclean v
  have e0 : (s.count_conflict.set_conflict_lvl E).m_mark = s.m_mark := by
    rw [set_conflict_lvl_no_ext E hE]; rfl
  have e1 : (s.count_conflict.set_conflict_lvl E).m_conflict_lvl = s.scope_lvl := by
    rw [set_conflict_lvl_no_ext E hE]; rfl
  have e2 : (s.count_conflict.set_conflict_lvl E).tracking_assumptions = s.tracking_assumptions := by
    rw [set_conflict_lvl_no_ext E hE]; rfl
  apply fin
  by_cases hcore : s.scope_lvl ≤ 1 ∧ s.tracking_assumptions = true
  · unfold resolve_conflict_core at h
    rw [e1, e2, if_pos hcore] at h
    simp only [Option.some.injEq, Prod.mk.injEq] at h
    apply of_eq
    rw [← h.2, resolve_conflict_for_unsat_core_marks E hmus, e0]
  · by_cases hd : s.scope_lvl = 0
    · unfold resolve_conflict_core at h
      rw [e1, e2, if_neg hcore, if_pos hd] at h
      simp only [Option.some.injEq, Prod.mk.injEq] at h
      apply of_eq
      rw [← h.2, e0]
    · have hd1 : 1 ≤ s.scope_lvl := by omega
      obtain ⟨p1, p2, p3, p4, p5, p6, p7, p8, p9, _⟩ := resolve_conflict_enter_spec E hE s
      have hinv1 : conflict_inv E (s.resolve_conflict_enter E) s.scope_lvl :=
        conflict_inv_congr E hE s _ _ p2 p3 p4 p5 p6 p7 p8 p9 (hinv hd1 hcore)
      obtain ⟨s1, u, tail, r1, _, _, _, _, r6, _, r8, _⟩ :=
        resolve_conflict_analysis_spec E hE (fun _ => False) _ _ hinv1 p1 hd1
          (sound_inv_empty _ _ _)
      rw [resolve_conflict_core_eq E hE fuel s hd1 hcore, r1] at h
      simp only [Option.some_bind] at h
      cases hb : s1.learn_lemma_and_backjump E fuel with
      | none => rw [hb] at h; cases h
      | some s2 =>
        rw [hb] at h
        simp only [Option.map_some', Option.some.injEq, Prod.mk.injEq] at h
        cases hp : s1.learn_lemma_prepare E fuel with
        | none =>
          unfold learn_lemma_and_backjump at hb
          rw [hp] at hb
          cases hb
        | some s3 =>
          have hm3 := learn_lemma_prepare_marks E hE fuel s1 s3 u.neg tail r6 r8 hp
          have hm2 := learn_lemma_and_backjump_marks E fuel s1 s3 s2 hp hb
          intro v
          rw [← h.2]
          unfold is_marked
          rw [hm2]
          exact hm3 v

/-- C35 at a concrete conflict: `resolve_conflict_core` on `example_conflict`
runs the first-UIP analysis with lemma minimisation and returns
`example_resolved`, in which no variable is marked. -/
theorem C35_marks_clean_between_analyses_witness :
    (∀ x ∈ example_conflict.m_mark, x = false) ∧
    example_conflict.m_config.m_minimize_lemmas = true ∧
    resolve_conflict_core {} 10 example_conflict = some (true, example_resolved) ∧
    (∀ x ∈ example_resolved.m_mark, x = false) ∧
    (∀ v, example_resolved.is_marked v = false) ∧ example_resolved.check_marks = true :=
  ⟨by decide, by decide, rfl,
    C35_marks_clean_between_analyses {} rfl (fun _ => rfl) 10 example_conflict example_resolved
      true (by decide) (fun _ _ => example_conflict_inv) rfl⟩

/-! ## C28: the lemmas `copy` stores in the destination -/

theorem propagate_bin_clause_store (s : solver) (l1 l2 : literal) :
    (s.propagate_bin_clause l1 l2).2.m_cls_allocator = s.m_cls_allocator ∧
    (s.propagate_bin_clause l1 l2).2.m_learned = s.m_learned := by
  unfold propagate_bin_clause
  split
  · exact ⟨by simp, by simp⟩
  · split
    · exact ⟨by simp, by simp⟩
    · exact ⟨rfl, rfl⟩

theorem mk_bin_clause_store (s : solver) (l1 l2 : literal) (learned : Bool) :
    (s.mk_bin_clause l1 l2 learned).m_cls_allocator = s.m_cls_allocator ∧
    (s.mk_bin_clause l1 l2 learned).m_learned = s.m_learned := by
  unfold mk_bin_clause
  simp only
  have h := propagate_bin_clause_store s l1 l2
  split
  · exact h
  · split
    · exact ⟨by simpa using h.1, by simpa using h.2⟩
    · exact ⟨by simpa using h.1, by simpa using h.2⟩

theorem attach_ter_clause_learned (s : solver) (off : clause_offset) :
    (s.attach_ter_clause off).2.m_learned = s.m_learned := by
  unfold attach_ter_clause
  dsimp only
  split
  · split
    · simp
    · split
      · simp
      · split
        · simp
        · simp
  · simp

theorem mk_ter_clause_learned_store (s : solver) (lits : List literal) :
    (s.mk_ter_clause lits true).1 = s.m_cls_allocator.length ∧
    (s.mk_ter_clause lits true).2.m_cls_allocator =
      s.m_cls_allocator ++ [{ lits := lits, m_learned := true }] ∧
    (s.mk_ter_clause lits true).2.m_learned = s.m_learned ++ [s.m_cls_allocator.length] := by
  refine ⟨rfl, ?_, ?_⟩
  · simp [mk_ter_clause, push_clause_vector, attach_ter_clause_arena, alloc_clause,
      inc_mk_ter_clause]
  · simp [mk_ter_clause, push_clause_vector, attach_ter_clause_learned, alloc_clause,
      inc_mk_ter_clause]

theorem mk_nary_clause_learned_base (s : solver) (lits : List literal)
    (r : clause_offset × solver) (hb : s.m_scope_lvl = 0)
    (h : s.mk_nary_clause lits true = some r) :
    r.1 = s.m_cls_allocator.length ∧
    r.2.m_cls_allocator = s.m_cls_allocator ++ [{ lits := lits, m_learned := true }] ∧
    r.2.m_learned = s.m_learned ++ [s.m_cls_allocator.length] := by
  unfold mk_nary_clause at h
  split at h
  · simp only [Option.some.injEq] at h
    subst h
    have hb1 : (s.inc_mk_clause.alloc_clause lits true).2.at_base_lvl = true := by
      simp [at_base_lvl, hb]
    have ha : ∀ off, (s.inc_mk_clause.alloc_clause lits true).2.attach_nary_clause off =
        (false, (s.inc_mk_clause.alloc_clause lits true).2.push_nary_watches off) := by
      intro off
      unfold attach_nary_clause
      rw [hb1]
      rfl
    simp only [ha, Bool.false_and, Bool.false_eq_true, if_false]
    refine ⟨rfl, ?_, ?_⟩
    · simp [push_clause_vector, alloc_clause, inc_mk_clause]
    · simp [push_clause_vector, alloc_clause, inc_mk_clause]
  · cases h

theorem mk_clause_core_scope_lvl (s : solver) (lits : List literal) (learned : Bool)
    (r : Option clause_offset × solver) (h : s.mk_clause_core lits learned = some r) :
    r.2.m_scope_lvl = s.m_scope_lvl := by
  unfold mk_clause_core at h
  split at h
  · split at h
    · simp only [Option.some.injEq] at h
      subst h
      rfl
    · rw [(assign_ext_mk_clause_dispatch _ _ _ _ h).scope_lvl]
      simp
  · exact (assign_ext_mk_clause_dispatch _ _ _ _ h).scope_lvl

/-- What `mk_clause_core` does to the arena and to the learned vector for a
learned clause at the base level: nothing for fewer than three literals, and
otherwise one clause with the given literals at the end of both. -/
theorem mk_clause_core_learned_base (s : solver) (lits : List literal)
    (r : Option clause_offset × solver) (hb : s.m_scope_lvl = 0)
    (h : s.mk_clause_core lits true = some r) :
    (lits.length < 3 → r.1 = none ∧ r.2.m_cls_allocator = s.m_cls_allocator ∧
      r.2.m_learned = s.m_learned) ∧
    (3 ≤ lits.length → r.1 = some s.m_cls_allocator.length ∧
      r.2.m_cls_allocator = s.m_cls_allocator ++ [{ lits := lits, m_learned := true }] ∧
      r.2.m_learned = s.m_learned ++ [s.m_cls_allocator.length]) := by
  have hd : s.mk_clause_dispatch lits true = some r := by
    simpa [mk_clause_core] using h
  unfold mk_clause_dispatch at hd
  generalize hn : lits.length = n at hd
  rcases n with _ | _ | _ | _ | n
  · simp only [Option.some.injEq] at hd
    subst hd
    exact ⟨fun _ => ⟨rfl, by simp, by simp⟩, fun h3 => by omega⟩
  · simp only [Option.some.injEq] at hd
    subst hd
    exact ⟨fun _ => ⟨rfl, by simp, by simp⟩, fun h3 => by omega⟩
  · simp only [Option.some.injEq] at hd
    subst hd
    exact ⟨fun _ => ⟨rfl, (mk_bin_clause_store _ _ _ _).1, (mk_bin_clause_store _ _ _ _).2⟩,
      fun h3 => by omega⟩
  · simp only [Option.some.injEq] at hd
    subst hd
    obtain ⟨a, b, c⟩ := mk_ter_clause_learned_store s lits
    exact ⟨fun h3 => by omega, fun _ => ⟨by rw [a], b, c⟩⟩
  · simp only at hd
    split at hd
    · rename_i r1 hr1
      simp only [Option.some.injEq] at hd
      subst hd
      obtain ⟨a, b, c⟩ := mk_nary_clause_learned_base s lits r1 hb hr1
      exact ⟨fun h3 => by omega, fun _ => ⟨by rw [a], b, c⟩⟩
    · cases hd

theorem set_append_last {α : Type} (A : List α) (c c1 : α) :
    (A ++ [c]).set A.length c1 = A ++ [c1] := by
  induction A with
  | nil => rfl
  | cons a A ih => simp [ih]

theorem getD_append_last {α : Type} (A : List α) (c d : α) :
    (A ++ [c]).getD A.length d = c := by
  induction A with
  | nil => rfl
  | cons a A _ => simp

/-- One round of the loop of `copy` over the learned clauses, at the base
level: a lemma that passes the test and has three literals or more is put at
the end of the arena and of the learned vector with the glue and the psm of
the source, any other lemma leaves both as they are. -/
theorem copy_lemma_base (src d : solver) (o : clause_offset) (r : solver)
    (hb : d.m_scope_lvl = 0) (h : copy_lemma src d o = some r) :
    r.m_scope_lvl = 0 ∧
    r.m_cls_allocator = d.m_cls_allocator ++
      (([o].filter fun o => high_quality (src.get_clause o) &&
          decide (3 ≤ (src.get_clause o).size)).map fun o =>
        ({ lits := (src.get_clause o).lits, m_learned := true,
           m_glue := (src.get_clause o).m_glue, m_psm := (src.get_clause o).m_psm } : clause)) ∧
    r.m_learned = d.m_learned ++ List.range' d.m_cls_allocator.length
      ([o].filter fun o => high_quality (src.get_clause o) &&
        decide (3 ≤ (src.get_clause o).size)).length := by
  unfold copy_lemma at h
  by_cases hq : high_quality (src.get_clause o) = true
  · rw [if_pos hq] at h
    cases hm : d.mk_clause_core (src.get_clause o).lits true with
    | none => rw [hm] at h; cases h
    | some x =>
      obtain ⟨x1, d1⟩ := x
      have hs := mk_clause_core_scope_lvl d _ true _ hm
      obtain ⟨k1, k2⟩ := mk_clause_core_learned_base d _ _ hb hm
      rw [hm] at h
      by_cases h3 : 3 ≤ (src.get_clause o).size
      · obtain ⟨e1, e2, e3⟩ := k2 h3
        simp only at e1 e2 e3
        subst e1
        simp only [Option.some.injEq] at h
        subst h
        have hf : ([o].filter fun o => high_quality (src.get_clause o) &&
            decide (3 ≤ (src.get_clause o).size)) = [o] := by
          simp [hq, h3]
        rw [hf]
        refine ⟨by simp only [set_psm, set_glue, set_clause_m_scope_lvl]; exact hs.trans hb, ?_, ?_⟩
        · simp only [set_psm, set_glue, set_clause, get_clause, e2, set_append_last,
            getD_append_last, List.map_cons, List.map_nil]
        · simp [set_psm, set_glue, e3, List.range']
      · have hlt : (src.get_clause o).lits.length < 3 := by
          unfold clause.size at h3; omega
        obtain ⟨e1, e2, e3⟩ := k1 hlt
        simp only at e1 e2 e3
        subst e1
        simp only [Option.some.injEq] at h
        subst h
        have hf : ([o].filter fun o => high_quality (src.get_clause o) &&
            decide (3 ≤ (src.get_clause o).size)) = [] := by
          simp [h3]
        rw [hf]
        exact ⟨by rw [hs]; exact hb, by simp [e2], by simp [e3, List.range']⟩
  · rw [if_neg hq] at h
    simp only [Option.some.injEq] at h
    subst h
    have hf : ([o].filter fun o => high_quality (src.get_clause o) &&
        decide (3 ≤ (src.get_clause o).size)) = [] := by
      simp [hq]
    rw [hf]
    exact ⟨hb, by simp, by simp [List.range']⟩

/-- The loop of `copy` over the learned clauses, at the base level: the
lemmas that pass the test and have three literals or more are appended to
the arena and to the learned vector, in the order of the source and with its
glue and psm values, and nothing else is. -/
theorem copy_lemmas_base (src : solver) (ls : List clause_offset) :
    ∀ (d r : solver), d.m_scope_lvl = 0 → fold_opt (copy_lemma src) ls d = some r →
      r.m_scope_lvl = 0 ∧
      r.m_cls_allocator = d.m_cls_allocator ++
        ((ls.filter fun o => high_quality (src.get_clause o) &&
            decide (3 ≤ (src.get_clause o).size)).map fun o =>
          ({ lits := (src.get_clause o).lits, m_learned := true,
             m_glue := (src.get_clause o).m_glue, m_psm := (src.get_clause o).m_psm } : clause)) ∧
      r.m_learned = d.m_learned ++ List.range' d.m_cls_allocator.length
        (ls.filter fun o => high_quality (src.get_clause o) &&
          decide (3 ≤ (src.get_clause o).size)).length := by
  induction ls with
  | nil =>
    intro d r hb h
    simp only [fold_opt, Option.some.injEq] at h
    subst h
    exact ⟨hb, by simp, by simp [List.range']⟩
  | cons o ls ih =>
    intro d r hb h
    unfold fold_opt at h
    cases hs : copy_lemma src d o with
    | none => rw [hs] at h; cases h
    | some d1 =>
      rw [hs] at h
      simp only at h
      obtain ⟨a1, a2, a3⟩ := copy_lemma_base src d o d1 hb hs
      obtain ⟨b1, b2, b3⟩ := ih d1 r a1 h
      have hsplit : ((o :: ls).filter fun o => high_quality (src.get_clause o) &&
          decide (3 ≤ (src.get_clause o).size)) =
          ([o].filter fun o => high_quality (src.get_clause o) &&
            decide (3 ≤ (src.get_clause o).size)) ++
          (ls.filter fun o => high_quality (src.get_clause o) &&
            decide (3 ≤ (src.get_clause o).size)) := by
        rw [← List.filter_append]; rfl
      refine ⟨b1, ?_, ?_⟩
      · rw [b2, a2, hsplit, List.map_append, List.append_assoc]
      · rw [b3, a3, a2, hsplit, List.length_append, List.length_append, List.length_map,
          List.append_assoc, List.range'_append_1, Nat.add_comm]

theorem fold_opt_inv {α : Type} (f : solver → α → Option solver) (P : solver → Prop)
    (hf : ∀ d a r, P d → f d a = some r → P r) :
    ∀ (l : List α) (d r : solver), P d → fold_opt f l d = some r → P r := by
  intro l
  induction l with
  | nil =>
    intro d r hd h
    simp only [fold_opt, Option.some.injEq] at h
    subst h
    exact hd
  | cons a l ih =>
    intro d r hd h
    unfold fold_opt at h
    cases hs : f d a with
    | none => rw [hs] at h; cases h
    | some d1 =>
      rw [hs] at h
      exact ih d1 r (hf d a d1 hd hs) h

theorem fold_opt_returns {α : Type} (f : solver → α → Option solver)
    (l : List α) (hf : ∀ d, ∀ a ∈ l, ∃ r, f d a = some r) :
    ∀ d, ∃ r, fold_opt f l d = some r := by
  induction l with
  | nil => intro d; exact ⟨d, rfl⟩
  | cons a l ih =>
    intro d
    obtain ⟨d1, h1⟩ := hf d a (List.mem_cons_self _ _)
    obtain ⟨r, h2⟩ := ih (fun d b hb => hf d b (List.mem_cons_of_mem _ hb)) d1
    exact ⟨r, by unfold fold_opt; rw [h1]; exact h2⟩

/-- A round of the lemma loop of `copy` returns when the `VERIFY` of
`mk_nary_clause` holds for the lemma. -/
theorem copy_lemma_returns (src d : solver) (o : clause_offset)
    (hv : verify_adjacent (src.get_clause o).lits = true) : ∃ r, copy_lemma src d o = some r := by
  unfold copy_lemma
  split
  · have hd : ∃ x, d.mk_clause_core (src.get_clause o).lits true = some x := by
      unfold mk_clause_core mk_clause_dispatch
      simp only [Bool.not_true, Bool.false_eq_true, ↓reduceIte]
      split
      · exact ⟨_, rfl⟩
      · exact ⟨_, rfl⟩
      · exact ⟨_, rfl⟩
      · exact ⟨_, rfl⟩
      · unfold mk_nary_clause
        rw [if_pos hv]
        exact ⟨_, rfl⟩
    obtain ⟨x, hx⟩ := hd
    rw [hx]
    obtain ⟨x1, d1⟩ := x
    cases x1 with
    | none => exact ⟨_, rfl⟩
    | some off1 => exact ⟨_, rfl⟩
  · exact ⟨_, rfl⟩

theorem copy_var_scope_lvl (src d : solver) (v : bool_var) :
    (copy_var src d v).m_scope_lvl = d.m_scope_lvl := by
  unfold copy_var
  by_cases h : src.was_eliminated v = true
  · simp [h, mk_var]
  · simp [h, mk_var]

theorem pop_to_base_level_scope_lvl (s : solver) : s.pop_to_base_level.m_scope_lvl = 0 := by
  unfold pop_to_base_level
  rw [pop_m_scope_lvl]
  simp [reset_assumptions, scope_lvl]

theorem foldl_scope_lvl {α : Type} (f : solver → α → solver)
    (hf : ∀ d a, (f d a).m_scope_lvl = d.m_scope_lvl) (l : List α) (d : solver) :
    (l.foldl f d).m_scope_lvl = d.m_scope_lvl := by
  induction l generalizing d with
  | nil => rfl
  | cons a l ih => rw [List.foldl_cons, ih, hf]

theorem copy_bin_entry_scope_lvl (src : solver) (l : literal) (d : solver) (w : watched)
    (r : solver) (hd : d.m_scope_lvl = 0) (h : copy_bin_entry src l d w = some r) :
    r.m_scope_lvl = 0 := by
  cases w with
  | binary l2 learned =>
    simp only [copy_bin_entry] at h
    by_cases hl : learned = true
    · rw [if_pos hl] at h
      simp only [Option.some.injEq] at h; subst h; exact hd
    · rw [if_neg hl] at h
      by_cases hc : (decide (l.index > l2.index) || src.was_eliminated l2.var) = true
      · rw [if_pos hc] at h
        simp only [Option.some.injEq] at h; subst h; exact hd
      · rw [if_neg hc] at h
        cases hm : d.mk_clause_core [l, l2] false with
        | none => rw [hm] at h; cases h
        | some x =>
          rw [hm] at h
          simp only [Option.map_some', Option.some.injEq] at h
          subst h
          rw [mk_clause_core_scope_lvl d _ _ _ hm]; exact hd
  | ternary l2 l3 =>
    simp only [copy_bin_entry, Option.some.injEq] at h; subst h; exact hd
  | clause b off =>
    simp only [copy_bin_entry, Option.some.injEq] at h; subst h; exact hd
  | ext_constraint idx =>
    simp only [copy_bin_entry, Option.some.injEq] at h; subst h; exact hd

theorem copy_bin_wlist_scope_lvl (src d : solver) (i : Nat) (r : solver)
    (hd : d.m_scope_lvl = 0) (h : copy_bin_wlist src d i = some r) : r.m_scope_lvl = 0 := by
  unfold copy_bin_wlist at h
  split at h
  · simp only [Option.some.injEq] at h; subst h; exact hd
  · exact fold_opt_inv _ (fun t => t.m_scope_lvl = 0)
      (fun t w r1 ht hr => copy_bin_entry_scope_lvl src _ t w r1 ht hr) _ _ _ hd h

theorem copy_clause_scope_lvl (src d : solver) (off : clause_offset) (r : solver)
    (hd : d.m_scope_lvl = 0) (h : copy_clause src d off = some r) : r.m_scope_lvl = 0 := by
  unfold copy_clause at h
  cases hm : d.mk_clause_core (src.get_clause off).lits false with
  | none => rw [hm] at h; cases h
  | some x =>
    rw [hm] at h
    simp only [Option.map_some', Option.some.injEq] at h
    subst h
    rw [mk_clause_core_scope_lvl d _ _ _ hm]; exact hd

/-- The destination is at the base level when `copy` reaches the loop over
the learned clauses of the source. -/
theorem copy_before_lemmas_base (dst src d1 d2 : solver)
    (h1 : fold_opt (copy_bin_wlist src) (List.range src.m_watches.length)
      ((src.m_trail.take src.init_trail_size).foldl (fun d l => d.assign l .none)
        ((List.range' dst.pop_to_base_level.num_vars
          (src.num_vars - dst.pop_to_base_level.num_vars)).foldl (copy_var src)
          dst.pop_to_base_level)) = some d1)
    (h2 : fold_opt (copy_clause src) src.m_clauses d1 = some d2) : d2.m_scope_lvl = 0 := by
  have h0 : ((src.m_trail.take src.init_trail_size).foldl (fun d l => d.assign l .none)
      ((List.range' dst.pop_to_base_level.num_vars
        (src.num_vars - dst.pop_to_base_level.num_vars)).foldl (copy_var src)
        dst.pop_to_base_level)).m_scope_lvl = 0 := by
    rw [foldl_scope_lvl _ (fun d l => by simp), foldl_scope_lvl _ (copy_var_scope_lvl src),
      pop_to_base_level_scope_lvl]
  have hd1 := fold_opt_inv _ (fun t => t.m_scope_lvl = 0)
    (fun t i r1 ht hr => copy_bin_wlist_scope_lvl src t i r1 ht hr) _ _ _ h0 h1
  exact fold_opt_inv _ (fun t => t.m_scope_lvl = 0)
    (fun t i r1 ht hr => copy_clause_scope_lvl src t i r1 ht hr) _ _ _ hd1 h2

/-- C28: in `copy`, the lemma at `off` of the source is "of high quality"
when its glue is at most 2, or its size is at most 40 and its glue at most 8.
A lemma that is not of high quality leaves the destination as it is; a lemma
of high quality is handed to `mk_clause_core` of the destination as a learned
clause, and when that stores a clause (at `off1`), the stored clause is in the
learned vector and carries the glue and the psm of the source lemma, the
other clauses of the arena staying as `mk_clause_core` left them.  So the
loop over the learned vector of the source is the loop over its lemmas of
high quality.  Run at the base level, the loop appends to the arena and to
the learned vector of the destination exactly the lemmas of high quality with
three literals or more, in the order of the source, each with the literals,
the glue and the psm of the source, and changes no other entry of either;
it returns when the `VERIFY` of `mk_nary_clause` holds for the lemmas.
`copy` runs this loop on the destination `d2` it has built from the
variables, the units, the binary clauses and the clauses of the source, which
is at the base level, and returns its result with the user scope literals
and the model converter of the source: the arena and the learned vector of
the copy are those of `d2` followed by the transferred lemmas. -/
theorem C28_copy_lemmas (src dst : solver) (off : clause_offset) :
    (high_quality (src.get_clause off) = true ↔
      (src.get_clause off).m_glue ≤ 2 ∨
        ((src.get_clause off).size ≤ 40 ∧ (src.get_clause off).m_glue ≤ 8)) ∧
    (high_quality (src.get_clause off) = false → copy_lemma src dst off = some dst) ∧
    (high_quality (src.get_clause off) = true →
      (dst.mk_clause_core (src.get_clause off).lits true = none →
        copy_lemma src dst off = none) ∧
      (∀ d, dst.mk_clause_core (src.get_clause off).lits true = some (none, d) →
        copy_lemma src dst off = some d) ∧
      (∀ off1 d, dst.mk_clause_core (src.get_clause off).lits true = some (some off1, d) →
        ∃ r, copy_lemma src dst off = some r ∧ off1 ∈ r.m_learned ∧
          (r.get_clause off1).m_glue = (src.get_clause off).m_glue ∧
          (r.get_clause off1).m_psm = (src.get_clause off).m_psm ∧
          (r.get_clause off1).lits = (d.get_clause off1).lits ∧
          (∀ i, i ≠ off1 → r.get_clause i = d.get_clause i) ∧
          r.m_watches = d.m_watches ∧ r.m_trail = d.m_trail)) ∧
    (∀ d2, fold_opt (copy_lemma src) src.m_learned d2
      = fold_opt (copy_lemma src)
          (src.m_learned.filter fun o => high_quality (src.get_clause o)) d2) ∧
    (∀ d2 d3, d2.m_scope_lvl = 0 → fold_opt (copy_lemma src) src.m_learned d2 = some d3 →
      d3.m_scope_lvl = 0 ∧
      d3.m_cls_allocator = d2.m_cls_allocator ++
        ((src.m_learned.filter fun o =>
            (decide ((src.get_clause o).m_glue ≤ 2) ||
              (decide ((src.get_clause o).size ≤ 40) && decide ((src.get_clause o).m_glue ≤ 8))) &&
            decide (3 ≤ (src.get_clause o).size)).map fun o =>
          ({ lits := (src.get_clause o).lits, m_learned := true,
             m_glue := (src.get_clause o).m_glue, m_psm := (src.get_clause o).m_psm } : clause)) ∧
      d3.m_learned = d2.m_learned ++ List.range' d2.m_cls_allocator.length
        (src.m_learned.filter fun o =>
          (decide ((src.get_clause o).m_glue ≤ 2) ||
            (decide ((src.get_clause o).size ≤ 40) && decide ((src.get_clause o).m_glue ≤ 8))) &&
          decide (3 ≤ (src.get_clause o).size)).length) ∧
    (∀ d2, (∀ o ∈ src.m_learned, verify_adjacent (src.get_clause o).lits = true) →
      ∃ d3, fold_opt (copy_lemma src) src.m_learned d2 = some d3) ∧
    (∀ d1 d2,
      fold_opt (copy_bin_wlist src) (List.range src.m_watches.length)
        ((src.m_trail.take src.init_trail_size).foldl (fun d l => d.assign l .none)
          ((List.range' dst.pop_to_base_level.num_vars
            (src.num_vars - dst.pop_to_base_level.num_vars)).foldl (copy_var src)
            dst.pop_to_base_level)) = some d1 →
      fold_opt (copy_clause src) src.m_clauses d1 = some d2 →
      d2.m_scope_lvl = 0 ∧
      copy dst src = (fold_opt (copy_lemma src) src.m_learned d2).map fun d3 =>
        { d3 with m_user_scope_literals := src.m_user_scope_literals, m_mc := src.m_mc }) ∧
    (∀ r, copy dst src = some r → ∃ d1 d2 d3,
      fold_opt (copy_bin_wlist src) (List.range src.m_watches.length)
        ((src.m_trail.take src.init_trail_size).foldl (fun d l => d.assign l .none)
          ((List.range' dst.pop_to_base_level.num_vars
            (src.num_vars - dst.pop_to_base_level.num_vars)).foldl (copy_var src)
            dst.pop_to_base_level)) = some d1 ∧
      fold_opt (copy_clause src) src.m_clauses d1 = some d2 ∧
      fold_opt (copy_lemma src) src.m_learned d2 = some d3 ∧
      r = { d3 with m_user_scope_literals := src.m_user_scope_literals, m_mc := src.m_mc } ∧
      r.m_cls_allocator = d2.m_cls_allocator ++
        ((src.m_learned.filter fun o =>
            (decide ((src.get_clause o).m_glue ≤ 2) ||
              (decide ((src.get_clause o).size ≤ 40) && decide ((src.get_clause o).m_glue ≤ 8))) &&
            decide (3 ≤ (src.get_clause o).size)).map fun o =>
          ({ lits := (src.get_clause o).lits, m_learned := true,
             m_glue := (src.get_clause o).m_glue, m_psm := (src.get_clause o).m_psm } : clause)) ∧
      r.m_learned = d2.m_learned ++ List.range' d2.m_cls_allocator.length
        (src.m_learned.filter fun o =>
          (decide ((src.get_clause o).m_glue ≤ 2) ||
            (decide ((src.get_clause o).size ≤ 40) && decide ((src.get_clause o).m_glue ≤ 8))) &&
          decide (3 ≤ (src.get_clause o).size)).length) := by
  have hfold : ∀ d2, fold_opt (copy_lemma src) src.m_learned d2
      = fold_opt (copy_lemma src)
          (src.m_learned.filter fun o => high_quality (src.get_clause o)) d2 := by
    intro d2
    apply fold_opt_filter
    intro d a ha
    unfold copy_lemma
    rw [ha]; rfl
  have hloop : ∀ d2 d3, d2.m_scope_lvl = 0 →
      fold_opt (copy_lemma src) src.m_learned d2 = some d3 →
      d3.m_scope_lvl = 0 ∧
      d3.m_cls_allocator = d2.m_cls_allocator ++
        ((src.m_learned.filter fun o =>
            (decide ((src.get_clause o).m_glue ≤ 2) ||
              (decide ((src.get_clause o).size ≤ 40) && decide ((src.get_clause o).m_glue ≤ 8))) &&
            decide (3 ≤ (src.get_clause o).size)).map fun o =>
          ({ lits := (src.get_clause o).lits, m_learned := true,
             m_glue := (src.get_clause o).m_glue, m_psm := (src.get_clause o).m_psm } : clause)) ∧
      d3.m_learned = d2.m_learned ++ List.range' d2.m_cls_allocator.length
        (src.m_learned.filter fun o =>
          (decide ((src.get_clause o).m_glue ≤ 2) ||
            (decide ((src.get_clause o).size ≤ 40) && decide ((src.get_clause o).m_glue ≤ 8))) &&
          decide (3 ≤ (src.get_clause o).size)).length :=
    fun d2 d3 hb h => copy_lemmas_base src src.m_learned d2 d3 hb h
  refine ⟨?_, ?_, ?_, hfold, hloop, ?_, ?_, ?_⟩
  · simp [high_quality]
  · intro h
    unfold copy_lemma
    rw [h]; rfl
  · intro h
    refine ⟨?_, ?_, ?_⟩
    · intro hm
      unfold copy_lemma
      rw [h, hm]; rfl
    · intro d hm
      unfold copy_lemma
      rw [h, hm]; rfl
    · intro off1 d hm
      have hoff := mk_clause_core_learned_offset dst _ off1 d hm
      refine ⟨(d.set_glue off1 (src.get_clause off).m_glue).set_psm off1
        (src.get_clause off).m_psm, ?_, hoff.2, ?_, ?_, ?_, ?_, rfl, rfl⟩
      · unfold copy_lemma
        rw [h, hm]; rfl
      · unfold set_psm set_glue
        rw [get_clause_set_clause_self _ _ _ (by simpa using hoff.1),
          get_clause_set_clause_self _ _ _ hoff.1]
      · unfold set_psm set_glue
        rw [get_clause_set_clause_self _ _ _ (by simpa using hoff.1)]
      · unfold set_psm set_glue
        rw [get_clause_set_clause_self _ _ _ (by simpa using hoff.1),
          get_clause_set_clause_self _ _ _ hoff.1]
      · intro i hi
        unfold set_psm set_glue
        rw [get_clause_set_clause_ne _ _ _ _ (Ne.symm hi),
          get_clause_set_clause_ne _ _ _ _ (Ne.symm hi)]
  · intro d2 hv
    exact fold_opt_returns _ _ (fun d o ho => copy_lemma_returns src d o (hv o ho)) d2
  · intro d1 d2 h1 h2
    refine ⟨copy_before_lemmas_base dst src d1 d2 h1 h2, ?_⟩
    unfold copy
    rw [h1]
    simp only
    rw [h2]
    simp only
    cases fold_opt (copy_lemma src) src.m_learned d2 <;> rfl
  · intro r hr
    unfold copy at hr
    split at hr
    · cases hr
    · rename_i d1 h1
      split at hr
      · cases hr
      · rename_i d2 h2
        split at hr
        · cases hr
        · rename_i d3 h3
          simp only [Option.some.injEq] at hr
          obtain ⟨_, a2, a3⟩ := hloop d2 d3 (copy_before_lemmas_base dst src d1 d2 h1 h2) h3
          refine ⟨d1, d2, d3, h1, h2, h3, hr.symm, ?_, ?_⟩
          · rw [← hr]; exact a2
          · rw [← hr]; exact a3

/-- C28 at a concrete source: `copy` into the empty solver from
`example_copy_src` returns; the clause goes to offset 0, the lemmas of glue 2
and of glue 5 follow at the offsets 1 and 2 with their glue and psm values,
and the lemma of glue 9 is not transferred. -/
theorem C28_copy_lemmas_witness :
    ((copy {} example_copy_src).map fun r => (r.m_clauses, r.m_learned, r.m_cls_allocator)) =
      some ([0], [1, 2],
        [{ lits := [⟨0⟩, ⟨2⟩, ⟨4⟩] },
          { lits := [⟨1⟩, ⟨2⟩, ⟨6⟩], m_learned := true, m_glue := 2, m_psm := 3 },
          { lits := [⟨0⟩, ⟨3⟩, ⟨5⟩, ⟨7⟩], m_learned := true, m_glue := 5, m_psm := 1 }]) ∧
    (high_quality (example_copy_src.get_clause 3) = true ↔
      (example_copy_src.get_clause 3).m_glue ≤ 2 ∨
        ((example_copy_src.get_clause 3).size ≤ 40 ∧
          (example_copy_src.get_clause 3).m_glue ≤ 8)) ∧
    high_quality (example_copy_src.get_clause 3) = false :=
  ⟨by decide, (C28_copy_lemmas example_copy_src {} 3).1, by decide⟩

end solver

end sat
